import Mathlib

/-!
# avilib 1.1.5: reader and writer

A shallow embedding of `avilib.c`.

The reader: the audio cursor (`AVI_set_audio_position`,
`AVI_set_audio_position_index`, `AVI_read_audio`, `AVI_read_audio_chunk`), the
video cursor (`AVI_set_video_position`, `AVI_read_video`, `AVI_read_frame`), the
interleaving oracle `AVI_can_read_audio`, and the opening of a file,
`AVI_open_indexfd` with `avi_parse_input_file`: the scan of the top-level
chunks, the interpretation of the header list, the detection of the base of
the offsets of `idx1`, and the builders of the indexes (the legacy `idx1`
branch, the OpenDML video and audio readers, the raw scan of the movi list and
the sidecar reader `avi_parse_index_from_file`).

The writer: the byte codec (`long2str`, `str2ulong` and its variants), the
chunk output `avi_add_chunk`, the legacy index and the OpenDML indexes with the
rotation to a new RIFF chunk (`avi_add_index_entry`,
`avi_add_odml_index_entry`), `AVI_write_frame` and `AVI_write_audio`, the
header output of `avi_update_header` and `avi_close_output_file`, and the end
of `avi_close_output_file`.

Conventions of the embedding.

* `long` and `off_t` values are mathematical integers (`Int`), 64 bits being
  wide enough for the cursor arithmetic and for the byte counts summed by the
  builders; `uint32_t` values are reduced modulo `2^32` where they are formed.
* A C array is a `List`; a pointer that may be `NULL` is an `Option`.  An
  access outside the allocated array is undefined behaviour in C and makes
  the embedded function return `none`.
* An operation of the API returns an `outcome`: the C return value, the handle
  after the call, the process-wide `AVI_errno` after the call, the bytes
  stored into the caller's buffer and the value stored through the `keyframe`
  pointer.  A builder returns the handle it leaves, or the code of its
  `ERR_EXIT`.
* The descriptor of a handle is the file behind it: its bytes and the current
  offset.
-/

namespace Avilib

/-! ## Data model -/

/-- Modelled from the spec: the audio index entry of `avilib.h` (the header is
not among the sources).  `pos` is the file offset of the chunk payload, `len`
its length and `tot` the number of bytes of the track that precede the chunk. -/
structure audio_index_entry where
  pos : Int := 0
  len : Int := 0
  tot : Int := 0
deriving DecidableEq, Repr

/-- Modelled from the spec: the video index entry of `avilib.h`.  `key` holds
the legacy index flags (`0x10` marks a keyframe), `pos` the file offset of the
frame payload and `len` its length. -/
structure video_index_entry where
  key : Int := 0
  pos : Int := 0
  len : Int := 0
deriving DecidableEq, Repr

/-- Modelled from the spec: an open platform descriptor (the platform I/O
façade `platform.h` is not among the sources).  It is the byte content of the
file together with the current file offset; `limit`, if present, is the size
beyond which the device accepts no byte (a full device or a file size limit),
which is what makes a write come back short. -/
structure plat_file where
  data : List UInt8 := []
  offset : Nat := 0
  limit : Option Nat := none
deriving DecidableEq

/-- Modelled from the spec: a super-index (`indx`) entry of `avilib.h`: offset of
a standard index chunk, its size and its duration. -/
structure avisuperindex_entry where
  qwOffset : Int := 0
  dwSize : Int := 0
  dwDuration : Int := 0
deriving DecidableEq

/-- Modelled from the spec: an entry of a standard index (`ix##`) of `avilib.h`:
two `uint32_t`, the offset of the chunk payload from the base offset of the
index, and the size of the chunk with bit 31 set for a chunk that is not a
keyframe. -/
structure avistdindex_entry where
  dwOffset : Nat := 0
  dwSize : Nat := 0
deriving DecidableEq

/-- Modelled from the spec: a standard index (`avistdindex_chunk` of `avilib.h`).
`dwSize` is the number of entries the array `aIndex` was sized for,
`nEntriesInUse` the number of entries stored, `qwBaseOffset` the file offset
that the entries are relative to; `aIndex` is a pointer that is `NULL` until
`avi_add_std_index` allocates the array. -/
structure avistdindex_chunk where
  fcc : List UInt8 := [0, 0, 0, 0]
  dwSize : Nat := 0
  wLongsPerEntry : Nat := 0
  bIndexSubType : Nat := 0
  bIndexType : Nat := 0
  nEntriesInUse : Nat := 0
  dwChunkId : List UInt8 := [0, 0, 0, 0]
  qwBaseOffset : Nat := 0
  dwReserved3 : Nat := 0
  aIndex : Option (List avistdindex_entry) := none
deriving DecidableEq

/-- Modelled from the spec: the super-index of a stream (`avisuperindex_chunk`
of `avilib.h`).  The reader uses `nEntriesInUse` and `aIndex` only; the writer
also keeps the header fields of the `indx` chunk and `stdindex`, the array of
the standard indices of the stream. -/
structure avisuperindex_chunk where
  nEntriesInUse : Int := 0
  aIndex : List avisuperindex_entry := []
  fcc : List UInt8 := [0, 0, 0, 0]
  dwSize : Nat := 0
  wLongsPerEntry : Nat := 0
  bIndexSubType : Nat := 0
  bIndexType : Nat := 0
  dwChunkId : List UInt8 := [0, 0, 0, 0]
  stdindex : List avistdindex_chunk := []
deriving DecidableEq

/-- Modelled from the spec: the per-track audio record of `avilib.h`: the
format fields set by `AVI_set_audio` or read from the header (`a_fmt`,
`a_chans`, `a_rate`, `a_bits`, `mp3rate`, `a_vbr`, `padrate`), the stream
number and tag, the byte and chunk counts, the reading cursor and the two
indexes. -/
structure track_t where
  audio_strn : Int := 0
  audio_bytes : Int := 0
  audio_chunks : Int := 0
  audio_tag : List UInt8 := []
  audio_posc : Int := 0
  audio_posb : Int := 0
  audio_index : Option (List audio_index_entry) := none
  audio_superindex : Option avisuperindex_chunk := none
  a_fmt : Int := 0
  a_chans : Int := 0
  a_rate : Int := 0
  a_bits : Int := 0
  mp3rate : Int := 0
  a_vbr : Int := 0
  padrate : Int := 0

/-- Modelled from the spec: the file handle `avi_t` of `avilib.h`.  `track` is
the fixed array of audio tracks and `aptr` the index of the current one; `pos`
is the write position, `idx` the legacy index (an array of `max_idx` records of
16 bytes, `n_idx` of them filled), `max_len` (a `uint32_t`) the longest chunk
seen, `video_superindex` the OpenDML super-index of the video stream.  `width`,
`height`, `fps` and `compressor` (an array of 8 characters) are the video
format, `extradata` with `extradata_size` (an `unsigned long`) the codec data
that follows it in the header.  `fps` is a `double`, shown as a rational number:
the arithmetic on it is exact.  `comment_fd` is the descriptor of the text from
which the INFO list is filled at close (none if it is not positive). -/
structure avi_t where
  fdes : plat_file := {}
  mode : Int := 0
  video_frames : Int := 0
  video_pos : Int := 0
  video_index : Option (List video_index_entry) := none
  video_tag : List UInt8 := []
  idx : Option (List (List UInt8)) := none
  n_idx : Int := 0
  movi_start : Int := 0
  total_frames : Int := 0
  is_opendml : Int := 0
  anum : Int := 0
  aptr : Nat := 0
  track : Nat → track_t := fun _ => {}
  pos : Int := 0
  max_idx : Int := 0
  max_len : Int := 0
  video_superindex : Option avisuperindex_chunk := none
  last_pos : Int := 0
  last_len : Int := 0
  width : Int := 0
  height : Int := 0
  fps : ℚ := 0
  compressor : List UInt8 := [0, 0, 0, 0, 0, 0, 0, 0]
  must_use_index : Int := 0
  extradata : Option (List UInt8) := none
  extradata_size : Nat := 0
  comment_fd : Int := 0

/-- Modelled from the spec: `AVI_MODE_WRITE` of `avilib.h`. -/
def AVI_MODE_WRITE : Int := 0

/-- Modelled from the spec: `AVI_MODE_READ` of `avilib.h`. -/
def AVI_MODE_READ : Int := 1

/-- Modelled from the spec: error code "out-of-memory"; entry 8 of `avi_errors`. -/
def AVI_ERR_NO_MEM : Int := 8

/-- Modelled from the spec: error code "no-video-stream"; entry 12 of
`avi_errors`. -/
def AVI_ERR_NO_VIDS : Int := 12

/-- Modelled from the spec: error code "read-failed"; entry 3 of `avi_errors`. -/
def AVI_ERR_READ : Int := 3

/-- Modelled from the spec: error code "write-failed"; entry 4 of `avi_errors`. -/
def AVI_ERR_WRITE : Int := 4

/-- Modelled from the spec: error code "write-index-failed"; entry 5 of
`avi_errors`. -/
def AVI_ERR_WRITE_INDEX : Int := 5

/-- Modelled from the spec: error code "close-failed"; entry 6 of `avi_errors`. -/
def AVI_ERR_CLOSE : Int := 6

/-- Modelled from the spec: error code "not-permitted-in-current-mode"; entry 7
of `avi_errors`. -/
def AVI_ERR_NOT_PERM : Int := 7

/-- Modelled from the spec: error code "no-index-available"; entry 13 of
`avi_errors`. -/
def AVI_ERR_NO_IDX : Int := 13

/-- Modelled from the spec: error code "destination-buffer-too-small"; entry 14
of `avi_errors`. -/
def AVI_ERR_NO_BUFSIZE : Int := 14

/-- What a call leaves behind: return value, handle, `AVI_errno`, the bytes
stored into the caller's buffer (in order) and the value stored through the
`keyframe` pointer, if any. -/
structure outcome where
  ret : Int
  AVI : avi_t
  AVI_errno : Int
  buf : List UInt8 := []
  keyframe : Option Int := none

/-- C array subscript `a[i]` with a signed index; `none` outside the array. -/
def at_index {α : Type} (a : List α) (i : Int) : Option α :=
  if 0 ≤ i then a[i.toNat]? else none

/-- Store `t` into `AVI->track[j]`. -/
def avi_t.set_track (AVI : avi_t) (j : Nat) (t : track_t) : avi_t :=
  { AVI with track := Function.update AVI.track j t }

/-! ## Platform I/O -/

/-- Modelled from the spec: `plat_seek(fd, pos, SEEK_SET)` of the platform
façade, as `lseek`: a negative target fails with `-1` and leaves the offset
alone, any other target becomes the offset and is returned. -/
def plat_seek_set (fdes : plat_file) (pos : Int) : Int × plat_file :=
  if pos < 0 then (-1, fdes) else (pos, { fdes with offset := pos.toNat })

/-- Modelled from the spec: `plat_seek(fd, off, SEEK_CUR)` of the platform
façade, as `lseek`. -/
def plat_seek_cur (fdes : plat_file) (off : Int) : Int × plat_file :=
  if (fdes.offset : Int) + off < 0 then (-1, fdes)
  else ((fdes.offset : Int) + off, { fdes with offset := ((fdes.offset : Int) + off).toNat })

/-- Modelled from the spec: `plat_read(fd, buf, count)` of the platform façade,
as `read` on a regular file: `count` is a `long` converted to `size_t` (a
negative count becomes `count + 2^64`), the bytes from the current offset up to
`count` or the end of the file are delivered, the offset advances by their
number, which is returned. -/
def plat_read (fdes : plat_file) (count : Int) : Int × List UInt8 × plat_file :=
  let got := (fdes.data.drop fdes.offset).take
    (if 0 ≤ count then count.toNat else (count + 2 ^ 64).toNat)
  (got.length, got, { fdes with offset := fdes.offset + got.length })

/-! ## Audio cursor -/

/-- The loop of `AVI_set_audio_position`:
`while (n0 < n1 - 1) { n = (n0 + n1) / 2; if (audio_index[n].tot > byte) n1 = n; else n0 = n; }`
and the value of `n0` at its exit. -/
def AVI_set_audio_position_search (audio_index : List audio_index_entry) (byte : Int)
    (n0 n1 : Int) : Option Int :=
  if n0 < n1 - 1 then
    match at_index audio_index ((n0 + n1).tdiv 2) with
    | none => none
    | some e =>
      if e.tot > byte then
        AVI_set_audio_position_search audio_index byte n0 ((n0 + n1).tdiv 2)
      else
        AVI_set_audio_position_search audio_index byte ((n0 + n1).tdiv 2) n1
  else some n0
termination_by (n1 - n0).toNat
decreasing_by
  all_goals simp_wf
  all_goals
    rcases Int.le_total 0 (n0 + n1) with h | h
    · rw [Int.tdiv_eq_ediv h (by decide)]
      omega
    · have h2 : (n0 + n1).tdiv 2 = -((-(n0 + n1)) / 2) := by
        rw [← Int.tdiv_eq_ediv (by omega) (by decide), Int.neg_tdiv, neg_neg]
      rw [h2]
      omega

/-- `AVI_set_audio_position(AVI, byte)`. -/
def AVI_set_audio_position (AVI : avi_t) (AVI_errno : Int) (byte : Int) : Option outcome :=
  if AVI.mode = AVI_MODE_WRITE then
    some { ret := -1, AVI := AVI, AVI_errno := AVI_ERR_NOT_PERM }
  else
    match (AVI.track AVI.aptr).audio_index with
    | none => some { ret := -1, AVI := AVI, AVI_errno := AVI_ERR_NO_IDX }
    | some audio_index =>
      let byte := if byte < 0 then 0 else byte
      match AVI_set_audio_position_search audio_index byte 0
          (AVI.track AVI.aptr).audio_chunks with
      | none => none
      | some n0 =>
        match at_index audio_index n0 with
        | none => none
        | some e =>
          some { ret := 0
                 AVI := AVI.set_track AVI.aptr
                   { AVI.track AVI.aptr with audio_posc := n0, audio_posb := byte - e.tot }
                 AVI_errno := AVI_errno }

/-- `AVI_set_audio_position_index(AVI, indexpos)`. -/
def AVI_set_audio_position_index (AVI : avi_t) (AVI_errno : Int) (indexpos : Int) : outcome :=
  if AVI.mode = AVI_MODE_WRITE then
    { ret := -1, AVI := AVI, AVI_errno := AVI_ERR_NOT_PERM }
  else
    match (AVI.track AVI.aptr).audio_index with
    | none => { ret := -1, AVI := AVI, AVI_errno := AVI_ERR_NO_IDX }
    | some _ =>
      if indexpos > (AVI.track AVI.aptr).audio_chunks then
        { ret := -1, AVI := AVI, AVI_errno := AVI_ERR_NO_IDX }
      else
        { ret := 0
          AVI := AVI.set_track AVI.aptr
            { AVI.track AVI.aptr with audio_posc := indexpos, audio_posb := 0 }
          AVI_errno := AVI_errno }

/-- The local state of `AVI_read_audio` when it returns: the value returned,
the descriptor, the cursor, the bytes stored at `audbuf` and `AVI_errno`. -/
structure read_audio_exit where
  ret : Int
  fdes : plat_file
  audio_posc : Int
  audio_posb : Int
  buf : List UInt8
  AVI_errno : Int

set_option linter.unusedVariables false in
/-- The loop `while (bytes > 0) { ... }` of `AVI_read_audio` over the fields it
reads and writes: the descriptor, the cursor `(audio_posc, audio_posb)` of the
current track, `bytes`, `nr`, and the `nr` bytes stored at `audbuf` so far. -/
def AVI_read_audio_loop (audio_index : List audio_index_entry) (audio_chunks : Int)
    (AVI_errno : Int) (fdes : plat_file) (audio_posc audio_posb bytes nr : Int)
    (buf : List UInt8) : Option read_audio_exit :=
  if hb : bytes > 0 then
    match at_index audio_index audio_posc with
    | none => none
    | some e =>
      if hl : e.len - audio_posb = 0 then
        if hc : audio_posc ≥ audio_chunks - 1 then
          some { ret := nr, fdes := fdes, audio_posc := audio_posc, audio_posb := audio_posb,
                 buf := buf, AVI_errno := AVI_errno }
        else
          AVI_read_audio_loop audio_index audio_chunks AVI_errno fdes (audio_posc + 1) 0
            bytes nr buf
      else
        if hr : (plat_read (plat_seek_set fdes (e.pos + audio_posb)).2
              (if bytes < e.len - audio_posb then bytes else e.len - audio_posb)).1
            ≠ (if bytes < e.len - audio_posb then bytes else e.len - audio_posb) then
          some { ret := -1
                 fdes := (plat_read (plat_seek_set fdes (e.pos + audio_posb)).2
                   (if bytes < e.len - audio_posb then bytes else e.len - audio_posb)).2.2
                 audio_posc := audio_posc, audio_posb := audio_posb
                 buf := buf ++ (plat_read (plat_seek_set fdes (e.pos + audio_posb)).2
                   (if bytes < e.len - audio_posb then bytes else e.len - audio_posb)).2.1
                 AVI_errno := AVI_ERR_READ }
        else
          AVI_read_audio_loop audio_index audio_chunks AVI_errno
            (plat_read (plat_seek_set fdes (e.pos + audio_posb)).2
              (if bytes < e.len - audio_posb then bytes else e.len - audio_posb)).2.2
            audio_posc
            (audio_posb + (if bytes < e.len - audio_posb then bytes else e.len - audio_posb))
            (bytes - (if bytes < e.len - audio_posb then bytes else e.len - audio_posb))
            (nr + (if bytes < e.len - audio_posb then bytes else e.len - audio_posb))
            (buf ++ (plat_read (plat_seek_set fdes (e.pos + audio_posb)).2
              (if bytes < e.len - audio_posb then bytes else e.len - audio_posb)).2.1)
  else
    some { ret := nr, fdes := fdes, audio_posc := audio_posc, audio_posb := audio_posb,
           buf := buf, AVI_errno := AVI_errno }
termination_by bytes.toNat + (audio_chunks - 1 - audio_posc).toNat
decreasing_by
  · simp_wf
    omega
  · simp_wf
    have h0 : ∀ (f : plat_file) (c : Int), (0 : Int) ≤ (plat_read f c).1 := by
      intro f c
      simp only [plat_read]
      exact Int.ofNat_nonneg _
    have h1 := h0 (plat_seek_set fdes (e.pos + audio_posb)).2
      (if bytes < e.len - audio_posb then bytes else e.len - audio_posb)
    have h2 := not_not.mp hr
    simp only [dite_eq_ite] at h2
    rw [h2] at h1
    split at h1 <;> omega

/-- `AVI_read_audio(AVI, audbuf, bytes)`; `audbuf` is taken to point to at least
`bytes` bytes of storage. -/
def AVI_read_audio (AVI : avi_t) (AVI_errno : Int) (bytes : Int) : Option outcome :=
  if AVI.mode = AVI_MODE_WRITE then
    some { ret := -1, AVI := AVI, AVI_errno := AVI_ERR_NOT_PERM }
  else
    match (AVI.track AVI.aptr).audio_index with
    | none => some { ret := -1, AVI := AVI, AVI_errno := AVI_ERR_NO_IDX }
    | some audio_index =>
      match AVI_read_audio_loop audio_index (AVI.track AVI.aptr).audio_chunks AVI_errno
          (if bytes = 0 then (plat_seek_cur AVI.fdes 0).2 else AVI.fdes)
          (if bytes = 0 then (AVI.track AVI.aptr).audio_posc + 1
            else (AVI.track AVI.aptr).audio_posc)
          (if bytes = 0 then 0 else (AVI.track AVI.aptr).audio_posb)
          bytes 0 [] with
      | none => none
      | some x =>
        some { ret := x.ret
               AVI := { AVI with fdes := x.fdes }.set_track AVI.aptr
                 { AVI.track AVI.aptr with
                   audio_posc := x.audio_posc, audio_posb := x.audio_posb }
               AVI_errno := x.AVI_errno
               buf := x.buf }

/-- A buffer argument of the API: the `NULL` pointer, or a pointer to storage
large enough for what the call stores. -/
inductive caller_buffer where
  | NULL
  | storage
deriving DecidableEq

/-- `AVI_read_audio_chunk(AVI, audbuf)`. -/
def AVI_read_audio_chunk (AVI : avi_t) (AVI_errno : Int) (audbuf : caller_buffer) :
    Option outcome :=
  if AVI.mode = AVI_MODE_WRITE then
    some { ret := -1, AVI := AVI, AVI_errno := AVI_ERR_NOT_PERM }
  else
    match (AVI.track AVI.aptr).audio_index with
    | none => some { ret := -1, AVI := AVI, AVI_errno := AVI_ERR_NO_IDX }
    | some audio_index =>
      if (AVI.track AVI.aptr).audio_posc + 1 > (AVI.track AVI.aptr).audio_chunks then
        some { ret := -1, AVI := AVI, AVI_errno := AVI_errno }
      else
        match at_index audio_index (AVI.track AVI.aptr).audio_posc with
        | none => none
        | some e =>
          if audbuf = caller_buffer.NULL then
            some { ret := e.len - (AVI.track AVI.aptr).audio_posb
                   AVI := AVI, AVI_errno := AVI_errno }
          else if e.len - (AVI.track AVI.aptr).audio_posb = 0 then
            some { ret := 0
                   AVI := AVI.set_track AVI.aptr
                     { AVI.track AVI.aptr with
                       audio_posc := (AVI.track AVI.aptr).audio_posc + 1, audio_posb := 0 }
                   AVI_errno := AVI_errno }
          else if (plat_read (plat_seek_set AVI.fdes
                      (e.pos + (AVI.track AVI.aptr).audio_posb)).2
                    (e.len - (AVI.track AVI.aptr).audio_posb)).1
                  ≠ e.len - (AVI.track AVI.aptr).audio_posb then
            some { ret := -1
                   AVI := { AVI with fdes := (plat_read (plat_seek_set AVI.fdes
                      (e.pos + (AVI.track AVI.aptr).audio_posb)).2
                    (e.len - (AVI.track AVI.aptr).audio_posb)).2.2 }
                   AVI_errno := AVI_ERR_READ
                   buf := (plat_read (plat_seek_set AVI.fdes
                      (e.pos + (AVI.track AVI.aptr).audio_posb)).2
                    (e.len - (AVI.track AVI.aptr).audio_posb)).2.1 }
          else
            some { ret := e.len - (AVI.track AVI.aptr).audio_posb
                   AVI := { AVI with fdes := (plat_read (plat_seek_set AVI.fdes
                      (e.pos + (AVI.track AVI.aptr).audio_posb)).2
                    (e.len - (AVI.track AVI.aptr).audio_posb)).2.2 }.set_track AVI.aptr
                     { AVI.track AVI.aptr with
                       audio_posc := (AVI.track AVI.aptr).audio_posc + 1, audio_posb := 0 }
                   AVI_errno := AVI_errno
                   buf := (plat_read (plat_seek_set AVI.fdes
                      (e.pos + (AVI.track AVI.aptr).audio_posb)).2
                    (e.len - (AVI.track AVI.aptr).audio_posb)).2.1 }

/-- `AVI_can_read_audio(AVI)`; it changes neither the handle nor `AVI_errno`. -/
def AVI_can_read_audio (AVI : avi_t) : Option Int :=
  if AVI.mode = AVI_MODE_WRITE then some (-1)
  else
    match AVI.video_index with
    | none => some (-1)
    | some video_index =>
      match (AVI.track AVI.aptr).audio_index with
      | none => some (-1)
      | some audio_index =>
        if (AVI.track AVI.aptr).audio_posc ≥ (AVI.track AVI.aptr).audio_chunks then some 0
        else if AVI.video_pos ≥ AVI.video_frames then some 1
        else
          match at_index audio_index (AVI.track AVI.aptr).audio_posc,
              at_index video_index AVI.video_pos with
          | some a, some v => if a.pos < v.pos then some 1 else some 0
          | _, _ => none

/-! ## Video cursor -/

/-- `AVI_set_video_position(AVI, frame)`. -/
def AVI_set_video_position (AVI : avi_t) (AVI_errno : Int) (frame : Int) : outcome :=
  if AVI.mode = AVI_MODE_WRITE then
    { ret := -1, AVI := AVI, AVI_errno := AVI_ERR_NOT_PERM }
  else
    match AVI.video_index with
    | none => { ret := -1, AVI := AVI, AVI_errno := AVI_ERR_NO_IDX }
    | some _ =>
      { ret := 0
        AVI := { AVI with video_pos := if frame < 0 then 0 else frame }
        AVI_errno := AVI_errno }

/-- `AVI_read_video(AVI, vidbuf, bytes, keyframe)`; `keyframe` is taken to be a
valid pointer. -/
def AVI_read_video (AVI : avi_t) (AVI_errno : Int) (vidbuf : caller_buffer) (bytes : Int) :
    Option outcome :=
  if AVI.mode = AVI_MODE_WRITE then
    some { ret := -1, AVI := AVI, AVI_errno := AVI_ERR_NOT_PERM }
  else
    match AVI.video_index with
    | none => some { ret := -1, AVI := AVI, AVI_errno := AVI_ERR_NO_IDX }
    | some video_index =>
      if AVI.video_pos < 0 ∨ AVI.video_pos ≥ AVI.video_frames then
        some { ret := -1, AVI := AVI, AVI_errno := AVI_errno }
      else
        match at_index video_index AVI.video_pos with
        | none => none
        | some e =>
          if bytes ≠ -1 ∧ bytes < e.len then
            some { ret := -1, AVI := AVI, AVI_errno := AVI_ERR_NO_BUFSIZE }
          else if vidbuf = caller_buffer.NULL then
            some { ret := e.len
                   AVI := { AVI with video_pos := AVI.video_pos + 1 }
                   AVI_errno := AVI_errno
                   keyframe := some (if e.key = 0x10 then 1 else 0) }
          else if (plat_read (plat_seek_set AVI.fdes e.pos).2 e.len).1 ≠ e.len then
            some { ret := -1
                   AVI := { AVI with fdes := (plat_read (plat_seek_set AVI.fdes e.pos).2 e.len).2.2 }
                   AVI_errno := AVI_ERR_READ
                   buf := (plat_read (plat_seek_set AVI.fdes e.pos).2 e.len).2.1
                   keyframe := some (if e.key = 0x10 then 1 else 0) }
          else
            some { ret := e.len
                   AVI := { AVI with
                     fdes := (plat_read (plat_seek_set AVI.fdes e.pos).2 e.len).2.2
                     video_pos := AVI.video_pos + 1 }
                   AVI_errno := AVI_errno
                   buf := (plat_read (plat_seek_set AVI.fdes e.pos).2 e.len).2.1
                   keyframe := some (if e.key = 0x10 then 1 else 0) }

/-- `AVI_read_frame(AVI, vidbuf, keyframe)`. -/
def AVI_read_frame (AVI : avi_t) (AVI_errno : Int) (vidbuf : caller_buffer) : Option outcome :=
  AVI_read_video AVI AVI_errno vidbuf (-1)

/-! ## Byte codec and C library -/

/-- `PAD_EVEN(x)`, `((x) + 1) & ~1`: `x + 1` with bit 0 cleared. -/
def PAD_EVEN (x : Int) : Int := (x + 1) - (x + 1) % 2

/-- `str2ulong(str)`: the `int` expression
`str[0] | (str[1] << 8) | (str[2] << 16) | (str[3] << 24)` returned as a
`uint32_t`; `str + n` is `str.drop n`, and fewer than four bytes at `str` is an
access outside the array. -/
def str2ulong (str : List UInt8) : Option Nat :=
  match str with
  | b0 :: b1 :: b2 :: b3 :: _ =>
    some ((b0.toNat ||| (b1.toNat <<< 8) ||| (b2.toNat <<< 16) ||| (b3.toNat <<< 24)) % 2 ^ 32)
  | _ => none

/-- `str2ulong_len(str)`: `str2ulong(str) & 0x7fffffff`. -/
def str2ulong_len (str : List UInt8) : Option Nat :=
  (str2ulong str).map (fun c => c &&& 0x7fffffff)

/-- Conversion to `uint64_t` of the `int` whose 32 bits are `u`: sign extension. -/
def int_to_uint64 (u : Nat) : Nat :=
  if u < 2 ^ 31 then u else u + (2 ^ 64 - 2 ^ 32)

/-- `str2ullong(str)`: with `r` and `s` the two `int` expressions over
`str[0..3]` and `str[4..7]` converted to `uint64_t`,
`((s << 32) & 0xffffffff00000000ULL) | (r & 0xffffffffULL)`. -/
def str2ullong (str : List UInt8) : Option Nat :=
  match str2ulong str, str2ulong (str.drop 4) with
  | some r, some s =>
    some (((((int_to_uint64 s) <<< 32) % 2 ^ 64) &&& 0xffffffff00000000)
      ||| ((int_to_uint64 r) &&& 0xffffffff))
  | _, _ => none

/-- The C library's `tolower` in the C locale. -/
def tolower (c : UInt8) : UInt8 :=
  if 65 ≤ c.toNat ∧ c.toNat ≤ 90 then c + 32 else c

/-- The C library's `strncasecmp(s1, s2, n) == 0`: the first `n` bytes agree up
to case, or the strings agree up to case and end (at a zero byte) before that.
Both arguments are arrays of at least `n` bytes. -/
def strncasecmp_eq : List UInt8 → List UInt8 → Nat → Bool
  | _, _, 0 => true
  | c1 :: s1, c2 :: s2, n + 1 =>
    if tolower c1 = tolower c2 then (if c1 = 0 then true else strncasecmp_eq s1 s2 n)
    else false
  | _, _, _ + 1 => false

/-! ## Index builders -/

/-- C store `a[i] = x`; `none` outside the allocated array. -/
def store_at {α : Type} (a : List α) (i : Nat) (x : α) : Option (List α) :=
  if i < a.length then some (a.set i x) else none

/-- `realloc(a, n * sizeof *a)`: the first `n` entries are kept, entries added
at the end are shown zeroed (the builders store into them before use). -/
def realloc_entries (a : List audio_index_entry) (n : Nat) : List audio_index_entry :=
  a.take n ++ List.replicate (n - a.length) ({} : audio_index_entry)

/-- What a builder keeps for one audio track while it fills the index: the
array `audio_index`, the number of entries stored so far (`nai[j]`, or `k` in
the OpenDML loop, or `aud_chunks[j]` in the sidecar reader) and the running
byte count (`tot[j]`, `tot_chunks[j]`). -/
structure audio_build where
  audio_index : List audio_index_entry := []
  nai : Nat := 0
  tot : Int := 0

/-- The statements every builder executes for an audio chunk at `pos` of length
`len`:
`audio_index[nai].pos = pos; audio_index[nai].len = len; audio_index[nai].tot = tot;
 tot += audio_index[nai].len; nai++;`. -/
def audio_build.add (s : audio_build) (pos len : Int) : Option audio_build :=
  match store_at s.audio_index s.nai { pos := pos, len := len, tot := s.tot } with
  | none => none
  | some a => some { audio_index := a, nai := s.nai + 1, tot := s.tot + len }

/-- First loop of the legacy (`idx1`) branch of `avi_parse_input_file`, over the
entries `idx[0 .. n_idx)`: `nvi` counts the entries whose tag matches
`video_tag` in 3 bytes, `nai[j]` those that match `audio_tag` of track
`j < anum` in 4 bytes. -/
def legacy_count (video_tag : List UInt8) (audio_tag : Nat → List UInt8) (anum : Nat) :
    List (List UInt8) → Nat × (Nat → Nat) → Nat × (Nat → Nat)
  | [], c => c
  | entry :: rest, c =>
    legacy_count video_tag audio_tag anum rest
      (if strncasecmp_eq entry video_tag 3 then c.1 + 1 else c.1,
       fun j => if j < anum ∧ strncasecmp_eq entry (audio_tag j) 4 then c.2 j + 1 else c.2 j)

/-- The inner loop `for (j = 0; j < AVI->anum; ++j)` of the second loop of the
legacy branch for one `idx1` entry, over the tracks still to visit. -/
def legacy_fill_audio (audio_tag : Nat → List UInt8) (entry : List UInt8) (ioff : Int) :
    List Nat → (Nat → audio_build) → Option (Nat → audio_build)
  | [], aud => some aud
  | j :: js, aud =>
    if strncasecmp_eq entry (audio_tag j) 4 then
      match str2ulong (entry.drop 8), str2ulong (entry.drop 12) with
      | some pos, some len =>
        match (aud j).add ((pos : Int) + ioff) (len : Int) with
        | some s => legacy_fill_audio audio_tag entry ioff js (Function.update aud j s)
        | none => none
      | _, _ => none
    else legacy_fill_audio audio_tag entry ioff js aud

/-- State of the second loop of the legacy branch: `nvi`, the video index and
the per-track audio builders. -/
structure legacy_fill where
  nvi : Nat := 0
  video_index : List video_index_entry := []
  aud : Nat → audio_build := fun _ => {}

/-- The video part of the second loop of the legacy branch for one entry. -/
def legacy_fill_video (video_tag : List UInt8) (entry : List UInt8) (ioff : Int)
    (st : legacy_fill) : Option (Nat × List video_index_entry) :=
  if strncasecmp_eq entry video_tag 3 then
    match str2ulong (entry.drop 4), str2ulong (entry.drop 8), str2ulong (entry.drop 12) with
    | some key, some pos, some len =>
      match store_at st.video_index st.nvi
          { key := (key : Int), pos := (pos : Int) + ioff, len := (len : Int) } with
      | some v => some (st.nvi + 1, v)
      | none => none
    | _, _, _ => none
  else some (st.nvi, st.video_index)

/-- Second loop of the legacy branch of `avi_parse_input_file`, over the entries
`idx[0 .. n_idx)`. -/
def legacy_fill_loop (video_tag : List UInt8) (audio_tag : Nat → List UInt8) (anum : Nat)
    (ioff : Int) : List (List UInt8) → legacy_fill → Option legacy_fill
  | [], st => some st
  | entry :: rest, st =>
    match legacy_fill_video video_tag entry ioff st with
    | none => none
    | some v =>
      match legacy_fill_audio audio_tag entry ioff (List.range anum) st.aud with
      | none => none
      | some aud =>
        legacy_fill_loop video_tag audio_tag anum ioff rest
          { nvi := v.1, video_index := v.2, aud := aud }

/-- The legacy (`idx1`) branch of the index generation of `avi_parse_input_file`
("NO OPENDML"): count, allocate (`plat_malloc` for the video index,
`plat_zalloc` of `nai[j] + 1` entries for each track with chunks), fill, and
store `audio_bytes`.  `ERR_EXIT(x)` is `Except.error x`; the allocations are
taken to succeed. -/
def avi_parse_input_file_legacy (AVI : avi_t) (idx_type : Int) : Option (Except Int avi_t) :=
  match (match AVI.idx with
      | none => if AVI.n_idx ≤ 0 then some [] else none
      | some idx => if AVI.n_idx.toNat ≤ idx.length then some (idx.take AVI.n_idx.toNat)
                    else none) with
  | none => none
  | some entries =>
    let audio_tag := fun j => (AVI.track j).audio_tag
    let c := legacy_count AVI.video_tag audio_tag AVI.anum.toNat entries (0, fun _ => 0)
    if c.1 = 0 then some (Except.error AVI_ERR_NO_VIDS)
    else
      match legacy_fill_loop AVI.video_tag audio_tag AVI.anum.toNat
          (if idx_type = 1 then 8 else AVI.movi_start + 4) entries
          { nvi := 0
            video_index := List.replicate c.1 ({} : video_index_entry)
            aud := fun j =>
              { audio_index := if c.2 j ≠ 0 then List.replicate (c.2 j + 1) ({} : audio_index_entry) else []
                nai := 0, tot := 0 } } with
      | none => none
      | some st =>
        some (Except.ok
          { AVI with
            video_frames := (c.1 : Int)
            video_index := some st.video_index
            track := fun j =>
              if j < AVI.anum.toNat then
                { AVI.track j with
                  audio_chunks := (c.2 j : Int)
                  audio_index := if c.2 j ≠ 0 then some (st.aud j).audio_index
                                 else (AVI.track j).audio_index
                  audio_bytes := (st.aud j).tot }
              else AVI.track j })

/-- State of the raw scan of the `movi` list ("MULTIPLE RIFF CHUNKS"): the
descriptor, `nvi`, the video index, `aud_chunks` (the allocated size of the
audio index of track 0) and the builder of track 0. -/
structure scan_state where
  fdes : plat_file := {}
  nvi : Nat := 0
  video_index : List video_index_entry := []
  aud_chunks : Int := 0
  a0 : audio_build := {}

/-- The test for a video tag in the raw scan:
`(data[0] == '0' || data[1] == '0') && (data[2] == 'd' || data[2] == 'D') &&
 (data[3] == 'b' || data[3] == 'B' || data[3] == 'c' || data[3] == 'C')`. -/
def scan_is_video (data : List UInt8) : Bool :=
  match data with
  | d0 :: d1 :: d2 :: d3 :: _ =>
    (d0 = 48 || d1 = 48) && (d2 = 100 || d2 = 68) && (d3 = 98 || d3 = 66 || d3 = 99 || d3 = 67)
  | _ => false

/-- The test for an audio tag in the raw scan:
`(data[0] == '0' || data[1] == '1') && (data[2] == 'w' || data[2] == 'W') &&
 (data[3] == 'b' || data[3] == 'B')`. -/
def scan_is_audio (data : List UInt8) : Bool :=
  match data with
  | d0 :: d1 :: d2 :: d3 :: _ =>
    (d0 = 48 || d1 = 49) && (d2 = 119 || d2 = 87) && (d3 = 98 || d3 = 66)
  | _ => false

/-- The growth step of the raw scan:
`if (aud_chunks - nai[j] - 1 <= 0) { aud_chunks += AVI->total_frames;
 audio_index = plat_realloc(audio_index, (aud_chunks + 1) * sizeof (audio_index_entry)); }`. -/
def scan_grow (total_frames : Int) (aud_chunks : Int) (a0 : audio_build) : Int × audio_build :=
  if aud_chunks - (a0.nai : Int) - 1 ≤ 0 then
    (aud_chunks + total_frames,
      { a0 with
        audio_index := realloc_entries a0.audio_index (aud_chunks + total_frames + 1).toNat })
  else (aud_chunks, a0)

set_option linter.unusedVariables false in
/-- The loop `while (1) { ... }` of the raw scan of `avi_parse_input_file`; the
`plat_realloc` is taken to succeed. -/
def multiple_riff_loop (total_frames : Int) (st : scan_state) : Option scan_state :=
  if (st.nvi : Int) ≥ total_frames then some st
  else
    if hrd : (plat_read st.fdes 8).1 ≠ 8 then
      some { st with fdes := (plat_read st.fdes 8).2.2 }
    else
      match str2ulong ((plat_read st.fdes 8).2.1.drop 4) with
      | none => none
      | some n =>
        if scan_is_video (plat_read st.fdes 8).2.1 then
          match store_at st.video_index st.nvi
              { key := 0, pos := (plat_seek_cur (plat_read st.fdes 8).2.2 0).1, len := (n : Int) } with
          | none => none
          | some v =>
            multiple_riff_loop total_frames
              { fdes := (plat_seek_cur (plat_read st.fdes 8).2.2 (PAD_EVEN (n : Int))).2
                nvi := st.nvi + 1
                video_index := v
                aud_chunks := (scan_grow total_frames st.aud_chunks st.a0).1
                a0 := (scan_grow total_frames st.aud_chunks st.a0).2 }
        else if scan_is_audio (plat_read st.fdes 8).2.1 then
          match (scan_grow total_frames st.aud_chunks st.a0).2.add
              (plat_seek_cur (plat_read st.fdes 8).2.2 0).1 (n : Int) with
          | none => none
          | some a =>
            multiple_riff_loop total_frames
              { fdes := (plat_seek_cur (plat_read st.fdes 8).2.2 (PAD_EVEN (n : Int))).2
                nvi := st.nvi
                video_index := st.video_index
                aud_chunks := (scan_grow total_frames st.aud_chunks st.a0).1
                a0 := a }
        else
          multiple_riff_loop total_frames
            { fdes := (plat_seek_cur (plat_read st.fdes 8).2.2 (-4)).2
              nvi := st.nvi
              video_index := st.video_index
              aud_chunks := (scan_grow total_frames st.aud_chunks st.a0).1
              a0 := (scan_grow total_frames st.aud_chunks st.a0).2 }
termination_by st.fdes.data.length - st.fdes.offset
decreasing_by
  all_goals simp_wf
  all_goals
    have hread : (plat_read st.fdes 8).2.2.data = st.fdes.data ∧
        (plat_read st.fdes 8).2.2.offset = st.fdes.offset + 8 ∧
        st.fdes.offset + 8 ≤ st.fdes.data.length := by
      have h8 := not_not.mp hrd
      simp only [plat_read, List.length_take, List.length_drop] at h8 ⊢
      refine ⟨trivial, ?_, ?_⟩ <;> omega
    have hseek : ∀ (f : plat_file) (x : Int), 0 ≤ (f.offset : Int) + x →
        (plat_seek_cur f x).2.data = f.data ∧
        ((plat_seek_cur f x).2.offset : Int) = (f.offset : Int) + x := by
      intro f x hx
      unfold plat_seek_cur
      rw [if_neg (by omega)]
      exact ⟨rfl, by simp only []; omega⟩
    have key : ∀ x : Int, -4 ≤ x →
        (plat_seek_cur (plat_read st.fdes 8).2.2 x).2.data.length
          - (plat_seek_cur (plat_read st.fdes 8).2.2 x).2.offset
        < st.fdes.data.length - st.fdes.offset := by
      intro x hx
      have h := hseek (plat_read st.fdes 8).2.2 x (by omega)
      rw [h.1, hread.1]
      omega
    first
      | exact key _ (by unfold PAD_EVEN; omega)
      | exact key _ (by omega)

/-- The raw scan of the `movi` list in `avi_parse_input_file` (label
`multiple_riff`, "MULTIPLE RIFF CHUNKS (and no index)"); only audio track 0 is
filled.  With no audio track the loop that resets `nai[j]` and `tot[j]` does
not run and `tot[0]` stays uninitialised: that case is left undefined (`none`).
A negative `total_frames` makes the allocation of the video index fail; the
other allocations are taken to succeed. -/
def avi_parse_input_file_multiple_riff (AVI : avi_t) : Option (Except Int avi_t) :=
  if AVI.anum ≤ 0 then none
  else if AVI.total_frames < 0 then some (Except.error AVI_ERR_NO_MEM)
  else
    match multiple_riff_loop AVI.total_frames
        { fdes := (plat_seek_set AVI.fdes AVI.movi_start).2
          nvi := 0
          video_index := List.replicate AVI.total_frames.toNat ({} : video_index_entry)
          aud_chunks := AVI.total_frames
          a0 := { audio_index :=
                    if AVI.total_frames ≠ 0
                    then List.replicate (AVI.total_frames.toNat + 1) ({} : audio_index_entry)
                    else []
                  nai := 0, tot := 0 } } with
    | none => none
    | some st =>
      some (Except.ok
        { AVI with
          fdes := st.fdes
          n_idx := 0
          video_frames := (st.nvi : Int)
          video_index := some st.video_index
          track := fun j =>
            if j = 0 then
              { AVI.track 0 with
                audio_chunks := (st.a0.nai : Int)
                audio_index :=
                  if AVI.total_frames ≠ 0 then some st.a0.audio_index
                  else (AVI.track 0).audio_index
                audio_bytes := st.a0.tot }
            else if j < AVI.anum.toNat then
              { AVI.track j with audio_chunks := 0, audio_bytes := 0 }
            else AVI.track j })

/-- The loop `while (k < nai[audtr]) { ... ++k; }` of the OpenDML audio reader
with `n` iterations left; `buf` is the standard index chunk read from the file,
`en` the read offset in it and `offset` its `qwBaseOffset`. -/
def opendml_audio_while (buf : List UInt8) (offset : Nat) :
    Nat → Nat → audio_build → Option audio_build
  | 0, _, s => some s
  | n + 1, en, s =>
    match str2ulong (buf.drop en), str2ulong_len (buf.drop (en + 4)) with
    | some pos, some len =>
      match s.add ((offset : Int) + (pos : Int)) (len : Int) with
      | some s2 => opendml_audio_while buf offset n (en + 8) s2
      | none => none
    | _, _ => none

/-- State of the OpenDML audio reader for one track: the descriptor,
`nai[audtr]`, the builder (the array, `k` and `tot[audtr]`) and whether the
pointer `audio_index` of the track is not `NULL` (it was not on entry, or
`plat_realloc` has set it). -/
structure odml_audio where
  fdes : plat_file := {}
  nai : Nat := 0
  b : audio_build := {}
  allocated : Bool := false

/-- Body of `for (j = 0; j < nEntriesInUse; j++)` of the OpenDML audio reader for
the super-index entry `en`: seek, read `dwSize + hdrl_len` bytes
(`hdrl_len = 32`; the sum of the `uint32_t` and the `int` is formed in 32-bit
unsigned arithmetic, so it is `(dwSize + 32) mod 2^32`, and an entry for which
the read returns no byte is skipped), take `nrEntries` at byte 12 and the base
offset at byte 20, grow the index and store the entries that start at byte 32.
Bytes of the buffer that the read did not fill are not available. -/
def opendml_audio_entry (en : avisuperindex_entry) (st : odml_audio) : Option odml_audio :=
  if (plat_seek_set st.fdes en.qwOffset).1 = -1 then some st
  else if (plat_read (plat_seek_set st.fdes en.qwOffset).2 ((en.dwSize + 32) % 2 ^ 32)).1 ≤ 0 then
    some { st with fdes := (plat_read (plat_seek_set st.fdes en.qwOffset).2 ((en.dwSize + 32) % 2 ^ 32)).2.2 }
  else
    match str2ulong ((plat_read (plat_seek_set st.fdes en.qwOffset).2 ((en.dwSize + 32) % 2 ^ 32)).2.1.drop 12),
        str2ullong ((plat_read (plat_seek_set st.fdes en.qwOffset).2 ((en.dwSize + 32) % 2 ^ 32)).2.1.drop 20) with
    | some nrEntries, some offset =>
      match opendml_audio_while
          (plat_read (plat_seek_set st.fdes en.qwOffset).2 ((en.dwSize + 32) % 2 ^ 32)).2.1 offset
          (st.nai + nrEntries - st.b.nai) 32
          { st.b with
            audio_index := realloc_entries st.b.audio_index (st.nai + nrEntries) } with
      | some b =>
        some { fdes := (plat_read (plat_seek_set st.fdes en.qwOffset).2 ((en.dwSize + 32) % 2 ^ 32)).2.2
               nai := st.nai + nrEntries, b := b, allocated := true }
      | none => none
    | _, _ => none

/-- The loop `for (j = 0; j < nEntriesInUse; j++)` of the OpenDML audio reader. -/
def opendml_audio_entries : List avisuperindex_entry → odml_audio → Option odml_audio
  | [], st => some st
  | en :: rest, st =>
    match opendml_audio_entry en st with
    | none => none
    | some st2 => opendml_audio_entries rest st2

/-- Body of `for (audtr = 0; audtr < AVI->anum; ++audtr)` of the OpenDML audio
reader: a track without super-index is skipped, otherwise its index is read
and `audio_chunks` and `audio_bytes` are stored. -/
def opendml_audio_track (t : track_t) (fdes : plat_file) : Option (track_t × plat_file) :=
  match t.audio_superindex with
  | none => some (t, fdes)
  | some si =>
    if si.nEntriesInUse.toNat ≤ si.aIndex.length then
      match opendml_audio_entries (si.aIndex.take si.nEntriesInUse.toNat)
          { fdes := fdes, nai := 0
            b := { audio_index := t.audio_index.getD [], nai := 0, tot := 0 }
            allocated := t.audio_index.isSome } with
      | none => none
      | some st =>
        some ({ t with
                audio_index := if st.allocated then some st.b.audio_index else none
                audio_chunks := (st.nai : Int)
                audio_bytes := st.b.tot }, st.fdes)
    else none

/-- The loop over the audio tracks of the OpenDML reader, over the tracks still
to visit. -/
def opendml_audio_tracks : List Nat → avi_t → Option avi_t
  | [], AVI => some AVI
  | audtr :: rest, AVI =>
    match opendml_audio_track (AVI.track audtr) AVI.fdes with
    | none => none
    | some r => opendml_audio_tracks rest ({ AVI with fdes := r.2 }.set_track audtr r.1)

/-- The audio part of the OpenDML branch of `avi_parse_input_file`. -/
def avi_parse_input_file_opendml_audio (AVI : avi_t) : Option avi_t :=
  opendml_audio_tracks (List.range AVI.anum.toNat) AVI

/-- A line of the sidecar index as `avi_parse_index_from_file` sees it: the
character `data[5]` tested by the counting pass, and the fields `type`, `pos`,
`len`, `key` that the second pass takes with `strtol` / `strtoll`. -/
structure index_line where
  data5 : UInt8 := 0
  type : Int := 0
  pos : Int := 0
  len : Int := 0
  key : Int := 0
deriving DecidableEq

/-- Counting pass of `avi_parse_index_from_file`: `d = data[5] - '1'`; `d == 0`
counts a video chunk, `d` in `1..8` an audio chunk of track `d - 1`. -/
def sidecar_count : List index_line → Nat × (Nat → Nat) → Nat × (Nat → Nat)
  | [], c => c
  | l :: rest, c =>
    sidecar_count rest
      (if (l.data5.toNat : Int) - 49 = 0 then (c.1 + 1, c.2)
       else if 1 ≤ (l.data5.toNat : Int) - 49 ∧ (l.data5.toNat : Int) - 49 ≤ 8 then
         (c.1, Function.update c.2 ((l.data5.toNat : Int) - 49 - 1).toNat
           (c.2 ((l.data5.toNat : Int) - 49 - 1).toNat + 1))
       else c)

/-- State of the second pass of `avi_parse_index_from_file`: `vid_chunks`, the
video index, and per track the array, `aud_chunks[j]` and `tot_chunks[j]`. -/
structure sidecar_fill where
  vid_chunks : Nat := 0
  video_index : List video_index_entry := []
  aud : Nat → audio_build := fun _ => {}

/-- Second pass of `avi_parse_index_from_file` (`switch (i)` with
`i = type - 1`).  `allocated j` tells whether `track[j].audio_index` was
allocated; a store through a null `audio_index` is `none`. -/
def sidecar_fill_loop (anum : Nat) (allocated : Nat → Bool) :
    List index_line → sidecar_fill → Option sidecar_fill
  | [], st => some st
  | l :: rest, st =>
    if l.type - 1 = 0 then
      match store_at st.video_index st.vid_chunks
          { key := if l.key ≠ 0 then 0x10 else 0, pos := l.pos + 8, len := l.len } with
      | none => none
      | some v =>
        sidecar_fill_loop anum allocated rest
          { st with vid_chunks := st.vid_chunks + 1, video_index := v }
    else if 1 ≤ l.type - 1 ∧ l.type - 1 ≤ 8 then
      if (l.type - 1 - 1).toNat < anum ∧ allocated (l.type - 1 - 1).toNat = true then
        match (st.aud (l.type - 1 - 1).toNat).add (l.pos + 8) l.len with
        | none => none
        | some s =>
          sidecar_fill_loop anum allocated rest
            { st with aud := Function.update st.aud (l.type - 1 - 1).toNat s }
      else none
    else sidecar_fill_loop anum allocated rest st

/-- `avi_parse_index_from_file` after the sidecar has been opened and its
header line (`AVIIDX1`) and comment line have been read, on the remaining
lines: count, allocate (`plat_malloc` of exactly the counted entries), fill,
store `audio_bytes`.  `ERR_EXIT(x)` is `Except.error x`; the allocations are
taken to succeed. -/
def avi_parse_index_from_file (AVI : avi_t) (lines : List index_line) :
    Option (Except Int avi_t) :=
  if (sidecar_count lines (0, fun _ => 0)).1 = 0 then some (Except.error AVI_ERR_NO_VIDS)
  else
    match sidecar_fill_loop AVI.anum.toNat
        (fun j => decide ((sidecar_count lines (0, fun _ => 0)).2 j ≠ 0)) lines
        { vid_chunks := 0
          video_index := List.replicate (sidecar_count lines (0, fun _ => 0)).1
            ({} : video_index_entry)
          aud := fun j =>
            { audio_index := List.replicate ((sidecar_count lines (0, fun _ => 0)).2 j)
                ({} : audio_index_entry)
              nai := 0, tot := 0 } } with
    | none => none
    | some st =>
      some (Except.ok
        { AVI with
          video_frames := ((sidecar_count lines (0, fun _ => 0)).1 : Int)
          video_index := some st.video_index
          track := fun j =>
            if j < AVI.anum.toNat then
              { AVI.track j with
                audio_chunks := ((sidecar_count lines (0, fun _ => 0)).2 j : Int)
                audio_index :=
                  if (sidecar_count lines (0, fun _ => 0)).2 j ≠ 0
                  then some (st.aud j).audio_index else none
                audio_bytes := (st.aud j).tot }
            else AVI.track j })

/-! ## Vocabulary of the statements -/

/-- Sum of the lengths of the first `c` entries of an audio index. -/
def audio_len_sum (audio_index : List audio_index_entry) (c : Nat) : Int :=
  ((audio_index.take c).map (fun e => e.len)).sum

/-- The first `chunks` entries exist and the `tot` field of each is the sum of
the lengths of the entries before it. -/
def tot_prefix_sums (audio_index : List audio_index_entry) (chunks : Nat) : Prop :=
  ∀ c, c < chunks → audio_index[c]?.map (fun e => e.tot) = some (audio_len_sum audio_index c)

instance (audio_index : List audio_index_entry) (chunks : Nat) :
    Decidable (tot_prefix_sums audio_index chunks) :=
  inferInstanceAs (Decidable (∀ c, c < chunks →
    audio_index[c]?.map (fun e => e.tot) = some (audio_len_sum audio_index c)))

/-- The first `chunks` entries exist and none has a negative length. -/
def lens_nonneg (audio_index : List audio_index_entry) (chunks : Nat) : Prop :=
  ∀ c, c < chunks → audio_index[c]?.map (fun e => decide (0 ≤ e.len)) = some true

instance (audio_index : List audio_index_entry) (chunks : Nat) :
    Decidable (lens_nonneg audio_index chunks) :=
  inferInstanceAs (Decidable (∀ c, c < chunks →
    audio_index[c]?.map (fun e => decide (0 ≤ e.len)) = some true))

/-- The payload of a chunk: the `len` bytes of the file that start at `pos`. -/
def chunk_payload (data : List UInt8) (e : audio_index_entry) : List UInt8 :=
  (data.drop e.pos.toNat).take e.len.toNat

/-- The audio stream of a track: the payloads of its first `chunks` chunks, one
after the other. -/
def audio_stream (data : List UInt8) (audio_index : List audio_index_entry) (chunks : Nat) :
    List UInt8 :=
  (audio_index.take chunks).flatMap (chunk_payload data)

/-- The first `chunks` entries exist and each addresses bytes of the file:
`0 ≤ pos`, `0 ≤ len` and `pos + len` is at most the length of the file. -/
def chunks_in_file (data : List UInt8) (audio_index : List audio_index_entry) (chunks : Nat) :
    Prop :=
  ∀ c, c < chunks → audio_index[c]?.map
    (fun e => decide (0 ≤ e.pos ∧ 0 ≤ e.len ∧ e.pos + e.len ≤ (data.length : Int))) = some true

instance (data : List UInt8) (audio_index : List audio_index_entry) (chunks : Nat) :
    Decidable (chunks_in_file data audio_index chunks) :=
  inferInstanceAs (Decidable (∀ c, c < chunks → audio_index[c]?.map
    (fun e => decide (0 ≤ e.pos ∧ 0 ≤ e.len ∧ e.pos + e.len ≤ (data.length : Int))) = some true))

/-- An audio track of two chunks, of three and two bytes, with an index as the
legacy `idx1` path allocates it (one zeroed entry after the last chunk). -/
def demo_audio_index : List audio_index_entry :=
  [{ pos := 4, len := 3, tot := 0 }, { pos := 9, len := 2, tot := 3 }, {}]

/-- A video index of two frames. -/
def demo_video_index : List video_index_entry :=
  [{ key := 0x10, pos := 1, len := 2 }, { key := 0, pos := 7, len := 1 }]

/-- A file of twelve bytes, byte `i` holding the value `i`. -/
def demo_file : plat_file :=
  { data := [0, 1, 2, 3, 4, 5, 6, 7, 8, 9, 10, 11], offset := 0 }

/-- A read-mode handle on `demo_file` with one audio track and two frames. -/
def demo_avi : avi_t :=
  { fdes := demo_file
    mode := AVI_MODE_READ
    video_frames := 2
    video_pos := 0
    video_index := some demo_video_index
    anum := 1
    aptr := 0
    track := fun _ => { audio_chunks := 2, audio_bytes := 5, audio_index := some demo_audio_index } }

/-- The cursor invariant of the data model: the cursor names a chunk that
exists, `0 ≤ audio_posc`, and `audio_posb ≤ len[audio_posc]`. -/
def cursor_on_chunk (t : track_t) : Prop :=
  0 ≤ t.audio_posc ∧
  ∃ ai e, t.audio_index = some ai ∧ at_index ai t.audio_posc = some e ∧ t.audio_posb ≤ e.len

/-- The cursor states the reader is built for: on a chunk
(`0 ≤ audio_posc < audio_chunks`, `0 ≤ audio_posb ≤ len[audio_posc]`), or at the
end of the stream (`audio_posc = audio_chunks`, `audio_posb = 0`). -/
def cursor_ok (t : track_t) : Prop :=
  (∃ ai e, t.audio_index = some ai ∧ 0 ≤ t.audio_posc ∧ t.audio_posc < t.audio_chunks ∧
    at_index ai t.audio_posc = some e ∧ 0 ≤ t.audio_posb ∧ t.audio_posb ≤ e.len) ∨
  (t.audio_posc = t.audio_chunks ∧ t.audio_posb = 0)

/-- The two chunks of `demo_audio_index` in an index as the sidecar and OpenDML
paths allocate it: exactly `audio_chunks` entries. -/
def demo_exact_index : List audio_index_entry :=
  [{ pos := 4, len := 3, tot := 0 }, { pos := 9, len := 2, tot := 3 }]

/-- The demo handle with `demo_exact_index` and the audio cursor on the last
chunk. -/
def demo_exact_avi : avi_t :=
  { demo_avi with
    track := fun _ => { audio_chunks := 2, audio_bytes := 5, audio_posc := 1, audio_posb := 0,
                        audio_index := some demo_exact_index } }

/-- What a builder maintains: the `tot` fields of the entries stored so far are
the prefix sums of their lengths, and the running byte count is their total
length. -/
def audio_build.ok (s : audio_build) : Prop :=
  tot_prefix_sums s.audio_index s.nai ∧ s.tot = audio_len_sum s.audio_index s.nai

/-- The index invariant of a track: if the track has an audio index, then for
every chunk `c < audio_chunks` the entry exists and `tot[c]` is the sum of
`len[i]` for `i < c`, and `audio_bytes` is the sum of all `len`. -/
def track_index_ok (t : track_t) : Prop :=
  ∀ ai, t.audio_index = some ai →
    ∃ chunks : Nat, t.audio_chunks = (chunks : Int) ∧ tot_prefix_sums ai chunks ∧
      t.audio_bytes = audio_len_sum ai chunks

/-- The bytes the OpenDML reader gets for the super-index entry `en` from a file
with the bytes `data`: up to `(dwSize + 32) mod 2^32` bytes from `qwOffset` (the
count `aIndex[j].dwSize + hdrl_len` is a 32-bit unsigned sum). -/
def odml_chunk (data : List UInt8) (en : avisuperindex_entry) : List UInt8 :=
  (plat_read { data := data, offset := en.qwOffset.toNat } ((en.dwSize + 32) % 2 ^ 32)).2.1

/-- The standard index chunk of the super-index entry `en` is in the file: its
header of 32 bytes is, and so are the `nrEntries` entries of 8 bytes that it
announces at byte 12. -/
def odml_chunk_ok (data : List UInt8) (en : avisuperindex_entry) : Prop :=
  32 ≤ (odml_chunk data en).length ∧
  32 + 8 * (str2ulong ((odml_chunk data en).drop 12)).getD 0 ≤ (odml_chunk data en).length

instance (data : List UInt8) (en : avisuperindex_entry) : Decidable (odml_chunk_ok data en) :=
  inferInstanceAs (Decidable (_ ∧ _))

/-- A legacy index of four entries: `00db`, `01wb`, `01WB`, `00dc`. -/
def demo_idx : List (List UInt8) :=
  [[48, 48, 100, 98, 16, 0, 0, 0, 4, 0, 0, 0, 10, 0, 0, 0],
   [48, 49, 119, 98, 0, 0, 0, 0, 22, 0, 0, 0, 3, 0, 0, 0],
   [48, 49, 87, 66, 0, 0, 0, 0, 34, 0, 0, 0, 2, 0, 0, 0],
   [48, 48, 100, 99, 0, 0, 0, 0, 44, 0, 0, 0, 6, 0, 0, 0]]

/-- A handle as the header pass leaves it: video tag `00db`, one audio track
with tag `01wb`, and the legacy index `demo_idx`. -/
def demo_parse_avi : avi_t :=
  { mode := AVI_MODE_READ
    video_tag := [48, 48, 100, 98]
    idx := some demo_idx
    n_idx := 4
    movi_start := 2048
    anum := 1
    track := fun _ => { audio_tag := [48, 49, 119, 98] } }

/-- Three lines of a sidecar index: one frame and two chunks of audio track 1. -/
def demo_lines : List index_line :=
  [{ data5 := 49, type := 1, pos := 2048, len := 10, key := 1 },
   { data5 := 50, type := 2, pos := 2066, len := 3, key := 1 },
   { data5 := 50, type := 2, pos := 2078, len := 2, key := 1 }]

/-- A `movi` area of three chunks: `00db` (2 bytes), `01wb` (3 bytes and a pad
byte), `00db` (1 byte and a pad byte). -/
def demo_movi : List UInt8 :=
  [48, 48, 100, 98, 2, 0, 0, 0, 1, 2,
   48, 49, 119, 98, 3, 0, 0, 0, 3, 4, 5, 0,
   48, 48, 100, 98, 1, 0, 0, 0, 9, 0]

/-- The handle of `demo_parse_avi` on a file that is `demo_movi`, with two
frames announced and no legacy index. -/
def demo_scan_avi : avi_t :=
  { demo_parse_avi with
    fdes := { data := demo_movi, offset := 0 }, movi_start := 0, total_frames := 2
    idx := none, n_idx := 0 }

/-- A standard index chunk `ix01` with base offset 100 and two entries:
`(8, 3 | 0x80000000)` and `(20, 2)`. -/
def demo_ix : List UInt8 :=
  [105, 120, 48, 49, 16, 0, 0, 0, 2, 0, 0, 1, 2, 0, 0, 0,
   48, 49, 119, 98, 100, 0, 0, 0, 0, 0, 0, 0, 0, 0, 0, 0,
   8, 0, 0, 0, 3, 0, 0, 128,
   20, 0, 0, 0, 2, 0, 0, 0]

/-- The handle of `demo_parse_avi` on a file that is `demo_ix`, the audio track
having a super-index with one entry that points to it. -/
def demo_odml_avi : avi_t :=
  { demo_parse_avi with
    fdes := { data := demo_ix, offset := 0 }
    track := fun _ =>
      { audio_tag := [48, 49, 119, 98]
        audio_superindex := some
          { nEntriesInUse := 1, aIndex := [{ qwOffset := 0, dwSize := 16, dwDuration := 2 }] } } }

/-! ## Byte codec: encoding -/

/-- One byte of a store `dst[k] = x & 0xff`: on a two's complement `int`,
`x & 0xff` is `x` modulo 256. -/
def low_byte (x : Int) : UInt8 := UInt8.ofNat (x % 256).toNat

/-- `long2str(dst, n)`: the four bytes `n & 0xff`, `(n >> 8) & 0xff`,
`(n >> 16) & 0xff`, `(n >> 24) & 0xff` stored at `dst`.  `n` is an `int32_t`
and `>>` the arithmetic shift; the bytes depend on `n` modulo `2^32` only, so
an argument of another integer type, which the call converts to `int32_t`, is
passed as it is. -/
def long2str (n : Int) : List UInt8 :=
  [low_byte n, low_byte (n >>> (8 : Nat)), low_byte (n >>> (16 : Nat)),
    low_byte (n >>> (24 : Nat))]

/-- Conversion of a `uint32_t` to `int32_t` (two's complement). -/
def uint32_to_int32 (u : Nat) : Int :=
  if u < 2 ^ 31 then (u : Int) else (u : Int) - 2 ^ 32

/-- `str2ulong_key(str)`: `(c & 0x80000000) ? 0 : 0x10` with
`c = str2ulong(str)`. -/
def str2ulong_key (str : List UInt8) : Option Nat :=
  (str2ulong str).map (fun c => if c &&& 0x80000000 ≠ 0 then 0 else 0x10)

/-! ## Writer: chunk output -/

/-- The content of a file after `bytes` were written at offset `off`: a gap
between the old end of the file and `off` reads as zero bytes. -/
def write_at (data : List UInt8) (off : Nat) (bytes : List UInt8) : List UInt8 :=
  data.take off ++ List.replicate (off - data.length) 0 ++ bytes ++ data.drop (off + bytes.length)

/-- The number of bytes a `plat_write` of `count` bytes transfers: `count` as a
`size_t` (a negative count becomes `count + 2^64`), cut down to the room left
below the limit of the device. -/
def plat_write_count (fdes : plat_file) (count : Int) : Nat :=
  match fdes.limit with
  | none => if 0 ≤ count then count.toNat else (count + 2 ^ 64).toNat
  | some l => min (if 0 ≤ count then count.toNat else (count + 2 ^ 64).toNat) (l - fdes.offset)

/-- Modelled from the spec: `plat_write(fd, buf, count)` of the platform façade,
as `write` on a regular file: the bytes that fit are taken from `buf` and
stored at the current offset, which advances by their number; that number is
returned, and `-1` when nothing of a non-empty request could be written.
Taking more bytes than `buf` holds is an access outside the array: the bytes
taken from `buf` are then fewer than the number to transfer. -/
def plat_write (fdes : plat_file) (buf : List UInt8) (count : Int) : Option (Int × plat_file) :=
  if (buf.take (plat_write_count fdes count)).length < plat_write_count fdes count then none
  else if plat_write_count fdes count = 0 then some (if count = 0 then 0 else -1, fdes)
  else
    some ((plat_write_count fdes count : Int),
      { fdes with
        data := write_at fdes.data fdes.offset (buf.take (plat_write_count fdes count))
        offset := fdes.offset + plat_write_count fdes count })

/-- The error exit of `avi_add_chunk`:
`plat_seek(AVI->fdes, AVI->pos, SEEK_SET); AVI_errno = AVI_ERR_WRITE; return -1;`
on the descriptor `fdes` as the failed write left it. -/
def avi_add_chunk_fail (AVI : avi_t) (fdes : plat_file) : outcome :=
  { ret := -1
    AVI := { AVI with fdes := (plat_seek_set fdes AVI.pos).2 }
    AVI_errno := AVI_ERR_WRITE }

/-- `avi_add_chunk(AVI, tag, data, length)`: the three writes of the condition
are made in order until one comes back short (`||`).  `tag` holds at least four
bytes (`memcpy(c, tag, 4)`), `length` is the `int` parameter and `length & 1`
on a two's complement `int` is `length` modulo 2. -/
def avi_add_chunk (AVI : avi_t) (AVI_errno : Int) (tag data : List UInt8) (length : Int) :
    Option outcome :=
  if tag.length < 4 then none
  else
    match plat_write AVI.fdes (tag.take 4 ++ long2str length) 8 with
    | none => none
    | some w1 =>
      if w1.1 ≠ 8 then some (avi_add_chunk_fail AVI w1.2)
      else
        match plat_write w1.2 data length with
        | none => none
        | some w2 =>
          if w2.1 ≠ length then some (avi_add_chunk_fail AVI w2.2)
          else
            match plat_write w2.2 [0] (length % 2) with
            | none => none
            | some w3 =>
              if w3.1 ≠ length % 2 then some (avi_add_chunk_fail AVI w3.2)
              else
                some { ret := 0
                       AVI := { AVI with fdes := w3.2, pos := AVI.pos + (8 + PAD_EVEN length) }
                       AVI_errno := AVI_errno }

/-! ## Writer: the indexes -/

/-- `NEW_RIFF_THRES`: a new RIFF chunk is started after this many bytes. -/
def NEW_RIFF_THRES : Int := 1900 * 1024 * 1024

/-- `NR_IXNN_CHUNKS`: the number of standard indexes a super-index has room for. -/
def NR_IXNN_CHUNKS : Nat := 32

/-- `HEADERBYTES`: the bytes kept for the header at the start of the file. -/
def HEADERBYTES : Int := 2048

/-- C access `a[i]` followed by a store of `f a[i]` into it; `none` outside the
array. -/
def update_at {α : Type} (a : List α) (i : Int) (f : α → α) : Option (List α) :=
  match at_index a i with
  | none => none
  | some x => some (a.set i.toNat (f x))

/-- The decimal digits of `v` as characters (`%d`). -/
def fmt_d (v : Nat) : List UInt8 := (Nat.toDigits 10 v).map (fun c => UInt8.ofNat c.toNat)

/-- `snprintf(fcc, 5, "ix%02d", v)`: the first four bytes of the buffer, which
are the first four characters of the text (the terminating zero byte follows). -/
def snprintf_ix (v : Nat) : List UInt8 :=
  ([105, 120] ++ (if v < 10 then 48 :: fmt_d v else fmt_d v) ++ [0, 0, 0, 0]).take 4

/-- `snprintf(astr, 5, "0%1dwb", v)`: the first four bytes of the buffer, which
are the first four characters of the text (the terminating zero byte follows). -/
def snprintf_wb (v : Nat) : List UInt8 := ([48] ++ fmt_d v ++ [119, 98] ++ [0, 0, 0, 0]).take 4

/-- `strchr(tag, 'w') ? 1 : 0` on a tag of four characters followed by a zero
byte. -/
def tag_is_audio (tag : List UInt8) : Bool := (tag.takeWhile (fun c => c != 0)).contains 119

/-- `avi_init_super_index(AVI, idxtag, &si)`: the super-index it allocates,
with `aIndex` of `NR_IXNN_CHUNKS` zeroed entries and `NR_IXNN_CHUNKS` zeroed
standard indexes whose `qwBaseOffset` is `k * NEW_RIFF_THRES`; the allocations
are taken to succeed.  `AVI_INDEX_OF_INDEXES` is 0. -/
def avi_init_super_index (idxtag : List UInt8) : avisuperindex_chunk :=
  { fcc := [105, 110, 100, 120]
    dwSize := 0
    wLongsPerEntry := 4
    bIndexSubType := 0
    bIndexType := 0
    nEntriesInUse := 0
    dwChunkId := idxtag.take 4
    aIndex := List.replicate NR_IXNN_CHUNKS ({} : avisuperindex_entry)
    stdindex := (List.range NR_IXNN_CHUNKS).map
      (fun k => { qwBaseOffset := k * NEW_RIFF_THRES.toNat }) }

/-- `avi_add_std_index(AVI, idxtag, strtag, stdil)`: the standard index it
leaves at `stdil`, with an array of 4096 zeroed entries; the allocation is
taken to succeed.  `AVI_INDEX_OF_CHUNKS` is 1. -/
def avi_add_std_index (idxtag strtag : List UInt8) (stdil : avistdindex_chunk) :
    avistdindex_chunk :=
  { stdil with
    fcc := idxtag.take 4
    dwSize := 4096
    wLongsPerEntry := 2
    bIndexSubType := 0
    bIndexType := 1
    nEntriesInUse := 0
    dwChunkId := strtag.take 4
    aIndex := some (List.replicate 4096 ({} : avistdindex_entry)) }

/-- `plat_realloc(si->aIndex, bytes)` for an array of entries of 8 bytes: the
entries that fit are kept, entries added at the end are shown zeroed. -/
def realloc_std (a : Option (List avistdindex_entry)) (bytes : Nat) :
    Option (List avistdindex_entry) :=
  some ((a.getD []).take (bytes / 8)
    ++ List.replicate (bytes / 8 - (a.getD []).length) ({} : avistdindex_entry))

/-- `avi_add_odml_index_entry_core(AVI, flags, pos, len, si)`: the handle and
the standard index `*si` after the call.  `nEntriesInUse` and `dwSize` are
`uint32_t`, `len` is an `unsigned long`, the two stores into the entry convert
to `uint32_t`, `max_len` is a `uint32_t`. -/
def avi_add_odml_index_entry_core (AVI : avi_t) (flags : Int) (pos : Int) (len : Nat)
    (si : avistdindex_chunk) : Option (avi_t × avistdindex_chunk) :=
  if (si.nEntriesInUse + 1) % 2 ^ 32 = 0 then none
  else
    match store_at
        (if (si.nEntriesInUse + 1) % 2 ^ 32 - 1 ≥ si.dwSize then
          (realloc_std si.aIndex (((si.dwSize + 4096) % 2 ^ 32) * 4 * si.wLongsPerEntry)).getD []
         else si.aIndex.getD [])
        ((si.nEntriesInUse + 1) % 2 ^ 32 - 1)
        { dwSize := (if flags ≠ 0x10 then len ||| 0x80000000 else len) % 2 ^ 32
          dwOffset := ((pos - (si.qwBaseOffset : Int) + 8) % 2 ^ 32).toNat } with
    | none => none
    | some a =>
      some ({ AVI with max_len := if (len : Int) > AVI.max_len then (len : Int) % 2 ^ 32
                                  else AVI.max_len },
        { si with
          nEntriesInUse := (si.nEntriesInUse + 1) % 2 ^ 32
          dwSize := if (si.nEntriesInUse + 1) % 2 ^ 32 - 1 ≥ si.dwSize
                    then (si.dwSize + 4096) % 2 ^ 32 else si.dwSize
          aIndex := some a })

/-- The buffer `ix00` that `avi_ixnn_entry` fills for the standard index `ch`:
the 24 bytes written by `OUTW`, `OUTC`, `OUTC`, `OUTD`, `OUTS` and three `OUTD`,
and 8 bytes for each of the `nEntriesInUse` entries. -/
def ixnn_bytes (ch : avistdindex_chunk) : List UInt8 :=
  [low_byte ch.wLongsPerEntry, low_byte ((ch.wLongsPerEntry : Int) >>> (8 : Nat)),
    low_byte ch.bIndexSubType, low_byte ch.bIndexType]
  ++ long2str ch.nEntriesInUse ++ ch.dwChunkId.take 4
  ++ long2str ((ch.qwBaseOffset : Int) % 2 ^ 32)
  ++ long2str (((ch.qwBaseOffset : Int) >>> (32 : Nat)) % 2 ^ 32)
  ++ long2str ch.dwReserved3
  ++ (((ch.aIndex.getD []).take ch.nEntriesInUse).map
      (fun e => long2str e.dwOffset ++ long2str e.dwSize)).flatten

/-- `avi_ixnn_entry(AVI, ch, en)`: the handle, `AVI_errno` and the super-index
entry `*en` after the call.  The buffer has `max` bytes
(`nEntriesInUse * sizeof(uint32_t) * wLongsPerEntry + 24`, an `unsigned int`);
reading entries that `aIndex` does not hold, or storing more than `max` bytes
into the buffer, is an access outside an array; bytes of the buffer that are
not stored into are shown zeroed.  The result of `avi_add_chunk` is dropped. -/
def avi_ixnn_entry (AVI : avi_t) (AVI_errno : Int) (ch : avistdindex_chunk)
    (en : avisuperindex_entry) : Option (avi_t × Int × avisuperindex_entry) :=
  if (ch.aIndex.getD []).length < ch.nEntriesInUse then none
  else if (ch.nEntriesInUse * 4 * ch.wLongsPerEntry + 24) % 2 ^ 32 < 24 + 8 * ch.nEntriesInUse
  then none
  else
    match avi_add_chunk AVI AVI_errno ch.fcc
        (ixnn_bytes ch ++ List.replicate
          ((ch.nEntriesInUse * 4 * ch.wLongsPerEntry + 24) % 2 ^ 32
            - (24 + 8 * ch.nEntriesInUse)) 0)
        (uint32_to_int32 ((ch.nEntriesInUse * 4 * ch.wLongsPerEntry + 24) % 2 ^ 32)) with
    | none => none
    | some o =>
      some (o.AVI, o.AVI_errno,
        { en with
          qwOffset := AVI.pos
          dwSize := (((ch.nEntriesInUse * 4 * ch.wLongsPerEntry + 24) % 2 ^ 32 : Nat) : Int) })

/-- First use of a super-index in `avi_add_odml_index_entry`:
`avi_init_super_index(AVI, idxtag, &si); si->nEntriesInUse++;
 avi_add_std_index(AVI, ixtag, strtag, si->stdindex[si->nEntriesInUse - 1]);`. -/
def odml_first_use (idxtag ixtag strtag : List UInt8) : Option avisuperindex_chunk :=
  match update_at (avi_init_super_index idxtag).stdindex
      ((avi_init_super_index idxtag).nEntriesInUse + 1 - 1) (avi_add_std_index ixtag strtag) with
  | none => none
  | some s =>
    some { avi_init_super_index idxtag with
           nEntriesInUse := (avi_init_super_index idxtag).nEntriesInUse + 1
           stdindex := s }

/-- The blocks `if (video) { if (!AVI->video_superindex) ... }` and
`if (audio) { ... if (!AVI->track[AVI->aptr].audio_superindex) ... }` of
`avi_add_odml_index_entry`. -/
def odml_init (AVI : avi_t) (tag : List UInt8) : Option avi_t :=
  if tag_is_audio tag then
    match (AVI.track AVI.aptr).audio_superindex with
    | some _ => some AVI
    | none =>
      match odml_first_use ([105, 120] ++ tag.take 2) (snprintf_ix (AVI.aptr + 1)) tag with
      | none => none
      | some si =>
        some (AVI.set_track AVI.aptr { AVI.track AVI.aptr with audio_superindex := some si })
  else
    match AVI.video_superindex with
    | some _ => some AVI
    | none =>
      match odml_first_use [105, 120, 48, 48] [105, 120, 48, 48] [48, 48, 100, 98] with
      | none => none
      | some si => some { AVI with video_superindex := some si }

/-- Conversion of a `uint64_t` to `off_t` (two's complement, 64 bits). -/
def uint64_to_off_t (u : Nat) : Int :=
  if u < 2 ^ 63 then (u : Int) else (u : Int) - 2 ^ 64

/-- The loop `for (audtr = 0; audtr < AVI->anum; audtr++)` that adds the size of
the current standard index of every audio track with a super-index to
`towrite`, over the tracks still to visit. -/
def odml_towrite_audio (AVI : avi_t) : List Nat → Int → Option Int
  | [], tw => some tw
  | audtr :: rest, tw =>
    match (AVI.track audtr).audio_superindex with
    | none => odml_towrite_audio AVI rest tw
    | some asi =>
      match at_index asi.stdindex (asi.nEntriesInUse - 1) with
      | none => none
      | some ch =>
        odml_towrite_audio AVI rest (tw + (((ch.nEntriesInUse * 8 + 32) % 2 ^ 32 : Nat) : Int))

/-- The computation of `towrite` in `avi_add_odml_index_entry`; the products
with `nEntriesInUse` are formed in `uint32_t`.  In the last statement,
`towrite += len + (len & 1) + 8`, `len` is an `unsigned long`: the sum is formed
in 64-bit unsigned arithmetic and stored back into the `off_t`, so that a
`len` of `2^63` or more can leave `towrite` negative. -/
def odml_towrite (AVI : avi_t) (len : Nat) : Option Int :=
  match (match AVI.video_superindex with
      | none => some (0 : Int)
      | some vsi =>
        match at_index vsi.stdindex (vsi.nEntriesInUse - 1) with
        | none => none
        | some ch =>
          some ((((ch.nEntriesInUse * 8 + 32) % 2 ^ 32 : Nat) : Int)
            + (if vsi.nEntriesInUse - 1 = 0 then AVI.n_idx * 16 + 8 + HEADERBYTES else 0))) with
  | none => none
  | some tw =>
    match odml_towrite_audio AVI (List.range AVI.anum.toNat) tw with
    | none => none
    | some tw2 =>
      some (uint64_to_off_t ((tw2 + ((len : Int) + (len : Int) % 2 + 8)) % 2 ^ 64).toNat)

/-- The first audio loop of a rotation: for every track with a super-index,
`nEntriesInUse++` and `avi_add_std_index` on `stdindex[nEntriesInUse - 1]`. -/
def odml_rotate_add_audio : List Nat → avi_t → Option avi_t
  | [], AVI => some AVI
  | audtr :: rest, AVI =>
    match (AVI.track audtr).audio_superindex with
    | none => odml_rotate_add_audio rest AVI
    | some asi =>
      match update_at asi.stdindex (asi.nEntriesInUse + 1 - 1)
          (avi_add_std_index (snprintf_ix (audtr + 1)) (snprintf_wb (audtr + 1))) with
      | none => none
      | some s =>
        odml_rotate_add_audio rest
          (AVI.set_track audtr
            { AVI.track audtr with
              audio_superindex :=
                some { asi with nEntriesInUse := asi.nEntriesInUse + 1, stdindex := s } })

/-- The audio loop that writes out the standard index `k` of every track with a
super-index (`k` is `cur_std_idx - 1` in a rotation and `cur_std_idx` at close,
both taken from the video super-index): `avi_ixnn_entry`, then `dwDuration`,
a `uint32_t`, is set to `nEntriesInUse - 1` and scaled for PCM
(`a_fmt == 0x1`). -/
def odml_dump_audio (k : Int) : List Nat → avi_t × Int → Option (avi_t × Int)
  | [], s => some s
  | audtr :: rest, s =>
    match (s.1.track audtr).audio_superindex with
    | none => odml_dump_audio k rest s
    | some asi =>
      match at_index asi.stdindex k, at_index asi.aIndex k with
      | some ch, some en =>
        match avi_ixnn_entry s.1 s.2 ch en with
        | none => none
        | some r =>
          odml_dump_audio k rest
            (r.1.set_track audtr
              { r.1.track audtr with
                audio_superindex := some
                  { asi with
                    aIndex := asi.aIndex.set k.toNat
                      { r.2.2 with
                        dwDuration :=
                          if (r.1.track audtr).a_fmt = 1 then
                            ((((ch.nEntriesInUse : Int) - 1) % 2 ^ 32)
                              * ((r.1.track audtr).a_bits * (r.1.track audtr).a_rate
                                  * (r.1.track audtr).a_chans).tdiv 800) % 2 ^ 32
                          else ((ch.nEntriesInUse : Int) - 1) % 2 ^ 32 } } },
             r.2.1)
      | _, _ => none

/-- The audio loop that stores `qwBaseOffset = AVI->pos - 16 - 8` (a
`uint64_t`) into `stdindex[cur_std_idx]` of every track with a super-index. -/
def odml_base_audio (cur : Int) : List Nat → avi_t → Option avi_t
  | [], AVI => some AVI
  | audtr :: rest, AVI =>
    match (AVI.track audtr).audio_superindex with
    | none => odml_base_audio cur rest AVI
    | some asi =>
      match update_at asi.stdindex cur
          (fun ch => { ch with qwBaseOffset := ((AVI.pos - 16 - 8) % 2 ^ 64).toNat }) with
      | none => none
      | some s =>
        odml_base_audio cur rest
          (AVI.set_track audtr
            { AVI.track audtr with audio_superindex := some { asi with stdindex := s } })

/-- The block `if (cur_std_idx > 0) { ... }` of a rotation ("write the new
riff"): the finished standard indexes are written out, `idx1` is written on
the first rotation, the chunk `RIFF` with the 16 bytes `AVIXLIST\0\0\0\0movi`
is written, the base offsets of the new standard indexes are set and
`is_opendml` is incremented.  The results of the `avi_add_chunk` calls are
dropped. -/
def odml_new_riff (AVI : avi_t) (AVI_errno : Int) (cur : Int) : Option outcome :=
  match AVI.video_superindex with
  | none => none
  | some vsi =>
    match at_index vsi.stdindex (cur - 1), at_index vsi.aIndex (cur - 1) with
    | some ch, some en =>
      match avi_ixnn_entry AVI AVI_errno ch en with
      | none => none
      | some r =>
        match odml_dump_audio (cur - 1) (List.range AVI.anum.toNat)
            ({ r.1 with
               video_superindex := some
                 { vsi with
                   aIndex := vsi.aIndex.set (cur - 1).toNat
                     { r.2.2 with dwDuration := ((ch.nEntriesInUse : Int) - 1) % 2 ^ 32 } } },
             r.2.1) with
        | none => none
        | some d =>
          match (if cur = 1 then
              avi_add_chunk d.1 d.2 [105, 100, 120, 49] (d.1.idx.getD []).flatten
                (uint32_to_int32 ((d.1.n_idx * 16) % 2 ^ 32).toNat)
            else some { ret := 0, AVI := d.1, AVI_errno := d.2 }) with
          | none => none
          | some o3 =>
            match avi_add_chunk o3.AVI o3.AVI_errno [82, 73, 70, 70]
                [65, 86, 73, 88, 76, 73, 83, 84, 0, 0, 0, 0, 109, 111, 118, 105, 0] 16 with
            | none => none
            | some o4 =>
              match o4.AVI.video_superindex with
              | none => none
              | some vsi4 =>
                match update_at vsi4.stdindex cur
                    (fun c => { c with qwBaseOffset := ((o4.AVI.pos - 16 - 8) % 2 ^ 64).toNat }) with
                | none => none
                | some s4 =>
                  match odml_base_audio cur (List.range AVI.anum.toNat)
                      { o4.AVI with video_superindex := some { vsi4 with stdindex := s4 } } with
                  | none => none
                  | some A5 =>
                    some { ret := 0
                           AVI := { A5 with is_opendml := A5.is_opendml + 1 }
                           AVI_errno := o4.AVI_errno }
    | _, _ => none

/-- The rotation check of `avi_add_odml_index_entry` and the rotation itself:
`ret` is `-1` where the function returns `-1` from inside the block and `0`
where it goes on to store the entry. -/
def odml_rotate (AVI : avi_t) (AVI_errno : Int) (towrite : Int) : Option outcome :=
  match AVI.video_superindex with
  | none => some { ret := 0, AVI := AVI, AVI_errno := AVI_errno }
  | some vsi =>
    if AVI.pos + towrite > NEW_RIFF_THRES * vsi.nEntriesInUse then
      if vsi.nEntriesInUse + 1 > (NR_IXNN_CHUNKS : Int) then
        some { ret := -1
               AVI := { AVI with
                 video_superindex := some { vsi with nEntriesInUse := vsi.nEntriesInUse + 1 } }
               AVI_errno := AVI_errno }
      else
        match update_at vsi.stdindex (vsi.nEntriesInUse + 1 - 1)
            (avi_add_std_index [105, 120, 48, 48] [48, 48, 100, 98]) with
        | none => none
        | some s =>
          match odml_rotate_add_audio (List.range AVI.anum.toNat)
              { AVI with
                video_superindex := some
                  { vsi with nEntriesInUse := vsi.nEntriesInUse + 1, stdindex := s } } with
          | none => none
          | some A2 =>
            if vsi.nEntriesInUse + 1 - 1 > 0 then
              odml_new_riff A2 AVI_errno (vsi.nEntriesInUse + 1 - 1)
            else some { ret := 0, AVI := A2, AVI_errno := AVI_errno }
    else some { ret := 0, AVI := AVI, AVI_errno := AVI_errno }

/-- The last part of `avi_add_odml_index_entry`: the entry is stored into the
current standard index of the video stream (`total_frames++`) or of the
current audio track, at `AVI->pos`. -/
def odml_store (AVI : avi_t) (AVI_errno : Int) (tag : List UInt8) (flags : Int) (len : Nat) :
    Option outcome :=
  if tag_is_audio tag then
    match (AVI.track AVI.aptr).audio_superindex with
    | none => none
    | some asi =>
      match at_index asi.stdindex (asi.nEntriesInUse - 1) with
      | none => none
      | some ch =>
        match avi_add_odml_index_entry_core AVI flags AVI.pos len ch with
        | none => none
        | some r =>
          some { ret := 0
                 AVI := r.1.set_track AVI.aptr
                   { r.1.track AVI.aptr with
                     audio_superindex := some
                       { asi with stdindex := asi.stdindex.set (asi.nEntriesInUse - 1).toNat r.2 } }
                 AVI_errno := AVI_errno }
  else
    match AVI.video_superindex with
    | none => none
    | some vsi =>
      match at_index vsi.stdindex (vsi.nEntriesInUse - 1) with
      | none => none
      | some ch =>
        match avi_add_odml_index_entry_core AVI flags AVI.pos len ch with
        | none => none
        | some r =>
          some { ret := 0
                 AVI := { r.1 with
                   video_superindex := some
                     { vsi with stdindex := vsi.stdindex.set (vsi.nEntriesInUse - 1).toNat r.2 }
                   total_frames := r.1.total_frames + 1 }
                 AVI_errno := AVI_errno }

/-- `avi_add_odml_index_entry(AVI, tag, flags, pos, len)`; the parameter `pos`
is not used by the function, which takes `AVI->pos`. -/
def avi_add_odml_index_entry (AVI : avi_t) (AVI_errno : Int) (tag : List UInt8) (flags : Int)
    (len : Nat) : Option outcome :=
  match odml_init AVI tag with
  | none => none
  | some A1 =>
    match odml_towrite A1 len with
    | none => none
    | some towrite =>
      match odml_rotate A1 AVI_errno towrite with
      | none => none
      | some r => if r.ret ≠ 0 then some r else odml_store r.AVI r.AVI_errno tag flags len

/-! ## Writer: frames and audio chunks -/

/-- Conversion of a `long` to `unsigned long` (64 bits). -/
def long_to_ulong (x : Int) : Nat := (x % 2 ^ 64).toNat

/-- `plat_realloc((void *) AVI->idx, bytes)` for the array of 16-byte records:
the records that fit are kept, records added at the end are shown zeroed. -/
def realloc_idx (idx : Option (List (List UInt8))) (bytes : Int) : Option (List (List UInt8)) :=
  some ((idx.getD []).take (bytes / 16).toNat
    ++ List.replicate ((bytes / 16).toNat - (idx.getD []).length) (List.replicate 16 0))

/-- `avi_add_index_entry(AVI, tag, flags, pos, len)`; it returns 0, the
`plat_realloc` being taken to succeed.  `pos` and `len` are `unsigned long`,
`max_len` is a `uint32_t`. -/
def avi_add_index_entry (AVI : avi_t) (tag : List UInt8) (flags : Int) (pos len : Nat) :
    Option avi_t :=
  if AVI.n_idx < 0 then none
  else
    match store_at
        ((if AVI.n_idx ≥ AVI.max_idx then realloc_idx AVI.idx ((AVI.max_idx + 4096) * 16)
          else AVI.idx).getD [])
        AVI.n_idx.toNat
        (tag.take 4 ++ long2str flags ++ long2str pos ++ long2str len) with
    | none => none
    | some a =>
      some { AVI with
        idx := some a
        max_idx := if AVI.n_idx ≥ AVI.max_idx then AVI.max_idx + 4096 else AVI.max_idx
        n_idx := AVI.n_idx + 1
        max_len := if (len : Int) > AVI.max_len then (len : Int) % 2 ^ 32 else AVI.max_len }

/-- The tag `plat_write_data` uses: `astr`, which is `0Nwb` with `N = aptr + 1`,
for audio, and `00db` for video. -/
def write_tag (aptr : Nat) (audio : Bool) : List UInt8 :=
  if audio then snprintf_wb (aptr + 1) else [48, 48, 100, 98]

/-- The index flags `plat_write_data` uses: `0x10` for audio, and
`(keyframe) ? 0x10 : 0x0` for video. -/
def write_flags (audio : Bool) (keyframe : Int) : Int :=
  if audio then 0x10 else if keyframe ≠ 0 then 0x10 else 0x0

/-- The statement `if (!AVI->is_opendml) n = avi_add_index_entry(AVI, tag,
flags, AVI->pos, length);` of `plat_write_data`. -/
def write_legacy_entry (AVI : avi_t) (audio : Bool) (keyframe : Int) (length : Nat) :
    Option avi_t :=
  if AVI.is_opendml = 0 then
    avi_add_index_entry AVI (write_tag AVI.aptr audio) (write_flags audio keyframe)
      (long_to_ulong AVI.pos) length
  else some AVI

/-- `plat_write_data(AVI, data, length, audio, keyframe)`; `length` is an
`unsigned long`, which `avi_add_chunk` takes as an `int`. -/
def plat_write_data (AVI : avi_t) (AVI_errno : Int) (data : List UInt8) (length : Nat)
    (audio : Bool) (keyframe : Int) : Option outcome :=
  match write_legacy_entry AVI audio keyframe length with
  | none => none
  | some A1 =>
    match avi_add_odml_index_entry A1 AVI_errno (write_tag AVI.aptr audio)
        (write_flags audio keyframe) length with
    | none => none
    | some o =>
      if o.ret ≠ 0 then some { o with ret := -1 }
      else
        match avi_add_chunk o.AVI o.AVI_errno (write_tag AVI.aptr audio) data
            (uint32_to_int32 (length % 2 ^ 32)) with
        | none => none
        | some o2 => if o2.ret ≠ 0 then some { o2 with ret := -1 } else some { o2 with ret := 0 }

/-- `AVI_write_frame(AVI, data, bytes, keyframe)`. -/
def AVI_write_frame (AVI : avi_t) (AVI_errno : Int) (data : List UInt8) (bytes : Int)
    (keyframe : Int) : Option outcome :=
  if AVI.mode = AVI_MODE_READ then
    some { ret := -1, AVI := AVI, AVI_errno := AVI_ERR_NOT_PERM }
  else
    match plat_write_data AVI AVI_errno data (long_to_ulong bytes) false keyframe with
    | none => none
    | some o =>
      if o.ret ≠ 0 then some { o with ret := -1 }
      else
        some { ret := 0
               AVI := { o.AVI with
                 last_pos := AVI.pos
                 last_len := bytes % 2 ^ 32
                 video_frames := o.AVI.video_frames + 1 }
               AVI_errno := o.AVI_errno }

/-- `AVI_write_audio(AVI, data, bytes)`. -/
def AVI_write_audio (AVI : avi_t) (AVI_errno : Int) (data : List UInt8) (bytes : Int) :
    Option outcome :=
  if AVI.mode = AVI_MODE_READ then
    some { ret := -1, AVI := AVI, AVI_errno := AVI_ERR_NOT_PERM }
  else
    match plat_write_data AVI AVI_errno data (long_to_ulong bytes) true 0 with
    | none => none
    | some o =>
      if o.ret ≠ 0 then some { o with ret := -1 }
      else
        some { ret := 0
               AVI := o.AVI.set_track o.AVI.aptr
                 { o.AVI.track o.AVI.aptr with
                   audio_bytes := (o.AVI.track o.AVI.aptr).audio_bytes + bytes
                   audio_chunks := (o.AVI.track o.AVI.aptr).audio_chunks + 1 }
               AVI_errno := o.AVI_errno }

/-! ## Writer: the header -/

/-- Modelled from the spec: `AVI_MAX_TRACKS` of `avilib.h`, the number of audio
tracks a handle has room for. -/
def AVI_MAX_TRACKS : Int := 8

/-- `FRAME_RATE_SCALE`: the scale of the video rate in the stream header. -/
def FRAME_RATE_SCALE : Int := 1000000

/-- `AVI_MAX_LEN`: `UINT_MAX - (1<<20)*16 - HEADERBYTES`, an `unsigned int`. -/
def AVI_MAX_LEN : Int := (4294967295 - 2 ^ 20 * 16 - HEADERBYTES) % 2 ^ 32

/-- Conversion of an integer to `int` (two's complement, 32 bits). -/
def to_int32 (x : Int) : Int := uint32_to_int32 (x % 2 ^ 32).toNat

/-- Conversion `(int) x` of a `double`, shown as a rational number: the
fraction is dropped.  The conversion of a value outside the range of `int` is
undefined in C; it is kept as it is here, so that the value is that of the
code for a result within the range of `int` only. -/
def double_to_int (x : ℚ) : Int := x.num.tdiv x.den

/-- What a function that may end the program leaves behind: `exit_1` where it
called `exit(1)`, `done a` where it returned. -/
inductive run (α : Type) where
  | exit_1 : run α
  | done (a : α) : run α

/-- The header under construction in `avi_update_header` and
`avi_close_output_file`: the array `AVI_header[HEADERBYTES]`, the counter `nhb`
(a `long`) and the local variables `hdrl_start` and `strl_start` (`int`).  The
conversion of `nhb` to `int` in the two assignments is shown as the identity:
`nhb` grows by at most 4 with each statement (by at most 2048 with an `OUTMEM`
that stays inside the array) and is far below `2^31` for a handle with at most
`AVI_MAX_TRACKS` tracks and 32 entries in each super-index. -/
structure header_buf where
  AVI_header : List UInt8
  nhb : Int
  hdrl_start : Int := 0
  strl_start : Int := 0

/-- `memcpy(AVI_header + off, src, n)` with `n` the length of `src`; `none`
outside the array of `HEADERBYTES` bytes. -/
def header_store (h : List UInt8) (off : Int) (src : List UInt8) : Option (List UInt8) :=
  if 0 ≤ off ∧ off + (src.length : Int) ≤ HEADERBYTES then
    some (h.take off.toNat ++ src ++ h.drop (off.toNat + src.length))
  else none

/-- One statement of the header output: the macros `OUT4CC`, `OUTLONG`,
`OUTSHRT`, `OUTCHR` and `OUTMEM`, the assignments `hdrl_start = nhb` and
`strl_start = nhb`, and the two statements that finish a list,
`long2str(AVI_header + strl_start - 4, nhb - strl_start)` and
`long2str(AVI_header + hdrl_start - 4, nhb - hdrl_start)`. -/
inductive out_step where
  | OUT4CC (s : List UInt8) : out_step
  | OUTLONG (n : Int) : out_step
  | OUTSHRT (n : Int) : out_step
  | OUTCHR (n : Int) : out_step
  | OUTMEM (d : List UInt8) (s : Nat) : out_step
  | set_hdrl_start : out_step
  | set_strl_start : out_step
  | finish_strl : out_step
  | finish_hdrl : out_step
deriving DecidableEq

/-- The effect of one statement of the header output on the buffer.

* `OUT4CC(s)`: `if(nhb<=HEADERBYTES-4) memcpy(AVI_header+nhb,s,4); nhb += 4`;
  `s` holds at least four bytes.
* `OUTLONG(n)`: `if(nhb<=HEADERBYTES-4) long2str(AVI_header+nhb,n); nhb += 4`.
* `OUTSHRT(n)`: the two bytes `n & 0xff` and `(n >> 8) & 0xff`, stored if
  `nhb <= HEADERBYTES-2`; `nhb += 2`.
* `OUTCHR(n)`: the byte `n & 0xff`, stored if `nhb <= HEADERBYTES-1`; `nhb += 1`.
* `OUTMEM(d, s)`: with `s_ = s` as an `unsigned int`, `s_` bytes of `d` are
  copied if `nhb <= HEADERBYTES-s_`, a comparison made with `HEADERBYTES-s_`
  formed in `unsigned int`; `nhb += s_`.  Reading more bytes than `d` holds is
  an access outside an array.
* The two `long2str` that finish a list are not guarded. -/
def out_step.apply : out_step → header_buf → Option header_buf
  | .OUT4CC s, h =>
    if h.nhb ≤ HEADERBYTES - 4 then
      if s.length < 4 then none
      else
        (header_store h.AVI_header h.nhb (s.take 4)).map
          (fun b => { h with AVI_header := b, nhb := h.nhb + 4 })
    else some { h with nhb := h.nhb + 4 }
  | .OUTLONG n, h =>
    if h.nhb ≤ HEADERBYTES - 4 then
      (header_store h.AVI_header h.nhb (long2str n)).map
        (fun b => { h with AVI_header := b, nhb := h.nhb + 4 })
    else some { h with nhb := h.nhb + 4 }
  | .OUTSHRT n, h =>
    if h.nhb ≤ HEADERBYTES - 2 then
      (header_store h.AVI_header h.nhb [low_byte n, low_byte (n >>> (8 : Nat))]).map
        (fun b => { h with AVI_header := b, nhb := h.nhb + 2 })
    else some { h with nhb := h.nhb + 2 }
  | .OUTCHR n, h =>
    if h.nhb ≤ HEADERBYTES - 1 then
      (header_store h.AVI_header h.nhb [low_byte n]).map
        (fun b => { h with AVI_header := b, nhb := h.nhb + 1 })
    else some { h with nhb := h.nhb + 1 }
  | .OUTMEM d s, h =>
    if h.nhb ≤ (HEADERBYTES - ((s % 2 ^ 32 : Nat) : Int)) % 2 ^ 32 then
      if d.length < s % 2 ^ 32 then none
      else
        (header_store h.AVI_header h.nhb (d.take (s % 2 ^ 32))).map
          (fun b => { h with AVI_header := b, nhb := h.nhb + ((s % 2 ^ 32 : Nat) : Int) })
    else some { h with nhb := h.nhb + ((s % 2 ^ 32 : Nat) : Int) }
  | .set_hdrl_start, h => some { h with hdrl_start := h.nhb }
  | .set_strl_start, h => some { h with strl_start := h.nhb }
  | .finish_strl, h =>
    (header_store h.AVI_header (h.strl_start - 4) (long2str (h.nhb - h.strl_start))).map
      (fun b => { h with AVI_header := b })
  | .finish_hdrl, h =>
    (header_store h.AVI_header (h.hdrl_start - 4) (long2str (h.nhb - h.hdrl_start))).map
      (fun b => { h with AVI_header := b })

/-- A sequence of statements of the header output, executed in order. -/
def out_steps : List out_step → header_buf → Option header_buf
  | [], h => some h
  | s :: rest, h =>
    match s.apply h with
    | none => none
    | some h1 => out_steps rest h1

/-- `avi_sampsize(AVI, j)`. -/
def avi_sampsize (AVI : avi_t) (j : Nat) : Int :=
  if (((AVI.track j).a_bits + 7).tdiv 8) * (AVI.track j).a_chans < 4 then 4
  else (((AVI.track j).a_bits + 7).tdiv 8) * (AVI.track j).a_chans

/-- The rate `frate` of `avi_update_header` and `avi_close_output_file`:
`(int) (FRAME_RATE_SCALE * AVI->fps + 0.5)`, and 0 if `AVI->fps < 0.001`.  The
product and the sum are those of rational numbers, without the rounding of the
`double` operations, and the value is that of the code only while it is within
the range of `int` (see `double_to_int`). -/
def header_frate (AVI : avi_t) : Int :=
  if AVI.fps < 1 / 1000 then 0 else double_to_int ((FRAME_RATE_SCALE : ℚ) * AVI.fps + 1 / 2)

/-- The frame time `ms_per_frame` of `avi_update_header` and
`avi_close_output_file`: `(int) (1000000 / AVI->fps + 0.5)`, and 0 if
`AVI->fps < 0.001`.  The quotient and the sum are those of rational numbers,
without the rounding of the `double` operations: where the quotient of the
doubles rounds up to the next half, the code stores one more. -/
def header_ms_per_frame (AVI : avi_t) : Int :=
  if AVI.fps < 1 / 1000 then 0 else double_to_int (1000000 / AVI.fps + 1 / 2)

/-- The value of `flag` in the main AVI header: `AVIF_ISINTERLEAVED` (`0x100`),
with `AVIF_HASINDEX` (`0x10`) if `hasIndex`, and with `AVIF_MUSTUSEINDEX`
(`0x20`) if `hasIndex && AVI->must_use_index`. -/
def header_flag (AVI : avi_t) (hasIndex : Bool) : Int :=
  (((0x100 ||| (if hasIndex then 0x10 else 0)
    ||| (if hasIndex ∧ AVI.must_use_index ≠ 0 then 0x20 else 0) : Nat)) : Int)

/-- The statements of the video stream format that both header writers share,
from `OUT4CC ("strf")` to the extradata: `xd_size` and `xd_size_align2` are
`unsigned long`; the product `width * height * 3` is shown without overflow,
`long2str` taking its low 32 bits. -/
def header_vids_strf (AVI : avi_t) : List out_step :=
  [ .OUT4CC [115, 116, 114, 102],
    .OUTLONG (((40 + ((AVI.extradata_size + 1) % 2 ^ 64 / 2 * 2) : Nat) : Int)),
    .OUTLONG (((40 + AVI.extradata_size : Nat) : Int)),
    .OUTLONG AVI.width,
    .OUTLONG AVI.height,
    .OUTSHRT 1,
    .OUTSHRT 24,
    .OUT4CC AVI.compressor,
    .OUTLONG (AVI.width * AVI.height * 3),
    .OUTLONG 0,
    .OUTLONG 0,
    .OUTLONG 0,
    .OUTLONG 0 ]
  ++ (match AVI.extradata with
      | none => []
      | some xd =>
        if AVI.extradata_size > 0 then
          .OUTMEM xd AVI.extradata_size
            :: (if AVI.extradata_size ≠ (AVI.extradata_size + 1) % 2 ^ 64 / 2 * 2
                then [.OUTCHR 0] else [])
        else [])

/-- The statements of `avi_update_header` for audio track `j`, one round of the
loop `for (j = 0; j < AVI->anum; ++j)`.  The quotients are C divisions. -/
def avi_update_header_auds (AVI : avi_t) (j : Nat) : List out_step :=
  [ .OUT4CC [76, 73, 83, 84],
    .OUTLONG 0,
    .set_strl_start,
    .OUT4CC [115, 116, 114, 108],
    .OUT4CC [115, 116, 114, 104],
    .OUTLONG 56,
    .OUT4CC [97, 117, 100, 115],
    .OUTLONG 0,
    .OUTLONG 0,
    .OUTLONG 0,
    .OUTLONG 0,
    .OUTLONG ((avi_sampsize AVI j).tdiv 4),
    .OUTLONG ((1000 * (AVI.track j).mp3rate).tdiv 8),
    .OUTLONG 0,
    .OUTLONG ((4 * (AVI.track j).audio_bytes).tdiv (avi_sampsize AVI j)),
    .OUTLONG 0,
    .OUTLONG (-1),
    .OUTLONG ((avi_sampsize AVI j).tdiv 4),
    .OUTLONG 0,
    .OUTLONG 0,
    .OUT4CC [115, 116, 114, 102],
    .OUTLONG 16,
    .OUTSHRT (AVI.track j).a_fmt,
    .OUTSHRT (AVI.track j).a_chans,
    .OUTLONG (AVI.track j).a_rate,
    .OUTLONG ((1000 * (AVI.track j).mp3rate).tdiv 8),
    .OUTSHRT ((avi_sampsize AVI j).tdiv 4),
    .OUTSHRT (AVI.track j).a_bits,
    .finish_strl ]

/-- The statements of `avi_update_header` from `OUT4CC ("RIFF")` to
`long2str(AVI_header + hdrl_start - 4, nhb - hdrl_start)`; `movi_len` is
`AVI_MAX_LEN - HEADERBYTES + 4` as an `int` and `hasIndex` is 1. -/
def avi_update_header_steps (AVI : avi_t) : List out_step :=
  [ .OUT4CC [82, 73, 70, 70],
    .OUTLONG (to_int32 (AVI_MAX_LEN - HEADERBYTES + 4)),
    .OUT4CC [65, 86, 73, 32],
    .OUT4CC [76, 73, 83, 84],
    .OUTLONG 0,
    .set_hdrl_start,
    .OUT4CC [104, 100, 114, 108],
    .OUT4CC [97, 118, 105, 104],
    .OUTLONG 56,
    .OUTLONG (header_ms_per_frame AVI),
    .OUTLONG 0,
    .OUTLONG 0,
    .OUTLONG (header_flag AVI true),
    .OUTLONG 0,
    .OUTLONG 0,
    .OUTLONG (AVI.anum + 1),
    .OUTLONG 0,
    .OUTLONG AVI.width,
    .OUTLONG AVI.height,
    .OUTLONG 0,
    .OUTLONG 0,
    .OUTLONG 0,
    .OUTLONG 0,
    .OUT4CC [76, 73, 83, 84],
    .OUTLONG 0,
    .set_strl_start,
    .OUT4CC [115, 116, 114, 108],
    .OUT4CC [115, 116, 114, 104],
    .OUTLONG 56,
    .OUT4CC [118, 105, 100, 115],
    .OUT4CC AVI.compressor,
    .OUTLONG 0,
    .OUTLONG 0,
    .OUTLONG 0,
    .OUTLONG FRAME_RATE_SCALE,
    .OUTLONG (header_frate AVI),
    .OUTLONG 0,
    .OUTLONG 0,
    .OUTLONG 0,
    .OUTLONG (-1),
    .OUTLONG 0,
    .OUTLONG 0,
    .OUTLONG 0 ]
  ++ header_vids_strf AVI
  ++ [ .finish_strl ]
  ++ ((List.range AVI.anum.toNat).map (avi_update_header_auds AVI)).flatten
  ++ [ .finish_hdrl ]

/-- The JUNK chunk of both header writers, from
`njunk = HEADERBYTES - nhb - 8 - 12` to `nhb += njunk`: `exit_1` where
`njunk <= 0` (`njunk` is an `int`). -/
def header_junk (h : header_buf) : Option (run header_buf) :=
  if to_int32 (HEADERBYTES - h.nhb - 8 - 12) ≤ 0 then some run.exit_1
  else
    match out_steps [ .OUT4CC [74, 85, 78, 75], .OUTLONG (to_int32 (HEADERBYTES - h.nhb - 8 - 12)) ]
        h with
    | none => none
    | some h1 =>
      match header_store h1.AVI_header h1.nhb
          (List.replicate (to_int32 (HEADERBYTES - h.nhb - 8 - 12)).toNat 0) with
      | none => none
      | some b =>
        some (run.done
          { h1 with AVI_header := b, nhb := h1.nhb + to_int32 (HEADERBYTES - h.nhb - 8 - 12) })

/-- The start of the movi list in both header writers: `OUT4CC ("LIST");
OUTLONG(movi_len); OUT4CC ("movi");`. -/
def header_movi (movi_len : Int) (h : header_buf) : Option header_buf :=
  out_steps [ .OUT4CC [76, 73, 83, 84], .OUTLONG movi_len, .OUT4CC [109, 111, 118, 105] ] h

/-- The end of both header writers, from `njunk = HEADERBYTES - nhb - 8 - 12`
to `OUT4CC ("movi")`: `exit_1` where `njunk <= 0`, otherwise the array
`AVI_header` as it is written to the file. -/
def header_junk_movi (h : header_buf) (movi_len : Int) : Option (run (List UInt8)) :=
  match header_junk h with
  | none => none
  | some run.exit_1 => some run.exit_1
  | some (run.done h1) => (header_movi movi_len h1).map (fun h2 => run.done h2.AVI_header)

/-- The header `avi_update_header` builds.  The array is not initialised by the
function; it is shown zeroed, and every byte of it is stored into before it is
written out. -/
def avi_update_header_build (AVI : avi_t) : Option (run (List UInt8)) :=
  match out_steps (avi_update_header_steps AVI)
      { AVI_header := List.replicate HEADERBYTES.toNat 0, nhb := 0 } with
  | none => none
  | some h => header_junk_movi h (to_int32 (AVI_MAX_LEN - HEADERBYTES + 4))

/-- The error exit of `avi_update_header` and of the header output of
`avi_close_output_file`: `AVI_errno = AVI_ERR_CLOSE; return -1;` on the
descriptor `fdes` as the failed call left it. -/
def header_write_fail (AVI : avi_t) (fdes : plat_file) : outcome :=
  { ret := -1, AVI := { AVI with fdes := fdes }, AVI_errno := AVI_ERR_CLOSE }

/-- `avi_update_header(AVI)`: the header is built and written at the start of
the file, and the descriptor is put back to `AVI->pos`. -/
def avi_update_header (AVI : avi_t) (AVI_errno : Int) : Option (run outcome) :=
  match avi_update_header_build AVI with
  | none => none
  | some run.exit_1 => some run.exit_1
  | some (run.done hdr) =>
    if (plat_seek_set AVI.fdes 0).1 < 0 then
      some (run.done (header_write_fail AVI (plat_seek_set AVI.fdes 0).2))
    else
      match plat_write (plat_seek_set AVI.fdes 0).2 hdr HEADERBYTES with
      | none => none
      | some w =>
        if w.1 ≠ HEADERBYTES then some (run.done (header_write_fail AVI w.2))
        else if (plat_seek_set w.2 AVI.pos).1 < 0 then
          some (run.done (header_write_fail AVI (plat_seek_set w.2 AVI.pos).2))
        else
          some (run.done
            { ret := 0
              AVI := { AVI with fdes := (plat_seek_set w.2 AVI.pos).2 }
              AVI_errno := AVI_errno })

/-- The handle with the header written: the descriptor holds `hdr` at the
start of the file and stands at `AVI->pos`. -/
def header_written (AVI : avi_t) (hdr : List UInt8) : avi_t :=
  { AVI with fdes := { AVI.fdes with
      data := write_at AVI.fdes.data 0 hdr
      offset := AVI.pos.toNat } }

/-- The assignments of `AVI_set_video` before it calls `avi_update_header`:
`width`, `height`, `fps`, and the first five bytes of `compressor`, which are
zero if the compressor is `RGB`. -/
def AVI_set_video_fields (AVI : avi_t) (width height : Int) (fps : ℚ)
    (compressor : List UInt8) : avi_t :=
  { AVI with
    width := width
    height := height
    fps := fps
    compressor :=
      (if compressor.take 3 = [82, 71, 66] then [0, 0, 0, 0] else compressor.take 4)
        ++ [0] ++ AVI.compressor.drop 5 }

/-- `AVI_set_video(AVI, width, height, fps, compressor)`: the handle and
`AVI_errno` after the call (the result of `avi_update_header` is dropped).
`compressor` is the array the caller passes, of which the call may read four
bytes; `strncmp(compressor, "RGB", 3) == 0` holds when its first three bytes
are `RGB`. -/
def AVI_set_video (AVI : avi_t) (AVI_errno : Int) (width height : Int) (fps : ℚ)
    (compressor : List UInt8) : Option (run (avi_t × Int)) :=
  if AVI.mode ≠ AVI_MODE_READ then
    if compressor.take 3 ≠ [82, 71, 66] ∧ compressor.length < 4 then none
    else
      match avi_update_header (AVI_set_video_fields AVI width height fps compressor)
          AVI_errno with
      | none => none
      | some run.exit_1 => some run.exit_1
      | some (run.done o) => some (run.done (o.AVI, o.AVI_errno))
  else some (run.done (AVI, AVI_errno))

/-- The assignments of `AVI_set_audio` before it calls `avi_update_header`:
`aptr = anum; anum++;` and the format fields of the track. -/
def AVI_set_audio_fields (AVI : avi_t) (channels rate bits format mp3rate : Int) : avi_t :=
  { AVI with aptr := AVI.anum.toNat, anum := AVI.anum + 1 }.set_track AVI.anum.toNat
    { AVI.track AVI.anum.toNat with
      a_chans := channels
      a_rate := rate
      a_bits := bits
      a_fmt := format
      mp3rate := mp3rate }

/-- `AVI_set_audio(AVI, channels, rate, bits, format, mp3rate)`: the handle and
`AVI_errno` after the call (the result of `avi_update_header` is dropped). -/
def AVI_set_audio (AVI : avi_t) (AVI_errno : Int) (channels rate bits format mp3rate : Int) :
    Option (run (avi_t × Int)) :=
  if AVI.mode ≠ AVI_MODE_READ then
    if AVI.anum + 1 > AVI_MAX_TRACKS then some run.exit_1
    else
      match avi_update_header (AVI_set_audio_fields AVI channels rate bits format mp3rate)
          AVI_errno with
      | none => none
      | some run.exit_1 => some run.exit_1
      | some (run.done o) => some (run.done (o.AVI, o.AVI_errno))
  else some (run.done (AVI, AVI_errno))

/-- `AVI_open_output_file(filename)`: the handle (`NULL` is `none`) and
`AVI_errno` after the call.  `plat_open` with `O_CREAT | O_TRUNC` and the
allocation are taken to succeed: the descriptor is on an empty file of a device
with the limit `limit`. -/
def AVI_open_output_file (limit : Option Nat) (AVI_errno : Int) : Option avi_t × Int :=
  match plat_write { data := [], offset := 0, limit := limit }
      (List.replicate HEADERBYTES.toNat 0) HEADERBYTES with
  | some (i, fdes) =>
    if i ≠ HEADERBYTES then (none, AVI_ERR_WRITE)
    else (some { fdes := fdes, pos := HEADERBYTES, mode := AVI_MODE_WRITE, anum := 0, aptr := 0 },
          AVI_errno)
  | none => (none, AVI_ERR_WRITE)

/-- The block "dump the rest of the index" at the start of
`avi_close_output_file`: on an OpenDML file the current standard indexes are
written out and `stdindex[cur_std_idx + 1]->qwBaseOffset = AVI->pos` is
stored. -/
def avi_close_output_file_dump (AVI : avi_t) (AVI_errno : Int) : Option (avi_t × Int) :=
  if AVI.is_opendml = 0 then some (AVI, AVI_errno)
  else
    match AVI.video_superindex with
    | none => none
    | some vsi =>
      match at_index vsi.stdindex (vsi.nEntriesInUse - 1),
          at_index vsi.aIndex (vsi.nEntriesInUse - 1) with
      | some ch, some en =>
        match avi_ixnn_entry AVI AVI_errno ch en with
        | none => none
        | some r =>
          match odml_dump_audio (vsi.nEntriesInUse - 1) (List.range AVI.anum.toNat)
              ({ r.1 with
                 video_superindex := some
                   { vsi with
                     aIndex := vsi.aIndex.set (vsi.nEntriesInUse - 1).toNat
                       { r.2.2 with dwDuration := ((ch.nEntriesInUse : Int) - 1) % 2 ^ 32 } } },
               r.2.1) with
          | none => none
          | some d =>
            match d.1.video_superindex with
            | none => none
            | some vsi2 =>
              match update_at vsi2.stdindex (vsi.nEntriesInUse - 1 + 1)
                  (fun c => { c with qwBaseOffset := (d.1.pos % 2 ^ 64).toNat }) with
              | none => none
              | some s => some ({ d.1 with video_superindex := some { vsi2 with stdindex := s } }, d.2)
      | _, _ => none

/-! ## Vocabulary of the writer -/

/-- The handle `B` differs from `A` at most in the OpenDML bookkeeping: the
super-indexes of the video stream and of the audio tracks, `max_len` and
`total_frames`. -/
def odml_frame (A B : avi_t) : Prop :=
  B = { A with
        video_superindex := B.video_superindex
        track := B.track
        max_len := B.max_len
        total_frames := B.total_frames } ∧
  ∀ j, B.track j = { A.track j with audio_superindex := (B.track j).audio_superindex }

/-- The handle `B` differs from `A` at most in the OpenDML bookkeeping, the
descriptor and the write position. -/
def riff_frame (A B : avi_t) : Prop :=
  B = { A with
        fdes := B.fdes
        pos := B.pos
        video_superindex := B.video_superindex
        track := B.track
        max_len := B.max_len
        total_frames := B.total_frames } ∧
  ∀ j, B.track j = { A.track j with audio_superindex := (B.track j).audio_superindex }

/-- The bytes of a chunk in the file: the tag, the little-endian length, the
payload, and a zero byte after a payload of odd length. -/
def chunk_bytes (tag data : List UInt8) (length : Int) : List UInt8 :=
  tag.take 4 ++ long2str length ++ data.take length.toNat ++ (if length % 2 = 1 then [0] else [])

/-- A writer session: `AVI_open_output_file` on a device without limit. -/
def demo_open : Option avi_t := (AVI_open_output_file none 0).1

/-- The session `demo_open` followed by `AVI_write_frame` of the three bytes
`1, 2, 3` as a keyframe. -/
def demo_one_frame : Option outcome :=
  demo_open.bind (fun AVI => AVI_write_frame AVI 0 [1, 2, 3] 3 1)

/-- The record of 16 bytes that `avi_add_index_entry` stores. -/
def idx1_record (tag : List UInt8) (flags : Int) (pos len : Nat) : List UInt8 :=
  tag.take 4 ++ long2str flags ++ long2str pos ++ long2str len

/-- What one successful write that starts no new RIFF chunk makes of a handle
`A` that is not an OpenDML file, `B` being the handle after it: one record is
added to the legacy index at `idx[n_idx]`, with the write position `A.pos` as
its offset, the records stored before stay, and the chunk is stored at the
offset of the descriptor. -/
def chunk_written (A B : avi_t) (audio : Bool) (keyframe : Int) (data : List UInt8)
    (length : Nat) : Prop :=
  0 ≤ A.n_idx ∧ B.n_idx = A.n_idx + 1 ∧
  (∃ a, B.idx = some a ∧
    a[A.n_idx.toNat]? = some (idx1_record (write_tag A.aptr audio) (write_flags audio keyframe)
      (long_to_ulong A.pos) length) ∧
    ∀ k x, k < A.n_idx.toNat → (A.idx.getD [])[k]? = some x → a[k]? = some x) ∧
  B.fdes = { A.fdes with
    data := write_at A.fdes.data A.fdes.offset (chunk_bytes (write_tag A.aptr audio) data length)
    offset := A.fdes.offset + (chunk_bytes (write_tag A.aptr audio) data length).length } ∧
  B.pos = A.pos + (8 + PAD_EVEN length) ∧
  ((chunk_bytes (write_tag A.aptr audio) data length).length : Int) = 8 + PAD_EVEN length ∧
  length ≤ data.length ∧
  B.anum = A.anum ∧ B.aptr = A.aptr ∧ B.mode = A.mode ∧ B.video_frames = A.video_frames ∧
  B.is_opendml = A.is_opendml ∧
  (∀ j, B.track j = { A.track j with audio_superindex := (B.track j).audio_superindex })

/-- The handle that `demo_open` returns. -/
def demo_open_avi : avi_t := demo_open.getD {}

/-- The outcome of `demo_one_frame`. -/
def demo_one_frame_outcome : outcome :=
  demo_one_frame.getD { ret := -1, AVI := {}, AVI_errno := 0 }

/-- The rotation check of `avi_add_odml_index_entry` on the handle `A` for a
chunk of `len` bytes:
`AVI->video_superindex && AVI->pos + towrite > NEW_RIFF_THRES * nEntriesInUse`. -/
def rotation_check (A : avi_t) (len : Nat) : Prop :=
  match A.video_superindex, odml_towrite A len with
  | some vsi, some tw => A.pos + tw > NEW_RIFF_THRES * vsi.nEntriesInUse
  | _, _ => False

instance (A : avi_t) (len : Nat) : Decidable (rotation_check A len) := by
  unfold rotation_check
  split <;> infer_instance

/-- The handle `A` after a chunk has been stored at the offset of its
descriptor and the write position has been advanced. -/
def chunk_stored (A : avi_t) (tag data : List UInt8) (length : Int) : avi_t :=
  { A with
    fdes := { A.fdes with
      data := write_at A.fdes.data A.fdes.offset (chunk_bytes tag data length)
      offset := A.fdes.offset + (8 + PAD_EVEN length).toNat }
    pos := A.pos + (8 + PAD_EVEN length) }

/-- The index bookkeeping of `plat_write_data`, which comes before the chunk is
written: `avi_add_index_entry` unless the file is an OpenDML file, then
`avi_add_odml_index_entry`. -/
def write_index_entries (AVI : avi_t) (AVI_errno : Int) (audio : Bool) (keyframe : Int)
    (length : Nat) : Option outcome :=
  (write_legacy_entry AVI audio keyframe length).bind
    (fun A1 => avi_add_odml_index_entry A1 AVI_errno (write_tag AVI.aptr audio)
      (write_flags audio keyframe) length)

/-- An audio chunk of 2 000 000 000 zero bytes. -/
def demo_big_chunk : List UInt8 := List.replicate 2000000000 0

/-- The handle after `demo_one_frame`. -/
def demo_one_frame_avi : avi_t := demo_one_frame_outcome.AVI

/-- A writer handle on a device that is full two bytes after the 2048 bytes of
the header. -/
def demo_full_avi : avi_t :=
  { fdes := { data := List.replicate 2048 0, offset := 2048, limit := some 2050 }
    pos := 2048 }

/-- Accessor: `nEntriesInUse` of the video super-index, if the handle has one. -/
def video_entries_in_use (A : avi_t) : Option Int :=
  A.video_superindex.map (fun s => s.nEntriesInUse)

/-- Accessor: `nEntriesInUse` of the super-index of audio track `j`, if the
track has one. -/
def audio_entries_in_use (A : avi_t) (j : Nat) : Option Int :=
  (A.track j).audio_superindex.map (fun s => s.nEntriesInUse)

/-- The counts `nEntriesInUse` of the super-indexes of `B` are those of `A`,
but for a super-index that `A` did not have, whose count is the 1 of its
first-use initialisation. -/
def entries_in_use_kept (A B : avi_t) : Prop :=
  (video_entries_in_use B = video_entries_in_use A ∨
    (video_entries_in_use A = none ∧ video_entries_in_use B = some 1)) ∧
  ∀ j, audio_entries_in_use B j = audio_entries_in_use A j ∨
    (audio_entries_in_use A j = none ∧ audio_entries_in_use B j = some 1)

/-- Extraction of the value a call returned, `d` standing for a call that did
not return. -/
def run.get {α : Type} (d : α) : Option (run α) → α
  | some (run.done a) => a
  | _ => d

/-- Whether a call returned. -/
def run.returned {α : Type} : Option (run α) → Bool
  | some (run.done _) => true
  | _ => false

/-- The header that `AVI_set_audio(AVI, 2, 44100, 16, 1, 0)` writes on a new
file. -/
def demo_audio_header : List UInt8 :=
  run.get [] (avi_update_header_build (AVI_set_audio_fields demo_open_avi 2 44100 16 1 0))

/-- The handle after `AVI_open_output_file` and
`AVI_set_audio(AVI, 2, 44100, 16, 1, 0)`. -/
def demo_audio_avi : avi_t :=
  header_written (AVI_set_audio_fields demo_open_avi 2 44100 16 1 0) demo_audio_header

/-- The handle `AVI_write_frame(A, data, bytes, keyframe)` leaves when it returns
0, `B` being the handle after the index bookkeeping. -/
def write_frame_result (A B : avi_t) (data : List UInt8) (bytes : Int) : avi_t :=
  { chunk_stored B (write_tag A.aptr false) data bytes.toNat with
    last_pos := A.pos
    last_len := bytes % 2 ^ 32
    video_frames := B.video_frames + 1 }

/-- The handle `AVI_write_audio(A, data, bytes)` leaves when it returns 0, `B`
being the handle after the index bookkeeping. -/
def write_audio_result (A B : avi_t) (data : List UInt8) (bytes : Int) : avi_t :=
  (chunk_stored B (write_tag A.aptr true) data bytes.toNat).set_track B.aptr
    { B.track B.aptr with
      audio_bytes := (B.track B.aptr).audio_bytes + bytes
      audio_chunks := (B.track B.aptr).audio_chunks + 1 }

/-- The index bookkeeping of `AVI_write_frame` of three bytes as a keyframe on
`demo_audio_avi`. -/
def demo_audio_frame_index : outcome :=
  (write_index_entries demo_audio_avi 0 false 1 (3 : Int).toNat).getD
    { ret := -1, AVI := {}, AVI_errno := 0 }

/-- The handle after `demo_audio_avi` and `AVI_write_frame` of the three bytes
`1, 2, 3` as a keyframe. -/
def demo_audio_frame_avi : avi_t :=
  write_frame_result demo_audio_avi demo_audio_frame_index.AVI [1, 2, 3] 3

/-- The index bookkeeping of `AVI_write_audio` of the two bytes `4, 5` on
`demo_audio_frame_avi`. -/
def demo_audio_small_index : outcome :=
  (write_index_entries demo_audio_frame_avi 0 true 0 (2 : Int).toNat).getD
    { ret := -1, AVI := {}, AVI_errno := 0 }

/-- The index bookkeeping of `AVI_write_audio` of 2 000 000 000 bytes on
`demo_audio_frame_avi`. -/
def demo_audio_big_index : outcome :=
  (write_index_entries demo_audio_frame_avi 0 true 0 (2000000000 : Int).toNat).getD
    { ret := -1, AVI := {}, AVI_errno := 0 }



/-- The handle after `demo_audio_frame_avi` and `AVI_write_audio` of
2 000 000 000 bytes. -/
def demo_audio_big_avi : avi_t :=
  write_audio_result demo_audio_frame_avi demo_audio_big_index.AVI demo_big_chunk 2000000000

/-- The handle after `AVI_open_output_file` and `k` calls of `AVI_write_frame`
with 2 000 000 000 bytes each, as keyframes. -/
def big_frames : Nat → avi_t
  | 0 => demo_open_avi
  | k + 1 =>
    write_frame_result (big_frames k)
      ((write_index_entries (big_frames k) 0 false 1 (2000000000 : Int).toNat).getD
        { ret := -1, AVI := {}, AVI_errno := 0 }).AVI
      demo_big_chunk 2000000000
/-- The default of the extractions from an `Option outcome`. -/
def no_outcome : outcome := { ret := -1, AVI := {}, AVI_errno := 0 }

/-- The handle after `demo_audio_avi` (a new file with one audio track) and
`AVI_write_frame` with 2 000 000 000 bytes. -/
def late_audio_1 : avi_t :=
  write_frame_result demo_audio_avi
    ((write_index_entries demo_audio_avi 0 false 1 (2000000000 : Int).toNat).getD no_outcome).AVI
    demo_big_chunk 2000000000

/-- The handle after `late_audio_1` and `AVI_write_audio` with the two bytes
`4, 5`. -/
def late_audio_2 : avi_t :=
  write_audio_result late_audio_1
    ((write_index_entries late_audio_1 0 true 0 (2 : Int).toNat).getD no_outcome).AVI [4, 5] 2

/-- The handle after `late_audio_2` and a second `AVI_write_frame` with
2 000 000 000 bytes. -/
def late_audio_3 : avi_t :=
  write_frame_result late_audio_2
    ((write_index_entries late_audio_2 0 false 1 (2000000000 : Int).toNat).getD no_outcome).AVI
    demo_big_chunk 2000000000

/-- Accessor: the standard index `k` of a super-index, if there is one. -/
def std_index (s : Option avisuperindex_chunk) (k : Nat) : Option avistdindex_chunk :=
  s.bind (fun si => si.stdindex[k]?)

/-! ## Writer: closing the file -/

/-- Modelled from the spec: `plat_ftruncate(fd, length)` of the platform façade,
as `ftruncate`: a negative length, or one beyond the limit of the device, fails
with `-1`; otherwise the file is cut, or extended with zero bytes, to `length`
bytes and 0 is returned.  The offset stays. -/
def plat_ftruncate (fdes : plat_file) (length : Int) : Int × plat_file :=
  if length < 0 then (-1, fdes)
  else if (match fdes.limit with
      | some l => decide ((l : Int) < length)
      | none => false) then (-1, fdes)
  else
    (0, { fdes with
      data := fdes.data.take length.toNat ++ List.replicate (length.toNat - fdes.data.length) 0 })

/-- `MAX_INFO_STRLEN`. -/
def MAX_INFO_STRLEN : Int := 64

/-- The 16 bytes of `id_str` that `avi_close_output_file` copies into the
header: the text of `snprintf(id_str, sizeof(id_str), "%s-%s", PACKAGE, VERSION)`,
which is `transcode-1.1.0`, and its terminating zero byte; `id_len` and
`real_id_len` are 16. -/
def id_str : List UInt8 :=
  [116, 114, 97, 110, 115, 99, 111, 100, 101, 45, 49, 46, 49, 46, 48, 0]

/-- `avi_parse_comments(fd, buf, space_left)`: the value returned and the bytes
stored from `buf` on, if any.  The function returns `-1` at its safety checks
when `fd <= 0` or `space_left <= 0`, before it touches `buf`.  The reading of the
comment text is not part of this embedding (the side channel is an external
collaborator of the container engine): `info` stands for the INFO sub-chunks
that the function assembles from the text; after `memset(buf, 0, space_left)`
they are stored at `buf` and their length is returned.  Sub-chunks that do not
fit in `space_left` are an access outside the array. -/
def avi_parse_comments (fd : Int) (info : List UInt8) (space_left : Int) :
    Option (Int × Option (List UInt8)) :=
  if fd ≤ 0 ∨ space_left ≤ 0 then some (-1, none)
  else if (info.length : Int) < space_left then
    some ((info.length : Int),
      some (info ++ List.replicate (space_left.toNat - info.length) 0))
  else none

/-- The `indx` chunk of a stream in the header of `avi_close_output_file`: its
ten header fields and, for each of the `nEntriesInUse` entries of the
super-index, the four fields `s`, `r` (the low and the high 32 bits of
`qwOffset`), `dwSize` and `dwDuration`.  Reading an entry that `aIndex` does not
hold is an access outside the array. -/
def header_indx (si : avisuperindex_chunk) : Option (List out_step) :=
  if si.nEntriesInUse.toNat ≤ si.aIndex.length then
    some
      ([ .OUT4CC si.fcc,
         .OUTLONG (2 + 1 + 1 + 4 + 4 + 3 * 4 + si.nEntriesInUse * (8 + 4 + 4)),
         .OUTSHRT si.wLongsPerEntry,
         .OUTCHR si.bIndexSubType,
         .OUTCHR si.bIndexType,
         .OUTLONG si.nEntriesInUse,
         .OUT4CC si.dwChunkId,
         .OUTLONG 0,
         .OUTLONG 0,
         .OUTLONG 0 ]
       ++ ((si.aIndex.take si.nEntriesInUse.toNat).map
            (fun en =>
              [ out_step.OUTLONG (en.qwOffset % (2 : Int) ^ 32),
                out_step.OUTLONG ((en.qwOffset / (2 : Int) ^ 32) % (2 : Int) ^ 32),
                out_step.OUTLONG en.dwSize,
                out_step.OUTLONG en.dwDuration ])).flatten)
  else none

/-- The value of `sampsize` that the header output of `avi_close_output_file`
uses for audio track `j`: `avi_sampsize(AVI, j)`, times 4 for PCM
(`a_fmt == 0x1`), and that halved for PCM with fewer than two channels. -/
def close_sampsize (AVI : avi_t) (j : Nat) : Int :=
  if (AVI.track j).a_fmt = 1 then
    if (AVI.track j).a_chans < 2 then (avi_sampsize AVI j * 4).tdiv 2 else avi_sampsize AVI j * 4
  else avi_sampsize AVI j

/-- The value of `nBlockAlign` in `avi_close_output_file`:
`(a_rate < 32000) ? 576 : 1152`. -/
def close_nBlockAlign (AVI : avi_t) (j : Nat) : Int :=
  if (AVI.track j).a_rate < 32000 then 576 else 1152

/-- The value of `avgbsec` and of `scalerate` in `avi_close_output_file`:
`a_rate * sampsize / 4` for PCM and `1000 * mp3rate / 8` otherwise (C
divisions). -/
def close_avgbsec (AVI : avi_t) (j : Nat) : Int :=
  if (AVI.track j).a_fmt = 1 then ((AVI.track j).a_rate * close_sampsize AVI j).tdiv 4
  else (1000 * (AVI.track j).mp3rate).tdiv 8

/-- The stream header of audio track `j` in `avi_close_output_file`, from
`OUT4CC ("LIST")` to the last `OUTLONG(0)` before `OUT4CC ("strf")`. -/
def avi_close_header_auds_strh (AVI : avi_t) (j : Nat) : List out_step :=
  [ .OUT4CC [76, 73, 83, 84],
    .OUTLONG 0,
    .set_strl_start,
    .OUT4CC [115, 116, 114, 108],
    .OUT4CC [115, 116, 114, 104],
    .OUTLONG 56,
    .OUT4CC [97, 117, 100, 115],
    .OUTLONG 0,
    .OUTLONG 0,
    .OUTLONG 0,
    .OUTLONG 0 ]
  ++ (if (AVI.track j).a_fmt = 0x55 ∧ (AVI.track j).a_vbr ≠ 0 then
        [ .OUTLONG (close_nBlockAlign AVI j),
          .OUTLONG (AVI.track j).a_rate,
          .OUTLONG 0,
          .OUTLONG (AVI.track j).audio_chunks,
          .OUTLONG 0,
          .OUTLONG 0,
          .OUTLONG 0,
          .OUTLONG 0,
          .OUTLONG 0 ]
      else
        [ .OUTLONG ((close_sampsize AVI j).tdiv 4),
          .OUTLONG (close_avgbsec AVI j),
          .OUTLONG 0,
          .OUTLONG ((4 * (AVI.track j).audio_bytes).tdiv (close_sampsize AVI j)),
          .OUTLONG 0,
          .OUTLONG 0xffffffff,
          .OUTLONG ((close_sampsize AVI j).tdiv 4),
          .OUTLONG 0,
          .OUTLONG 0 ])

/-- The payload of the stream format chunk of audio track `j` in
`avi_close_output_file`: the statements after `OUTLONG(30)` or `OUTLONG(18)`. -/
def avi_close_header_auds_strf_payload (AVI : avi_t) (j : Nat) : List out_step :=
  if (AVI.track j).a_fmt = 0x55 ∧ (AVI.track j).a_vbr ≠ 0 then
    [ .OUTSHRT (AVI.track j).a_fmt,
      .OUTSHRT (AVI.track j).a_chans,
      .OUTLONG (AVI.track j).a_rate,
      .OUTLONG ((1000 * (AVI.track j).mp3rate).tdiv 8),
      .OUTSHRT (close_nBlockAlign AVI j),
      .OUTSHRT (AVI.track j).a_bits,
      .OUTSHRT 12,
      .OUTSHRT 1,
      .OUTLONG 2,
      .OUTSHRT (close_nBlockAlign AVI j),
      .OUTSHRT 1,
      .OUTSHRT 0 ]
  else if (AVI.track j).a_fmt = 0x55 ∧ ¬ (AVI.track j).a_vbr ≠ 0 then
    [ .OUTSHRT (AVI.track j).a_fmt,
      .OUTSHRT (AVI.track j).a_chans,
      .OUTLONG (AVI.track j).a_rate,
      .OUTLONG ((1000 * (AVI.track j).mp3rate).tdiv 8),
      .OUTSHRT ((close_sampsize AVI j).tdiv 4),
      .OUTSHRT (AVI.track j).a_bits,
      .OUTSHRT 12,
      .OUTSHRT 1,
      .OUTLONG 2,
      .OUTSHRT (close_nBlockAlign AVI j),
      .OUTSHRT 1,
      .OUTSHRT 0 ]
  else
    [ .OUTSHRT (AVI.track j).a_fmt,
      .OUTSHRT (AVI.track j).a_chans,
      .OUTLONG (AVI.track j).a_rate,
      .OUTLONG (close_avgbsec AVI j),
      .OUTSHRT ((close_sampsize AVI j).tdiv 4),
      .OUTSHRT (AVI.track j).a_bits,
      .OUTSHRT 0 ]

/-- The length that the stream format chunk of audio track `j` declares in
`avi_close_output_file`: the argument of the `OUTLONG` after
`OUT4CC ("strf")`, 30 in the two branches for `a_fmt == 0x55` and 18 in the
last one. -/
def avi_close_header_auds_strf_len (AVI : avi_t) (j : Nat) : Int :=
  if (AVI.track j).a_fmt = 0x55 ∧ (AVI.track j).a_vbr ≠ 0 then 30
  else if (AVI.track j).a_fmt = 0x55 ∧ ¬ (AVI.track j).a_vbr ≠ 0 then 30
  else 18

/-- The stream format chunk of audio track `j` in `avi_close_output_file`. -/
def avi_close_header_auds_strf (AVI : avi_t) (j : Nat) : List out_step :=
  [ .OUT4CC [115, 116, 114, 102], .OUTLONG (avi_close_header_auds_strf_len AVI j) ]
  ++ avi_close_header_auds_strf_payload AVI j

/-- One round of the loop `for (j = 0; j < AVI->anum; ++j)` of
`avi_close_output_file`: the stream list of audio track `j`.  In an OpenDML
file the `indx` chunk of the track follows the stream format; for a track
without super-index the `continue` leaves the list without its length. -/
def avi_close_header_auds (AVI : avi_t) (j : Nat) : Option (List out_step) :=
  if AVI.is_opendml ≠ 0 then
    match (AVI.track j).audio_superindex with
    | none => some (avi_close_header_auds_strh AVI j ++ avi_close_header_auds_strf AVI j)
    | some si =>
      (header_indx si).map
        (fun x => avi_close_header_auds_strh AVI j ++ avi_close_header_auds_strf AVI j ++ x
          ++ [.finish_strl])
  else
    some (avi_close_header_auds_strh AVI j ++ avi_close_header_auds_strf AVI j ++ [.finish_strl])

/-- The loop `for (j = 0; j < AVI->anum; ++j)` of `avi_close_output_file`, over
the tracks still to visit. -/
def avi_close_header_auds_all (AVI : avi_t) : List Nat → Option (List out_step)
  | [] => some []
  | j :: js =>
    match avi_close_header_auds AVI j, avi_close_header_auds_all AVI js with
    | some a, some b => some (a ++ b)
    | _, _ => none

/-- The statements of the main AVI header and of the video stream header in
`avi_close_output_file`, from `OUT4CC ("RIFF")` to the last `OUTLONG(0)` before
the stream format; `riff_len` is the argument of the first `OUTLONG`. -/
def avi_close_header_vids (AVI : avi_t) (hasIndex : Bool) (riff_len : Int) : List out_step :=
  [ .OUT4CC [82, 73, 70, 70],
    .OUTLONG riff_len,
    .OUT4CC [65, 86, 73, 32],
    .OUT4CC [76, 73, 83, 84],
    .OUTLONG 0,
    .set_hdrl_start,
    .OUT4CC [104, 100, 114, 108],
    .OUT4CC [97, 118, 105, 104],
    .OUTLONG 56,
    .OUTLONG (header_ms_per_frame AVI),
    .OUTLONG 0,
    .OUTLONG 0,
    .OUTLONG (header_flag AVI hasIndex),
    .OUTLONG AVI.video_frames,
    .OUTLONG 0,
    .OUTLONG (AVI.anum + 1),
    .OUTLONG 0,
    .OUTLONG AVI.width,
    .OUTLONG AVI.height,
    .OUTLONG 0,
    .OUTLONG 0,
    .OUTLONG 0,
    .OUTLONG 0,
    .OUT4CC [76, 73, 83, 84],
    .OUTLONG 0,
    .set_strl_start,
    .OUT4CC [115, 116, 114, 108],
    .OUT4CC [115, 116, 114, 104],
    .OUTLONG 56,
    .OUT4CC [118, 105, 100, 115],
    .OUT4CC AVI.compressor,
    .OUTLONG 0,
    .OUTLONG 0,
    .OUTLONG 0,
    .OUTLONG FRAME_RATE_SCALE,
    .OUTLONG (header_frate AVI),
    .OUTLONG 0,
    .OUTLONG AVI.video_frames,
    .OUTLONG AVI.max_len,
    .OUTLONG 0,
    .OUTLONG 0,
    .OUTLONG 0,
    .OUTLONG 0 ]

/-- The `odml` list of the header of an OpenDML file:
`OUT4CC("LIST"); OUTLONG(16); OUT4CC("odml"); OUT4CC("dmlh"); OUTLONG(4);
 OUTLONG(AVI->total_frames);`. -/
def avi_close_header_odml (AVI : avi_t) : List out_step :=
  if AVI.is_opendml ≠ 0 then
    [ .OUT4CC [76, 73, 83, 84],
      .OUTLONG 16,
      .OUT4CC [111, 100, 109, 108],
      .OUT4CC [100, 109, 108, 104],
      .OUTLONG 4,
      .OUTLONG AVI.total_frames ]
  else []

/-- The argument of the `OUTLONG` after `OUT4CC ("RIFF")` in
`avi_close_output_file`: `stdindex[1]->qwBaseOffset - 8` of the video
super-index in an OpenDML file, and `AVI->pos - 8` otherwise. -/
def avi_close_riff_len (AVI : avi_t) : Option Int :=
  if AVI.is_opendml ≠ 0 then
    match AVI.video_superindex with
    | none => none
    | some vsi => (vsi.stdindex[1]?).map (fun c => (c.qwBaseOffset : Int) - 8)
  else some (AVI.pos - 8)

/-- The `indx` chunk of the video stream in `avi_close_output_file`: written in
an OpenDML file only. -/
def avi_close_header_vids_indx (AVI : avi_t) : Option (List out_step) :=
  if AVI.is_opendml ≠ 0 then
    match AVI.video_superindex with
    | none => none
    | some vsi => header_indx vsi
  else some []

/-- The statements of `avi_close_output_file` from `OUT4CC ("RIFF")` to
`long2str(AVI_header + hdrl_start - 4, nhb - hdrl_start)`; `hasIndex` tells
whether the chunk `idx1` was written. -/
def avi_close_header_steps (AVI : avi_t) (hasIndex : Bool) : Option (List out_step) :=
  match avi_close_riff_len AVI, avi_close_header_vids_indx AVI,
      avi_close_header_auds_all AVI (List.range AVI.anum.toNat) with
  | some riff_len, some indx, some auds =>
    some (avi_close_header_vids AVI hasIndex riff_len
      ++ header_vids_strf AVI
      ++ indx
      ++ [ .finish_strl ]
      ++ auds
      ++ avi_close_header_odml AVI
      ++ [ .finish_hdrl ])
  | _, _, _ => none

/-- The INFO list of the header of `avi_close_output_file`, from
`OUT4CC ("LIST")` to `nhb += info_len`: the list length, first written as
`MAX_INFO_STRLEN + 12`, is stored again at `info_start_pos` once the length of
the comments is known; the stores of `id_str` and of the comments are not
guarded. -/
def header_info (comment_fd : Int) (info : List UInt8) (h : header_buf) : Option header_buf :=
  match out_steps [ .OUT4CC [76, 73, 83, 84] ] h with
  | none => none
  | some h1 =>
    match out_steps
        [ .OUTLONG (MAX_INFO_STRLEN + 12), .OUT4CC [73, 78, 70, 79], .OUT4CC [73, 83, 70, 84],
          .OUTLONG 16 ] h1 with
    | none => none
    | some h2 =>
      match header_store h2.AVI_header h2.nhb id_str with
      | none => none
      | some b =>
        match avi_parse_comments comment_fd info (to_int32 (HEADERBYTES - (h2.nhb + 16) - 8 - 12)) with
        | none => none
        | some r =>
          match (match r.2 with
              | none => some b
              | some bytes => header_store b (h2.nhb + 16) bytes) with
          | none => none
          | some b2 =>
            (header_store b2 h1.nhb
                (long2str ((if r.1 ≤ 0 then 0 else r.1) + 16 + 4 + 4 + 4))).map
              (fun b3 =>
                { h2 with AVI_header := b3, nhb := h2.nhb + 16 + (if r.1 ≤ 0 then 0 else r.1) })

/-- The header that `avi_close_output_file` builds, up to the INFO list: the
buffer before `njunk` is computed.  The array is not initialised by the
function; it is shown zeroed. -/
def avi_close_header_build (AVI : avi_t) (hasIndex : Bool) (info : List UInt8) :
    Option header_buf :=
  match avi_close_header_steps AVI hasIndex with
  | none => none
  | some l =>
    match out_steps l { AVI_header := List.replicate HEADERBYTES.toNat 0, nhb := 0 } with
    | none => none
    | some h => header_info AVI.comment_fd info h

/-- The value of `movi_len` in `avi_close_output_file`, an `unsigned long`:
`stdindex[1]->qwBaseOffset - HEADERBYTES + 4 - AVI->n_idx * 16 - 8` in an
OpenDML file, and `AVI->pos - HEADERBYTES + 4` otherwise. -/
def avi_close_movi_len (AVI : avi_t) : Option Int :=
  if AVI.is_opendml ≠ 0 then
    match AVI.video_superindex with
    | none => none
    | some vsi =>
      (vsi.stdindex[1]?).map
        (fun c => ((c.qwBaseOffset : Int) - HEADERBYTES + 4 - AVI.n_idx * 16 - 8) % 2 ^ 64)
  else some ((AVI.pos - HEADERBYTES + 4) % 2 ^ 64)

/-- The output of the legacy index in `avi_close_output_file`: in a file that
is not OpenDML, `ret = avi_add_chunk(AVI, "idx1", AVI->idx, AVI->n_idx * 16)`,
and `AVI_errno = AVI_ERR_WRITE_INDEX` if `ret` is not 0.  The outcome holds
`ret` (0 in an OpenDML file): `hasIndex` is `ret == 0` and `idxerror` is
`ret != 0`. -/
def avi_close_idx1 (AVI : avi_t) (AVI_errno : Int) : Option outcome :=
  if AVI.is_opendml = 0 then
    match avi_add_chunk AVI AVI_errno [105, 100, 120, 49] (AVI.idx.getD []).flatten
        (to_int32 (AVI.n_idx * 16)) with
    | none => none
    | some o => some (if o.ret ≠ 0 then { o with AVI_errno := AVI_ERR_WRITE_INDEX } else o)
  else some { ret := 0, AVI := AVI, AVI_errno := AVI_errno }

/-- The loop that fixes up the `RIFF` and `LIST` chunks of the additional RIFF
chunks at the end of `avi_close_output_file`, over the values of `k` still to
visit: at `stdindex[k]->qwBaseOffset + 4` the length
`stdindex[k + 1]->qwBaseOffset - stdindex[k]->qwBaseOffset - 8` (an
`unsigned int`) is written, and 8 bytes further that length less 12.  The
results of the seeks and of the writes are dropped. -/
def avi_close_fixup (vsi : avisuperindex_chunk) : List Nat → plat_file → Option plat_file
  | [], f => some f
  | k :: rest, f =>
    match vsi.stdindex[k]?, vsi.stdindex[k + 1]? with
    | some c, some c1 =>
      match plat_write (plat_seek_set f ((c.qwBaseOffset : Int) + 4)).2
          (long2str (((c1.qwBaseOffset : Int) - (c.qwBaseOffset : Int) - 8) % 2 ^ 32)) 4 with
      | none => none
      | some w1 =>
        match plat_write (plat_seek_cur w1.2 8).2
            (long2str
              ((((c1.qwBaseOffset : Int) - (c.qwBaseOffset : Int) - 8) % 2 ^ 32 - 12) % 2 ^ 32))
            4 with
        | none => none
        | some w2 => avi_close_fixup vsi rest w2.2
    | _, _ => none

/-- The end of `avi_close_output_file`, from `plat_seek(AVI->fdes, 0, SEEK_SET)`
on: the header is written at the start of the file, the file is truncated to
`AVI->pos`, the additional RIFF chunks of an OpenDML file are fixed up, and the
function returns -1 if `idxerror` and 0 otherwise.  `o` is the outcome of the
output of the legacy index. -/
def avi_close_write (o : outcome) (hdr : List UInt8) : Option outcome :=
  if (plat_seek_set o.AVI.fdes 0).1 < 0 then
    some (header_write_fail o.AVI (plat_seek_set o.AVI.fdes 0).2)
  else
    match plat_write (plat_seek_set o.AVI.fdes 0).2 hdr HEADERBYTES with
    | none => none
    | some w =>
      if w.1 ≠ HEADERBYTES then some (header_write_fail o.AVI w.2)
      else if (plat_ftruncate w.2 o.AVI.pos).1 < 0 then
        some (header_write_fail o.AVI (plat_ftruncate w.2 o.AVI.pos).2)
      else
        match (if o.AVI.is_opendml ≠ 0 then
            match o.AVI.video_superindex with
            | none => none
            | some vsi =>
              avi_close_fixup vsi ((List.range vsi.nEntriesInUse.toNat).drop 1)
                (plat_ftruncate w.2 o.AVI.pos).2
          else some (plat_ftruncate w.2 o.AVI.pos).2) with
        | none => none
        | some f =>
          some { ret := if o.ret ≠ 0 then -1 else 0
                 AVI := { o.AVI with fdes := f }
                 AVI_errno := o.AVI_errno }

/-- The first part of `avi_close_output_file(AVI)`, up to `OUT4CC ("movi")`:
the outcome of the output of the legacy index and the header built; `info`
stands for the INFO sub-chunks that `avi_parse_comments` assembles (see
there). -/
def avi_close_output_file_header (AVI : avi_t) (AVI_errno : Int) (info : List UInt8) :
    Option (run (outcome × List UInt8)) :=
  match avi_close_output_file_dump AVI AVI_errno with
  | none => none
  | some d =>
    match avi_close_movi_len d.1, avi_close_idx1 d.1 d.2 with
    | some movi_len, some o =>
      match avi_close_header_build o.AVI (decide (o.ret = 0)) info with
      | none => none
      | some h =>
        match header_junk_movi h movi_len with
        | none => none
        | some run.exit_1 => some run.exit_1
        | some (run.done hdr) => some (run.done (o, hdr))
    | _, _ => none

/-- `avi_close_output_file(AVI)`; `info` stands for the INFO sub-chunks that
`avi_parse_comments` assembles (see there). -/
def avi_close_output_file (AVI : avi_t) (AVI_errno : Int) (info : List UInt8) :
    Option (run outcome) :=
  match avi_close_output_file_header AVI AVI_errno info with
  | none => none
  | some run.exit_1 => some run.exit_1
  | some (run.done r) => (avi_close_write r.1 r.2).map run.done

/-- `AVI_close(AVI)` on a handle open for writing or reading: the value
returned, the file as the call leaves it and `AVI_errno`.  The handle is freed. -/
def AVI_close (AVI : avi_t) (AVI_errno : Int) (info : List UInt8) :
    Option (run (Int × plat_file × Int)) :=
  if AVI.mode = AVI_MODE_WRITE then
    match avi_close_output_file AVI AVI_errno info with
    | none => none
    | some run.exit_1 => some run.exit_1
    | some (run.done o) => some (run.done (o.ret, o.AVI.fdes, o.AVI_errno))
  else some (run.done (0, AVI.fdes, AVI_errno))

/-- The number of bytes by which a statement of the header output advances
`nhb`. -/
def out_step.size : out_step → Int
  | .OUT4CC _ => 4
  | .OUTLONG _ => 4
  | .OUTSHRT _ => 2
  | .OUTCHR _ => 1
  | .OUTMEM _ s => ((s % 2 ^ 32 : Nat) : Int)
  | .set_hdrl_start => 0
  | .set_strl_start => 0
  | .finish_strl => 0
  | .finish_hdrl => 0

/-- The number of bytes by which a sequence of statements of the header output
advances `nhb`. -/
def steps_size (l : List out_step) : Int := (l.map out_step.size).sum

/-- The outcome of the output of the legacy index when `demo_audio_frame_avi`
(one audio track, one video frame) is closed. -/
def demo_close_idx1 : outcome := (avi_close_idx1 demo_audio_frame_avi 0).getD no_outcome

/-- The header buffer of `avi_close_output_file` on `demo_audio_frame_avi`
before `njunk` is computed. -/
def demo_close_header : header_buf :=
  (avi_close_header_build demo_close_idx1.AVI (decide (demo_close_idx1.ret = 0)) []).getD
    { AVI_header := [], nhb := 0 }

/-- A well-formed state of the header output: the array holds `HEADERBYTES`
bytes, `nhb` is not negative and the two list starts recorded are not beyond
`nhb`. -/
def header_ok (h : header_buf) : Prop :=
  h.AVI_header.length = HEADERBYTES.toNat ∧ 0 ≤ h.nhb ∧ h.hdrl_start ≤ h.nhb ∧
    h.strl_start ≤ h.nhb

/-- The bytes `x .. x + n - 1` of the header are out of reach of the statements
to come: `nhb` is at least four bytes beyond them, and neither list length that
is still to be stored (the four bytes before `hdrl_start` and before
`strl_start`) lies in them. -/
def region_safe (x n : Nat) (h : header_buf) : Prop :=
  (x : Int) + n + 4 ≤ h.nhb ∧
    (h.hdrl_start ≤ x ∨ (x : Int) + n + 4 ≤ h.hdrl_start) ∧
    (h.strl_start ≤ x ∨ (x : Int) + n + 4 ≤ h.strl_start)

/-- The result of the first part of `avi_close_output_file` on
`demo_audio_frame_avi`: the outcome of the output of `idx1` and the header. -/
def demo_close_result : outcome × List UInt8 :=
  run.get (no_outcome, []) (avi_close_output_file_header demo_audio_frame_avi 0 [])

/-- A new file on a device that is full two bytes after the 2048 bytes of the
header: the handle that `AVI_open_output_file` returns. -/
def demo_small_device_avi : avi_t := ((AVI_open_output_file (some 2050) 0).1).getD {}

/-- The result of the first part of `avi_close_output_file` on
`demo_small_device_avi`. -/
def demo_small_device_result : outcome × List UInt8 :=
  run.get (no_outcome, []) (avi_close_output_file_header demo_small_device_avi 0 [])

/-- The header that `avi_close_output_file` writes for `demo_audio_frame_avi`. -/
def demo_close_hdr : List UInt8 :=
  run.get [] (header_junk_movi demo_close_header 16)


/-- The handle and `AVI_errno` after the block "dump the rest of the index" of
`avi_close_output_file` on `big_frames 2`, an OpenDML file of three RIFF
chunks. -/
def demo_odml_dump : avi_t × Int := (avi_close_output_file_dump (big_frames 2) 0).getD ({}, 0)

/-- The outcome of the output of the legacy index on `demo_odml_dump`: an
OpenDML file has none, and the handle stays. -/
def demo_odml_outcome : outcome := { ret := 0, AVI := demo_odml_dump.1, AVI_errno := 0 }

/-- The video super-index of `demo_odml_outcome`. -/
def demo_odml_vsi : avisuperindex_chunk := demo_odml_outcome.AVI.video_superindex.getD {}

/-- The entry `stdindex[k]` of `demo_odml_vsi`. -/
def demo_odml_std (k : Nat) : avistdindex_chunk := (demo_odml_vsi.stdindex[k]?).getD {}

/-! ## Vocabulary: sequences of writer calls -/

/-- A call of `AVI_write_frame` or of `AVI_write_audio`, with its arguments. -/
inductive writer_call where
  | write_frame (data : List UInt8) (bytes : Int) (keyframe : Int) : writer_call
  | write_audio (data : List UInt8) (bytes : Int) : writer_call

/-- The call made on a handle. -/
def writer_call.apply (c : writer_call) (AVI : avi_t) (AVI_errno : Int) : Option outcome :=
  match c with
  | .write_frame data bytes keyframe => AVI_write_frame AVI AVI_errno data bytes keyframe
  | .write_audio data bytes => AVI_write_audio AVI AVI_errno data bytes

/-- A sequence of calls, each made on the handle and with the `AVI_errno` that
the call before has left, whatever it returned. -/
def writer_calls : List writer_call → avi_t × Int → Option (avi_t × Int)
  | [], s => some s
  | c :: rest, s =>
    match c.apply s.1 s.2 with
    | none => none
    | some o => writer_calls rest (o.AVI, o.AVI_errno)

/-- Whether every call of the sequence returns 0. -/
def writer_calls_all_zero : List writer_call → avi_t × Int → Bool
  | [], _ => true
  | c :: rest, s =>
    match c.apply s.1 s.2 with
    | none => false
    | some o => decide (o.ret = 0) && writer_calls_all_zero rest (o.AVI, o.AVI_errno)

/-- Every call of the sequence returns 0. -/
def writer_calls_succeed (calls : List writer_call) (s : avi_t × Int) : Prop :=
  writer_calls_all_zero calls s = true

/-- The handle `B` differs from `A` at most in the descriptor, the write
position, the OpenDML bookkeeping and `is_opendml`: what a rotation changes. -/
def rotation_frame (A B : avi_t) : Prop :=
  B = { A with
        fdes := B.fdes
        pos := B.pos
        video_superindex := B.video_superindex
        track := B.track
        max_len := B.max_len
        is_opendml := B.is_opendml } ∧
  ∀ j, B.track j = { A.track j with audio_superindex := (B.track j).audio_superindex }

/-- What the rotation check keeps true of a file that is not OpenDML and has a
video super-index: the super-index has one entry in use, and the file with its
legacy index and the header stays within `NEW_RIFF_THRES`; the handle has at
most `AVI_MAX_TRACKS` audio tracks. -/
def legacy_bound (A : avi_t) : Prop :=
  0 ≤ A.n_idx ∧ 0 ≤ A.is_opendml ∧ A.anum ≤ AVI_MAX_TRACKS ∧
  (A.is_opendml = 0 → ∀ vsi, A.video_superindex = some vsi →
    vsi.nEntriesInUse = 1 ∧ A.pos + (A.n_idx * 16 + 8 + HEADERBYTES) ≤ NEW_RIFF_THRES)

/-- Whether the call writes an audio chunk. -/
def writer_call.audio : writer_call → Bool
  | .write_frame _ _ _ => false
  | .write_audio _ _ => true

/-- The argument `keyframe` that `plat_write_data` gets from the call. -/
def writer_call.keyframe : writer_call → Int
  | .write_frame _ _ keyframe => keyframe
  | .write_audio _ _ => 0

/-- The argument `bytes` of the call. -/
def writer_call.bytes : writer_call → Int
  | .write_frame _ bytes _ => bytes
  | .write_audio _ bytes => bytes

/-! ## Reader: sizes, the start position, the current track -/

/-- `AVI_frame_size(AVI, frame)`. -/
def AVI_frame_size (AVI : avi_t) (AVI_errno : Int) (frame : Int) : Option outcome :=
  if AVI.mode = AVI_MODE_WRITE then
    some { ret := -1, AVI := AVI, AVI_errno := AVI_ERR_NOT_PERM }
  else
    match AVI.video_index with
    | none => some { ret := -1, AVI := AVI, AVI_errno := AVI_ERR_NO_IDX }
    | some video_index =>
      if frame < 0 ∨ frame ≥ AVI.video_frames then
        some { ret := 0, AVI := AVI, AVI_errno := AVI_errno }
      else
        match at_index video_index frame with
        | none => none
        | some e => some { ret := e.len, AVI := AVI, AVI_errno := AVI_errno }

/-- `AVI_audio_size(AVI, frame)`. -/
def AVI_audio_size (AVI : avi_t) (AVI_errno : Int) (frame : Int) : Option outcome :=
  if AVI.mode = AVI_MODE_WRITE then
    some { ret := -1, AVI := AVI, AVI_errno := AVI_ERR_NOT_PERM }
  else
    match (AVI.track AVI.aptr).audio_index with
    | none => some { ret := -1, AVI := AVI, AVI_errno := AVI_ERR_NO_IDX }
    | some audio_index =>
      if frame < 0 ∨ frame ≥ (AVI.track AVI.aptr).audio_chunks then
        some { ret := -1, AVI := AVI, AVI_errno := AVI_errno }
      else
        match at_index audio_index frame with
        | none => none
        | some e => some { ret := e.len, AVI := AVI, AVI_errno := AVI_errno }

/-- `AVI_seek_start(AVI)`. -/
def AVI_seek_start (AVI : avi_t) (AVI_errno : Int) : outcome :=
  if AVI.mode = AVI_MODE_WRITE then
    { ret := -1, AVI := AVI, AVI_errno := AVI_ERR_NOT_PERM }
  else
    { ret := 0
      AVI := { AVI with fdes := (plat_seek_set AVI.fdes AVI.movi_start).2, video_pos := 0 }
      AVI_errno := AVI_errno }

/-- `AVI_set_audio_bitrate(AVI, bitrate)`. -/
def AVI_set_audio_bitrate (AVI : avi_t) (AVI_errno : Int) (bitrate : Int) : outcome :=
  if AVI.mode = AVI_MODE_READ then
    { ret := -1, AVI := AVI, AVI_errno := AVI_ERR_NOT_PERM }
  else
    { ret := 0
      AVI := AVI.set_track AVI.aptr { AVI.track AVI.aptr with mp3rate := bitrate }
      AVI_errno := AVI_errno }

/-- `AVI_set_audio_track(AVI, track)`; `track` is an `int`, and `track + 1`
overflows for the largest one, which is undefined (`none`). -/
def AVI_set_audio_track (AVI : avi_t) (AVI_errno : Int) (track : Int) : Option outcome :=
  if track = 2 ^ 31 - 1 then none
  else if track < 0 ∨ track + 1 > AVI.anum then
    some { ret := -1, AVI := AVI, AVI_errno := AVI_errno }
  else some { ret := 0, AVI := { AVI with aptr := track.toNat }, AVI_errno := AVI_errno }

/-- `AVI_audio_tracks(AVI)`: `return (AVI->anum);`. -/
def AVI_audio_tracks (AVI : avi_t) : Int := AVI.anum

/-- The handle `demo_avi` with the video cursor behind the last frame and the
audio cursor behind the last chunk. -/
def demo_end_avi : avi_t :=
  { demo_avi with
    video_pos := 2
    track := fun _ =>
      { audio_chunks := 2, audio_bytes := 5, audio_index := some demo_audio_index
        audio_posc := 2, audio_posb := 0 } }

/-- The handle after `AVI_open_output_file` and `k` calls of `AVI_write_audio`
with 2 000 000 000 bytes each. -/
def big_audio : Nat → avi_t
  | 0 => demo_open_avi
  | k + 1 =>
    write_audio_result (big_audio k)
      ((write_index_entries (big_audio k) 0 true 0 (2000000000 : Int).toNat).getD
        { ret := -1, AVI := {}, AVI_errno := 0 }).AVI
      demo_big_chunk 2000000000

/-- The result of the first part of `avi_close_output_file` on `big_audio 2`. -/
def demo_big_audio_close : outcome × List UInt8 :=
  run.get (no_outcome, []) (avi_close_output_file_header (big_audio 2) 0 [])

/-- The result of the first part of `avi_close_output_file` on the handle after
`AVI_open_output_file` and one `AVI_write_frame` of three bytes. -/
def demo_one_frame_close : outcome × List UInt8 :=
  run.get (no_outcome, [])
    (avi_close_output_file_header demo_one_frame_outcome.AVI demo_one_frame_outcome.AVI_errno [])

/-- The outcome of `avi_close_output_file` on the handle after
`AVI_open_output_file` and one `AVI_write_frame` of three bytes. -/
def demo_one_frame_closed : outcome :=
  run.get no_outcome
    (avi_close_output_file demo_one_frame_outcome.AVI demo_one_frame_outcome.AVI_errno [])

/-! ## Writer: the header stays inside its array -/

/-- The offsets of the header output: `nhb`, `hdrl_start` and `strl_start`. -/
structure header_pos where
  nhb : Int
  hdrl_start : Int
  strl_start : Int

/-- The offsets of a header under construction. -/
def header_buf.pos (h : header_buf) : header_pos :=
  { nhb := h.nhb, hdrl_start := h.hdrl_start, strl_start := h.strl_start }

/-- The offsets after a statement of the header output. -/
def out_step.move (s : out_step) (p : header_pos) : header_pos :=
  { nhb := p.nhb + s.size
    hdrl_start := if s = out_step.set_hdrl_start then p.nhb else p.hdrl_start
    strl_start := if s = out_step.set_strl_start then p.nhb else p.strl_start }

/-- The offsets after a sequence of statements of the header output. -/
def steps_move : List out_step → header_pos → header_pos
  | [], p => p
  | s :: rest, p => steps_move rest (s.move p)

/-- A statement of the header output, executed at the offsets `p`, stores inside
the array `AVI_header[HEADERBYTES]`: the bytes of an `OUT4CC`, `OUTLONG`,
`OUTSHRT`, `OUTCHR` or `OUTMEM` lie at `nhb` and after, within the array, and the
source holds them; the four bytes of the length of a finished list lie before
the recorded start of the list, within the array. -/
def out_step.inside (s : out_step) (p : header_pos) : Prop :=
  match s with
  | .OUT4CC t => 4 ≤ t.length ∧ 0 ≤ p.nhb ∧ p.nhb + 4 ≤ HEADERBYTES
  | .OUTLONG _ => 0 ≤ p.nhb ∧ p.nhb + 4 ≤ HEADERBYTES
  | .OUTSHRT _ => 0 ≤ p.nhb ∧ p.nhb + 2 ≤ HEADERBYTES
  | .OUTCHR _ => 0 ≤ p.nhb ∧ p.nhb + 1 ≤ HEADERBYTES
  | .OUTMEM d n =>
    n % 2 ^ 32 ≤ d.length ∧ 0 ≤ p.nhb ∧ p.nhb + ((n % 2 ^ 32 : Nat) : Int) ≤ HEADERBYTES
  | .set_hdrl_start => True
  | .set_strl_start => True
  | .finish_strl => 4 ≤ p.strl_start ∧ p.strl_start ≤ HEADERBYTES
  | .finish_hdrl => 4 ≤ p.hdrl_start ∧ p.hdrl_start ≤ HEADERBYTES

/-- Every statement of a sequence of the header output, executed in order from
the offsets `p`, stores inside the array. -/
def steps_inside : List out_step → header_pos → Prop
  | [], _ => True
  | s :: rest, p => s.inside p ∧ steps_inside rest (s.move p)

/-- A writer handle with eight audio tracks: `AVI_open_output_file` and eight
calls of `AVI_set_audio`, each for an MP3 track (`a_fmt = 0x55`) with variable
bit rate, the track with the longest stream list in the header. -/
def demo_eight_tracks : avi_t :=
  { demo_open_avi with
    anum := 8
    aptr := 7
    track := fun _ => { a_fmt := 0x55, a_vbr := 1, a_chans := 2, a_rate := 44100, a_bits := 16 } }


/-! ## Reader: what a sidecar index describes -/

/-- The video index that the lines of a sidecar index describe: one entry for
each line of type 1, in the order of the lines, with the position of the line
plus 8, its length and the keyframe flag. -/
def sidecar_video_entries (lines : List index_line) : List video_index_entry :=
  (lines.filter (fun l => decide (l.type = 1))).map
    (fun (l : index_line) =>
      ({ key := if l.key ≠ (0 : Int) then (0x10 : Int) else 0, pos := l.pos + 8, len := l.len } :
        video_index_entry))

/-- The audio index of the first track that the lines of a sidecar index
describe: one entry for each line of type 2, in the order of the lines, with
the position of the line plus 8, its length, and in `tot` the sum of the lengths
of the lines of type 2 before it, counted from `tot`. -/
def sidecar_audio_entries : Int → List index_line → List audio_index_entry
  | _, [] => []
  | tot, l :: rest =>
    if l.type = 2 then
      { pos := l.pos + 8, len := l.len, tot := tot } :: sidecar_audio_entries (tot + l.len) rest
    else sidecar_audio_entries tot rest

/-! ## Reader: opening a file -/

/-- Modelled from the spec: error code "not-an-AVI"; entry 9 of `avi_errors`. -/
def AVI_ERR_NO_AVI : Int := 9

/-- Modelled from the spec: error code "no-hdrl-list"; entry 10 of `avi_errors`. -/
def AVI_ERR_NO_HDRL : Int := 10

/-- Modelled from the spec: error code "no-movi-list"; entry 11 of `avi_errors`. -/
def AVI_ERR_NO_MOVI : Int := 11

/-- Modelled from the spec: whether `plat_malloc(n)` of the platform façade
returns a block, as `malloc`.  The argument is a `long` or an `off_t` converted
to `size_t`: a negative `n` asks for `n + 2^64` bytes, which is `2^63` bytes or
more, and no allocator provides them; any other request is taken to succeed. -/
def plat_malloc_ok (n : Int) : Bool := decide (0 ≤ n)

/-- `str2ushort(str)`: `str[0] | (str[1] << 8)`. -/
def str2ushort (str : List UInt8) : Option Nat :=
  match str with
  | b0 :: b1 :: _ => some (b0.toNat ||| (b1.toNat <<< 8))
  | _ => none

/-- The locals of `avi_parse_input_file` that the scan of the top-level chunks
uses (`oldpos`, `hdrl_data`, `hdrl_len`, `header_offset`), the descriptor, and
the fields of the handle that the scan stores (`movi_start`, `idx`, `n_idx`,
`max_idx`). -/
structure top_scan where
  fdes : plat_file := {}
  oldpos : Int := -1
  hdrl_data : Option (List UInt8) := none
  hdrl_len : Int := 0
  header_offset : Int := 0
  movi_start : Int := 0
  idx : Option (List (List UInt8)) := none
  n_idx : Int := 0
  max_idx : Int := 0

/-- How the scan of the top-level chunks ends: the loop is left by `break`
(`done`), the function returns -1 because the position has not advanced
(`broken`), or it leaves by `ERR_EXIT(x)`. -/
inductive top_exit where
  | done (st : top_scan) : top_exit
  | broken (st : top_scan) : top_exit
  | err_exit (x : Int) : top_exit

/-- The array `AVI->idx` over the bytes read from an `idx1` chunk: `k` records
of 16 bytes. -/
def idx_records : Nat → List UInt8 → List (List UInt8)
  | 0, _ => []
  | k + 1, bytes => bytes.take 16 :: idx_records k (bytes.drop 16)

/-- The loop `while (1) { ... }` of `avi_parse_input_file` over the top-level
chunks, with at most `fuel` rounds (a round that does not leave the loop moves
the descriptor at least 8 bytes forward, so the length of the file is enough).
A round reads the 8 bytes of a chunk header; for `LIST` it reads the list type
and keeps the rest of `hdrl` in memory, notes the position after `movi` and
skips the rest of a list; it reads an `idx1` chunk into `AVI->idx`; it skips
any other chunk.  `n` is `PAD_EVEN(str2ulong(data + 4))`, and `n - 4` inside a
list. -/
def avi_parse_scan : Nat → top_scan → Option top_exit
  | 0, _ => none
  | fuel + 1, st =>
    if (plat_read st.fdes 8).1 ≠ 8 then
      some (top_exit.done { st with fdes := (plat_read st.fdes 8).2.2 })
    else if st.oldpos = (plat_seek_cur (plat_read st.fdes 8).2.2 0).1 then
      some (top_exit.broken { st with fdes := (plat_read st.fdes 8).2.2 })
    else
      match str2ulong ((plat_read st.fdes 8).2.1.drop 4) with
      | none => none
      | some n0 =>
        if strncasecmp_eq (plat_read st.fdes 8).2.1 [76, 73, 83, 84] 4 then
          if (plat_read (plat_read st.fdes 8).2.2 4).1 ≠ 4 then
            some (top_exit.err_exit AVI_ERR_READ)
          else if strncasecmp_eq (plat_read (plat_read st.fdes 8).2.2 4).2.1
              [104, 100, 114, 108] 4 then
            if plat_malloc_ok (PAD_EVEN (n0 : Int) - 4) = false then
              some (top_exit.err_exit AVI_ERR_NO_MEM)
            else if (plat_read (plat_read (plat_read st.fdes 8).2.2 4).2.2
                (PAD_EVEN (n0 : Int) - 4)).1 ≠ PAD_EVEN (n0 : Int) - 4 then
              some (top_exit.err_exit AVI_ERR_READ)
            else
              avi_parse_scan fuel
                { st with
                  fdes := (plat_read (plat_read (plat_read st.fdes 8).2.2 4).2.2
                    (PAD_EVEN (n0 : Int) - 4)).2.2
                  oldpos := (plat_seek_cur (plat_read st.fdes 8).2.2 0).1
                  hdrl_data := some (plat_read (plat_read (plat_read st.fdes 8).2.2 4).2.2
                    (PAD_EVEN (n0 : Int) - 4)).2.1
                  hdrl_len := PAD_EVEN (n0 : Int) - 4
                  header_offset := (plat_seek_cur (plat_read (plat_read st.fdes 8).2.2 4).2.2 0).1 }
          else if strncasecmp_eq (plat_read (plat_read st.fdes 8).2.2 4).2.1
              [109, 111, 118, 105] 4 then
            if (plat_seek_cur (plat_read (plat_read st.fdes 8).2.2 4).2.2
                (PAD_EVEN (n0 : Int) - 4)).1 = -1 then
              some (top_exit.done
                { st with
                  fdes := (plat_seek_cur (plat_read (plat_read st.fdes 8).2.2 4).2.2
                    (PAD_EVEN (n0 : Int) - 4)).2
                  oldpos := (plat_seek_cur (plat_read st.fdes 8).2.2 0).1
                  movi_start := (plat_seek_cur (plat_read (plat_read st.fdes 8).2.2 4).2.2 0).1 })
            else
              avi_parse_scan fuel
                { st with
                  fdes := (plat_seek_cur (plat_read (plat_read st.fdes 8).2.2 4).2.2
                    (PAD_EVEN (n0 : Int) - 4)).2
                  oldpos := (plat_seek_cur (plat_read st.fdes 8).2.2 0).1
                  movi_start := (plat_seek_cur (plat_read (plat_read st.fdes 8).2.2 4).2.2 0).1 }
          else if (plat_seek_cur (plat_read (plat_read st.fdes 8).2.2 4).2.2
              (PAD_EVEN (n0 : Int) - 4)).1 = -1 then
            some (top_exit.done
              { st with
                fdes := (plat_seek_cur (plat_read (plat_read st.fdes 8).2.2 4).2.2
                  (PAD_EVEN (n0 : Int) - 4)).2
                oldpos := (plat_seek_cur (plat_read st.fdes 8).2.2 0).1 })
          else
            avi_parse_scan fuel
              { st with
                fdes := (plat_seek_cur (plat_read (plat_read st.fdes 8).2.2 4).2.2
                  (PAD_EVEN (n0 : Int) - 4)).2
                oldpos := (plat_seek_cur (plat_read st.fdes 8).2.2 0).1 }
        else if strncasecmp_eq (plat_read st.fdes 8).2.1 [105, 100, 120, 49] 4 then
          if (plat_read (plat_read st.fdes 8).2.2 (PAD_EVEN (n0 : Int))).1
              ≠ PAD_EVEN (n0 : Int) then
            avi_parse_scan fuel
              { st with
                fdes := (plat_read (plat_read st.fdes 8).2.2 (PAD_EVEN (n0 : Int))).2.2
                oldpos := (plat_seek_cur (plat_read st.fdes 8).2.2 0).1
                idx := none
                n_idx := 0
                max_idx := PAD_EVEN (n0 : Int) / 16 }
          else
            avi_parse_scan fuel
              { st with
                fdes := (plat_read (plat_read st.fdes 8).2.2 (PAD_EVEN (n0 : Int))).2.2
                oldpos := (plat_seek_cur (plat_read st.fdes 8).2.2 0).1
                idx := some (idx_records (PAD_EVEN (n0 : Int) / 16).toNat
                  (plat_read (plat_read st.fdes 8).2.2 (PAD_EVEN (n0 : Int))).2.1)
                n_idx := PAD_EVEN (n0 : Int) / 16
                max_idx := PAD_EVEN (n0 : Int) / 16 }
        else
          avi_parse_scan fuel
            { st with
              fdes := (plat_seek_cur (plat_read st.fdes 8).2.2 (PAD_EVEN (n0 : Int))).2
              oldpos := (plat_seek_cur (plat_read st.fdes 8).2.2 0).1 }

/-- The locals of `avi_parse_input_file` that the interpretation of the header
list uses (`i`, `lasttag`, `vids_strh_seen`, `vids_strf_seen`, `num_stream`)
with the handle.  The field `AVI->video_strn`, which only this function reads,
is kept with them. -/
structure hdrl_walk where
  AVI : avi_t := {}
  i : Nat := 0
  lasttag : Int := 0
  vids_strh_seen : Bool := false
  vids_strf_seen : Bool := false
  num_stream : Int := 0
  video_strn : Int := 0

/-- How a round of the interpretation of the header list ends: at the end of
the body (`next`), or in a `return` of the function (`ret`). -/
inductive walk_exit where
  | next (w : hdrl_walk) : walk_exit
  | ret (r : Int) (w : hdrl_walk) : walk_exit

/-- The body of `if (strncasecmp(hdrl_data + i, "strh", 4) == 0) { i += 8; ... }`;
`h8` is `hdrl_data + i` after `i += 8`.  A `vids` header is taken if none was
taken before; each `auds` header opens a new track, and the function returns
-1 when there are more than `AVI_MAX_TRACKS`; an `iavs` header makes the
function return -1.  The product for `audio_bytes` is formed in
`unsigned int`. -/
def avi_parse_strh (h8 : List UInt8) (w : hdrl_walk) : Option walk_exit :=
  if strncasecmp_eq h8 [118, 105, 100, 115] 4 ∧ w.vids_strh_seen = false then
    match str2ulong (h8.drop 20), str2ulong (h8.drop 24), str2ulong (h8.drop 32) with
    | some scale, some rate, some frames =>
      some (walk_exit.next
        { w with
          AVI := { w.AVI with
            compressor := (h8.drop 4).take 4 ++ [0] ++ w.AVI.compressor.drop 5
            fps := if scale ≠ 0 then (rate : ℚ) / (scale : ℚ) else w.AVI.fps
            video_frames := (frames : Int)
            max_len := 0 }
          video_strn := w.num_stream
          vids_strh_seen := true
          lasttag := 1
          num_stream := w.num_stream + 1 })
    | _, _, _ => none
  else if strncasecmp_eq h8 [97, 117, 100, 115] 4 then
    if w.AVI.anum + 1 > AVI_MAX_TRACKS then
      some (walk_exit.ret (-1)
        { w with AVI := { w.AVI with aptr := w.AVI.anum.toNat, anum := w.AVI.anum + 1 } })
    else
      match str2ulong (h8.drop 32), str2ulong (h8.drop 44), str2ulong (h8.drop 24) with
      | some len, some sampsize, some padrate =>
        some (walk_exit.next
          { w with
            AVI := { w.AVI with aptr := w.AVI.anum.toNat, anum := w.AVI.anum + 1 }.set_track
              w.AVI.anum.toNat
              { w.AVI.track w.AVI.anum.toNat with
                audio_bytes := ((len : Int) * avi_sampsize w.AVI 0) % 2 ^ 32
                audio_strn := w.num_stream
                a_vbr := if sampsize = 0 then 1 else 0
                padrate := (padrate : Int) }
            lasttag := 2
            num_stream := w.num_stream + 1 })
      | _, _, _ => none
  else if strncasecmp_eq h8 [105, 97, 118, 115] 4 then some (walk_exit.ret (-1) w)
  else some (walk_exit.next { w with lasttag := 0, num_stream := w.num_stream + 1 })

/-- The body of `if (strncasecmp(hdrl_data + i, "strf", 4) == 0) { i += 8; ... }`;
`h8` is `hdrl_data + i` after `i += 8`.  After a `vids` header the 40 bytes of
an `alBITMAPINFOHEADER` and then `bi_size` bytes (its first field) are copied
from `h8`; after an `auds` header the format fields are read up to `h8 + 15`
(the copy into `wave_format_ex` stays inside the header list, and the read of
the bytes that follow an `alWAVEFORMATEX` puts the descriptor back where it
was).  The product for `mp3rate` is formed in `unsigned int`. -/
def avi_parse_strf (h8 : List UInt8) (w : hdrl_walk) : Option hdrl_walk :=
  if w.lasttag = 1 then
    match str2ulong h8, str2ulong (h8.drop 4), str2ulong (h8.drop 8) with
    | some bi_size, some width, some height =>
      if h8.length < 40 ∨ h8.length < bi_size then none
      else
        some { w with
          AVI := { w.AVI with width := (width : Int), height := (height : Int) }
          vids_strf_seen := true }
    | _, _, _ => none
  else if w.lasttag = 2 then
    match str2ushort h8, str2ushort (h8.drop 2), str2ulong (h8.drop 4), str2ulong (h8.drop 8),
        str2ushort (h8.drop 14) with
    | some fmt, some chans, some rate, some avg, some bits =>
      some { w with
        AVI := w.AVI.set_track w.AVI.aptr
          { w.AVI.track w.AVI.aptr with
            a_fmt := (fmt : Int)
            a_chans := (chans : Int)
            a_rate := (rate : Int)
            mp3rate := ((8 * avg % 2 ^ 32 / 1000 : Nat) : Int)
            a_bits := (bits : Int) } }
    | _, _, _, _, _ => none
  else some w

/-- The entries `aIndex[0 .. k)` of a super-index, read from `a`: `qwOffset`,
`dwSize` and `dwDuration` of each, 16 bytes for an entry. -/
def superindex_entries : Nat → List UInt8 → Option (List avisuperindex_entry)
  | 0, _ => some []
  | k + 1, a =>
    match str2ullong a, str2ulong (a.drop 8), str2ulong (a.drop 12) with
    | some q, some s, some d =>
      (superindex_entries k (a.drop 16)).map
        (fun rest => { qwOffset := (q : Int), dwSize := (s : Int), dwDuration := (d : Int) } :: rest)
    | _, _, _ => none

/-- The super-index that `avi_parse_input_file` (for the video stream) and
`avi_build_audio_superindex` read from an `indx` chunk at `a`: the header fields
and the entries, which start at `a + 32`.  The array `aIndex` is allocated with
`wLongsPerEntry * nEntriesInUse * sizeof(uint32_t)` bytes, the product of the
first two formed in `unsigned int`; entries of 16 bytes that do not fit in it
are stored outside the array. -/
def avi_parse_superindex (a : List UInt8) : Option avisuperindex_chunk :=
  match str2ulong (a.drop 4), str2ushort (a.drop 8), a[10]?, a[11]?, str2ulong (a.drop 12) with
  | some dwSize, some w, some subtype, some type, some n =>
    if a.length < 20 then none
    else if (w * n % 2 ^ 32) * 4 < 16 * n then none
    else
      (superindex_entries n (a.drop 32)).map
        (fun es =>
          { nEntriesInUse := (n : Int)
            aIndex := es
            fcc := a.take 4
            dwSize := dwSize
            wLongsPerEntry := w
            bIndexSubType := subtype.toNat
            bIndexType := type.toNat
            dwChunkId := (a.drop 16).take 4 })
  | _, _, _, _, _ => none

/-- The body of `if (strncasecmp(hdrl_data + i, "indx", 4) == 0) { ... }` before
`i += 8`; `h` is `hdrl_data + i`.  After a `vids` header the super-index of the
video stream is read and `is_opendml` is set; after an `auds` header that of
the current audio track. -/
def avi_parse_indx (h : List UInt8) (w : hdrl_walk) : Option hdrl_walk :=
  if w.lasttag = 1 then
    (avi_parse_superindex h).map
      (fun si => { w with AVI := { w.AVI with video_superindex := some si, is_opendml := 1 } })
  else if w.lasttag = 2 then
    (avi_parse_superindex h).map
      (fun si =>
        { w with
          AVI := w.AVI.set_track w.AVI.aptr
            { w.AVI.track w.AVI.aptr with audio_superindex := some si } })
  else some w

/-- One round of the loop `for (i = 0; i < hdrl_len;)` of `avi_parse_input_file`
over the header list: a `LIST` tag is stepped over with `i += 12`; for any
other tag `n = PAD_EVEN(str2ulong(hdrl_data + i + 4))`, the tag is interpreted,
and `i` advances by `8 + n`.  A read beyond the bytes of `hdrl_data` is an
access outside the array. -/
def avi_parse_header_tag (hdrl_data : List UInt8) (w : hdrl_walk) : Option walk_exit :=
  if strncasecmp_eq (hdrl_data.drop w.i) [76, 73, 83, 84] 4 then
    some (walk_exit.next { w with i := w.i + 12 })
  else
    match str2ulong (hdrl_data.drop (w.i + 4)) with
    | none => none
    | some n0 =>
      if strncasecmp_eq (hdrl_data.drop w.i) [115, 116, 114, 104] 4 then
        match avi_parse_strh (hdrl_data.drop (w.i + 8)) w with
        | none => none
        | some (walk_exit.ret r w2) => some (walk_exit.ret r w2)
        | some (walk_exit.next w2) =>
          some (walk_exit.next { w2 with i := w.i + 8 + (PAD_EVEN (n0 : Int)).toNat })
      else if strncasecmp_eq (hdrl_data.drop w.i) [100, 109, 108, 104] 4 then
        match str2ulong (hdrl_data.drop (w.i + 8)) with
        | none => none
        | some total =>
          some (walk_exit.next
            { w with
              AVI := { w.AVI with total_frames := (total : Int) }
              i := w.i + 8 + (PAD_EVEN (n0 : Int)).toNat })
      else if strncasecmp_eq (hdrl_data.drop w.i) [115, 116, 114, 102] 4 then
        match avi_parse_strf (hdrl_data.drop (w.i + 8)) w with
        | none => none
        | some w2 => some (walk_exit.next { w2 with i := w.i + 8 + (PAD_EVEN (n0 : Int)).toNat })
      else if strncasecmp_eq (hdrl_data.drop w.i) [105, 110, 100, 120] 4 then
        match avi_parse_indx (hdrl_data.drop w.i) w with
        | none => none
        | some w2 => some (walk_exit.next { w2 with i := w.i + 8 + (PAD_EVEN (n0 : Int)).toNat })
      else if strncasecmp_eq (hdrl_data.drop w.i) [74, 85, 78, 75] 4
          ∨ strncasecmp_eq (hdrl_data.drop w.i) [115, 116, 114, 110] 4
          ∨ strncasecmp_eq (hdrl_data.drop w.i) [118, 112, 114, 112] 4 then
        some (walk_exit.next { w with i := w.i + 8 + (PAD_EVEN (n0 : Int)).toNat })
      else
        some (walk_exit.next
          { w with lasttag := 0, i := w.i + 8 + (PAD_EVEN (n0 : Int)).toNat })

/-- The loop `for (i = 0; i < hdrl_len;) { ... }` of `avi_parse_input_file`, with
at most `fuel` rounds (a round moves `i` at least 8 forward, so `hdrl_len`
rounds are enough). -/
def avi_parse_header : Nat → List UInt8 → Int → hdrl_walk → Option walk_exit
  | 0, _, _, _ => none
  | fuel + 1, hdrl_data, hdrl_len, w =>
    if (w.i : Int) < hdrl_len then
      match avi_parse_header_tag hdrl_data w with
      | none => none
      | some (walk_exit.ret r w2) => some (walk_exit.ret r w2)
      | some (walk_exit.next w2) => avi_parse_header fuel hdrl_data hdrl_len w2
    else some (walk_exit.next w)

/-- The four characters `strn / 10 + '0'`, `strn % 10 + '0'`, `c2`, `c3` of a
stream tag. -/
def stream_tag (strn : Int) (c2 c3 : UInt8) : List UInt8 :=
  [UInt8.ofNat ((strn.tdiv 10 + 48) % 256).toNat, UInt8.ofNat ((strn.tmod 10 + 48) % 256).toNat,
    c2, c3]

/-- The loop `for (j = 0; j < AVI->anum + 1; ++j)` of `avi_parse_input_file` that
sets the audio tags, over the values of `j` still to visit: the stream numbers
other than `video_strn` go to the tracks `0, 1, ...` in order.  The array
`track` has `AVI_MAX_TRACKS` elements. -/
def avi_parse_audio_tags (video_strn : Int) : List Nat → Nat → avi_t → Option avi_t
  | [], _, A => some A
  | j :: js, i, A =>
    if (j : Int) = video_strn then avi_parse_audio_tags video_strn js i A
    else if (i : Int) ≥ AVI_MAX_TRACKS then none
    else
      avi_parse_audio_tags video_strn js (i + 1)
        (A.set_track i { A.track i with audio_tag := stream_tag (j : Int) 119 98 })

/-- The detection of the base of the offsets of `idx1` in
`avi_parse_input_file`, for a handle with `AVI->idx`: the value of `idx_type`
and the descriptor, or the code of an `ERR_EXIT`.  `entries` are the records
`idx[i]` from the first one on; the first whose tag matches `video_tag` in 3
characters is looked up in the file, at its offset and at its offset plus
`movi_start - 4`. -/
def avi_parse_idx_type (AVI : avi_t) : List (List UInt8) → Option (Except Int (Int × plat_file))
  | [] => some (Except.error AVI_ERR_NO_VIDS)
  | entry :: rest =>
    if strncasecmp_eq entry AVI.video_tag 3 then
      match str2ulong (entry.drop 8), str2ulong (entry.drop 12) with
      | some pos, some len =>
        if (plat_read (plat_seek_set AVI.fdes (pos : Int)).2 8).1 ≠ 8 then
          some (Except.error AVI_ERR_READ)
        else if strncasecmp_eq (plat_read (plat_seek_set AVI.fdes (pos : Int)).2 8).2.1 entry 4
            ∧ str2ulong ((plat_read (plat_seek_set AVI.fdes (pos : Int)).2 8).2.1.drop 4)
              = some len then
          some (Except.ok (1, (plat_read (plat_seek_set AVI.fdes (pos : Int)).2 8).2.2))
        else if (plat_read (plat_seek_set (plat_read (plat_seek_set AVI.fdes (pos : Int)).2 8).2.2
              ((pos : Int) + AVI.movi_start - 4)).2 8).1 ≠ 8 then
          some (Except.error AVI_ERR_READ)
        else if strncasecmp_eq
              (plat_read (plat_seek_set (plat_read (plat_seek_set AVI.fdes (pos : Int)).2 8).2.2
                ((pos : Int) + AVI.movi_start - 4)).2 8).2.1 entry 4
            ∧ str2ulong ((plat_read (plat_seek_set
                (plat_read (plat_seek_set AVI.fdes (pos : Int)).2 8).2.2
                ((pos : Int) + AVI.movi_start - 4)).2 8).2.1.drop 4) = some len then
          some (Except.ok (2,
            (plat_read (plat_seek_set (plat_read (plat_seek_set AVI.fdes (pos : Int)).2 8).2.2
              ((pos : Int) + AVI.movi_start - 4)).2 8).2.2))
        else
          some (Except.ok (0,
            (plat_read (plat_seek_set (plat_read (plat_seek_set AVI.fdes (pos : Int)).2 8).2.2
              ((pos : Int) + AVI.movi_start - 4)).2 8).2.2))
      | _, _ => none
    else avi_parse_idx_type AVI rest

/-- The test of the scan for an index of `avi_parse_input_file`:
`((data[2] == 'd' || data[2] == 'D') && (data[3] == 'b' || data[3] == 'B' ||
 data[3] == 'c' || data[3] == 'C')) || ((data[2] == 'w' || data[2] == 'W') &&
 (data[3] == 'b' || data[3] == 'B'))`. -/
def scan_is_chunk (data : List UInt8) : Bool :=
  match data with
  | _ :: _ :: d2 :: d3 :: _ =>
    ((d2 = 100 || d2 = 68) && (d3 = 98 || d3 = 66 || d3 = 99 || d3 = 67))
      || ((d2 = 119 || d2 = 87) && (d3 = 98 || d3 = 66))
  | _ => false

/-- The loop `while (1) { ... }` with which `avi_parse_input_file` searches the
file for chunks when there is neither an index nor a frame count ("we must
search through the file to get the index"), with at most `fuel` rounds (a
round that does not leave the loop moves the descriptor at least 8 bytes
forward).  The value that `avi_add_index_entry` returns is dropped. -/
def avi_parse_search : Nat → avi_t → Option avi_t
  | 0, _ => none
  | fuel + 1, A =>
    if (plat_read A.fdes 8).1 ≠ 8 then some { A with fdes := (plat_read A.fdes 8).2.2 }
    else
      match str2ulong ((plat_read A.fdes 8).2.1.drop 4) with
      | none => none
      | some n =>
        if strncasecmp_eq (plat_read A.fdes 8).2.1 [76, 73, 83, 84] 4 then
          avi_parse_search fuel { A with fdes := (plat_seek_cur (plat_read A.fdes 8).2.2 4).2 }
        else if scan_is_chunk (plat_read A.fdes 8).2.1 then
          match avi_add_index_entry { A with fdes := (plat_read A.fdes 8).2.2 }
              (plat_read A.fdes 8).2.1 0
              (long_to_ulong ((plat_seek_cur (plat_read A.fdes 8).2.2 0).1 - 8)) n with
          | none => none
          | some A2 =>
            avi_parse_search fuel
              { A2 with fdes := (plat_seek_cur (plat_read A.fdes 8).2.2 (PAD_EVEN (n : Int))).2 }
        else
          avi_parse_search fuel
            { A with fdes := (plat_seek_cur (plat_read A.fdes 8).2.2 (PAD_EVEN (n : Int))).2 }

/-- State of the OpenDML video reader: the descriptor, `nvi`, `k` and the
array `video_index` (`NULL` until `plat_realloc` has set it). -/
structure odml_video where
  fdes : plat_file := {}
  nvi : Int := 0
  k : Int := 0
  video_index : Option (List video_index_entry) := none

/-- `plat_realloc(AVI->video_index, n * sizeof (video_index_entry))`: the first
`n` entries are kept, entries added at the end are shown zeroed. -/
def realloc_video (a : Option (List video_index_entry)) (n : Nat) : List video_index_entry :=
  (a.getD []).take n ++ List.replicate (n - (a.getD []).length) ({} : video_index_entry)

/-- The loop `while (k < nvi) { ... k++; }` of the OpenDML video reader, with at
most `fuel` tests of its condition; `buf` is the standard index chunk read from
the file, `en` the read offset in it and `offset` its `qwBaseOffset`.  The
value is the state and the read offset when the condition fails.  The entry is
stored at `video_index[k]` with `pos = offset + dwOffset` (a sum in `uint64_t`
stored into an `off_t`); if `pos - offset == 0 && len == 0`, which is
`dwOffset == 0 && len == 0`, the entry is given up: `k--; nvi--;`. -/
def opendml_video_while (buf : List UInt8) (offset : Nat) :
    Nat → Nat → odml_video → Option (odml_video × Nat)
  | 0, _, _ => none
  | fuel + 1, en, st =>
    if st.k < st.nvi then
      match str2ulong (buf.drop en), str2ulong_len (buf.drop (en + 4)),
          str2ulong_key (buf.drop (en + 4)) with
      | some dwOffset, some len, some key =>
        if st.k < 0 then none
        else
          match store_at (st.video_index.getD []) st.k.toNat
              { key := (key : Int), pos := uint64_to_off_t ((offset + dwOffset) % 2 ^ 64),
                len := (len : Int) } with
          | none => none
          | some v =>
            if dwOffset = 0 ∧ len = 0 then
              opendml_video_while buf offset fuel (en + 8)
                { st with video_index := some v, nvi := st.nvi - 1 }
            else
              opendml_video_while buf offset fuel (en + 8)
                { st with video_index := some v, k := st.k + 1 }
      | _, _, _ => none
    else some (st, en)

/-- Body of `for (j = 0; j < nEntriesInUse; j++)` of the OpenDML video reader for
the super-index entry `en`: seek, read `dwSize + hdrl_len` bytes
(`hdrl_len = 32`; the sum of the `uint32_t` and the `int` is formed in 32-bit
unsigned arithmetic, so it is `(dwSize + 32) mod 2^32`, and an entry for which
the read returns no byte is skipped), take `nrEntries` at byte 12 and the base
offset at byte 20, grow the index to `nvi + nrEntries` entries and store the entries that start at
byte 32 (a round of the `while` loop brings `k` and `nvi` closer by one, so
`nvi - k + 1` tests of its condition are enough).  Bytes of the buffer that the
read did not fill are not available; the `plat_realloc` is taken to succeed. -/
def opendml_video_entry (en : avisuperindex_entry) (st : odml_video) : Option odml_video :=
  if (plat_seek_set st.fdes en.qwOffset).1 = -1 then some st
  else if (plat_read (plat_seek_set st.fdes en.qwOffset).2 ((en.dwSize + 32) % 2 ^ 32)).1 ≤ 0 then
    some { st with fdes := (plat_read (plat_seek_set st.fdes en.qwOffset).2 ((en.dwSize + 32) % 2 ^ 32)).2.2 }
  else
    match str2ulong ((plat_read (plat_seek_set st.fdes en.qwOffset).2 ((en.dwSize + 32) % 2 ^ 32)).2.1.drop 12),
        str2ullong ((plat_read (plat_seek_set st.fdes en.qwOffset).2 ((en.dwSize + 32) % 2 ^ 32)).2.1.drop 20) with
    | some nrEntries, some offset =>
      (opendml_video_while
        (plat_read (plat_seek_set st.fdes en.qwOffset).2 ((en.dwSize + 32) % 2 ^ 32)).2.1 offset
        ((st.nvi + (nrEntries : Int) - st.k).toNat + 1) 32
        { st with
          fdes := (plat_read (plat_seek_set st.fdes en.qwOffset).2 ((en.dwSize + 32) % 2 ^ 32)).2.2
          nvi := st.nvi + (nrEntries : Int)
          video_index := some (realloc_video st.video_index (st.nvi + (nrEntries : Int)).toNat) }).map
        Prod.fst
    | _, _ => none

/-- The loop `for (j = 0; j < nEntriesInUse; j++)` of the OpenDML video reader. -/
def opendml_video_entries : List avisuperindex_entry → odml_video → Option odml_video
  | [], st => some st
  | en :: rest, st =>
    match opendml_video_entry en st with
    | none => none
    | some st2 => opendml_video_entries rest st2

/-- The video part of the OpenDML branch of `avi_parse_input_file`, up to
`AVI->video_frames = nvi`: `video_index` is reset, the standard indexes that the
super-index names are read in order. -/
def avi_parse_input_file_opendml_video (AVI : avi_t) : Option avi_t :=
  match AVI.video_superindex with
  | none => none
  | some si =>
    if si.nEntriesInUse.toNat ≤ si.aIndex.length then
      match opendml_video_entries (si.aIndex.take si.nEntriesInUse.toNat)
          { fdes := AVI.fdes, nvi := 0, k := 0, video_index := none } with
      | none => none
      | some st =>
        some { AVI with fdes := st.fdes, video_index := st.video_index, video_frames := st.nvi }
    else none

/-- The raw scan of the `movi` list (label `multiple_riff`) on a handle without
audio track.  The loop that resets `nai[j]` and `tot[j]` does not run: `nai[0]`
keeps the value `total_frames` that it was given with `track[0].audio_chunks`,
so that the first round of the scan allocates an audio index for track 0 with
`plat_realloc` (entries shown zeroed), and `tot[0]` is never initialised.  Its
value goes to the log, and into the index if the scan meets a chunk with an
audio tag: that case is left undefined (`none`). -/
def avi_parse_input_file_multiple_riff_no_audio (AVI : avi_t) : Option (Except Int avi_t) :=
  if AVI.total_frames < 0 then some (Except.error AVI_ERR_NO_MEM)
  else
    match multiple_riff_loop AVI.total_frames
        { fdes := (plat_seek_set AVI.fdes AVI.movi_start).2
          nvi := 0
          video_index := List.replicate AVI.total_frames.toNat ({} : video_index_entry)
          aud_chunks := AVI.total_frames
          a0 := { audio_index := (AVI.track 0).audio_index.getD []
                  nai := AVI.total_frames.toNat, tot := 0 } } with
    | none => none
    | some st =>
      if st.a0.nai ≠ AVI.total_frames.toNat then none
      else
        some (Except.ok
          { AVI with
            fdes := st.fdes
            n_idx := 0
            video_frames := (st.nvi : Int)
            video_index := some st.video_index
            track := fun j =>
              if j = 0 then
                { AVI.track 0 with
                  audio_chunks := (st.a0.nai : Int)
                  audio_index :=
                    if st.aud_chunks ≠ AVI.total_frames then some st.a0.audio_index
                    else (AVI.track 0).audio_index }
              else AVI.track j })

/-- What `avi_parse_input_file` leaves behind: `ERR_EXIT(x)` (the handle is
closed and freed, `AVI_errno` is `x` and the function returns 0), or a `return`
with the handle, `AVI_errno` being left alone. -/
inductive parse_result where
  | err_exit (x : Int) : parse_result
  | ret (r : Int) (AVI : avi_t) : parse_result

/-- The end of `avi_parse_input_file`: `plat_seek(AVI->fdes, AVI->movi_start,
SEEK_SET); AVI->video_pos = 0; return 0;`. -/
def avi_parse_finish (AVI : avi_t) : parse_result :=
  parse_result.ret 0
    { AVI with fdes := (plat_seek_set AVI.fdes AVI.movi_start).2, video_pos := 0 }

/-- The branch of `avi_parse_input_file` that builds the index once `idx_type`
is known, from `if (AVI->is_opendml)` to the end of the function: the OpenDML
reader (which goes on with the raw scan when it finds no frame), the raw scan
(`multiple_riff`) or the legacy (`idx1`) branch. -/
def avi_parse_build_index (AVI : avi_t) (idx_type : Int) : Option parse_result :=
  match (if AVI.is_opendml ≠ 0 then
      match avi_parse_input_file_opendml_video AVI with
      | none => none
      | some A =>
        if A.video_frames = 0 then
          if A.anum ≤ 0 then avi_parse_input_file_multiple_riff_no_audio { A with is_opendml := 0 }
          else avi_parse_input_file_multiple_riff { A with is_opendml := 0 }
        else (avi_parse_input_file_opendml_audio A).map Except.ok
    else if AVI.total_frames ≠ 0 ∧ idx_type = 0 then
      if AVI.anum ≤ 0 then avi_parse_input_file_multiple_riff_no_audio AVI
      else avi_parse_input_file_multiple_riff AVI
    else avi_parse_input_file_legacy AVI idx_type) with
  | none => none
  | some (Except.error x) => some (parse_result.err_exit x)
  | some (Except.ok A) => some (avi_parse_finish A)

/-- The part of `avi_parse_input_file` after the header list has been
interpreted, for `getIndex != 0`: the base of the offsets of `idx1` is detected
if there is an `idx1`, the file is searched for chunks if there is neither an
index nor a frame count, and the index is built. -/
def avi_parse_index (AVI : avi_t) : Option parse_result :=
  match (match AVI.idx with
      | none => some (Except.ok (0, AVI.fdes))
      | some idx =>
        if AVI.n_idx.toNat ≤ idx.length then avi_parse_idx_type AVI (idx.take AVI.n_idx.toNat)
        else none) with
  | none => none
  | some (Except.error x) => some (parse_result.err_exit x)
  | some (Except.ok t) =>
    if t.1 = 0 ∧ AVI.is_opendml = 0 ∧ AVI.total_frames = 0 then
      match avi_parse_search (AVI.fdes.data.length + 1)
          { AVI with fdes := (plat_seek_set t.2 AVI.movi_start).2, n_idx := 0 } with
      | none => none
      | some A => avi_parse_build_index A 1
    else avi_parse_build_index { AVI with fdes := t.2 } t.1

/-- The sidecar index of a handle: none (`AVI->index_file` is `NULL`), a file
that cannot be opened or does not start with `AVIIDX1` (`unreadable`), or the
lines that follow the header line and the comment line. -/
inductive index_file where
  | NULL : index_file
  | unreadable : index_file
  | lines (l : List index_line) : index_file
deriving DecidableEq

/-- The part of `avi_parse_input_file` from `if (!vids_strh_seen ||
!vids_strf_seen)` on: the stream tags are set, the descriptor is put at the
start of the movi list, and the index is read from the sidecar index, left out,
or built from the file.  When `avi_parse_index_from_file` leaves by an
`ERR_EXIT`, which frees the handle, the two statements that follow its call
access the handle: that case is undefined (`none`). -/
def avi_parse_tags_index (w : hdrl_walk) (getIndex : Int) (sidecar : index_file) :
    Option parse_result :=
  if w.vids_strh_seen = false ∨ w.vids_strf_seen = false then
    some (parse_result.err_exit AVI_ERR_NO_VIDS)
  else
    match avi_parse_audio_tags w.video_strn (List.range (w.AVI.anum + 1).toNat) 0
        ({ w.AVI with video_tag := stream_tag w.video_strn 100 98 }.set_track 0
          { w.AVI.track 0 with
            audio_strn := if (w.AVI.track 0).a_chans = 0 then 99 else (w.AVI.track 0).audio_strn })
        with
    | none => none
    | some A =>
      if sidecar ≠ index_file.NULL ∧ getIndex = 0 then
        match sidecar with
        | index_file.lines l =>
          match avi_parse_index_from_file
              { A with
                fdes := (plat_seek_set A.fdes A.movi_start).2
                video_index := none
                track := fun j =>
                  if j < A.anum.toNat then { A.track j with audio_index := none, audio_chunks := 0 }
                  else A.track j } l with
          | some (Except.ok A2) => some (avi_parse_finish A2)
          | _ => none
        | _ =>
          some (parse_result.ret (-1)
            { A with
              fdes := (plat_seek_set (plat_seek_set A.fdes A.movi_start).2 A.movi_start).2
              video_pos := 0
              video_index := none
              track := fun j =>
                if j < A.anum.toNat then { A.track j with audio_index := none, audio_chunks := 0 }
                else A.track j })
      else if getIndex = 0 then
        some (parse_result.ret 0 { A with fdes := (plat_seek_set A.fdes A.movi_start).2 })
      else avi_parse_index { A with fdes := (plat_seek_set A.fdes A.movi_start).2 }

/-- `avi_parse_input_file(AVI, getIndex)`: the first 12 bytes are checked, the
top-level chunks are scanned, the header list is interpreted and the index is
read or built. -/
def avi_parse_input_file (AVI : avi_t) (getIndex : Int) (sidecar : index_file) :
    Option parse_result :=
  if (plat_read AVI.fdes 12).1 ≠ 12 then some (parse_result.err_exit AVI_ERR_READ)
  else if ¬ (strncasecmp_eq (plat_read AVI.fdes 12).2.1 [82, 73, 70, 70] 4
      ∧ strncasecmp_eq ((plat_read AVI.fdes 12).2.1.drop 8) [65, 86, 73, 32] 4) then
    some (parse_result.err_exit AVI_ERR_NO_AVI)
  else
    match avi_parse_scan (AVI.fdes.data.length + 1) { fdes := (plat_read AVI.fdes 12).2.2 } with
    | none => none
    | some (top_exit.err_exit x) => some (parse_result.err_exit x)
    | some (top_exit.broken st) =>
      some (parse_result.ret (-1)
        { AVI with
          fdes := st.fdes, movi_start := st.movi_start, idx := st.idx, n_idx := st.n_idx
          max_idx := st.max_idx })
    | some (top_exit.done st) =>
      match st.hdrl_data with
      | none => some (parse_result.err_exit AVI_ERR_NO_HDRL)
      | some hdrl_data =>
        if st.movi_start = 0 then some (parse_result.err_exit AVI_ERR_NO_MOVI)
        else
          match avi_parse_header (st.hdrl_len.toNat + 1) hdrl_data st.hdrl_len
              { AVI := { AVI with
                  fdes := st.fdes, movi_start := st.movi_start, idx := st.idx
                  n_idx := st.n_idx, max_idx := st.max_idx } } with
          | none => none
          | some (walk_exit.ret r w) => some (parse_result.ret r w.AVI)
          | some (walk_exit.next w) => avi_parse_tags_index w getIndex sidecar

/-- `AVI_open_indexfd(fd, getIndex, indexfile)`: the handle (`NULL` is `none`)
and `AVI_errno` after the call.  The allocation of the handle is taken to
succeed; `plat_zalloc` gives a handle with every field zero.  The value that
`avi_parse_input_file` returns is dropped: the handle is returned if
`AVI_errno` is 0. -/
def AVI_open_indexfd (fd : plat_file) (getIndex : Int) (sidecar : index_file) :
    Option (Option avi_t × Int) :=
  match avi_parse_input_file { fdes := fd, mode := AVI_MODE_READ } getIndex sidecar with
  | none => none
  | some (parse_result.err_exit x) => if x ≠ 0 then some (none, x) else none
  | some (parse_result.ret _ AVI) => some (some { AVI with aptr := 0 }, 0)

/-- `AVI_open_fd(fd, getIndex)`: `AVI_open_indexfd(fd, getIndex, NULL)`. -/
def AVI_open_fd (fd : plat_file) (getIndex : Int) : Option (Option avi_t × Int) :=
  AVI_open_indexfd fd getIndex index_file.NULL

/-- The bytes of a small AVI file: a header list with the main header and one video
stream (`MJPG`, 4 by 2, 25 frames per second, one frame), a movi list with one
chunk `00db` of three bytes at offset 224, and an `idx1` chunk with one record
that holds the absolute offset 224. -/
def demo_avi_file : List UInt8 :=
  [82, 73, 70, 70, 252, 0, 0, 0, 65, 86, 73, 32, 76, 73, 83, 84, 192, 0, 0, 0, 104, 100, 114,
   108, 97, 118, 105, 104, 56, 0, 0, 0, 64, 156, 0, 0, 0, 0, 0, 0, 0, 0, 0, 0, 16, 1, 0, 0, 1, 0,
   0, 0, 0, 0, 0, 0, 1, 0, 0, 0, 0, 0, 0, 0, 4, 0, 0, 0, 2, 0, 0, 0, 0, 0, 0, 0, 0, 0, 0, 0, 0,
   0, 0, 0, 0, 0, 0, 0, 76, 73, 83, 84, 116, 0, 0, 0, 115, 116, 114, 108, 115, 116, 114, 104, 56,
   0, 0, 0, 118, 105, 100, 115, 77, 74, 80, 71, 0, 0, 0, 0, 0, 0, 0, 0, 0, 0, 0, 0, 64, 66, 15,
   0, 64, 120, 125, 1, 0, 0, 0, 0, 1, 0, 0, 0, 0, 0, 0, 0, 255, 255, 255, 255, 0, 0, 0, 0, 0, 0,
   0, 0, 0, 0, 0, 0, 115, 116, 114, 102, 40, 0, 0, 0, 40, 0, 0, 0, 4, 0, 0, 0, 2, 0, 0, 0, 1, 0,
   24, 0, 77, 74, 80, 71, 24, 0, 0, 0, 0, 0, 0, 0, 0, 0, 0, 0, 0, 0, 0, 0, 0, 0, 0, 0, 76, 73,
   83, 84, 16, 0, 0, 0, 109, 111, 118, 105, 48, 48, 100, 98, 3, 0, 0, 0, 1, 2, 3, 0, 105, 100,
   120, 49, 16, 0, 0, 0, 48, 48, 100, 98, 16, 0, 0, 0, 224, 0, 0, 0, 3, 0, 0, 0]

/-- The bytes of a small AVI file without audio stream and without `idx1`: the
header list holds the main header, one video stream and an `odml` list whose
`dmlh` chunk announces one frame; the movi list holds one chunk `00db` of three
bytes. -/
def demo_dmlh_file : List UInt8 :=
  [82, 73, 70, 70, 252, 0, 0, 0, 65, 86, 73, 32, 76, 73, 83, 84, 216, 0, 0, 0, 104, 100, 114,
   108, 97, 118, 105, 104, 56, 0, 0, 0, 64, 156, 0, 0, 0, 0, 0, 0, 0, 0, 0, 0, 16, 1, 0, 0, 1, 0,
   0, 0, 0, 0, 0, 0, 1, 0, 0, 0, 0, 0, 0, 0, 4, 0, 0, 0, 2, 0, 0, 0, 0, 0, 0, 0, 0, 0, 0, 0, 0,
   0, 0, 0, 0, 0, 0, 0, 76, 73, 83, 84, 116, 0, 0, 0, 115, 116, 114, 108, 115, 116, 114, 104, 56,
   0, 0, 0, 118, 105, 100, 115, 77, 74, 80, 71, 0, 0, 0, 0, 0, 0, 0, 0, 0, 0, 0, 0, 64, 66, 15,
   0, 64, 120, 125, 1, 0, 0, 0, 0, 1, 0, 0, 0, 0, 0, 0, 0, 255, 255, 255, 255, 0, 0, 0, 0, 0, 0,
   0, 0, 0, 0, 0, 0, 115, 116, 114, 102, 40, 0, 0, 0, 40, 0, 0, 0, 4, 0, 0, 0, 2, 0, 0, 0, 1, 0,
   24, 0, 77, 74, 80, 71, 24, 0, 0, 0, 0, 0, 0, 0, 0, 0, 0, 0, 0, 0, 0, 0, 0, 0, 0, 0, 76, 73,
   83, 84, 16, 0, 0, 0, 111, 100, 109, 108, 100, 109, 108, 104, 4, 0, 0, 0, 1, 0, 0, 0, 76, 73,
   83, 84, 16, 0, 0, 0, 109, 111, 118, 105, 48, 48, 100, 98, 3, 0, 0, 0, 1, 2, 3, 0]

/-- The file `demo_avi_file` with the size field of its `hdrl` list (bytes 16
to 19) set to zero. -/
def demo_hdrl_zero_file : List UInt8 :=
  demo_avi_file.take 16 ++ [0, 0, 0, 0] ++ demo_avi_file.drop 20

/-- The state in which the scan of the top-level chunks is left by `break`, or
the initial state if it ends otherwise. -/
def top_scan_done : Option top_exit → top_scan
  | some (top_exit.done st) => st
  | _ => {}

/-- Whether the scan of the top-level chunks is left by `break`. -/
def top_scan_is_done : Option top_exit → Bool
  | some (top_exit.done _) => true
  | _ => false

/-- The first 11 bytes of `demo_avi_file`. -/
def demo_short_file : plat_file := { data := demo_avi_file.take 11 }

/-- The file `demo_avi_file` with `RIFX` in place of `RIFF`. -/
def demo_rifx_file : plat_file := { data := [82, 73, 70, 88] ++ demo_avi_file.drop 4 }

/-- The file `demo_avi_file` without its header list: the 12 bytes of the RIFF
header, the movi list and `idx1`. -/
def demo_no_hdrl_file : plat_file := { data := demo_avi_file.take 12 ++ demo_avi_file.drop 212 }

/-- The file `demo_avi_file` cut after its header list. -/
def demo_no_movi_file : plat_file := { data := demo_avi_file.take 212 }

/-- The state in which the interpretation of the header list ends when it
reaches the end of the list, or the initial state if it ends otherwise. -/
def walk_next : Option walk_exit → hdrl_walk
  | some (walk_exit.next w) => w
  | _ => {}

/-- Whether the interpretation of the header list reaches the end of the list. -/
def walk_is_next : Option walk_exit → Bool
  | some (walk_exit.next _) => true
  | _ => false

/-- The `n` entries (`dwOffset`, `dwSize`) of a standard index that stand in the
chunk `buf` from byte `en` on, 8 bytes each. -/
def std_index_entries_at (buf : List UInt8) : Nat → Nat → Option (List avistdindex_entry)
  | 0, _ => some []
  | n + 1, en =>
    match str2ulong (buf.drop en), str2ulong (buf.drop (en + 4)),
        std_index_entries_at buf n (en + 8) with
    | some dwOffset, some dwSize, some rest =>
      some ({ dwOffset := dwOffset, dwSize := dwSize } :: rest)
    | _, _, _ => none

/-- What the specification asks of the reader for a standard index with base
offset `B` and the entries `es`: in order, for each entry that is not
(`dwOffset = 0` and `len = 0`), a video index entry with `pos = B + dwOffset`,
`len = dwSize & 0x7fffffff` and `key = 0x10` if and only if bit 31 of `dwSize`
is clear. -/
def std_index_video_entries (B : Nat) (es : List avistdindex_entry) : List video_index_entry :=
  (es.filter (fun e => ¬ (e.dwOffset = 0 ∧ e.dwSize &&& 0x7fffffff = 0))).map
    (fun e =>
      { pos := (B : Int) + (e.dwOffset : Int)
        len := ((e.dwSize &&& 0x7fffffff : Nat) : Int)
        key := if e.dwSize.testBit 31 then 0 else 0x10 })

/-- The standard index chunk that the super-index entry `en` names in a file
with the bytes `data`: the header of 32 bytes and the `dwSize` bytes after it,
from the offset `qwOffset` of the file on, as far as the file has them. -/
def std_index_chunk (data : List UInt8) (en : avisuperindex_entry) : List UInt8 :=
  (data.drop en.qwOffset.toNat).take (en.dwSize + 32).toNat

/-- The standard index that the super-index entry `en` names in a file with the
bytes `data`: its base offset (byte 20 of the chunk) and its `nrEntries` (byte
12) entries, which start at byte 32. -/
def std_index_of (data : List UInt8) (en : avisuperindex_entry) :
    Option (Nat × List avistdindex_entry) :=
  match str2ulong ((std_index_chunk data en).drop 12),
      str2ullong ((std_index_chunk data en).drop 20) with
  | some nrEntries, some offset =>
    (std_index_entries_at (std_index_chunk data en) nrEntries 32).map (fun es => (offset, es))
  | _, _ => none

/-- What the specification asks of the reader for the standard indexes that the
super-index entries `ens` name in a file with the bytes `data`: the video index
entries of each standard index, in the order of the super-index. -/
def std_indexes_video_entries (data : List UInt8) :
    List avisuperindex_entry → List video_index_entry
  | [] => []
  | en :: rest =>
    (match std_index_of data en with
      | some p => std_index_video_entries p.1 p.2
      | none => []) ++ std_indexes_video_entries data rest

/-- A standard index chunk `ix00` with base offset 1000 and three entries:
(8, 5), the empty entry (0, 0), and (20, 7) with bit 31 of the size set. -/
def demo_ix_chunk : List UInt8 :=
  [105, 120, 48, 48, 48, 0, 0, 0, 2, 0, 0, 1, 3, 0, 0, 0, 48, 48, 100, 98,
   232, 3, 0, 0, 0, 0, 0, 0, 0, 0, 0, 0,
   8, 0, 0, 0, 5, 0, 0, 0, 0, 0, 0, 0, 0, 0, 0, 0, 20, 0, 0, 0, 7, 0, 0, 128]

/-- A handle whose video super-index names the standard index `demo_ix_chunk`
at the start of the file. -/
def demo_odml_video_avi : avi_t :=
  { fdes := { data := demo_ix_chunk }
    mode := AVI_MODE_READ
    is_opendml := 1
    video_superindex :=
      some { nEntriesInUse := 1, aIndex := [{ qwOffset := 0, dwSize := 24, dwDuration := 3 }] } }

/-- The 8 bytes at the file offset `p` of a file with the bytes `data` match the
`idx1` record `entry`: its FourCC in 4 characters, without regard to case, and
its length (bytes 12 to 15 of the record). -/
def chunk_header_at (data : List UInt8) (p : Int) (entry : List UInt8) : Bool :=
  decide (0 ≤ p) && decide (((data.drop p.toNat).take 8).length = 8)
    && strncasecmp_eq ((data.drop p.toNat).take 8) entry 4
    && decide (str2ulong (((data.drop p.toNat).take 8).drop 4) = str2ulong (entry.drop 12))

/-- The file offset `p` is that of the first payload byte of a chunk with the
FourCC and the length of the `idx1` record `entry`: the 8 bytes of the chunk
header stand just before it. -/
def chunk_payload_at (data : List UInt8) (p : Int) (entry : List UInt8) : Bool :=
  chunk_header_at data (p - 8) entry

/-- The records of an `idx1` array whose tag matches `video_tag` in 3
characters. -/
def idx1_video_records (video_tag : List UInt8) (entries : List (List UInt8)) :
    List (List UInt8) :=
  entries.filter (fun e => strncasecmp_eq e video_tag 3)

/-- What the specification asks of the video index built from an `idx1` array
with the offset base `base`: one entry for each video record, in order, with
`pos = idx offset + base`, the flags of the record as `key` and its length. -/
def idx1_video_entries (video_tag : List UInt8) (base : Int) (entries : List (List UInt8)) :
    List video_index_entry :=
  (idx1_video_records video_tag entries).map
    (fun e =>
      { key := (((str2ulong (e.drop 4)).getD 0 : Nat) : Int)
        pos := (((str2ulong (e.drop 8)).getD 0 : Nat) : Int) + base
        len := (((str2ulong (e.drop 12)).getD 0 : Nat) : Int) })

/-- The bytes of a file with a chunk `00db` of three bytes whose header stands at
offset 16 and whose payload starts at offset 24. -/
def demo_idx1_data : List UInt8 :=
  [82, 73, 70, 70, 0, 0, 0, 0, 109, 111, 118, 105, 0, 0, 0, 0,
   48, 48, 100, 98, 3, 0, 0, 0, 1, 2, 3, 0]

/-- A handle as the header pass leaves it on `demo_idx1_data`, with `movi_start`
12 and an `idx1` record for the chunk that holds its absolute offset 16. -/
def demo_idx1_absolute_avi : avi_t :=
  { fdes := { data := demo_idx1_data }
    mode := AVI_MODE_READ
    video_tag := [48, 48, 100, 98]
    idx := some [[48, 48, 100, 98, 16, 0, 0, 0, 16, 0, 0, 0, 3, 0, 0, 0]]
    n_idx := 1
    movi_start := 12 }

/-- The handle `demo_idx1_absolute_avi` with an `idx1` record that holds the
offset 8 of the chunk from the tag `movi` (which is at `movi_start - 4`). -/
def demo_idx1_relative_avi : avi_t :=
  { demo_idx1_absolute_avi with
    idx := some [[48, 48, 100, 98, 16, 0, 0, 0, 8, 0, 0, 0, 3, 0, 0, 0]] }


/-! ## Vocabulary of the round trip -/

/-- The bytes `s` stand in the file `F` at the offset `x`. -/
def bytes_at (F : List UInt8) (x : Nat) (s : List UInt8) : Prop :=
  (F.drop x).take s.length = s

/-- The layout of a file with one RIFF chunk as the reader meets it: the 12
bytes `RIFF`, length, `AVI `; the list `hdrl` with the bytes `hdrl` after its
type; a list `INFO` of 28 bytes; a chunk `JUNK` that ends at offset 2036; the
header of the list `movi`, whose data start at offset 2048 and end at the even
offset `P`; and the chunk `idx1` with the records `recs` of 16 bytes, which
ends the file. -/
structure avi_file_layout (F hdrl : List UInt8) (P : Nat) (recs : List (List UInt8)) : Prop where
  riff : bytes_at F 0 [82, 73, 70, 70]
  avi : bytes_at F 8 [65, 86, 73, 32]
  hdrl_list : bytes_at F 12
    ([76, 73, 83, 84] ++ long2str ((hdrl.length : Int) + 4) ++ [104, 100, 114, 108])
  hdrl_data : bytes_at F 24 hdrl
  hdrl_even : hdrl.length % 2 = 0
  hdrl_room : hdrl.length + 80 ≤ 2036
  info_list : bytes_at F (24 + hdrl.length) ([76, 73, 83, 84] ++ long2str 28 ++ [73, 78, 70, 79])
  junk : bytes_at F (60 + hdrl.length)
    ([74, 85, 78, 75] ++ long2str (1968 - (hdrl.length : Int)))
  movi_list : bytes_at F 2036
    ([76, 73, 83, 84] ++ long2str ((P : Int) - 2048 + 4) ++ [109, 111, 118, 105])
  movi_end : 2048 ≤ P
  movi_even : P % 2 = 0
  idx1 : bytes_at F P ([105, 100, 120, 49] ++ long2str (16 * (recs.length : Int)) ++ recs.flatten)
  recs_16 : ∀ r ∈ recs, r.length = 16
  file_end : F.length = P + 8 + 16 * recs.length
  small : P + 8 + 16 * recs.length < 2 ^ 31

/-! ## Vocabulary of the round trip: the bytes of the header -/

/-- The bytes that a statement of the header output stores at `nhb` when its
guard lets it store; a statement that moves no byte stores none. -/
def out_step.bytes : out_step → List UInt8
  | .OUT4CC s => s.take 4
  | .OUTLONG n => long2str n
  | .OUTSHRT n => [low_byte n, low_byte (n >>> (8 : Nat))]
  | .OUTCHR n => [low_byte n]
  | .OUTMEM d s => d.take (s % 2 ^ 32)
  | .set_hdrl_start => []
  | .set_strl_start => []
  | .finish_strl => []
  | .finish_hdrl => []

/-- The bytes that a sequence of statements of the header output stores, in
order. -/
def steps_bytes (l : List out_step) : List UInt8 := (l.map out_step.bytes).flatten

/-- A statement that stores at `nhb` and nowhere else: `OUT4CC` of a string of
at least four bytes, `OUTLONG`, `OUTSHRT` and `OUTCHR`. -/
def out_step.plain : out_step → Bool
  | .OUT4CC s => decide (4 ≤ s.length)
  | .OUTLONG _ => true
  | .OUTSHRT _ => true
  | .OUTCHR _ => true
  | _ => false

/-- The header under construction holds the bytes `P` and nothing else: the
array starts with `P`, the rest of it is zero, and `nhb` is the length of
`P`. -/
def header_holds (h : header_buf) (P : List UInt8) : Prop :=
  h.AVI_header = P ++ List.replicate (2048 - P.length) 0 ∧ h.nhb = (P.length : Int) ∧
    P.length ≤ 2048

/-- The statements of `avi_close_output_file` between `OUT4CC ("avih")` and the
stream list of the video stream: the chunk `avih`. -/
def close_avih_steps (A : avi_t) (hasIndex : Bool) : List out_step :=
  ((avi_close_header_vids A hasIndex 0).drop 7).take 16

/-- The statements of `avi_close_output_file` inside the stream list of the
video stream of a file that is not OpenDML, from `OUT4CC ("strl")` on: the
stream header and the stream format. -/
def close_vids_steps (A : avi_t) : List out_step :=
  (avi_close_header_vids A false 0).drop 26 ++ header_vids_strf A

/-- The statements of `avi_close_output_file` inside the stream list of audio
track `j` of a file that is not OpenDML, from `OUT4CC ("strl")` on. -/
def close_auds_steps (A : avi_t) (j : Nat) : List out_step :=
  (avi_close_header_auds_strh A j).drop 3 ++ avi_close_header_auds_strf A j

/-- The bytes of a list in the header: `LIST`, the length of what follows, and
the bytes of the statements inside the list. -/
def close_list_bytes (body : List out_step) : List UInt8 :=
  [76, 73, 83, 84] ++ long2str ((steps_bytes body).length : Int) ++ steps_bytes body

/-- The bytes of the header list that `avi_close_output_file` writes for a file
that is not OpenDML, after the type `hdrl`: the chunk `avih`, the stream list
of the video stream and the stream lists of the audio tracks. -/
def close_hdrl_bytes (A : avi_t) (hasIndex : Bool) : List UInt8 :=
  steps_bytes (close_avih_steps A hasIndex) ++ close_list_bytes (close_vids_steps A)
    ++ ((List.range A.anum.toNat).map (fun j => close_list_bytes (close_auds_steps A j))).flatten

/-- The first 24 bytes of the header that `avi_close_output_file` writes for a
file that is not OpenDML. -/
def close_riff_bytes (A : avi_t) (hasIndex : Bool) : List UInt8 :=
  [82, 73, 70, 70] ++ long2str (A.pos - 8) ++ [65, 86, 73, 32] ++ [76, 73, 83, 84]
    ++ long2str (((close_hdrl_bytes A hasIndex).length : Int) + 4) ++ [104, 100, 114, 108]

/-- The bytes of the INFO list that `avi_close_output_file` writes when there
is no comment text: the list of 28 bytes with the chunk `ISFT` that holds
`id_str`. -/
def close_info_bytes : List UInt8 :=
  [76, 73, 83, 84] ++ long2str 28 ++ [73, 78, 70, 79] ++ [73, 83, 70, 84] ++ long2str 16 ++ id_str

/-- The bytes of the chunk `JUNK` that pads a header of `n` bytes to the start
of the movi list. -/
def close_junk_bytes (n : Nat) : List UInt8 :=
  [74, 85, 78, 75] ++ long2str (2028 - (n : Int)) ++ List.replicate (2028 - n) 0

/-- The 2048 bytes of the header that `avi_close_output_file` writes for a file
that is not OpenDML and has no comment text; `movi_len` is the length of the
movi list. -/
def close_header_bytes (A : avi_t) (hasIndex : Bool) (movi_len : Int) : List UInt8 :=
  close_riff_bytes A hasIndex ++ close_hdrl_bytes A hasIndex ++ close_info_bytes
    ++ close_junk_bytes (60 + (close_hdrl_bytes A hasIndex).length)
    ++ ([76, 73, 83, 84] ++ long2str movi_len ++ [109, 111, 118, 105])

/-- What the interpretation of the header list leaves alone between the states
`w` and `w2` of the walk: the descriptor, the legacy index, the start of the
movi list, and the OpenDML fields of the handle. -/
def walk_kept (w w2 : hdrl_walk) : Prop :=
  w2.AVI.fdes = w.AVI.fdes ∧ w2.AVI.idx = w.AVI.idx ∧ w2.AVI.n_idx = w.AVI.n_idx ∧
    w2.AVI.movi_start = w.AVI.movi_start ∧ w2.AVI.is_opendml = w.AVI.is_opendml ∧
    w2.AVI.total_frames = w.AVI.total_frames

/-- What the specification asks of `audio_bytes` of a track built from an `idx1`
array: the sum of the lengths of the records whose tag matches the tag of the
track in 4 characters. -/
def idx1_audio_bytes (audio_tag : List UInt8) (entries : List (List UInt8)) : Int :=
  ((entries.filter (fun e => strncasecmp_eq e audio_tag 4)).map
    (fun e => (((str2ulong (e.drop 12)).getD 0 : Nat) : Int))).sum

/-! ## Vocabulary of the round trip: the calls of the writer -/

/-- The handle `B` differs from `A` at most in what a call of the writer
changes: the descriptor, the write position, the legacy index, the OpenDML
bookkeeping, the tracks, and the counters of the video stream. -/
def writer_frame (A B : avi_t) : Prop :=
  B = { A with
        fdes := B.fdes
        pos := B.pos
        idx := B.idx
        n_idx := B.n_idx
        max_idx := B.max_idx
        max_len := B.max_len
        video_superindex := B.video_superindex
        track := B.track
        total_frames := B.total_frames
        is_opendml := B.is_opendml
        last_pos := B.last_pos
        last_len := B.last_len
        video_frames := B.video_frames }

/-- The argument `data` of the call. -/
def writer_call.data : writer_call → List UInt8
  | .write_frame data _ _ => data
  | .write_audio data _ => data

/-- The record that the call adds to the legacy index when the write position
is `pos` and the current audio track is `aptr`. -/
def call_record (aptr : Nat) (pos : Int) (c : writer_call) : List UInt8 :=
  idx1_record (write_tag aptr c.audio) (write_flags c.audio c.keyframe) (long_to_ulong pos)
    c.bytes.toNat

/-- The chunk that the call writes when the current audio track is `aptr`. -/
def call_chunk (aptr : Nat) (c : writer_call) : List UInt8 :=
  chunk_bytes (write_tag aptr c.audio) c.data c.bytes.toNat

/-- The chunks that a sequence of calls writes, one after the other. -/
def calls_chunks (aptr : Nat) (calls : List writer_call) : List UInt8 :=
  (calls.map (call_chunk aptr)).flatten

/-- The records that a sequence of calls adds to the legacy index, the first
call finding the write position `pos`: each chunk of `bytes` bytes moves the
write position `8 + PAD_EVEN(bytes)` forward. -/
def calls_records (aptr : Nat) : Int → List writer_call → List (List UInt8)
  | _, [] => []
  | pos, c :: rest =>
    call_record aptr pos c
      :: calls_records aptr (pos + (8 + PAD_EVEN ((c.bytes.toNat : Nat) : Int))) rest

/-- The write position after a sequence of calls, the first call finding the
write position `pos`. -/
def calls_end : Int → List writer_call → Int
  | pos, [] => pos
  | pos, c :: rest => calls_end (pos + (8 + PAD_EVEN ((c.bytes.toNat : Nat) : Int))) rest

/-- What the specification asks of the video index after the round trip: one
entry for each call of `AVI_write_frame`, in order, with the key `0x10` if
`keyframe` was not 0 and 0 otherwise, the length `bytes`, and the offset of the
first payload byte of the chunk; `pos` is the write position that the first
call finds. -/
def calls_video_index : Int → List writer_call → List video_index_entry
  | _, [] => []
  | pos, c :: rest =>
    (if c.audio then []
      else [{ key := if c.keyframe ≠ 0 then 0x10 else 0, pos := pos + 8, len := c.bytes }])
      ++ calls_video_index (pos + (8 + PAD_EVEN ((c.bytes.toNat : Nat) : Int))) rest

/-- The number of calls of `AVI_write_frame` in a sequence of calls. -/
def calls_frames (calls : List writer_call) : Nat :=
  (calls.filter (fun c => !c.audio)).length

/-- The sum of the arguments `bytes` of the calls of `AVI_write_audio` in a
sequence of calls. -/
def calls_audio_bytes (calls : List writer_call) : Int :=
  ((calls.filter (fun c => c.audio)).map (fun c => c.bytes)).sum

/-- A handle as `AVI_open_output_file`, `AVI_set_video` and `AVI_set_audio`
leave it, before the first chunk is written: the file holds the 2048 bytes of
the header on a device without limit, the write position is 2048, nothing is
in the legacy index and there is no super-index, no extradata and no comment
file; the handle has at most `AVI_MAX_TRACKS` audio tracks and its current
track is one of the `AVI_MAX_TRACKS` elements of the array. -/
def writer_fresh (A : avi_t) : Prop :=
  A.fdes.data.length = 2048 ∧ A.fdes.offset = 2048 ∧ A.fdes.limit = none ∧ A.pos = 2048 ∧
  A.is_opendml = 0 ∧ A.n_idx = 0 ∧ A.video_superindex = none ∧ A.extradata = none ∧
  A.extradata_size = 0 ∧ 4 ≤ A.compressor.length ∧ A.comment_fd ≤ 0 ∧ 0 ≤ A.anum ∧
  A.anum ≤ AVI_MAX_TRACKS ∧ (A.aptr : Int) < AVI_MAX_TRACKS

instance (A : avi_t) : Decidable (writer_fresh A) := by
  unfold writer_fresh
  infer_instance

/-- The calls of a small session: `AVI_write_frame` of the three bytes `1, 2, 3`
as a keyframe, then `AVI_write_audio` of the two bytes `4, 5`. -/
def demo_round_trip_calls : List writer_call :=
  [writer_call.write_frame [1, 2, 3] 3 1, writer_call.write_audio [4, 5] 2]

/-- The handle after `AVI_open_output_file`, `AVI_set_audio(AVI, 2, 44100, 16,
1, 0)` and the calls `demo_round_trip_calls`. -/
def demo_round_trip_avi : avi_t :=
  write_audio_result demo_audio_frame_avi demo_audio_small_index.AVI [4, 5] 2

/-! ## Theorems -/

theorem at_index_natCast {α : Type} (a : List α) (i : Nat) : at_index a (i : Int) = a[i]? := by
  simp [at_index]

theorem tdiv_two_natCast (a b : Nat) : ((a : Int) + (b : Int)).tdiv 2 = (((a + b) / 2 : Nat) : Int) := by
  rw [Int.tdiv_eq_ediv (by omega) (by decide)]
  omega

theorem audio_len_sum_succ (ai : List audio_index_entry) (c : Nat) (e : audio_index_entry)
    (h : ai[c]? = some e) : audio_len_sum ai (c + 1) = audio_len_sum ai c + e.len := by
  have hc : c < ai.length := by
    rcases Nat.lt_or_ge c ai.length with h1 | h1
    · exact h1
    · rw [List.getElem?_eq_none h1] at h
      cases h
  have he : ai[c] = e := by
    rw [List.getElem?_eq_getElem hc] at h
    exact Option.some.inj h
  unfold audio_len_sum
  rw [List.map_take, List.map_take, List.sum_take_succ _ _ (by simpa using hc)]
  simp [he]

/-- The binary search of `AVI_set_audio_position` terminates with a chunk `n`
inside `[n0, n1)` that keeps both sides of the loop invariant. -/
theorem search_spec (ai : List audio_index_entry) (b : Int) (chunks : Nat) :
    ∀ (k n0 n1 : Nat), n1 - n0 ≤ k → n0 < n1 → n1 ≤ chunks → chunks ≤ ai.length →
      (∃ e, ai[n0]? = some e ∧ e.tot ≤ b) →
      (n1 = chunks ∨ ∃ e, ai[n1]? = some e ∧ b < e.tot) →
      ∃ (n : Nat) (e : audio_index_entry),
        AVI_set_audio_position_search ai b n0 n1 = some (n : Int) ∧ n < chunks ∧
        ai[n]? = some e ∧ e.tot ≤ b ∧
        (n + 1 = chunks ∨ ∃ e2, ai[n + 1]? = some e2 ∧ b < e2.tot) := by
  intro k
  induction k with
  | zero =>
    intro n0 n1 hk h01 _ _ _ _
    omega
  | succ k ih =>
    intro n0 n1 hk h01 h1c hlen hlo hhi
    rw [AVI_set_audio_position_search]
    by_cases hloop : (n0 : Int) < (n1 : Int) - 1
    · rw [if_pos hloop, tdiv_two_natCast, at_index_natCast]
      have hmid : (n0 + n1) / 2 < ai.length := by omega
      rw [List.getElem?_eq_getElem hmid]
      simp only []
      by_cases hgt : ai[(n0 + n1) / 2].tot > b
      · rw [if_pos hgt]
        exact ih n0 ((n0 + n1) / 2) (by omega) (by omega) (by omega) hlen hlo
          (Or.inr ⟨_, List.getElem?_eq_getElem hmid, hgt⟩)
      · rw [if_neg hgt]
        exact ih ((n0 + n1) / 2) n1 (by omega) (by omega) h1c hlen
          ⟨_, List.getElem?_eq_getElem hmid, by omega⟩ hhi
    · rw [if_neg hloop]
      have h1 : n1 = n0 + 1 := by omega
      obtain ⟨e, he, hle⟩ := hlo
      refine ⟨n0, e, rfl, by omega, he, hle, ?_⟩
      rw [← h1]
      exact hhi

theorem tot_prefix_sums_get {ai : List audio_index_entry} {chunks : Nat}
    (h : tot_prefix_sums ai chunks) {c : Nat} (hc : c < chunks) :
    ∃ e, ai[c]? = some e ∧ e.tot = audio_len_sum ai c := by
  have := h c hc
  cases hx : ai[c]? with
  | none => rw [hx] at this; cases this
  | some e =>
    rw [hx] at this
    exact ⟨e, rfl, Option.some.inj this⟩

theorem lens_nonneg_get {ai : List audio_index_entry} {chunks : Nat}
    (h : lens_nonneg ai chunks) {c : Nat} (hc : c < chunks) {e : audio_index_entry}
    (he : ai[c]? = some e) : 0 ≤ e.len := by
  have := h c hc
  rw [he] at this
  simpa using this

theorem getElem?_some_lt {α : Type} {l : List α} {i : Nat} {x : α} (h : l[i]? = some x) :
    i < l.length := by
  rcases Nat.lt_or_ge i l.length with h1 | h1
  · exact h1
  · rw [List.getElem?_eq_none h1] at h
    cases h

theorem tot_prefix_sums_length {ai : List audio_index_entry} {chunks : Nat}
    (h : tot_prefix_sums ai chunks) : chunks ≤ ai.length := by
  rcases Nat.eq_zero_or_pos chunks with h0 | h0
  · omega
  · obtain ⟨e, he, _⟩ := tot_prefix_sums_get h (c := chunks - 1) (by omega)
    have := getElem?_some_lt he
    omega

/-- With lengths that are not negative the sums of the lengths grow with the
number of chunks summed. -/
theorem audio_len_sum_mono {ai : List audio_index_entry} {chunks : Nat}
    (hlen : chunks ≤ ai.length) (hnn : lens_nonneg ai chunks) :
    ∀ (j i : Nat), i ≤ j → j ≤ chunks → audio_len_sum ai i ≤ audio_len_sum ai j := by
  intro j
  induction j with
  | zero =>
    intro i hi _
    have : i = 0 := by omega
    rw [this]
  | succ j ih =>
    intro i hi hj
    rcases Nat.eq_or_lt_of_le hi with h | h
    · rw [h]
    · have hj2 : j < ai.length := by omega
      have he := List.getElem?_eq_getElem hj2
      rw [audio_len_sum_succ ai j _ he]
      have h1 := ih i (by omega) (by omega)
      have h2 := lens_nonneg_get hnn (c := j) (by omega) he
      omega

/-- Either reading of "the next chunk starts after `b`" bounds `b` by the sum
of the lengths up to and including chunk `n`. -/
theorem lt_audio_len_sum_succ {ai : List audio_index_entry} {chunks : Nat} {b : Int}
    (htot : tot_prefix_sums ai chunks) {n : Nat} (hn : n < chunks)
    (hb1 : b < audio_len_sum ai chunks)
    (hhi : n + 1 = chunks ∨ ∃ e2, ai[n + 1]? = some e2 ∧ b < e2.tot) :
    b < audio_len_sum ai (n + 1) := by
  rcases Nat.lt_or_ge (n + 1) chunks with h | h
  · rcases hhi with h2 | ⟨e2, he2, hb2⟩
    · omega
    · obtain ⟨e3, he3, ht3⟩ := tot_prefix_sums_get htot h
      have : e3 = e2 := Option.some.inj (he3.symm.trans he2)
      subst this
      omega
  · have : n + 1 = chunks := by omega
    rw [this]
    exact hb1

theorem chunks_in_file_get {data : List UInt8} {ai : List audio_index_entry} {chunks : Nat}
    (h : chunks_in_file data ai chunks) {c : Nat} (hc : c < chunks) {e : audio_index_entry}
    (he : ai[c]? = some e) : 0 ≤ e.pos ∧ 0 ≤ e.len ∧ e.pos + e.len ≤ (data.length : Int) := by
  have := h c hc
  rw [he] at this
  simpa using this

theorem chunks_in_file_length {data : List UInt8} {ai : List audio_index_entry} {chunks : Nat}
    (h : chunks_in_file data ai chunks) : chunks ≤ ai.length := by
  rcases Nat.eq_zero_or_pos chunks with h0 | h0
  · omega
  · have := h (chunks - 1) (by omega)
    cases hx : ai[chunks - 1]? with
    | none => rw [hx] at this; cases this
    | some e =>
      have := getElem?_some_lt hx
      omega

theorem chunks_in_file_lens_nonneg {data : List UInt8} {ai : List audio_index_entry}
    {chunks : Nat} (h : chunks_in_file data ai chunks) : lens_nonneg ai chunks := by
  intro c hc
  have hlen := chunks_in_file_length h
  have he := List.getElem?_eq_getElem (l := ai) (n := c) (by omega)
  have := chunks_in_file_get h hc he
  rw [he]
  simp [this.2.1]

theorem audio_stream_succ (data : List UInt8) (ai : List audio_index_entry) (c : Nat)
    (e : audio_index_entry) (he : ai[c]? = some e) :
    audio_stream data ai (c + 1) = audio_stream data ai c ++ chunk_payload data e := by
  unfold audio_stream
  rw [List.take_succ, List.flatMap_append, he]
  simp

theorem chunk_payload_length (data : List UInt8) (e : audio_index_entry)
    (h : 0 ≤ e.pos ∧ 0 ≤ e.len ∧ e.pos + e.len ≤ (data.length : Int)) :
    (chunk_payload data e).length = e.len.toNat := by
  unfold chunk_payload
  rw [List.length_take, List.length_drop]
  omega

/-- The stream of the first `c` chunks is as long as the sum of their lengths. -/
theorem audio_stream_length {data : List UInt8} {ai : List audio_index_entry} {chunks : Nat}
    (h : chunks_in_file data ai chunks) :
    ∀ c, c ≤ chunks → ((audio_stream data ai c).length : Int) = audio_len_sum ai c := by
  have hlen := chunks_in_file_length h
  intro c
  induction c with
  | zero =>
    intro _
    simp [audio_stream, audio_len_sum]
  | succ c ih =>
    intro hc
    have he := List.getElem?_eq_getElem (l := ai) (n := c) (by omega)
    have hb := chunks_in_file_get h (c := c) (by omega) he
    rw [audio_stream_succ data ai c _ he, audio_len_sum_succ ai c _ he, List.length_append,
      chunk_payload_length data _ hb]
    have := ih (by omega)
    omega

theorem audio_stream_split (data : List UInt8) (ai : List audio_index_entry) (c j : Nat)
    (h : c ≤ j) :
    audio_stream data ai j
      = audio_stream data ai c ++ ((ai.take j).drop c).flatMap (chunk_payload data) := by
  unfold audio_stream
  rw [← List.flatMap_append]
  congr 1
  have h1 : List.take c ai = List.take c (List.take j ai) := by
    rw [List.take_take, Nat.min_eq_left h]
  rw [h1, List.take_append_drop]

/-- Inside chunk `c` the stream and the file agree: `t` bytes of the stream from
position `tot[c] + p` are the `t` bytes of the file from `pos[c] + p`. -/
theorem audio_stream_slice {data : List UInt8} {ai : List audio_index_entry} {chunks : Nat}
    (h : chunks_in_file data ai chunks) {c : Nat} (hc : c < chunks) {e : audio_index_entry}
    (he : ai[c]? = some e) (p t : Int) (hp : 0 ≤ p) (ht : 0 ≤ t) (hpt : p + t ≤ e.len) :
    ((audio_stream data ai chunks).drop (audio_len_sum ai c + p).toNat).take t.toNat
      = (data.drop (e.pos + p).toNat).take t.toNat := by
  have hb := chunks_in_file_get h hc he
  have hl := audio_stream_length h c (by omega)
  have hpl := chunk_payload_length data e hb
  rw [audio_stream_split data ai (c + 1) chunks (by omega), audio_stream_succ data ai c e he]
  have h1 : (audio_len_sum ai c + p).toNat = (audio_stream data ai c).length + p.toNat := by
    omega
  rw [h1, List.append_assoc, List.drop_append,
    List.drop_append_of_le_length (by omega),
    List.take_append_of_le_length (by rw [List.length_drop]; omega)]
  unfold chunk_payload
  rw [List.drop_take, List.drop_drop, List.take_take]
  have h2 : (e.pos + p).toNat = e.pos.toNat + p.toNat := by omega
  have h3 : min t.toNat (e.len.toNat - p.toNat) = t.toNat := by omega
  rw [h2, h3]

theorem take_drop_add {α : Type} (l : List α) (a t r : Nat) :
    (l.drop a).take (t + r) = (l.drop a).take t ++ (l.drop (a + t)).take r := by
  rw [List.take_add, List.drop_drop]

theorem plat_read_exact (data : List UInt8) (off : Nat) (lim : Option Nat) (pos t : Int)
    (hpos : 0 ≤ pos) (ht : 0 ≤ t) (hfit : pos + t ≤ (data.length : Int)) :
    plat_read (plat_seek_set { data := data, offset := off, limit := lim } pos).2 t
      = (t, (data.drop pos.toNat).take t.toNat,
          { data := data, offset := pos.toNat + t.toNat, limit := lim }) := by
  have hlen : ((data.drop pos.toNat).take t.toNat).length = t.toNat := by
    rw [List.length_take, List.length_drop]
    omega
  simp only [plat_seek_set, if_neg (not_lt.mpr hpos), plat_read, if_pos ht, hlen]
  rw [Int.toNat_of_nonneg ht]

/-- The loop of `AVI_read_audio`, started on a valid cursor `(c, p)` over an
index whose chunks lie in the file: it returns, having added to `nr` the
smaller of `bytes` and the number of bytes left in the stream, having stored
that slice of the stream, and leaves a valid cursor at the position reached. -/
theorem read_audio_loop_spec (data : List UInt8) (ai : List audio_index_entry) (chunks : Nat)
    (hfile : chunks_in_file data ai chunks) (errno : Int) (lim : Option Nat) :
    ∀ (k : Nat) (off : Nat) (c : Nat) (e : audio_index_entry) (p bytes nr : Int)
      (buf : List UInt8),
      bytes.toNat + (chunks - 1 - c) ≤ k → c < chunks → ai[c]? = some e → 0 ≤ p → p ≤ e.len →
      ∃ (x : read_audio_exit) (c2 : Nat) (e2 : audio_index_entry),
        AVI_read_audio_loop ai chunks errno { data := data, offset := off, limit := lim } c p
          bytes nr buf = some x ∧
        x.ret = nr + min (max bytes 0) (audio_len_sum ai chunks - (audio_len_sum ai c + p)) ∧
        x.buf = buf ++ ((audio_stream data ai chunks).drop
          (audio_len_sum ai c + p).toNat).take bytes.toNat ∧
        x.AVI_errno = errno ∧ x.fdes.data = data ∧
        x.audio_posc = c2 ∧ c2 < chunks ∧ ai[c2]? = some e2 ∧
        0 ≤ x.audio_posb ∧ x.audio_posb ≤ e2.len ∧
        audio_len_sum ai c2 + x.audio_posb = audio_len_sum ai c + p
          + min (max bytes 0) (audio_len_sum ai chunks - (audio_len_sum ai c + p)) := by
  have hlen := chunks_in_file_length hfile
  have hnn := chunks_in_file_lens_nonneg hfile
  have hmono := audio_len_sum_mono hlen hnn
  have hslen := audio_stream_length hfile chunks (le_refl _)
  intro k
  induction k with
  | zero =>
    intro off c e p bytes nr buf hk hc he hp0 hp1
    have hsucc := audio_len_sum_succ ai c e he
    have hm := hmono chunks (c + 1) (by omega) (le_refl _)
    have hb : ¬ bytes > 0 := by omega
    rw [AVI_read_audio_loop, dif_neg hb]
    refine ⟨_, c, e, rfl, ?_, ?_, rfl, rfl, rfl, hc, he, hp0, hp1, ?_⟩
    · simp only []
      omega
    · have : bytes.toNat = 0 := by omega
      simp [this]
    · simp only []
      omega
  | succ k ih =>
    intro off c e p bytes nr buf hk hc he hp0 hp1
    have hsucc := audio_len_sum_succ ai c e he
    have hm := hmono chunks (c + 1) (by omega) (le_refl _)
    have hin := chunks_in_file_get hfile hc he
    rw [AVI_read_audio_loop]
    by_cases hb : bytes > 0
    · rw [dif_pos hb]
      simp only [at_index_natCast, he]
      by_cases hl : e.len - p = 0
      · rw [dif_pos hl]
        by_cases hlast : (c : Int) ≥ (chunks : Int) - 1
        · rw [dif_pos hlast]
          have hcc : c + 1 = chunks := by omega
          rw [hcc] at hsucc
          refine ⟨_, c, e, rfl, ?_, ?_, rfl, rfl, rfl, hc, he, hp0, hp1, ?_⟩
          · simp only []
            omega
          · have hd : (audio_stream data ai chunks).length ≤ (audio_len_sum ai c + p).toNat := by
              omega
            simp [List.drop_eq_nil_of_le hd]
          · simp only []
            omega
        · rw [dif_neg hlast]
          have hc2 : c + 1 < chunks := by omega
          have he2 := List.getElem?_eq_getElem (l := ai) (n := c + 1) (by omega)
          have hin2 := chunks_in_file_get hfile hc2 he2
          obtain ⟨x, c3, e3, hx, hret, hbuf, herr, hdat, hpc, hc3, he3, hb0, hb1, hpos⟩ :=
            ih off (c + 1) _ 0 bytes nr buf (by omega) hc2 he2 (le_refl _) hin2.2.1
          have hcast : ((c : Int) + 1) = ((c + 1 : Nat) : Int) := by omega
          have hsame : audio_len_sum ai (c + 1) + 0 = audio_len_sum ai c + p := by omega
          rw [hsame] at hret hbuf hpos
          rw [hcast]
          exact ⟨x, c3, e3, hx, hret, hbuf, herr, hdat, hpc, hc3, he3, hb0, hb1, hpos⟩
      · rw [dif_neg hl]
        have htodo : ∃ todo, (if bytes < e.len - p then bytes else e.len - p) = todo ∧
            0 < todo ∧ todo ≤ bytes ∧ todo ≤ e.len - p ∧ todo = min bytes (e.len - p) := by
          refine ⟨_, rfl, ?_, ?_, ?_, ?_⟩ <;> split <;> omega
        obtain ⟨todo, htd, ht0, ht1, ht2, ht3⟩ := htodo
        simp only [htd]
        rw [plat_read_exact data off lim (e.pos + p) todo (by omega) (by omega) (by omega)]
        simp only [ne_eq, not_true_eq_false, dite_false]
        obtain ⟨x, c3, e3, hx, hret, hbuf, herr, hdat, hpc, hc3, he3, hb0, hb1, hpos⟩ :=
          ih _ c e (p + todo) (bytes - todo) (nr + todo)
            (buf ++ (data.drop (e.pos + p).toNat).take todo.toNat) (by omega) hc he
            (by omega) (by omega)
        refine ⟨x, c3, e3, hx, ?_, ?_, herr, hdat, hpc, hc3, he3, hb0, hb1, ?_⟩
        · rw [hret]
          omega
        · rw [hbuf, List.append_assoc]
          congr 1
          rw [← audio_stream_slice hfile hc he p todo hp0 (by omega) (by omega)]
          have h1 : bytes.toNat = todo.toNat + (bytes - todo).toNat := by omega
          have h2 : (audio_len_sum ai c + (p + todo)).toNat
              = (audio_len_sum ai c + p).toNat + todo.toNat := by
            have := hmono c 0 (by omega) (by omega)
            have hz : audio_len_sum ai 0 = 0 := by simp [audio_len_sum]
            omega
          rw [h1, h2, take_drop_add]
        · rw [hpos]
          omega
    · rw [dif_neg hb]
      refine ⟨_, c, e, rfl, ?_, ?_, rfl, rfl, rfl, hc, he, hp0, hp1, ?_⟩
      · simp only []
        omega
      · have : bytes.toNat = 0 := by omega
        simp [this]
      · simp only []
        omega

theorem le_audio_len_sum_succ {ai : List audio_index_entry} {chunks : Nat} {b : Int}
    (htot : tot_prefix_sums ai chunks) {n : Nat} (hn : n < chunks)
    (hb1 : b ≤ audio_len_sum ai chunks)
    (hhi : n + 1 = chunks ∨ ∃ e2, ai[n + 1]? = some e2 ∧ b < e2.tot) :
    b ≤ audio_len_sum ai (n + 1) := by
  rcases Nat.lt_or_ge (n + 1) chunks with h | h
  · rcases hhi with h2 | ⟨e2, he2, hb2⟩
    · omega
    · obtain ⟨e3, he3, ht3⟩ := tot_prefix_sums_get htot h
      have : e3 = e2 := Option.some.inj (he3.symm.trans he2)
      subst this
      omega
  · have : n + 1 = chunks := by omega
    rw [this]
    exact hb1

theorem set_track_track (AVI : avi_t) (j : Nat) (t : track_t) :
    (AVI.set_track j t).track j = t := by
  simp [avi_t.set_track]

theorem take_one_drop {α : Type} (l : List α) (k : Nat) (h : k < l.length) :
    (l.drop k).take 1 = [l[k]] := by
  rw [List.drop_eq_getElem_cons h]
  rfl

/-- `AVI_set_audio_position` on a read-mode handle with at least one chunk: it
returns 0 and stores the chunk found by the search and the distance of the
clamped `byte` from its `tot`. -/
theorem set_audio_position_eval (AVI : avi_t) (AVI_errno : Int)
    (ai : List audio_index_entry) (chunks : Nat) (b : Int)
    (hmode : AVI.mode = AVI_MODE_READ)
    (hidx : (AVI.track AVI.aptr).audio_index = some ai)
    (hchunks : (AVI.track AVI.aptr).audio_chunks = chunks) (hone : 1 ≤ chunks)
    (htot : tot_prefix_sums ai chunks) :
    ∃ (n : Nat) (e : audio_index_entry),
      n < chunks ∧ ai[n]? = some e ∧
      AVI_set_audio_position AVI AVI_errno b = some
        { ret := 0
          AVI := AVI.set_track AVI.aptr
            { AVI.track AVI.aptr with
              audio_posc := n, audio_posb := (if b < 0 then 0 else b) - e.tot }
          AVI_errno := AVI_errno } ∧
      e.tot ≤ (if b < 0 then 0 else b) ∧
      (n + 1 = chunks ∨ ∃ e2, ai[n + 1]? = some e2 ∧ (if b < 0 then 0 else b) < e2.tot) := by
  have hlen := tot_prefix_sums_length htot
  obtain ⟨e0, he0, ht0⟩ := tot_prefix_sums_get htot (c := 0) (by omega)
  have hz : audio_len_sum ai 0 = 0 := by simp [audio_len_sum]
  have hclamp : (0 : Int) ≤ (if b < 0 then 0 else b) := by split <;> omega
  obtain ⟨n, e, hs, hn, he, hle, hhi⟩ := search_spec ai (if b < 0 then 0 else b) chunks chunks 0
    chunks (by omega) (by omega) (le_refl _) hlen ⟨e0, he0, by omega⟩ (Or.inl rfl)
  refine ⟨n, e, hn, he, ?_, hle, hhi⟩
  unfold AVI_set_audio_position
  have hm : ¬ AVI.mode = AVI_MODE_WRITE := by
    rw [hmode]
    decide
  rw [if_neg hm, hidx]
  simp only [hchunks]
  have hs2 : AVI_set_audio_position_search ai (if b < 0 then 0 else b) 0 (chunks : Int)
      = some (n : Int) := by
    simpa using hs
  rw [hs2]
  simp only [at_index_natCast, he]

/-- `AVI_read_audio` for a positive byte count on a valid cursor `(c, posb)` of
an index whose chunks lie in the file. -/
theorem read_audio_eval (AVI : avi_t) (AVI_errno : Int) (ai : List audio_index_entry)
    (chunks c : Nat) (e : audio_index_entry) (n : Int)
    (hmode : AVI.mode = AVI_MODE_READ)
    (hidx : (AVI.track AVI.aptr).audio_index = some ai)
    (hchunks : (AVI.track AVI.aptr).audio_chunks = chunks)
    (hfile : chunks_in_file AVI.fdes.data ai chunks)
    (hposc : (AVI.track AVI.aptr).audio_posc = c) (hc : c < chunks) (he : ai[c]? = some e)
    (hb0 : 0 ≤ (AVI.track AVI.aptr).audio_posb) (hb1 : (AVI.track AVI.aptr).audio_posb ≤ e.len)
    (hn : 0 < n) :
    ∃ (fd : plat_file) (c2 : Nat) (b2 : Int) (e2 : audio_index_entry),
      AVI_read_audio AVI AVI_errno n = some
        { ret := min n (audio_len_sum ai chunks
            - (audio_len_sum ai c + (AVI.track AVI.aptr).audio_posb))
          AVI := { AVI with fdes := fd }.set_track AVI.aptr
            { AVI.track AVI.aptr with audio_posc := c2, audio_posb := b2 }
          AVI_errno := AVI_errno
          buf := ((audio_stream AVI.fdes.data ai chunks).drop
            (audio_len_sum ai c + (AVI.track AVI.aptr).audio_posb).toNat).take n.toNat } ∧
      fd.data = AVI.fdes.data ∧ c2 < chunks ∧ ai[c2]? = some e2 ∧ 0 ≤ b2 ∧ b2 ≤ e2.len ∧
      audio_len_sum ai c2 + b2 = audio_len_sum ai c + (AVI.track AVI.aptr).audio_posb
        + min n (audio_len_sum ai chunks
            - (audio_len_sum ai c + (AVI.track AVI.aptr).audio_posb)) := by
  obtain ⟨x, c2, e2, hx, hret, hbuf, herr, hdat, hpc, hc2, he2, hx0, hx1, hpos⟩ :=
    read_audio_loop_spec AVI.fdes.data ai chunks hfile AVI_errno AVI.fdes.limit _ AVI.fdes.offset c e
      (AVI.track AVI.aptr).audio_posb n 0 [] (le_refl _) hc he hb0 hb1
  have hmax : max n 0 = n := by omega
  rw [hmax] at hret hpos
  rw [zero_add] at hret
  rw [List.nil_append] at hbuf
  have hfd : ({ data := AVI.fdes.data, offset := AVI.fdes.offset, limit := AVI.fdes.limit } : plat_file) = AVI.fdes := rfl
  rw [hfd] at hx
  refine ⟨x.fdes, c2, x.audio_posb, e2, ?_, hdat, hc2, he2, hx0, hx1, hpos⟩
  unfold AVI_read_audio
  have hm : ¬ AVI.mode = AVI_MODE_WRITE := by
    rw [hmode]
    decide
  have hn0 : ¬ n = 0 := by omega
  rw [if_neg hm, hidx]
  simp only [if_neg hn0, hchunks, hposc, hx, hret, hbuf, herr, hpc]

/-- C1: on a read-mode handle whose current track has at least one chunk and
`tot` fields that are the prefix sums of `len`, `AVI_set_audio_position(b)` with
`0 ≤ b < total` returns 0, touches only the cursor, and puts it at
`(n, b - tot[n])` for a chunk `n` with `tot[n] ≤ b` and (`n` last or
`b < tot[n+1]`); hence `b - tot[n] < len[n]`.  When no length is negative that
chunk is the only one with the property. -/
theorem AVI_set_audio_position_locates_chunk (AVI : avi_t) (AVI_errno : Int)
    (audio_index : List audio_index_entry) (chunks : Nat) (b : Int)
    (hmode : AVI.mode = AVI_MODE_READ)
    (hidx : (AVI.track AVI.aptr).audio_index = some audio_index)
    (hchunks : (AVI.track AVI.aptr).audio_chunks = chunks) (hone : 1 ≤ chunks)
    (htot : tot_prefix_sums audio_index chunks)
    (hb0 : 0 ≤ b) (hb1 : b < audio_len_sum audio_index chunks) :
    ∃ (n : Nat) (e : audio_index_entry),
      n < chunks ∧ audio_index[n]? = some e ∧
      AVI_set_audio_position AVI AVI_errno b = some
        { ret := 0
          AVI := AVI.set_track AVI.aptr
            { AVI.track AVI.aptr with audio_posc := n, audio_posb := b - e.tot }
          AVI_errno := AVI_errno } ∧
      e.tot ≤ b ∧
      (n + 1 = chunks ∨ ∃ e2, audio_index[n + 1]? = some e2 ∧ b < e2.tot) ∧
      b - e.tot < e.len ∧
      (lens_nonneg audio_index chunks →
        ∀ (m : Nat) (em : audio_index_entry), m < chunks → audio_index[m]? = some em →
          em.tot ≤ b → (m + 1 = chunks ∨ ∃ e2, audio_index[m + 1]? = some e2 ∧ b < e2.tot) →
          m = n) := by
  have hlen := tot_prefix_sums_length htot
  obtain ⟨n, e, hn, he, hs, hle, hhi⟩ :=
    set_audio_position_eval AVI AVI_errno audio_index chunks b hmode hidx hchunks hone htot
  rw [if_neg (not_lt.mpr hb0)] at hs hle hhi
  obtain ⟨e', he', hte⟩ := tot_prefix_sums_get htot hn
  have hee : e' = e := Option.some.inj (he'.symm.trans he)
  subst hee
  have hsucc := audio_len_sum_succ audio_index n e' he
  have hup := lt_audio_len_sum_succ htot hn hb1 hhi
  refine ⟨n, e', hn, he, hs, hle, hhi, by omega, ?_⟩
  intro hnn m em hm hem hmle hmhi
  obtain ⟨em', hem', htm⟩ := tot_prefix_sums_get htot hm
  have hmm : em' = em := Option.some.inj (hem'.symm.trans hem)
  subst hmm
  have hupm := lt_audio_len_sum_succ htot hm hb1 hmhi
  rcases Nat.lt_trichotomy m n with h | h | h
  · have := audio_len_sum_mono hlen hnn n (m + 1) (by omega) (by omega)
    omega
  · exact h
  · have := audio_len_sum_mono hlen hnn m (n + 1) (by omega) (by omega)
    omega

/-- C1, at the demo handle: byte 4 of a track with chunks of three and two bytes. -/
theorem AVI_set_audio_position_locates_chunk_witness :
    ∃ (n : Nat) (e : audio_index_entry),
      n < 2 ∧ demo_audio_index[n]? = some e ∧
      AVI_set_audio_position demo_avi 0 4 = some
        { ret := 0
          AVI := demo_avi.set_track demo_avi.aptr
            { demo_avi.track demo_avi.aptr with audio_posc := n, audio_posb := 4 - e.tot }
          AVI_errno := 0 } ∧
      e.tot ≤ 4 ∧
      (n + 1 = 2 ∨ ∃ e2, demo_audio_index[n + 1]? = some e2 ∧ (4 : Int) < e2.tot) ∧
      4 - e.tot < e.len ∧
      (lens_nonneg demo_audio_index 2 →
        ∀ (m : Nat) (em : audio_index_entry), m < 2 → demo_audio_index[m]? = some em →
          em.tot ≤ 4 →
          (m + 1 = 2 ∨ ∃ e2, demo_audio_index[m + 1]? = some e2 ∧ (4 : Int) < e2.tot) →
          m = n) :=
  AVI_set_audio_position_locates_chunk demo_avi 0 demo_audio_index 2 4 rfl rfl rfl
    (by decide) (by decide) (by decide) (by decide)

/-- C4: from a valid cursor (chunk `c < chunks`, offset `0 ≤ posb ≤ len[c]`) of
an index whose chunks lie in the file, so that every read succeeds,
`AVI_read_audio(buf, n)` with `n > 0` returns the smaller of `n` and the number
of bytes from the cursor to the end of the track, stores exactly that slice of
the concatenated audio stream, leaves `AVI_errno` alone, and leaves a cursor
that is valid again and stands `ret` bytes further in the stream. -/
theorem AVI_read_audio_returns_stream_slice (AVI : avi_t) (AVI_errno : Int)
    (audio_index : List audio_index_entry) (chunks c : Nat) (e : audio_index_entry) (n : Int)
    (hmode : AVI.mode = AVI_MODE_READ)
    (hidx : (AVI.track AVI.aptr).audio_index = some audio_index)
    (hchunks : (AVI.track AVI.aptr).audio_chunks = chunks)
    (hfile : chunks_in_file AVI.fdes.data audio_index chunks)
    (hposc : (AVI.track AVI.aptr).audio_posc = c) (hc : c < chunks)
    (he : audio_index[c]? = some e)
    (hb0 : 0 ≤ (AVI.track AVI.aptr).audio_posb) (hb1 : (AVI.track AVI.aptr).audio_posb ≤ e.len)
    (hn : 0 < n) :
    ∃ (o : outcome) (c2 : Nat) (e2 : audio_index_entry),
      AVI_read_audio AVI AVI_errno n = some o ∧
      o.ret = min n (audio_len_sum audio_index chunks
        - (audio_len_sum audio_index c + (AVI.track AVI.aptr).audio_posb)) ∧
      o.buf = ((audio_stream AVI.fdes.data audio_index chunks).drop
        (audio_len_sum audio_index c + (AVI.track AVI.aptr).audio_posb).toNat).take n.toNat ∧
      (o.buf.length : Int) = o.ret ∧
      o.AVI_errno = AVI_errno ∧
      o.AVI.aptr = AVI.aptr ∧
      (o.AVI.track AVI.aptr).audio_index = some audio_index ∧
      (o.AVI.track AVI.aptr).audio_chunks = chunks ∧
      o.AVI.fdes.data = AVI.fdes.data ∧
      (o.AVI.track AVI.aptr).audio_posc = c2 ∧ c2 < chunks ∧ audio_index[c2]? = some e2 ∧
      0 ≤ (o.AVI.track AVI.aptr).audio_posb ∧ (o.AVI.track AVI.aptr).audio_posb ≤ e2.len ∧
      audio_len_sum audio_index c2 + (o.AVI.track AVI.aptr).audio_posb
        = audio_len_sum audio_index c + (AVI.track AVI.aptr).audio_posb + o.ret := by
  obtain ⟨fd, c2, b2, e2, hr, hdat, hc2, he2, h0, h1, hpos⟩ :=
    read_audio_eval AVI AVI_errno audio_index chunks c e n hmode hidx hchunks hfile hposc hc he
      hb0 hb1 hn
  have hlen := chunks_in_file_length hfile
  have hsl := audio_stream_length hfile chunks (le_refl _)
  have hmono := audio_len_sum_mono hlen (chunks_in_file_lens_nonneg hfile)
  have hsucc := audio_len_sum_succ audio_index c e he
  have hm1 := hmono chunks (c + 1) (by omega) (le_refl _)
  have hm0 := hmono c 0 (by omega) (by omega)
  have hz : audio_len_sum audio_index 0 = 0 := by simp [audio_len_sum]
  refine ⟨_, c2, e2, hr, rfl, rfl, ?_, rfl, rfl, ?_, ?_, hdat, ?_, hc2, he2, ?_, ?_, ?_⟩
  · simp only [List.length_take, List.length_drop]
    omega
  · simp [avi_t.set_track, hidx]
  · simp [avi_t.set_track, hchunks]
  · simp [avi_t.set_track]
  · simpa [avi_t.set_track] using h0
  · simpa [avi_t.set_track] using h1
  · simpa [avi_t.set_track] using hpos

/-- C4, at the demo handle: four bytes from the start of a five-byte track. -/
theorem AVI_read_audio_returns_stream_slice_witness :
    ∃ (o : outcome) (c2 : Nat) (e2 : audio_index_entry),
      AVI_read_audio demo_avi 0 4 = some o ∧
      o.ret = min 4 (audio_len_sum demo_audio_index 2
        - (audio_len_sum demo_audio_index 0 + (demo_avi.track demo_avi.aptr).audio_posb)) ∧
      o.buf = ((audio_stream demo_avi.fdes.data demo_audio_index 2).drop
        (audio_len_sum demo_audio_index 0
          + (demo_avi.track demo_avi.aptr).audio_posb).toNat).take (4 : Int).toNat ∧
      (o.buf.length : Int) = o.ret ∧
      o.AVI_errno = 0 ∧
      o.AVI.aptr = demo_avi.aptr ∧
      (o.AVI.track demo_avi.aptr).audio_index = some demo_audio_index ∧
      (o.AVI.track demo_avi.aptr).audio_chunks = (2 : Nat) ∧
      o.AVI.fdes.data = demo_avi.fdes.data ∧
      (o.AVI.track demo_avi.aptr).audio_posc = c2 ∧ c2 < 2 ∧ demo_audio_index[c2]? = some e2 ∧
      0 ≤ (o.AVI.track demo_avi.aptr).audio_posb ∧
      (o.AVI.track demo_avi.aptr).audio_posb ≤ e2.len ∧
      audio_len_sum demo_audio_index c2 + (o.AVI.track demo_avi.aptr).audio_posb
        = audio_len_sum demo_audio_index 0 + (demo_avi.track demo_avi.aptr).audio_posb + o.ret :=
  AVI_read_audio_returns_stream_slice demo_avi 0 demo_audio_index 2 0
    { pos := 4, len := 3, tot := 0 } 4 rfl rfl rfl (by decide) rfl (by decide) rfl
    (by decide) (by decide) (by decide)

/-- C2 (amended): on a read-mode handle whose current track has at least one
chunk, `tot` fields that are the prefix sums of `len` and chunks that lie in
the file, `AVI_set_audio_position(b)` followed by `AVI_read_audio(buf, 1)`
delivers, for `0 ≤ b < total`, exactly the byte at position `b` of the
concatenated audio stream and returns 1; for `b = total` it delivers no byte
and returns 0. -/
theorem AVI_set_audio_position_then_read_one (AVI : avi_t) (AVI_errno : Int)
    (audio_index : List audio_index_entry) (chunks : Nat) (b : Int)
    (hmode : AVI.mode = AVI_MODE_READ)
    (hidx : (AVI.track AVI.aptr).audio_index = some audio_index)
    (hchunks : (AVI.track AVI.aptr).audio_chunks = chunks) (hone : 1 ≤ chunks)
    (htot : tot_prefix_sums audio_index chunks)
    (hfile : chunks_in_file AVI.fdes.data audio_index chunks)
    (hb0 : 0 ≤ b) (hb1 : b ≤ audio_len_sum audio_index chunks) :
    ∃ (o1 o2 : outcome),
      AVI_set_audio_position AVI AVI_errno b = some o1 ∧ o1.ret = 0 ∧
      AVI_read_audio o1.AVI o1.AVI_errno 1 = some o2 ∧
      (b < audio_len_sum audio_index chunks →
        o2.ret = 1 ∧ ∃ x, (audio_stream AVI.fdes.data audio_index chunks)[b.toNat]? = some x ∧
          o2.buf = [x]) ∧
      (b = audio_len_sum audio_index chunks → o2.ret = 0 ∧ o2.buf = []) := by
  obtain ⟨n, e, hn, he, hs, hle, hhi⟩ :=
    set_audio_position_eval AVI AVI_errno audio_index chunks b hmode hidx hchunks hone htot
  rw [if_neg (not_lt.mpr hb0)] at hs hle hhi
  obtain ⟨e', he', hte⟩ := tot_prefix_sums_get htot hn
  have hee : e' = e := Option.some.inj (he'.symm.trans he)
  subst hee
  have hsucc := audio_len_sum_succ audio_index n e' he
  have hup := le_audio_len_sum_succ htot hn hb1 hhi
  have hsl := audio_stream_length hfile chunks (le_refl _)
  obtain ⟨fd, c2, b2, e2, hr, -⟩ := read_audio_eval
    (AVI.set_track AVI.aptr { AVI.track AVI.aptr with audio_posc := n, audio_posb := b - e'.tot })
    AVI_errno audio_index chunks n e' 1 hmode
    (by rw [show (AVI.set_track AVI.aptr _).aptr = AVI.aptr from rfl, set_track_track]; exact hidx)
    (by rw [show (AVI.set_track AVI.aptr _).aptr = AVI.aptr from rfl, set_track_track]
        exact hchunks)
    hfile
    (by rw [show (AVI.set_track AVI.aptr _).aptr = AVI.aptr from rfl, set_track_track])
    hn he
    (by rw [show (AVI.set_track AVI.aptr _).aptr = AVI.aptr from rfl, set_track_track]
        show 0 ≤ b - e'.tot
        omega)
    (by rw [show (AVI.set_track AVI.aptr _).aptr = AVI.aptr from rfl, set_track_track]
        show b - e'.tot ≤ e'.len
        omega)
    (by decide)
  rw [show (AVI.set_track AVI.aptr _).aptr = AVI.aptr from rfl, set_track_track] at hr
  have hpos : audio_len_sum audio_index n + (b - e'.tot) = b := by omega
  simp only [hpos, show ∀ t, (AVI.set_track AVI.aptr t).fdes = AVI.fdes from fun _ => rfl] at hr
  refine ⟨_, _, hs, rfl, hr, ?_, ?_⟩
  · intro hlt
    have hk : b.toNat < (audio_stream AVI.fdes.data audio_index chunks).length := by omega
    refine ⟨?_, _, List.getElem?_eq_getElem hk, ?_⟩
    · show min 1 (audio_len_sum audio_index chunks - b) = 1
      omega
    · show List.take (1 : Int).toNat _ = _
      exact take_one_drop _ _ hk
  · intro heq
    refine ⟨?_, ?_⟩
    · show min 1 (audio_len_sum audio_index chunks - b) = 0
      omega
    · show List.take (1 : Int).toNat _ = _
      rw [List.drop_eq_nil_of_le (by omega)]
      rfl

/-- C2 (amended), at the demo handle: byte 4 of the five-byte track. -/
theorem AVI_set_audio_position_then_read_one_witness :
    ∃ (o1 o2 : outcome),
      AVI_set_audio_position demo_avi 0 4 = some o1 ∧ o1.ret = 0 ∧
      AVI_read_audio o1.AVI o1.AVI_errno 1 = some o2 ∧
      ((4 : Int) < audio_len_sum demo_audio_index 2 →
        o2.ret = 1 ∧ ∃ x, (audio_stream demo_avi.fdes.data demo_audio_index 2)[(4 : Int).toNat]?
          = some x ∧ o2.buf = [x]) ∧
      ((4 : Int) = audio_len_sum demo_audio_index 2 → o2.ret = 0 ∧ o2.buf = []) :=
  AVI_set_audio_position_then_read_one demo_avi 0 demo_audio_index 2 4 rfl rfl rfl
    (by decide) (by decide) (by decide) (by decide) (by decide)

/-- C2 as stated fails at `b = total`: on the demo handle (a track of five
bytes, whose index has prefix-sum `tot` fields and chunks inside the file)
`AVI_set_audio_position(5)` followed by `AVI_read_audio(buf, 1)` returns 0 and
stores no byte. -/
theorem AVI_set_audio_position_total_then_read_one_delivers_nothing :
    tot_prefix_sums demo_audio_index 2 ∧
    chunks_in_file demo_avi.fdes.data demo_audio_index 2 ∧
    (0 : Int) ≤ 5 ∧ (5 : Int) ≤ audio_len_sum demo_audio_index 2 ∧
    ((AVI_set_audio_position demo_avi 0 5).bind
      (fun o1 => AVI_read_audio o1.AVI o1.AVI_errno 1)).map (fun o2 => (o2.ret, o2.buf))
      = some (0, []) := by
  have h1 : AVI_set_audio_position demo_avi 0 5 = some
      { ret := 0
        AVI := demo_avi.set_track 0 { demo_avi.track 0 with audio_posc := 1, audio_posb := 2 }
        AVI_errno := 0 } := by
    simp [AVI_set_audio_position, AVI_set_audio_position_search, demo_avi, demo_audio_index,
      AVI_MODE_READ, AVI_MODE_WRITE, at_index, avi_t.set_track]
  refine ⟨by decide, by decide, by decide, by decide, ?_⟩
  rw [h1]
  simp [AVI_read_audio, demo_avi, demo_audio_index, AVI_MODE_READ, AVI_MODE_WRITE,
    avi_t.set_track]
  rw [AVI_read_audio_loop]
  simp [at_index]

/-- C3, the code at a failing input: on the demo handle (a track of five bytes,
last chunk of length 2) `AVI_set_audio_position(7)` returns 0 and leaves the
cursor at chunk 1 with offset 4, beyond the length of that chunk, instead of
clamping it to offset 2; the following `AVI_read_audio(buf, 1)` asks the
platform for `2 - 4 = -2` bytes and returns -1 with the read error, not 0. -/
theorem AVI_set_audio_position_past_total_is_not_clamped :
    (7 : Int) > audio_len_sum demo_audio_index 2 ∧
    demo_audio_index[1]? = some { pos := 9, len := 2, tot := 3 } ∧
    (AVI_set_audio_position demo_avi 0 7).map
      (fun o => (o.ret, (o.AVI.track 0).audio_posc, (o.AVI.track 0).audio_posb))
      = some (0, 1, 4) ∧
    ((AVI_set_audio_position demo_avi 0 7).bind
      (fun o1 => AVI_read_audio o1.AVI o1.AVI_errno 1)).map (fun o2 => (o2.ret, o2.AVI_errno))
      = some (-1, AVI_ERR_READ) := by
  have h1 : AVI_set_audio_position demo_avi 0 7 = some
      { ret := 0
        AVI := demo_avi.set_track 0 { demo_avi.track 0 with audio_posc := 1, audio_posb := 4 }
        AVI_errno := 0 } := by
    simp [AVI_set_audio_position, AVI_set_audio_position_search, demo_avi, demo_audio_index,
      AVI_MODE_READ, AVI_MODE_WRITE, at_index, avi_t.set_track]
  rw [h1]
  refine ⟨by decide, by decide, ?_, ?_⟩
  · simp [avi_t.set_track]
  · simp [AVI_read_audio, demo_avi, demo_audio_index, AVI_MODE_READ, AVI_MODE_WRITE,
      avi_t.set_track]
    rw [AVI_read_audio_loop]
    simp [at_index, plat_read, plat_seek_set, demo_file]

theorem cursor_ok_advance (t : track_t) (ai : List audio_index_entry) (chunks c : Nat)
    (hidx : t.audio_index = some ai) (hchunks : t.audio_chunks = chunks)
    (hlen : chunks ≤ ai.length) (hnn : lens_nonneg ai chunks) (hc : c ≤ chunks) :
    cursor_ok { t with audio_posc := c, audio_posb := 0 } := by
  rcases Nat.lt_or_ge c chunks with h | h
  · have he := List.getElem?_eq_getElem (l := ai) (n := c) (by omega)
    refine Or.inl ⟨ai, _, hidx, ?_, ?_, ?_, le_refl _, lens_nonneg_get hnn h he⟩
    · show (0 : Int) ≤ (c : Int)
      omega
    · show (c : Int) < t.audio_chunks
      omega
    · show at_index ai (c : Int) = _
      rw [at_index_natCast]
      exact he
  · refine Or.inr ⟨?_, rfl⟩
    show (c : Int) = t.audio_chunks
    omega

/-- The loop of `AVI_read_audio` keeps a cursor that stands on a chunk on a
chunk, whatever the platform reads deliver. -/
theorem read_audio_loop_valid (ai : List audio_index_entry) (chunks : Nat)
    (hlen : chunks ≤ ai.length) (hnn : lens_nonneg ai chunks) (errno : Int) :
    ∀ (k : Nat) (fdes : plat_file) (c : Nat) (e : audio_index_entry) (p bytes nr : Int)
      (buf : List UInt8),
      bytes.toNat + (chunks - 1 - c) ≤ k → c < chunks → ai[c]? = some e → 0 ≤ p → p ≤ e.len →
      ∃ (x : read_audio_exit) (c2 : Nat) (e2 : audio_index_entry),
        AVI_read_audio_loop ai chunks errno fdes c p bytes nr buf = some x ∧
        x.audio_posc = c2 ∧ c2 < chunks ∧ ai[c2]? = some e2 ∧
        0 ≤ x.audio_posb ∧ x.audio_posb ≤ e2.len := by
  intro k
  induction k with
  | zero =>
    intro fdes c e p bytes nr buf hk hc he hp0 hp1
    have hb : ¬ bytes > 0 := by omega
    rw [AVI_read_audio_loop, dif_neg hb]
    exact ⟨_, c, e, rfl, rfl, hc, he, hp0, hp1⟩
  | succ k ih =>
    intro fdes c e p bytes nr buf hk hc he hp0 hp1
    rw [AVI_read_audio_loop]
    by_cases hb : bytes > 0
    · rw [dif_pos hb]
      simp only [at_index_natCast, he]
      by_cases hl : e.len - p = 0
      · rw [dif_pos hl]
        by_cases hlast : (c : Int) ≥ (chunks : Int) - 1
        · rw [dif_pos hlast]
          exact ⟨_, c, e, rfl, rfl, hc, he, hp0, hp1⟩
        · rw [dif_neg hlast]
          have hc2 : c + 1 < chunks := by omega
          have he2 := List.getElem?_eq_getElem (l := ai) (n := c + 1) (by omega)
          have hcast : ((c : Int) + 1) = ((c + 1 : Nat) : Int) := by omega
          rw [hcast]
          exact ih fdes (c + 1) _ 0 bytes nr buf (by omega) hc2 he2 (le_refl _)
            (lens_nonneg_get hnn hc2 he2)
      · rw [dif_neg hl]
        have htodo : ∃ todo, (if bytes < e.len - p then bytes else e.len - p) = todo ∧
            0 < todo ∧ todo ≤ bytes ∧ todo ≤ e.len - p := by
          refine ⟨_, rfl, ?_, ?_, ?_⟩ <;> split <;> omega
        obtain ⟨todo, htd, ht0, ht1, ht2⟩ := htodo
        simp only [htd]
        by_cases hr : (plat_read (plat_seek_set fdes (e.pos + p)).2 todo).1 ≠ todo
        · rw [dif_pos hr]
          exact ⟨_, c, e, rfl, rfl, hc, he, hp0, hp1⟩
        · rw [dif_neg hr]
          exact ih _ c e (p + todo) (bytes - todo) (nr + todo) _ (by omega) hc he
            (by omega) (by omega)
    · rw [dif_neg hb]
      exact ⟨_, c, e, rfl, rfl, hc, he, hp0, hp1⟩

/-- C5 (amended): on a read-mode handle whose current track has at least one
chunk, prefix-sum `tot` fields and no negative length, the cursor stays in the
states the reader is built for (on a chunk `posc < audio_chunks` with
`0 ≤ posb ≤ len[posc]`, or at the end `(audio_chunks, 0)`) under
`AVI_set_audio_position(b)` for `b ≤ total`, `AVI_set_audio_position_index(i)`
for `i ≥ 0`, `AVI_read_audio` with any byte count (0 included) from a cursor on
a chunk, and `AVI_read_audio_chunk` with any buffer; each of these calls
returns. -/
theorem audio_cursor_preserved (AVI : avi_t) (AVI_errno : Int)
    (audio_index : List audio_index_entry) (chunks : Nat)
    (hmode : AVI.mode = AVI_MODE_READ)
    (hidx : (AVI.track AVI.aptr).audio_index = some audio_index)
    (hchunks : (AVI.track AVI.aptr).audio_chunks = chunks) (hone : 1 ≤ chunks)
    (htot : tot_prefix_sums audio_index chunks)
    (hnn : lens_nonneg audio_index chunks)
    (hcur : cursor_ok (AVI.track AVI.aptr)) :
    (∀ b, b ≤ audio_len_sum audio_index chunks →
      ∃ o, AVI_set_audio_position AVI AVI_errno b = some o ∧
        cursor_ok (o.AVI.track o.AVI.aptr)) ∧
    (∀ i, 0 ≤ i →
      cursor_ok ((AVI_set_audio_position_index AVI AVI_errno i).AVI.track
        (AVI_set_audio_position_index AVI AVI_errno i).AVI.aptr)) ∧
    (∀ n, (AVI.track AVI.aptr).audio_posc < chunks →
      ∃ o, AVI_read_audio AVI AVI_errno n = some o ∧ cursor_ok (o.AVI.track o.AVI.aptr)) ∧
    (∀ audbuf, ∃ o, AVI_read_audio_chunk AVI AVI_errno audbuf = some o ∧
      cursor_ok (o.AVI.track o.AVI.aptr)) := by
  have hlen := tot_prefix_sums_length htot
  have hm : ¬ AVI.mode = AVI_MODE_WRITE := by
    rw [hmode]
    decide
  have hz : audio_len_sum audio_index 0 = 0 := by simp [audio_len_sum]
  have hmono := audio_len_sum_mono hlen hnn
  refine ⟨?_, ?_, ?_, ?_⟩
  · intro b hb
    obtain ⟨n, e, hn, he, hs, hle, hhi⟩ :=
      set_audio_position_eval AVI AVI_errno audio_index chunks b hmode hidx hchunks hone htot
    have hb2 : (if b < 0 then 0 else b) ≤ audio_len_sum audio_index chunks := by
      have := hmono chunks 0 (by omega) (le_refl _)
      split <;> omega
    obtain ⟨e', he', hte⟩ := tot_prefix_sums_get htot hn
    have hee : e' = e := Option.some.inj (he'.symm.trans he)
    subst hee
    have hsucc := audio_len_sum_succ audio_index n e' he
    have hup := le_audio_len_sum_succ htot hn hb2 hhi
    refine ⟨_, hs, ?_⟩
    show cursor_ok ((AVI.set_track AVI.aptr _).track AVI.aptr)
    rw [set_track_track]
    refine Or.inl ⟨audio_index, e', hidx, ?_, ?_, ?_, ?_, ?_⟩
    · show (0 : Int) ≤ (n : Int)
      omega
    · show (n : Int) < (AVI.track AVI.aptr).audio_chunks
      omega
    · show at_index audio_index (n : Int) = _
      rw [at_index_natCast]
      exact he
    · show 0 ≤ (if b < 0 then 0 else b) - e'.tot
      omega
    · show (if b < 0 then 0 else b) - e'.tot ≤ e'.len
      omega
  · intro i hi
    unfold AVI_set_audio_position_index
    rw [if_neg hm, hidx]
    simp only []
    by_cases hgt : i > (AVI.track AVI.aptr).audio_chunks
    · rw [if_pos hgt]
      exact hcur
    · rw [if_neg hgt]
      show cursor_ok ((AVI.set_track AVI.aptr _).track AVI.aptr)
      rw [set_track_track]
      have hcast : i = ((i.toNat : Nat) : Int) := by omega
      rw [hcast]
      exact cursor_ok_advance _ audio_index chunks i.toNat hidx hchunks hlen hnn (by omega)
  · intro n hposc
    rcases hcur with ⟨ai, e, hai, hc0, _, hat, hp0, hp1⟩ | ⟨hend, _⟩
    · have hai2 : ai = audio_index := Option.some.inj (hai.symm.trans hidx)
      subst hai2
      have hcast : (AVI.track AVI.aptr).audio_posc
          = (((AVI.track AVI.aptr).audio_posc.toNat : Nat) : Int) := by omega
      have hc : (AVI.track AVI.aptr).audio_posc.toNat < chunks := by omega
      rw [hcast, at_index_natCast] at hat
      unfold AVI_read_audio
      rw [if_neg hm, hai]
      simp only []
      by_cases h0 : n = 0
      · simp only [if_pos h0]
        rw [AVI_read_audio_loop, dif_neg (show ¬ n > 0 by omega)]
        refine ⟨_, rfl, ?_⟩
        show cursor_ok ((avi_t.set_track _ AVI.aptr _).track AVI.aptr)
        rw [set_track_track]
        have hcast2 : (AVI.track AVI.aptr).audio_posc + 1
            = ((((AVI.track AVI.aptr).audio_posc.toNat + 1 : Nat)) : Int) := by omega
        simp only [hcast2]
        exact cursor_ok_advance _ ai chunks _ hai hchunks hlen hnn (by omega)
      · simp only [if_neg h0]
        obtain ⟨x, c2, e2, hx, hpc, hc2, he2, hx0, hx1⟩ :=
          read_audio_loop_valid ai chunks hlen hnn AVI_errno _ AVI.fdes
            (AVI.track AVI.aptr).audio_posc.toNat e (AVI.track AVI.aptr).audio_posb n 0 []
            (le_refl _) hc hat hp0 hp1
        rw [← hcast, ← hchunks] at hx
        rw [hx]
        refine ⟨_, rfl, ?_⟩
        show cursor_ok ((avi_t.set_track _ AVI.aptr _).track AVI.aptr)
        rw [set_track_track]
        refine Or.inl ⟨ai, e2, hai, ?_, ?_, ?_, hx0, hx1⟩
        · show 0 ≤ x.audio_posc
          omega
        · show x.audio_posc < (AVI.track AVI.aptr).audio_chunks
          omega
        · show at_index ai x.audio_posc = _
          rw [hpc, at_index_natCast]
          exact he2
    · omega
  · intro audbuf
    unfold AVI_read_audio_chunk
    rw [if_neg hm, hidx]
    simp only []
    rcases hcur with ⟨ai, e, hai, hc0, hc1, hat, hp0, hp1⟩ | ⟨hend, hb⟩
    · have hai2 : ai = audio_index := Option.some.inj (hai.symm.trans hidx)
      subst hai2
      have hstep : cursor_ok { AVI.track AVI.aptr with
          audio_posc := (AVI.track AVI.aptr).audio_posc + 1, audio_posb := 0 } := by
        have hcast2 : (AVI.track AVI.aptr).audio_posc + 1
            = ((((AVI.track AVI.aptr).audio_posc.toNat + 1 : Nat)) : Int) := by omega
        rw [hcast2]
        exact cursor_ok_advance _ ai chunks _ hai hchunks hlen hnn (by omega)
      have hkeep : cursor_ok (AVI.track AVI.aptr) :=
        Or.inl ⟨ai, e, hai, hc0, hc1, hat, hp0, hp1⟩
      rw [if_neg (by omega), hat]
      simp only []
      by_cases hnull : audbuf = caller_buffer.NULL
      · rw [if_pos hnull]
        exact ⟨_, rfl, hkeep⟩
      · rw [if_neg hnull]
        by_cases hl : e.len - (AVI.track AVI.aptr).audio_posb = 0
        · rw [if_pos hl]
          refine ⟨_, rfl, ?_⟩
          show cursor_ok ((avi_t.set_track _ AVI.aptr _).track AVI.aptr)
          rw [set_track_track]
          exact hstep
        · rw [if_neg hl]
          split
          · exact ⟨_, rfl, hkeep⟩
          · refine ⟨_, rfl, ?_⟩
            show cursor_ok ((avi_t.set_track _ AVI.aptr _).track AVI.aptr)
            rw [set_track_track]
            exact hstep
    · rw [if_pos (by omega)]
      exact ⟨_, rfl, Or.inr ⟨hend, hb⟩⟩

/-- C5 (amended), at the demo handle, whose cursor stands at the start of the
first chunk. -/
theorem audio_cursor_preserved_witness :
    (∀ b, b ≤ audio_len_sum demo_audio_index 2 →
      ∃ o, AVI_set_audio_position demo_avi 0 b = some o ∧
        cursor_ok (o.AVI.track o.AVI.aptr)) ∧
    (∀ i, 0 ≤ i →
      cursor_ok ((AVI_set_audio_position_index demo_avi 0 i).AVI.track
        (AVI_set_audio_position_index demo_avi 0 i).AVI.aptr)) ∧
    (∀ n, (demo_avi.track demo_avi.aptr).audio_posc < (2 : Nat) →
      ∃ o, AVI_read_audio demo_avi 0 n = some o ∧ cursor_ok (o.AVI.track o.AVI.aptr)) ∧
    (∀ audbuf, ∃ o, AVI_read_audio_chunk demo_avi 0 audbuf = some o ∧
      cursor_ok (o.AVI.track o.AVI.aptr)) :=
  audio_cursor_preserved demo_avi 0 demo_audio_index 2 rfl rfl rfl (by decide) (by decide)
    (by decide)
    (Or.inl ⟨demo_audio_index, { pos := 4, len := 3, tot := 0 }, rfl, by decide, by decide,
      by decide, by decide, by decide⟩)

/-- C5 as stated fails at the end of the stream: on a handle whose index holds
exactly its two chunks and whose cursor `(1, 0)` satisfies the invariant,
`AVI_read_audio_chunk` reads the last chunk (2 bytes), returns 2 and leaves the
cursor at `(2, 0)`: chunk 2 does not exist, so `posb ≤ len[posc]` has no
meaning there. -/
theorem audio_cursor_leaves_the_chunks :
    cursor_on_chunk (demo_exact_avi.track demo_exact_avi.aptr) ∧
    ∃ o, AVI_read_audio_chunk demo_exact_avi 0 caller_buffer.storage = some o ∧
      o.ret = 2 ∧ o.buf = [9, 10] ∧
      (o.AVI.track o.AVI.aptr).audio_posc = 2 ∧ (o.AVI.track o.AVI.aptr).audio_posb = 0 ∧
      (o.AVI.track o.AVI.aptr).audio_index = some demo_exact_index ∧
      ¬ cursor_on_chunk (o.AVI.track o.AVI.aptr) := by
  refine ⟨⟨by decide, demo_exact_index, { pos := 9, len := 2, tot := 3 }, rfl, by decide,
    by decide⟩, ?_⟩
  have h : AVI_read_audio_chunk demo_exact_avi 0 caller_buffer.storage = some
      { ret := 2
        AVI := { demo_exact_avi with fdes := { data := demo_file.data, offset := 11 } }.set_track 0
          { demo_exact_avi.track 0 with audio_posc := 2, audio_posb := 0 }
        AVI_errno := 0
        buf := [9, 10] } := by
    simp [AVI_read_audio_chunk, demo_exact_avi, demo_avi, demo_exact_index, demo_file,
      AVI_MODE_READ, AVI_MODE_WRITE, at_index, plat_read, plat_seek_set]
  refine ⟨_, h, rfl, rfl, ?_, ?_, ?_, ?_⟩
  · simp [avi_t.set_track, demo_exact_avi, demo_avi]
  · simp [avi_t.set_track, demo_exact_avi, demo_avi]
  · simp [avi_t.set_track, demo_exact_avi, demo_avi]
  · rintro ⟨_, ai, e, hai, hat, _⟩
    simp [avi_t.set_track, demo_exact_avi, demo_avi] at hai hat
    subst hai
    simp [at_index, demo_exact_index] at hat

/-- C7: when `video_pos ≥ video_frames`, `AVI_read_video` (any buffer, any
`bytes`) and `AVI_read_frame` return -1 and leave every field of the handle,
`video_pos` included, as it was; nothing is stored in the buffer or through
`keyframe`. -/
theorem AVI_read_video_past_end (AVI : avi_t) (AVI_errno : Int) (vidbuf : caller_buffer)
    (bytes : Int) (hpos : AVI.video_pos ≥ AVI.video_frames) :
    (∃ o, AVI_read_video AVI AVI_errno vidbuf bytes = some o ∧ o.ret = -1 ∧ o.AVI = AVI ∧
      o.AVI.video_pos = AVI.video_pos ∧ o.buf = [] ∧ o.keyframe = none) ∧
    (∃ o, AVI_read_frame AVI AVI_errno vidbuf = some o ∧ o.ret = -1 ∧ o.AVI = AVI ∧
      o.AVI.video_pos = AVI.video_pos ∧ o.buf = [] ∧ o.keyframe = none) := by
  have key : ∀ by2, ∃ o, AVI_read_video AVI AVI_errno vidbuf by2 = some o ∧ o.ret = -1 ∧
      o.AVI = AVI ∧ o.AVI.video_pos = AVI.video_pos ∧ o.buf = [] ∧ o.keyframe = none := by
    intro by2
    unfold AVI_read_video
    by_cases hm : AVI.mode = AVI_MODE_WRITE
    · rw [if_pos hm]
      exact ⟨_, rfl, rfl, rfl, rfl, rfl, rfl⟩
    · rw [if_neg hm]
      cases hv : AVI.video_index with
      | none => exact ⟨_, rfl, rfl, rfl, rfl, rfl, rfl⟩
      | some vi =>
        simp only []
        rw [if_pos (Or.inr hpos)]
        exact ⟨_, rfl, rfl, rfl, rfl, rfl, rfl⟩
  exact ⟨key bytes, key (-1)⟩

/-- C7, at the demo handle moved past its two frames. -/
theorem AVI_read_video_past_end_witness :
    (∃ o, AVI_read_video { demo_avi with video_pos := 2 } 0 caller_buffer.storage 100 = some o ∧
      o.ret = -1 ∧ o.AVI = { demo_avi with video_pos := 2 } ∧
      o.AVI.video_pos = ({ demo_avi with video_pos := 2 } : avi_t).video_pos ∧ o.buf = [] ∧
      o.keyframe = none) ∧
    (∃ o, AVI_read_frame { demo_avi with video_pos := 2 } 0 caller_buffer.storage = some o ∧
      o.ret = -1 ∧ o.AVI = { demo_avi with video_pos := 2 } ∧
      o.AVI.video_pos = ({ demo_avi with video_pos := 2 } : avi_t).video_pos ∧ o.buf = [] ∧
      o.keyframe = none) :=
  AVI_read_video_past_end { demo_avi with video_pos := 2 } 0 caller_buffer.storage 100
    (by decide)

/-- C8: on a read-mode handle with a video index, `AVI_set_video_position(frame)`
returns 0 and sets `video_pos` to `max(frame, 0)`, changing nothing else.  If
`frame ≥ video_frames` the next `AVI_read_frame` returns -1.  If
`0 ≤ frame < video_frames` the next `AVI_read_frame` reports `keyframe = 1`
exactly when the `key` field of frame `frame` is `0x10`; when it succeeds (null
buffer, or the platform read delivers `len` bytes) it returns `len` of that
frame and advances `video_pos` by one, otherwise it returns -1 with the read
error and does not advance; it does succeed, storing the payload, when the
frame lies in the file. -/
theorem AVI_set_video_position_then_read_frame (AVI : avi_t) (AVI_errno : Int)
    (video_index : List video_index_entry) (frame : Int) (vidbuf : caller_buffer)
    (hmode : AVI.mode = AVI_MODE_READ) (hvi : AVI.video_index = some video_index)
    (hwf : AVI.video_frames ≤ video_index.length) :
    (AVI_set_video_position AVI AVI_errno frame).ret = 0 ∧
    (AVI_set_video_position AVI AVI_errno frame).AVI = { AVI with video_pos := max frame 0 } ∧
    (AVI_set_video_position AVI AVI_errno frame).AVI_errno = AVI_errno ∧
    (frame ≥ AVI.video_frames →
      ∃ o, AVI_read_frame { AVI with video_pos := max frame 0 } AVI_errno vidbuf = some o ∧
        o.ret = -1 ∧ o.AVI = { AVI with video_pos := max frame 0 }) ∧
    (0 ≤ frame → frame < AVI.video_frames →
      ∃ e o, at_index video_index frame = some e ∧
        AVI_read_frame { AVI with video_pos := max frame 0 } AVI_errno vidbuf = some o ∧
        o.keyframe = some (if e.key = 0x10 then 1 else 0) ∧
        ((vidbuf = caller_buffer.NULL ∨
            (plat_read (plat_seek_set AVI.fdes e.pos).2 e.len).1 = e.len) →
          o.ret = e.len ∧ o.AVI.video_pos = frame + 1 ∧ o.AVI_errno = AVI_errno) ∧
        (¬ (vidbuf = caller_buffer.NULL ∨
            (plat_read (plat_seek_set AVI.fdes e.pos).2 e.len).1 = e.len) →
          o.ret = -1 ∧ o.AVI.video_pos = frame ∧ o.AVI_errno = AVI_ERR_READ) ∧
        (0 ≤ e.pos → 0 ≤ e.len → e.pos + e.len ≤ (AVI.fdes.data.length : Int) →
          o.ret = e.len ∧ o.AVI.video_pos = frame + 1 ∧
          (vidbuf = caller_buffer.storage →
            o.buf = (AVI.fdes.data.drop e.pos.toNat).take e.len.toNat))) := by
  have hm : ¬ AVI.mode = AVI_MODE_WRITE := by
    rw [hmode]
    decide
  have hmax : (if frame < 0 then 0 else frame) = max frame 0 := by
    split <;> omega
  have hset : AVI_set_video_position AVI AVI_errno frame
      = { ret := 0, AVI := { AVI with video_pos := max frame 0 }, AVI_errno := AVI_errno } := by
    unfold AVI_set_video_position
    rw [if_neg hm, hvi]
    simp only [hmax]
  rw [hset]
  refine ⟨rfl, rfl, rfl, ?_, ?_⟩
  · intro hge
    unfold AVI_read_frame AVI_read_video
    simp only []
    rw [if_neg hm, hvi]
    simp only []
    rw [if_pos (Or.inr (by omega))]
    exact ⟨_, rfl, rfl, rfl⟩
  · intro h0 h1
    have hf : max frame 0 = frame := by omega
    have hlt : frame.toNat < video_index.length := by omega
    have hat : at_index video_index frame = some video_index[frame.toNat] := by
      unfold at_index
      rw [if_pos h0]
      exact List.getElem?_eq_getElem hlt
    generalize video_index[frame.toNat] = e at hat
    suffices main : ∃ o,
        AVI_read_frame { AVI with video_pos := max frame 0 } AVI_errno vidbuf = some o ∧
        o.keyframe = some (if e.key = 0x10 then 1 else 0) ∧
        ((vidbuf = caller_buffer.NULL ∨
            (plat_read (plat_seek_set AVI.fdes e.pos).2 e.len).1 = e.len) →
          o.ret = e.len ∧ o.AVI.video_pos = frame + 1 ∧ o.AVI_errno = AVI_errno) ∧
        (¬ (vidbuf = caller_buffer.NULL ∨
            (plat_read (plat_seek_set AVI.fdes e.pos).2 e.len).1 = e.len) →
          o.ret = -1 ∧ o.AVI.video_pos = frame ∧ o.AVI_errno = AVI_ERR_READ) ∧
        (0 ≤ e.pos → 0 ≤ e.len → e.pos + e.len ≤ (AVI.fdes.data.length : Int) →
          o.ret = e.len ∧ o.AVI.video_pos = frame + 1 ∧
          (vidbuf = caller_buffer.storage →
            o.buf = (AVI.fdes.data.drop e.pos.toNat).take e.len.toNat)) by
      obtain ⟨o, h⟩ := main
      exact ⟨e, o, hat, h⟩
    unfold AVI_read_frame AVI_read_video
    simp only []
    rw [if_neg hm, hvi]
    simp only [hf]
    rw [if_neg (by omega), hat]
    simp only []
    rw [if_neg (by omega)]
    by_cases hnull : vidbuf = caller_buffer.NULL
    · rw [if_pos hnull]
      refine ⟨_, rfl, rfl, fun _ => ⟨rfl, rfl, rfl⟩, fun h => absurd (Or.inl hnull) h,
        fun _ _ _ => ⟨rfl, rfl, fun h => ?_⟩⟩
      rw [hnull] at h
      cases h
    · rw [if_neg hnull]
      by_cases hr : (plat_read (plat_seek_set AVI.fdes e.pos).2 e.len).1 ≠ e.len
      · rw [if_pos hr]
        refine ⟨_, rfl, rfl, ?_, fun _ => ⟨rfl, rfl, rfl⟩, ?_⟩
        · rintro (h | h)
          · exact absurd h hnull
          · exact absurd h hr
        · intro hp hl hfit
          exfalso
          apply hr
          have := plat_read_exact AVI.fdes.data AVI.fdes.offset AVI.fdes.limit e.pos e.len hp hl hfit
          rw [show ({ data := AVI.fdes.data, offset := AVI.fdes.offset, limit := AVI.fdes.limit } : plat_file)
            = AVI.fdes from rfl] at this
          rw [this]
      · rw [if_neg hr]
        refine ⟨_, rfl, rfl, fun _ => ⟨rfl, rfl, rfl⟩, ?_, ?_⟩
        · intro h
          exact absurd (Or.inr (not_not.mp hr)) h
        · intro hp hl hfit
          refine ⟨rfl, rfl, fun _ => ?_⟩
          have := plat_read_exact AVI.fdes.data AVI.fdes.offset AVI.fdes.limit e.pos e.len hp hl hfit
          rw [show ({ data := AVI.fdes.data, offset := AVI.fdes.offset, limit := AVI.fdes.limit } : plat_file)
            = AVI.fdes from rfl] at this
          show (plat_read (plat_seek_set AVI.fdes e.pos).2 e.len).2.1 = _
          rw [this]

/-- C8, at the demo handle: seek to frame 1 and read it into a buffer. -/
theorem AVI_set_video_position_then_read_frame_witness :
    (AVI_set_video_position demo_avi 0 1).ret = 0 ∧
    (AVI_set_video_position demo_avi 0 1).AVI = { demo_avi with video_pos := max 1 0 } ∧
    (AVI_set_video_position demo_avi 0 1).AVI_errno = 0 ∧
    ((1 : Int) ≥ demo_avi.video_frames →
      ∃ o, AVI_read_frame { demo_avi with video_pos := max 1 0 } 0 caller_buffer.storage
          = some o ∧
        o.ret = -1 ∧ o.AVI = { demo_avi with video_pos := max 1 0 }) ∧
    ((0 : Int) ≤ 1 → (1 : Int) < demo_avi.video_frames →
      ∃ e o, at_index demo_video_index 1 = some e ∧
        AVI_read_frame { demo_avi with video_pos := max 1 0 } 0 caller_buffer.storage
          = some o ∧
        o.keyframe = some (if e.key = 0x10 then 1 else 0) ∧
        ((caller_buffer.storage = caller_buffer.NULL ∨
            (plat_read (plat_seek_set demo_avi.fdes e.pos).2 e.len).1 = e.len) →
          o.ret = e.len ∧ o.AVI.video_pos = 1 + 1 ∧ o.AVI_errno = 0) ∧
        (¬ (caller_buffer.storage = caller_buffer.NULL ∨
            (plat_read (plat_seek_set demo_avi.fdes e.pos).2 e.len).1 = e.len) →
          o.ret = -1 ∧ o.AVI.video_pos = 1 ∧ o.AVI_errno = AVI_ERR_READ) ∧
        (0 ≤ e.pos → 0 ≤ e.len → e.pos + e.len ≤ (demo_avi.fdes.data.length : Int) →
          o.ret = e.len ∧ o.AVI.video_pos = 1 + 1 ∧
          (caller_buffer.storage = caller_buffer.storage →
            o.buf = (demo_avi.fdes.data.drop e.pos.toNat).take e.len.toNat))) :=
  AVI_set_video_position_then_read_frame demo_avi 0 demo_video_index 1 caller_buffer.storage
    rfl rfl (by decide)

/-- C9: on a read-mode handle with an audio index, `AVI_read_audio_chunk`
returns -1 and changes nothing when `posc ≥ audio_chunks`.  Otherwise, with a
null buffer it returns `len[posc] - posb` and leaves the handle (and
`AVI_errno`) unchanged; with a buffer and a successful read (nothing left to
read, or the platform delivers all `len[posc] - posb` bytes) it returns the
same remainder, moves the cursor to `(posc + 1, 0)` and changes no other field
of the track; the read does succeed, storing the rest of the chunk, when those
bytes lie in the file. -/
theorem AVI_read_audio_chunk_remainder (AVI : avi_t) (AVI_errno : Int)
    (audio_index : List audio_index_entry)
    (hmode : AVI.mode = AVI_MODE_READ)
    (hidx : (AVI.track AVI.aptr).audio_index = some audio_index) :
    ((AVI.track AVI.aptr).audio_posc ≥ (AVI.track AVI.aptr).audio_chunks →
      ∀ audbuf, AVI_read_audio_chunk AVI AVI_errno audbuf
        = some { ret := -1, AVI := AVI, AVI_errno := AVI_errno }) ∧
    ((AVI.track AVI.aptr).audio_posc < (AVI.track AVI.aptr).audio_chunks →
      ∀ e, at_index audio_index (AVI.track AVI.aptr).audio_posc = some e →
        AVI_read_audio_chunk AVI AVI_errno caller_buffer.NULL
          = some { ret := e.len - (AVI.track AVI.aptr).audio_posb
                   AVI := AVI, AVI_errno := AVI_errno } ∧
        ((e.len - (AVI.track AVI.aptr).audio_posb = 0 ∨
            (plat_read (plat_seek_set AVI.fdes (e.pos + (AVI.track AVI.aptr).audio_posb)).2
              (e.len - (AVI.track AVI.aptr).audio_posb)).1
              = e.len - (AVI.track AVI.aptr).audio_posb) →
          ∃ o, AVI_read_audio_chunk AVI AVI_errno caller_buffer.storage = some o ∧
            o.ret = e.len - (AVI.track AVI.aptr).audio_posb ∧
            o.AVI_errno = AVI_errno ∧
            o.AVI.aptr = AVI.aptr ∧
            o.AVI.track AVI.aptr = { AVI.track AVI.aptr with
              audio_posc := (AVI.track AVI.aptr).audio_posc + 1, audio_posb := 0 }) ∧
        (0 ≤ e.pos + (AVI.track AVI.aptr).audio_posb →
          0 < e.len - (AVI.track AVI.aptr).audio_posb →
          e.pos + e.len ≤ (AVI.fdes.data.length : Int) →
          ∃ o, AVI_read_audio_chunk AVI AVI_errno caller_buffer.storage = some o ∧
            o.ret = e.len - (AVI.track AVI.aptr).audio_posb ∧
            o.buf = (AVI.fdes.data.drop (e.pos + (AVI.track AVI.aptr).audio_posb).toNat).take
              (e.len - (AVI.track AVI.aptr).audio_posb).toNat)) := by
  have hm : ¬ AVI.mode = AVI_MODE_WRITE := by
    rw [hmode]
    decide
  refine ⟨?_, ?_⟩
  · intro hge audbuf
    unfold AVI_read_audio_chunk
    rw [if_neg hm, hidx]
    simp only []
    rw [if_pos (by omega)]
  · intro hlt e hat
    have hstore : ∀ (hok : e.len - (AVI.track AVI.aptr).audio_posb = 0 ∨
        (plat_read (plat_seek_set AVI.fdes (e.pos + (AVI.track AVI.aptr).audio_posb)).2
          (e.len - (AVI.track AVI.aptr).audio_posb)).1
          = e.len - (AVI.track AVI.aptr).audio_posb),
        ∃ o, AVI_read_audio_chunk AVI AVI_errno caller_buffer.storage = some o ∧
          o.ret = e.len - (AVI.track AVI.aptr).audio_posb ∧
          o.AVI_errno = AVI_errno ∧
          o.AVI.aptr = AVI.aptr ∧
          o.AVI.track AVI.aptr = { AVI.track AVI.aptr with
            audio_posc := (AVI.track AVI.aptr).audio_posc + 1, audio_posb := 0 } ∧
          (¬ e.len - (AVI.track AVI.aptr).audio_posb = 0 →
            o.buf = (plat_read (plat_seek_set AVI.fdes
              (e.pos + (AVI.track AVI.aptr).audio_posb)).2
              (e.len - (AVI.track AVI.aptr).audio_posb)).2.1) := by
      intro hok
      unfold AVI_read_audio_chunk
      rw [if_neg hm, hidx]
      simp only []
      rw [if_neg (by omega), hat]
      simp only []
      rw [if_neg (by decide)]
      by_cases hl : e.len - (AVI.track AVI.aptr).audio_posb = 0
      · rw [if_pos hl]
        refine ⟨_, rfl, hl.symm, rfl, rfl, ?_, fun h => absurd hl h⟩
        show (avi_t.set_track _ AVI.aptr _).track AVI.aptr = _
        rw [set_track_track]
      · rw [if_neg hl]
        have hr : ¬ (plat_read (plat_seek_set AVI.fdes
            (e.pos + (AVI.track AVI.aptr).audio_posb)).2
            (e.len - (AVI.track AVI.aptr).audio_posb)).1
            ≠ e.len - (AVI.track AVI.aptr).audio_posb := by
          rcases hok with h | h
          · exact absurd h hl
          · exact not_not.mpr h
        rw [if_neg hr]
        refine ⟨_, rfl, rfl, rfl, rfl, ?_, fun _ => rfl⟩
        show (avi_t.set_track _ AVI.aptr _).track AVI.aptr = _
        rw [set_track_track]
    refine ⟨?_, ?_, ?_⟩
    · unfold AVI_read_audio_chunk
      rw [if_neg hm, hidx]
      simp only []
      rw [if_neg (by omega), hat]
      simp only []
      rw [if_pos trivial]
    · intro hok
      obtain ⟨o, h1, h2, h3, h4, h5, _⟩ := hstore hok
      exact ⟨o, h1, h2, h3, h4, h5⟩
    · intro hp hl hfit
      have hrd := plat_read_exact AVI.fdes.data AVI.fdes.offset AVI.fdes.limit
        (e.pos + (AVI.track AVI.aptr).audio_posb) (e.len - (AVI.track AVI.aptr).audio_posb)
        hp (by omega) (by omega)
      rw [show ({ data := AVI.fdes.data, offset := AVI.fdes.offset, limit := AVI.fdes.limit } : plat_file)
        = AVI.fdes from rfl] at hrd
      obtain ⟨o, h1, h2, _, _, _, h6⟩ := hstore (Or.inr (by rw [hrd]))
      refine ⟨o, h1, h2, ?_⟩
      rw [h6 (by omega), hrd]

/-- C9, at the demo handle with the cursor one byte into the first chunk. -/
theorem AVI_read_audio_chunk_remainder_witness :
    ((demo_avi.set_track 0 { demo_avi.track 0 with audio_posb := 1 }).track 0).audio_posb = 1 ∧
    ∃ o, AVI_read_audio_chunk (demo_avi.set_track 0 { demo_avi.track 0 with audio_posb := 1 }) 0
        caller_buffer.storage = some o ∧
      o.ret = 3 - 1 ∧ o.buf = [5, 6] :=
  ⟨by simp [avi_t.set_track], by
    obtain ⟨o, h1, h2, h3⟩ :=
      (((AVI_read_audio_chunk_remainder
        (demo_avi.set_track 0 { demo_avi.track 0 with audio_posb := 1 }) 0 demo_audio_index
        rfl (by simp [avi_t.set_track, demo_avi])).2
        (by simp [avi_t.set_track, demo_avi])
        { pos := 4, len := 3, tot := 0 }
        (by simp [avi_t.set_track, demo_avi, demo_audio_index, at_index])).2.2
        (by simp [avi_t.set_track, demo_avi])
        (by simp [avi_t.set_track, demo_avi])
        (by simp [avi_t.set_track, demo_avi, demo_file]))
    refine ⟨o, h1, ?_, ?_⟩
    · rw [h2]
      simp [avi_t.set_track, demo_avi]
    · rw [h3]
      simp [avi_t.set_track, demo_avi, demo_file]⟩

/-- C10 (amended): on a read-mode handle with video and audio indices,
`AVI_can_read_audio` returns 0 when no audio chunk is left
(`posc ≥ audio_chunks`); otherwise it returns 1 when no frame is left
(`video_pos ≥ video_frames`); otherwise, both cursors standing on entries of
their indices, it returns 1 if the file offset of the next audio chunk is
smaller than that of the next frame and 0 if not. -/
theorem AVI_can_read_audio_cases (AVI : avi_t)
    (video_index : List video_index_entry) (audio_index : List audio_index_entry)
    (hmode : AVI.mode = AVI_MODE_READ) (hvi : AVI.video_index = some video_index)
    (hidx : (AVI.track AVI.aptr).audio_index = some audio_index) :
    ((AVI.track AVI.aptr).audio_posc ≥ (AVI.track AVI.aptr).audio_chunks →
      AVI_can_read_audio AVI = some 0) ∧
    ((AVI.track AVI.aptr).audio_posc < (AVI.track AVI.aptr).audio_chunks →
      AVI.video_pos ≥ AVI.video_frames → AVI_can_read_audio AVI = some 1) ∧
    ((AVI.track AVI.aptr).audio_posc < (AVI.track AVI.aptr).audio_chunks →
      AVI.video_pos < AVI.video_frames →
      ∀ a v, at_index audio_index (AVI.track AVI.aptr).audio_posc = some a →
        at_index video_index AVI.video_pos = some v →
        AVI_can_read_audio AVI = some (if a.pos < v.pos then 1 else 0) ∧
        (AVI_can_read_audio AVI = some 1 ↔ a.pos < v.pos)) := by
  have hm : ¬ AVI.mode = AVI_MODE_WRITE := by
    rw [hmode]
    decide
  refine ⟨?_, ?_, ?_⟩
  · intro h
    unfold AVI_can_read_audio
    rw [if_neg hm, hvi, hidx]
    simp only []
    rw [if_pos h]
  · intro h1 h2
    unfold AVI_can_read_audio
    rw [if_neg hm, hvi, hidx]
    simp only []
    rw [if_neg (by omega), if_pos h2]
  · intro h1 h2 a v ha hv
    have hval : AVI_can_read_audio AVI = some (if a.pos < v.pos then 1 else 0) := by
      unfold AVI_can_read_audio
      rw [if_neg hm, hvi, hidx]
      simp only []
      rw [if_neg (by omega), if_neg (by omega), ha, hv]
      simp only []
      split <;> rfl
    refine ⟨hval, ?_⟩
    rw [hval]
    by_cases hlt : a.pos < v.pos
    · simp [hlt]
    · simp [hlt]

/-- C10 (amended), at the demo handle: the first audio chunk starts at offset 4,
the first frame at offset 1. -/
theorem AVI_can_read_audio_cases_witness :
    AVI_can_read_audio demo_avi = some (if (4 : Int) < 1 then 1 else 0) ∧
    (AVI_can_read_audio demo_avi = some 1 ↔ (4 : Int) < 1) :=
  (AVI_can_read_audio_cases demo_avi demo_video_index demo_audio_index rfl rfl rfl).2.2
    (by decide) (by decide) { pos := 4, len := 3, tot := 0 } { key := 0x10, pos := 1, len := 2 }
    (by decide) (by decide)

/-- C10 as stated fails at the ends of the streams.  With the audio cursor at
`posc = audio_chunks = 2` of an index allocated by the legacy path (entry 2 is
the zeroed spare entry, `pos = 0`) and the video cursor on frame 0 (`pos = 1`),
`audio_index[posc].pos < video_index[video_pos].pos` holds but the function
returns 0.  With the audio cursor on chunk 0 and `video_pos = video_frames = 2`
there is no next frame to compare with, yet the function returns 1. -/
theorem AVI_can_read_audio_at_stream_ends :
    (∃ a v, at_index demo_audio_index 2 = some a ∧ at_index demo_video_index 0 = some v ∧
      a.pos < v.pos) ∧
    AVI_can_read_audio
      (demo_avi.set_track 0 { demo_avi.track 0 with audio_posc := 2 }) = some 0 ∧
    at_index demo_video_index 2 = none ∧
    AVI_can_read_audio { demo_avi with video_pos := 2 } = some 1 := by
  refine ⟨⟨{}, { key := 0x10, pos := 1, len := 2 }, by decide, by decide, by decide⟩, ?_,
    by decide, ?_⟩
  · simp [AVI_can_read_audio, avi_t.set_track, demo_avi, AVI_MODE_READ, AVI_MODE_WRITE]
  · simp [AVI_can_read_audio, demo_avi, AVI_MODE_READ, AVI_MODE_WRITE]



theorem audio_len_sum_congr {a b : List audio_index_entry} {n : Nat}
    (h : a.take n = b.take n) {c : Nat} (hc : c ≤ n) : audio_len_sum a c = audio_len_sum b c := by
  unfold audio_len_sum
  have h1 : a.take c = (a.take n).take c := by rw [List.take_take, Nat.min_eq_left hc]
  have h2 : b.take c = (b.take n).take c := by rw [List.take_take, Nat.min_eq_left hc]
  rw [h1, h2, h]

theorem getElem?_congr_take {a b : List audio_index_entry} {n : Nat}
    (h : a.take n = b.take n) {c : Nat} (hc : c < n) : a[c]? = b[c]? := by
  have h1 : (a.take n)[c]? = a[c]? := by rw [List.getElem?_take, if_pos hc]
  have h2 : (b.take n)[c]? = b[c]? := by rw [List.getElem?_take, if_pos hc]
  rw [← h1, ← h2, h]

theorem tot_prefix_sums_congr {a b : List audio_index_entry} {n : Nat}
    (h : a.take n = b.take n) (ha : tot_prefix_sums a n) : tot_prefix_sums b n := by
  intro c hc
  rw [← getElem?_congr_take h hc, ← audio_len_sum_congr h (Nat.le_of_lt hc)]
  exact ha c hc

theorem tot_prefix_sums_succ {a : List audio_index_entry} {n : Nat} {e : audio_index_entry}
    (ha : tot_prefix_sums a n) (he : a[n]? = some e) (ht : e.tot = audio_len_sum a n) :
    tot_prefix_sums a (n + 1) := by
  intro c hc
  rcases Nat.lt_or_ge c n with h | h
  · exact ha c h
  · have : c = n := by omega
    subst this
    rw [he]
    simp [ht]

theorem take_set_self {α : Type} (l : List α) (n : Nat) (x : α) :
    (l.set n x).take n = l.take n := by
  rw [List.set_eq_take_append_cons_drop]
  split
  · rw [List.take_append_of_le_length (by rw [List.length_take]; omega), List.take_take,
      Nat.min_self]
  · rfl

theorem audio_build_add_ok {s s2 : audio_build} {pos len : Int} (hs : s.ok)
    (h : s.add pos len = some s2) : s2.ok ∧ s2.nai = s.nai + 1 := by
  unfold audio_build.add store_at at h
  by_cases hlt : s.nai < s.audio_index.length
  · rw [if_pos hlt] at h
    simp only [] at h
    have h2 := Option.some.inj h
    subst h2
    have htake := take_set_self s.audio_index s.nai { pos := pos, len := len, tot := s.tot }
    have hget : (s.audio_index.set s.nai { pos := pos, len := len, tot := s.tot })[s.nai]?
        = some { pos := pos, len := len, tot := s.tot } := by
      rw [List.getElem?_set, if_pos rfl, if_pos hlt]
    have hsum := audio_len_sum_congr htake (le_refl s.nai)
    refine ⟨⟨?_, ?_⟩, rfl⟩
    · refine tot_prefix_sums_succ (tot_prefix_sums_congr htake.symm hs.1) hget ?_
      show s.tot = _
      rw [hsum]
      exact hs.2
    · show s.tot + len = _
      rw [audio_len_sum_succ _ _ _ hget, hsum, hs.2]
  · rw [if_neg hlt] at h
    cases h

theorem realloc_entries_take (a : List audio_index_entry) (n k : Nat) (hk : k ≤ n)
    (hka : k ≤ a.length) : (realloc_entries a n).take k = a.take k := by
  unfold realloc_entries
  rw [List.take_append_of_le_length (by rw [List.length_take]; omega), List.take_take,
    Nat.min_eq_left hk]

theorem audio_build_realloc_ok {s : audio_build} (hs : s.ok) (n : Nat) (hn : s.nai ≤ n) :
    audio_build.ok { s with audio_index := realloc_entries s.audio_index n } := by
  have hlen := tot_prefix_sums_length hs.1
  have htake := realloc_entries_take s.audio_index n s.nai hn hlen
  refine ⟨tot_prefix_sums_congr htake.symm hs.1, ?_⟩
  show s.tot = _
  rw [audio_len_sum_congr htake (le_refl _)]
  exact hs.2

theorem scan_grow_ok (tf : Int) (htf : 1 ≤ tf) (aud_chunks : Int) (a0 : audio_build)
    (hok : a0.ok) (hinv : (a0.nai : Int) ≤ aud_chunks) :
    (scan_grow tf aud_chunks a0).2.ok ∧
    (scan_grow tf aud_chunks a0).2.nai = a0.nai ∧
    ((scan_grow tf aud_chunks a0).2.nai : Int) + 1 ≤ (scan_grow tf aud_chunks a0).1 := by
  unfold scan_grow
  split
  · refine ⟨audio_build_realloc_ok hok _ (by omega), rfl, ?_⟩
    show (a0.nai : Int) + 1 ≤ aud_chunks + tf
    omega
  · refine ⟨hok, rfl, ?_⟩
    show (a0.nai : Int) + 1 ≤ aud_chunks
    omega

/-- The raw scan keeps the builder of track 0 consistent. -/
theorem multiple_riff_loop_ok (tf : Int) (st : scan_state) :
    ∀ st2, multiple_riff_loop tf st = some st2 → st.a0.ok → (st.a0.nai : Int) ≤ st.aud_chunks →
      st2.a0.ok := by
  induction st using multiple_riff_loop.induct tf with
  | case1 x h1 =>
    intro st2 h hok _
    rw [multiple_riff_loop, if_pos h1] at h
    rw [← Option.some.inj h]
    exact hok
  | case2 x h1 h2 =>
    intro st2 h hok _
    rw [multiple_riff_loop, if_neg h1, dif_pos h2] at h
    rw [← Option.some.inj h]
    exact hok
  | case3 x h1 h2 h3 =>
    intro st2 h _ _
    rw [multiple_riff_loop, if_neg h1, dif_neg h2, h3] at h
    cases h
  | case4 x h1 h2 n h3 h4 h5 =>
    intro st2 h _ _
    rw [multiple_riff_loop, if_neg h1, dif_neg h2, h3] at h
    simp only [h4, if_true, h5] at h
    cases h
  | case5 x h1 h2 n h3 h4 v h5 ih =>
    intro st2 h hok hinv
    rw [multiple_riff_loop, if_neg h1, dif_neg h2, h3] at h
    simp only [h4, if_true, h5] at h
    have hg := scan_grow_ok tf (by omega) x.aud_chunks x.a0 hok hinv
    refine ih st2 h hg.1 ?_
    show ((scan_grow tf x.aud_chunks x.a0).2.nai : Int) ≤ (scan_grow tf x.aud_chunks x.a0).1
    omega
  | case6 x h1 h2 n h3 h4 h5 h6 =>
    intro st2 h _ _
    rw [multiple_riff_loop, if_neg h1, dif_neg h2, h3] at h
    simp only [h4, h5, if_true, h6] at h
    simp at h
  | case7 x h1 h2 n h3 h4 h5 a h6 ih =>
    intro st2 h hok hinv
    rw [multiple_riff_loop, if_neg h1, dif_neg h2, h3] at h
    simp only [h4, h5, if_true, h6] at h
    have hg := scan_grow_ok tf (by omega) x.aud_chunks x.a0 hok hinv
    have ha := audio_build_add_ok hg.1 h6
    refine ih st2 (by simpa using h) ha.1 ?_
    show (a.nai : Int) ≤ (scan_grow tf x.aud_chunks x.a0).1
    rw [ha.2]
    omega
  | case8 x h1 h2 n h3 h4 h5 ih =>
    intro st2 h hok hinv
    rw [multiple_riff_loop, if_neg h1, dif_neg h2, h3] at h
    simp only [h4, h5] at h
    have hg := scan_grow_ok tf (by omega) x.aud_chunks x.a0 hok hinv
    refine ih st2 (by simpa using h) hg.1 ?_
    show ((scan_grow tf x.aud_chunks x.a0).2.nai : Int) ≤ (scan_grow tf x.aud_chunks x.a0).1
    omega


theorem audio_build_ok_init (a : List audio_index_entry) :
    audio_build.ok { audio_index := a, nai := 0, tot := 0 } := by
  refine ⟨?_, ?_⟩
  · intro c hc
    exact absurd hc (Nat.not_lt_zero c)
  · simp [audio_len_sum]

set_option linter.unnecessarySeqFocus false in
theorem legacy_count_snd (vt : List UInt8) (tag : Nat → List UInt8) (anum : Nat) :
    ∀ (entries : List (List UInt8)) (c : Nat × (Nat → Nat)) (j : Nat),
      (legacy_count vt tag anum entries c).2 j
        = c.2 j + entries.countP (fun e => decide (j < anum) && strncasecmp_eq e (tag j) 4) := by
  intro entries
  induction entries with
  | nil =>
    intro c j
    simp [legacy_count]
  | cons e rest ih =>
    intro c j
    rw [legacy_count, ih, List.countP_cons]
    simp only []
    by_cases h1 : j < anum <;> by_cases h2 : strncasecmp_eq e (tag j) 4 = true <;>
      simp [h1, h2] <;> omega

theorem legacy_fill_audio_ok (tag : Nat → List UInt8) (entry : List UInt8) (ioff : Int) :
    ∀ (js : List Nat) (aud aud2 : Nat → audio_build),
      legacy_fill_audio tag entry ioff js aud = some aud2 → (∀ j, (aud j).ok) → js.Nodup →
      (∀ j, (aud2 j).ok) ∧
      ∀ j, (aud2 j).nai
        = (aud j).nai + (if j ∈ js ∧ strncasecmp_eq entry (tag j) 4 = true then 1 else 0) := by
  intro js
  induction js with
  | nil =>
    intro aud aud2 h hok _
    rw [legacy_fill_audio] at h
    rw [← Option.some.inj h]
    exact ⟨hok, fun j => by simp⟩
  | cons j0 js ih =>
    intro aud aud2 h hok hnd
    have hnd2 := (List.nodup_cons.mp hnd)
    rw [legacy_fill_audio] at h
    by_cases hm : strncasecmp_eq entry (tag j0) 4 = true
    · rw [if_pos hm] at h
      cases hp : str2ulong (entry.drop 8) with
      | none => rw [hp] at h; cases h
      | some pos =>
        cases hl : str2ulong (entry.drop 12) with
        | none => rw [hp, hl] at h; cases h
        | some len =>
          rw [hp, hl] at h
          simp only [] at h
          cases ha : (aud j0).add ((pos : Int) + ioff) (len : Int) with
          | none => rw [ha] at h; cases h
          | some s =>
            rw [ha] at h
            simp only [] at h
            have hs := audio_build_add_ok (hok j0) ha
            have hok2 : ∀ j, (Function.update aud j0 s j).ok := by
              intro j
              by_cases hj : j = j0
              · subst hj
                rw [Function.update_same]
                exact hs.1
              · rw [Function.update_noteq hj]
                exact hok j
            obtain ⟨r1, r2⟩ := ih _ _ h hok2 hnd2.2
            refine ⟨r1, fun j => ?_⟩
            rw [r2 j]
            by_cases hj : j = j0
            · subst hj
              rw [Function.update_same, hs.2]
              simp [hnd2.1, hm]
            · rw [Function.update_noteq hj]
              simp [hj]
    · rw [if_neg hm] at h
      obtain ⟨r1, r2⟩ := ih _ _ h hok hnd2.2
      refine ⟨r1, fun j => ?_⟩
      rw [r2 j]
      by_cases hj : j = j0
      · subst hj
        simp [hm]
      · simp [hj]

set_option linter.unnecessarySeqFocus false in
theorem legacy_fill_loop_ok (vt : List UInt8) (tag : Nat → List UInt8) (anum : Nat)
    (ioff : Int) :
    ∀ (entries : List (List UInt8)) (st st2 : legacy_fill),
      legacy_fill_loop vt tag anum ioff entries st = some st2 → (∀ j, (st.aud j).ok) →
      (∀ j, (st2.aud j).ok) ∧
      ∀ j, (st2.aud j).nai = (st.aud j).nai
        + entries.countP (fun e => decide (j < anum) && strncasecmp_eq e (tag j) 4) := by
  intro entries
  induction entries with
  | nil =>
    intro st st2 h hok
    rw [legacy_fill_loop] at h
    rw [← Option.some.inj h]
    exact ⟨hok, fun j => by simp⟩
  | cons e rest ih =>
    intro st st2 h hok
    rw [legacy_fill_loop] at h
    cases hv : legacy_fill_video vt e ioff st with
    | none => rw [hv] at h; cases h
    | some v =>
      rw [hv] at h
      simp only [] at h
      cases ha : legacy_fill_audio tag e ioff (List.range anum) st.aud with
      | none => rw [ha] at h; cases h
      | some aud =>
        rw [ha] at h
        simp only [] at h
        obtain ⟨a1, a2⟩ := legacy_fill_audio_ok tag e ioff _ _ _ ha hok (List.nodup_range anum)
        obtain ⟨r1, r2⟩ := ih _ _ h a1
        refine ⟨r1, fun j => ?_⟩
        rw [r2 j]
        show (aud j).nai + _ = _
        rw [a2 j, List.countP_cons]
        by_cases h1 : j < anum <;> by_cases h2 : strncasecmp_eq e (tag j) 4 = true <;>
          simp [h1, h2, List.mem_range] <;> omega

theorem sidecar_count_snd :
    ∀ (lines : List index_line) (c : Nat × (Nat → Nat)) (j : Nat),
      (sidecar_count lines c).2 j
        = c.2 j + lines.countP (fun l => decide (1 ≤ (l.data5.toNat : Int) - 49 ∧
            (l.data5.toNat : Int) - 49 ≤ 8 ∧ ((l.data5.toNat : Int) - 49 - 1).toNat = j)) := by
  intro lines
  induction lines with
  | nil =>
    intro c j
    simp [sidecar_count]
  | cons l rest ih =>
    intro c j
    rw [sidecar_count, ih, List.countP_cons]
    simp only [decide_eq_true_eq]
    by_cases h0 : (l.data5.toNat : Int) - 49 = 0
    · rw [if_pos h0, if_neg (by omega)]
      rfl
    · rw [if_neg h0]
      by_cases h1 : 1 ≤ (l.data5.toNat : Int) - 49 ∧ (l.data5.toNat : Int) - 49 ≤ 8
      · rw [if_pos h1]
        by_cases hj : ((l.data5.toNat : Int) - 49 - 1).toNat = j
        · rw [if_pos ⟨h1.1, h1.2, hj⟩]
          subst hj
          simp only [Function.update_same]
          omega
        · rw [if_neg (fun h => hj h.2.2)]
          have hj2 : j ≠ ((l.data5.toNat : Int) - 49 - 1).toNat := fun h => hj h.symm
          simp only [Function.update_noteq hj2]
          rfl
      · rw [if_neg h1, if_neg (fun h => h1 ⟨h.1, h.2.1⟩)]
        rfl

theorem sidecar_fill_loop_ok (anum : Nat) (allocated : Nat → Bool) :
    ∀ (lines : List index_line) (st st2 : sidecar_fill),
      sidecar_fill_loop anum allocated lines st = some st2 → (∀ j, (st.aud j).ok) →
      (∀ j, (st2.aud j).ok) ∧
      ∀ j, (st2.aud j).nai = (st.aud j).nai
        + lines.countP (fun l => decide (1 ≤ l.type - 1 ∧ l.type - 1 ≤ 8 ∧
            (l.type - 1 - 1).toNat = j)) := by
  intro lines
  induction lines with
  | nil =>
    intro st st2 h hok
    rw [sidecar_fill_loop] at h
    rw [← Option.some.inj h]
    exact ⟨hok, fun j => by simp⟩
  | cons l rest ih =>
    intro st st2 h hok
    rw [sidecar_fill_loop] at h
    by_cases h0 : l.type - 1 = 0
    · rw [if_pos h0] at h
      cases hv : store_at st.video_index st.vid_chunks
          { key := if l.key ≠ 0 then 0x10 else 0, pos := l.pos + 8, len := l.len } with
      | none => rw [hv] at h; cases h
      | some v =>
        rw [hv] at h
        simp only [] at h
        obtain ⟨r1, r2⟩ := ih _ _ h hok
        refine ⟨r1, fun j => ?_⟩
        rw [r2 j, List.countP_cons]
        simp only [decide_eq_true_eq]
        rw [if_neg (by omega)]
        rfl
    · rw [if_neg h0] at h
      by_cases h1 : 1 ≤ l.type - 1 ∧ l.type - 1 ≤ 8
      · rw [if_pos h1] at h
        by_cases h2 : (l.type - 1 - 1).toNat < anum ∧ allocated (l.type - 1 - 1).toNat = true
        · rw [if_pos h2] at h
          cases ha : (st.aud (l.type - 1 - 1).toNat).add (l.pos + 8) l.len with
          | none => rw [ha] at h; cases h
          | some s =>
            rw [ha] at h
            simp only [] at h
            have hs := audio_build_add_ok (hok _) ha
            have hok2 : ∀ j, (Function.update st.aud (l.type - 1 - 1).toNat s j).ok := by
              intro j
              by_cases hj : j = (l.type - 1 - 1).toNat
              · subst hj
                rw [Function.update_same]
                exact hs.1
              · rw [Function.update_noteq hj]
                exact hok j
            obtain ⟨r1, r2⟩ := ih _ _ h hok2
            refine ⟨r1, fun j => ?_⟩
            rw [r2 j, List.countP_cons]
            simp only [decide_eq_true_eq]
            by_cases hj : j = (l.type - 1 - 1).toNat
            · rw [if_pos ⟨h1.1, h1.2, hj.symm⟩]
              subst hj
              show (Function.update st.aud _ s _).nai + _ = _
              rw [Function.update_same, hs.2]
              omega
            · rw [if_neg (fun h => hj h.2.2.symm)]
              show (Function.update st.aud _ s _).nai + _ = _
              rw [Function.update_noteq hj]
              rfl
        · rw [if_neg h2] at h
          cases h
      · rw [if_neg h1] at h
        obtain ⟨r1, r2⟩ := ih _ _ h hok
        refine ⟨r1, fun j => ?_⟩
        rw [r2 j, List.countP_cons]
        simp only [decide_eq_true_eq]
        rw [if_neg (fun h => h1 ⟨h.1, h.2.1⟩)]
        rfl

theorem opendml_audio_while_ok (buf : List UInt8) (offset : Nat) :
    ∀ (n en : Nat) (s s2 : audio_build),
      opendml_audio_while buf offset n en s = some s2 → s.ok → s2.ok ∧ s2.nai = s.nai + n := by
  intro n
  induction n with
  | zero =>
    intro en s s2 h hok
    rw [opendml_audio_while] at h
    rw [← Option.some.inj h]
    exact ⟨hok, rfl⟩
  | succ n ih =>
    intro en s s2 h hok
    rw [opendml_audio_while] at h
    cases hp : str2ulong (buf.drop en) with
    | none => rw [hp] at h; cases h
    | some pos =>
      cases hl : str2ulong_len (buf.drop (en + 4)) with
      | none => rw [hp, hl] at h; cases h
      | some len =>
        rw [hp, hl] at h
        simp only [] at h
        cases ha : s.add ((offset : Int) + (pos : Int)) (len : Int) with
        | none => rw [ha] at h; cases h
        | some s3 =>
          rw [ha] at h
          simp only [] at h
          have hs := audio_build_add_ok hok ha
          obtain ⟨r1, r2⟩ := ih _ _ _ h hs.1
          exact ⟨r1, by rw [r2, hs.2]; omega⟩

theorem opendml_audio_entry_ok (en : avisuperindex_entry) (st st2 : odml_audio)
    (h : opendml_audio_entry en st = some st2) (hok : st.b.ok) (hk : st.b.nai = st.nai) :
    st2.b.ok ∧ st2.b.nai = st2.nai := by
  unfold opendml_audio_entry at h
  split at h
  · rw [← Option.some.inj h]
    exact ⟨hok, hk⟩
  · split at h
    · rw [← Option.some.inj h]
      exact ⟨hok, hk⟩
    · split at h
      · rename_i nrEntries offset _ _
        split at h
        · rename_i b hb
          have hre := audio_build_realloc_ok hok (st.nai + nrEntries) (by omega)
          obtain ⟨r1, r2⟩ := opendml_audio_while_ok _ _ _ _ _ _ hb hre
          rw [← Option.some.inj h]
          refine ⟨r1, ?_⟩
          show b.nai = st.nai + nrEntries
          rw [r2]
          show st.b.nai + _ = _
          omega
        · cases h
      · cases h

theorem opendml_audio_entries_ok :
    ∀ (ens : List avisuperindex_entry) (st st2 : odml_audio),
      opendml_audio_entries ens st = some st2 → st.b.ok → st.b.nai = st.nai →
      st2.b.ok ∧ st2.b.nai = st2.nai := by
  intro ens
  induction ens with
  | nil =>
    intro st st2 h hok hk
    rw [opendml_audio_entries] at h
    rw [← Option.some.inj h]
    exact ⟨hok, hk⟩
  | cons en rest ih =>
    intro st st2 h hok hk
    rw [opendml_audio_entries] at h
    cases he : opendml_audio_entry en st with
    | none => rw [he] at h; cases h
    | some st3 =>
      rw [he] at h
      simp only [] at h
      obtain ⟨r1, r2⟩ := opendml_audio_entry_ok en st st3 he hok hk
      exact ih _ _ h r1 r2

theorem audio_len_sum_zero (a : List audio_index_entry) : audio_len_sum a 0 = 0 := by
  simp [audio_len_sum]

theorem tot_prefix_sums_zero (a : List audio_index_entry) : tot_prefix_sums a 0 := by
  intro c hc
  exact absurd hc (Nat.not_lt_zero c)

/-- A track whose builder ended consistent, with `audio_chunks` the number of
entries stored and `audio_bytes` the byte count, satisfies the index invariant
whenever its index is the builder's array, or when nothing was stored. -/
theorem track_index_ok_of_build (t : track_t) (s : audio_build) (hs : s.ok)
    (hchunks : t.audio_chunks = (s.nai : Int)) (hbytes : t.audio_bytes = s.tot)
    (hidx : ∀ ai, t.audio_index = some ai → ai = s.audio_index ∨ s.nai = 0) :
    track_index_ok t := by
  intro ai hai
  refine ⟨s.nai, hchunks, ?_, ?_⟩
  · rcases hidx ai hai with h | h
    · rw [h]
      exact hs.1
    · rw [h]
      exact tot_prefix_sums_zero ai
  · rw [hbytes, hs.2]
    rcases hidx ai hai with h | h
    · rw [h]
    · rw [h, audio_len_sum_zero, audio_len_sum_zero]

theorem legacy_tracks_ok (AVI AVI2 : avi_t) (idx_type : Int)
    (h : avi_parse_input_file_legacy AVI idx_type = some (Except.ok AVI2)) :
    ∀ j, j < AVI.anum.toNat → track_index_ok (AVI2.track j) := by
  intro j hj
  unfold avi_parse_input_file_legacy at h
  split at h
  · cases h
  · rename_i entries _
    simp only [] at h
    split at h
    · cases h
    · split at h
      · cases h
      · rename_i st hst
        have h2 := Except.ok.inj (Option.some.inj h)
        subst h2
        simp only [if_pos hj]
        obtain ⟨r1, r2⟩ := legacy_fill_loop_ok _ _ _ _ _ _ _ hst
          (fun j => audio_build_ok_init _)
        have hc := legacy_count_snd AVI.video_tag (fun j => (AVI.track j).audio_tag)
          AVI.anum.toNat entries (0, fun _ => 0) j
        have hn := r2 j
        simp only [Nat.zero_add] at hc hn
        refine track_index_ok_of_build _ (st.aud j) (r1 j) ?_ rfl ?_
        · show ((legacy_count _ _ _ entries (0, fun _ => 0)).2 j : Int) = _
          rw [hc, hn]
        · intro ai hai
          by_cases h0 : (legacy_count AVI.video_tag (fun j => (AVI.track j).audio_tag)
              AVI.anum.toNat entries (0, fun _ => 0)).2 j ≠ 0
          · left
            have hai2 : (if (legacy_count AVI.video_tag (fun j => (AVI.track j).audio_tag)
                AVI.anum.toNat entries (0, fun _ => 0)).2 j ≠ 0
                then some (st.aud j).audio_index else (AVI.track j).audio_index) = some ai := hai
            rw [if_pos h0] at hai2
            exact (Option.some.inj hai2).symm
          · right
            rw [hn, ← hc]
            exact not_not.mp h0

theorem sidecar_tracks_ok (AVI AVI2 : avi_t) (lines : List index_line)
    (hwf : ∀ l ∈ lines, (l.data5.toNat : Int) - 48 = l.type)
    (h : avi_parse_index_from_file AVI lines = some (Except.ok AVI2)) :
    ∀ j, j < AVI.anum.toNat → track_index_ok (AVI2.track j) := by
  intro j hj
  unfold avi_parse_index_from_file at h
  split at h
  · cases h
  · split at h
    · cases h
    · rename_i st hst
      have h2 := Except.ok.inj (Option.some.inj h)
      subst h2
      simp only [if_pos hj]
      obtain ⟨r1, r2⟩ := sidecar_fill_loop_ok _ _ _ _ _ hst (fun j => audio_build_ok_init _)
      have hc := sidecar_count_snd lines (0, fun _ => 0) j
      have hn := r2 j
      simp only [Nat.zero_add] at hc hn
      have hcongr : lines.countP (fun l => decide (1 ≤ (l.data5.toNat : Int) - 49 ∧
            (l.data5.toNat : Int) - 49 ≤ 8 ∧ ((l.data5.toNat : Int) - 49 - 1).toNat = j))
          = lines.countP (fun l => decide (1 ≤ l.type - 1 ∧ l.type - 1 ≤ 8 ∧
            (l.type - 1 - 1).toNat = j)) := by
        apply List.countP_congr
        intro l hl
        have := hwf l hl
        have e : (l.data5.toNat : Int) - 49 = l.type - 1 := by omega
        rw [e]
      rw [hcongr] at hc
      refine track_index_ok_of_build _ (st.aud j) (r1 j) ?_ rfl ?_
      · show ((sidecar_count lines (0, fun _ => 0)).2 j : Int) = _
        rw [hc, hn]
      · intro ai hai
        by_cases h0 : (sidecar_count lines (0, fun _ => 0)).2 j ≠ 0
        · left
          have hai2 : (if (sidecar_count lines (0, fun _ => 0)).2 j ≠ 0
              then some (st.aud j).audio_index else none) = some ai := hai
          rw [if_pos h0] at hai2
          exact (Option.some.inj hai2).symm
        · right
          rw [hn, ← hc]
          exact not_not.mp h0

theorem opendml_audio_track_ok (t t2 : track_t) (fdes fdes2 : plat_file)
    (h : opendml_audio_track t fdes = some (t2, fdes2)) :
    t2.audio_superindex = t.audio_superindex ∧
    (t.audio_superindex = none → t2 = t) ∧
    (t.audio_superindex ≠ none → track_index_ok t2) := by
  unfold opendml_audio_track at h
  split at h
  · rename_i hnone
    have h2 := Option.some.inj h
    have h3 : t = t2 := congrArg Prod.fst h2
    subst h3
    exact ⟨rfl, fun _ => rfl, fun hne => absurd hnone hne⟩
  · rename_i si hsi
    split at h
    · split at h
      · cases h
      · rename_i st hst
        have h2 := Option.some.inj h
        have h3 := congrArg Prod.fst h2
        simp only [] at h3
        subst h3
        obtain ⟨r1, r2⟩ := opendml_audio_entries_ok _ _ _ hst (audio_build_ok_init _) rfl
        refine ⟨rfl, fun hn => ?_, fun _ => ?_⟩
        · rw [hn] at hsi
          cases hsi
        · refine track_index_ok_of_build _ st.b r1 ?_ rfl ?_
          · show (st.nai : Int) = _
            rw [r2]
          · intro ai hai
            left
            have hai2 : (if st.allocated = true then some st.b.audio_index
                else none) = some ai := hai
            split at hai2
            · exact (Option.some.inj hai2).symm
            · cases hai2
    · cases h

theorem opendml_audio_tracks_ok :
    ∀ (js : List Nat) (AVI AVI2 : avi_t), opendml_audio_tracks js AVI = some AVI2 →
      ∀ j, (track_index_ok (AVI.track j) ∨ (j ∈ js ∧ (AVI.track j).audio_superindex ≠ none)) →
        track_index_ok (AVI2.track j) := by
  intro js
  induction js with
  | nil =>
    intro AVI AVI2 h j hj
    rw [opendml_audio_tracks] at h
    rw [← Option.some.inj h]
    rcases hj with hj | ⟨hj, _⟩
    · exact hj
    · cases hj
  | cons a rest ih =>
    intro AVI AVI2 h j hj
    rw [opendml_audio_tracks] at h
    cases hr : opendml_audio_track (AVI.track a) AVI.fdes with
    | none => rw [hr] at h; cases h
    | some r =>
      rw [hr] at h
      simp only [] at h
      obtain ⟨k1, k2, k3⟩ := opendml_audio_track_ok (AVI.track a) r.1 AVI.fdes r.2 hr
      apply ih _ _ h j
      by_cases hja : j = a
      · subst hja
        show track_index_ok ((avi_t.set_track _ j r.1).track j) ∨ _
        rw [set_track_track]
        by_cases hsi : (AVI.track j).audio_superindex = none
        · rcases hj with hj | ⟨_, hj⟩
          · rw [k2 hsi]
            exact Or.inl hj
          · exact absurd hsi hj
        · exact Or.inl (k3 hsi)
      · have hsame : (avi_t.set_track { AVI with fdes := r.2 } a r.1).track j = AVI.track j := by
          simp [avi_t.set_track, Function.update_noteq hja]
        rw [hsame]
        rcases hj with hj | ⟨hj, hs⟩
        · exact Or.inl hj
        · rcases List.mem_cons.mp hj with hj | hj
          · exact absurd hj hja
          · exact Or.inr ⟨hj, hs⟩

theorem multiple_riff_tracks_ok (AVI AVI2 : avi_t)
    (h : avi_parse_input_file_multiple_riff AVI = some (Except.ok AVI2)) :
    ∀ j, j < AVI.anum.toNat → track_index_ok (AVI2.track j) := by
  intro j hj
  unfold avi_parse_input_file_multiple_riff at h
  split at h
  · cases h
  · split at h
    · cases h
    · rename_i htf
      split at h
      · cases h
      · rename_i st hst
        have h2 := Except.ok.inj (Option.some.inj h)
        subst h2
        by_cases hj0 : j = 0
        · subst hj0
          simp only [if_pos rfl]
          have hok := multiple_riff_loop_ok AVI.total_frames _ st hst (audio_build_ok_init _)
            (by show ((0 : Nat) : Int) ≤ AVI.total_frames; omega)
          refine track_index_ok_of_build _ st.a0 hok rfl rfl ?_
          intro ai hai
          have hai2 : (if AVI.total_frames ≠ 0 then some st.a0.audio_index
              else (AVI.track 0).audio_index) = some ai := hai
          by_cases h0 : AVI.total_frames ≠ 0
          · rw [if_pos h0] at hai2
            exact Or.inl (Option.some.inj hai2).symm
          · right
            rw [multiple_riff_loop, if_pos (by show ((0 : Nat) : Int) ≥ AVI.total_frames; omega)]
              at hst
            rw [← Option.some.inj hst]
        · simp only [if_neg hj0, if_pos hj]
          intro ai _
          exact ⟨0, rfl, tot_prefix_sums_zero ai, (audio_len_sum_zero ai).symm⟩

theorem str2ulong_isSome (str : List UInt8) (h : 4 ≤ str.length) : ∃ v, str2ulong str = some v := by
  match str, h with
  | b0 :: b1 :: b2 :: b3 :: _, _ => exact ⟨_, rfl⟩

theorem audio_build_add_some (s : audio_build) (pos len : Int) (h : s.nai < s.audio_index.length) :
    ∃ s2, s.add pos len = some s2 ∧ s2.nai = s.nai + 1 ∧
      s2.audio_index.length = s.audio_index.length := by
  unfold audio_build.add store_at
  rw [if_pos h]
  exact ⟨_, rfl, rfl, List.length_set _ _ _⟩

/-- The inner loop of the second pass returns when every matching track has room
for one more entry; it adds one entry to each matching track and leaves the
sizes of the arrays alone. -/
theorem legacy_fill_audio_some (tag : Nat → List UInt8) (entry : List UInt8) (ioff : Int)
    (hlen : 16 ≤ entry.length) :
    ∀ (js : List Nat) (aud : Nat → audio_build), js.Nodup →
      (∀ j, j ∈ js → strncasecmp_eq entry (tag j) 4 = true →
        (aud j).nai < (aud j).audio_index.length) →
      ∃ aud2, legacy_fill_audio tag entry ioff js aud = some aud2 ∧
        ∀ j, (aud2 j).audio_index.length = (aud j).audio_index.length := by
  intro js
  induction js with
  | nil =>
    intro aud _ _
    exact ⟨aud, rfl, fun _ => rfl⟩
  | cons j0 js ih =>
    intro aud hnd hroom
    have hnd2 := List.nodup_cons.mp hnd
    rw [legacy_fill_audio]
    by_cases hm : strncasecmp_eq entry (tag j0) 4 = true
    · rw [if_pos hm]
      obtain ⟨pos, hp⟩ := str2ulong_isSome (entry.drop 8) (by rw [List.length_drop]; omega)
      obtain ⟨len, hl⟩ := str2ulong_isSome (entry.drop 12) (by rw [List.length_drop]; omega)
      rw [hp, hl]
      simp only []
      obtain ⟨s, hs, _, hsl⟩ := audio_build_add_some (aud j0) ((pos : Int) + ioff) (len : Int)
        (hroom j0 (List.mem_cons_self _ _) hm)
      rw [hs]
      simp only []
      obtain ⟨aud2, h2, hl2⟩ := ih (Function.update aud j0 s) hnd2.2 (by
        intro j hj hmj
        have hne : j ≠ j0 := fun h => hnd2.1 (h ▸ hj)
        rw [Function.update_noteq hne]
        exact hroom j (List.mem_cons_of_mem _ hj) hmj)
      refine ⟨aud2, h2, fun j => ?_⟩
      rw [hl2 j]
      by_cases hj : j = j0
      · subst hj
        rw [Function.update_same]
        exact hsl
      · rw [Function.update_noteq hj]
    · rw [if_neg hm]
      exact ih aud hnd2.2 (fun j hj hmj => hroom j (List.mem_cons_of_mem _ hj) hmj)

/-- The second pass of the legacy branch returns when the arrays have room for
the entries that are still to come. -/
theorem legacy_fill_loop_some (vt : List UInt8) (tag : Nat → List UInt8) (anum : Nat)
    (ioff : Int) :
    ∀ (entries : List (List UInt8)) (st : legacy_fill),
      (∀ e ∈ entries, 16 ≤ e.length) → (∀ j, (st.aud j).ok) →
      st.nvi + entries.countP (fun e => strncasecmp_eq e vt 3) ≤ st.video_index.length →
      (∀ j, entries.countP (fun e => decide (j < anum) && strncasecmp_eq e (tag j) 4) = 0 ∨
        (st.aud j).nai + entries.countP (fun e => decide (j < anum) && strncasecmp_eq e (tag j) 4)
          < (st.aud j).audio_index.length) →
      ∃ st2, legacy_fill_loop vt tag anum ioff entries st = some st2 := by
  intro entries
  induction entries with
  | nil =>
    intro st _ _ _ _
    exact ⟨st, rfl⟩
  | cons e rest ih =>
    intro st hlen hok hv ha
    have he : 16 ≤ e.length := hlen e (List.mem_cons_self _ _)
    rw [List.countP_cons] at hv
    rw [legacy_fill_loop]
    have hvid : ∃ v, legacy_fill_video vt e ioff st = some v ∧
        v.1 + rest.countP (fun e => strncasecmp_eq e vt 3) ≤ v.2.length := by
      unfold legacy_fill_video
      by_cases hm : strncasecmp_eq e vt 3 = true
      · rw [if_pos hm]
        obtain ⟨key, hk⟩ := str2ulong_isSome (e.drop 4) (by rw [List.length_drop]; omega)
        obtain ⟨pos, hp⟩ := str2ulong_isSome (e.drop 8) (by rw [List.length_drop]; omega)
        obtain ⟨len, hl⟩ := str2ulong_isSome (e.drop 12) (by rw [List.length_drop]; omega)
        rw [hk, hp, hl]
        simp only [hm, if_true] at hv ⊢
        unfold store_at
        rw [if_pos (by omega)]
        refine ⟨_, rfl, ?_⟩
        simp only [List.length_set]
        omega
      · rw [if_neg hm]
        simp only [hm] at hv
        exact ⟨_, rfl, by simpa using hv⟩
    obtain ⟨v, hv1, hv2⟩ := hvid
    rw [hv1]
    simp only []
    have hroom : ∀ j, j ∈ List.range anum → strncasecmp_eq e (tag j) 4 = true →
        (st.aud j).nai < (st.aud j).audio_index.length := by
      intro j hj hm
      have hj2 := List.mem_range.mp hj
      have := ha j
      rw [List.countP_cons] at this
      simp only [hj2, hm, decide_True, Bool.and_self, if_true] at this
      omega
    obtain ⟨aud, ha1, ha2⟩ := legacy_fill_audio_some tag e ioff he _ st.aud
      (List.nodup_range anum) hroom
    rw [ha1]
    simp only []
    obtain ⟨a1, a2⟩ := legacy_fill_audio_ok tag e ioff _ _ _ ha1 hok (List.nodup_range anum)
    refine ih _ (fun e2 h2 => hlen e2 (List.mem_cons_of_mem _ h2)) a1 hv2 ?_
    intro j
    show _ ∨ (aud j).nai + _ < (aud j).audio_index.length
    rw [a2 j, ha2 j]
    have := ha j
    rw [List.countP_cons] at this
    by_cases h1 : j < anum <;> by_cases h2 : strncasecmp_eq e (tag j) 4 = true <;>
      simp only [h1, h2, List.mem_range, decide_True, decide_False, Bool.and_self, Bool.and_false,
        Bool.false_and, if_true, if_false, and_self, and_false, false_and,
        Bool.false_eq_true] at this ⊢ <;> omega

theorem legacy_count_fst (vt : List UInt8) (tag : Nat → List UInt8) (anum : Nat) :
    ∀ (entries : List (List UInt8)) (c : Nat × (Nat → Nat)),
      (legacy_count vt tag anum entries c).1
        = c.1 + entries.countP (fun e => strncasecmp_eq e vt 3) := by
  intro entries
  induction entries with
  | nil =>
    intro c
    simp [legacy_count]
  | cons e rest ih =>
    intro c
    rw [legacy_count, ih, List.countP_cons]
    simp only []
    by_cases h : strncasecmp_eq e vt 3 = true
    · simp only [h, if_true]
      omega
    · simp only [h, if_false]
      simp

/-- The legacy branch returns on every `idx1` array of `n_idx` 16-byte entries:
no store of the second pass leaves the arrays the first pass sized. -/
theorem legacy_returns (AVI : avi_t) (idx_type : Int) (idx : List (List UInt8))
    (hidx : AVI.idx = some idx) (hn : AVI.n_idx.toNat ≤ idx.length)
    (hlen : ∀ e ∈ idx, 16 ≤ e.length) :
    ∃ r, avi_parse_input_file_legacy AVI idx_type = some r := by
  unfold avi_parse_input_file_legacy
  rw [hidx]
  simp only []
  rw [if_pos hn]
  simp only []
  split
  · exact ⟨_, rfl⟩
  · obtain ⟨st, hst⟩ := legacy_fill_loop_some AVI.video_tag (fun j => (AVI.track j).audio_tag)
      AVI.anum.toNat (if idx_type = 1 then 8 else AVI.movi_start + 4)
      (idx.take AVI.n_idx.toNat)
      { nvi := 0
        video_index := List.replicate
          (legacy_count AVI.video_tag (fun j => (AVI.track j).audio_tag) AVI.anum.toNat
            (idx.take AVI.n_idx.toNat) (0, fun _ => 0)).1 ({} : video_index_entry)
        aud := fun j =>
          { audio_index :=
              if (legacy_count AVI.video_tag (fun j => (AVI.track j).audio_tag) AVI.anum.toNat
                  (idx.take AVI.n_idx.toNat) (0, fun _ => 0)).2 j ≠ 0
              then List.replicate
                ((legacy_count AVI.video_tag (fun j => (AVI.track j).audio_tag) AVI.anum.toNat
                  (idx.take AVI.n_idx.toNat) (0, fun _ => 0)).2 j + 1) ({} : audio_index_entry)
              else []
            nai := 0, tot := 0 } }
      (fun e he => hlen e (List.mem_of_mem_take he))
      (fun j => audio_build_ok_init _)
      (by
        show 0 + _ ≤ (List.replicate _ _).length
        rw [List.length_replicate, legacy_count_fst])
      (by
        intro j
        show _ ∨ 0 + _ < (ite _ _ _ : List audio_index_entry).length
        rw [legacy_count_snd]
        simp only [Nat.zero_add]
        by_cases h0 : List.countP (fun e => decide (j < AVI.anum.toNat)
            && strncasecmp_eq e ((fun j => (AVI.track j).audio_tag) j) 4)
            (idx.take AVI.n_idx.toNat) = 0
        · exact Or.inl h0
        · right
          rw [if_pos h0, List.length_replicate]
          omega)
    rw [hst]
    exact ⟨_, rfl⟩

theorem realloc_entries_length (a : List audio_index_entry) (n : Nat) :
    (realloc_entries a n).length = n := by
  unfold realloc_entries
  rw [List.length_append, List.length_take, List.length_replicate]
  omega

theorem scan_grow_length (tf : Int) (htf : 1 ≤ tf) (aud_chunks : Int) (a0 : audio_build)
    (hlen : (a0.audio_index.length : Int) = aud_chunks + 1) (hnai : (a0.nai : Int) ≤ aud_chunks) :
    (((scan_grow tf aud_chunks a0).2.audio_index.length : Int)
      = (scan_grow tf aud_chunks a0).1 + 1) ∧
    (scan_grow tf aud_chunks a0).2.nai = a0.nai ∧
    ((scan_grow tf aud_chunks a0).2.nai : Int) + 1 ≤ (scan_grow tf aud_chunks a0).1 := by
  unfold scan_grow
  split
  · refine ⟨?_, rfl, ?_⟩
    · show ((realloc_entries a0.audio_index (aud_chunks + tf + 1).toNat).length : Int) = _
      rw [realloc_entries_length]
      omega
    · show (a0.nai : Int) + 1 ≤ aud_chunks + tf
      omega
  · refine ⟨hlen, rfl, ?_⟩
    show (a0.nai : Int) + 1 ≤ aud_chunks
    omega

/-- The raw scan returns: its stores stay inside the video index of
`total_frames` entries and inside the audio index that the growth step keeps
one entry ahead of `nai[0]`. -/
theorem multiple_riff_loop_some (tf : Int) (st : scan_state) :
    (st.video_index.length : Int) = tf →
    (st.a0.audio_index.length : Int) = st.aud_chunks + 1 → (st.a0.nai : Int) ≤ st.aud_chunks →
    ∃ st2, multiple_riff_loop tf st = some st2 := by
  induction st using multiple_riff_loop.induct tf with
  | case1 x h1 =>
    intro _ _ _
    rw [multiple_riff_loop, if_pos h1]
    exact ⟨_, rfl⟩
  | case2 x h1 h2 =>
    intro _ _ _
    rw [multiple_riff_loop, if_neg h1, dif_pos h2]
    exact ⟨_, rfl⟩
  | case3 x h1 h2 h3 =>
    intro _ _ _
    exfalso
    have h8 := not_not.mp h2
    have hl : 4 ≤ ((plat_read x.fdes 8).2.1.drop 4).length := by
      simp only [plat_read, List.length_take, List.length_drop] at h8 ⊢
      omega
    obtain ⟨v, hv⟩ := str2ulong_isSome _ hl
    rw [hv] at h3
    cases h3
  | case4 x h1 h2 n h3 h4 h5 =>
    intro hv _ _
    exfalso
    unfold store_at at h5
    rw [if_pos (by omega)] at h5
    cases h5
  | case5 x h1 h2 n h3 h4 v h5 ih =>
    intro hv hlen hnai
    rw [multiple_riff_loop, if_neg h1, dif_neg h2, h3]
    simp only [h4, if_true, h5]
    have hg := scan_grow_length tf (by omega) x.aud_chunks x.a0 hlen hnai
    refine ih ?_ hg.1 ?_
    · show (v.length : Int) = tf
      unfold store_at at h5
      split at h5
      · rw [← Option.some.inj h5, List.length_set]
        exact hv
      · cases h5
    · show ((scan_grow tf x.aud_chunks x.a0).2.nai : Int) ≤ (scan_grow tf x.aud_chunks x.a0).1
      omega
  | case6 x h1 h2 n h3 h4 h5 h6 =>
    intro hv hlen hnai
    exfalso
    have hg := scan_grow_length tf (by omega) x.aud_chunks x.a0 hlen hnai
    obtain ⟨s2, hs2, _⟩ := audio_build_add_some (scan_grow tf x.aud_chunks x.a0).2
      (plat_seek_cur (plat_read x.fdes 8).2.2 0).1 (n : Int) (by omega)
    rw [hs2] at h6
    cases h6
  | case7 x h1 h2 n h3 h4 h5 a h6 ih =>
    intro hv hlen hnai
    rw [multiple_riff_loop, if_neg h1, dif_neg h2, h3]
    simp only [h4, h5, if_true, h6]
    have hg := scan_grow_length tf (by omega) x.aud_chunks x.a0 hlen hnai
    obtain ⟨s2, hs2, hn2, hl2⟩ := audio_build_add_some (scan_grow tf x.aud_chunks x.a0).2
      (plat_seek_cur (plat_read x.fdes 8).2.2 0).1 (n : Int) (by omega)
    rw [hs2] at h6
    have ha := Option.some.inj h6
    subst ha
    have := ih hv (by
      show (s2.audio_index.length : Int) = (scan_grow tf x.aud_chunks x.a0).1 + 1
      rw [hl2]
      exact hg.1) (by
      show (s2.nai : Int) ≤ (scan_grow tf x.aud_chunks x.a0).1
      rw [hn2]
      omega)
    simpa using this
  | case8 x h1 h2 n h3 h4 h5 ih =>
    intro hv hlen hnai
    rw [multiple_riff_loop, if_neg h1, dif_neg h2, h3]
    simp only [h4, h5]
    have hg := scan_grow_length tf (by omega) x.aud_chunks x.a0 hlen hnai
    have := ih hv hg.1 (by
      show ((scan_grow tf x.aud_chunks x.a0).2.nai : Int) ≤ (scan_grow tf x.aud_chunks x.a0).1
      omega)
    simpa using this

/-- The raw scan returns on every handle with an audio track. -/
theorem multiple_riff_returns (AVI : avi_t) (ha : 0 < AVI.anum) :
    ∃ r, avi_parse_input_file_multiple_riff AVI = some r := by
  unfold avi_parse_input_file_multiple_riff
  rw [if_neg (by omega)]
  by_cases htf : AVI.total_frames < 0
  · rw [if_pos htf]
    exact ⟨_, rfl⟩
  · rw [if_neg htf]
    by_cases h0 : AVI.total_frames = 0
    · have : ∃ st2, multiple_riff_loop AVI.total_frames
          { fdes := (plat_seek_set AVI.fdes AVI.movi_start).2
            nvi := 0
            video_index := List.replicate AVI.total_frames.toNat ({} : video_index_entry)
            aud_chunks := AVI.total_frames
            a0 := { audio_index :=
                      if AVI.total_frames ≠ 0
                      then List.replicate (AVI.total_frames.toNat + 1) ({} : audio_index_entry)
                      else []
                    nai := 0, tot := 0 } } = some st2 := by
        rw [multiple_riff_loop, if_pos (by simp only [h0]; decide)]
        exact ⟨_, rfl⟩
      obtain ⟨st2, h2⟩ := this
      rw [h2]
      exact ⟨_, rfl⟩
    · obtain ⟨st2, h2⟩ := multiple_riff_loop_some AVI.total_frames
        { fdes := (plat_seek_set AVI.fdes AVI.movi_start).2
          nvi := 0
          video_index := List.replicate AVI.total_frames.toNat ({} : video_index_entry)
          aud_chunks := AVI.total_frames
          a0 := { audio_index :=
                    if AVI.total_frames ≠ 0
                    then List.replicate (AVI.total_frames.toNat + 1) ({} : audio_index_entry)
                    else []
                  nai := 0, tot := 0 } }
        (by
          show ((List.replicate _ _).length : Int) = _
          rw [List.length_replicate]
          omega)
        (by
          show ((ite _ _ _ : List audio_index_entry).length : Int) = _
          rw [if_pos h0, List.length_replicate]
          push_cast
          omega)
        (by
          show ((0 : Nat) : Int) ≤ AVI.total_frames
          omega)
      rw [h2]
      exact ⟨_, rfl⟩

theorem sidecar_count_fst :
    ∀ (lines : List index_line) (c : Nat × (Nat → Nat)),
      (sidecar_count lines c).1
        = c.1 + lines.countP (fun l => decide ((l.data5.toNat : Int) - 49 = 0)) := by
  intro lines
  induction lines with
  | nil =>
    intro c
    simp [sidecar_count]
  | cons l rest ih =>
    intro c
    rw [sidecar_count, ih, List.countP_cons]
    simp only [decide_eq_true_eq]
    by_cases h0 : (l.data5.toNat : Int) - 49 = 0
    · rw [if_pos h0, if_pos h0]
      show c.1 + 1 + _ = _
      omega
    · rw [if_neg h0, if_neg h0]
      by_cases h1 : 1 ≤ (l.data5.toNat : Int) - 49 ∧ (l.data5.toNat : Int) - 49 ≤ 8
      · rw [if_pos h1]
        rfl
      · rw [if_neg h1]
        rfl

/-- The second pass of the sidecar reader returns when every audio line names an
allocated track below `anum` and the arrays have room for the lines to come. -/
theorem sidecar_fill_loop_some (anum : Nat) (allocated : Nat → Bool) :
    ∀ (lines : List index_line) (st : sidecar_fill),
      (∀ l ∈ lines, 1 ≤ l.type - 1 ∧ l.type - 1 ≤ 8 →
        (l.type - 1 - 1).toNat < anum ∧ allocated (l.type - 1 - 1).toNat = true) →
      st.vid_chunks + lines.countP (fun l => decide (l.type - 1 = 0)) ≤ st.video_index.length →
      (∀ j, (st.aud j).nai + lines.countP (fun l => decide (1 ≤ l.type - 1 ∧ l.type - 1 ≤ 8 ∧
            (l.type - 1 - 1).toNat = j)) ≤ (st.aud j).audio_index.length) →
      ∃ st2, sidecar_fill_loop anum allocated lines st = some st2 := by
  intro lines
  induction lines with
  | nil =>
    intro st _ _ _
    exact ⟨st, rfl⟩
  | cons l rest ih =>
    intro st htrk hv ha
    have hrest : ∀ l2 ∈ rest, 1 ≤ l2.type - 1 ∧ l2.type - 1 ≤ 8 →
        (l2.type - 1 - 1).toNat < anum ∧ allocated (l2.type - 1 - 1).toNat = true :=
      fun l2 h2 => htrk l2 (List.mem_cons_of_mem _ h2)
    rw [List.countP_cons] at hv
    simp only [decide_eq_true_eq] at hv
    rw [sidecar_fill_loop]
    by_cases h0 : l.type - 1 = 0
    · rw [if_pos h0] at hv ⊢
      unfold store_at
      rw [if_pos (by omega)]
      simp only []
      refine ih _ hrest ?_ ?_
      · show st.vid_chunks + 1 + _ ≤ (List.set _ _ _).length
        rw [List.length_set]
        omega
      · intro j
        have := ha j
        rw [List.countP_cons] at this
        simp only [decide_eq_true_eq] at this
        rw [if_neg (by omega)] at this
        exact this
    · rw [if_neg h0] at hv ⊢
      by_cases h1 : 1 ≤ l.type - 1 ∧ l.type - 1 ≤ 8
      · rw [if_pos h1, if_pos (htrk l (List.mem_cons_self _ _) h1)]
        have hroom := ha (l.type - 1 - 1).toNat
        rw [List.countP_cons] at hroom
        simp only [decide_eq_true_eq] at hroom
        rw [if_pos ⟨h1.1, h1.2, trivial⟩] at hroom
        obtain ⟨s2, hs2, hn2, hl2⟩ := audio_build_add_some (st.aud (l.type - 1 - 1).toNat)
          (l.pos + 8) l.len (by omega)
        rw [hs2]
        simp only []
        refine ih _ hrest hv ?_
        intro j
        show (Function.update st.aud _ s2 j).nai + _
          ≤ (Function.update st.aud _ s2 j).audio_index.length
        have := ha j
        rw [List.countP_cons] at this
        simp only [decide_eq_true_eq] at this
        by_cases hj : j = (l.type - 1 - 1).toNat
        · subst hj
          rw [Function.update_same, hn2, hl2]
          omega
        · rw [Function.update_noteq hj]
          rw [if_neg (fun h => hj h.2.2.symm)] at this
          exact this
      · rw [if_neg h1]
        refine ih _ hrest hv ?_
        intro j
        have := ha j
        rw [List.countP_cons] at this
        simp only [decide_eq_true_eq] at this
        rw [if_neg (fun h => h1 ⟨h.1, h.2.1⟩)] at this
        exact this

/-- The sidecar reader returns on lines in the documented format whose audio
lines name tracks below `anum`. -/
theorem sidecar_returns (AVI : avi_t) (lines : List index_line)
    (hfmt : ∀ l ∈ lines, (l.data5.toNat : Int) - 48 = l.type)
    (htrk : ∀ l ∈ lines, 2 ≤ l.type ∧ l.type ≤ 9 → (l.type - 2).toNat < AVI.anum.toNat) :
    ∃ r, avi_parse_index_from_file AVI lines = some r := by
  unfold avi_parse_index_from_file
  split
  · exact ⟨_, rfl⟩
  · have hcv : lines.countP (fun l => decide ((l.data5.toNat : Int) - 49 = 0))
        = lines.countP (fun l => decide (l.type - 1 = 0)) := by
      refine List.countP_congr (fun l hl => ?_)
      have := hfmt l hl
      simp only [decide_eq_true_eq]
      constructor <;> intro h <;> omega
    have hca : ∀ j, lines.countP (fun l => decide (1 ≤ (l.data5.toNat : Int) - 49 ∧
            (l.data5.toNat : Int) - 49 ≤ 8 ∧ ((l.data5.toNat : Int) - 49 - 1).toNat = j))
        = lines.countP (fun l => decide (1 ≤ l.type - 1 ∧ l.type - 1 ≤ 8 ∧
            (l.type - 1 - 1).toNat = j)) := by
      intro j
      refine List.countP_congr (fun l hl => ?_)
      have := hfmt l hl
      simp only [decide_eq_true_eq]
      have e : (l.data5.toNat : Int) - 49 = l.type - 1 := by omega
      rw [e]
    obtain ⟨st, hst⟩ := sidecar_fill_loop_some AVI.anum.toNat
      (fun j => decide ((sidecar_count lines (0, fun _ => 0)).2 j ≠ 0)) lines
      { vid_chunks := 0
        video_index := List.replicate (sidecar_count lines (0, fun _ => 0)).1
          ({} : video_index_entry)
        aud := fun j =>
          { audio_index := List.replicate ((sidecar_count lines (0, fun _ => 0)).2 j)
              ({} : audio_index_entry)
            nai := 0, tot := 0 } }
      (by
        intro l hl h1
        refine ⟨?_, ?_⟩
        · have := htrk l hl (by omega)
          have e : l.type - 1 - 1 = l.type - 2 := by omega
          rw [e]
          exact this
        · simp only [decide_eq_true_eq]
          rw [sidecar_count_snd, hca]
          have : 0 < lines.countP (fun l2 => decide (1 ≤ l2.type - 1 ∧ l2.type - 1 ≤ 8 ∧
              (l2.type - 1 - 1).toNat = (l.type - 1 - 1).toNat)) :=
            List.countP_pos_iff.mpr ⟨l, hl, decide_eq_true ⟨h1.1, h1.2, rfl⟩⟩
          show 0 + _ ≠ 0
          omega)
      (by
        show 0 + _ ≤ (List.replicate _ _).length
        rw [List.length_replicate, sidecar_count_fst, hcv])
      (by
        intro j
        show 0 + _ ≤ (List.replicate _ _).length
        rw [List.length_replicate, sidecar_count_snd, hca])
    rw [hst]
    exact ⟨_, rfl⟩

theorem str2ullong_isSome (str : List UInt8) (h : 8 ≤ str.length) :
    ∃ v, str2ullong str = some v := by
  obtain ⟨r, hr⟩ := str2ulong_isSome str (by omega)
  obtain ⟨s, hs⟩ := str2ulong_isSome (str.drop 4) (by rw [List.length_drop]; omega)
  unfold str2ullong
  rw [hr, hs]
  exact ⟨_, rfl⟩

/-- The loop over the entries of a standard index chunk returns when the
entries are in the buffer and the array has room for them. -/
theorem opendml_audio_while_some (buf : List UInt8) (offset : Nat) :
    ∀ (n en : Nat) (s : audio_build), en + 8 * n ≤ buf.length →
      s.nai + n ≤ s.audio_index.length →
      ∃ s2, opendml_audio_while buf offset n en s = some s2 := by
  intro n
  induction n with
  | zero =>
    intro en s _ _
    exact ⟨s, rfl⟩
  | succ n ih =>
    intro en s hbuf hroom
    rw [opendml_audio_while]
    obtain ⟨pos, hp⟩ := str2ulong_isSome (buf.drop en) (by rw [List.length_drop]; omega)
    obtain ⟨len, hl⟩ := str2ulong_isSome (buf.drop (en + 4)) (by rw [List.length_drop]; omega)
    have hl2 : str2ulong_len (buf.drop (en + 4)) = some (len &&& 0x7fffffff) := by
      unfold str2ulong_len
      rw [hl]
      rfl
    rw [hp, hl2]
    simp only []
    obtain ⟨s2, hs2, hn2, hlen2⟩ := audio_build_add_some s ((offset : Int) + (pos : Int))
      ((len &&& 0x7fffffff : Nat) : Int) (by omega)
    rw [hs2]
    simp only []
    exact ih (en + 8) s2 (by omega) (by rw [hn2, hlen2]; omega)

theorem opendml_audio_entry_data (en : avisuperindex_entry) (st st2 : odml_audio)
    (h : opendml_audio_entry en st = some st2) : st2.fdes.data = st.fdes.data := by
  have hseek : (plat_seek_set st.fdes en.qwOffset).2.data = st.fdes.data := by
    unfold plat_seek_set
    split <;> rfl
  unfold opendml_audio_entry at h
  split at h
  · rw [← Option.some.inj h]
  · split at h
    · rw [← Option.some.inj h]
      exact hseek
    · split at h
      · split at h
        · rw [← Option.some.inj h]
          exact hseek
        · cases h
      · cases h

/-- The reader returns for a super-index entry whose standard index chunk is in
the file. -/
theorem opendml_audio_entry_some (en : avisuperindex_entry) (st : odml_audio)
    (hk : st.b.nai = st.nai) (hwf : odml_chunk_ok st.fdes.data en) :
    ∃ st2, opendml_audio_entry en st = some st2 := by
  unfold opendml_audio_entry
  by_cases h1 : (plat_seek_set st.fdes en.qwOffset).1 = -1
  · rw [if_pos h1]
    exact ⟨_, rfl⟩
  · rw [if_neg h1]
    by_cases h2 : (plat_read (plat_seek_set st.fdes en.qwOffset).2 ((en.dwSize + 32) % 2 ^ 32)).1 ≤ 0
    · rw [if_pos h2]
      exact ⟨_, rfl⟩
    · rw [if_neg h2]
      have hq : ¬ en.qwOffset < 0 := by
        intro hq
        apply h1
        unfold plat_seek_set
        rw [if_pos hq]
      have hbuf : (plat_read (plat_seek_set st.fdes en.qwOffset).2 ((en.dwSize + 32) % 2 ^ 32)).2.1
          = odml_chunk st.fdes.data en := by
        unfold plat_seek_set odml_chunk
        rw [if_neg hq]
        rfl
      rw [hbuf]
      obtain ⟨nr, hnr⟩ := str2ulong_isSome ((odml_chunk st.fdes.data en).drop 12)
        (by rw [List.length_drop]; have := hwf.1; omega)
      obtain ⟨off, hoff⟩ := str2ullong_isSome ((odml_chunk st.fdes.data en).drop 20)
        (by rw [List.length_drop]; have := hwf.1; omega)
      rw [hnr, hoff]
      simp only []
      obtain ⟨b, hb⟩ := opendml_audio_while_some (odml_chunk st.fdes.data en) off
        (st.nai + nr - st.b.nai) 32
        { st.b with audio_index := realloc_entries st.b.audio_index (st.nai + nr) }
        (by have := hwf.2; rw [hnr] at this; simp only [Option.getD_some] at this; omega)
        (by
          show st.b.nai + _ ≤ (realloc_entries _ _).length
          rw [realloc_entries_length]
          omega)
      rw [hb]
      exact ⟨_, rfl⟩

theorem opendml_audio_entries_some :
    ∀ (ens : List avisuperindex_entry) (st : odml_audio), st.b.ok → st.b.nai = st.nai →
      (∀ en ∈ ens, odml_chunk_ok st.fdes.data en) →
      ∃ st2, opendml_audio_entries ens st = some st2 ∧ st2.fdes.data = st.fdes.data := by
  intro ens
  induction ens with
  | nil =>
    intro st _ _ _
    exact ⟨st, rfl, rfl⟩
  | cons en rest ih =>
    intro st hok hk hwf
    rw [opendml_audio_entries]
    obtain ⟨st3, h3⟩ := opendml_audio_entry_some en st hk (hwf en (List.mem_cons_self _ _))
    rw [h3]
    simp only []
    have hd := opendml_audio_entry_data en st st3 h3
    obtain ⟨r1, r2⟩ := opendml_audio_entry_ok en st st3 h3 hok hk
    obtain ⟨st2, h2, hd2⟩ := ih st3 r1 r2 (by
      intro e he
      rw [hd]
      exact hwf e (List.mem_cons_of_mem _ he))
    exact ⟨st2, h2, by rw [hd2, hd]⟩

/-- What the OpenDML audio reader needs of a track: its super-index, if any,
holds the entries in use and their standard index chunks are in the file. -/
theorem opendml_audio_track_some (t : track_t) (fdes : plat_file)
    (hwf : ∀ si, t.audio_superindex = some si →
      si.nEntriesInUse.toNat ≤ si.aIndex.length ∧
      ∀ en ∈ si.aIndex.take si.nEntriesInUse.toNat, odml_chunk_ok fdes.data en) :
    ∃ r, opendml_audio_track t fdes = some r ∧ r.2.data = fdes.data ∧
      r.1.audio_superindex = t.audio_superindex := by
  unfold opendml_audio_track
  split
  · exact ⟨_, rfl, rfl, rfl⟩
  · rename_i si hsi
    obtain ⟨h1, h2⟩ := hwf si hsi
    rw [if_pos h1]
    obtain ⟨st, hst, hd⟩ := opendml_audio_entries_some (si.aIndex.take si.nEntriesInUse.toNat)
      { fdes := fdes, nai := 0
        b := { audio_index := t.audio_index.getD [], nai := 0, tot := 0 }
        allocated := t.audio_index.isSome }
      (audio_build_ok_init _) rfl h2
    rw [hst]
    exact ⟨_, rfl, hd, rfl⟩

theorem opendml_audio_tracks_some :
    ∀ (js : List Nat) (AVI : avi_t), js.Nodup →
      (∀ j ∈ js, ∀ si, (AVI.track j).audio_superindex = some si →
        si.nEntriesInUse.toNat ≤ si.aIndex.length ∧
        ∀ en ∈ si.aIndex.take si.nEntriesInUse.toNat, odml_chunk_ok AVI.fdes.data en) →
      ∃ AVI2, opendml_audio_tracks js AVI = some AVI2 := by
  intro js
  induction js with
  | nil =>
    intro AVI _ _
    exact ⟨AVI, rfl⟩
  | cons j0 rest ih =>
    intro AVI hnd hwf
    have hnd2 := List.nodup_cons.mp hnd
    rw [opendml_audio_tracks]
    obtain ⟨r, hr, hd, _⟩ := opendml_audio_track_some (AVI.track j0) AVI.fdes
      (hwf j0 (List.mem_cons_self _ _))
    rw [hr]
    simp only []
    refine ih _ hnd2.2 ?_
    intro j hj si hsi
    have hne : j ≠ j0 := fun h => hnd2.1 (h ▸ hj)
    have htr : (({ AVI with fdes := r.2 } : avi_t).set_track j0 r.1).track j = AVI.track j := by
      simp [avi_t.set_track, Function.update_noteq hne]
    rw [htr] at hsi
    have := hwf j (List.mem_cons_of_mem _ hj) si hsi
    refine ⟨this.1, ?_⟩
    show ∀ en ∈ _, odml_chunk_ok r.2.data en
    rw [hd]
    exact this.2

/-- The OpenDML audio reader returns when the standard index chunks that the
super-indexes name are in the file. -/
theorem opendml_audio_returns (AVI : avi_t)
    (hwf : ∀ j, j < AVI.anum.toNat → ∀ si, (AVI.track j).audio_superindex = some si →
      si.nEntriesInUse.toNat ≤ si.aIndex.length ∧
      ∀ en ∈ si.aIndex.take si.nEntriesInUse.toNat, odml_chunk_ok AVI.fdes.data en) :
    ∃ AVI2, avi_parse_input_file_opendml_audio AVI = some AVI2 :=
  opendml_audio_tracks_some _ AVI (List.nodup_range _)
    (fun j hj => hwf j (List.mem_range.mp hj))

/-- The raw scan on `demo_scan_avi`: four turns of the loop. -/
theorem demo_scan_eval : multiple_riff_loop 2
      { fdes := { data := demo_movi, offset := 0 }
        nvi := 0
        video_index := [{}, {}]
        aud_chunks := 2
        a0 := { audio_index := [{}, {}, {}], nai := 0, tot := 0 } } = some
      { fdes := { data := demo_movi, offset := 32 }
        nvi := 2
        video_index := [{ key := 0, pos := 8, len := 2 }, { key := 0, pos := 30, len := 1 }]
        aud_chunks := 4
        a0 := { audio_index := [{ pos := 18, len := 3, tot := 0 }, {}, {}, {}, {}]
                nai := 1, tot := 3 } } := by
  rw [multiple_riff_loop]
  simp [plat_read, plat_seek_cur, demo_movi, str2ulong, scan_is_video, scan_is_audio, store_at,
    PAD_EVEN, scan_grow, audio_build.add]
  rw [multiple_riff_loop]
  simp [plat_read, plat_seek_cur, demo_movi, str2ulong, scan_is_video, scan_is_audio, store_at,
    PAD_EVEN, scan_grow, audio_build.add]
  rw [multiple_riff_loop]
  simp [plat_read, plat_seek_cur, demo_movi, str2ulong, scan_is_video, scan_is_audio, store_at,
    PAD_EVEN, scan_grow, audio_build.add, realloc_entries]
  rw [multiple_riff_loop]
  simp [plat_read, plat_seek_cur, demo_movi, str2ulong, scan_is_video, scan_is_audio, store_at,
    PAD_EVEN, scan_grow, audio_build.add, realloc_entries]

/-- C6: every audio index built by the reader satisfies the index invariant.
Each of the four builders returns on well-formed input (the legacy branch on an
`idx1` array of `n_idx` entries of 16 bytes; the sidecar reader on lines in the
sidecar format, whose type is the digit at `data[5]`, with audio lines for
tracks below `anum`; the OpenDML audio reader when the standard index chunks
named by the super-indexes are in the file; the raw scan on every handle with an
audio track), and whenever a builder returns a handle, for every track
`j < anum` that has an index and every chunk `c < audio_chunks` of it, `tot[c]`
is the sum of `len[i]` for `i < c`, and `audio_bytes` is the sum of all `len`
(for the OpenDML reader: tracks with a super-index; a track without one is
skipped and keeps what it had). -/
theorem audio_index_builders_tot_prefix_sums :
    (∀ (AVI : avi_t) (idx_type : Int) (idx : List (List UInt8)),
      AVI.idx = some idx → AVI.n_idx.toNat ≤ idx.length → (∀ e ∈ idx, 16 ≤ e.length) →
      ∃ r, avi_parse_input_file_legacy AVI idx_type = some r) ∧
    (∀ (AVI AVI2 : avi_t) (idx_type : Int),
      avi_parse_input_file_legacy AVI idx_type = some (Except.ok AVI2) →
      ∀ j, j < AVI.anum.toNat → track_index_ok (AVI2.track j)) ∧
    (∀ (AVI : avi_t) (lines : List index_line),
      (∀ l ∈ lines, (l.data5.toNat : Int) - 48 = l.type) →
      (∀ l ∈ lines, 2 ≤ l.type ∧ l.type ≤ 9 → (l.type - 2).toNat < AVI.anum.toNat) →
      ∃ r, avi_parse_index_from_file AVI lines = some r) ∧
    (∀ (AVI AVI2 : avi_t) (lines : List index_line),
      (∀ l ∈ lines, (l.data5.toNat : Int) - 48 = l.type) →
      avi_parse_index_from_file AVI lines = some (Except.ok AVI2) →
      ∀ j, j < AVI.anum.toNat → track_index_ok (AVI2.track j)) ∧
    (∀ (AVI : avi_t),
      (∀ j, j < AVI.anum.toNat → ∀ si, (AVI.track j).audio_superindex = some si →
        si.nEntriesInUse.toNat ≤ si.aIndex.length ∧
        ∀ en ∈ si.aIndex.take si.nEntriesInUse.toNat, odml_chunk_ok AVI.fdes.data en) →
      ∃ AVI2, avi_parse_input_file_opendml_audio AVI = some AVI2) ∧
    (∀ (AVI AVI2 : avi_t),
      avi_parse_input_file_opendml_audio AVI = some AVI2 →
      ∀ j, j < AVI.anum.toNat →
        ((AVI.track j).audio_superindex ≠ none ∨ (AVI.track j).audio_index = none) →
        track_index_ok (AVI2.track j)) ∧
    (∀ (AVI : avi_t), 0 < AVI.anum →
      ∃ r, avi_parse_input_file_multiple_riff AVI = some r) ∧
    (∀ (AVI AVI2 : avi_t),
      avi_parse_input_file_multiple_riff AVI = some (Except.ok AVI2) →
      ∀ j, j < AVI.anum.toNat → track_index_ok (AVI2.track j)) := by
  refine ⟨?_, ?_, ?_, ?_, ?_, ?_, ?_, ?_⟩
  · intro AVI idx_type idx hidx hn hlen
    exact legacy_returns AVI idx_type idx hidx hn hlen
  · intro AVI AVI2 idx_type h
    exact legacy_tracks_ok AVI AVI2 idx_type h
  · intro AVI lines hfmt htrk
    exact sidecar_returns AVI lines hfmt htrk
  · intro AVI AVI2 lines hwf h
    exact sidecar_tracks_ok AVI AVI2 lines hwf h
  · intro AVI hwf
    exact opendml_audio_returns AVI hwf
  · intro AVI AVI2 h j hj hsi
    refine opendml_audio_tracks_ok _ AVI AVI2 h j ?_
    rcases hsi with hsi | hnone
    · exact Or.inr ⟨List.mem_range.mpr hj, hsi⟩
    · left
      intro ai hai
      rw [hnone] at hai
      cases hai
  · intro AVI ha
    exact multiple_riff_returns AVI ha
  · intro AVI AVI2 h
    exact multiple_riff_tracks_ok AVI AVI2 h

/-- C6, at the demo inputs: each of the four builders is on well-formed input
and returns, and track 0 of the handle it leaves satisfies the index
invariant. -/
theorem audio_index_builders_tot_prefix_sums_witness :
    ((∃ r, avi_parse_input_file_legacy demo_parse_avi 1 = some r) ∧
      ∃ AVI2, avi_parse_input_file_legacy demo_parse_avi 1 = some (Except.ok AVI2) ∧
      (AVI2.track 0).audio_index = some
        [{ pos := 30, len := 3, tot := 0 }, { pos := 42, len := 2, tot := 3 }, {}] ∧
      track_index_ok (AVI2.track 0)) ∧
    ((∃ r, avi_parse_index_from_file demo_parse_avi demo_lines = some r) ∧
      ∃ AVI2, avi_parse_index_from_file demo_parse_avi demo_lines = some (Except.ok AVI2) ∧
      (AVI2.track 0).audio_index = some
        [{ pos := 2074, len := 3, tot := 0 }, { pos := 2086, len := 2, tot := 3 }] ∧
      track_index_ok (AVI2.track 0)) ∧
    ((∃ AVI2, avi_parse_input_file_opendml_audio demo_odml_avi = some AVI2) ∧
      ∃ AVI2, avi_parse_input_file_opendml_audio demo_odml_avi = some AVI2 ∧
      (AVI2.track 0).audio_index = some
        [{ pos := 108, len := 3, tot := 0 }, { pos := 120, len := 2, tot := 3 }] ∧
      track_index_ok (AVI2.track 0)) ∧
    ((∃ r, avi_parse_input_file_multiple_riff demo_scan_avi = some r) ∧
      ∃ AVI2, avi_parse_input_file_multiple_riff demo_scan_avi = some (Except.ok AVI2) ∧
      (AVI2.track 0).audio_index = some [{ pos := 18, len := 3, tot := 0 }, {}, {}, {}, {}] ∧
      track_index_ok (AVI2.track 0)) := by
  have hscan : ∃ AVI2, avi_parse_input_file_multiple_riff demo_scan_avi = some (Except.ok AVI2) ∧
      (AVI2.track 0).audio_index = some [{ pos := 18, len := 3, tot := 0 }, {}, {}, {}, {}] := by
    unfold avi_parse_input_file_multiple_riff
    have h : multiple_riff_loop demo_scan_avi.total_frames
        { fdes := (plat_seek_set demo_scan_avi.fdes demo_scan_avi.movi_start).2
          nvi := 0
          video_index := List.replicate demo_scan_avi.total_frames.toNat ({} : video_index_entry)
          aud_chunks := demo_scan_avi.total_frames
          a0 := { audio_index :=
                    if demo_scan_avi.total_frames ≠ 0
                    then List.replicate (demo_scan_avi.total_frames.toNat + 1)
                      ({} : audio_index_entry)
                    else []
                  nai := 0, tot := 0 } } = _ := demo_scan_eval
    rw [if_neg (by decide), if_neg (by decide), h]
    exact ⟨_, rfl, rfl⟩
  obtain ⟨A4, h4, i4⟩ := hscan
  have hodml : ∀ j, j < demo_odml_avi.anum.toNat →
      ∀ si, (demo_odml_avi.track j).audio_superindex = some si →
        si.nEntriesInUse.toNat ≤ si.aIndex.length ∧
        ∀ en ∈ si.aIndex.take si.nEntriesInUse.toNat,
          odml_chunk_ok demo_odml_avi.fdes.data en := by
    intro j _ si hsi
    have h2 := Option.some.inj (show some _ = some si from hsi)
    rw [← h2]
    decide
  exact ⟨⟨audio_index_builders_tot_prefix_sums.1 demo_parse_avi 1 demo_idx rfl (by decide)
        (by decide),
      _, rfl, rfl, audio_index_builders_tot_prefix_sums.2.1 demo_parse_avi _ 1 rfl 0 (by decide)⟩,
    ⟨audio_index_builders_tot_prefix_sums.2.2.1 demo_parse_avi demo_lines (by decide) (by decide),
      _, rfl, rfl, audio_index_builders_tot_prefix_sums.2.2.2.1 demo_parse_avi _ demo_lines
        (by decide) rfl 0 (by decide)⟩,
    ⟨audio_index_builders_tot_prefix_sums.2.2.2.2.1 demo_odml_avi hodml,
      _, rfl, rfl, audio_index_builders_tot_prefix_sums.2.2.2.2.2.1 demo_odml_avi _ rfl 0
        (by decide) (Or.inl (by decide))⟩,
    ⟨audio_index_builders_tot_prefix_sums.2.2.2.2.2.2.1 demo_scan_avi (by decide),
      A4, h4, i4,
      audio_index_builders_tot_prefix_sums.2.2.2.2.2.2.2 demo_scan_avi A4 h4 0 (by decide)⟩⟩
theorem low_byte_toNat (x : Int) : (low_byte x).toNat = (x % 256).toNat := by
  unfold low_byte
  have h : (x % 256).toNat < 256 := by omega
  simp [UInt8.toNat, UInt8.ofNat, Fin.ofNat, Nat.mod_eq_of_lt h]

theorem or_bytes_eq_add (a b c d : Nat) (ha : a < 256) (hb : b < 256) (hc : c < 256) :
    a ||| (b <<< 8) ||| (c <<< 16) ||| (d <<< 24) = a + 256 * b + 65536 * c + 16777216 * d := by
  rw [Nat.shiftLeft_eq, Nat.shiftLeft_eq, Nat.shiftLeft_eq]
  have h1 : a ||| b * 2 ^ 8 = 2 ^ 8 * b + a := by
    rw [Nat.or_comm, Nat.mul_comm]
    exact (Nat.mul_add_lt_is_or (by omega) b).symm
  have h2 : 2 ^ 8 * b + a ||| c * 2 ^ 16 = 2 ^ 16 * c + (2 ^ 8 * b + a) := by
    rw [Nat.or_comm, Nat.mul_comm]
    exact (Nat.mul_add_lt_is_or (by omega) c).symm
  have h3 : 2 ^ 16 * c + (2 ^ 8 * b + a) ||| d * 2 ^ 24
      = 2 ^ 24 * d + (2 ^ 16 * c + (2 ^ 8 * b + a)) := by
    rw [Nat.or_comm, Nat.mul_comm]
    exact (Nat.mul_add_lt_is_or (by omega) d).symm
  rw [h1, h2, h3]
  omega

theorem str2ulong_eq_add (b0 b1 b2 b3 : UInt8) (rest : List UInt8) :
    str2ulong (b0 :: b1 :: b2 :: b3 :: rest)
      = some (b0.toNat + 256 * b1.toNat + 65536 * b2.toNat + 16777216 * b3.toNat) := by
  have h0 := b0.toNat_lt
  have h1 := b1.toNat_lt
  have h2 := b2.toNat_lt
  have h3 := b3.toNat_lt
  unfold str2ulong
  simp only []
  rw [or_bytes_eq_add _ _ _ _ h0 h1 h2, Nat.mod_eq_of_lt (by omega)]

theorem str2ulong_long2str (n : Int) : str2ulong (long2str n) = some (n % 2 ^ 32).toNat := by
  unfold long2str
  rw [str2ulong_eq_add, low_byte_toNat, low_byte_toNat, low_byte_toNat, low_byte_toNat]
  rw [Int.shiftRight_eq_div_pow, Int.shiftRight_eq_div_pow, Int.shiftRight_eq_div_pow]
  congr 1
  norm_num
  omega

theorem low_byte_of_byte (x : Int) (b : UInt8) (h : x % 256 = (b.toNat : Int)) :
    low_byte x = b := by
  unfold low_byte
  rw [h, Int.toNat_natCast]
  cases b with
  | mk v => simp [UInt8.toNat, UInt8.ofNat]

theorem long2str_of_bytes (x : Int) (b0 b1 b2 b3 : UInt8)
    (h : x % 2 ^ 32 = ((b0.toNat + 256 * b1.toNat + 65536 * b2.toNat + 16777216 * b3.toNat : Nat)
      : Int)) :
    long2str x = [b0, b1, b2, b3] := by
  have h0 := b0.toNat_lt
  have h1 := b1.toNat_lt
  have h2 := b2.toNat_lt
  have h3 := b3.toNat_lt
  unfold long2str
  rw [Int.shiftRight_eq_div_pow, Int.shiftRight_eq_div_pow, Int.shiftRight_eq_div_pow]
  push_cast at h
  norm_num at h ⊢
  rw [low_byte_of_byte x b0 (by omega), low_byte_of_byte (x / 256) b1 (by omega),
    low_byte_of_byte (x / 65536) b2 (by omega), low_byte_of_byte (x / 16777216) b3 (by omega)]
  simp

/-- C11: little-endian round trip.  For every integer `n`, `str2ulong` applied to
the four bytes stored by `long2str(n)` returns `n` modulo `2^32`; and for every
four bytes, `long2str` applied to their `str2ulong` value (converted to the
`int32_t` parameter) stores the same four bytes. -/
theorem long2str_str2ulong_round_trip :
    (∀ n : Int, str2ulong (long2str n) = some (n % 2 ^ 32).toNat) ∧
    (∀ b0 b1 b2 b3 : UInt8, ∃ v, str2ulong [b0, b1, b2, b3] = some v ∧
      long2str (uint32_to_int32 v) = [b0, b1, b2, b3]) := by
  refine ⟨str2ulong_long2str, ?_⟩
  intro b0 b1 b2 b3
  refine ⟨_, str2ulong_eq_add b0 b1 b2 b3 [], ?_⟩
  apply long2str_of_bytes
  have h0 := b0.toNat_lt
  have h1 := b1.toNat_lt
  have h2 := b2.toNat_lt
  have h3 := b3.toNat_lt
  unfold uint32_to_int32
  split <;> push_cast <;> omega

/-- C12: for every four bytes with `c = str2ulong(s)`, `str2ulong_len(s)` is `c`
modulo `2^31` (bit 31 cleared), and `str2ulong_key(s)` is `0x10` if bit 31 of
`c` is clear and `0` if it is set; bit 31 is set exactly when `2^31 <= c`. -/
theorem str2ulong_len_key_bit31 :
    ∀ (b0 b1 b2 b3 : UInt8) (rest : List UInt8),
      ∃ c, str2ulong (b0 :: b1 :: b2 :: b3 :: rest) = some c ∧
        str2ulong_len (b0 :: b1 :: b2 :: b3 :: rest) = some (c % 2 ^ 31) ∧
        str2ulong_key (b0 :: b1 :: b2 :: b3 :: rest)
          = some (if c.testBit 31 = true then 0 else 0x10) ∧
        (c.testBit 31 = true ↔ 2 ^ 31 ≤ c) := by
  intro b0 b1 b2 b3 rest
  have h0 := b0.toNat_lt
  have h1 := b1.toNat_lt
  have h2 := b2.toNat_lt
  have h3 := b3.toNat_lt
  refine ⟨_, str2ulong_eq_add b0 b1 b2 b3 rest, ?_, ?_, ?_⟩
  · unfold str2ulong_len
    rw [str2ulong_eq_add]
    show some (_ &&& (2 ^ 31 - 1)) = _
    rw [Nat.and_pow_two_sub_one_eq_mod]
  · unfold str2ulong_key
    rw [str2ulong_eq_add]
    show some (if _ &&& 2 ^ 31 ≠ 0 then 0 else 16) = _
    rw [Nat.and_two_pow]
    cases hb : (b0.toNat + 256 * b1.toNat + 65536 * b2.toNat + 16777216 * b3.toNat).testBit 31
      <;> simp
  · rw [Nat.testBit_to_div_mod, decide_eq_true_eq]
    omega

/-! ### Chunk output -/

theorem write_at_length (d : List UInt8) (o : Nat) (a : List UInt8) :
    (write_at d o a).length = max d.length (o + a.length) := by
  unfold write_at
  simp only [List.length_append, List.length_take, List.length_replicate, List.length_drop]
  omega

theorem write_at_nil (d : List UInt8) (o : Nat) (h : o ≤ d.length) : write_at d o [] = d := by
  unfold write_at
  rw [Nat.sub_eq_zero_of_le h]
  simp

theorem write_at_write_at (d : List UInt8) (o : Nat) (a b : List UInt8) :
    write_at (write_at d o a) (o + a.length) b = write_at d o (a ++ b) := by
  have hl := write_at_length d o a
  have hp : (d.take o ++ List.replicate (o - d.length) 0 ++ a).length = o + a.length := by
    simp only [List.length_append, List.length_take, List.length_replicate]
    omega
  have e1 : write_at d o a
      = (d.take o ++ List.replicate (o - d.length) 0 ++ a) ++ d.drop (o + a.length) := rfl
  have ht : (write_at d o a).take (o + a.length)
      = d.take o ++ List.replicate (o - d.length) 0 ++ a := by
    rw [e1, ← hp, List.take_left]
  have hd : (write_at d o a).drop (o + a.length + b.length) = d.drop (o + (a ++ b).length) := by
    rw [e1, ← hp, ← List.drop_drop, List.drop_left, hp, List.drop_drop, List.length_append]
    congr 1
    omega
  have hz : o + a.length - (write_at d o a).length = 0 := by omega
  show (write_at d o a).take (o + a.length)
      ++ List.replicate (o + a.length - (write_at d o a).length) 0 ++ b
      ++ (write_at d o a).drop (o + a.length + b.length) = _
  rw [ht, hd, hz]
  unfold write_at
  simp

theorem write_at_end (d a : List UInt8) : write_at d d.length a = d ++ a := by
  unfold write_at
  simp

/-- The bounds check of `plat_write` in terms of the length of `buf`. -/
theorem plat_write_def (fdes : plat_file) (buf : List UInt8) (count : Int) :
    plat_write fdes buf count
      = if buf.length < plat_write_count fdes count then none
        else if plat_write_count fdes count = 0 then some (if count = 0 then 0 else -1, fdes)
        else
          some ((plat_write_count fdes count : Int),
            { fdes with
              data := write_at fdes.data fdes.offset (buf.take (plat_write_count fdes count))
              offset := fdes.offset + plat_write_count fdes count }) := by
  unfold plat_write
  have h : ((buf.take (plat_write_count fdes count)).length < plat_write_count fdes count)
      ↔ (buf.length < plat_write_count fdes count) := by
    rw [List.length_take]
    omega
  by_cases hc : buf.length < plat_write_count fdes count
  · rw [if_pos (h.mpr hc), if_pos hc]
  · rw [if_neg (fun x => hc (h.mp x)), if_neg hc]

/-- A write that the buffer and the device can serve in full. -/
theorem plat_write_full (fdes : plat_file) (buf : List UInt8) (count : Int) (h0 : 0 ≤ count)
    (hbuf : count ≤ (buf.length : Int))
    (hroom : ∀ l, fdes.limit = some l → (fdes.offset : Int) + count ≤ (l : Int))
    (hin : 0 < count ∨ fdes.offset ≤ fdes.data.length) :
    plat_write fdes buf count = some (count,
      { fdes with
        data := write_at fdes.data fdes.offset (buf.take count.toNat)
        offset := fdes.offset + count.toNat }) := by
  have hc : plat_write_count fdes count = count.toNat := by
    unfold plat_write_count
    rw [if_pos h0]
    cases hl : fdes.limit with
    | none => rfl
    | some l =>
      have := hroom l hl
      simp only []
      omega
  rw [plat_write_def]
  rw [hc, if_neg (by omega)]
  by_cases hz : count.toNat = 0
  · have hcz : count = 0 := by omega
    rw [if_pos hz, if_pos hcz]
    subst hcz
    have hle : fdes.offset ≤ fdes.data.length := by
      rcases hin with h | h
      · omega
      · exact h
    simp [write_at_nil _ _ hle]
  · rw [if_neg hz, Int.toNat_of_nonneg h0]

/-- A write that the device cannot serve in full comes back short. -/
theorem plat_write_short (fdes : plat_file) (buf : List UInt8) (count : Int) (l : Nat)
    (hpos : 0 < count) (hbuf : count ≤ (buf.length : Int)) (hl : fdes.limit = some l)
    (hroom : (l : Int) < (fdes.offset : Int) + count) :
    ∃ r f, plat_write fdes buf count = some (r, f) ∧ r ≠ count ∧ f.limit = fdes.limit := by
  have h0 : 0 ≤ count := by omega
  have hc : plat_write_count fdes count = min count.toNat (l - fdes.offset) := by
    unfold plat_write_count
    rw [if_pos h0, hl]
  have hm1 : min count.toNat (l - fdes.offset) ≤ count.toNat := Nat.min_le_left _ _
  have hm2 : min count.toNat (l - fdes.offset) ≤ l - fdes.offset := Nat.min_le_right _ _
  have hct : (count.toNat : Int) = count := Int.toNat_of_nonneg h0
  rw [plat_write_def]
  rw [hc, if_neg (by omega)]
  by_cases hz : min count.toNat (l - fdes.offset) = 0
  · rw [if_pos hz, if_neg (by omega)]
    exact ⟨_, _, rfl, by omega, rfl⟩
  · rw [if_neg hz]
    exact ⟨_, _, rfl, by omega, rfl⟩

theorem PAD_EVEN_eq (x : Int) : PAD_EVEN x = x + x % 2 := by
  unfold PAD_EVEN
  omega

theorem long2str_length (n : Int) : (long2str n).length = 4 := rfl

theorem plat_seek_set_nonneg (f : plat_file) (pos : Int) (h : 0 ≤ pos) :
    (plat_seek_set f pos).2 = { f with offset := pos.toNat } := by
  unfold plat_seek_set
  rw [if_neg (by omega)]

/-- The bytes of a chunk: tag, little-endian length, payload, and a zero byte
after a payload of odd length. -/
theorem chunk_bytes_length (tag data : List UInt8) (length : Int) (htag : 4 ≤ tag.length)
    (h0 : 0 ≤ length) (hdata : length ≤ (data.length : Int)) :
    ((tag.take 4 ++ long2str length ++ data.take length.toNat
      ++ (if length % 2 = 1 then [0] else []) : List UInt8).length : Int)
      = 8 + PAD_EVEN length := by
  rw [PAD_EVEN_eq]
  split
  · simp only [List.length_append, List.length_take, long2str_length, List.length_singleton]
    push_cast
    omega
  · simp only [List.length_append, List.length_take, long2str_length, List.length_nil]
    push_cast
    omega

/-- What `avi_add_chunk` does when the device has room for the whole chunk. -/
theorem avi_add_chunk_eq (AVI : avi_t) (AVI_errno : Int) (tag data : List UInt8)
    (length : Int) (htag : 4 ≤ tag.length) (h0 : 0 ≤ length)
    (hdata : length ≤ (data.length : Int))
    (hroom : ∀ l, AVI.fdes.limit = some l →
      (AVI.fdes.offset : Int) + (8 + PAD_EVEN length) ≤ (l : Int)) :
    avi_add_chunk AVI AVI_errno tag data length
      = some { ret := 0, AVI := chunk_stored AVI tag data length, AVI_errno := AVI_errno } := by
  have hpe := PAD_EVEN_eq length
  have hclen := chunk_bytes_length tag data length htag h0 hdata
  have hhdr : (tag.take 4 ++ long2str length).length = 8 := by
    rw [List.length_append, List.length_take, long2str_length]
    omega
  have w1 := plat_write_full AVI.fdes (tag.take 4 ++ long2str length) 8 (by omega)
    (by rw [hhdr]; rfl) (fun l hl => by have := hroom l hl; omega) (Or.inl (by omega))
  have e8 : (8 : Int).toNat = 8 := rfl
  rw [e8, List.take_of_length_le (show (tag.take 4 ++ long2str length).length ≤ 8 by omega)] at w1
  have w2 := plat_write_full
    { AVI.fdes with
      data := write_at AVI.fdes.data AVI.fdes.offset (tag.take 4 ++ long2str length)
      offset := AVI.fdes.offset + 8 } data length h0 hdata
    (fun l hl => by
      have := hroom l hl
      show ((AVI.fdes.offset + 8 : Nat) : Int) + length ≤ l
      omega)
    (Or.inr (by
      show AVI.fdes.offset + 8 ≤ (write_at _ _ _).length
      rw [write_at_length, hhdr]
      omega))
  have hw2d : write_at (write_at AVI.fdes.data AVI.fdes.offset (tag.take 4 ++ long2str length))
      (AVI.fdes.offset + 8) (data.take length.toNat)
      = write_at AVI.fdes.data AVI.fdes.offset
          (tag.take 4 ++ long2str length ++ data.take length.toNat) := by
    rw [← hhdr, write_at_write_at]
  simp only [hw2d] at w2
  have hl2 : (tag.take 4 ++ long2str length ++ data.take length.toNat).length
      = 8 + length.toNat := by
    rw [List.length_append, hhdr, List.length_take]
    omega
  have w3 := plat_write_full
    { AVI.fdes with
      data := write_at AVI.fdes.data AVI.fdes.offset
        (tag.take 4 ++ long2str length ++ data.take length.toNat)
      offset := AVI.fdes.offset + 8 + length.toNat } [0] (length % 2) (by omega)
    (by show length % 2 ≤ ((1 : Nat) : Int); omega)
    (fun l hl => by
      have := hroom l hl
      show ((AVI.fdes.offset + 8 + length.toNat : Nat) : Int) + length % 2 ≤ l
      omega)
    (Or.inr (by
      show AVI.fdes.offset + 8 + length.toNat ≤ (write_at _ _ _).length
      rw [write_at_length, hl2]
      omega))
  have hpad : ([0] : List UInt8).take (length % 2).toNat
      = if length % 2 = 1 then [0] else [] := by
    rcases Int.emod_two_eq_zero_or_one length with h | h
    · rw [h, if_neg (by omega)]
      rfl
    · rw [h, if_pos rfl]
      rfl
  have hw3d : write_at (write_at AVI.fdes.data AVI.fdes.offset
        (tag.take 4 ++ long2str length ++ data.take length.toNat))
      (AVI.fdes.offset + 8 + length.toNat) (([0] : List UInt8).take (length % 2).toNat)
      = write_at AVI.fdes.data AVI.fdes.offset
          (tag.take 4 ++ long2str length ++ data.take length.toNat
            ++ (if length % 2 = 1 then [0] else [])) := by
    rw [hpad, Nat.add_assoc, ← hl2, write_at_write_at]
  simp only [hw3d] at w3
  have hres : avi_add_chunk AVI AVI_errno tag data length = some
      { ret := 0
        AVI := { AVI with
          fdes := { AVI.fdes with
            data := write_at AVI.fdes.data AVI.fdes.offset
              (tag.take 4 ++ long2str length ++ data.take length.toNat
                ++ (if length % 2 = 1 then [0] else []))
            offset := AVI.fdes.offset + 8 + length.toNat + (length % 2).toNat }
          pos := AVI.pos + (8 + PAD_EVEN length) }
        AVI_errno := AVI_errno } := by
    unfold avi_add_chunk
    rw [if_neg (by omega), w1]
    simp only [ne_eq, not_true_eq_false, if_false]
    rw [w2]
    simp only [ne_eq, not_true_eq_false, if_false]
    rw [w3]
    simp only [ne_eq, not_true_eq_false, if_false]
  rw [hres]
  have hoff : AVI.fdes.offset + 8 + length.toNat + (length % 2).toNat
      = AVI.fdes.offset + (8 + PAD_EVEN length).toNat := by
    omega
  unfold chunk_stored chunk_bytes
  rw [hoff]

theorem avi_add_chunk_ok (AVI : avi_t) (AVI_errno : Int) (tag data : List UInt8)
    (length : Int) (htag : 4 ≤ tag.length) (h0 : 0 ≤ length)
    (hdata : length ≤ (data.length : Int))
    (hroom : ∀ l, AVI.fdes.limit = some l →
      (AVI.fdes.offset : Int) + (8 + PAD_EVEN length) ≤ (l : Int)) :
    ∃ o chunk, avi_add_chunk AVI AVI_errno tag data length = some o ∧
      chunk = tag.take 4 ++ long2str length ++ data.take length.toNat
        ++ (if length % 2 = 1 then [0] else []) ∧
      (chunk.length : Int) = 8 + PAD_EVEN length ∧
      o.ret = 0 ∧ o.AVI_errno = AVI_errno ∧
      o.AVI = { AVI with
        fdes := { AVI.fdes with
          data := write_at AVI.fdes.data AVI.fdes.offset chunk
          offset := AVI.fdes.offset + chunk.length }
        pos := AVI.pos + (8 + PAD_EVEN length) } ∧
      (AVI.fdes.offset = AVI.fdes.data.length → o.AVI.fdes.data = AVI.fdes.data ++ chunk) := by
  have hclen := chunk_bytes_length tag data length htag h0 hdata
  refine ⟨_, _, avi_add_chunk_eq AVI AVI_errno tag data length htag h0 hdata hroom, rfl, hclen,
    rfl, rfl, ?_, ?_⟩
  · unfold chunk_stored chunk_bytes
    have : (tag.take 4 ++ long2str length ++ data.take length.toNat
        ++ (if length % 2 = 1 then [0] else [])).length = (8 + PAD_EVEN length).toNat := by
      omega
    rw [this]
  · intro hend
    show write_at _ _ _ = _
    rw [hend, write_at_end]
    rfl

/-- C13: when all three writes succeed (the call is well formed: four bytes of
tag, `0 <= length` bytes of data; and the device has room for
`8 + PAD_EVEN(length)` bytes at the offset of the descriptor), `avi_add_chunk`
returns 0 and leaves `AVI_errno` alone; the bytes stored at the offset of the
descriptor are exactly the tag (4), the little-endian length (4), the `length`
bytes of data and one zero byte iff `length` is odd, `8 + PAD_EVEN(length)`
bytes in all, appended to the file when the descriptor stands at its end; the
offset and `AVI->pos` advance by `8 + PAD_EVEN(length)` and no other field of
the handle changes. -/
theorem avi_add_chunk_success (AVI : avi_t) (AVI_errno : Int) (tag data : List UInt8)
    (length : Int) (htag : 4 ≤ tag.length) (h0 : 0 ≤ length)
    (hdata : length ≤ (data.length : Int))
    (hroom : ∀ l, AVI.fdes.limit = some l →
      (AVI.fdes.offset : Int) + (8 + PAD_EVEN length) ≤ (l : Int)) :
    ∃ o chunk, avi_add_chunk AVI AVI_errno tag data length = some o ∧
      chunk = tag.take 4 ++ long2str length ++ data.take length.toNat
        ++ (if length % 2 = 1 then [0] else []) ∧
      (chunk.length : Int) = 8 + PAD_EVEN length ∧
      o.ret = 0 ∧ o.AVI_errno = AVI_errno ∧
      o.AVI = { AVI with
        fdes := { AVI.fdes with
          data := write_at AVI.fdes.data AVI.fdes.offset chunk
          offset := AVI.fdes.offset + chunk.length }
        pos := AVI.pos + (8 + PAD_EVEN length) } ∧
      (AVI.fdes.offset = AVI.fdes.data.length → o.AVI.fdes.data = AVI.fdes.data ++ chunk) :=
  avi_add_chunk_ok AVI AVI_errno tag data length htag h0 hdata hroom

/-- Witness for `avi_add_chunk_success`: the chunk `00db` with the three bytes
1, 2, 3 on the handle that `AVI_open_output_file` returns. -/
theorem avi_add_chunk_success_witness :
    ∃ o, avi_add_chunk demo_open_avi 0 [48, 48, 100, 98] [1, 2, 3] 3 = some o ∧ o.ret = 0 ∧
      o.AVI.pos = 2060 ∧
      o.AVI.fdes.data = demo_open_avi.fdes.data ++ [48, 48, 100, 98, 3, 0, 0, 0, 1, 2, 3, 0] := by
  have hl : demo_open_avi.fdes.limit = none := by decide!
  obtain ⟨o, chunk, h1, hc, _, h2, _, h3, h4⟩ :=
    avi_add_chunk_success demo_open_avi 0 [48, 48, 100, 98] [1, 2, 3] 3 (by decide) (by decide)
      (by decide) (fun l h => by rw [hl] at h; cases h)
  refine ⟨o, h1, h2, ?_, ?_⟩
  · rw [h3]
    show demo_open_avi.pos + (8 + PAD_EVEN 3) = 2060
    decide!
  · rw [h4 (by decide!), hc]
    decide!

/-- C14: when one of the header, payload or pad writes of `avi_add_chunk` comes
back short (the device has no room for the `8 + PAD_EVEN(length)` bytes of the
chunk), the call returns -1, `AVI_errno` is the write-error code, the
descriptor has been sought back to `AVI->pos` as it was before the call, and
`AVI->pos` and every other field of the handle but the descriptor are
unchanged. -/
theorem avi_add_chunk_short_write (AVI : avi_t) (AVI_errno : Int) (tag data : List UInt8)
    (length : Int) (l : Nat) (htag : 4 ≤ tag.length) (h0 : 0 ≤ length)
    (hdata : length ≤ (data.length : Int)) (hpos : 0 ≤ AVI.pos)
    (hl : AVI.fdes.limit = some l)
    (hroom : (l : Int) < (AVI.fdes.offset : Int) + (8 + PAD_EVEN length)) :
    ∃ o f, avi_add_chunk AVI AVI_errno tag data length = some o ∧
      o.ret = -1 ∧ o.AVI_errno = AVI_ERR_WRITE ∧
      o.AVI = { AVI with fdes := f } ∧ (f.offset : Int) = AVI.pos ∧ o.AVI.pos = AVI.pos := by
  have hpe := PAD_EVEN_eq length
  have hhdr : (tag.take 4 ++ long2str length).length = 8 := by
    rw [List.length_append, List.length_take, long2str_length]
    omega
  have hfail : ∀ f : plat_file, ∃ f2, avi_add_chunk_fail AVI f
      = { ret := -1, AVI := { AVI with fdes := f2 }, AVI_errno := AVI_ERR_WRITE } ∧
      (f2.offset : Int) = AVI.pos := by
    intro f
    refine ⟨{ f with offset := AVI.pos.toNat }, ?_, ?_⟩
    · unfold avi_add_chunk_fail
      rw [plat_seek_set_nonneg f AVI.pos hpos]
    · show ((AVI.pos.toNat : Nat) : Int) = AVI.pos
      omega
  unfold avi_add_chunk
  rw [if_neg (by omega)]
  by_cases h1 : (l : Int) < (AVI.fdes.offset : Int) + 8
  · obtain ⟨r, f, hw, hr, _⟩ := plat_write_short AVI.fdes (tag.take 4 ++ long2str length) 8 l
      (by omega) (by rw [hhdr]; rfl) hl h1
    obtain ⟨f2, hf2, hoff⟩ := hfail f
    rw [hw]
    simp only [ne_eq, hr, not_false_eq_true, if_true, hf2]
    exact ⟨_, f2, rfl, rfl, rfl, rfl, hoff, rfl⟩
  · have w1 := plat_write_full AVI.fdes (tag.take 4 ++ long2str length) 8 (by omega)
      (by rw [hhdr]; rfl)
      (fun l2 hl2 => by
        rw [hl] at hl2
        have := Option.some.inj hl2
        omega)
      (Or.inl (by omega))
    rw [w1]
    simp only [ne_eq, not_true_eq_false, if_false]
    by_cases h2 : (l : Int) < (AVI.fdes.offset : Int) + 8 + length
    · obtain ⟨r, f, hw, hr, _⟩ := plat_write_short
        { AVI.fdes with
          data := write_at AVI.fdes.data AVI.fdes.offset
            ((tag.take 4 ++ long2str length).take (8 : Int).toNat)
          offset := AVI.fdes.offset + (8 : Int).toNat } data length l (by omega) hdata hl
        (by
          show (l : Int) < ((AVI.fdes.offset + 8 : Nat) : Int) + length
          omega)
      obtain ⟨f2, hf2, hoff⟩ := hfail f
      rw [hw]
      simp only [ne_eq, hr, not_false_eq_true, if_true, hf2]
      exact ⟨_, f2, rfl, rfl, rfl, rfl, hoff, rfl⟩
    · have w2 := plat_write_full
        { AVI.fdes with
          data := write_at AVI.fdes.data AVI.fdes.offset
            ((tag.take 4 ++ long2str length).take (8 : Int).toNat)
          offset := AVI.fdes.offset + (8 : Int).toNat } data length h0 hdata
        (fun l2 hl2 => by
          have hl3 : AVI.fdes.limit = some l2 := hl2
          rw [hl] at hl3
          have := Option.some.inj hl3
          show ((AVI.fdes.offset + 8 : Nat) : Int) + length ≤ l2
          omega)
        (Or.inr (by
          show AVI.fdes.offset + 8 ≤ (write_at _ _ _).length
          rw [write_at_length, List.length_take, hhdr]
          show AVI.fdes.offset + 8 ≤ max _ (AVI.fdes.offset + min 8 8)
          omega))
      rw [w2]
      simp only [ne_eq, not_true_eq_false, if_false]
      obtain ⟨r, f, hw, hr, _⟩ := plat_write_short
        { AVI.fdes with
          data := write_at (write_at AVI.fdes.data AVI.fdes.offset
            ((tag.take 4 ++ long2str length).take (8 : Int).toNat))
            (AVI.fdes.offset + (8 : Int).toNat) (data.take length.toNat)
          offset := AVI.fdes.offset + (8 : Int).toNat + length.toNat } [0] (length % 2) l
        (by omega) (by show length % 2 ≤ ((1 : Nat) : Int); omega) hl
        (by
          show (l : Int) < ((AVI.fdes.offset + 8 + length.toNat : Nat) : Int) + length % 2
          omega)
      obtain ⟨f2, hf2, hoff⟩ := hfail f
      rw [hw]
      simp only [ne_eq, hr, not_false_eq_true, if_true, hf2]
      exact ⟨_, f2, rfl, rfl, rfl, rfl, hoff, rfl⟩

/-- Witness for `avi_add_chunk_short_write`: a chunk of three bytes on a device
that has room for two bytes more than the 2048 bytes of the header. -/
theorem avi_add_chunk_short_write_witness :
    ∃ o, avi_add_chunk demo_full_avi 0 [48, 48, 100, 98] [1, 2, 3] 3 = some o ∧
      o.ret = -1 ∧ o.AVI_errno = AVI_ERR_WRITE ∧ (o.AVI.fdes.offset : Int) = demo_full_avi.pos ∧
      o.AVI.pos = demo_full_avi.pos := by
  obtain ⟨o, f, h1, h2, h3, h4, h5, h6⟩ :=
    avi_add_chunk_short_write demo_full_avi 0 [48, 48, 100, 98] [1, 2, 3] 3 2050 (by decide)
      (by decide) (by decide) (by decide) rfl (by decide)
  refine ⟨o, h1, h2, h3, ?_, h6⟩
  rw [h4]
  exact h5

/-! ### The OpenDML index -/

theorem or_bit31_lt (len : Nat) (h : len < 2 ^ 32) : len ||| 0x80000000 < 2 ^ 32 :=
  Nat.or_lt_two_pow h (by norm_num)

/-- C15: `avi_add_odml_index_entry_core(flags, p, l, si)` on a standard index in
the state the writer keeps it (`wLongsPerEntry = 2`, the array of `dwSize`
entries, `nEntriesInUse <= dwSize`) with a chunk length `l` of 32 bits: it
returns, stores exactly one entry at position `nEntriesInUse` with
`dwOffset = (p - qwBaseOffset + 8) mod 2^32` and `dwSize = l` if `flags = 0x10`
and `l | 0x80000000` otherwise, `nEntriesInUse` grows by one, the earlier
entries and the other fields of the index but the size of the array are
unchanged, and `max_len` becomes `max(max_len, l)`, no other field of the handle
changing. -/
theorem avi_add_odml_index_entry_core_appends (AVI : avi_t) (flags p : Int) (l : Nat)
    (si : avistdindex_chunk) (a : List avistdindex_entry)
    (hw : si.wLongsPerEntry = 2) (ha : si.aIndex = some a) (hlen : a.length = si.dwSize)
    (hn : si.nEntriesInUse ≤ si.dwSize) (hsz : si.dwSize + 4096 < 2 ^ 32) (hl : l < 2 ^ 32) :
    ∃ (a2 : List avistdindex_entry) (sz : Nat),
      avi_add_odml_index_entry_core AVI flags p l si
        = some ({ AVI with max_len := max AVI.max_len (l : Int) },
                { si with nEntriesInUse := si.nEntriesInUse + 1, dwSize := sz, aIndex := some a2 }) ∧
      a2[si.nEntriesInUse]? = some
        { dwOffset := ((p - (si.qwBaseOffset : Int) + 8) % 2 ^ 32).toNat
          dwSize := if flags = 0x10 then l else l ||| 0x80000000 } ∧
      (∀ k, k < si.nEntriesInUse → a2[k]? = a[k]?) ∧
      a2.length = sz ∧ si.nEntriesInUse + 1 ≤ sz := by
  have hn1 : (si.nEntriesInUse + 1) % 2 ^ 32 = si.nEntriesInUse + 1 :=
    Nat.mod_eq_of_lt (by omega)
  have hsize : (if flags ≠ 0x10 then l ||| 0x80000000 else l) % 2 ^ 32
      = if flags = 0x10 then l else l ||| 0x80000000 := by
    by_cases hf : flags = 0x10
    · rw [if_neg (not_not.mpr hf), if_pos hf, Nat.mod_eq_of_lt hl]
    · rw [if_pos hf, if_neg hf, Nat.mod_eq_of_lt (or_bit31_lt l hl)]
  have hml : (if (l : Int) > AVI.max_len then (l : Int) % 2 ^ 32 else AVI.max_len)
      = max AVI.max_len (l : Int) := by
    have : (l : Int) % 2 ^ 32 = l := Int.emod_eq_of_lt (by omega) (by exact_mod_cast hl)
    split
    · rw [this]
      omega
    · omega
  unfold avi_add_odml_index_entry_core
  rw [if_neg (by omega), hn1, hsize, hml, Nat.add_sub_cancel]
  by_cases hg : si.nEntriesInUse ≥ si.dwSize
  · have heq : si.nEntriesInUse = si.dwSize := by omega
    have hcap : (si.dwSize + 4096) % 2 ^ 32 * 4 * si.wLongsPerEntry / 8 = si.dwSize + 4096 := by
      rw [Nat.mod_eq_of_lt hsz, hw]
      omega
    have hre : (realloc_std si.aIndex ((si.dwSize + 4096) % 2 ^ 32 * 4 * si.wLongsPerEntry)).getD []
        = a ++ List.replicate 4096 ({} : avistdindex_entry) := by
      unfold realloc_std
      rw [hcap, ha]
      show a.take (si.dwSize + 4096) ++ List.replicate (si.dwSize + 4096 - a.length) _ = _
      rw [List.take_of_length_le (by omega), hlen, Nat.add_sub_cancel_left]
    simp only [if_pos hg, hre]
    unfold store_at
    rw [if_pos (by rw [List.length_append, List.length_replicate]; omega)]
    refine ⟨_, (si.dwSize + 4096) % 2 ^ 32, rfl, ?_, ?_, ?_, ?_⟩
    · rw [List.getElem?_set, if_pos rfl,
        if_pos (by rw [List.length_append, List.length_replicate]; omega)]
    · intro k hk
      rw [List.getElem?_set, if_neg (by omega), List.getElem?_append_left (by omega)]
    · rw [List.length_set, List.length_append, List.length_replicate, Nat.mod_eq_of_lt hsz]
      omega
    · rw [Nat.mod_eq_of_lt hsz]
      omega
  · simp only [if_neg hg, ha, Option.getD_some]
    unfold store_at
    rw [if_pos (by omega)]
    refine ⟨_, si.dwSize, rfl, ?_, ?_, ?_, ?_⟩
    · rw [List.getElem?_set, if_pos rfl, if_pos (by omega)]
    · intro k hk
      rw [List.getElem?_set, if_neg (by omega)]
    · rw [List.length_set]
      exact hlen
    · omega

/-- Witness for `avi_add_odml_index_entry_core_appends`: the first entry of the
standard index that `avi_add_std_index` sets up, for a keyframe of 3 bytes at
position 2048. -/
theorem avi_add_odml_index_entry_core_appends_witness :
    ∃ (a2 : List avistdindex_entry) (sz : Nat),
      avi_add_odml_index_entry_core demo_open_avi 0x10 2048 3
          (avi_add_std_index [105, 120, 48, 48] [48, 48, 100, 98] {})
        = some ({ demo_open_avi with max_len := max demo_open_avi.max_len 3 },
                { avi_add_std_index [105, 120, 48, 48] [48, 48, 100, 98] {} with
                  nEntriesInUse := 1, dwSize := sz, aIndex := some a2 }) ∧
      a2[0]? = some { dwOffset := 2056, dwSize := 3 } := by
  obtain ⟨a2, sz, h1, h2, _⟩ :=
    avi_add_odml_index_entry_core_appends demo_open_avi 0x10 2048 3
      (avi_add_std_index [105, 120, 48, 48] [48, 48, 100, 98] {})
      (List.replicate 4096 ({} : avistdindex_entry)) rfl rfl
      (by rw [List.length_replicate]; rfl) (by decide) (by decide) (by decide)
  exact ⟨a2, sz, h1, h2⟩

/-- A write of a positive count that returned the count had room on the
device and bytes in the buffer. -/
theorem plat_write_room (f f2 : plat_file) (buf : List UInt8) (count r : Int)
    (h : plat_write f buf count = some (r, f2)) (hr : r = count) (hpos : 0 < count) :
    (∀ l, f.limit = some l → (f.offset : Int) + count ≤ (l : Int)) ∧
    count ≤ (buf.length : Int) := by
  have hct : (count.toNat : Int) = count := Int.toNat_of_nonneg (by omega)
  rw [plat_write_def] at h
  split at h
  · cases h
  · rename_i hbuf
    split at h
    · rename_i hz
      have h2 := congrArg Prod.fst (Option.some.inj h)
      simp only [] at h2
      rw [if_neg (by omega)] at h2
      omega
    · have h2 := congrArg Prod.fst (Option.some.inj h)
      simp only [] at h2
      have hc : (plat_write_count f count : Int) = count := by rw [h2, hr]
      have hc2 : plat_write_count f count = count.toNat := by omega
      refine ⟨?_, by omega⟩
      intro l hl
      unfold plat_write_count at hc2
      rw [hl, if_pos (by omega)] at hc2
      simp only [] at hc2
      have : count.toNat ≤ l - f.offset := by
        rw [← hc2]
        exact Nat.min_le_right _ _
      omega

theorem plat_write_zero (f : plat_file) (buf : List UInt8) :
    plat_write f buf 0 = some (0, f) := by
  have hc : plat_write_count f 0 = 0 := by
    unfold plat_write_count
    cases f.limit with
    | none => rfl
    | some l => simp
  rw [plat_write_def]
  rw [hc, if_neg (Nat.not_lt_zero _), if_pos rfl, if_pos rfl]

/-- When `avi_add_chunk` returns 0 for a length that is not negative, the call
was well formed and the device had room for the chunk. -/
theorem avi_add_chunk_ret_zero (AVI : avi_t) (AVI_errno : Int) (tag data : List UInt8)
    (length : Int) (o : outcome) (h0 : 0 ≤ length)
    (h : avi_add_chunk AVI AVI_errno tag data length = some o) (hr : o.ret = 0) :
    4 ≤ tag.length ∧ length ≤ (data.length : Int) ∧
    ∀ l, AVI.fdes.limit = some l →
      (AVI.fdes.offset : Int) + (8 + PAD_EVEN length) ≤ (l : Int) := by
  have hpe := PAD_EVEN_eq length
  unfold avi_add_chunk at h
  split at h
  · cases h
  · rename_i htag
    split at h
    · cases h
    · rename_i w1 hw1
      split at h
      · rw [← Option.some.inj h] at hr
        cases hr
      · rename_i h1
        have h1 := not_not.mp h1
        obtain ⟨r1, _⟩ := plat_write_room AVI.fdes w1.2 _ 8 w1.1 hw1 h1 (by omega)
        have hhdr : (tag.take 4 ++ long2str length).length = 8 := by
          rw [List.length_append, List.length_take, long2str_length]
          omega
        have w1f := plat_write_full AVI.fdes (tag.take 4 ++ long2str length) 8 (by omega)
          (by rw [hhdr]; rfl) r1 (Or.inl (by omega))
        rw [w1f] at hw1
        have hw1e := Option.some.inj hw1
        split at h
        · cases h
        · rename_i w2 hw2
          split at h
          · rw [← Option.some.inj h] at hr
            cases hr
          · rename_i h2
            have h2 := not_not.mp h2
            have hoff1 : w1.2.offset = AVI.fdes.offset + 8 := by rw [← hw1e]; rfl
            have hlim1 : w1.2.limit = AVI.fdes.limit := by rw [← hw1e]
            by_cases hlz : length = 0
            · subst hlz
              refine ⟨by omega, by omega, ?_⟩
              intro l hl
              have := r1 l hl
              omega
            · obtain ⟨r2, hd2⟩ := plat_write_room w1.2 w2.2 data length w2.1 hw2 h2 (by omega)
              have w2f := plat_write_full w1.2 data length h0 hd2 r2 (Or.inl (by omega))
              rw [w2f] at hw2
              have hw2e := Option.some.inj hw2
              have hoff2 : w2.2.offset = AVI.fdes.offset + 8 + length.toNat := by
                rw [← hw2e, ← hoff1]
              have hlim2 : w2.2.limit = AVI.fdes.limit := by rw [← hw2e, ← hlim1]
              split at h
              · cases h
              · rename_i w3 hw3
                split at h
                · rw [← Option.some.inj h] at hr
                  cases hr
                · rename_i h3
                  have h3 := not_not.mp h3
                  refine ⟨by omega, hd2, ?_⟩
                  intro l hl
                  rcases Int.emod_two_eq_zero_or_one length with he | he
                  · have := r2 l (hlim1 ▸ hl)
                    omega
                  · obtain ⟨r3, _⟩ := plat_write_room w2.2 w3.2 [0] (length % 2) w3.1 hw3 h3
                      (by omega)
                    have := r3 l (hlim2 ▸ hl)
                    omega

/-! ### What the index bookkeeping leaves alone -/

theorem odml_frame_refl (A : avi_t) : odml_frame A A := ⟨rfl, fun _ => rfl⟩

theorem odml_frame_trans {A B C : avi_t} (h1 : odml_frame A B) (h2 : odml_frame B C) :
    odml_frame A C := by
  obtain ⟨a1, a2⟩ := h1
  obtain ⟨b1, b2⟩ := h2
  refine ⟨?_, fun j => ?_⟩
  · rw [b1, a1]
  · rw [b2 j, a2 j]

theorem riff_frame_refl (A : avi_t) : riff_frame A A := ⟨rfl, fun _ => rfl⟩

theorem riff_frame_trans {A B C : avi_t} (h1 : riff_frame A B) (h2 : riff_frame B C) :
    riff_frame A C := by
  obtain ⟨a1, a2⟩ := h1
  obtain ⟨b1, b2⟩ := h2
  refine ⟨?_, fun j => ?_⟩
  · rw [b1, a1]
  · rw [b2 j, a2 j]

theorem odml_frame_riff {A B : avi_t} (h : odml_frame A B) : riff_frame A B := by
  obtain ⟨a1, a2⟩ := h
  refine ⟨?_, a2⟩
  rw [a1]

theorem odml_frame_set_track (A : avi_t) (j : Nat) (x : Option avisuperindex_chunk) :
    odml_frame A (A.set_track j { A.track j with audio_superindex := x }) := by
  refine ⟨rfl, fun k => ?_⟩
  by_cases hk : k = j
  · subst hk
    simp [avi_t.set_track]
  · simp [avi_t.set_track, Function.update_noteq hk]

theorem odml_frame_video (A : avi_t) (x : Option avisuperindex_chunk) :
    odml_frame A { A with video_superindex := x } := ⟨rfl, fun _ => rfl⟩

theorem odml_init_frame (A B : avi_t) (tag : List UInt8) (h : odml_init A tag = some B) :
    odml_frame A B := by
  unfold odml_init at h
  split at h
  · split at h
    · rw [← Option.some.inj h]
      exact odml_frame_refl A
    · split at h
      · cases h
      · rw [← Option.some.inj h]
        exact odml_frame_set_track A _ _
  · split at h
    · rw [← Option.some.inj h]
      exact odml_frame_refl A
    · split at h
      · cases h
      · rw [← Option.some.inj h]
        exact odml_frame_video A _

theorem odml_rotate_add_audio_frame :
    ∀ (js : List Nat) (A B : avi_t), odml_rotate_add_audio js A = some B → odml_frame A B := by
  intro js
  induction js with
  | nil =>
    intro A B h
    rw [odml_rotate_add_audio] at h
    rw [← Option.some.inj h]
    exact odml_frame_refl A
  | cons j rest ih =>
    intro A B h
    rw [odml_rotate_add_audio] at h
    split at h
    · exact ih A B h
    · split at h
      · cases h
      · exact odml_frame_trans (odml_frame_set_track A j _) (ih _ B h)

theorem odml_base_audio_frame (cur : Int) :
    ∀ (js : List Nat) (A B : avi_t), odml_base_audio cur js A = some B → odml_frame A B := by
  intro js
  induction js with
  | nil =>
    intro A B h
    rw [odml_base_audio] at h
    rw [← Option.some.inj h]
    exact odml_frame_refl A
  | cons j rest ih =>
    intro A B h
    rw [odml_base_audio] at h
    split at h
    · exact ih A B h
    · split at h
      · cases h
      · exact odml_frame_trans (odml_frame_set_track A j _) (ih _ B h)

theorem core_frame (A : avi_t) (flags pos : Int) (len : Nat) (ch : avistdindex_chunk)
    (r : avi_t × avistdindex_chunk)
    (h : avi_add_odml_index_entry_core A flags pos len ch = some r) :
    r.1 = { A with max_len := r.1.max_len } := by
  unfold avi_add_odml_index_entry_core at h
  split at h
  · cases h
  · split at h
    · cases h
    · rw [← Option.some.inj h]

theorem odml_store_frame (A : avi_t) (e : Int) (tag : List UInt8) (flags : Int) (len : Nat)
    (o : outcome) (h : odml_store A e tag flags len = some o) :
    odml_frame A o.AVI ∧ o.ret = 0 ∧ o.AVI_errno = e := by
  unfold odml_store at h
  split at h
  · split at h
    · cases h
    · split at h
      · cases h
      · split at h
        · cases h
        · rename_i r hr
          have hc := core_frame _ _ _ _ _ _ hr
          rw [← Option.some.inj h]
          refine ⟨?_, rfl, rfl⟩
          have h1 : odml_frame A r.1 := by
            rw [hc]
            exact ⟨rfl, fun _ => rfl⟩
          exact odml_frame_trans h1 (odml_frame_set_track r.1 _ _)
  · split at h
    · cases h
    · split at h
      · cases h
      · split at h
        · cases h
        · rename_i r hr
          have hc := core_frame _ _ _ _ _ _ hr
          rw [← Option.some.inj h]
          refine ⟨?_, rfl, rfl⟩
          have h1 : odml_frame A r.1 := by
            rw [hc]
            exact ⟨rfl, fun _ => rfl⟩
          refine odml_frame_trans h1 ⟨rfl, fun _ => rfl⟩

theorem avi_add_chunk_frame (A : avi_t) (e : Int) (tag data : List UInt8) (length : Int)
    (o : outcome) (h : avi_add_chunk A e tag data length = some o) :
    o.AVI = { A with fdes := o.AVI.fdes, pos := o.AVI.pos } := by
  unfold avi_add_chunk at h
  split at h
  · cases h
  · split at h
    · cases h
    · split at h
      · rw [← Option.some.inj h]
        rfl
      · split at h
        · cases h
        · split at h
          · rw [← Option.some.inj h]
            rfl
          · split at h
            · cases h
            · split at h
              · rw [← Option.some.inj h]
                rfl
              · rw [← Option.some.inj h]

theorem riff_frame_of_chunk {A B : avi_t} (h : B = { A with fdes := B.fdes, pos := B.pos }) :
    riff_frame A B := by
  refine ⟨?_, fun j => ?_⟩
  · rw [h]
  · rw [h]

theorem avi_add_chunk_riff (A : avi_t) (e : Int) (tag data : List UInt8) (length : Int)
    (o : outcome) (h : avi_add_chunk A e tag data length = some o) : riff_frame A o.AVI :=
  riff_frame_of_chunk (avi_add_chunk_frame A e tag data length o h)

theorem avi_ixnn_entry_riff (A : avi_t) (e : Int) (ch : avistdindex_chunk)
    (en : avisuperindex_entry) (r : avi_t × Int × avisuperindex_entry)
    (h : avi_ixnn_entry A e ch en = some r) : riff_frame A r.1 := by
  unfold avi_ixnn_entry at h
  split at h
  · cases h
  · split at h
    · cases h
    · split at h
      · cases h
      · rename_i o ho
        rw [← Option.some.inj h]
        exact avi_add_chunk_riff _ _ _ _ _ _ ho

theorem odml_dump_audio_riff (k : Int) :
    ∀ (js : List Nat) (s t : avi_t × Int), odml_dump_audio k js s = some t →
      riff_frame s.1 t.1 := by
  intro js
  induction js with
  | nil =>
    intro s t h
    rw [odml_dump_audio] at h
    rw [← Option.some.inj h]
    exact riff_frame_refl _
  | cons j rest ih =>
    intro s t h
    rw [odml_dump_audio] at h
    split at h
    · exact ih s t h
    · split at h
      · split at h
        · cases h
        · rename_i r hr
          have h1 := avi_ixnn_entry_riff _ _ _ _ _ hr
          have h2 := ih _ t h
          exact riff_frame_trans h1
            (riff_frame_trans (odml_frame_riff (odml_frame_set_track r.1 j _)) h2)
      · cases h

theorem riff_frame_is_opendml {A B : avi_t} (h : riff_frame A B) :
    B.is_opendml = A.is_opendml := by
  rw [h.1]

theorem riff_frame_anum {A B : avi_t} (h : riff_frame A B) : B.anum = A.anum := by
  rw [h.1]

/-- The block that starts a new RIFF chunk increments `is_opendml` and goes on
to store the entry. -/
theorem odml_new_riff_opendml (A : avi_t) (e : Int) (cur : Int) (o : outcome)
    (h : odml_new_riff A e cur = some o) :
    o.AVI.is_opendml = A.is_opendml + 1 ∧ o.ret = 0 := by
  unfold odml_new_riff at h
  split at h
  · cases h
  · rename_i vsi hv
    split at h
    · rename_i ch en hch hen
      split at h
      · cases h
      · rename_i r hr
        have f1 := avi_ixnn_entry_riff _ _ _ _ _ hr
        split at h
        · cases h
        · rename_i d hd
          have f2 := odml_dump_audio_riff _ _ _ _ hd
          have f2' : riff_frame r.1 d.1 :=
            riff_frame_trans (odml_frame_riff (odml_frame_video r.1 _)) f2
          split at h
          · cases h
          · rename_i o3 ho3
            have f3 : riff_frame d.1 o3.AVI := by
              split at ho3
              · exact avi_add_chunk_riff _ _ _ _ _ _ ho3
              · rw [← Option.some.inj ho3]
                exact riff_frame_refl _
            split at h
            · cases h
            · rename_i o4 ho4
              have f4 := avi_add_chunk_riff _ _ _ _ _ _ ho4
              split at h
              · cases h
              · rename_i vsi4 hv4
                split at h
                · cases h
                · rename_i s4 hs4
                  split at h
                  · cases h
                  · rename_i A5 hA5
                    have f5 := odml_frame_riff (odml_base_audio_frame _ _ _ _ hA5)
                    have f5' : riff_frame o4.AVI A5 :=
                      riff_frame_trans (odml_frame_riff (odml_frame_video o4.AVI _)) f5
                    have hall : riff_frame A A5 :=
                      riff_frame_trans f1 (riff_frame_trans f2'
                        (riff_frame_trans f3 (riff_frame_trans f4 f5')))
                    rw [← Option.some.inj h]
                    exact ⟨by rw [← riff_frame_is_opendml hall], rfl⟩
    · cases h

/-- What `avi_add_odml_index_entry` leaves alone when it returns 0 without
having started a new RIFF chunk. -/
theorem avi_add_odml_index_entry_frame (A : avi_t) (e : Int) (tag : List UInt8) (flags : Int)
    (len : Nat) (o : outcome) (h : avi_add_odml_index_entry A e tag flags len = some o)
    (hr : o.ret = 0) (hod : o.AVI.is_opendml = A.is_opendml) :
    odml_frame A o.AVI ∧ o.AVI_errno = e := by
  unfold avi_add_odml_index_entry at h
  split at h
  · cases h
  · rename_i A1 hA1
    have f1 := odml_init_frame _ _ _ hA1
    split at h
    · cases h
    · rename_i tw htw
      split at h
      · cases h
      · rename_i r hrot
        split at h
        · rw [← Option.some.inj h] at hr
          rename_i hne
          exact absurd hr hne
        · have hs := odml_store_frame _ _ _ _ _ _ h
          have hod1 : A1.is_opendml = A.is_opendml :=
            riff_frame_is_opendml (odml_frame_riff f1)
          have hod2 : o.AVI.is_opendml = r.AVI.is_opendml :=
            riff_frame_is_opendml (odml_frame_riff hs.1)
          -- the rotation block
          have key : odml_frame A1 r.AVI ∧ r.AVI_errno = e := by
            unfold odml_rotate at hrot
            split at hrot
            · rw [← Option.some.inj hrot]
              exact ⟨odml_frame_refl _, rfl⟩
            · rename_i vsi hv
              split at hrot
              · split at hrot
                · rw [← Option.some.inj hrot]
                  exact ⟨odml_frame_video _ _, rfl⟩
                · split at hrot
                  · cases hrot
                  · rename_i s hs2
                    split at hrot
                    · cases hrot
                    · rename_i A2 hA2
                      have fa := odml_rotate_add_audio_frame _ _ _ hA2
                      have fa' : odml_frame A1 A2 :=
                        odml_frame_trans (odml_frame_video A1 _) fa
                      split at hrot
                      · have hn := (odml_new_riff_opendml _ _ _ _ hrot).1
                        have : A2.is_opendml = A1.is_opendml :=
                          riff_frame_is_opendml (odml_frame_riff fa')
                        omega
                      · rw [← Option.some.inj hrot]
                        exact ⟨fa', rfl⟩
              · rw [← Option.some.inj hrot]
                exact ⟨odml_frame_refl _, rfl⟩
          exact ⟨odml_frame_trans f1 (odml_frame_trans key.1 hs.1), by rw [hs.2.2, key.2]⟩

/-! ### What a successful write does -/

theorem uint32_to_int32_small (n : Nat) (h : n < 2 ^ 31) :
    uint32_to_int32 (n % 2 ^ 32) = (n : Int) := by
  unfold uint32_to_int32
  rw [Nat.mod_eq_of_lt (by omega), if_pos h]

/-- What `avi_add_index_entry` does: the record is stored at `idx[n_idx]`, the
records stored before stay, `n_idx` grows by one; nothing but the legacy index
and `max_len` changes. -/
theorem store_at_some {α : Type} (X : List α) (n : Nat) (e : α) (a : List α)
    (h : store_at X n e = some a) : n < X.length ∧ a = X.set n e := by
  unfold store_at at h
  split at h
  · rename_i hlt
    exact ⟨hlt, (Option.some.inj h).symm⟩
  · cases h

theorem avi_add_index_entry_effect (A A1 : avi_t) (tag : List UInt8) (flags : Int)
    (pos len : Nat) (h : avi_add_index_entry A tag flags pos len = some A1) :
    0 ≤ A.n_idx ∧
    A1 = { A with idx := A1.idx, max_idx := A1.max_idx, n_idx := A.n_idx + 1,
                  max_len := A1.max_len } ∧
    ∃ a, A1.idx = some a ∧
      a[A.n_idx.toNat]? = some (tag.take 4 ++ long2str flags ++ long2str pos ++ long2str len) ∧
      ∀ k x, k < A.n_idx.toNat → (A.idx.getD [])[k]? = some x → a[k]? = some x := by
  unfold avi_add_index_entry at h
  split at h
  · cases h
  · rename_i hn
    split at h
    · cases h
    · rename_i a hst
      obtain ⟨hlt, ha⟩ := store_at_some _ _ _ _ hst
      rw [← Option.some.inj h]
      refine ⟨by omega, rfl, a, rfl, ?_, ?_⟩
      · rw [ha, List.getElem?_set, if_pos rfl, if_pos hlt]
      · intro k x hk hx
        have hk2 : k < (A.idx.getD []).length := by
          rcases Nat.lt_or_ge k (A.idx.getD []).length with h1 | h1
          · exact h1
          · rw [List.getElem?_eq_none h1] at hx
            cases hx
        rw [ha, List.getElem?_set, if_neg (by omega)]
        by_cases hge : A.n_idx ≥ A.max_idx
        · rw [if_pos hge] at hlt ⊢
          unfold realloc_idx at hlt ⊢
          simp only [Option.getD_some, List.length_append, List.length_take,
            List.length_replicate] at hlt ⊢
          rw [List.getElem?_append_left (by rw [List.length_take]; omega),
            List.getElem?_take_of_lt (by omega)]
          exact hx
        · rw [if_neg hge]
          exact hx

theorem odml_frame_fields {A B : avi_t} (h : odml_frame A B) :
    B.fdes = A.fdes ∧ B.pos = A.pos ∧ B.idx = A.idx ∧ B.n_idx = A.n_idx ∧
    B.max_idx = A.max_idx ∧ B.is_opendml = A.is_opendml ∧ B.anum = A.anum ∧
    B.aptr = A.aptr ∧ B.mode = A.mode ∧ B.video_frames = A.video_frames := by
  obtain ⟨h1, _⟩ := h
  refine ⟨?_, ?_, ?_, ?_, ?_, ?_, ?_, ?_, ?_, ?_⟩ <;> rw [h1]

/-- What a call of `plat_write_data` that returns 0 does on a handle that is
not, and does not become, an OpenDML file: one record is added to the legacy
index, with the write position as its offset, and the chunk is stored at the
offset of the descriptor. -/
theorem plat_write_data_effect (A : avi_t) (e : Int) (data : List UInt8) (length : Nat)
    (audio : Bool) (keyframe : Int) (o : outcome)
    (h : plat_write_data A e data length audio keyframe = some o) (hr : o.ret = 0)
    (hod0 : A.is_opendml = 0) (hod1 : o.AVI.is_opendml = 0) (hlen : length < 2 ^ 31) :
    chunk_written A o.AVI audio keyframe data length ∧ o.AVI_errno = e := by
  unfold chunk_written
  unfold plat_write_data at h
  split at h
  · cases h
  · rename_i A1 hA1
    unfold write_legacy_entry at hA1
    rw [if_pos hod0] at hA1
    obtain ⟨hn, hA1e, a, ha, hent, hold⟩ := avi_add_index_entry_effect _ _ _ _ _ _ hA1
    split at h
    · cases h
    · rename_i o1 ho1
      split at h
      · rw [← Option.some.inj h] at hr
        cases hr
      · rename_i hret1
        have hret1 := not_not.mp hret1
        split at h
        · cases h
        · rename_i o2 ho2
          have hi := uint32_to_int32_small length hlen
          rw [hi] at ho2
          have fr2 := avi_add_chunk_frame _ _ _ _ _ _ ho2
          split at h
          · rw [← Option.some.inj h] at hr
            cases hr
          · rename_i hret2
            have hret2 := not_not.mp hret2
            have ho : o.AVI = o2.AVI ∧ o.AVI_errno = o2.AVI_errno := by
              rw [← Option.some.inj h]
              exact ⟨rfl, rfl⟩
            have hod2 : o2.AVI.is_opendml = o1.AVI.is_opendml := by rw [fr2]
            have hA1od : A1.is_opendml = A.is_opendml := by rw [hA1e]
            obtain ⟨f1, he1⟩ := avi_add_odml_index_entry_frame _ _ _ _ _ _ ho1 hret1
              (by rw [← hod2, ← ho.1, hod1, hA1od, hod0])
            obtain ⟨g1, g2, g3, g4, g5, g6, g7, g8, g9, g10⟩ := odml_frame_fields f1
            obtain ⟨htag, hdata, hroom⟩ := avi_add_chunk_ret_zero _ _ _ _ _ _
              (Int.natCast_nonneg _) ho2 hret2
            obtain ⟨o3, chunk, ho3, hchunk, hclen, _, herr3, hAVI3, _⟩ :=
              avi_add_chunk_ok o1.AVI o1.AVI_errno _ data (length : Int) htag
                (Int.natCast_nonneg _) hdata hroom
            rw [ho3] at ho2
            have ho23 := Option.some.inj ho2
            subst ho23
            have hfd : A1.fdes = A.fdes := by rw [hA1e]
            have hps : A1.pos = A.pos := by rw [hA1e]
            have hcb : chunk = chunk_bytes (write_tag A.aptr audio) data length := by
              rw [hchunk]
              rfl
            refine ⟨⟨hn, ?_, ⟨a, ?_, ?_, hold⟩, ?_, ?_, ?_, by omega, ?_, ?_, ?_, ?_, ?_, ?_⟩, ?_⟩
            · rw [ho.1, hAVI3]
              show o1.AVI.n_idx = _
              rw [g4, hA1e]
            · rw [ho.1, hAVI3]
              show o1.AVI.idx = _
              rw [g3, ha]
            · rw [hent]
              rfl
            · rw [ho.1, hAVI3]
              show ({ o1.AVI.fdes with data := _, offset := _ } : plat_file) = _
              rw [g1, hfd, hcb]
            · rw [ho.1, hAVI3]
              show o1.AVI.pos + _ = _
              rw [g2, hps]
            · rw [← hcb]
              exact hclen
            · rw [ho.1, hAVI3]
              show o1.AVI.anum = _
              rw [g7, hA1e]
            · rw [ho.1, hAVI3]
              show o1.AVI.aptr = _
              rw [g8, hA1e]
            · rw [ho.1, hAVI3]
              show o1.AVI.mode = _
              rw [g9, hA1e]
            · rw [ho.1, hAVI3]
              show o1.AVI.video_frames = _
              rw [g10, hA1e]
            · rw [hod1, hod0]
            · intro j
              rw [ho.1, hAVI3]
              show o1.AVI.track j = _
              rw [f1.2 j, hA1e]
            · rw [ho.2, herr3, he1]

theorem write_at_read (d : List UInt8) (o : Nat) (c : List UInt8) :
    ((write_at d o c).drop o).take c.length = c := by
  have hp : (d.take o ++ List.replicate (o - d.length) 0).length = o := by
    simp only [List.length_append, List.length_take, List.length_replicate]
    omega
  have e1 : write_at d o c
      = (d.take o ++ List.replicate (o - d.length) 0) ++ (c ++ d.drop (o + c.length)) := by
    unfold write_at
    simp only [List.append_assoc]
  have hdrop := List.drop_left (d.take o ++ List.replicate (o - d.length) 0)
    (c ++ d.drop (o + c.length))
  rw [hp] at hdrop
  rw [e1, hdrop, List.take_left]

theorem chunk_bytes_take8 (tag data : List UInt8) (length : Int) (htag : 4 ≤ tag.length) :
    (chunk_bytes tag data length).take 8 = tag.take 4 ++ long2str length := by
  have hhdr : (tag.take 4 ++ long2str length).length = 8 := by
    rw [List.length_append, List.length_take, long2str_length]
    omega
  unfold chunk_bytes
  rw [List.append_assoc, ← hhdr, List.take_left]

theorem take_take_drop (l : List UInt8) (o n m : Nat) (h : n ≤ m) :
    ((l.drop o).take m).take n = (l.drop o).take n := by
  rw [List.take_take, Nat.min_eq_left h]

theorem long2str_natCast_mod (n : Nat) :
    str2ulong (long2str (n : Int)) = some (n % 2 ^ 32) := by
  rw [str2ulong_long2str]
  congr 1

theorem snprintf_wb_length (v : Nat) : (snprintf_wb v).length = 4 := by
  unfold snprintf_wb
  rw [List.length_take, List.length_append]
  show min 4 (_ + 4) = 4
  omega

theorem write_tag_length (aptr : Nat) (audio : Bool) : (write_tag aptr audio).length = 4 := by
  unfold write_tag
  cases audio
  · rfl
  · exact snprintf_wb_length _

theorem long_to_ulong_small (x : Int) (h0 : 0 ≤ x) (h1 : x < 2 ^ 31) :
    long_to_ulong x = x.toNat := by
  unfold long_to_ulong
  rw [Int.emod_eq_of_lt h0 (by omega)]

/-- What a call of `AVI_write_frame` that returns 0 does on a handle that is
not, and does not become, an OpenDML file. -/
theorem AVI_write_frame_effect (A : avi_t) (e : Int) (data : List UInt8) (bytes keyframe : Int)
    (o : outcome) (h : AVI_write_frame A e data bytes keyframe = some o) (hr : o.ret = 0)
    (hod0 : A.is_opendml = 0) (hod1 : o.AVI.is_opendml = 0) (hb0 : 0 ≤ bytes)
    (hb1 : bytes < 2 ^ 31) :
    ∃ B, chunk_written A B false keyframe data bytes.toNat ∧
      o.AVI = { B with last_pos := A.pos, last_len := bytes % 2 ^ 32,
                       video_frames := B.video_frames + 1 } ∧
      o.AVI_errno = e ∧ A.mode ≠ AVI_MODE_READ := by
  unfold AVI_write_frame at h
  split at h
  · rw [← Option.some.inj h] at hr
    cases hr
  · rename_i hmode
    rw [long_to_ulong_small bytes hb0 hb1] at h
    split at h
    · cases h
    · rename_i o1 ho1
      split at h
      · rw [← Option.some.inj h] at hr
        cases hr
      · rename_i hret
        have hret := not_not.mp hret
        have ho := Option.some.inj h
        have hod : o1.AVI.is_opendml = 0 := by
          rw [← ho] at hod1
          exact hod1
        obtain ⟨hw, he⟩ := plat_write_data_effect A e data bytes.toNat false keyframe o1 ho1
          hret hod0 hod (by omega)
        refine ⟨o1.AVI, hw, ?_, ?_, hmode⟩
        · rw [← ho]
        · rw [← ho]
          exact he

/-- What a call of `AVI_write_audio` that returns 0 does on a handle that is
not, and does not become, an OpenDML file. -/
theorem AVI_write_audio_effect (A : avi_t) (e : Int) (data : List UInt8) (bytes : Int)
    (o : outcome) (h : AVI_write_audio A e data bytes = some o) (hr : o.ret = 0)
    (hod0 : A.is_opendml = 0) (hod1 : o.AVI.is_opendml = 0) (hb0 : 0 ≤ bytes)
    (hb1 : bytes < 2 ^ 31) :
    ∃ B, chunk_written A B true 0 data bytes.toNat ∧
      o.AVI = B.set_track B.aptr
        { B.track B.aptr with
          audio_bytes := (B.track B.aptr).audio_bytes + bytes
          audio_chunks := (B.track B.aptr).audio_chunks + 1 } ∧
      o.AVI_errno = e ∧ A.mode ≠ AVI_MODE_READ := by
  unfold AVI_write_audio at h
  split at h
  · rw [← Option.some.inj h] at hr
    cases hr
  · rename_i hmode
    rw [long_to_ulong_small bytes hb0 hb1] at h
    split at h
    · cases h
    · rename_i o1 ho1
      split at h
      · rw [← Option.some.inj h] at hr
        cases hr
      · rename_i hret
        have hret := not_not.mp hret
        have ho := Option.some.inj h
        have hod : o1.AVI.is_opendml = 0 := by
          rw [← ho] at hod1
          exact hod1
        obtain ⟨hw, he⟩ := plat_write_data_effect A e data bytes.toNat true 0 o1 ho1
          hret hod0 hod (by omega)
        refine ⟨o1.AVI, hw, ?_, ?_, hmode⟩
        · rw [← ho]
        · rw [← ho]
          exact he

theorem drop_append_of_length {α : Type} (a b : List α) (n : Nat) (h : a.length = n) :
    (a ++ b).drop n = b := by
  subst h
  exact List.drop_left a b

theorem take_append_of_length {α : Type} (a b : List α) (n : Nat) (h : a.length = n) :
    (a ++ b).take n = a := by
  subst h
  exact List.take_left a b

theorem str2ulong_long2str_append (n : Int) (rest : List UInt8) :
    str2ulong (long2str n ++ rest) = some (n % 2 ^ 32).toNat := by
  have := str2ulong_long2str n
  unfold long2str at this ⊢
  rw [str2ulong_eq_add] at this
  show str2ulong (_ :: _ :: _ :: _ :: rest) = _
  rw [str2ulong_eq_add]
  exact this

theorem idx1_record_offset (tag : List UInt8) (flags : Int) (pos len : Nat)
    (htag : 4 ≤ tag.length) :
    (idx1_record tag flags pos len).take 4 = tag.take 4 ∧
    str2ulong ((idx1_record tag flags pos len).drop 4) = some (flags % 2 ^ 32).toNat ∧
    str2ulong ((idx1_record tag flags pos len).drop 8) = some (pos % 2 ^ 32) ∧
    str2ulong ((idx1_record tag flags pos len).drop 12) = some (len % 2 ^ 32) := by
  have h4 : (tag.take 4).length = 4 := by
    rw [List.length_take]
    omega
  have h8 : (tag.take 4 ++ long2str flags).length = 8 := by
    rw [List.length_append, h4, long2str_length]
  have h12 : (tag.take 4 ++ long2str flags ++ long2str pos).length = 12 := by
    rw [List.length_append, h8, long2str_length]
  have e1 : idx1_record tag flags pos len
      = tag.take 4 ++ (long2str flags ++ (long2str pos ++ long2str len)) := by
    unfold idx1_record
    simp only [List.append_assoc]
  have e2 : idx1_record tag flags pos len
      = (tag.take 4 ++ long2str flags) ++ (long2str pos ++ long2str len) := by
    unfold idx1_record
    simp only [List.append_assoc]
  have e3 : idx1_record tag flags pos len
      = (tag.take 4 ++ long2str flags ++ long2str pos) ++ long2str len := rfl
  refine ⟨?_, ?_, ?_, ?_⟩
  · rw [e1, take_append_of_length _ _ 4 h4]
  · rw [e1, drop_append_of_length _ _ 4 h4, str2ulong_long2str_append]
  · rw [e2, drop_append_of_length _ _ 8 h8, str2ulong_long2str_append]
    rfl
  · rw [e3, drop_append_of_length _ _ 12 h12]
    exact long2str_natCast_mod len

theorem option_eq_some_getD {α : Type} (x : Option α) (d : α) (h : x.isSome = true) :
    x = some (x.getD d) := by
  cases x with
  | none => cases h
  | some v => rfl

theorem demo_one_frame_eq :
    AVI_write_frame demo_open_avi 0 [1, 2, 3] 3 1 = some demo_one_frame_outcome := by
  have h1 : demo_open = some demo_open_avi := option_eq_some_getD _ _ (by decide!)
  have h2 : demo_one_frame = some demo_one_frame_outcome := option_eq_some_getD _ _ (by decide!)
  unfold demo_one_frame at h2
  rw [h1, Option.some_bind] at h2
  exact h2

/-- C17, as the code has it: for every successful `AVI_write_frame` or
`AVI_write_audio` on a handle that is not, and does not become, an OpenDML file
and whose descriptor stands at the write position, the offset field of the
legacy index record added by the call is the write position before the call
(modulo `2^32`), which is the absolute file offset at which the 8-byte header of
the chunk (tag and length) has been stored. -/
theorem idx1_offset_is_absolute_position :
    (∀ (A : avi_t) (e : Int) (data : List UInt8) (bytes keyframe : Int) (o : outcome),
      AVI_write_frame A e data bytes keyframe = some o → o.ret = 0 →
      A.is_opendml = 0 → o.AVI.is_opendml = 0 → 0 ≤ bytes → bytes < 2 ^ 31 →
      0 ≤ A.pos → (A.fdes.offset : Int) = A.pos →
      ∃ a record, o.AVI.idx = some a ∧ a[A.n_idx.toNat]? = some record ∧
        record.take 4 = [48, 48, 100, 98] ∧
        str2ulong (record.drop 8) = some (A.pos.toNat % 2 ^ 32) ∧
        (o.AVI.fdes.data.drop A.pos.toNat).take 8 = [48, 48, 100, 98] ++ long2str bytes) ∧
    (∀ (A : avi_t) (e : Int) (data : List UInt8) (bytes : Int) (o : outcome),
      AVI_write_audio A e data bytes = some o → o.ret = 0 →
      A.is_opendml = 0 → o.AVI.is_opendml = 0 → 0 ≤ bytes → bytes < 2 ^ 31 →
      0 ≤ A.pos → (A.fdes.offset : Int) = A.pos →
      ∃ a record, o.AVI.idx = some a ∧ a[A.n_idx.toNat]? = some record ∧
        record.take 4 = snprintf_wb (A.aptr + 1) ∧
        str2ulong (record.drop 8) = some (A.pos.toNat % 2 ^ 32) ∧
        (o.AVI.fdes.data.drop A.pos.toNat).take 8
          = snprintf_wb (A.aptr + 1) ++ long2str bytes) := by
  have key : ∀ (A B : avi_t) (audio : Bool) (keyframe : Int) (data : List UInt8) (bytes : Int),
      chunk_written A B audio keyframe data bytes.toNat → 0 ≤ bytes → bytes < 2 ^ 31 →
      0 ≤ A.pos → (A.fdes.offset : Int) = A.pos →
      ∃ a record, B.idx = some a ∧ a[A.n_idx.toNat]? = some record ∧
        record.take 4 = write_tag A.aptr audio ∧
        str2ulong (record.drop 8) = some (A.pos.toNat % 2 ^ 32) ∧
        (B.fdes.data.drop A.pos.toNat).take 8 = write_tag A.aptr audio ++ long2str bytes := by
    intro A B audio keyframe data bytes hw hb0 hb1 hpos hoff
    obtain ⟨_, _, ⟨a, ha, hrec, _⟩, hfd, _, hclen, _⟩ := hw
    have htl := write_tag_length A.aptr audio
    obtain ⟨r1, _, r3, _⟩ := idx1_record_offset (write_tag A.aptr audio)
      (write_flags audio keyframe) (long_to_ulong A.pos) bytes.toNat (by omega)
    have hoff2 : A.fdes.offset = A.pos.toNat := by omega
    have hcl8 : 8 ≤ (chunk_bytes (write_tag A.aptr audio) data (bytes.toNat : Int)).length := by
      have := PAD_EVEN_eq (bytes.toNat : Int)
      omega
    refine ⟨a, _, ha, hrec, ?_, ?_, ?_⟩
    · rw [r1, List.take_of_length_le (by omega)]
    · rw [r3]
      congr 1
      unfold long_to_ulong
      have h64 : A.pos % 2 ^ 64 = ((A.pos.toNat % 2 ^ 64 : Nat) : Int) := by omega
      rw [h64, Int.toNat_natCast]
      omega
    · rw [hfd]
      show ((write_at _ _ _).drop _).take 8 = _
      rw [← hoff2, ← take_take_drop _ _ 8 _ hcl8, write_at_read, chunk_bytes_take8 _ _ _ (by omega),
        List.take_of_length_le (by omega), Int.toNat_of_nonneg hb0]
  refine ⟨?_, ?_⟩
  · intro A e data bytes keyframe o h hr hod0 hod1 hb0 hb1 hpos hoff
    obtain ⟨B, hw, ho, _, _⟩ := AVI_write_frame_effect A e data bytes keyframe o h hr hod0 hod1
      hb0 hb1
    obtain ⟨a, record, h1, h2, h3, h4, h5⟩ := key A B false keyframe data bytes hw hb0 hb1 hpos hoff
    refine ⟨a, record, ?_, h2, h3, h4, ?_⟩
    · rw [ho]
      exact h1
    · rw [ho]
      exact h5
  · intro A e data bytes o h hr hod0 hod1 hb0 hb1 hpos hoff
    obtain ⟨B, hw, ho, _, _⟩ := AVI_write_audio_effect A e data bytes o h hr hod0 hod1 hb0 hb1
    obtain ⟨a, record, h1, h2, h3, h4, h5⟩ := key A B true 0 data bytes hw hb0 hb1 hpos hoff
    refine ⟨a, record, ?_, h2, h3, h4, ?_⟩
    · rw [ho]
      exact h1
    · rw [ho]
      exact h5

/-- C17, at the first frame of a session: the record has the offset 2048 and
the chunk header is at file offset 2048. -/
theorem idx1_offset_is_absolute_position_witness :
    ∃ a record, demo_one_frame_outcome.AVI.idx = some a ∧
      a[demo_open_avi.n_idx.toNat]? = some record ∧
      record.take 4 = [48, 48, 100, 98] ∧
      str2ulong (record.drop 8) = some (demo_open_avi.pos.toNat % 2 ^ 32) ∧
      (demo_one_frame_outcome.AVI.fdes.data.drop demo_open_avi.pos.toNat).take 8
        = [48, 48, 100, 98] ++ long2str 3 :=
  idx1_offset_is_absolute_position.1 demo_open_avi 0 [1, 2, 3] 3 1 demo_one_frame_outcome
    demo_one_frame_eq (by decide!) (by decide!) (by decide!) (by decide) (by decide)
    (by decide!) (by decide!)

/-- C17 as the spec has it fails at the first frame of a session: after
`AVI_open_output_file` and one `AVI_write_frame`, the chunk `00db` stands at
file offset 2048, right after the 2048 bytes kept for the header that ends
with the `LIST ... movi` header, and the offset field of its index record is
2048: the absolute file position, not the offset of the chunk from the start
of the data of the `movi` list, which no choice of that start in the last 12
bytes of the header makes more than 12. -/
theorem idx1_offset_not_relative_to_movi :
    demo_one_frame.map (fun o => o.ret) = some 0 ∧
    demo_one_frame.bind (fun o => o.AVI.idx.bind (fun a => a[0]?.bind
      (fun record => str2ulong (record.drop 8)))) = some 2048 ∧
    demo_one_frame.map (fun o => (o.AVI.fdes.data.drop 2048).take 8)
      = some [48, 48, 100, 98, 3, 0, 0, 0] ∧
    demo_one_frame.map (fun o => o.AVI.fdes.data.length) = some 2060 ∧
    ∀ movi_data : Nat, 2036 ≤ movi_data → movi_data ≤ 2048 → 2048 - movi_data ≠ 2048 := by
  refine ⟨by decide!, by decide!, by decide!, by decide!, ?_⟩
  intro m h1 h2
  omega

/-! ### Running a write -/

/-- `plat_write_data` on a device without limit, once the index bookkeeping has
returned 0: the chunk is stored. -/
theorem plat_write_data_exec (A : avi_t) (e : Int) (data : List UInt8) (len : Nat)
    (audio : Bool) (keyframe : Int) (o1 : outcome)
    (h1 : write_index_entries A e audio keyframe len = some o1) (hr : o1.ret = 0)
    (hlim : o1.AVI.fdes.limit = none) (hlen : len < 2 ^ 31) (hdata : len ≤ data.length) :
    plat_write_data A e data len audio keyframe
      = some { ret := 0
               AVI := chunk_stored o1.AVI (write_tag A.aptr audio) data len
               AVI_errno := o1.AVI_errno } := by
  unfold write_index_entries at h1
  unfold plat_write_data
  cases hA1 : write_legacy_entry A audio keyframe len with
  | none =>
    rw [hA1] at h1
    cases h1
  | some A1 =>
    rw [hA1, Option.some_bind] at h1
    simp only []
    rw [h1]
    simp only [hr, ne_eq, not_true_eq_false, if_false]
    rw [uint32_to_int32_small len hlen,
      avi_add_chunk_eq o1.AVI o1.AVI_errno (write_tag A.aptr audio) data (len : Int)
        (by rw [write_tag_length]) (Int.natCast_nonneg _) (by exact_mod_cast hdata)
        (fun l hl => by rw [hlim] at hl; cases hl)]
    simp only [ne_eq, not_true_eq_false, if_false]

/-- `AVI_write_audio` on a device without limit, once the index bookkeeping has
returned 0. -/
theorem AVI_write_audio_exec (A : avi_t) (e : Int) (data : List UInt8) (bytes : Int)
    (o1 : outcome) (hmode : A.mode ≠ AVI_MODE_READ) (hb0 : 0 ≤ bytes) (hb1 : bytes < 2 ^ 31)
    (h1 : write_index_entries A e true 0 bytes.toNat = some o1) (hr : o1.ret = 0)
    (hlim : o1.AVI.fdes.limit = none) (hdata : bytes ≤ (data.length : Int)) :
    AVI_write_audio A e data bytes
      = some { ret := 0
               AVI := write_audio_result A o1.AVI data bytes
               AVI_errno := o1.AVI_errno } := by
  unfold AVI_write_audio
  rw [if_neg hmode, long_to_ulong_small bytes hb0 hb1,
    plat_write_data_exec A e data bytes.toNat true 0 o1 h1 hr hlim (by omega) (by omega)]
  simp only [ne_eq, not_true_eq_false, if_false]
  rfl

/-- `AVI_write_frame` on a device without limit, once the index bookkeeping has
returned 0. -/
theorem AVI_write_frame_exec (A : avi_t) (e : Int) (data : List UInt8) (bytes keyframe : Int)
    (o1 : outcome) (hmode : A.mode ≠ AVI_MODE_READ) (hb0 : 0 ≤ bytes) (hb1 : bytes < 2 ^ 31)
    (h1 : write_index_entries A e false keyframe bytes.toNat = some o1) (hr : o1.ret = 0)
    (hlim : o1.AVI.fdes.limit = none) (hdata : bytes ≤ (data.length : Int)) :
    AVI_write_frame A e data bytes keyframe
      = some { ret := 0
               AVI := write_frame_result A o1.AVI data bytes
               AVI_errno := o1.AVI_errno } := by
  unfold AVI_write_frame
  rw [if_neg hmode, long_to_ulong_small bytes hb0 hb1,
    plat_write_data_exec A e data bytes.toNat false keyframe o1 h1 hr hlim (by omega) (by omega)]
  simp only [ne_eq, not_true_eq_false, if_false]
  rfl

theorem write_at_before (d : List UInt8) (o : Nat) (c : List UInt8) (x n : Nat)
    (h1 : x + n ≤ o) (h2 : o ≤ d.length) :
    ((write_at d o c).drop x).take n = (d.drop x).take n := by
  unfold write_at
  rw [Nat.sub_eq_zero_of_le h2]
  simp only [List.replicate_zero, List.append_nil, List.append_assoc]
  rw [List.drop_append_of_le_length (by rw [List.length_take]; omega),
    List.take_append_of_le_length (by rw [List.length_drop, List.length_take]; omega),
    List.drop_take, List.take_take]
  congr 1
  omega


theorem run_eq_done {α : Type} (x : Option (run α)) (d : α) (h : run.returned x = true) :
    x = some (run.done (run.get d x)) := by
  cases x with
  | none => cases h
  | some r =>
    cases r with
    | exit_1 => cases h
    | done a => rfl

/-! ### Rotation and the audio path -/

theorem odml_rotate_of_not_check (A : avi_t) (e : Int) (len : Nat) (tw : Int)
    (htw : odml_towrite A len = some tw) (h : ¬ rotation_check A len) :
    odml_rotate A e tw = some { ret := 0, AVI := A, AVI_errno := e } := by
  unfold odml_rotate
  cases hv : A.video_superindex with
  | none => rfl
  | some vsi =>
    simp only []
    rw [if_neg]
    intro hc
    apply h
    unfold rotation_check
    rw [hv, htw]
    exact hc

theorem entries_in_use_kept_refl (A : avi_t) : entries_in_use_kept A A :=
  ⟨Or.inl rfl, fun _ => Or.inl rfl⟩

theorem odml_first_use_count (a b c : List UInt8) (si : avisuperindex_chunk)
    (h : odml_first_use a b c = some si) : si.nEntriesInUse = 1 := by
  unfold odml_first_use at h
  split at h
  · cases h
  · rw [← Option.some.inj h]
    rfl

theorem odml_init_counts (A B : avi_t) (tag : List UInt8) (h : odml_init A tag = some B) :
    entries_in_use_kept A B := by
  unfold odml_init at h
  split at h
  · split at h
    · rw [← Option.some.inj h]
      exact entries_in_use_kept_refl A
    · rename_i hnone
      split at h
      · cases h
      · rename_i si hsi
        rw [← Option.some.inj h]
        refine ⟨Or.inl rfl, fun j => ?_⟩
        by_cases hj : j = A.aptr
        · right
          subst hj
          refine ⟨?_, ?_⟩
          · unfold audio_entries_in_use
            rw [hnone]
            rfl
          · unfold audio_entries_in_use avi_t.set_track
            simp only [Function.update_same, Option.map_some']
            rw [odml_first_use_count _ _ _ _ hsi]
        · left
          unfold audio_entries_in_use avi_t.set_track
          simp only [Function.update_noteq hj]
  · split at h
    · rw [← Option.some.inj h]
      exact entries_in_use_kept_refl A
    · rename_i hnone
      split at h
      · cases h
      · rename_i si hsi
        rw [← Option.some.inj h]
        refine ⟨Or.inr ⟨?_, ?_⟩, fun j => Or.inl rfl⟩
        · unfold video_entries_in_use
          rw [hnone]
          rfl
        · unfold video_entries_in_use
          simp only [Option.map_some']
          rw [odml_first_use_count _ _ _ _ hsi]

theorem odml_store_counts (A : avi_t) (e : Int) (tag : List UInt8) (flags : Int) (len : Nat)
    (o : outcome) (h : odml_store A e tag flags len = some o) :
    video_entries_in_use o.AVI = video_entries_in_use A ∧
    ∀ j, audio_entries_in_use o.AVI j = audio_entries_in_use A j := by
  unfold odml_store at h
  split at h
  · split at h
    · cases h
    · rename_i asi hasi
      split at h
      · cases h
      · split at h
        · cases h
        · rename_i r hr
          have hc := core_frame _ _ _ _ _ _ hr
          rw [← Option.some.inj h]
          refine ⟨?_, fun j => ?_⟩
          · show video_entries_in_use (r.1.set_track A.aptr _) = _
            unfold video_entries_in_use avi_t.set_track
            simp only []
            rw [hc]
          · by_cases hj : j = A.aptr
            · subst hj
              unfold audio_entries_in_use avi_t.set_track
              simp only [Function.update_same, Option.map_some']
              rw [hasi]
              rfl
            · unfold audio_entries_in_use avi_t.set_track
              simp only [Function.update_noteq hj]
              rw [hc]
  · split at h
    · cases h
    · rename_i vsi hvsi
      split at h
      · cases h
      · split at h
        · cases h
        · rename_i r hr
          have hc := core_frame _ _ _ _ _ _ hr
          rw [← Option.some.inj h]
          refine ⟨?_, fun j => ?_⟩
          · unfold video_entries_in_use
            simp only [Option.map_some']
            rw [hvsi]
            rfl
          · unfold audio_entries_in_use
            simp only []
            rw [hc]

theorem entries_in_use_kept_of_eq {A B C : avi_t} (h : entries_in_use_kept A B)
    (hv : video_entries_in_use C = video_entries_in_use B)
    (ha : ∀ j, audio_entries_in_use C j = audio_entries_in_use B j) :
    entries_in_use_kept A C := by
  refine ⟨?_, fun j => ?_⟩
  · rw [hv]
    exact h.1
  · rw [ha j]
    exact h.2 j

theorem entries_in_use_kept_of_eq_left {A B C : avi_t} (h : entries_in_use_kept B C)
    (hv : video_entries_in_use B = video_entries_in_use A)
    (ha : ∀ j, audio_entries_in_use B j = audio_entries_in_use A j) :
    entries_in_use_kept A C := by
  refine ⟨?_, fun j => ?_⟩
  · rw [← hv]
    exact h.1
  · rw [← ha j]
    exact h.2 j

/-- What `plat_write_data` does when the rotation check of
`avi_add_odml_index_entry` fails. -/
theorem plat_write_data_no_rotation (A : avi_t) (e : Int) (data : List UInt8) (len : Nat)
    (audio : Bool) (keyframe : Int) (o : outcome)
    (h : plat_write_data A e data len audio keyframe = some o) (hlen : len < 2 ^ 31)
    (hchk : ∀ A1 A2, write_legacy_entry A audio keyframe len = some A1 →
      odml_init A1 (write_tag A.aptr audio) = some A2 → ¬ rotation_check A2 len) :
    o.AVI.is_opendml = A.is_opendml ∧ entries_in_use_kept A o.AVI ∧ o.AVI.aptr = A.aptr ∧
    (∀ j, o.AVI.track j = { A.track j with audio_superindex := (o.AVI.track j).audio_superindex }) ∧
    (o.ret = 0 → o.AVI.fdes = { A.fdes with
      data := write_at A.fdes.data A.fdes.offset (chunk_bytes (write_tag A.aptr audio) data len)
      offset := A.fdes.offset + (8 + PAD_EVEN len).toNat }) := by
  unfold plat_write_data at h
  split at h
  · cases h
  · rename_i A1 hA1
    have hA1f : A1.is_opendml = A.is_opendml ∧ A1.fdes = A.fdes ∧ A1.aptr = A.aptr ∧
        A1.video_superindex = A.video_superindex ∧ A1.track = A.track := by
      unfold write_legacy_entry at hA1
      split at hA1
      · obtain ⟨_, h1, _⟩ := avi_add_index_entry_effect _ _ _ _ _ _ hA1
        refine ⟨?_, ?_, ?_, ?_, ?_⟩ <;> rw [h1]
      · rw [← Option.some.inj hA1]
        exact ⟨rfl, rfl, rfl, rfl, rfl⟩
    obtain ⟨hA1o, hA1d, hA1p, hA1v, hA1t⟩ := hA1f
    split at h
    · cases h
    · rename_i o1 ho1
      unfold avi_add_odml_index_entry at ho1
      split at ho1
      · cases ho1
      · rename_i A2 hA2
        have hkept := odml_init_counts _ _ _ hA2
        have hfr := odml_frame_fields (odml_init_frame _ _ _ hA2)
        have hfrt := (odml_init_frame _ _ _ hA2).2
        split at ho1
        · cases ho1
        · rename_i tw htw
          rw [odml_rotate_of_not_check A2 e len tw htw (hchk A1 A2 hA1 hA2)] at ho1
          simp only [ne_eq, not_true_eq_false, if_false] at ho1
          obtain ⟨hsf, hsr, hse⟩ := odml_store_frame _ _ _ _ _ _ ho1
          obtain ⟨hsv, hsa⟩ := odml_store_counts _ _ _ _ _ _ ho1
          have hsff := odml_frame_fields hsf
          have hkept1 : entries_in_use_kept A o1.AVI := by
            refine entries_in_use_kept_of_eq_left (entries_in_use_kept_of_eq hkept hsv hsa) ?_ ?_
            · unfold video_entries_in_use
              rw [hA1v]
            · intro j
              unfold audio_entries_in_use
              rw [hA1t]
          have htr1 : ∀ j, o1.AVI.track j
              = { A.track j with audio_superindex := (o1.AVI.track j).audio_superindex } := by
            intro j
            rw [hsf.2 j, hfrt j, hA1t]
          rw [if_neg (by rw [hsr]; decide)] at h
          rw [uint32_to_int32_small len hlen] at h
          split at h
          · cases h
          · rename_i o2 ho2
            have hcf := avi_add_chunk_frame _ _ _ _ _ _ ho2
            have hfin : o.AVI = o2.AVI := by
              split at h <;> rw [← Option.some.inj h]
            have hret : o.ret = 0 → o2.ret = 0 := by
              intro hr
              by_contra hne
              rw [if_pos hne] at h
              rw [← Option.some.inj h] at hr
              cases hr
            rw [hfin]
            refine ⟨?_, ?_, ?_, ?_, ?_⟩
            · rw [hcf]
              show o1.AVI.is_opendml = _
              rw [hsff.2.2.2.2.2.1, hfr.2.2.2.2.2.1, hA1o]
            · refine entries_in_use_kept_of_eq hkept1 ?_ ?_
              · unfold video_entries_in_use
                rw [hcf]
              · intro j
                unfold audio_entries_in_use
                rw [hcf]
            · rw [hcf]
              show o1.AVI.aptr = _
              rw [hsff.2.2.2.2.2.2.2.1, hfr.2.2.2.2.2.2.2.1, hA1p]
            · intro j
              rw [hcf]
              exact htr1 j
            · intro hr
              obtain ⟨ht, hd, hroom⟩ := avi_add_chunk_ret_zero _ _ _ _ _ _
                (Int.natCast_nonneg _) ho2 (hret hr)
              rw [avi_add_chunk_eq _ _ _ _ _ ht (Int.natCast_nonneg _) hd hroom] at ho2
              rw [← Option.some.inj ho2]
              show (chunk_stored o1.AVI _ _ _).fdes = _
              unfold chunk_stored
              simp only []
              rw [hsff.1, hfr.1, hA1d]

theorem demo_open_eq : AVI_open_output_file none 0 = (some demo_open_avi, 0) := by
  have h1 : (AVI_open_output_file none 0).1 = some demo_open_avi :=
    option_eq_some_getD _ _ (by decide!)
  have h2 : (AVI_open_output_file none 0).2 = 0 := by decide!
  exact Prod.ext h1 h2

theorem run_pair_eq {α β : Type} (x : Option (run (α × β))) (d : α × β) (b : β)
    (h : run.returned x = true) (h2 : (run.get d x).2 = b) :
    x = some (run.done ((run.get d x).1, b)) := by
  rw [← h2]
  exact run_eq_done x d h

/-- `avi_update_header` on a device without limit: the header it has built is
written at the start of the file. -/
theorem avi_update_header_exec (A : avi_t) (e : Int) (hdr : List UInt8)
    (hb : avi_update_header_build A = some (run.done hdr)) (hlen : hdr.length = 2048)
    (hlim : A.fdes.limit = none) (hpos : 0 ≤ A.pos) :
    avi_update_header A e
      = some (run.done { ret := 0, AVI := header_written A hdr, AVI_errno := e }) := by
  unfold avi_update_header
  rw [hb]
  simp only []
  have hs0 : plat_seek_set A.fdes 0 = (0, { A.fdes with offset := 0 }) := by
    unfold plat_seek_set
    rw [if_neg (by decide)]
    rfl
  rw [hs0]
  simp only [lt_self_iff_false, if_false]
  have hw := plat_write_full { A.fdes with offset := 0 } hdr HEADERBYTES (by decide)
    (by rw [hlen]; decide) (fun l hl => by rw [show ({ A.fdes with offset := 0 } : plat_file).limit
      = A.fdes.limit from rfl, hlim] at hl; cases hl) (Or.inl (by decide))
  rw [hw]
  simp only [ne_eq, not_true_eq_false, if_false]
  have hs : ∀ f : plat_file, plat_seek_set f A.pos = (A.pos, { f with offset := A.pos.toNat }) := by
    intro f
    unfold plat_seek_set
    rw [if_neg (by omega)]
  rw [hs]
  simp only []
  rw [if_neg (by omega)]
  have ht : hdr.take HEADERBYTES.toNat = hdr := List.take_of_length_le (by rw [hlen]; decide)
  unfold header_written
  rw [ht]

/-- `AVI_set_audio` on a device without limit. -/
theorem AVI_set_audio_exec (A : avi_t) (e : Int) (channels rate bits format mp3rate : Int)
    (hdr : List UInt8) (hmode : A.mode ≠ AVI_MODE_READ) (hnum : A.anum + 1 ≤ AVI_MAX_TRACKS)
    (hb : avi_update_header_build (AVI_set_audio_fields A channels rate bits format mp3rate)
      = some (run.done hdr))
    (hlen : hdr.length = 2048) (hlim : A.fdes.limit = none) (hpos : 0 ≤ A.pos) :
    AVI_set_audio A e channels rate bits format mp3rate
      = some (run.done
          (header_written (AVI_set_audio_fields A channels rate bits format mp3rate) hdr, e)) := by
  unfold AVI_set_audio
  rw [if_pos hmode, if_neg (by omega),
    avi_update_header_exec _ e hdr hb hlen hlim hpos]

/-- `AVI_set_video` on a device without limit. -/
theorem AVI_set_video_exec (A : avi_t) (e : Int) (width height : Int) (fps : ℚ)
    (compressor hdr : List UInt8) (hmode : A.mode ≠ AVI_MODE_READ) (hc : 4 ≤ compressor.length)
    (hb : avi_update_header_build (AVI_set_video_fields A width height fps compressor)
      = some (run.done hdr))
    (hlen : hdr.length = 2048) (hlim : A.fdes.limit = none) (hpos : 0 ≤ A.pos) :
    AVI_set_video A e width height fps compressor
      = some (run.done (header_written (AVI_set_video_fields A width height fps compressor) hdr,
          e)) := by
  unfold AVI_set_video
  rw [if_pos hmode, if_neg (by omega),
    avi_update_header_exec _ e hdr hb hlen hlim hpos]

theorem demo_audio_header_eq :
    avi_update_header_build (AVI_set_audio_fields demo_open_avi 2 44100 16 1 0)
      = some (run.done demo_audio_header) ∧ demo_audio_header.length = 2048 :=
  ⟨run_eq_done _ [] (by decide!), by decide!⟩

theorem demo_audio_avi_eq :
    AVI_set_audio demo_open_avi 0 2 44100 16 1 0 = some (run.done (demo_audio_avi, 0)) :=
  AVI_set_audio_exec demo_open_avi 0 2 44100 16 1 0 demo_audio_header (by decide!) (by decide!)
    demo_audio_header_eq.1 demo_audio_header_eq.2 (by decide!) (by decide!)

theorem demo_audio_frame_index_eq :
    write_index_entries demo_audio_avi 0 false 1 (3 : Int).toNat = some demo_audio_frame_index :=
  option_eq_some_getD _ _ (by decide!)

theorem demo_audio_frame_avi_eq :
    AVI_write_frame demo_audio_avi 0 [1, 2, 3] 3 1
      = some { ret := 0, AVI := demo_audio_frame_avi, AVI_errno := 0 } := by
  have hexec := AVI_write_frame_exec demo_audio_avi 0 [1, 2, 3] 3 1 demo_audio_frame_index
    (by decide!) (by decide) (by decide) demo_audio_frame_index_eq (by decide!) (by decide!)
    (by decide)
  have he : demo_audio_frame_index.AVI_errno = 0 := by decide!
  rw [he] at hexec
  unfold demo_audio_frame_avi
  exact hexec

/-- C18, amended: a call of `AVI_write_audio` (of less than `2^31` bytes) for
which the rotation check of `avi_add_odml_index_entry` fails, the check being
made on the handle as it is after the legacy index entry and the first-use
initialisation of the track's super-index, leaves `is_opendml` alone and
increments no `nEntriesInUse` of a super-index (a super-index the call has
created has the 1 of its initialisation); where it returns 0, the only bytes it
has written are those of the audio chunk, at the offset of the descriptor. -/
theorem AVI_write_audio_no_rotation (A : avi_t) (e : Int) (data : List UInt8) (bytes : Int)
    (o : outcome) (h : AVI_write_audio A e data bytes = some o) (hb0 : 0 ≤ bytes)
    (hb1 : bytes < 2 ^ 31)
    (hchk : ∀ A1 A2, write_legacy_entry A true 0 bytes.toNat = some A1 →
      odml_init A1 (write_tag A.aptr true) = some A2 → ¬ rotation_check A2 bytes.toNat) :
    o.AVI.is_opendml = A.is_opendml ∧ entries_in_use_kept A o.AVI ∧
    (o.ret = 0 → o.AVI.fdes = { A.fdes with
      data := write_at A.fdes.data A.fdes.offset
        (chunk_bytes (write_tag A.aptr true) data bytes)
      offset := A.fdes.offset + (8 + PAD_EVEN bytes).toNat }) := by
  unfold AVI_write_audio at h
  split at h
  · rw [← Option.some.inj h]
    exact ⟨rfl, entries_in_use_kept_refl A, fun hr => by cases hr⟩
  · rw [long_to_ulong_small bytes hb0 hb1] at h
    split at h
    · cases h
    · rename_i o1 ho1
      obtain ⟨h1, h2, h3, h4, h5⟩ := plat_write_data_no_rotation A e data bytes.toNat true 0 o1
        ho1 (by omega) hchk
      have hbt : ((bytes.toNat : Nat) : Int) = bytes := Int.toNat_of_nonneg hb0
      rw [hbt] at h5
      split at h
      · rename_i hne
        rw [← Option.some.inj h]
        exact ⟨h1, h2, fun hr => by cases hr⟩
      · rename_i hz
        rw [← Option.some.inj h]
        refine ⟨h1, ?_, fun _ => h5 (not_not.mp hz)⟩
        refine entries_in_use_kept_of_eq h2 rfl (fun j => ?_)
        unfold audio_entries_in_use avi_t.set_track
        simp only []
        by_cases hj : j = o1.AVI.aptr
        · subst hj
          simp only [Function.update_same]
        · simp only [Function.update_noteq hj]

theorem demo_audio_small_index_eq :
    write_index_entries demo_audio_frame_avi 0 true 0 (2 : Int).toNat
      = some demo_audio_small_index :=
  option_eq_some_getD _ _ (by decide!)

theorem demo_audio_small_eq :
    AVI_write_audio demo_audio_frame_avi 0 [4, 5] 2
      = some { ret := 0
               AVI := write_audio_result demo_audio_frame_avi demo_audio_small_index.AVI [4, 5] 2
               AVI_errno := demo_audio_small_index.AVI_errno } :=
  AVI_write_audio_exec demo_audio_frame_avi 0 [4, 5] 2 demo_audio_small_index
    (by decide!) (by decide) (by decide) demo_audio_small_index_eq (by decide!) (by decide!)
    (by decide)

theorem demo_audio_small_check (A1 A2 : avi_t)
    (hA1 : write_legacy_entry demo_audio_frame_avi true 0 (2 : Int).toNat = some A1)
    (hA2 : odml_init A1 (write_tag demo_audio_frame_avi.aptr true) = some A2) :
    ¬ rotation_check A2 (2 : Int).toNat := by
  have hl : write_legacy_entry demo_audio_frame_avi true 0 (2 : Int).toNat
      = some ((write_legacy_entry demo_audio_frame_avi true 0 (2 : Int).toNat).getD {}) :=
    option_eq_some_getD _ _ (by decide!)
  have hin : odml_init ((write_legacy_entry demo_audio_frame_avi true 0 (2 : Int).toNat).getD {})
      (write_tag demo_audio_frame_avi.aptr true)
      = some ((odml_init ((write_legacy_entry demo_audio_frame_avi true 0 (2 : Int).toNat).getD {})
          (write_tag demo_audio_frame_avi.aptr true)).getD {}) :=
    option_eq_some_getD _ _ (by decide!)
  rw [hl] at hA1
  rw [← Option.some.inj hA1, hin] at hA2
  rw [← Option.some.inj hA2]
  decide!

/-- Witness for `AVI_write_audio_no_rotation`: after `AVI_open_output_file`,
`AVI_set_audio` and one `AVI_write_frame`, an `AVI_write_audio` of two bytes. -/
theorem AVI_write_audio_no_rotation_witness :
    ∃ o, AVI_write_audio demo_audio_frame_avi 0 [4, 5] 2 = some o ∧
      o.AVI.is_opendml = demo_audio_frame_avi.is_opendml ∧
      entries_in_use_kept demo_audio_frame_avi o.AVI :=
  ⟨_, demo_audio_small_eq,
    (AVI_write_audio_no_rotation demo_audio_frame_avi 0 [4, 5] 2 _ demo_audio_small_eq
      (by decide) (by decide) demo_audio_small_check).1,
    (AVI_write_audio_no_rotation demo_audio_frame_avi 0 [4, 5] 2 _ demo_audio_small_eq
      (by decide) (by decide) demo_audio_small_check).2.1⟩

theorem write_audio_result_is_opendml (A B : avi_t) (data : List UInt8) (bytes : Int) :
    (write_audio_result A B data bytes).is_opendml = B.is_opendml := rfl

theorem write_audio_result_video_entries (A B : avi_t) (data : List UInt8) (bytes : Int) :
    video_entries_in_use (write_audio_result A B data bytes) = video_entries_in_use B := rfl

theorem write_audio_result_audio_entries (A B : avi_t) (data : List UInt8) (bytes : Int)
    (j : Nat) :
    audio_entries_in_use (write_audio_result A B data bytes) j = audio_entries_in_use B j := by
  unfold audio_entries_in_use write_audio_result avi_t.set_track
  simp only []
  by_cases hj : j = B.aptr
  · subst hj
    simp only [Function.update_same]
  · simp only [Function.update_noteq hj]
    rfl

theorem write_audio_result_data (A B : avi_t) (data : List UInt8) (bytes : Int) :
    (write_audio_result A B data bytes).fdes.data
      = write_at B.fdes.data B.fdes.offset (chunk_bytes (write_tag A.aptr true) data bytes.toNat) :=
  rfl

theorem write_frame_result_is_opendml (A B : avi_t) (data : List UInt8) (bytes : Int) :
    (write_frame_result A B data bytes).is_opendml = B.is_opendml := rfl

theorem write_frame_result_video_entries (A B : avi_t) (data : List UInt8) (bytes : Int) :
    video_entries_in_use (write_frame_result A B data bytes) = video_entries_in_use B := rfl

theorem write_frame_result_audio_entries (A B : avi_t) (data : List UInt8) (bytes : Int)
    (j : Nat) :
    audio_entries_in_use (write_frame_result A B data bytes) j = audio_entries_in_use B j := rfl

theorem write_frame_result_data (A B : avi_t) (data : List UInt8) (bytes : Int) :
    (write_frame_result A B data bytes).fdes.data
      = write_at B.fdes.data B.fdes.offset (chunk_bytes (write_tag A.aptr false) data bytes.toNat) :=
  rfl

theorem demo_audio_big_index_eq :
    write_index_entries demo_audio_frame_avi 0 true 0 (2000000000 : Int).toNat
      = some demo_audio_big_index :=
  option_eq_some_getD _ _ (by decide!)

theorem demo_audio_big_eq :
    AVI_write_audio demo_audio_frame_avi 0 demo_big_chunk 2000000000
      = some { ret := 0
               AVI := write_audio_result demo_audio_frame_avi demo_audio_big_index.AVI
                 demo_big_chunk 2000000000
               AVI_errno := 0 } := by
  have h := AVI_write_audio_exec demo_audio_frame_avi 0 demo_big_chunk 2000000000
    demo_audio_big_index
    (by decide!) (by decide) (by decide) demo_audio_big_index_eq (by decide!) (by decide!)
    (by unfold demo_big_chunk; rw [List.length_replicate]; decide)
  have he : demo_audio_big_index.AVI_errno = 0 := by decide!
  rw [he] at h
  exact h


theorem demo_audio_big_offset : 2172 + 24 ≤ demo_audio_big_index.AVI.fdes.offset := by decide!

theorem demo_audio_big_length :
    demo_audio_big_index.AVI.fdes.offset ≤ demo_audio_big_index.AVI.fdes.data.length := by
  decide!

theorem demo_audio_big_riff :
    (demo_audio_big_index.AVI.fdes.data.drop 2172).take 24
      = [82, 73, 70, 70, 16, 0, 0, 0, 65, 86, 73, 88, 76, 73, 83, 84, 0, 0, 0, 0,
         109, 111, 118, 105] := by
  decide!

theorem write_audio_result_drop_take (A B : avi_t) (data : List UInt8) (bytes : Int)
    (x n : Nat) (h1 : x + n ≤ B.fdes.offset) (h2 : B.fdes.offset ≤ B.fdes.data.length) :
    ((write_audio_result A B data bytes).fdes.data.drop x).take n
      = (B.fdes.data.drop x).take n := by
  rw [write_audio_result_data]
  exact write_at_before _ _ _ x n h1 h2

theorem write_frame_result_drop_take (A B : avi_t) (data : List UInt8) (bytes : Int)
    (x n : Nat) (h1 : x + n ≤ B.fdes.offset) (h2 : B.fdes.offset ≤ B.fdes.data.length) :
    ((write_frame_result A B data bytes).fdes.data.drop x).take n
      = (B.fdes.data.drop x).take n := by
  rw [write_frame_result_data]
  exact write_at_before _ _ _ x n h1 h2

theorem demo_audio_big_avi_eq :
    AVI_write_audio demo_audio_frame_avi 0 demo_big_chunk 2000000000
      = some { ret := 0, AVI := demo_audio_big_avi, AVI_errno := 0 } :=
  demo_audio_big_eq

theorem demo_audio_frame_avi_is_opendml : demo_audio_frame_avi.is_opendml = 0 := by decide!

theorem demo_audio_frame_avi_video_entries :
    video_entries_in_use demo_audio_frame_avi = some 1 := by decide!

theorem demo_audio_big_avi_is_opendml : demo_audio_big_avi.is_opendml = 1 :=
  (write_audio_result_is_opendml demo_audio_frame_avi demo_audio_big_index.AVI demo_big_chunk
    2000000000).trans (by decide!)

theorem demo_audio_big_avi_video_entries : video_entries_in_use demo_audio_big_avi = some 2 :=
  (write_audio_result_video_entries demo_audio_frame_avi demo_audio_big_index.AVI demo_big_chunk
    2000000000).trans (by decide!)

theorem demo_audio_big_avi_audio_entries : audio_entries_in_use demo_audio_big_avi 0 = some 2 :=
  (write_audio_result_audio_entries demo_audio_frame_avi demo_audio_big_index.AVI demo_big_chunk
    2000000000 0).trans (by decide!)

theorem demo_audio_big_avi_riff :
    (demo_audio_big_avi.fdes.data.drop 2172).take 24
      = [82, 73, 70, 70, 16, 0, 0, 0, 65, 86, 73, 88, 76, 73, 83, 84, 0, 0, 0, 0,
         109, 111, 118, 105] :=
  (write_audio_result_drop_take demo_audio_frame_avi demo_audio_big_index.AVI demo_big_chunk
    2000000000 2172 24 demo_audio_big_offset demo_audio_big_length).trans demo_audio_big_riff

/-- C18 as the spec has it fails: after `AVI_open_output_file`,
`AVI_set_audio(AVI, 2, 44100, 16, 1, 0)` and `AVI_write_frame` of 3 bytes, a call
of `AVI_write_audio` with 2 000 000 000 bytes returns 0 and, the rotation check
being made for audio chunks as for frames, has incremented `nEntriesInUse` of
the video super-index from 1 to 2 and that of the track's super-index beyond
the 1 of its initialisation, has written the chunk `RIFF` with
`AVIXLIST....movi` (at file offset 2172, after the `ix00`, `ix01` and `idx1`
chunks) and has changed `is_opendml` from 0 to 1. -/
theorem AVI_write_audio_rotates :
    ∃ A0 A1 A2 A3,
      AVI_open_output_file none 0 = (some A0, 0) ∧
      AVI_set_audio A0 0 2 44100 16 1 0 = some (run.done (A1, 0)) ∧
      AVI_write_frame A1 0 [1, 2, 3] 3 1 = some { ret := 0, AVI := A2, AVI_errno := 0 } ∧
      AVI_write_audio A2 0 demo_big_chunk 2000000000
        = some { ret := 0, AVI := A3, AVI_errno := 0 } ∧
      A2.is_opendml = 0 ∧ A3.is_opendml = 1 ∧
      video_entries_in_use A2 = some 1 ∧ video_entries_in_use A3 = some 2 ∧
      audio_entries_in_use A3 0 = some 2 ∧
      (A3.fdes.data.drop 2172).take 24
        = [82, 73, 70, 70, 16, 0, 0, 0, 65, 86, 73, 88, 76, 73, 83, 84, 0, 0, 0, 0,
           109, 111, 118, 105] :=
  ⟨demo_open_avi, demo_audio_avi, demo_audio_frame_avi, demo_audio_big_avi, demo_open_eq,
    demo_audio_avi_eq, demo_audio_frame_avi_eq, demo_audio_big_avi_eq,
    demo_audio_frame_avi_is_opendml, demo_audio_big_avi_is_opendml,
    demo_audio_frame_avi_video_entries, demo_audio_big_avi_video_entries,
    demo_audio_big_avi_audio_entries, demo_audio_big_avi_riff⟩

/-! ### The limit of 32 standard indexes -/

theorem big_frames_steps :
    ∀ k < 31, (big_frames k).mode ≠ AVI_MODE_READ ∧
      (write_index_entries (big_frames k) 0 false 1 (2000000000 : Int).toNat).isSome = true ∧
      ((write_index_entries (big_frames k) 0 false 1 (2000000000 : Int).toNat).getD
        { ret := -1, AVI := {}, AVI_errno := 0 }).ret = 0 ∧
      ((write_index_entries (big_frames k) 0 false 1 (2000000000 : Int).toNat).getD
        { ret := -1, AVI := {}, AVI_errno := 0 }).AVI_errno = 0 ∧
      ((write_index_entries (big_frames k) 0 false 1 (2000000000 : Int).toNat).getD
        { ret := -1, AVI := {}, AVI_errno := 0 }).AVI.fdes.limit = none := by
  decide!

theorem demo_big_chunk_length : (2000000000 : Int) ≤ (demo_big_chunk.length : Int) := by
  unfold demo_big_chunk
  rw [List.length_replicate]
  decide

/-- Each of the first 31 calls of `AVI_write_frame` with 2 000 000 000 bytes
returns 0. -/
theorem big_frames_reach (k : Nat) (hk : k < 31) :
    AVI_write_frame (big_frames k) 0 demo_big_chunk 2000000000 1
      = some { ret := 0, AVI := big_frames (k + 1), AVI_errno := 0 } := by
  obtain ⟨hmode, hsome, hret, herr, hlim⟩ := big_frames_steps k hk
  have hexec := AVI_write_frame_exec (big_frames k) 0 demo_big_chunk 2000000000 1 _ hmode
    (by decide) (by decide) (option_eq_some_getD _ { ret := -1, AVI := {}, AVI_errno := 0 } hsome)
    hret hlim demo_big_chunk_length
  rw [herr] at hexec
  exact hexec

theorem big_frames_cap :
    video_entries_in_use (big_frames 31) = some 32 ∧ (big_frames 31).is_opendml = 31 ∧
    (big_frames 31).video_superindex.map (fun s => s.stdindex.length) = some 32 ∧
    (avi_close_output_file_dump (big_frames 31) 0).isNone = true ∧
    (AVI_write_frame (big_frames 31) 0 demo_big_chunk 2000000000 1).map
        (fun o => (o.ret, o.AVI_errno, video_entries_in_use o.AVI,
          decide (o.AVI.fdes.offset = (big_frames 31).fdes.offset),
          decide (o.AVI.pos = (big_frames 31).pos)))
      = some (-1, 0, some 33, true, true) := by
  decide!

/-- The first half of C19 holds: when the video super-index has 32 entries in
use and the rotation check succeeds, `avi_add_odml_index_entry` returns -1; it
has not called `avi_add_chunk`, has left `AVI_errno` alone and has left the
count at 33. -/
theorem avi_add_odml_index_entry_cap (A : avi_t) (e : Int) (tag : List UInt8) (flags : Int)
    (len : Nat) (A2 : avi_t) (vsi : avisuperindex_chunk) (tw : Int)
    (hinit : odml_init A tag = some A2) (hv : A2.video_superindex = some vsi)
    (h32 : vsi.nEntriesInUse = 32) (htw : odml_towrite A2 len = some tw)
    (hchk : A2.pos + tw > NEW_RIFF_THRES * 32) :
    avi_add_odml_index_entry A e tag flags len
      = some { ret := -1
               AVI := { A2 with video_superindex := some { vsi with nEntriesInUse := 33 } }
               AVI_errno := e } := by
  unfold avi_add_odml_index_entry
  rw [hinit]
  simp only []
  rw [htw]
  simp only []
  unfold odml_rotate
  rw [hv]
  simp only []
  rw [h32, if_pos hchk, if_pos (by decide)]
  simp only [ne_eq]
  rw [if_pos (by decide)]
  rfl

/-- C19 fails in its second half: 31 calls of `AVI_write_frame` with
2 000 000 000 bytes on a new file return 0 and leave the video super-index with
32 entries in use (each call starts a new RIFF chunk); `avi_close_output_file`
then accesses `stdindex[cur_std_idx + 1]` with `cur_std_idx + 1 = 32`, outside
the array of 32 standard indexes; and a 32nd such call of `AVI_write_frame`
returns -1 leaving `nEntriesInUse` at 33. -/
theorem stdindex_access_outside_array :
    ∃ S : Nat → avi_t,
      AVI_open_output_file none 0 = (some (S 0), 0) ∧
      (∀ k < 31, AVI_write_frame (S k) 0 demo_big_chunk 2000000000 1
        = some { ret := 0, AVI := S (k + 1), AVI_errno := 0 }) ∧
      video_entries_in_use (S 31) = some 32 ∧ (S 31).is_opendml ≠ 0 ∧
      (S 31).video_superindex.map (fun s => s.stdindex.length) = some 32 ∧
      avi_close_output_file_dump (S 31) 0 = none ∧
      ∃ o, AVI_write_frame (S 31) 0 demo_big_chunk 2000000000 1 = some o ∧ o.ret = -1 ∧
        video_entries_in_use o.AVI = some 33 := by
  obtain ⟨h1, h2, h3, h4, h5⟩ := big_frames_cap
  refine ⟨big_frames, demo_open_eq, big_frames_reach, h1, ?_, h3, ?_, ?_⟩
  · rw [h2]
    decide
  · exact Option.isNone_iff_eq_none.mp h4
  · cases ho : AVI_write_frame (big_frames 31) 0 demo_big_chunk 2000000000 1 with
    | none =>
      rw [ho] at h5
      cases h5
    | some o =>
      rw [ho] at h5
      have h6 := Option.some.inj h5
      exact ⟨o, rfl, congrArg Prod.fst h6, congrArg (fun p => p.2.2.1) h6⟩

/-! ### Base offsets after a rotation -/

theorem late_audio_steps :
    (demo_audio_avi.mode ≠ AVI_MODE_READ ∧
      (write_index_entries demo_audio_avi 0 false 1 (2000000000 : Int).toNat).isSome = true ∧
      ((write_index_entries demo_audio_avi 0 false 1 (2000000000 : Int).toNat).getD
        no_outcome).ret = 0 ∧
      ((write_index_entries demo_audio_avi 0 false 1 (2000000000 : Int).toNat).getD
        no_outcome).AVI_errno = 0 ∧
      ((write_index_entries demo_audio_avi 0 false 1 (2000000000 : Int).toNat).getD
        no_outcome).AVI.fdes.limit = none) ∧
    (late_audio_1.mode ≠ AVI_MODE_READ ∧
      (write_index_entries late_audio_1 0 true 0 (2 : Int).toNat).isSome = true ∧
      ((write_index_entries late_audio_1 0 true 0 (2 : Int).toNat).getD no_outcome).ret = 0 ∧
      ((write_index_entries late_audio_1 0 true 0 (2 : Int).toNat).getD no_outcome).AVI_errno = 0 ∧
      ((write_index_entries late_audio_1 0 true 0 (2 : Int).toNat).getD
        no_outcome).AVI.fdes.limit = none) ∧
    (late_audio_2.mode ≠ AVI_MODE_READ ∧
      (write_index_entries late_audio_2 0 false 1 (2000000000 : Int).toNat).isSome = true ∧
      ((write_index_entries late_audio_2 0 false 1 (2000000000 : Int).toNat).getD
        no_outcome).ret = 0 ∧
      ((write_index_entries late_audio_2 0 false 1 (2000000000 : Int).toNat).getD
        no_outcome).AVI_errno = 0 ∧
      ((write_index_entries late_audio_2 0 false 1 (2000000000 : Int).toNat).getD
        no_outcome).AVI.fdes.limit = none) := by
  decide!

theorem late_audio_1_eq :
    AVI_write_frame demo_audio_avi 0 demo_big_chunk 2000000000 1
      = some { ret := 0, AVI := late_audio_1, AVI_errno := 0 } := by
  obtain ⟨⟨hmode, hsome, hret, herr, hlim⟩, _, _⟩ := late_audio_steps
  have hexec := AVI_write_frame_exec demo_audio_avi 0 demo_big_chunk 2000000000 1 _ hmode
    (by decide) (by decide) (option_eq_some_getD _ no_outcome hsome) hret hlim
    demo_big_chunk_length
  rw [herr] at hexec
  exact hexec

theorem late_audio_2_eq :
    AVI_write_audio late_audio_1 0 [4, 5] 2
      = some { ret := 0, AVI := late_audio_2, AVI_errno := 0 } := by
  obtain ⟨_, ⟨hmode, hsome, hret, herr, hlim⟩, _⟩ := late_audio_steps
  have hexec := AVI_write_audio_exec late_audio_1 0 [4, 5] 2 _ hmode
    (by decide) (by decide) (option_eq_some_getD _ no_outcome hsome) hret hlim (by decide)
  rw [herr] at hexec
  exact hexec

theorem late_audio_3_eq :
    AVI_write_frame late_audio_2 0 demo_big_chunk 2000000000 1
      = some { ret := 0, AVI := late_audio_3, AVI_errno := 0 } := by
  obtain ⟨_, _, ⟨hmode, hsome, hret, herr, hlim⟩⟩ := late_audio_steps
  have hexec := AVI_write_frame_exec late_audio_2 0 demo_big_chunk 2000000000 1 _ hmode
    (by decide) (by decide) (option_eq_some_getD _ no_outcome hsome) hret hlim
    demo_big_chunk_length
  rw [herr] at hexec
  exact hexec

theorem late_audio_facts :
    video_entries_in_use late_audio_2 = some 2 ∧ audio_entries_in_use late_audio_2 0 = some 1 ∧
    video_entries_in_use late_audio_3 = some 3 ∧ audio_entries_in_use late_audio_3 0 = some 2 ∧
    late_audio_3.is_opendml = 2 ∧ late_audio_3.pos = 2000002242 + (8 + 2000000000) ∧
    (std_index late_audio_3.video_superindex 2).map
        (fun c => (c.fcc, c.dwSize, c.aIndex.isSome, c.qwBaseOffset))
      = some ([105, 120, 48, 48], 4096, true, 2000002242 - 16 - 8) ∧
    (std_index (late_audio_3.track 0).audio_superindex 1).map
        (fun c => (c.fcc, c.dwSize, c.aIndex.isSome, c.qwBaseOffset))
      = some ([105, 120, 48, 49], 4096, true, 1992294400) ∧
    (std_index (late_audio_3.track 0).audio_superindex 2).map
        (fun c => (c.fcc, c.dwSize, c.aIndex.isSome, c.qwBaseOffset))
      = some ([0, 0, 0, 0], 0, false, 2000002242 - 16 - 8) := by
  decide!

/-- C20 fails for an audio track whose super-index was created after a
rotation.  On a new file with one audio track, `AVI_write_frame` with
2 000 000 000 bytes (first rotation), `AVI_write_audio` with 2 bytes (the
track's super-index is created, with one entry in use against two of the video
stream) and a second `AVI_write_frame` with 2 000 000 000 bytes return 0; the
last call performs a rotation, after whose `RIFF` chunk the write position is
2000002242.  The new standard index of the video stream, `stdindex[2]`, has
`qwBaseOffset = 2000002242 - 16 - 8` and `is_opendml` is not zero; but the new
standard index of the audio track, the `stdindex[1]` that `avi_add_std_index`
has set up, keeps `qwBaseOffset = 1992294400`, the offset having been stored
into `stdindex[2]` of the track, which is not set up. -/
theorem rotation_base_offset_of_late_audio_track :
    ∃ A0 A1 A2 A3 A4,
      AVI_open_output_file none 0 = (some A0, 0) ∧
      AVI_set_audio A0 0 2 44100 16 1 0 = some (run.done (A1, 0)) ∧
      AVI_write_frame A1 0 demo_big_chunk 2000000000 1
        = some { ret := 0, AVI := A2, AVI_errno := 0 } ∧
      AVI_write_audio A2 0 [4, 5] 2 = some { ret := 0, AVI := A3, AVI_errno := 0 } ∧
      AVI_write_frame A3 0 demo_big_chunk 2000000000 1
        = some { ret := 0, AVI := A4, AVI_errno := 0 } ∧
      video_entries_in_use A3 = some 2 ∧ audio_entries_in_use A3 0 = some 1 ∧
      video_entries_in_use A4 = some 3 ∧ audio_entries_in_use A4 0 = some 2 ∧
      A4.is_opendml = 2 ∧ A4.pos = 2000002242 + (8 + 2000000000) ∧
      (std_index A4.video_superindex 2).map
          (fun c => (c.fcc, c.dwSize, c.aIndex.isSome, c.qwBaseOffset))
        = some ([105, 120, 48, 48], 4096, true, 2000002242 - 16 - 8) ∧
      (std_index (A4.track 0).audio_superindex 1).map
          (fun c => (c.fcc, c.dwSize, c.aIndex.isSome, c.qwBaseOffset))
        = some ([105, 120, 48, 49], 4096, true, 1992294400) ∧
      (std_index (A4.track 0).audio_superindex 2).map
          (fun c => (c.fcc, c.dwSize, c.aIndex.isSome, c.qwBaseOffset))
        = some ([0, 0, 0, 0], 0, false, 2000002242 - 16 - 8) :=
  ⟨demo_open_avi, demo_audio_avi, late_audio_1, late_audio_2, late_audio_3, demo_open_eq,
    demo_audio_avi_eq, late_audio_1_eq, late_audio_2_eq, late_audio_3_eq, late_audio_facts⟩

/-! ### The write position -/

/-- A write with a negative count cannot return that count and leave room for
a byte. -/
theorem plat_write_neg (f f2 : plat_file) (buf : List UInt8) (c : Int)
    (h : plat_write f buf c = some (c, f2)) (hc : c < 0) :
    f2 = f ∧ ∀ buf2, plat_write f [0] 1 = some buf2 → buf2.1 = -1 := by
  rw [plat_write_def] at h
  split at h
  · cases h
  · split at h
    · rename_i hz
      have h1 := Option.some.inj h
      have h2 : f = f2 := congrArg Prod.snd h1
      have h3 : (if c = 0 then (0 : Int) else -1) = c := congrArg Prod.fst h1
      rw [if_neg (by omega)] at h3
      refine ⟨h2.symm, fun buf2 hb => ?_⟩
      have hz1 : plat_write_count f 1 = 0 := by
        unfold plat_write_count at hz ⊢
        cases hl : f.limit with
        | none =>
          rw [hl] at hz
          simp only [] at hz
          rw [if_neg (by omega)] at hz
          omega
        | some l =>
          rw [hl] at hz
          simp only [] at hz ⊢
          rw [if_neg (by omega)] at hz
          rw [if_pos (by decide)]
          have h1 : (1 : Int).toNat = 1 := rfl
          rw [h1]
          have h4 : 0 < (c + 2 ^ 64).toNat := by omega
          have h5 : l - f.offset = 0 := by
            rcases Nat.eq_zero_or_pos (l - f.offset) with h6 | h6
            · exact h6
            · have := Nat.lt_min.mpr ⟨h4, h6⟩
              omega
          rw [h5]
          rfl
      rw [plat_write_def, hz1, if_neg (Nat.not_lt_zero _), if_pos rfl, if_neg (by decide)] at hb
      rw [← Option.some.inj hb]
    · rename_i hz
      have h1 := Option.some.inj h
      have h2 : ((plat_write_count f c : Nat) : Int) = c := congrArg Prod.fst h1
      omega

/-- What `avi_add_chunk` does with the write position: it adds
`8 + PAD_EVEN(length)` where it returns 0, which it does for a length that is
not negative only, and leaves the position alone where it returns -1. -/
theorem avi_add_chunk_pos (A : avi_t) (e : Int) (tag data : List UInt8) (len : Int)
    (o : outcome) (h : avi_add_chunk A e tag data len = some o) :
    (o.ret = 0 ∧ 0 ≤ len ∧ o.AVI.pos = A.pos + (8 + PAD_EVEN len)) ∨
    (o.ret = -1 ∧ o.AVI.pos = A.pos ∧ o.AVI_errno = AVI_ERR_WRITE) := by
  unfold avi_add_chunk at h
  split at h
  · cases h
  · split at h
    · cases h
    · rename_i w1 hw1
      split at h
      · rw [← Option.some.inj h]
        exact Or.inr ⟨rfl, rfl, rfl⟩
      · split at h
        · cases h
        · rename_i w2 hw2
          split at h
          · rw [← Option.some.inj h]
            exact Or.inr ⟨rfl, rfl, rfl⟩
          · rename_i hr2
            split at h
            · cases h
            · rename_i w3 hw3
              split at h
              · rw [← Option.some.inj h]
                exact Or.inr ⟨rfl, rfl, rfl⟩
              · rename_i hr3
                rw [← Option.some.inj h]
                refine Or.inl ⟨rfl, ?_, rfl⟩
                by_contra hneg
                have hlt : len < 0 := by omega
                have hr2' : w2.1 = len := not_not.mp hr2
                have hr3' : w3.1 = len % 2 := not_not.mp hr3
                have hw2' : plat_write w1.2 data len = some (len, w2.2) := by
                  rw [hw2, ← hr2']
                obtain ⟨hf, hb⟩ := plat_write_neg _ _ _ _ hw2' hlt
                rw [plat_write_def] at hw2
                have hm1 : len = -1 := by
                  split at hw2
                  · cases hw2
                  · split at hw2
                    · have := congrArg Prod.fst (Option.some.inj hw2)
                      simp only [] at this
                      rw [if_neg (by omega)] at this
                      omega
                    · have := congrArg Prod.fst (Option.some.inj hw2)
                      simp only [] at this
                      omega
                rw [hm1] at hw3 hr3'
                rw [hf] at hw3
                have := hb w3 hw3
                rw [this] at hr3'
                revert hr3'
                decide

theorem avi_add_chunk_pos_le (A : avi_t) (e : Int) (tag data : List UInt8) (len : Int)
    (o : outcome) (h : avi_add_chunk A e tag data len = some o) :
    A.pos ≤ o.AVI.pos ∧ (o.ret = 0 → A.pos + 8 ≤ o.AVI.pos) := by
  have hpe := PAD_EVEN_eq len
  rcases avi_add_chunk_pos A e tag data len o h with ⟨h1, h2, h3⟩ | ⟨h1, h2, _⟩
  · constructor
    · omega
    · intro _
      omega
  · constructor
    · omega
    · intro hr
      rw [h1] at hr
      cases hr

theorem avi_ixnn_entry_pos (A : avi_t) (e : Int) (ch : avistdindex_chunk)
    (en : avisuperindex_entry) (r : avi_t × Int × avisuperindex_entry)
    (h : avi_ixnn_entry A e ch en = some r) : A.pos ≤ r.1.pos := by
  unfold avi_ixnn_entry at h
  split at h
  · cases h
  · split at h
    · cases h
    · split at h
      · cases h
      · rename_i o ho
        rw [← Option.some.inj h]
        exact (avi_add_chunk_pos_le _ _ _ _ _ _ ho).1

theorem odml_dump_audio_pos (k : Int) :
    ∀ (js : List Nat) (s t : avi_t × Int), odml_dump_audio k js s = some t →
      s.1.pos ≤ t.1.pos := by
  intro js
  induction js with
  | nil =>
    intro s t h
    rw [odml_dump_audio] at h
    rw [← Option.some.inj h]
  | cons j rest ih =>
    intro s t h
    rw [odml_dump_audio] at h
    split at h
    · exact ih s t h
    · split at h
      · split at h
        · cases h
        · rename_i r hr
          have h1 := avi_ixnn_entry_pos _ _ _ _ _ hr
          have h2 := ih _ t h
          exact le_trans h1 h2
      · cases h

theorem odml_new_riff_pos (A : avi_t) (e : Int) (cur : Int) (o : outcome)
    (h : odml_new_riff A e cur = some o) : A.pos ≤ o.AVI.pos := by
  unfold odml_new_riff at h
  split at h
  · cases h
  · split at h
    · split at h
      · cases h
      · rename_i r hr
        have f1 := avi_ixnn_entry_pos _ _ _ _ _ hr
        split at h
        · cases h
        · rename_i d hd
          have f2 := odml_dump_audio_pos _ _ _ _ hd
          split at h
          · cases h
          · rename_i o3 ho3
            have f3 : d.1.pos ≤ o3.AVI.pos := by
              split at ho3
              · exact (avi_add_chunk_pos_le _ _ _ _ _ _ ho3).1
              · rw [← Option.some.inj ho3]
            split at h
            · cases h
            · rename_i o4 ho4
              have f4 := (avi_add_chunk_pos_le _ _ _ _ _ _ ho4).1
              split at h
              · cases h
              · split at h
                · cases h
                · split at h
                  · cases h
                  · rename_i A5 hA5
                    have f5 := (odml_frame_fields (odml_base_audio_frame _ _ _ _ hA5)).2.1
                    rw [← Option.some.inj h]
                    show A.pos ≤ A5.pos
                    rw [f5]
                    exact le_trans f1 (le_trans f2 (le_trans f3 f4))
    · cases h

theorem odml_rotate_pos (A : avi_t) (e : Int) (tw : Int) (o : outcome)
    (h : odml_rotate A e tw = some o) : A.pos ≤ o.AVI.pos := by
  unfold odml_rotate at h
  split at h
  · rw [← Option.some.inj h]
  · split at h
    · split at h
      · rw [← Option.some.inj h]
      · split at h
        · cases h
        · split at h
          · cases h
          · rename_i A2 hA2
            have f1 := (odml_frame_fields (odml_rotate_add_audio_frame _ _ _ hA2)).2.1
            split at h
            · have f2 := odml_new_riff_pos _ _ _ _ h
              rw [f1] at f2
              exact f2
            · rw [← Option.some.inj h]
              show A.pos ≤ A2.pos
              rw [f1]
    · rw [← Option.some.inj h]

theorem avi_add_odml_index_entry_pos (A : avi_t) (e : Int) (tag : List UInt8) (flags : Int)
    (len : Nat) (o : outcome) (h : avi_add_odml_index_entry A e tag flags len = some o) :
    A.pos ≤ o.AVI.pos := by
  unfold avi_add_odml_index_entry at h
  split at h
  · cases h
  · rename_i A1 hA1
    have f1 := (odml_frame_fields (odml_init_frame _ _ _ hA1)).2.1
    split at h
    · cases h
    · split at h
      · cases h
      · rename_i r hr
        have f2 := odml_rotate_pos _ _ _ _ hr
        split at h
        · rw [← Option.some.inj h]
          omega
        · have f3 := (odml_frame_fields (odml_store_frame _ _ _ _ _ _ h).1).2.1
          omega

theorem write_legacy_entry_pos (A A1 : avi_t) (audio : Bool) (keyframe : Int) (len : Nat)
    (h : write_legacy_entry A audio keyframe len = some A1) : A1.pos = A.pos := by
  unfold write_legacy_entry at h
  split at h
  · obtain ⟨_, h1, _⟩ := avi_add_index_entry_effect _ _ _ _ _ _ h
    rw [h1]
  · rw [← Option.some.inj h]

theorem plat_write_data_pos (A : avi_t) (e : Int) (data : List UInt8) (len : Nat)
    (audio : Bool) (keyframe : Int) (o : outcome)
    (h : plat_write_data A e data len audio keyframe = some o) :
    A.pos ≤ o.AVI.pos ∧ (o.ret = 0 → A.pos + 8 ≤ o.AVI.pos) := by
  unfold plat_write_data at h
  split at h
  · cases h
  · rename_i A1 hA1
    have f1 := write_legacy_entry_pos _ _ _ _ _ hA1
    split at h
    · cases h
    · rename_i o1 ho1
      have f2 := avi_add_odml_index_entry_pos _ _ _ _ _ _ ho1
      split at h
      · rw [← Option.some.inj h]
        refine ⟨by show A.pos ≤ o1.AVI.pos; omega, fun hr => by cases hr⟩
      · split at h
        · cases h
        · rename_i o2 ho2
          obtain ⟨f3, f4⟩ := avi_add_chunk_pos_le _ _ _ _ _ _ ho2
          split at h
          · rw [← Option.some.inj h]
            refine ⟨by show A.pos ≤ o2.AVI.pos; omega, fun hr => by cases hr⟩
          · rename_i hz
            rw [← Option.some.inj h]
            have := f4 (not_not.mp hz)
            refine ⟨by show A.pos ≤ o2.AVI.pos; omega, fun _ => by show A.pos + 8 ≤ o2.AVI.pos; omega⟩

theorem AVI_write_frame_pos (A : avi_t) (e : Int) (data : List UInt8) (bytes keyframe : Int)
    (o : outcome) (h : AVI_write_frame A e data bytes keyframe = some o) :
    A.pos ≤ o.AVI.pos ∧ (o.ret = 0 → A.pos + 8 ≤ o.AVI.pos) := by
  unfold AVI_write_frame at h
  split at h
  · rw [← Option.some.inj h]
    exact ⟨le_refl _, fun (hr : (-1 : Int) = 0) => absurd hr (by decide)⟩
  · split at h
    · cases h
    · rename_i o1 ho1
      obtain ⟨f1, f2⟩ := plat_write_data_pos _ _ _ _ _ _ _ ho1
      split at h
      · rw [← Option.some.inj h]
        exact ⟨f1, fun hr => by cases hr⟩
      · rename_i hz
        rw [← Option.some.inj h]
        exact ⟨f1, fun _ => f2 (not_not.mp hz)⟩

theorem AVI_write_audio_pos (A : avi_t) (e : Int) (data : List UInt8) (bytes : Int)
    (o : outcome) (h : AVI_write_audio A e data bytes = some o) :
    A.pos ≤ o.AVI.pos ∧ (o.ret = 0 → A.pos + 8 ≤ o.AVI.pos) := by
  unfold AVI_write_audio at h
  split at h
  · rw [← Option.some.inj h]
    exact ⟨le_refl _, fun (hr : (-1 : Int) = 0) => absurd hr (by decide)⟩
  · split at h
    · cases h
    · rename_i o1 ho1
      obtain ⟨f1, f2⟩ := plat_write_data_pos _ _ _ _ _ _ _ ho1
      split at h
      · rw [← Option.some.inj h]
        exact ⟨f1, fun hr => by cases hr⟩
      · rename_i hz
        rw [← Option.some.inj h]
        exact ⟨f1, fun _ => f2 (not_not.mp hz)⟩

theorem avi_update_header_pos (A : avi_t) (e : Int) (o : outcome)
    (h : avi_update_header A e = some (run.done o)) : o.AVI.pos = A.pos := by
  unfold avi_update_header at h
  split at h
  · cases h
  · cases h
  · split at h
    · rw [← run.done.inj (Option.some.inj h)]
      rfl
    · split at h
      · cases h
      · split at h
        · rw [← run.done.inj (Option.some.inj h)]
          rfl
        · split at h
          · rw [← run.done.inj (Option.some.inj h)]
            rfl
          · rw [← run.done.inj (Option.some.inj h)]

theorem AVI_set_video_pos (A : avi_t) (e : Int) (width height : Int) (fps : ℚ)
    (compressor : List UInt8) (r : avi_t × Int)
    (h : AVI_set_video A e width height fps compressor = some (run.done r)) :
    r.1.pos = A.pos := by
  unfold AVI_set_video at h
  split at h
  · split at h
    · cases h
    · split at h
      · cases h
      · cases h
      · rename_i o ho
        rw [← run.done.inj (Option.some.inj h)]
        have hp := avi_update_header_pos _ _ _ ho
        show o.AVI.pos = A.pos
        rw [hp]
        rfl
  · rw [← run.done.inj (Option.some.inj h)]

theorem AVI_set_audio_pos (A : avi_t) (e : Int) (channels rate bits format mp3rate : Int)
    (r : avi_t × Int)
    (h : AVI_set_audio A e channels rate bits format mp3rate = some (run.done r)) :
    r.1.pos = A.pos := by
  unfold AVI_set_audio at h
  split at h
  · split at h
    · cases h
    · split at h
      · cases h
      · cases h
      · rename_i o ho
        rw [← run.done.inj (Option.some.inj h)]
        have hp := avi_update_header_pos _ _ _ ho
        show o.AVI.pos = A.pos
        rw [hp]
        rfl
  · rw [← run.done.inj (Option.some.inj h)]

theorem AVI_open_output_file_state (limit : Option Nat) (e e2 : Int) (A : avi_t)
    (h : AVI_open_output_file limit e = (some A, e2)) :
    A.pos = 2048 ∧ A.fdes.data = List.replicate 2048 0 ∧ A.fdes.offset = 2048 ∧
    A.mode = AVI_MODE_WRITE ∧ A.is_opendml = 0 ∧ A.n_idx = 0 ∧ A.anum = 0 ∧
    A.video_superindex = none ∧ A.fdes.limit = limit ∧ e2 = e := by
  unfold AVI_open_output_file at h
  split at h
  · rename_i i fdes hw
    split at h
    · cases h
    · rename_i hi
      have hi2 : i = HEADERBYTES := not_not.mp hi
      have h1 : some A = some _ := congrArg Prod.fst h.symm
      have h2 : e2 = e := (congrArg Prod.snd h).symm
      have hA := (Option.some.inj h1)
      rw [plat_write_def] at hw
      split at hw
      · cases hw
      · split at hw
        · have := congrArg Prod.fst (Option.some.inj hw)
          simp only [] at this
          rw [if_neg (by decide)] at this
          rw [hi2] at this
          exact absurd this (by decide)
        · have hn : ((plat_write_count { data := [], offset := 0, limit := limit }
              HEADERBYTES : Nat) : Int) = i := congrArg Prod.fst (Option.some.inj hw)
          have hf := congrArg Prod.snd (Option.some.inj hw)
          simp only [] at hf
          have hn2 : plat_write_count { data := [], offset := 0, limit := limit } HEADERBYTES
              = 2048 := by
            rw [hi2] at hn
            have : (HEADERBYTES : Int) = 2048 := rfl
            omega
          rw [hn2] at hf
          rw [hA, ← hf]
          refine ⟨rfl, ?_, rfl, rfl, rfl, rfl, rfl, rfl, rfl, h2⟩
          show write_at [] 0 ((List.replicate HEADERBYTES.toNat 0).take 2048) = _
          have ht : HEADERBYTES.toNat = 2048 := rfl
          rw [ht, List.take_of_length_le (by rw [List.length_replicate])]
          exact (write_at_end [] _).trans (List.nil_append _)
  · cases h

/-- C21: after a successful `AVI_open_output_file` the write position is 2048
and the file holds 2048 zero bytes; and a write position of at least 2048 stays
so over `AVI_set_video`, `AVI_set_audio`, `AVI_write_frame` and
`AVI_write_audio`, whatever these return. -/
theorem writer_pos_at_least_header (A : avi_t) (hA : 2048 ≤ A.pos) :
    (∀ limit e e2 B, AVI_open_output_file limit e = (some B, e2) →
      B.pos = 2048 ∧ B.fdes.data = List.replicate 2048 0) ∧
    (∀ e width height fps compressor r,
      AVI_set_video A e width height fps compressor = some (run.done r) → 2048 ≤ r.1.pos) ∧
    (∀ e channels rate bits format mp3rate r,
      AVI_set_audio A e channels rate bits format mp3rate = some (run.done r) →
        2048 ≤ r.1.pos) ∧
    (∀ e data bytes keyframe o,
      AVI_write_frame A e data bytes keyframe = some o → 2048 ≤ o.AVI.pos) ∧
    (∀ e data bytes o, AVI_write_audio A e data bytes = some o → 2048 ≤ o.AVI.pos) := by
  refine ⟨?_, ?_, ?_, ?_, ?_⟩
  · intro limit e e2 B h
    have := AVI_open_output_file_state limit e e2 B h
    exact ⟨this.1, this.2.1⟩
  · intro e width height fps compressor r h
    rw [AVI_set_video_pos _ _ _ _ _ _ _ h]
    exact hA
  · intro e channels rate bits format mp3rate r h
    rw [AVI_set_audio_pos _ _ _ _ _ _ _ _ h]
    exact hA
  · intro e data bytes keyframe o h
    exact le_trans hA (AVI_write_frame_pos _ _ _ _ _ _ h).1
  · intro e data bytes o h
    exact le_trans hA (AVI_write_audio_pos _ _ _ _ _ h).1

/-- Witness for `writer_pos_at_least_header`: the handle after
`AVI_open_output_file`, `AVI_set_audio` and `AVI_write_frame` of three bytes, on
which `AVI_write_audio` of two bytes is called. -/
theorem writer_pos_at_least_header_witness :
    2048 ≤ demo_audio_frame_avi.pos ∧
    ∃ o, AVI_write_audio demo_audio_frame_avi 0 [4, 5] 2 = some o ∧ 2048 ≤ o.AVI.pos :=
  ⟨by decide!, _, demo_audio_small_eq,
    (writer_pos_at_least_header demo_audio_frame_avi (by decide!)).2.2.2.2 0 [4, 5] 2 _
      demo_audio_small_eq⟩

/-- C22: a call of `AVI_write_frame` or `AVI_write_audio` that returns 0 leaves
the write position at least 8 above what it was, and no call of
`AVI_set_video`, `AVI_set_audio`, `AVI_write_frame` or `AVI_write_audio` leaves
it below what it was (`AVI_set_video` and `AVI_set_audio`, which call
`avi_update_header`, leave it as it was). -/
theorem writer_pos_never_decreases (A : avi_t) :
    (∀ e data bytes keyframe o, AVI_write_frame A e data bytes keyframe = some o →
      A.pos ≤ o.AVI.pos ∧ (o.ret = 0 → A.pos + 8 ≤ o.AVI.pos)) ∧
    (∀ e data bytes o, AVI_write_audio A e data bytes = some o →
      A.pos ≤ o.AVI.pos ∧ (o.ret = 0 → A.pos + 8 ≤ o.AVI.pos)) ∧
    (∀ e width height fps compressor r,
      AVI_set_video A e width height fps compressor = some (run.done r) → r.1.pos = A.pos) ∧
    (∀ e channels rate bits format mp3rate r,
      AVI_set_audio A e channels rate bits format mp3rate = some (run.done r) →
        r.1.pos = A.pos) ∧
    (∀ e o, avi_update_header A e = some (run.done o) → o.AVI.pos = A.pos) :=
  ⟨fun e data bytes keyframe o h => AVI_write_frame_pos A e data bytes keyframe o h,
    fun e data bytes o h => AVI_write_audio_pos A e data bytes o h,
    fun e width height fps compressor r h => AVI_set_video_pos A e width height fps compressor r h,
    fun e channels rate bits format mp3rate r h =>
      AVI_set_audio_pos A e channels rate bits format mp3rate r h,
    fun e o h => avi_update_header_pos A e o h⟩

/-- Witness for `writer_pos_never_decreases`: `AVI_write_audio` of two bytes
after `AVI_open_output_file`, `AVI_set_audio` and `AVI_write_frame`. -/
theorem writer_pos_never_decreases_witness :
    ∃ o, AVI_write_audio demo_audio_frame_avi 0 [4, 5] 2 = some o ∧ o.ret = 0 ∧
      demo_audio_frame_avi.pos + 8 ≤ o.AVI.pos :=
  ⟨_, demo_audio_small_eq, Eq.refl (0 : Int),
    ((writer_pos_never_decreases demo_audio_frame_avi).2.1 0 [4, 5] 2 _ demo_audio_small_eq).2
      (Eq.refl (0 : Int))⟩

/-! ## Writer: the header of `avi_close_output_file` -/

theorem to_int32_of_range (x : Int) (h1 : -2 ^ 31 ≤ x) (h2 : x < 2 ^ 31) : to_int32 x = x := by
  unfold to_int32 uint32_to_int32
  split <;> omega

theorem out_step_size_nonneg (s : out_step) : 0 ≤ s.size := by
  cases s <;> simp only [out_step.size] <;> omega

theorem steps_size_nonneg (l : List out_step) : 0 ≤ steps_size l := by
  induction l with
  | nil => simp [steps_size]
  | cons s rest ih =>
    have := out_step_size_nonneg s
    simp only [steps_size, List.map_cons, List.sum_cons] at ih ⊢
    omega

theorem steps_size_append (a b : List out_step) :
    steps_size (a ++ b) = steps_size a + steps_size b := by
  simp [steps_size]

theorem out_step_apply_nhb (s : out_step) (h h2 : header_buf) (e : s.apply h = some h2) :
    h2.nhb = h.nhb + s.size := by
  cases s <;> simp only [out_step.apply, out_step.size] at e ⊢ <;>
    (try split at e) <;> (try split at e) <;>
    simp only [Option.map_eq_some', Option.some.injEq, reduceCtorEq] at e <;>
    (obtain ⟨b, _, rfl⟩ := e; simp)

theorem out_steps_nhb (l : List out_step) :
    ∀ (h h2 : header_buf), out_steps l h = some h2 → h2.nhb = h.nhb + steps_size l := by
  induction l with
  | nil =>
    intro h h2 e
    simp only [out_steps, Option.some.injEq] at e
    subst e
    simp [steps_size]
  | cons s rest ih =>
    intro h h2 e
    simp only [out_steps] at e
    cases hs : s.apply h with
    | none => rw [hs] at e; cases e
    | some h1 =>
      rw [hs] at e
      have a := out_step_apply_nhb s h h1 hs
      have b := ih h1 h2 e
      simp only [steps_size, List.map_cons, List.sum_cons] at b ⊢
      omega

theorem header_store_some (b : List UInt8) (off : Int) (src : List UInt8) (h0 : 0 ≤ off)
    (h1 : off + (src.length : Int) ≤ HEADERBYTES) :
    header_store b off src
      = some (b.take off.toNat ++ src ++ b.drop (off.toNat + src.length)) :=
  if_pos ⟨h0, h1⟩

theorem OUT4CC_apply_some (s : List UInt8) (h : header_buf) (hs : s.length = 4) (h0 : 0 ≤ h.nhb)
    (h1 : h.nhb ≤ HEADERBYTES - 4) :
    (out_step.OUT4CC s).apply h
      = some { h with
          AVI_header := h.AVI_header.take h.nhb.toNat ++ s ++ h.AVI_header.drop (h.nhb.toNat + 4)
          nhb := h.nhb + 4 } := by
  have ht : s.take 4 = s := List.take_of_length_le (by omega)
  simp only [out_step.apply]
  rw [if_pos h1, if_neg (by omega), ht, header_store_some _ _ _ h0 (by rw [hs]; omega), hs]
  rfl

theorem OUTLONG_apply_some (n : Int) (h : header_buf) (h0 : 0 ≤ h.nhb)
    (h1 : h.nhb ≤ HEADERBYTES - 4) :
    (out_step.OUTLONG n).apply h
      = some { h with
          AVI_header :=
            h.AVI_header.take h.nhb.toNat ++ long2str n ++ h.AVI_header.drop (h.nhb.toNat + 4)
          nhb := h.nhb + 4 } := by
  simp only [out_step.apply]
  rw [if_pos h1, header_store_some _ _ _ h0 (by rw [long2str_length]; omega), long2str_length]
  rfl

theorem header_junk_exit (h : header_buf) (h0 : 0 ≤ h.nhb) (h1 : h.nhb < 2 ^ 31) :
    header_junk h = some run.exit_1 ↔ HEADERBYTES - h.nhb - 8 - 12 ≤ 0 := by
  have hc : to_int32 (HEADERBYTES - h.nhb - 8 - 12) = HEADERBYTES - h.nhb - 8 - 12 :=
    to_int32_of_range _ (by simp only [HEADERBYTES]; omega) (by simp only [HEADERBYTES]; omega)
  unfold header_junk
  rw [hc]
  constructor
  · intro e
    by_contra hn
    rw [if_neg hn] at e
    split at e
    · cases e
    · split at e
      · cases e
      · cases e
  · intro hle
    rw [if_pos hle]

theorem header_junk_done (h : header_buf) (h0 : 0 ≤ h.nhb)
    (hj : 0 < HEADERBYTES - h.nhb - 8 - 12) :
    ∃ h2, header_junk h = some (run.done h2) ∧ h2.nhb = HEADERBYTES - 12 := by
  have hH : HEADERBYTES = 2048 := rfl
  have hc : to_int32 (HEADERBYTES - h.nhb - 8 - 12) = HEADERBYTES - h.nhb - 8 - 12 :=
    to_int32_of_range _ (by omega) (by omega)
  unfold header_junk
  rw [hc, if_neg (by omega)]
  simp only [out_steps]
  rw [OUT4CC_apply_some [74, 85, 78, 75] _ rfl h0 (by omega)]
  simp only []
  rw [OUTLONG_apply_some _ _ (by simp only []; omega) (by simp only []; omega)]
  simp only []
  rw [header_store_some _ _ _ (by omega)
    (by rw [List.length_replicate]; omega)]
  exact ⟨_, rfl, by simp only []; omega⟩

theorem header_movi_done (movi_len : Int) (h : header_buf) (hn : h.nhb = HEADERBYTES - 12) :
    ∃ h3, header_movi movi_len h = some h3 ∧ h3.nhb = HEADERBYTES := by
  have hH : HEADERBYTES = 2048 := rfl
  unfold header_movi
  simp only [out_steps]
  rw [OUT4CC_apply_some [76, 73, 83, 84] _ rfl (by omega) (by omega)]
  simp only []
  rw [OUTLONG_apply_some _ _ (by simp only []; omega) (by simp only []; omega)]
  simp only []
  rw [OUT4CC_apply_some [109, 111, 118, 105] _ rfl (by simp only []; omega)
    (by simp only []; omega)]
  exact ⟨_, rfl, by simp only []; omega⟩

theorem header_info_nhb (fd : Int) (info : List UInt8) (h h2 : header_buf)
    (e : header_info fd info h = some h2) : h.nhb + 36 ≤ h2.nhb := by
  unfold header_info at e
  cases h1 : out_steps [out_step.OUT4CC [76, 73, 83, 84]] h with
  | none => rw [h1] at e; cases e
  | some a =>
    rw [h1] at e
    simp only [] at e
    cases h3 : out_steps
        [out_step.OUTLONG (MAX_INFO_STRLEN + 12), out_step.OUT4CC [73, 78, 70, 79],
          out_step.OUT4CC [73, 83, 70, 84], out_step.OUTLONG 16] a with
    | none => rw [h3] at e; cases e
    | some b =>
      rw [h3] at e
      simp only [] at e
      have n1 := out_steps_nhb _ _ _ h1
      have n2 := out_steps_nhb _ _ _ h3
      simp only [steps_size, List.map_cons, List.map_nil, List.sum_cons, List.sum_nil,
        out_step.size] at n1 n2
      split at e
      · cases e
      · split at e
        · cases e
        · split at e
          · cases e
          · simp only [Option.map_eq_some'] at e
            obtain ⟨b3, _, rfl⟩ := e
            simp only []
            split <;> omega

theorem avi_close_header_build_nhb (AVI : avi_t) (hasIndex : Bool) (info : List UInt8)
    (hb : header_buf) (e : avi_close_header_build AVI hasIndex info = some hb) : 36 ≤ hb.nhb := by
  unfold avi_close_header_build at e
  split at e
  · cases e
  · split at e
    · cases e
    · rename_i _ l _ _ h hs
      have n1 := out_steps_nhb _ _ _ hs
      have n2 := header_info_nhb _ _ _ _ e
      have n3 := steps_size_nonneg l
      clear e
      simp only [] at n1
      omega

/-- C24: in the header that `avi_close_output_file` builds, with `nhb` the
offset reached after the INFO list, the function ends the program exactly when
`HEADERBYTES - nhb - 8 - 12 <= 0`; otherwise the JUNK chunk is written, the
offset after its payload is `HEADERBYTES - 12`, and the offset after
`LIST`, the length and `movi` is `HEADERBYTES`. -/
theorem close_junk_pads_header_to_movi (A : avi_t) (e : Int) (info : List UInt8)
    (d : avi_t × Int) (m : Int) (o : outcome) (hb : header_buf)
    (hd : avi_close_output_file_dump A e = some d)
    (hm : avi_close_movi_len d.1 = some m)
    (hi : avi_close_idx1 d.1 d.2 = some o)
    (hbuild : avi_close_header_build o.AVI (decide (o.ret = 0)) info = some hb)
    (hn : hb.nhb < 2 ^ 31) :
    (avi_close_output_file A e info = some run.exit_1 ↔ HEADERBYTES - hb.nhb - 8 - 12 ≤ 0) ∧
    (0 < HEADERBYTES - hb.nhb - 8 - 12 →
      ∃ h2 h3, header_junk hb = some (run.done h2) ∧ h2.nhb = HEADERBYTES - 12 ∧
        header_movi m h2 = some h3 ∧ h3.nhb = HEADERBYTES ∧
        avi_close_output_file_header A e info = some (run.done (o, h3.AVI_header))) := by
  have h0 : 0 ≤ hb.nhb := by
    have := avi_close_header_build_nhb _ _ _ _ hbuild
    omega
  have hx := header_junk_exit hb h0 hn
  have hhdr : avi_close_output_file_header A e info
      = match header_junk_movi hb m with
        | none => none
        | some run.exit_1 => some run.exit_1
        | some (run.done hdr) => some (run.done (o, hdr)) := by
    unfold avi_close_output_file_header
    rw [hd]
    simp only []
    rw [hm, hi]
    simp only []
    rw [hbuild]
  constructor
  · unfold avi_close_output_file
    rw [hhdr]
    unfold header_junk_movi
    by_cases hle : HEADERBYTES - hb.nhb - 8 - 12 ≤ 0
    · rw [hx.2 hle]
      exact ⟨fun _ => hle, fun _ => rfl⟩
    · obtain ⟨h2, e2, n2⟩ := header_junk_done hb h0 (by omega)
      obtain ⟨h3, e3, _⟩ := header_movi_done m h2 n2
      rw [e2]
      simp only []
      rw [e3]
      simp only [Option.map_some']
      constructor
      · intro hc
        cases hw : avi_close_write o h3.AVI_header with
        | none => rw [hw] at hc; cases hc
        | some w => rw [hw] at hc; cases hc
      · intro hc
        exact absurd hc hle
  · intro hj
    obtain ⟨h2, e2, n2⟩ := header_junk_done hb h0 hj
    obtain ⟨h3, e3, n3⟩ := header_movi_done m h2 n2
    refine ⟨h2, h3, e2, n2, e3, n3, ?_⟩
    rw [hhdr]
    unfold header_junk_movi
    rw [e2]
    simp only []
    rw [e3]
    rfl

theorem avi_close_output_file_dump_legacy (A : avi_t) (e : Int) (h : A.is_opendml = 0) :
    avi_close_output_file_dump A e = some (A, e) := by
  unfold avi_close_output_file_dump
  rw [if_pos h]

theorem avi_close_movi_len_legacy (A : avi_t) (h : A.is_opendml = 0) :
    avi_close_movi_len A = some ((A.pos - HEADERBYTES + 4) % 2 ^ 64) := by
  unfold avi_close_movi_len
  rw [if_neg (by simp [h])]

theorem demo_close_idx1_eq : avi_close_idx1 demo_audio_frame_avi 0 = some demo_close_idx1 :=
  option_eq_some_getD _ _ (by decide!)

theorem demo_close_header_eq :
    avi_close_header_build demo_close_idx1.AVI (decide (demo_close_idx1.ret = 0)) []
      = some demo_close_header :=
  option_eq_some_getD _ _ (by decide!)

theorem demo_close_header_nhb : demo_close_header.nhb = 350 := by decide!

theorem close_junk_pads_header_to_movi_witness :
    ∃ h3 : header_buf, h3.nhb = HEADERBYTES ∧
      avi_close_output_file_header demo_audio_frame_avi 0 []
        = some (run.done (demo_close_idx1, h3.AVI_header)) :=
  match (close_junk_pads_header_to_movi demo_audio_frame_avi 0 [] (demo_audio_frame_avi, 0)
      ((demo_audio_frame_avi.pos - HEADERBYTES + 4) % 2 ^ 64) demo_close_idx1 demo_close_header
      (avi_close_output_file_dump_legacy _ _ (by decide!))
      (avi_close_movi_len_legacy _ (by decide!)) demo_close_idx1_eq demo_close_header_eq
      (by rw [demo_close_header_nhb]; decide)).2
      (by rw [demo_close_header_nhb]; decide) with
  | ⟨_, h3, _, _, _, n3, e3⟩ => ⟨h3, n3, e3⟩

/-! ### The bytes of the header -/

theorem write_at_after (d : List UInt8) (o : Nat) (c : List UInt8) (x n : Nat)
    (h1 : o + c.length ≤ x) (h2 : o ≤ d.length) :
    ((write_at d o c).drop x).take n = (d.drop x).take n := by
  have hp : (d.take o ++ List.replicate (o - d.length) 0 ++ c).length = o + c.length := by
    simp only [List.length_append, List.length_take, List.length_replicate]
    omega
  have e1 : write_at d o c
      = (d.take o ++ List.replicate (o - d.length) 0 ++ c) ++ d.drop (o + c.length) := rfl
  have hx : x = (d.take o ++ List.replicate (o - d.length) 0 ++ c).length + (x - (o + c.length)) := by
    rw [hp]
    omega
  rw [e1]
  conv_lhs => rw [hx]
  rw [List.drop_append, List.drop_drop]
  congr 2
  omega

theorem header_store_write_at (b : List UInt8) (off : Int) (src b2 : List UInt8)
    (e : header_store b off src = some b2) (hl : b.length = HEADERBYTES.toNat) :
    b2 = write_at b off.toNat src ∧ b2.length = HEADERBYTES.toNat ∧ 0 ≤ off ∧
      off + (src.length : Int) ≤ HEADERBYTES := by
  have hH : HEADERBYTES = 2048 := rfl
  unfold header_store at e
  split at e
  · rename_i hc
    simp only [Option.some.injEq] at e
    have hz : off.toNat - b.length = 0 := by
      rw [hl, hH]
      omega
    have hw : b2 = write_at b off.toNat src := by
      rw [← e]
      unfold write_at
      rw [hz]
      simp
    refine ⟨hw, ?_, hc.1, hc.2⟩
    rw [hw, write_at_length, hl, hH]
    omega
  · cases e

theorem header_store_keeps (b : List UInt8) (off : Int) (src b2 : List UInt8) (x n : Nat)
    (e : header_store b off src = some b2) (hl : b.length = HEADERBYTES.toNat)
    (hd : (x : Int) + n ≤ off ∨ off + (src.length : Int) ≤ x) :
    (b2.drop x).take n = (b.drop x).take n := by
  have hH : HEADERBYTES = 2048 := rfl
  obtain ⟨hw, _, h0, h1⟩ := header_store_write_at b off src b2 e hl
  rw [hw]
  rcases hd with hd | hd
  · exact write_at_before _ _ _ _ _ (by omega) (by rw [hl, hH]; omega)
  · exact write_at_after _ _ _ _ _ (by omega) (by rw [hl, hH]; omega)

theorem header_store_read (b : List UInt8) (off : Int) (src b2 : List UInt8)
    (e : header_store b off src = some b2) (hl : b.length = HEADERBYTES.toNat) :
    (b2.drop off.toNat).take src.length = src := by
  obtain ⟨hw, _, _, _⟩ := header_store_write_at b off src b2 e hl
  rw [hw]
  exact write_at_read _ _ _

/-- What one statement of the header output does: `nhb` advances by the size
of the statement, a list start is recorded by its assignment only, and the
array is either left alone or stored into at `nhb`, or with four bytes before
a list start. -/
theorem out_step_apply_cases (s : out_step) (h h2 : header_buf) (e : s.apply h = some h2) :
    h2.nhb = h.nhb + s.size ∧
    h2.hdrl_start = (if s = out_step.set_hdrl_start then h.nhb else h.hdrl_start) ∧
    h2.strl_start = (if s = out_step.set_strl_start then h.nhb else h.strl_start) ∧
    (h2.AVI_header = h.AVI_header ∨
      ∃ off src, header_store h.AVI_header off src = some h2.AVI_header ∧
        ((off = h.nhb ∧ (src.length : Int) = s.size) ∨
          (off = h.strl_start - 4 ∧ src.length = 4) ∨
          (off = h.hdrl_start - 4 ∧ src.length = 4))) := by
  cases s with
  | OUT4CC c =>
    simp only [out_step.apply, out_step.size] at e ⊢
    split at e
    · split at e
      · cases e
      · simp only [Option.map_eq_some'] at e
        obtain ⟨b, hb, rfl⟩ := e
        refine ⟨rfl, by simp, by simp, Or.inr ⟨_, _, hb, Or.inl ⟨rfl, ?_⟩⟩⟩
        rw [List.length_take]
        omega
    · simp only [Option.some.injEq] at e
      subst e
      exact ⟨rfl, by simp, by simp, Or.inl rfl⟩
  | OUTLONG v =>
    simp only [out_step.apply, out_step.size] at e ⊢
    split at e
    · simp only [Option.map_eq_some'] at e
      obtain ⟨b, hb, rfl⟩ := e
      exact ⟨rfl, by simp, by simp, Or.inr ⟨_, _, hb, Or.inl ⟨rfl, rfl⟩⟩⟩
    · simp only [Option.some.injEq] at e
      subst e
      exact ⟨rfl, by simp, by simp, Or.inl rfl⟩
  | OUTSHRT v =>
    simp only [out_step.apply, out_step.size] at e ⊢
    split at e
    · simp only [Option.map_eq_some'] at e
      obtain ⟨b, hb, rfl⟩ := e
      exact ⟨rfl, by simp, by simp, Or.inr ⟨_, _, hb, Or.inl ⟨rfl, rfl⟩⟩⟩
    · simp only [Option.some.injEq] at e
      subst e
      exact ⟨rfl, by simp, by simp, Or.inl rfl⟩
  | OUTCHR v =>
    simp only [out_step.apply, out_step.size] at e ⊢
    split at e
    · simp only [Option.map_eq_some'] at e
      obtain ⟨b, hb, rfl⟩ := e
      exact ⟨rfl, by simp, by simp, Or.inr ⟨_, _, hb, Or.inl ⟨rfl, rfl⟩⟩⟩
    · simp only [Option.some.injEq] at e
      subst e
      exact ⟨rfl, by simp, by simp, Or.inl rfl⟩
  | OUTMEM d c =>
    simp only [out_step.apply, out_step.size] at e ⊢
    split at e
    · split at e
      · cases e
      · simp only [Option.map_eq_some'] at e
        obtain ⟨b, hb, rfl⟩ := e
        refine ⟨rfl, by simp, by simp, Or.inr ⟨_, _, hb, Or.inl ⟨rfl, ?_⟩⟩⟩
        rw [List.length_take]
        omega
    · simp only [Option.some.injEq] at e
      subst e
      exact ⟨rfl, by simp, by simp, Or.inl rfl⟩
  | set_hdrl_start =>
    simp only [out_step.apply, out_step.size, Option.some.injEq] at e ⊢
    subst e
    exact ⟨by simp, by simp, by simp, Or.inl rfl⟩
  | set_strl_start =>
    simp only [out_step.apply, out_step.size, Option.some.injEq] at e ⊢
    subst e
    exact ⟨by simp, by simp, by simp, Or.inl rfl⟩
  | finish_strl =>
    simp only [out_step.apply, out_step.size, Option.map_eq_some'] at e ⊢
    obtain ⟨b, hb, rfl⟩ := e
    exact ⟨by simp, by simp, by simp, Or.inr ⟨_, _, hb, Or.inr (Or.inl ⟨rfl, rfl⟩)⟩⟩
  | finish_hdrl =>
    simp only [out_step.apply, out_step.size, Option.map_eq_some'] at e ⊢
    obtain ⟨b, hb, rfl⟩ := e
    exact ⟨by simp, by simp, by simp, Or.inr ⟨_, _, hb, Or.inr (Or.inr ⟨rfl, rfl⟩)⟩⟩

theorem out_step_apply_ok (s : out_step) (h h2 : header_buf) (e : s.apply h = some h2)
    (hk : header_ok h) : header_ok h2 := by
  obtain ⟨n1, n2, n3, n4⟩ := out_step_apply_cases s h h2 e
  have hs := out_step_size_nonneg s
  obtain ⟨k1, k2, k3, k4⟩ := hk
  refine ⟨?_, by omega, ?_, ?_⟩
  · rcases n4 with n4 | ⟨off, src, hst, _⟩
    · rw [n4]
      exact k1
    · exact (header_store_write_at _ _ _ _ hst k1).2.1
  · rw [n2]
    split <;> omega
  · rw [n3]
    split <;> omega

theorem out_step_apply_safe (x n : Nat) (s : out_step) (h h2 : header_buf)
    (e : s.apply h = some h2) (hk : header_ok h) (hs : region_safe x n h) :
    region_safe x n h2 ∧ (h2.AVI_header.drop x).take n = (h.AVI_header.drop x).take n := by
  obtain ⟨n1, n2, n3, n4⟩ := out_step_apply_cases s h h2 e
  have hz := out_step_size_nonneg s
  obtain ⟨k1, k2, k3, k4⟩ := hk
  obtain ⟨s1, s2, s3⟩ := hs
  refine ⟨⟨by omega, ?_, ?_⟩, ?_⟩
  · rw [n2]
    split
    · exact Or.inr s1
    · exact s2
  · rw [n3]
    split
    · exact Or.inr s1
    · exact s3
  · rcases n4 with n4 | ⟨off, src, hst, hoff⟩
    · rw [n4]
    · refine header_store_keeps _ _ _ _ x n hst k1 ?_
      rcases hoff with ⟨ho, _⟩ | ⟨ho, hl⟩ | ⟨ho, hl⟩
      · left
        omega
      · rcases s3 with s3 | s3
        · right
          omega
        · left
          omega
      · rcases s2 with s2 | s2
        · right
          omega
        · left
          omega

theorem out_steps_ok (l : List out_step) :
    ∀ (h h2 : header_buf), out_steps l h = some h2 → header_ok h → header_ok h2 := by
  induction l with
  | nil =>
    intro h h2 e hk
    simp only [out_steps, Option.some.injEq] at e
    subst e
    exact hk
  | cons s rest ih =>
    intro h h2 e hk
    simp only [out_steps] at e
    cases hs : s.apply h with
    | none => rw [hs] at e; cases e
    | some h1 =>
      rw [hs] at e
      exact ih h1 h2 e (out_step_apply_ok s h h1 hs hk)

theorem out_steps_safe (x n : Nat) (l : List out_step) :
    ∀ (h h2 : header_buf), out_steps l h = some h2 → header_ok h → region_safe x n h →
      region_safe x n h2 ∧ (h2.AVI_header.drop x).take n = (h.AVI_header.drop x).take n := by
  induction l with
  | nil =>
    intro h h2 e hk hs
    simp only [out_steps, Option.some.injEq] at e
    subst e
    exact ⟨hs, rfl⟩
  | cons s rest ih =>
    intro h h2 e hk hs
    simp only [out_steps] at e
    cases ha : s.apply h with
    | none => rw [ha] at e; cases e
    | some h1 =>
      rw [ha] at e
      have a := out_step_apply_safe x n s h h1 ha hk hs
      have b := ih h1 h2 e (out_step_apply_ok s h h1 ha hk) a.1
      exact ⟨b.1, b.2.trans a.2⟩

theorem out_steps_append (a b : List out_step) :
    ∀ h : header_buf, out_steps (a ++ b) h = (out_steps a h).bind (out_steps b) := by
  induction a with
  | nil => intro h; rfl
  | cons s rest ih =>
    intro h
    simp only [List.cons_append, out_steps]
    cases s.apply h with
    | none => rfl
    | some h1 => exact ih h1

/-- The four bytes that an `OUTLONG(v)` stores stay in the header: if the
statement comes after the statements `pre` and is followed by a statement
`next` of at least four bytes, the header holds `long2str(v)` at the offset
that `pre` reaches, whatever statements follow. -/
theorem out_steps_OUTLONG_read (pre post : List out_step) (v : Int) (next : out_step)
    (h h2 : header_buf) (hk : header_ok h)
    (e : out_steps (pre ++ out_step.OUTLONG v :: next :: post) h = some h2)
    (hn : 4 ≤ next.size) (hx : h.nhb + steps_size pre ≤ HEADERBYTES - 4) :
    region_safe (h.nhb + steps_size pre).toNat 4 h2 ∧
      (h2.AVI_header.drop (h.nhb + steps_size pre).toNat).take 4 = long2str v := by
  have hH : HEADERBYTES = 2048 := rfl
  rw [out_steps_append] at e
  cases e1 : out_steps pre h with
  | none => rw [e1] at e; cases e
  | some h1 =>
    rw [e1] at e
    simp only [Option.some_bind, out_steps] at e
    have k1 := out_steps_ok pre h h1 e1 hk
    have p1 := out_steps_nhb pre h h1 e1
    cases e2 : (out_step.OUTLONG v).apply h1 with
    | none => rw [e2] at e; cases e
    | some h3 =>
      rw [e2] at e
      simp only [] at e
      have k3 := out_step_apply_ok _ _ _ e2 k1
      have c3 := out_step_apply_cases _ _ _ e2
      have r3 : (h3.AVI_header.drop h1.nhb.toNat).take 4 = long2str v := by
        rw [OUTLONG_apply_some v h1 k1.2.1 (by omega)] at e2
        simp only [Option.some.injEq] at e2
        rw [← e2]
        have := write_at_read h1.AVI_header h1.nhb.toNat (long2str v)
        rw [long2str_length] at this
        have hz : h1.nhb.toNat - h1.AVI_header.length = 0 := by
          rw [k1.1, hH]
          omega
        unfold write_at at this
        rw [hz] at this
        simpa using this
      cases e4 : next.apply h3 with
      | none => rw [e4] at e; cases e
      | some h4 =>
        rw [e4] at e
        simp only [] at e
        have k4 := out_step_apply_ok _ _ _ e4 k3
        have c4 := out_step_apply_cases _ _ _ e4
        obtain ⟨q31, q32, q33, _⟩ := c3
        obtain ⟨q41, q42, q43, q44⟩ := c4
        obtain ⟨_, q11, q12, q13⟩ := k1
        simp only [out_step.size] at q31
        rw [if_neg (by simp)] at q32 q33
        have r4 : (h4.AVI_header.drop h1.nhb.toNat).take 4
            = (h3.AVI_header.drop h1.nhb.toNat).take 4 := by
          rcases q44 with n4 | ⟨off, src, hst, hoff⟩
          · rw [n4]
          · refine header_store_keeps _ _ _ _ _ _ hst k3.1 ?_
            rcases hoff with ⟨ho, _⟩ | ⟨ho, hl⟩ | ⟨ho, hl⟩
            · left
              omega
            · right
              omega
            · right
              omega
        have s4 : region_safe h1.nhb.toNat 4 h4 := by
          refine ⟨by omega, ?_, ?_⟩
          · rw [q42]
            split
            · rename_i hc
              rw [hc] at hn
              simp [out_step.size] at hn
            · left
              omega
          · rw [q43]
            split
            · rename_i hc
              rw [hc] at hn
              simp [out_step.size] at hn
            · left
              omega
        have r5 := out_steps_safe h1.nhb.toNat 4 post h4 h2 e k4 s4
        rw [← p1]
        exact ⟨r5.1, by rw [r5.2, r4, r3]⟩

theorem header_info_keeps (x n : Nat) (fd : Int) (info : List UInt8) (h h2 : header_buf)
    (e : header_info fd info h = some h2) (hk : header_ok h) (hs : region_safe x n h) :
    header_ok h2 ∧ region_safe x n h2 ∧
      (h2.AVI_header.drop x).take n = (h.AVI_header.drop x).take n := by
  unfold header_info at e
  cases e1 : out_steps [out_step.OUT4CC [76, 73, 83, 84]] h with
  | none => rw [e1] at e; cases e
  | some a =>
    rw [e1] at e
    simp only [] at e
    cases e2 : out_steps
        [out_step.OUTLONG (MAX_INFO_STRLEN + 12), out_step.OUT4CC [73, 78, 70, 79],
          out_step.OUT4CC [73, 83, 70, 84], out_step.OUTLONG 16] a with
    | none => rw [e2] at e; cases e
    | some b =>
      rw [e2] at e
      simp only [] at e
      have n1 := out_steps_nhb _ _ _ e1
      have n2 := out_steps_nhb _ _ _ e2
      simp only [steps_size, List.map_cons, List.map_nil, List.sum_cons, List.sum_nil,
        out_step.size] at n1 n2
      have k1 := out_steps_ok _ _ _ e1 hk
      have k2 := out_steps_ok _ _ _ e2 k1
      have s1 := out_steps_safe x n _ _ _ e1 hk hs
      have s2 := out_steps_safe x n _ _ _ e2 k1 s1.1
      obtain ⟨s21, s22, s23⟩ := s2.1
      obtain ⟨kl2, k22, k23, k24⟩ := k2
      have hs1 := hs.1
      cases e3 : header_store b.AVI_header b.nhb id_str with
      | none => rw [e3] at e; cases e
      | some b1 =>
        rw [e3] at e
        simp only [] at e
        have l3 := (header_store_write_at _ _ _ _ e3 kl2).2.1
        have r3 := header_store_keeps _ _ _ _ x n e3 kl2 (Or.inl (by omega))
        split at e
        · cases e
        · rename_i r hr
          split at e
          · cases e
          · rename_i b2 hb2
            simp only [Option.map_eq_some'] at e
            obtain ⟨b3, hb3, rfl⟩ := e
            have l4r4 : b2.length = HEADERBYTES.toNat ∧
                (b2.drop x).take n = (b1.drop x).take n := by
              split at hb2
              · simp only [Option.some.injEq] at hb2
                subst hb2
                exact ⟨l3, rfl⟩
              · exact ⟨(header_store_write_at _ _ _ _ hb2 l3).2.1,
                  header_store_keeps _ _ _ _ x n hb2 l3 (Or.inl (by omega))⟩
            have l5 := (header_store_write_at _ _ _ _ hb3 l4r4.1).2.1
            have r5 := header_store_keeps _ _ _ _ x n hb3 l4r4.1 (Or.inl (by omega))
            have hmax : 0 ≤ (if r.1 ≤ 0 then 0 else r.1) := by split <;> omega
            refine ⟨⟨l5, ?_, ?_, ?_⟩, ⟨?_, s22, s23⟩, ?_⟩
            · simp only []
              omega
            · simp only []
              omega
            · simp only []
              omega
            · simp only []
              omega
            · simp only []
              rw [r5, l4r4.2, r3, s2.2, s1.2]

theorem header_junk_keeps (x n : Nat) (h h2 : header_buf)
    (e : header_junk h = some (run.done h2)) (hk : header_ok h) (hs : region_safe x n h) :
    header_ok h2 ∧ region_safe x n h2 ∧
      (h2.AVI_header.drop x).take n = (h.AVI_header.drop x).take n := by
  unfold header_junk at e
  split at e
  · cases e
  · rename_i hj
    cases e1 : out_steps [out_step.OUT4CC [74, 85, 78, 75],
        out_step.OUTLONG (to_int32 (HEADERBYTES - h.nhb - 8 - 12))] h with
    | none => rw [e1] at e; cases e
    | some a =>
      rw [e1] at e
      simp only [] at e
      have n1 := out_steps_nhb _ _ _ e1
      simp only [steps_size, List.map_cons, List.map_nil, List.sum_cons, List.sum_nil,
        out_step.size] at n1
      have k1 := out_steps_ok _ _ _ e1 hk
      have s1 := out_steps_safe x n _ _ _ e1 hk hs
      obtain ⟨s11, s12, s13⟩ := s1.1
      obtain ⟨kl1, k12, k13, k14⟩ := k1
      split at e
      · cases e
      · rename_i b hb
        simp only [Option.some.injEq, run.done.injEq] at e
        subst e
        have l3 := (header_store_write_at _ _ _ _ hb kl1).2.1
        have r3 := header_store_keeps _ _ _ _ x n hb kl1 (Or.inl (by omega))
        refine ⟨⟨l3, ?_, ?_, ?_⟩, ⟨?_, s12, s13⟩, ?_⟩
        · simp only []
          omega
        · simp only []
          omega
        · simp only []
          omega
        · simp only []
          omega
        · simp only []
          rw [r3, s1.2]

theorem header_movi_read (m : Int) (h h2 : header_buf) (e : header_movi m h = some h2)
    (hk : header_ok h) (hn : h.nhb = HEADERBYTES - 12) :
    (h2.AVI_header.drop 2040).take 4 = long2str m := by
  have hH : HEADERBYTES = 2048 := rfl
  have := (out_steps_OUTLONG_read [out_step.OUT4CC [76, 73, 83, 84]] [] m
    (out_step.OUT4CC [109, 111, 118, 105]) h h2 hk e (by simp [out_step.size])
    (by simp only [steps_size, List.map_cons, List.map_nil, List.sum_cons, List.sum_nil,
          out_step.size]; omega)).2
  have hx : (h.nhb + steps_size [out_step.OUT4CC [76, 73, 83, 84]]).toNat = 2040 := by
    simp only [steps_size, List.map_cons, List.map_nil, List.sum_cons, List.sum_nil,
      out_step.size]
    omega
  rw [hx] at this
  exact this

theorem header_movi_keeps (x n : Nat) (m : Int) (h h2 : header_buf)
    (e : header_movi m h = some h2) (hk : header_ok h) (hs : region_safe x n h) :
    (h2.AVI_header.drop x).take n = (h.AVI_header.drop x).take n :=
  (out_steps_safe x n _ h h2 e hk hs).2

theorem header_ok_start :
    header_ok { AVI_header := List.replicate HEADERBYTES.toNat 0, nhb := 0 } :=
  ⟨List.length_replicate _ _, le_refl _, le_refl _, le_refl _⟩

theorem header_junk_nhb (h h2 : header_buf) (e : header_junk h = some (run.done h2))
    (h0 : 0 ≤ h.nhb) : h2.nhb = HEADERBYTES - 12 := by
  have hH : HEADERBYTES = 2048 := rfl
  unfold header_junk at e
  split at e
  · cases e
  · rename_i hj
    cases e1 : out_steps [out_step.OUT4CC [74, 85, 78, 75],
        out_step.OUTLONG (to_int32 (HEADERBYTES - h.nhb - 8 - 12))] h with
    | none => rw [e1] at e; cases e
    | some a =>
      rw [e1] at e
      simp only [] at e
      have n1 := out_steps_nhb _ _ _ e1
      simp only [steps_size, List.map_cons, List.map_nil, List.sum_cons, List.sum_nil,
        out_step.size] at n1
      split at e
      · cases e
      · rename_i b hb
        simp only [Option.some.injEq, run.done.injEq] at e
        subst e
        unfold header_store at hb
        split at hb
        · rename_i hc
          rw [List.length_replicate] at hc
          have hr : to_int32 (HEADERBYTES - h.nhb - 8 - 12) = HEADERBYTES - h.nhb - 8 - 12 :=
            to_int32_of_range _ (by omega) (by omega)
          simp only []
          rw [hr]
          omega
        · cases hb

theorem avi_close_header_steps_split (AVI : avi_t) (hasIndex : Bool) (l : List out_step)
    (riff_len : Int) (hr : avi_close_riff_len AVI = some riff_len)
    (hl : avi_close_header_steps AVI hasIndex = some l) :
    ∃ rest, l = avi_close_header_vids AVI hasIndex riff_len ++ rest := by
  unfold avi_close_header_steps at hl
  rw [hr] at hl
  split at hl
  · rename_i r2 indx auds hr2 _ _
    simp only [Option.some.injEq] at hr2 hl
    subst hr2
    rw [← hl]
    simp only [List.append_assoc]
    exact ⟨_, rfl⟩
  · cases hl

/-- The fields of the header that `avi_close_output_file` builds: a value
stored with `OUTLONG` among the statements of the main header and of the video
stream header, and followed there by a statement of four bytes, is in the
array at its offset when the array is written out; the length of the movi list
is at offset 2040. -/
theorem close_header_field (AVI : avi_t) (hasIndex : Bool) (info : List UInt8)
    (hb : header_buf) (m : Int) (hdr : List UInt8) (riff_len : Int)
    (hr : avi_close_riff_len AVI = some riff_len)
    (hbuild : avi_close_header_build AVI hasIndex info = some hb)
    (hjm : header_junk_movi hb m = some (run.done hdr)) :
    hdr.length = HEADERBYTES.toNat ∧
    (hdr.drop 2040).take 4 = long2str m ∧
    ∀ (pre post : List out_step) (v : Int) (next : out_step),
      avi_close_header_vids AVI hasIndex riff_len
        = pre ++ out_step.OUTLONG v :: next :: post →
      4 ≤ next.size → steps_size pre ≤ HEADERBYTES - 4 →
      (hdr.drop (steps_size pre).toNat).take 4 = long2str v := by
  unfold avi_close_header_build at hbuild
  cases hl : avi_close_header_steps AVI hasIndex with
  | none => rw [hl] at hbuild; cases hbuild
  | some l =>
    rw [hl] at hbuild
    simp only [] at hbuild
    cases h1 : out_steps l { AVI_header := List.replicate HEADERBYTES.toNat 0, nhb := 0 } with
    | none => rw [h1] at hbuild; cases hbuild
    | some a =>
      rw [h1] at hbuild
      simp only [] at hbuild
      have ka := out_steps_ok _ _ _ h1 header_ok_start
      obtain ⟨rest, hsplit⟩ := avi_close_header_steps_split AVI hasIndex l riff_len hr hl
      unfold header_junk_movi at hjm
      cases hj : header_junk hb with
      | none => rw [hj] at hjm; cases hjm
      | some r =>
        cases r with
        | exit_1 => rw [hj] at hjm; cases hjm
        | done h2 =>
          rw [hj] at hjm
          simp only [Option.map_eq_some', Option.some.injEq, run.done.injEq] at hjm
          obtain ⟨h3, hm3, rfl⟩ := hjm
          have key : ∀ (pre post : List out_step) (v : Int) (next : out_step),
              avi_close_header_vids AVI hasIndex riff_len
                = pre ++ out_step.OUTLONG v :: next :: post →
              4 ≤ next.size → steps_size pre ≤ HEADERBYTES - 4 →
              header_ok h2 ∧ h2.nhb = HEADERBYTES - 12 ∧
                (h3.AVI_header.drop (steps_size pre).toNat).take 4 = long2str v := by
            intro pre post v next hv hn hx
            have hl2 : l = pre ++ out_step.OUTLONG v :: next :: (post ++ rest) := by
              rw [hsplit, hv]
              simp
            rw [hl2] at h1
            have f1 := out_steps_OUTLONG_read pre (post ++ rest) v next _ a header_ok_start h1 hn
              (by simp only [zero_add]; exact hx)
            simp only [zero_add] at f1
            have f2 := header_info_keeps _ _ _ _ _ _ hbuild ka f1.1
            have f3 := header_junk_keeps _ _ _ _ hj f2.1 f2.2.1
            have f4 := header_movi_keeps _ _ _ _ _ hm3 f3.1 f3.2.1
            exact ⟨f3.1, header_junk_nhb _ _ hj f2.1.2.1, by rw [f4, f3.2.2, f2.2.2, f1.2]⟩
          have k0 := key [out_step.OUT4CC [82, 73, 70, 70]]
            ((avi_close_header_vids AVI hasIndex riff_len).drop 3) riff_len
            (out_step.OUT4CC [65, 86, 73, 32]) rfl (by simp [out_step.size]) (by decide)
          refine ⟨(out_steps_ok _ _ _ hm3 k0.1).1, header_movi_read m h2 h3 hm3 k0.1 k0.2.1, ?_⟩
          intro pre post v next hv hn hx
          exact (key pre post v next hv hn hx).2.2

theorem long2str_emod (x : Int) : long2str (x % 2 ^ 64) = long2str x := by
  have h0 : (x % 2 ^ 64) % 256 = x % 256 := by omega
  have h1 : ((x % 2 ^ 64) / 2 ^ 8) % 256 = (x / 2 ^ 8) % 256 := by omega
  have h2 : ((x % 2 ^ 64) / 2 ^ 16) % 256 = (x / 2 ^ 16) % 256 := by omega
  have h3 : ((x % 2 ^ 64) / 2 ^ 24) % 256 = (x / 2 ^ 24) % 256 := by omega
  unfold long2str low_byte
  simp only [Int.shiftRight_eq_div_pow]
  rw [h0]
  norm_num only at h1 h2 h3 ⊢
  rw [h1, h2, h3]

theorem avi_close_idx1_facts (A : avi_t) (e : Int) (o : outcome)
    (h : avi_close_idx1 A e = some o) :
    o.AVI = { A with fdes := o.AVI.fdes, pos := o.AVI.pos } ∧
    (A.is_opendml = 0 →
      (o.ret = 0 ∧ 0 ≤ to_int32 (A.n_idx * 16) ∧
        o.AVI.pos = A.pos + (8 + PAD_EVEN (to_int32 (A.n_idx * 16)))) ∨
      (o.ret = -1 ∧ o.AVI.pos = A.pos ∧ o.AVI_errno = AVI_ERR_WRITE_INDEX)) ∧
    (A.is_opendml ≠ 0 → o = { ret := 0, AVI := A, AVI_errno := e }) := by
  unfold avi_close_idx1 at h
  split at h
  · rename_i hz
    split at h
    · cases h
    · rename_i o1 ho1
      have f := avi_add_chunk_frame _ _ _ _ _ _ ho1
      have p := avi_add_chunk_pos _ _ _ _ _ _ ho1
      simp only [Option.some.injEq] at h
      subst h
      refine ⟨?_, fun _ => ?_, fun hn => absurd hz hn⟩
      · split
        · exact f
        · exact f
      · rcases p with ⟨p1, p2, p3⟩ | ⟨p1, p2, p3⟩
        · left
          rw [if_neg (by simp [p1])]
          exact ⟨p1, p2, p3⟩
        · right
          rw [if_pos (by rw [p1]; decide)]
          exact ⟨p1, p2, rfl⟩
  · rename_i hz
    simp only [Option.some.injEq] at h
    subst h
    exact ⟨rfl, fun h0 => absurd h0 hz, fun _ => rfl⟩

theorem avi_close_output_file_header_parts (A : avi_t) (e : Int) (info : List UInt8)
    (o : outcome) (hdr : List UInt8)
    (h : avi_close_output_file_header A e info = some (run.done (o, hdr))) :
    ∃ d m hb, avi_close_output_file_dump A e = some d ∧ avi_close_movi_len d.1 = some m ∧
      avi_close_idx1 d.1 d.2 = some o ∧
      avi_close_header_build o.AVI (decide (o.ret = 0)) info = some hb ∧
      header_junk_movi hb m = some (run.done hdr) := by
  unfold avi_close_output_file_header at h
  split at h
  · cases h
  · rename_i d hd
    split at h
    · rename_i m o1 hm ho1
      split at h
      · cases h
      · rename_i hb hbuild
        split at h
        · cases h
        · cases h
        · rename_i hdr1 hjm
          simp only [Option.some.injEq, run.done.injEq, Prod.mk.injEq] at h
          obtain ⟨h1, h2⟩ := h
          subst h1
          subst h2
          exact ⟨d, m, hb, hd, hm, ho1, hbuild, hjm⟩
    · cases h

theorem avi_close_header_build_riff_len (AVI : avi_t) (hasIndex : Bool) (info : List UInt8)
    (hb : header_buf) (h : avi_close_header_build AVI hasIndex info = some hb) :
    ∃ r, avi_close_riff_len AVI = some r := by
  unfold avi_close_header_build at h
  split at h
  · cases h
  · rename_i l hl
    unfold avi_close_header_steps at hl
    split at hl
    · rename_i r _ _ hr _ _
      exact ⟨r, hr⟩
    · cases hl

theorem avi_close_output_file_dump_is_opendml (A : avi_t) (e : Int) (d : avi_t × Int)
    (h : avi_close_output_file_dump A e = some d) : d.1.is_opendml = A.is_opendml := by
  unfold avi_close_output_file_dump at h
  split at h
  · rw [← Option.some.inj h]
  · split at h
    · cases h
    · rename_i vsi hv
      split at h
      · rename_i ch en hch hen
        split at h
        · cases h
        · rename_i r hr
          split at h
          · cases h
          · rename_i d1 hd1
            split at h
            · cases h
            · split at h
              · cases h
              · rw [← Option.some.inj h]
                have f1 := riff_frame_is_opendml (avi_ixnn_entry_riff _ _ _ _ _ hr)
                have f2 := riff_frame_is_opendml (odml_dump_audio_riff _ _ _ _ hd1)
                show d1.1.is_opendml = A.is_opendml
                rw [f2]
                exact f1
      · cases h

/-- C26: in the header that `avi_close_output_file` builds for a file that is
not OpenDML, the length field of the RIFF chunk (bytes 4 to 7) is the write
position after the output of `idx1` less 8, and the length field of the movi
list (bytes 2040 to 2043) is the write position before `idx1` less
`HEADERBYTES` plus 4; for an OpenDML file the length field of the RIFF chunk is
`stdindex[1]->qwBaseOffset - 8` of the video super-index.  The fields hold the
low 32 bits of these values, as `long2str` stores them. -/
theorem close_header_riff_and_movi_length (A : avi_t) (e : Int) (info : List UInt8)
    (o : outcome) (hdr : List UInt8)
    (h : avi_close_output_file_header A e info = some (run.done (o, hdr))) :
    (A.is_opendml = 0 →
      (hdr.drop 4).take 4 = long2str (o.AVI.pos - 8) ∧
      (hdr.drop 2040).take 4 = long2str (A.pos - HEADERBYTES + 4) ∧
      (o.ret = 0 → o.AVI.pos = A.pos + (8 + PAD_EVEN (to_int32 (A.n_idx * 16)))) ∧
      (o.ret ≠ 0 → o.AVI.pos = A.pos)) ∧
    (A.is_opendml ≠ 0 →
      ∃ vsi c, o.AVI.video_superindex = some vsi ∧ vsi.stdindex[1]? = some c ∧
        (hdr.drop 4).take 4 = long2str ((c.qwBaseOffset : Int) - 8)) := by
  obtain ⟨d, m, hb, hd, hm, hi, hbuild, hjm⟩ :=
    avi_close_output_file_header_parts A e info o hdr h
  obtain ⟨r, hr⟩ := avi_close_header_build_riff_len _ _ _ _ hbuild
  have hf := close_header_field _ _ _ _ _ _ _ hr hbuild hjm
  have hriff := hf.2.2 [out_step.OUT4CC [82, 73, 70, 70]]
    ((avi_close_header_vids o.AVI (decide (o.ret = 0)) r).drop 3) r
    (out_step.OUT4CC [65, 86, 73, 32]) rfl (by simp [out_step.size]) (by decide)
  have h4 : (steps_size [out_step.OUT4CC [82, 73, 70, 70]]).toNat = 4 := rfl
  rw [h4] at hriff
  have fi := avi_close_idx1_facts _ _ _ hi
  constructor
  · intro hz
    rw [avi_close_output_file_dump_legacy A e hz, Option.some.injEq] at hd
    subst hd
    rw [avi_close_movi_len_legacy A hz, Option.some.injEq] at hm
    have hoz : o.AVI.is_opendml = 0 := by
      rw [fi.1]
      exact hz
    have hr2 : r = o.AVI.pos - 8 := by
      unfold avi_close_riff_len at hr
      rw [if_neg (by simp [hoz]), Option.some.injEq] at hr
      exact hr.symm
    refine ⟨by rw [hriff, hr2], ?_, ?_, ?_⟩
    · rw [hf.2.1, ← hm, long2str_emod]
    · intro hret
      rcases fi.2.1 hz with ⟨_, _, p⟩ | ⟨p, _, _⟩
      · exact p
      · rw [hret] at p
        exact absurd p (by decide)
    · intro hret
      rcases fi.2.1 hz with ⟨p, _, _⟩ | ⟨_, p, _⟩
      · exact absurd p hret
      · exact p
  · intro hnz
    have hoz : o.AVI.is_opendml ≠ 0 := by
      have hdz : d.1.is_opendml ≠ 0 := by
        rw [avi_close_output_file_dump_is_opendml A e d hd]
        exact hnz
      rw [fi.2.2 hdz]
      exact hdz
    unfold avi_close_riff_len at hr
    rw [if_pos hoz] at hr
    split at hr
    · cases hr
    · rename_i vsi hv
      simp only [Option.map_eq_some'] at hr
      obtain ⟨c, hc, rfl⟩ := hr
      exact ⟨vsi, c, hv, hc, hriff⟩

theorem demo_close_result_eq :
    avi_close_output_file_header demo_audio_frame_avi 0 []
      = some (run.done demo_close_result) :=
  run_eq_done _ _ (by decide!)

theorem run_done_pair {α β : Type} (x : Option (run (α × β))) (p : α × β)
    (h : x = some (run.done p)) : x = some (run.done (p.1, p.2)) := h

theorem close_header_riff_and_movi_length_witness :
    ∃ o hdr, avi_close_output_file_header demo_audio_frame_avi 0 [] = some (run.done (o, hdr)) ∧
      (hdr.drop 4).take 4 = long2str (o.AVI.pos - 8) ∧
      (hdr.drop 2040).take 4 = long2str (demo_audio_frame_avi.pos - HEADERBYTES + 4) :=
  ⟨demo_close_result.1, demo_close_result.2, run_done_pair _ _ demo_close_result_eq,
    ((close_header_riff_and_movi_length demo_audio_frame_avi 0 [] demo_close_result.1
      demo_close_result.2 (run_done_pair _ _ demo_close_result_eq)).1 (by decide!)).1,
    ((close_header_riff_and_movi_length demo_audio_frame_avi 0 [] demo_close_result.1
      demo_close_result.2 (run_done_pair _ _ demo_close_result_eq)).1 (by decide!)).2.1⟩

theorem plat_ftruncate_ok (f : plat_file) (len : Int) (h0 : 0 ≤ len)
    (hroom : ∀ l, f.limit = some l → len ≤ (l : Int)) :
    plat_ftruncate f len
      = (0, { f with
          data := f.data.take len.toNat ++ List.replicate (len.toNat - f.data.length) 0 }) := by
  unfold plat_ftruncate
  rw [if_neg (by omega)]
  cases hl : f.limit with
  | none => simp
  | some l =>
    have := hroom l hl
    simp only [decide_eq_true_eq]
    rw [if_neg (by omega)]

theorem plat_ftruncate_length (f : plat_file) (len : Int)
    (h : 0 ≤ (plat_ftruncate f len).1) :
    (plat_ftruncate f len).2.data.length = len.toNat := by
  unfold plat_ftruncate at h ⊢
  split at h
  · simp at h
  · split at h
    · simp at h
    · rename_i h1 h2
      rw [if_neg h1, if_neg h2]
      simp only [List.length_append, List.length_take, List.length_replicate]
      omega

/-- The end of `avi_close_output_file` on a file that is not OpenDML, when
the device holds the file up to the write position: the header is at the start
of the file, the file is as long as the write position, and the value
returned tells whether the legacy index was written. -/
theorem avi_close_write_exec (o : outcome) (hdr : List UInt8)
    (hlen : hdr.length = HEADERBYTES.toNat) (hz : o.AVI.is_opendml = 0)
    (hp : HEADERBYTES ≤ o.AVI.pos)
    (hroom : ∀ l, o.AVI.fdes.limit = some l → o.AVI.pos ≤ (l : Int)) :
    ∃ f, avi_close_write o hdr
        = some { ret := if o.ret ≠ 0 then -1 else 0
                 AVI := { o.AVI with fdes := f }
                 AVI_errno := o.AVI_errno } ∧
      f.data.take HEADERBYTES.toNat = hdr ∧ f.data.length = o.AVI.pos.toNat := by
  have hH : HEADERBYTES = 2048 := rfl
  have hHn : HEADERBYTES.toNat = 2048 := rfl
  unfold avi_close_write
  have hs0 : plat_seek_set o.AVI.fdes 0 = (0, { o.AVI.fdes with offset := 0 }) := by
    unfold plat_seek_set
    rw [if_neg (by decide)]
    rfl
  rw [hs0]
  simp only [lt_self_iff_false, if_false]
  have hw := plat_write_full { o.AVI.fdes with offset := 0 } hdr HEADERBYTES (by decide)
    (by rw [hlen]; decide)
    (fun l hl => by
      have := hroom l hl
      simp only [Nat.cast_zero, zero_add]
      omega)
    (Or.inl (by decide))
  rw [hw]
  simp only [ne_eq, not_true_eq_false, if_false]
  have ht : hdr.take HEADERBYTES.toNat = hdr := List.take_of_length_le (by rw [hlen])
  rw [ht]
  have hf := plat_ftruncate_ok
    { o.AVI.fdes with data := write_at o.AVI.fdes.data 0 hdr, offset := 0 + HEADERBYTES.toNat }
    o.AVI.pos (by omega) (fun l hl => hroom l hl)
  rw [hf]
  simp only [lt_self_iff_false, if_false]
  rw [if_neg (by simp [hz])]
  refine ⟨_, rfl, ?_, ?_⟩
  · simp only []
    have hwl : (write_at o.AVI.fdes.data 0 hdr).take 2048 = hdr := by
      have := write_at_read o.AVI.fdes.data 0 hdr
      rw [List.drop_zero, hlen, hHn] at this
      exact this
    have hwl2 := write_at_length o.AVI.fdes.data 0 hdr
    rw [hHn, List.take_append_of_le_length (by rw [List.length_take]; omega), List.take_take]
    rw [show min 2048 o.AVI.pos.toNat = 2048 from by omega]
    exact hwl
  · simp only [List.length_append, List.length_take, List.length_replicate]
    omega

theorem avi_close_write_length (o r : outcome) (hdr : List UInt8)
    (h : avi_close_write o hdr = some r) (hret : r.ret = 0) (hz : o.AVI.is_opendml = 0) :
    r.AVI.fdes.data.length = o.AVI.pos.toNat ∧ r.AVI.pos = o.AVI.pos ∧ o.ret = 0 := by
  unfold avi_close_write at h
  split at h
  · rw [← Option.some.inj h] at hret
    simp [header_write_fail] at hret
  · split at h
    · cases h
    · rename_i w hw
      split at h
      · rw [← Option.some.inj h] at hret
        simp [header_write_fail] at hret
      · split at h
        · rw [← Option.some.inj h] at hret
          simp [header_write_fail] at hret
        · rename_i hft
          rw [if_neg (by simp [hz])] at h
          simp only [Option.some.injEq] at h
          subst h
          refine ⟨plat_ftruncate_length _ _ (by omega), rfl, ?_⟩
          by_contra hne
          simp only [] at hret
          rw [if_pos hne] at hret
          simp at hret

theorem room_of_limit (f : plat_file) (pos : Int) (L : Nat) (h1 : f.limit = some L)
    (h2 : pos ≤ (L : Int)) : ∀ l, f.limit = some l → pos ≤ (l : Int) := by
  intro l hl
  rw [h1] at hl
  rw [← Option.some.inj hl]
  exact h2

/-- C27: `avi_close_output_file` on a file that is not OpenDML, on a device
that holds the file up to the write position (so that the output of the header
and the truncation succeed).  If `avi_add_chunk` for `idx1` fails, the header
is built and written with `AVIF_HASINDEX` cleared (the flags are `0x100`),
`AVI_errno` is `AVI_ERR_WRITE_INDEX` and the function returns -1; if it
succeeds, the function returns 0 and the flags hold `AVIF_HASINDEX`. -/
theorem close_idx1_failure_and_success (A : avi_t) (e : Int) (info : List UInt8)
    (oi : outcome) (hdr : List UInt8)
    (hz : A.is_opendml = 0) (hp : HEADERBYTES ≤ A.pos)
    (hh : avi_close_output_file_header A e info = some (run.done (oi, hdr)))
    (hroom : ∀ l, oi.AVI.fdes.limit = some l → oi.AVI.pos ≤ (l : Int)) :
    avi_close_idx1 A e = some oi ∧
    ∃ o, avi_close_output_file A e info = some (run.done o) ∧
      o.AVI.fdes.data.take HEADERBYTES.toNat = hdr ∧
      (oi.ret ≠ 0 →
        (hdr.drop 44).take 4 = long2str 0x100 ∧ o.AVI_errno = AVI_ERR_WRITE_INDEX ∧
          o.ret = -1) ∧
      (oi.ret = 0 →
        (hdr.drop 44).take 4 = long2str (0x110 + (if A.must_use_index ≠ 0 then 0x20 else 0)) ∧
          o.ret = 0) := by
  obtain ⟨d, m, hb, hd, hm, hi, hbuild, hjm⟩ :=
    avi_close_output_file_header_parts A e info oi hdr hh
  rw [avi_close_output_file_dump_legacy A e hz, Option.some.injEq] at hd
  subst hd
  have hi : avi_close_idx1 A e = some oi := hi
  obtain ⟨r, hr⟩ := avi_close_header_build_riff_len _ _ _ _ hbuild
  have hf := close_header_field _ _ _ _ _ _ _ hr hbuild hjm
  have hflag := hf.2.2 ((avi_close_header_vids oi.AVI (decide (oi.ret = 0)) r).take 12)
    ((avi_close_header_vids oi.AVI (decide (oi.ret = 0)) r).drop 14)
    (header_flag oi.AVI (decide (oi.ret = 0))) (out_step.OUTLONG oi.AVI.video_frames) rfl
    (by simp [out_step.size]) (by rw [show steps_size
      ((avi_close_header_vids oi.AVI (decide (oi.ret = 0)) r).take 12) = 44 from rfl]; decide)
  rw [show steps_size ((avi_close_header_vids oi.AVI (decide (oi.ret = 0)) r).take 12) = 44
    from rfl] at hflag
  have h44 : (44 : Int).toNat = 44 := rfl
  rw [h44] at hflag
  have fi := avi_close_idx1_facts _ _ _ hi
  have hoz : oi.AVI.is_opendml = 0 := by
    rw [fi.1]
    exact hz
  have hmu : oi.AVI.must_use_index = A.must_use_index := by
    rw [fi.1]
  have hpos : HEADERBYTES ≤ oi.AVI.pos := by
    have hpe := PAD_EVEN_eq (to_int32 (A.n_idx * 16))
    rcases fi.2.1 hz with ⟨_, p0, p⟩ | ⟨_, p, _⟩
    · show HEADERBYTES ≤ oi.AVI.pos
      omega
    · show HEADERBYTES ≤ oi.AVI.pos
      omega
  obtain ⟨f, hw, ht, _⟩ := avi_close_write_exec oi hdr hf.1 hoz hpos hroom
  refine ⟨hi, { ret := if oi.ret ≠ 0 then -1 else 0
                AVI := { oi.AVI with fdes := f }
                AVI_errno := oi.AVI_errno }, ?_, ht, ?_, ?_⟩
  · unfold avi_close_output_file
    rw [hh]
    simp only []
    rw [hw]
    rfl
  · intro hne
    refine ⟨?_, ?_, ?_⟩
    · rw [hflag, show decide (oi.ret = 0) = false from decide_eq_false hne]
      simp [header_flag]
    · rcases fi.2.1 hz with ⟨p, _, _⟩ | ⟨_, _, p⟩
      · exact absurd p hne
      · exact p
    · show (if oi.ret ≠ 0 then (-1 : Int) else 0) = -1
      rw [if_pos hne]
  · intro h0
    refine ⟨?_, ?_⟩
    · rw [hflag, show decide (oi.ret = 0) = true from decide_eq_true h0]
      unfold header_flag
      rw [hmu]
      by_cases hm0 : A.must_use_index = 0
      · simp [hm0]
      · simp [hm0]
    · show (if oi.ret ≠ 0 then (-1 : Int) else 0) = 0
      rw [if_neg (by simp [h0])]

theorem demo_small_device_result_eq :
    avi_close_output_file_header demo_small_device_avi 0 []
      = some (run.done demo_small_device_result) :=
  run_eq_done _ _ (by decide!)

theorem close_idx1_failure_and_success_witness :
    ∃ o, avi_close_output_file demo_small_device_avi 0 [] = some (run.done o) ∧ o.ret = -1 ∧
      o.AVI_errno = AVI_ERR_WRITE_INDEX ∧
      (o.AVI.fdes.data.drop 44).take 4 = long2str 0x100 :=
  match close_idx1_failure_and_success demo_small_device_avi 0 [] demo_small_device_result.1
      demo_small_device_result.2 (by decide!) (by decide!)
      (run_done_pair _ _ demo_small_device_result_eq)
      (room_of_limit _ _ 2050 (by decide!) (by decide!)) with
  | ⟨_, o, ho, ht, hfail, _⟩ =>
    ⟨o, ho, (hfail (by decide!)).2.2, (hfail (by decide!)).2.1, by
      have h1 := (hfail (by decide!)).1
      rw [← ht] at h1
      rw [← h1, List.drop_take]
      simp [HEADERBYTES, List.take_take]⟩

theorem header_indx_count (si : avisuperindex_chunk) (x : List out_step)
    (h : header_indx si = some x) : x.count out_step.set_strl_start = 0 := by
  unfold header_indx at h
  split at h
  · rw [← Option.some.inj h, List.count_eq_zero]
    intro hm
    simp only [List.mem_append, List.mem_cons, List.mem_flatten, List.mem_map, reduceCtorEq,
      List.not_mem_nil, or_self, false_or, exists_exists_and_eq_and, or_false] at hm
    obtain ⟨en, _, hen⟩ := hm
    simp at hen
  · cases h

theorem header_vids_strf_count (AVI : avi_t) :
    (header_vids_strf AVI).count out_step.set_strl_start = 0 := by
  unfold header_vids_strf
  rw [List.count_eq_zero]
  intro hm
  simp only [List.mem_append, List.mem_cons, reduceCtorEq, List.not_mem_nil, or_self,
    false_or] at hm
  split at hm
  · simp at hm
  · split at hm
    · split at hm <;> simp at hm
    · simp at hm

theorem avi_close_header_vids_count (AVI : avi_t) (hasIndex : Bool) (riff_len : Int) :
    (avi_close_header_vids AVI hasIndex riff_len).count out_step.set_strl_start = 1 := by
  rfl

theorem avi_close_header_odml_count (AVI : avi_t) :
    (avi_close_header_odml AVI).count out_step.set_strl_start = 0 := by
  unfold avi_close_header_odml
  split <;> simp [List.count_cons]

theorem avi_close_header_auds_strh_count (AVI : avi_t) (j : Nat) :
    (avi_close_header_auds_strh AVI j).count out_step.set_strl_start = 1 := by
  unfold avi_close_header_auds_strh
  split <;> simp [List.count_cons]

theorem avi_close_header_auds_strf_count (AVI : avi_t) (j : Nat) :
    (avi_close_header_auds_strf AVI j).count out_step.set_strl_start = 0 := by
  unfold avi_close_header_auds_strf avi_close_header_auds_strf_payload
  split
  · simp [List.count_cons]
  · split <;> simp [List.count_cons]

theorem avi_close_header_auds_count (AVI : avi_t) (j : Nat) (x : List out_step)
    (h : avi_close_header_auds AVI j = some x) : x.count out_step.set_strl_start = 1 := by
  have h1 := avi_close_header_auds_strh_count AVI j
  have h2 := avi_close_header_auds_strf_count AVI j
  unfold avi_close_header_auds at h
  split at h
  · split at h
    · rw [← Option.some.inj h, List.count_append, h1, h2]
    · rename_i si _
      simp only [Option.map_eq_some'] at h
      obtain ⟨y, hy, rfl⟩ := h
      have h3 := header_indx_count si y hy
      simp only [List.count_append, h1, h2, h3]
      simp [List.count_cons]
  · rw [← Option.some.inj h]
    simp only [List.count_append, h1, h2]
    simp [List.count_cons]

theorem avi_close_header_auds_all_count (AVI : avi_t) :
    ∀ (js : List Nat) (x : List out_step), avi_close_header_auds_all AVI js = some x →
      x.count out_step.set_strl_start = js.length := by
  intro js
  induction js with
  | nil =>
    intro x h
    rw [avi_close_header_auds_all] at h
    rw [← Option.some.inj h]
    rfl
  | cons j rest ih =>
    intro x h
    rw [avi_close_header_auds_all] at h
    split at h
    · rename_i a b ha hb
      rw [← Option.some.inj h, List.count_append, avi_close_header_auds_count AVI j a ha,
        ih b hb, List.length_cons]
      omega
    · cases h

theorem avi_close_header_steps_count (AVI : avi_t) (hasIndex : Bool) (l : List out_step)
    (h : avi_close_header_steps AVI hasIndex = some l) :
    l.count out_step.set_strl_start = AVI.anum.toNat + 1 := by
  unfold avi_close_header_steps at h
  split at h
  · rename_i r indx auds hr hindx hauds
    have c1 := avi_close_header_vids_count AVI hasIndex r
    have c2 := header_vids_strf_count AVI
    have c3 : indx.count out_step.set_strl_start = 0 := by
      unfold avi_close_header_vids_indx at hindx
      split at hindx
      · split at hindx
        · cases hindx
        · exact header_indx_count _ _ hindx
      · rw [← Option.some.inj hindx]
        rfl
    have c4 := avi_close_header_auds_all_count AVI _ _ hauds
    have c5 := avi_close_header_odml_count AVI
    rw [← Option.some.inj h]
    simp only [List.count_append, c1, c2, c3, c4, c5, List.length_range]
    simp [List.count_cons]
    omega
  · cases h

theorem avi_close_header_auds_strf_len_eq (AVI : avi_t) (j : Nat) :
    avi_close_header_auds_strf_len AVI j = if (AVI.track j).a_fmt = 0x55 then 30 else 18 := by
  unfold avi_close_header_auds_strf_len
  by_cases hf : (AVI.track j).a_fmt = 0x55
  · by_cases hv : (AVI.track j).a_vbr ≠ 0
    · rw [if_pos ⟨hf, hv⟩, if_pos hf]
    · rw [if_neg (fun h => hv h.2), if_pos ⟨hf, hv⟩, if_pos hf]
  · rw [if_neg (fun h => hf h.1), if_neg (fun h => hf h.1), if_neg hf]

theorem avi_close_header_auds_strf_payload_size (AVI : avi_t) (j : Nat) :
    steps_size (avi_close_header_auds_strf_payload AVI j)
      = avi_close_header_auds_strf_len AVI j := by
  unfold avi_close_header_auds_strf_payload avi_close_header_auds_strf_len
  split
  · rfl
  · split
    · rfl
    · rfl

/-- C25: in the header of `avi_close_output_file` the stream format chunk of an
audio track declares 30 bytes if `a_fmt` is `0x55` (with or without `a_vbr`)
and 18 bytes otherwise, and the statements after the length advance `nhb` by
the length declared; the statements of the header start `anum + 1` stream
lists (`strl_start = nhb; OUT4CC ("strl")`, after `OUT4CC ("LIST"); OUTLONG(0)`),
and the header written holds `anum + 1` as the number of streams of the main
AVI header (bytes 56 to 59). -/
theorem close_audio_strf_and_stream_count (AVI : avi_t) (hasIndex : Bool) (info : List UInt8) :
    (∀ j, avi_close_header_auds_strf AVI j
        = out_step.OUT4CC [115, 116, 114, 102]
          :: out_step.OUTLONG (if (AVI.track j).a_fmt = 0x55 then 30 else 18)
          :: avi_close_header_auds_strf_payload AVI j ∧
      steps_size (avi_close_header_auds_strf_payload AVI j)
        = (if (AVI.track j).a_fmt = 0x55 then 30 else 18) ∧
      ∀ h h2, out_steps (avi_close_header_auds_strf_payload AVI j) h = some h2 →
        h2.nhb = h.nhb + (if (AVI.track j).a_fmt = 0x55 then 30 else 18)) ∧
    (∀ l, avi_close_header_steps AVI hasIndex = some l → 0 ≤ AVI.anum →
      ((l.count out_step.set_strl_start : Nat) : Int) = AVI.anum + 1) ∧
    (∀ hb m hdr, avi_close_header_build AVI hasIndex info = some hb →
      header_junk_movi hb m = some (run.done hdr) →
      (hdr.drop 56).take 4 = long2str (AVI.anum + 1)) := by
  refine ⟨fun j => ?_, ?_, ?_⟩
  · have hl := avi_close_header_auds_strf_len_eq AVI j
    have hs := avi_close_header_auds_strf_payload_size AVI j
    rw [hl] at hs
    refine ⟨?_, hs, ?_⟩
    · unfold avi_close_header_auds_strf
      rw [hl]
      rfl
    · intro h h2 e
      rw [out_steps_nhb _ _ _ e, hs]
  · intro l hl h0
    rw [avi_close_header_steps_count AVI hasIndex l hl]
    push_cast
    omega
  · intro hb m hdr hbuild hjm
    obtain ⟨r, hr⟩ := avi_close_header_build_riff_len _ _ _ _ hbuild
    have hf := close_header_field _ _ _ _ _ _ _ hr hbuild hjm
    have hfield := hf.2.2 ((avi_close_header_vids AVI hasIndex r).take 15)
      ((avi_close_header_vids AVI hasIndex r).drop 17)
      (AVI.anum + 1) (out_step.OUTLONG 0) rfl
      (by simp [out_step.size]) (by rw [show steps_size
        ((avi_close_header_vids AVI hasIndex r).take 15) = 56 from rfl]; decide)
    rw [show steps_size ((avi_close_header_vids AVI hasIndex r).take 15) = 56 from rfl] at hfield
    exact hfield

theorem demo_close_hdr_eq :
    header_junk_movi demo_close_header 16 = some (run.done demo_close_hdr) :=
  run_eq_done _ _ (by decide!)

theorem close_audio_strf_and_stream_count_witness :
    (∃ l, avi_close_header_steps demo_close_idx1.AVI true = some l ∧
      ((l.count out_step.set_strl_start : Nat) : Int) = demo_close_idx1.AVI.anum + 1) ∧
    (demo_close_hdr.drop 56).take 4 = long2str (demo_close_idx1.AVI.anum + 1) :=
  ⟨⟨_, option_eq_some_getD _ [] (by decide!),
      (close_audio_strf_and_stream_count demo_close_idx1.AVI true []).2.1 _
        (option_eq_some_getD _ [] (by decide!)) (by decide!)⟩,
    (close_audio_strf_and_stream_count demo_close_idx1.AVI
      (decide (demo_close_idx1.ret = 0)) []).2.2 _ _ _ demo_close_header_eq demo_close_hdr_eq⟩

/-! ### The fix-up of the additional RIFF chunks -/

theorem write_at_keeps_low (d : List UInt8) (o : Nat) (c : List UInt8) (x n : Nat)
    (h1 : x + n ≤ o) (h2 : x + n ≤ d.length) :
    ((write_at d o c).drop x).take n = (d.drop x).take n := by
  unfold write_at
  simp only [List.append_assoc]
  rw [List.drop_append_of_le_length (by rw [List.length_take]; omega),
    List.take_append_of_le_length (by rw [List.length_drop, List.length_take]; omega),
    List.drop_take, List.take_take]
  congr 1
  omega

theorem long2str_emod32 (x : Int) : long2str (x % 2 ^ 32) = long2str x := by
  have h0 : (x % 2 ^ 32) % 256 = x % 256 := by omega
  have h1 : ((x % 2 ^ 32) / 2 ^ 8) % 256 = (x / 2 ^ 8) % 256 := by omega
  have h2 : ((x % 2 ^ 32) / 2 ^ 16) % 256 = (x / 2 ^ 16) % 256 := by omega
  have h3 : ((x % 2 ^ 32) / 2 ^ 24) % 256 = (x / 2 ^ 24) % 256 := by omega
  unfold long2str low_byte
  simp only [Int.shiftRight_eq_div_pow]
  rw [h0]
  norm_num only at h1 h2 h3 ⊢
  rw [h1, h2, h3]

theorem long2str_emod32_sub (x y : Int) : long2str ((x % 2 ^ 32 - y) % 2 ^ 32) = long2str (x - y) := by
  rw [long2str_emod32]
  have h : (x % 2 ^ 32 - y) % 2 ^ 32 = (x - y) % 2 ^ 32 := by omega
  rw [← long2str_emod32 (x % 2 ^ 32 - y), h, long2str_emod32]

theorem no_limit_room (f : plat_file) (h : f.limit = none) (n : Int) :
    ∀ l, f.limit = some l → (f.offset : Int) + n ≤ (l : Int) := by
  intro l hl
  rw [h] at hl
  cases hl

/-- One round of the fix-up loop on a device without limit: the two lengths
are in the file, what lies before them stays, and the file reaches at least to
the end of the second length. -/
theorem avi_close_fixup_round (f : plat_file) (b : Nat) (v : Int) (hlim : f.limit = none) :
    ∃ w1 w2, plat_write (plat_seek_set f ((b : Int) + 4)).2 (long2str (v % 2 ^ 32)) 4 = some w1 ∧
      plat_write (plat_seek_cur w1.2 8).2 (long2str ((v % 2 ^ 32 - 12) % 2 ^ 32)) 4 = some w2 ∧
      w2.2.limit = none ∧
      (w2.2.data.drop (b + 4)).take 4 = long2str v ∧
      (w2.2.data.drop (b + 16)).take 4 = long2str (v - 12) ∧
      b + 20 ≤ w2.2.data.length ∧ f.data.length ≤ w2.2.data.length ∧
      ∀ x n, x + n ≤ b + 4 → x + n ≤ f.data.length →
        (w2.2.data.drop x).take n = (f.data.drop x).take n := by
  have hs : plat_seek_set f ((b : Int) + 4) = ((b : Int) + 4, { f with offset := b + 4 }) := by
    unfold plat_seek_set
    rw [if_neg (by omega)]
    congr 2
  have hw1 := plat_write_full { f with offset := b + 4 } (long2str (v % 2 ^ 32)) 4 (by decide)
    (by rw [long2str_length]; decide)
    (no_limit_room { f with offset := b + 4 } hlim 4)
    (Or.inl (by decide))
  have t4 : ∀ y : Int, (long2str y).take (4 : Int).toNat = long2str y := fun y => rfl
  rw [t4] at hw1
  have hc : plat_seek_cur
      { f with data := write_at f.data (b + 4) (long2str (v % 2 ^ 32))
               offset := b + 4 + (4 : Int).toNat } 8
      = ((b : Int) + 16,
          { f with data := write_at f.data (b + 4) (long2str (v % 2 ^ 32)), offset := b + 16 }) := by
    unfold plat_seek_cur
    have e4 : (4 : Int).toNat = 4 := rfl
    simp only [e4]
    rw [if_neg (by push_cast; omega)]
    congr 1
  have hw2 := plat_write_full
    { f with data := write_at f.data (b + 4) (long2str (v % 2 ^ 32)), offset := b + 16 }
    (long2str ((v % 2 ^ 32 - 12) % 2 ^ 32)) 4 (by decide) (by rw [long2str_length]; decide)
    (no_limit_room
      { f with data := write_at f.data (b + 4) (long2str (v % 2 ^ 32)), offset := b + 16 }
      hlim 4)
    (Or.inl (by decide))
  rw [t4] at hw2
  have l1 := write_at_length f.data (b + 4) (long2str (v % 2 ^ 32))
  rw [long2str_length] at l1
  have l2 := write_at_length (write_at f.data (b + 4) (long2str (v % 2 ^ 32))) (b + 16)
    (long2str ((v % 2 ^ 32 - 12) % 2 ^ 32))
  rw [long2str_length] at l2
  refine ⟨_, _, by rw [hs]; exact hw1, by rw [hc]; exact hw2, hlim, ?_, ?_, ?_, ?_, ?_⟩
  · show ((write_at (write_at f.data (b + 4) (long2str (v % 2 ^ 32))) (b + 16)
      (long2str ((v % 2 ^ 32 - 12) % 2 ^ 32))).drop (b + 4)).take 4 = _
    rw [write_at_keeps_low _ _ _ _ _ (by omega) (by omega)]
    have := write_at_read f.data (b + 4) (long2str (v % 2 ^ 32))
    rw [long2str_length] at this
    rw [this, long2str_emod32]
  · show ((write_at (write_at f.data (b + 4) (long2str (v % 2 ^ 32))) (b + 16)
      (long2str ((v % 2 ^ 32 - 12) % 2 ^ 32))).drop (b + 16)).take 4 = _
    have := write_at_read (write_at f.data (b + 4) (long2str (v % 2 ^ 32))) (b + 16)
      (long2str ((v % 2 ^ 32 - 12) % 2 ^ 32))
    rw [long2str_length] at this
    rw [this, long2str_emod32_sub]
  · show b + 20 ≤ (write_at (write_at f.data (b + 4) (long2str (v % 2 ^ 32))) (b + 16)
      (long2str ((v % 2 ^ 32 - 12) % 2 ^ 32))).length
    omega
  · show f.data.length ≤ (write_at (write_at f.data (b + 4) (long2str (v % 2 ^ 32))) (b + 16)
      (long2str ((v % 2 ^ 32 - 12) % 2 ^ 32))).length
    omega
  · intro x n h1 h2
    show ((write_at (write_at f.data (b + 4) (long2str (v % 2 ^ 32))) (b + 16)
      (long2str ((v % 2 ^ 32 - 12) % 2 ^ 32))).drop x).take n = _
    rw [write_at_keeps_low _ _ _ _ _ (by omega) (by omega),
      write_at_keeps_low _ _ _ _ _ (by omega) h2]

/-- The fix-up loop on a device without limit, over the values of `k` still to
visit (in increasing order): it returns, the lengths of every RIFF chunk
visited are in the file, and the bytes before the first chunk visited stay. -/
theorem avi_close_fixup_spec (vsi : avisuperindex_chunk) :
    ∀ (ks : List Nat) (f : plat_file), f.limit = none → ks.Pairwise (fun a b => a < b) →
      (∀ k ∈ ks, k + 1 < vsi.stdindex.length) →
      (∀ i ∈ ks, ∀ j ∈ ks, i < j → ∀ ci cj, vsi.stdindex[i]? = some ci →
        vsi.stdindex[j]? = some cj → ci.qwBaseOffset + 24 ≤ cj.qwBaseOffset) →
      ∃ f2, avi_close_fixup vsi ks f = some f2 ∧ f2.limit = none ∧
        f.data.length ≤ f2.data.length ∧
        (∀ x n, x + n ≤ f.data.length →
          (∀ k ∈ ks, ∀ c, vsi.stdindex[k]? = some c → x + n ≤ c.qwBaseOffset + 4) →
          (f2.data.drop x).take n = (f.data.drop x).take n) ∧
        (∀ k ∈ ks, ∀ c c1, vsi.stdindex[k]? = some c → vsi.stdindex[k + 1]? = some c1 →
          (f2.data.drop (c.qwBaseOffset + 4)).take 4
            = long2str ((c1.qwBaseOffset : Int) - (c.qwBaseOffset : Int) - 8) ∧
          (f2.data.drop (c.qwBaseOffset + 16)).take 4
            = long2str ((c1.qwBaseOffset : Int) - (c.qwBaseOffset : Int) - 8 - 12)) := by
  intro ks
  induction ks with
  | nil =>
    intro f hlim _ _ _
    exact ⟨f, rfl, hlim, le_refl _, fun _ _ _ _ => rfl, fun k hk => by cases hk⟩
  | cons k rest ih =>
    intro f hlim hp hlen hgap
    have hk1 : k + 1 < vsi.stdindex.length := hlen k (List.mem_cons_self _ _)
    obtain ⟨c, hc⟩ : ∃ c, vsi.stdindex[k]? = some c :=
      ⟨vsi.stdindex[k], List.getElem?_eq_getElem (by omega)⟩
    obtain ⟨c1, hc1⟩ : ∃ c1, vsi.stdindex[k + 1]? = some c1 :=
      ⟨vsi.stdindex[k + 1], List.getElem?_eq_getElem hk1⟩
    obtain ⟨w1, w2, hw1, hw2, hl2, r1, r2, len2, lenf, keep2⟩ :=
      avi_close_fixup_round f c.qwBaseOffset
        ((c1.qwBaseOffset : Int) - (c.qwBaseOffset : Int) - 8) hlim
    rw [List.pairwise_cons] at hp
    obtain ⟨f2, hf2, hlf2, lenr, keepr, readr⟩ := ih w2.2 hl2 hp.2
      (fun j hj => hlen j (List.mem_cons_of_mem _ hj))
      (fun i hi j hj hij ci cj hci hcj =>
        hgap i (List.mem_cons_of_mem _ hi) j (List.mem_cons_of_mem _ hj) hij ci cj hci hcj)
    have hfar : ∀ j ∈ rest, ∀ cj, vsi.stdindex[j]? = some cj →
        c.qwBaseOffset + 24 ≤ cj.qwBaseOffset := by
      intro j hj cj hcj
      exact hgap k (List.mem_cons_self _ _) j (List.mem_cons_of_mem _ hj) (hp.1 j hj) c cj hc hcj
    refine ⟨f2, ?_, hlf2, by omega, ?_, ?_⟩
    · rw [avi_close_fixup, hc, hc1]
      simp only []
      rw [hw1]
      simp only []
      rw [hw2]
      exact hf2
    · intro x n hx hall
      have hxk : x + n ≤ c.qwBaseOffset + 4 := hall k (List.mem_cons_self _ _) c hc
      rw [keepr x n (by omega) (fun j hj cj hcj => hall j (List.mem_cons_of_mem _ hj) cj hcj),
        keep2 x n hxk hx]
    · intro j hj d d1 hd hd1
      rcases List.mem_cons.mp hj with hjk | hjr
      · subst hjk
        rw [hc] at hd
        rw [hc1] at hd1
        rw [← Option.some.inj hd, ← Option.some.inj hd1]
        constructor
        · rw [keepr _ _ (by omega) (fun i hi ci hci => by have := hfar i hi ci hci; omega)]
          exact r1
        · rw [keepr _ _ (by omega) (fun i hi ci hci => by have := hfar i hi ci hci; omega)]
          exact r2
      · exact readr j hjr d d1 hd hd1

theorem avi_ixnn_entry_video (A : avi_t) (e : Int) (ch : avistdindex_chunk)
    (en : avisuperindex_entry) (r : avi_t × Int × avisuperindex_entry)
    (h : avi_ixnn_entry A e ch en = some r) : r.1.video_superindex = A.video_superindex := by
  unfold avi_ixnn_entry at h
  split at h
  · cases h
  · split at h
    · cases h
    · split at h
      · cases h
      · rename_i o ho
        rw [← Option.some.inj h]
        show o.AVI.video_superindex = A.video_superindex
        rw [avi_add_chunk_frame _ _ _ _ _ _ ho]

theorem odml_dump_audio_video (k : Int) :
    ∀ (js : List Nat) (s t : avi_t × Int), odml_dump_audio k js s = some t →
      t.1.video_superindex = s.1.video_superindex := by
  intro js
  induction js with
  | nil =>
    intro s t h
    rw [odml_dump_audio] at h
    rw [← Option.some.inj h]
  | cons j rest ih =>
    intro s t h
    rw [odml_dump_audio] at h
    split at h
    · exact ih s t h
    · split at h
      · split at h
        · cases h
        · rename_i r hr
          have h1 := avi_ixnn_entry_video _ _ _ _ _ hr
          have h2 := ih _ t h
          rw [h2]
          exact h1
      · cases h

/-- The block "dump the rest of the index" of `avi_close_output_file` on an
OpenDML file: the number of RIFF chunks stays, and `stdindex[nEntriesInUse]`
of the video super-index holds the write position reached after the standard
indexes were written out. -/
theorem avi_close_output_file_dump_base (A : avi_t) (e : Int) (d : avi_t × Int)
    (h : avi_close_output_file_dump A e = some d) (hz : A.is_opendml ≠ 0) :
    ∃ vsi0 vsi c, A.video_superindex = some vsi0 ∧ d.1.video_superindex = some vsi ∧
      vsi.nEntriesInUse = vsi0.nEntriesInUse ∧
      at_index vsi.stdindex vsi.nEntriesInUse = some c ∧
      (c.qwBaseOffset : Int) = d.1.pos % 2 ^ 64 := by
  unfold avi_close_output_file_dump at h
  rw [if_neg hz] at h
  split at h
  · cases h
  · rename_i vsi0 hv
    split at h
    · rename_i ch en hch hen
      split at h
      · cases h
      · rename_i r hr
        split at h
        · cases h
        · rename_i d1 hd1
          split at h
          · cases h
          · rename_i vsi2 hv2
            split at h
            · cases h
            · rename_i s hs
              have e1 := odml_dump_audio_video _ _ _ _ hd1
              rw [hv2] at e1
              simp only [Option.some.injEq] at e1
              rw [← Option.some.inj h]
              unfold update_at at hs
              split at hs
              · cases hs
              · rename_i x hx
                simp only [Option.some.injEq] at hs
                have hn : vsi2.nEntriesInUse = vsi0.nEntriesInUse := by rw [e1]
                have hidx : vsi0.nEntriesInUse - 1 + 1 = vsi0.nEntriesInUse := by omega
                rw [hidx] at hx hs
                refine ⟨vsi0, { vsi2 with stdindex := s },
                  { x with qwBaseOffset := (d1.1.pos % 2 ^ 64).toNat }, hv, rfl, hn, ?_, ?_⟩
                · show at_index s vsi2.nEntriesInUse = _
                  rw [hn, ← hs]
                  unfold at_index at hx ⊢
                  split at hx
                  · rename_i h0
                    rw [if_pos h0]
                    have hlt : vsi0.nEntriesInUse.toNat < vsi2.stdindex.length := by
                      by_contra hge
                      rw [List.getElem?_eq_none (by omega)] at hx
                      cases hx
                    rw [List.getElem?_set_self hlt]
                  · cases hx
                · simp only []
                  have hp0 : 0 ≤ d1.1.pos % 2 ^ 64 := Int.emod_nonneg _ (by decide)
                  omega
    · cases h

theorem mem_range_drop_one (k n : Nat) : k ∈ (List.range n).drop 1 ↔ 1 ≤ k ∧ k < n := by
  constructor
  · intro h
    obtain ⟨i, hi, he⟩ := List.mem_iff_getElem.mp h
    rw [List.getElem_drop, List.getElem_range] at he
    rw [List.length_drop, List.length_range] at hi
    omega
  · intro h
    refine List.mem_iff_getElem.mpr ⟨k - 1, ?_, ?_⟩
    · rw [List.length_drop, List.length_range]
      omega
    · rw [List.getElem_drop, List.getElem_range]
      omega

theorem pairwise_range_drop_one (n : Nat) :
    ((List.range n).drop 1).Pairwise (fun a b => a < b) :=
  (List.pairwise_lt_range n).sublist (List.drop_sublist 1 _)

/-- C28: the end of `avi_close_output_file` on an OpenDML file, on a device
without limit, with `m = nEntriesInUse` RIFF chunks that lie in the file in
order and hold at least 24 bytes each.  The block "dump the rest of the index"
has stored the write position reached after the standard indexes were written
out as `stdindex[m]->qwBaseOffset`.  The function returns, and for every `k`
with `1 <= k < m` the four bytes at `stdindex[k]->qwBaseOffset + 4` hold
`stdindex[k + 1]->qwBaseOffset - stdindex[k]->qwBaseOffset - 8` and the four
bytes at `stdindex[k]->qwBaseOffset + 16` hold that value less 12 (as
`long2str` stores them); a RIFF chunk of fewer than `2^32` bytes then ends
where the next one starts. -/
theorem close_fixes_up_additional_riff_chunks (o : outcome) (hdr : List UInt8)
    (vsi : avisuperindex_chunk) (hz : o.AVI.is_opendml ≠ 0)
    (hv : o.AVI.video_superindex = some vsi) (hlim : o.AVI.fdes.limit = none)
    (hlen : hdr.length = HEADERBYTES.toNat) (hpos : 0 ≤ o.AVI.pos)
    (hm : vsi.nEntriesInUse.toNat < vsi.stdindex.length)
    (hgap : ∀ i j ci cj, 1 ≤ i → i < j → j < vsi.nEntriesInUse.toNat →
      vsi.stdindex[i]? = some ci → vsi.stdindex[j]? = some cj →
      ci.qwBaseOffset + 24 ≤ cj.qwBaseOffset) :
    (∀ A e d, avi_close_output_file_dump A e = some d → A.is_opendml ≠ 0 →
      ∃ vsi0 vsi1 c, A.video_superindex = some vsi0 ∧ d.1.video_superindex = some vsi1 ∧
        vsi1.nEntriesInUse = vsi0.nEntriesInUse ∧
        at_index vsi1.stdindex vsi1.nEntriesInUse = some c ∧
        (c.qwBaseOffset : Int) = d.1.pos % 2 ^ 64) ∧
    ∃ r, avi_close_write o hdr = some r ∧
      ∀ k c c1, 1 ≤ k → k < vsi.nEntriesInUse.toNat → vsi.stdindex[k]? = some c →
        vsi.stdindex[k + 1]? = some c1 →
        (r.AVI.fdes.data.drop (c.qwBaseOffset + 4)).take 4
          = long2str ((c1.qwBaseOffset : Int) - (c.qwBaseOffset : Int) - 8) ∧
        (r.AVI.fdes.data.drop (c.qwBaseOffset + 16)).take 4
          = long2str ((c1.qwBaseOffset : Int) - (c.qwBaseOffset : Int) - 8 - 12) ∧
        (c.qwBaseOffset + 8 ≤ c1.qwBaseOffset → c1.qwBaseOffset - c.qwBaseOffset - 8 < 2 ^ 32 →
          ∃ len, str2ulong ((r.AVI.fdes.data.drop (c.qwBaseOffset + 4)).take 4) = some len ∧
            c.qwBaseOffset + 8 + len = c1.qwBaseOffset) := by
  refine ⟨fun A e d h hz => avi_close_output_file_dump_base A e d h hz, ?_⟩
  have hs0 : plat_seek_set o.AVI.fdes 0 = (0, { o.AVI.fdes with offset := 0 }) := by
    unfold plat_seek_set
    rw [if_neg (by decide)]
    rfl
  have hw := plat_write_full { o.AVI.fdes with offset := 0 } hdr HEADERBYTES (by decide)
    (by rw [hlen]; decide) (no_limit_room { o.AVI.fdes with offset := 0 } hlim HEADERBYTES)
    (Or.inl (by decide))
  have hf := plat_ftruncate_ok
    { o.AVI.fdes with
      data := write_at o.AVI.fdes.data 0 (hdr.take HEADERBYTES.toNat)
      offset := 0 + HEADERBYTES.toNat }
    o.AVI.pos hpos (fun l hl => by rw [hlim] at hl; cases hl)
  obtain ⟨f2, hf2, _, _, _, hread⟩ := avi_close_fixup_spec vsi
    ((List.range vsi.nEntriesInUse.toNat).drop 1)
    { o.AVI.fdes with
      data := (write_at o.AVI.fdes.data 0 (hdr.take HEADERBYTES.toNat)).take o.AVI.pos.toNat
        ++ List.replicate (o.AVI.pos.toNat
            - (write_at o.AVI.fdes.data 0 (hdr.take HEADERBYTES.toNat)).length) 0
      offset := 0 + HEADERBYTES.toNat }
    hlim (pairwise_range_drop_one _)
    (fun k hk => by have := (mem_range_drop_one _ _).mp hk; omega)
    (fun i hi j hj hij ci cj hci hcj =>
      hgap i j ci cj ((mem_range_drop_one _ _).mp hi).1 hij ((mem_range_drop_one _ _).mp hj).2
        hci hcj)
  refine ⟨{ ret := if o.ret ≠ 0 then -1 else 0
            AVI := { o.AVI with fdes := f2 }
            AVI_errno := o.AVI_errno }, ?_, ?_⟩
  · unfold avi_close_write
    rw [hs0]
    simp only [lt_self_iff_false, if_false]
    rw [hw]
    simp only [ne_eq, not_true_eq_false, if_false]
    rw [hf]
    simp only [lt_self_iff_false, if_false]
    rw [if_pos hz, hv]
    simp only []
    rw [hf2]
  · intro k c c1 h1 hk hc hc1
    have hr := hread k ((mem_range_drop_one _ _).mpr ⟨h1, hk⟩) c c1 hc hc1
    refine ⟨hr.1, hr.2, ?_⟩
    intro hle hlt
    refine ⟨c1.qwBaseOffset - c.qwBaseOffset - 8, ?_, by omega⟩
    show str2ulong ((f2.data.drop (c.qwBaseOffset + 4)).take 4) = _
    rw [hr.1]
    have hcast : (c1.qwBaseOffset : Int) - (c.qwBaseOffset : Int) - 8
        = ((c1.qwBaseOffset - c.qwBaseOffset - 8 : Nat) : Int) := by omega
    rw [hcast, long2str_natCast_mod, Nat.mod_eq_of_lt hlt]

theorem demo_odml_facts :
    demo_odml_outcome.AVI.is_opendml ≠ 0 ∧ demo_odml_outcome.AVI.fdes.limit = none ∧
    0 ≤ demo_odml_outcome.AVI.pos ∧ demo_odml_vsi.nEntriesInUse.toNat = 3 ∧
    demo_odml_vsi.stdindex.length = 32 ∧
    ((demo_odml_vsi.stdindex.map (fun c => c.qwBaseOffset)).drop 1).take 3
      = [2104, 2000002176, 4000002248] ∧
    demo_odml_outcome.AVI.video_superindex.isSome = true := by
  decide!

theorem demo_odml_std_facts :
    (demo_odml_vsi.stdindex[1]?).isSome = true ∧ (demo_odml_vsi.stdindex[2]?).isSome = true ∧
    (demo_odml_vsi.stdindex[3]?).isSome = true ∧
    (demo_odml_std 1).qwBaseOffset = 2104 ∧ (demo_odml_std 2).qwBaseOffset = 2000002176 ∧
    (demo_odml_std 3).qwBaseOffset = 4000002248 := by
  decide!

theorem demo_odml_gap (i j : Nat) (ci cj : avistdindex_chunk) (h1 : 1 ≤ i) (hij : i < j)
    (hj : j < demo_odml_vsi.nEntriesInUse.toNat) (hci : demo_odml_vsi.stdindex[i]? = some ci)
    (hcj : demo_odml_vsi.stdindex[j]? = some cj) :
    ci.qwBaseOffset + 24 ≤ cj.qwBaseOffset := by
  rw [demo_odml_facts.2.2.2.1] at hj
  have hi1 : i = 1 := by omega
  have hj2 : j = 2 := by omega
  subst hi1
  subst hj2
  have e1 : demo_odml_vsi.stdindex[1]? = some (demo_odml_std 1) :=
    option_eq_some_getD _ _ demo_odml_std_facts.1
  have e2 : demo_odml_vsi.stdindex[2]? = some (demo_odml_std 2) :=
    option_eq_some_getD _ _ demo_odml_std_facts.2.1
  rw [e1] at hci
  rw [e2] at hcj
  rw [← Option.some.inj hci, ← Option.some.inj hcj, demo_odml_std_facts.2.2.2.1,
    demo_odml_std_facts.2.2.2.2.1]
  decide

theorem demo_odml_vsi_eq : demo_odml_outcome.AVI.video_superindex = some demo_odml_vsi :=
  option_eq_some_getD _ _ demo_odml_facts.2.2.2.2.2.2

theorem demo_odml_room : demo_odml_vsi.nEntriesInUse.toNat < demo_odml_vsi.stdindex.length := by
  rw [demo_odml_facts.2.2.2.1, demo_odml_facts.2.2.2.2.1]
  decide

theorem demo_odml_std_eq (k : Nat) (h : (demo_odml_vsi.stdindex[k]?).isSome = true) :
    demo_odml_vsi.stdindex[k]? = some (demo_odml_std k) :=
  option_eq_some_getD _ _ h

theorem close_fixes_up_additional_riff_chunks_witness :
    ∃ r, avi_close_write demo_odml_outcome (List.replicate 2048 0) = some r ∧
      (r.AVI.fdes.data.drop ((demo_odml_std 1).qwBaseOffset + 4)).take 4
        = long2str (((demo_odml_std 2).qwBaseOffset : Int) - ((demo_odml_std 1).qwBaseOffset : Int)
            - 8) ∧
      (r.AVI.fdes.data.drop ((demo_odml_std 2).qwBaseOffset + 4)).take 4
        = long2str (((demo_odml_std 3).qwBaseOffset : Int) - ((demo_odml_std 2).qwBaseOffset : Int)
            - 8) :=
  match (close_fixes_up_additional_riff_chunks demo_odml_outcome (List.replicate 2048 0)
      demo_odml_vsi demo_odml_facts.1 demo_odml_vsi_eq demo_odml_facts.2.1
      (List.length_replicate _ _) demo_odml_facts.2.2.1 demo_odml_room demo_odml_gap).2 with
  | ⟨r, hr, hall⟩ =>
    ⟨r, hr,
      (hall 1 (demo_odml_std 1) (demo_odml_std 2) (le_refl _)
        (by rw [demo_odml_facts.2.2.2.1]; decide)
        (demo_odml_std_eq 1 demo_odml_std_facts.1)
        (demo_odml_std_eq 2 demo_odml_std_facts.2.1)).1,
      (hall 2 (demo_odml_std 2) (demo_odml_std 3) (by decide)
        (by rw [demo_odml_facts.2.2.2.1]; decide)
        (demo_odml_std_eq 2 demo_odml_std_facts.2.1)
        (demo_odml_std_eq 3 demo_odml_std_facts.2.2.1)).1⟩

/-! ### Sequences of writer calls -/

theorem rotation_frame_refl (A : avi_t) : rotation_frame A A := ⟨rfl, fun _ => rfl⟩

theorem rotation_frame_trans {A B C : avi_t} (h1 : rotation_frame A B) (h2 : rotation_frame B C) :
    rotation_frame A C := by
  refine ⟨?_, fun j => ?_⟩
  · rw [h2.1, h1.1]
  · rw [h2.2 j, h1.2 j]

theorem rotation_frame_of_riff {A B : avi_t} (h : riff_frame A B)
    (ht : B.total_frames = A.total_frames) : rotation_frame A B := by
  refine ⟨?_, h.2⟩
  have h1 := h.1
  rw [h1] at ht
  simp only [] at ht
  rw [h1]
  simp only [avi_t.mk.injEq, and_true, true_and]
  exact ht

theorem rotation_frame_fields {A B : avi_t} (h : rotation_frame A B) :
    B.idx = A.idx ∧ B.n_idx = A.n_idx ∧ B.max_idx = A.max_idx ∧ B.anum = A.anum ∧
    B.aptr = A.aptr ∧ B.mode = A.mode ∧ B.video_frames = A.video_frames ∧
    B.total_frames = A.total_frames := by
  have h1 := h.1
  refine ⟨?_, ?_, ?_, ?_, ?_, ?_, ?_, ?_⟩ <;> rw [h1]

theorem rotation_frame_of_chunk {A B : avi_t} (h : B = { A with fdes := B.fdes, pos := B.pos }) :
    rotation_frame A B := by
  refine ⟨?_, fun j => ?_⟩
  · rw [h]
  · rw [h]

theorem rotation_frame_set_track (A : avi_t) (j : Nat) (x : Option avisuperindex_chunk) :
    rotation_frame A (A.set_track j { A.track j with audio_superindex := x }) := by
  refine ⟨rfl, fun k => ?_⟩
  by_cases hk : k = j
  · subst hk
    simp [avi_t.set_track]
  · simp [avi_t.set_track, Function.update_noteq hk]

theorem rotation_frame_video (A : avi_t) (x : Option avisuperindex_chunk) :
    rotation_frame A { A with video_superindex := x } := ⟨rfl, fun _ => rfl⟩

theorem rotation_frame_opendml (A : avi_t) (x : Int) :
    rotation_frame A { A with is_opendml := x } := ⟨rfl, fun _ => rfl⟩

theorem avi_add_chunk_rotation (A : avi_t) (e : Int) (tag data : List UInt8) (length : Int)
    (o : outcome) (h : avi_add_chunk A e tag data length = some o) : rotation_frame A o.AVI :=
  rotation_frame_of_chunk (avi_add_chunk_frame A e tag data length o h)

theorem avi_ixnn_entry_rotation (A : avi_t) (e : Int) (ch : avistdindex_chunk)
    (en : avisuperindex_entry) (r : avi_t × Int × avisuperindex_entry)
    (h : avi_ixnn_entry A e ch en = some r) : rotation_frame A r.1 := by
  unfold avi_ixnn_entry at h
  split at h
  · cases h
  · split at h
    · cases h
    · split at h
      · cases h
      · rename_i o ho
        rw [← Option.some.inj h]
        exact avi_add_chunk_rotation _ _ _ _ _ _ ho

theorem odml_dump_audio_rotation (k : Int) :
    ∀ (js : List Nat) (s t : avi_t × Int), odml_dump_audio k js s = some t →
      rotation_frame s.1 t.1 := by
  intro js
  induction js with
  | nil =>
    intro s t h
    rw [odml_dump_audio] at h
    rw [← Option.some.inj h]
    exact rotation_frame_refl _
  | cons j rest ih =>
    intro s t h
    rw [odml_dump_audio] at h
    split at h
    · exact ih s t h
    · split at h
      · split at h
        · cases h
        · rename_i r hr
          have h1 := avi_ixnn_entry_rotation _ _ _ _ _ hr
          have h2 := ih _ t h
          exact rotation_frame_trans h1
            (rotation_frame_trans (rotation_frame_set_track r.1 j _) h2)
      · cases h

theorem odml_rotate_add_audio_rotation :
    ∀ (js : List Nat) (A B : avi_t), odml_rotate_add_audio js A = some B →
      rotation_frame A B := by
  intro js
  induction js with
  | nil =>
    intro A B h
    rw [odml_rotate_add_audio] at h
    rw [← Option.some.inj h]
    exact rotation_frame_refl A
  | cons j rest ih =>
    intro A B h
    rw [odml_rotate_add_audio] at h
    split at h
    · exact ih A B h
    · split at h
      · cases h
      · exact rotation_frame_trans (rotation_frame_set_track A j _) (ih _ B h)

theorem odml_base_audio_rotation (cur : Int) :
    ∀ (js : List Nat) (A B : avi_t), odml_base_audio cur js A = some B →
      rotation_frame A B := by
  intro js
  induction js with
  | nil =>
    intro A B h
    rw [odml_base_audio] at h
    rw [← Option.some.inj h]
    exact rotation_frame_refl A
  | cons j rest ih =>
    intro A B h
    rw [odml_base_audio] at h
    split at h
    · exact ih A B h
    · split at h
      · cases h
      · exact rotation_frame_trans (rotation_frame_set_track A j _) (ih _ B h)

theorem odml_init_rotation (A B : avi_t) (tag : List UInt8) (h : odml_init A tag = some B) :
    rotation_frame A B := by
  unfold odml_init at h
  split at h
  · split at h
    · rw [← Option.some.inj h]
      exact rotation_frame_refl A
    · split at h
      · cases h
      · rw [← Option.some.inj h]
        exact rotation_frame_set_track A A.aptr _
  · split at h
    · rw [← Option.some.inj h]
      exact rotation_frame_refl A
    · split at h
      · cases h
      · rw [← Option.some.inj h]
        exact rotation_frame_video A _

theorem odml_new_riff_rotation (A : avi_t) (e : Int) (cur : Int) (o : outcome)
    (h : odml_new_riff A e cur = some o) : rotation_frame A o.AVI := by
  unfold odml_new_riff at h
  split at h
  · cases h
  · rename_i vsi hv
    split at h
    · rename_i ch en hch hen
      split at h
      · cases h
      · rename_i r hr
        have f1 := avi_ixnn_entry_rotation _ _ _ _ _ hr
        split at h
        · cases h
        · rename_i d hd
          have f2 := odml_dump_audio_rotation _ _ _ _ hd
          have f2' : rotation_frame r.1 d.1 :=
            rotation_frame_trans (rotation_frame_video r.1 _) f2
          split at h
          · cases h
          · rename_i o3 ho3
            have f3 : rotation_frame d.1 o3.AVI := by
              split at ho3
              · exact avi_add_chunk_rotation _ _ _ _ _ _ ho3
              · rw [← Option.some.inj ho3]
                exact rotation_frame_refl _
            split at h
            · cases h
            · rename_i o4 ho4
              have f4 := avi_add_chunk_rotation _ _ _ _ _ _ ho4
              split at h
              · cases h
              · rename_i vsi4 hv4
                split at h
                · cases h
                · rename_i s4 hs4
                  split at h
                  · cases h
                  · rename_i A5 hA5
                    have f5 := odml_base_audio_rotation _ _ _ _ hA5
                    have f5' : rotation_frame o4.AVI A5 :=
                      rotation_frame_trans (rotation_frame_video o4.AVI _) f5
                    have hall : rotation_frame A A5 :=
                      rotation_frame_trans f1 (rotation_frame_trans f2'
                        (rotation_frame_trans f3 (rotation_frame_trans f4 f5')))
                    rw [← Option.some.inj h]
                    exact rotation_frame_trans hall (rotation_frame_opendml A5 _)
    · cases h

/-- The rotation block of `avi_add_odml_index_entry`: it changes at most the
descriptor, the write position, the OpenDML bookkeeping and `is_opendml`; when
the check fails the handle stays; when the check succeeds on a super-index
with one entry in use, `is_opendml` is incremented. -/
theorem odml_rotate_facts (A : avi_t) (e : Int) (tw : Int) (r : outcome)
    (h : odml_rotate A e tw = some r) :
    rotation_frame A r.AVI ∧
    (r.AVI.is_opendml = A.is_opendml ∨ r.AVI.is_opendml = A.is_opendml + 1) ∧
    (∀ vsi, A.video_superindex = some vsi →
      ¬ (A.pos + tw > NEW_RIFF_THRES * vsi.nEntriesInUse) → r.AVI = A ∧ r.ret = 0) ∧
    (A.video_superindex = none → r.AVI = A ∧ r.ret = 0) ∧
    (∀ vsi, A.video_superindex = some vsi →
      A.pos + tw > NEW_RIFF_THRES * vsi.nEntriesInUse → vsi.nEntriesInUse = 1 →
      r.AVI.is_opendml = A.is_opendml + 1) := by
  unfold odml_rotate at h
  split at h
  · rename_i hv
    rw [← Option.some.inj h]
    refine ⟨rotation_frame_refl A, Or.inl rfl, ?_, fun _ => ⟨rfl, rfl⟩, ?_⟩
    · intro vsi hvs
      rw [hv] at hvs
      cases hvs
    · intro vsi hvs
      rw [hv] at hvs
      cases hvs
  · rename_i vsi hv
    split at h
    · rename_i hchk
      split at h
      · rename_i h32
        rw [← Option.some.inj h]
        refine ⟨rotation_frame_video A _, Or.inl rfl, ?_, ?_, ?_⟩
        · intro v hvs hn
          rw [hv] at hvs
          rw [← Option.some.inj hvs] at hn
          exact absurd hchk hn
        · intro hn
          rw [hv] at hn
          cases hn
        · intro v hvs _ h1
          rw [hv] at hvs
          rw [← Option.some.inj hvs] at h1
          rw [h1] at h32
          exact absurd h32 (by decide)
      · split at h
        · cases h
        · rename_i s hs
          split at h
          · cases h
          · rename_i A2 hA2
            have fa := odml_rotate_add_audio_rotation _ _ _ hA2
            have fa' : rotation_frame A A2 :=
              rotation_frame_trans (rotation_frame_video A _) fa
            have ha2 : A2.is_opendml = A.is_opendml :=
              riff_frame_is_opendml (odml_frame_riff
                (odml_frame_trans (odml_frame_video A _) (odml_rotate_add_audio_frame _ _ _ hA2)))
            split at h
            · have hn := (odml_new_riff_opendml _ _ _ _ h).1
              have fr := odml_new_riff_rotation _ _ _ _ h
              refine ⟨rotation_frame_trans fa' fr, Or.inr (by rw [hn, ha2]), ?_, ?_, ?_⟩
              · intro v hvs hn2
                rw [hv] at hvs
                rw [← Option.some.inj hvs] at hn2
                exact absurd hchk hn2
              · intro hn2
                rw [hv] at hn2
                cases hn2
              · intro _ _ _ _
                rw [hn, ha2]
            · rename_i hcur
              rw [← Option.some.inj h]
              refine ⟨fa', Or.inl ha2, ?_, ?_, ?_⟩
              · intro v hvs hn2
                rw [hv] at hvs
                rw [← Option.some.inj hvs] at hn2
                exact absurd hchk hn2
              · intro hn2
                rw [hv] at hn2
                cases hn2
              · intro v hvs _ h1
                rw [hv] at hvs
                rw [← Option.some.inj hvs] at h1
                rw [h1] at hcur
                exact absurd (by decide : (1 : Int) + 1 - 1 > 0) hcur
    · rename_i hchk
      rw [← Option.some.inj h]
      refine ⟨rotation_frame_refl A, Or.inl rfl, fun _ _ _ => ⟨rfl, rfl⟩, fun _ => ⟨rfl, rfl⟩, ?_⟩
      intro v hvs hc _
      rw [hv] at hvs
      rw [← Option.some.inj hvs] at hc
      exact absurd hc hchk

theorem odml_towrite_audio_le (A : avi_t) :
    ∀ (js : List Nat) (tw r : Int), odml_towrite_audio A js tw = some r → tw ≤ r := by
  intro js
  induction js with
  | nil =>
    intro tw r h
    rw [odml_towrite_audio] at h
    rw [← Option.some.inj h]
  | cons j rest ih =>
    intro tw r h
    rw [odml_towrite_audio] at h
    split at h
    · exact ih tw r h
    · split at h
      · cases h
      · have := ih _ r h
        omega

theorem odml_towrite_audio_ub (A : avi_t) :
    ∀ (js : List Nat) (tw r : Int), odml_towrite_audio A js tw = some r →
      r ≤ tw + (js.length : Int) * 2 ^ 32 := by
  intro js
  induction js with
  | nil =>
    intro tw r h
    rw [odml_towrite_audio] at h
    rw [← Option.some.inj h]
    simp
  | cons j rest ih =>
    intro tw r h
    rw [odml_towrite_audio] at h
    rw [List.length_cons]
    push_cast
    split at h
    · have := ih tw r h
      omega
    · split at h
      · cases h
      · have := ih _ r h
        omega

/-- The bytes `towrite` counts on a file whose video super-index has one entry
in use: at least the legacy index, its chunk header, the header of the file
and the chunk to write, when the legacy index and the chunk are so small that
the sum, which is formed in 64 bits, does not wrap. -/
theorem odml_towrite_ge (A : avi_t) (len : Nat) (tw : Int) (vsi : avisuperindex_chunk)
    (h : odml_towrite A len = some tw) (hv : A.video_superindex = some vsi)
    (h1 : vsi.nEntriesInUse = 1) (hn0 : 0 ≤ A.n_idx) (hn : A.n_idx ≤ 2 ^ 57)
    (ha : A.anum ≤ AVI_MAX_TRACKS) (hl : len < 2 ^ 62) :
    A.n_idx * 16 + 8 + HEADERBYTES + ((len : Int) + (len : Int) % 2 + 8) ≤ tw := by
  unfold odml_towrite at h
  rw [hv] at h
  simp only [] at h
  split at h
  · cases h
  · rename_i t0 ht0
    split at ht0
    · cases ht0
    · rename_i ch hch
      split at h
      · cases h
      · rename_i t2 ht2
        have hle := odml_towrite_audio_le _ _ _ _ ht2
        have hub := odml_towrite_audio_ub _ _ _ _ ht2
        rw [List.length_range] at hub
        have ha2 : ((A.anum.toNat : Nat) : Int) ≤ 8 := by
          have : AVI_MAX_TRACKS = 8 := rfl
          omega
        have hH : HEADERBYTES = 2048 := rfl
        rw [← Option.some.inj h]
        rw [← Option.some.inj ht0] at hle hub
        rw [h1] at hle hub
        simp only [sub_self, if_true] at hle hub
        rw [hH] at hle hub ⊢
        unfold uint64_to_off_t
        split <;> omega

theorem odml_store_total_frames (A : avi_t) (e : Int) (tag : List UInt8) (flags : Int)
    (len : Nat) (o : outcome) (h : odml_store A e tag flags len = some o) :
    o.AVI.total_frames = A.total_frames + (if tag_is_audio tag then 0 else 1) := by
  unfold odml_store at h
  split at h
  · rename_i ha
    rw [if_pos ha]
    split at h
    · cases h
    · split at h
      · cases h
      · split at h
        · cases h
        · rename_i r hr
          rw [← Option.some.inj h]
          show r.1.total_frames = _
          rw [core_frame _ _ _ _ _ _ hr]
          simp
  · rename_i ha
    rw [if_neg ha]
    split at h
    · cases h
    · split at h
      · cases h
      · split at h
        · cases h
        · rename_i r hr
          rw [← Option.some.inj h]
          show r.1.total_frames + 1 = _
          rw [core_frame _ _ _ _ _ _ hr]

theorem video_entries_in_use_some (A : avi_t) (vsi : avisuperindex_chunk)
    (h : A.video_superindex = some vsi) : video_entries_in_use A = some vsi.nEntriesInUse := by
  unfold video_entries_in_use
  rw [h]
  rfl

theorem video_entries_in_use_none (A : avi_t) (h : video_entries_in_use A = none) :
    A.video_superindex = none := by
  unfold video_entries_in_use at h
  cases hv : A.video_superindex with
  | none => rfl
  | some v => rw [hv] at h; cases h

/-- What `avi_add_odml_index_entry` changes and keeps. -/
theorem avi_add_odml_index_entry_facts (A : avi_t) (e : Int) (tag : List UInt8) (flags : Int)
    (len : Nat) (o : outcome) (h : avi_add_odml_index_entry A e tag flags len = some o) :
    o.AVI.idx = A.idx ∧ o.AVI.n_idx = A.n_idx ∧ o.AVI.aptr = A.aptr ∧ o.AVI.mode = A.mode ∧
    o.AVI.anum = A.anum ∧ o.AVI.video_frames = A.video_frames ∧
    (o.AVI.is_opendml = A.is_opendml ∨ o.AVI.is_opendml = A.is_opendml + 1) ∧
    (o.ret = 0 → o.AVI.total_frames = A.total_frames + (if tag_is_audio tag then 0 else 1)) ∧
    (o.ret ≠ 0 → o.AVI.total_frames = A.total_frames) ∧
    ((∀ vsi, A.video_superindex = some vsi → vsi.nEntriesInUse = 1) →
      0 ≤ A.n_idx → A.n_idx ≤ 2 ^ 57 → A.anum ≤ AVI_MAX_TRACKS → len < 2 ^ 62 →
      o.AVI.is_opendml = A.is_opendml → ∀ vsi2, o.AVI.video_superindex = some vsi2 →
      vsi2.nEntriesInUse = 1 ∧ o.AVI.pos = A.pos ∧ o.ret = 0 ∧
        A.pos + (A.n_idx * 16 + 8 + HEADERBYTES + ((len : Int) + (len : Int) % 2 + 8))
          ≤ NEW_RIFF_THRES) := by
  unfold avi_add_odml_index_entry at h
  split at h
  · cases h
  · rename_i A1 hA1
    have f1 := odml_init_frame _ _ _ hA1
    obtain ⟨g1idx, g1n, _, g1anum, g1aptr, g1mode, g1vf, g1tf⟩ :=
      rotation_frame_fields (odml_init_rotation _ _ _ hA1)
    have c1 := odml_init_counts _ _ _ hA1
    obtain ⟨_, p1pos, _, _, _, p1od, _, _, _, _⟩ := odml_frame_fields f1
    split at h
    · cases h
    · rename_i tw htw
      split at h
      · cases h
      · rename_i r hrot
        obtain ⟨fr, hod, hno, hnone, hyes⟩ := odml_rotate_facts _ _ _ _ hrot
        obtain ⟨g2idx, g2n, _, g2anum, g2aptr, g2mode, g2vf, g2tf⟩ := rotation_frame_fields fr
        have hone : (∀ vsi, A.video_superindex = some vsi → vsi.nEntriesInUse = 1) →
            ∀ v1, A1.video_superindex = some v1 → v1.nEntriesInUse = 1 := by
          intro hA v1 hv1
          have hk := c1.1
          rw [video_entries_in_use_some A1 v1 hv1] at hk
          rcases hk with hk | ⟨_, hk⟩
          · cases hvA : A.video_superindex with
            | none =>
              rw [video_entries_in_use, hvA] at hk
              cases hk
            | some v0 =>
              rw [video_entries_in_use_some A v0 hvA] at hk
              rw [Option.some.inj hk]
              exact hA v0 hvA
          · exact Option.some.inj hk
        split at h
        · rename_i hne
          rw [← Option.some.inj h]
          refine ⟨by rw [g2idx, g1idx], by rw [g2n, g1n], by rw [g2aptr, g1aptr],
            by rw [g2mode, g1mode], by rw [g2anum, g1anum], by rw [g2vf, g1vf], ?_,
            fun h0 => absurd h0 hne, fun _ => by rw [g2tf, g1tf], ?_⟩
          · rw [p1od] at hod
            exact hod
          · intro hA hn0 hn57 han hl62 hsame v2 hv2
            cases hv1 : A1.video_superindex with
            | none =>
              have := (hnone hv1).2
              exact absurd this hne
            | some v1 =>
              have h11 := hone hA v1 hv1
              by_cases hchk : A1.pos + tw > NEW_RIFF_THRES * v1.nEntriesInUse
              · have := hyes v1 hv1 hchk h11
                rw [p1od] at this
                omega
              · have := (hno v1 hv1 hchk).2
                exact absurd this hne
        · rename_i hret
          have hs := odml_store_frame _ _ _ _ _ _ h
          obtain ⟨_, pspos, psidx, psn, _, psod, psanum, psaptr, psmode, psvf⟩ :=
            odml_frame_fields hs.1
          have ts := odml_store_total_frames _ _ _ _ _ _ h
          have cs := odml_store_counts _ _ _ _ _ _ h
          refine ⟨by rw [psidx, g2idx, g1idx], by rw [psn, g2n, g1n],
            by rw [psaptr, g2aptr, g1aptr], by rw [psmode, g2mode, g1mode],
            by rw [psanum, g2anum, g1anum], by rw [psvf, g2vf, g1vf], ?_,
            fun _ => by rw [ts, g2tf, g1tf], fun hn => absurd hs.2.1 hn, ?_⟩
          · rw [psod]
            rw [p1od] at hod
            exact hod
          · intro hA hn0 hn57 han hl62 hsame v2 hv2
            rw [psod] at hsame
            have hv2e := video_entries_in_use_some _ _ hv2
            rw [cs.1] at hv2e
            cases hv1 : A1.video_superindex with
            | none =>
              have hr := (hnone hv1).1
              rw [hr, video_entries_in_use, hv1] at hv2e
              cases hv2e
            | some v1 =>
              have h11 := hone hA v1 hv1
              by_cases hchk : A1.pos + tw > NEW_RIFF_THRES * v1.nEntriesInUse
              · have := hyes v1 hv1 hchk h11
                rw [p1od] at this
                omega
              · have hr := (hno v1 hv1 hchk).1
                rw [hr, video_entries_in_use_some A1 v1 hv1] at hv2e
                have hge := odml_towrite_ge A1 len tw v1 htw hv1 h11 (by rw [g1n]; exact hn0)
                  (by rw [g1n]; exact hn57) (by rw [g1anum]; exact han) hl62
                rw [h11] at hchk
                refine ⟨by rw [← Option.some.inj hv2e]; exact h11, ?_, hs.2.1, ?_⟩
                · rw [pspos, hr, p1pos]
                · rw [p1pos, g1n] at *
                  omega

theorem write_legacy_entry_facts (A A1 : avi_t) (audio : Bool) (keyframe : Int) (len : Nat)
    (h : write_legacy_entry A audio keyframe len = some A1) :
    A1 = { A with idx := A1.idx, max_idx := A1.max_idx, n_idx := A1.n_idx,
                  max_len := A1.max_len } ∧
    (A.is_opendml = 0 → 0 ≤ A.n_idx ∧ A1.n_idx = A.n_idx + 1 ∧
      ∃ a, A1.idx = some a ∧
        a[A.n_idx.toNat]? = some (idx1_record (write_tag A.aptr audio)
          (write_flags audio keyframe) (long_to_ulong A.pos) len) ∧
        ∀ k x, k < A.n_idx.toNat → (A.idx.getD [])[k]? = some x → a[k]? = some x) ∧
    (A.is_opendml ≠ 0 → A1 = A) := by
  unfold write_legacy_entry at h
  split at h
  · rename_i hz
    obtain ⟨e1, e2, e3⟩ := avi_add_index_entry_effect _ _ _ _ _ _ h
    refine ⟨?_, fun _ => ⟨e1, ?_, e3⟩, fun hn => absurd hz hn⟩
    · rw [e2]
    · rw [e2]
  · rename_i hz
    rw [← Option.some.inj h]
    exact ⟨rfl, fun h0 => absurd h0 hz, fun _ => rfl⟩

theorem PAD_EVEN_uint32_le (len : Nat) (h0 : 0 ≤ uint32_to_int32 (len % 2 ^ 32)) :
    PAD_EVEN (uint32_to_int32 (len % 2 ^ 32)) ≤ (len : Int) + (len : Int) % 2 := by
  rw [PAD_EVEN_eq]
  unfold uint32_to_int32 at h0 ⊢
  split at h0
  · rename_i hlt
    rw [if_pos hlt]
    omega
  · rename_i hlt
    rw [if_neg hlt] at *
    omega

/-- What `plat_write_data` changes and keeps. -/
theorem plat_write_data_facts (A : avi_t) (e : Int) (data : List UInt8) (len : Nat)
    (audio : Bool) (keyframe : Int) (o : outcome)
    (h : plat_write_data A e data len audio keyframe = some o) :
    o.AVI.aptr = A.aptr ∧ o.AVI.mode = A.mode ∧ o.AVI.anum = A.anum ∧
    o.AVI.video_frames = A.video_frames ∧
    (A.is_opendml = 0 → 0 ≤ A.n_idx ∧ o.AVI.n_idx = A.n_idx + 1 ∧
      ∃ a, o.AVI.idx = some a ∧
        a[A.n_idx.toNat]? = some (idx1_record (write_tag A.aptr audio)
          (write_flags audio keyframe) (long_to_ulong A.pos) len) ∧
        ∀ k x, k < A.n_idx.toNat → (A.idx.getD [])[k]? = some x → a[k]? = some x) ∧
    (A.is_opendml ≠ 0 → o.AVI.n_idx = A.n_idx ∧ o.AVI.idx = A.idx) ∧
    (o.AVI.is_opendml = A.is_opendml ∨ o.AVI.is_opendml = A.is_opendml + 1) ∧
    (o.ret = 0 → o.AVI.total_frames
      = A.total_frames + (if tag_is_audio (write_tag A.aptr audio) then 0 else 1)) ∧
    (legacy_bound A → A.n_idx < 2 ^ 57 → len < 2 ^ 62 → legacy_bound o.AVI) := by
  unfold plat_write_data at h
  split at h
  · cases h
  · rename_i A1 hA1
    obtain ⟨l1, l2, l3⟩ := write_legacy_entry_facts _ _ _ _ _ hA1
    have a1aptr : A1.aptr = A.aptr := by rw [l1]
    have a1mode : A1.mode = A.mode := by rw [l1]
    have a1anum : A1.anum = A.anum := by rw [l1]
    have a1vf : A1.video_frames = A.video_frames := by rw [l1]
    have a1tf : A1.total_frames = A.total_frames := by rw [l1]
    have a1od : A1.is_opendml = A.is_opendml := by rw [l1]
    have a1pos : A1.pos = A.pos := by rw [l1]
    have a1vsi : A1.video_superindex = A.video_superindex := by rw [l1]
    split at h
    · cases h
    · rename_i o1 ho1
      obtain ⟨fidx, fn, faptr, fmode, fanum, fvf, fod, ftf, _, fbound⟩ :=
        avi_add_odml_index_entry_facts _ _ _ _ _ _ ho1
      have key : ∀ B : avi_t, B = { o1.AVI with fdes := B.fdes, pos := B.pos } →
          o1.AVI.pos ≤ B.pos →
          (o1.ret = 0 → B.pos ≤ o1.AVI.pos + (8 + ((len : Int) + (len : Int) % 2))) →
          B.aptr = A.aptr ∧ B.mode = A.mode ∧ B.anum = A.anum ∧
          B.video_frames = A.video_frames ∧
          (A.is_opendml = 0 → 0 ≤ A.n_idx ∧ B.n_idx = A.n_idx + 1 ∧
            ∃ a, B.idx = some a ∧
              a[A.n_idx.toNat]? = some (idx1_record (write_tag A.aptr audio)
                (write_flags audio keyframe) (long_to_ulong A.pos) len) ∧
              ∀ k x, k < A.n_idx.toNat → (A.idx.getD [])[k]? = some x → a[k]? = some x) ∧
          (A.is_opendml ≠ 0 → B.n_idx = A.n_idx ∧ B.idx = A.idx) ∧
          (B.is_opendml = A.is_opendml ∨ B.is_opendml = A.is_opendml + 1) ∧
          (o1.ret = 0 → B.total_frames
            = A.total_frames + (if tag_is_audio (write_tag A.aptr audio) then 0 else 1)) ∧
          (legacy_bound A → A.n_idx < 2 ^ 57 → len < 2 ^ 62 → legacy_bound B) := by
        intro B hB hposle hposub
        have bidx : B.idx = o1.AVI.idx := by rw [hB]
        have bn : B.n_idx = o1.AVI.n_idx := by rw [hB]
        have bod : B.is_opendml = o1.AVI.is_opendml := by rw [hB]
        have bvsi : B.video_superindex = o1.AVI.video_superindex := by rw [hB]
        refine ⟨by rw [hB]; exact faptr.trans a1aptr, by rw [hB]; exact fmode.trans a1mode,
          by rw [hB]; exact fanum.trans a1anum, by rw [hB]; exact fvf.trans a1vf, ?_, ?_, ?_,
          ?_, ?_⟩
        · intro hz
          obtain ⟨q1, q2, a, q3, q4, q5⟩ := l2 hz
          exact ⟨q1, by rw [bn, fn, q2], a, by rw [bidx, fidx, q3], q4, q5⟩
        · intro hz
          have := l3 hz
          exact ⟨by rw [bn, fn, this], by rw [bidx, fidx, this]⟩
        · rw [bod, ← a1od]
          exact fod
        · intro hr
          have := ftf hr
          rw [a1tf] at this
          rw [hB]
          exact this
        · intro hb hn57 hl62
          obtain ⟨b1, b2, b4, b3⟩ := hb
          have banum : B.anum = A.anum := by rw [hB]; exact fanum.trans a1anum
          refine ⟨?_, ?_, by rw [banum]; exact b4, ?_⟩
          · rw [bn, fn]
            by_cases hz : A.is_opendml = 0
            · have := (l2 hz).2.1
              omega
            · rw [l3 hz]
              exact b1
          · rw [bod]
            rw [a1od] at fod
            omega
          · intro hz vsi hv
            rw [bod] at hz
            rw [bvsi] at hv
            rw [a1od] at fod
            have hz0 : A.is_opendml = 0 := by omega
            have hsame : o1.AVI.is_opendml = A1.is_opendml := by rw [a1od, hz, hz0]
            have hA1 : ∀ v, A1.video_superindex = some v → v.nEntriesInUse = 1 := by
              intro v hv1
              rw [a1vsi] at hv1
              exact (b3 hz0 v hv1).1
            have hn1a := (l2 hz0).2.1
            obtain ⟨r1, r2, r3, r4⟩ := fbound hA1 (by omega) (by omega)
              (by rw [a1anum]; exact b4) hl62 hsame vsi hv
            have hub := hposub r3
            have hn1 := (l2 hz0).2.1
            rw [a1pos, hn1] at r4
            rw [a1pos] at r2
            refine ⟨r1, ?_⟩
            rw [bn, fn, hn1]
            omega
      split at h
      · rename_i hne
        rw [← Option.some.inj h]
        have k := key o1.AVI rfl (le_refl _) (fun h0 => absurd h0 hne)
        exact ⟨k.1, k.2.1, k.2.2.1, k.2.2.2.1, k.2.2.2.2.1, k.2.2.2.2.2.1, k.2.2.2.2.2.2.1,
          fun (h0 : (-1 : Int) = 0) => absurd h0 (by decide), k.2.2.2.2.2.2.2.2⟩
      · rename_i hret
        have hr0 : o1.ret = 0 := not_not.mp hret
        split at h
        · cases h
        · rename_i o2 ho2
          have f2 := avi_add_chunk_frame _ _ _ _ _ _ ho2
          have p2 := avi_add_chunk_pos _ _ _ _ _ _ ho2
          have k := key o2.AVI f2
            (by rcases p2 with ⟨_, q0, q⟩ | ⟨_, q, _⟩
                · have := PAD_EVEN_eq (uint32_to_int32 (len % 2 ^ 32))
                  omega
                · omega)
            (fun _ => by
              rcases p2 with ⟨_, q0, q⟩ | ⟨_, q, _⟩
              · have := PAD_EVEN_uint32_le len q0
                omega
              · omega)
          split at h
          · rw [← Option.some.inj h]
            exact ⟨k.1, k.2.1, k.2.2.1, k.2.2.2.1, k.2.2.2.2.1, k.2.2.2.2.2.1, k.2.2.2.2.2.2.1,
              fun (h0 : (-1 : Int) = 0) => absurd h0 (by decide), k.2.2.2.2.2.2.2.2⟩
          · rw [← Option.some.inj h]
            exact ⟨k.1, k.2.1, k.2.2.1, k.2.2.2.1, k.2.2.2.2.1, k.2.2.2.2.2.1, k.2.2.2.2.2.2.1,
              fun _ => k.2.2.2.2.2.2.2.1 hr0, k.2.2.2.2.2.2.2.2⟩

theorem legacy_bound_congr (A B : avi_t) (h1 : B.n_idx = A.n_idx)
    (h2 : B.is_opendml = A.is_opendml) (h3 : B.video_superindex = A.video_superindex)
    (h4 : B.pos = A.pos) (h5 : B.anum = A.anum) (h : legacy_bound A) : legacy_bound B := by
  unfold legacy_bound at h ⊢
  rw [h1, h2, h3, h4, h5]
  exact h

theorem long_to_ulong_lt (bytes : Int) (h0 : 0 ≤ bytes) (h1 : bytes < 2 ^ 62) :
    long_to_ulong bytes < 2 ^ 62 := by
  unfold long_to_ulong
  omega

theorem tag_is_audio_video : tag_is_audio (write_tag 0 false) = false := by decide

theorem tag_is_audio_write_tag (aptr : Nat) (h : aptr + 1 < 10) :
    tag_is_audio (write_tag aptr true) = true := by
  have : ∀ k < 9, tag_is_audio (write_tag k true) = true := by decide
  exact this aptr (by omega)

/-- What a call of `AVI_write_frame` or `AVI_write_audio` changes and keeps. -/
theorem writer_call_facts (c : writer_call) (A : avi_t) (e : Int) (o : outcome)
    (h : c.apply A e = some o) :
    o.AVI.aptr = A.aptr ∧ o.AVI.mode = A.mode ∧
    (o.AVI.is_opendml = A.is_opendml ∨ o.AVI.is_opendml = A.is_opendml + 1) ∧
    (A.is_opendml ≠ 0 → o.AVI.n_idx = A.n_idx ∧ o.AVI.idx = A.idx) ∧
    (legacy_bound A → A.n_idx < 2 ^ 57 → 0 ≤ c.bytes → c.bytes < 2 ^ 62 →
      legacy_bound o.AVI) ∧
    (o.ret = 0 →
      (A.is_opendml = 0 → 0 ≤ A.n_idx ∧ o.AVI.n_idx = A.n_idx + 1 ∧
        ∃ a, o.AVI.idx = some a ∧
          a[A.n_idx.toNat]? = some (idx1_record (write_tag A.aptr c.audio)
            (write_flags c.audio c.keyframe) (long_to_ulong A.pos) (long_to_ulong c.bytes)) ∧
          ∀ k x, k < A.n_idx.toNat → (A.idx.getD [])[k]? = some x → a[k]? = some x) ∧
      o.AVI.total_frames
        = A.total_frames + (if tag_is_audio (write_tag A.aptr c.audio) then 0 else 1) ∧
      o.AVI.video_frames = A.video_frames + (if c.audio then 0 else 1)) := by
  cases c with
  | write_frame data bytes keyframe =>
    simp only [writer_call.apply, writer_call.audio, writer_call.keyframe, writer_call.bytes]
      at h ⊢
    unfold AVI_write_frame at h
    split at h
    · rw [← Option.some.inj h]
      exact ⟨rfl, rfl, Or.inl rfl, fun _ => ⟨rfl, rfl⟩, fun hb _ _ _ => hb,
        fun (h0 : (-1 : Int) = 0) => absurd h0 (by decide)⟩
    · split at h
      · cases h
      · rename_i o1 ho1
        obtain ⟨k1, k2, _, k4, k5, k6, k7, k8, k9⟩ := plat_write_data_facts _ _ _ _ _ _ _ ho1
        split at h
        · rw [← Option.some.inj h]
          exact ⟨k1, k2, k7, k6, fun hb hn b0 b1 => k9 hb hn (long_to_ulong_lt _ b0 b1),
            fun (h0 : (-1 : Int) = 0) => absurd h0 (by decide)⟩
        · rename_i hret
          have hr0 : o1.ret = 0 := not_not.mp hret
          rw [← Option.some.inj h]
          refine ⟨k1, k2, k7, k6, fun hb hn b0 b1 => legacy_bound_congr o1.AVI _ rfl rfl rfl rfl
              rfl (k9 hb hn (long_to_ulong_lt _ b0 b1)), fun _ => ⟨k5, k8 hr0, ?_⟩⟩
          show o1.AVI.video_frames + 1 = _
          rw [k4]
          rfl
  | write_audio data bytes =>
    simp only [writer_call.apply, writer_call.audio, writer_call.keyframe, writer_call.bytes]
      at h ⊢
    unfold AVI_write_audio at h
    split at h
    · rw [← Option.some.inj h]
      exact ⟨rfl, rfl, Or.inl rfl, fun _ => ⟨rfl, rfl⟩, fun hb _ _ _ => hb,
        fun (h0 : (-1 : Int) = 0) => absurd h0 (by decide)⟩
    · split at h
      · cases h
      · rename_i o1 ho1
        obtain ⟨k1, k2, _, k4, k5, k6, k7, k8, k9⟩ := plat_write_data_facts _ _ _ _ _ _ _ ho1
        split at h
        · rw [← Option.some.inj h]
          exact ⟨k1, k2, k7, k6, fun hb hn b0 b1 => k9 hb hn (long_to_ulong_lt _ b0 b1),
            fun (h0 : (-1 : Int) = 0) => absurd h0 (by decide)⟩
        · rename_i hret
          have hr0 : o1.ret = 0 := not_not.mp hret
          rw [← Option.some.inj h]
          refine ⟨k1, k2, k7, k6, fun hb hn b0 b1 => legacy_bound_congr o1.AVI _ rfl rfl rfl rfl
              rfl (k9 hb hn (long_to_ulong_lt _ b0 b1)), fun _ => ⟨k5, k8 hr0, ?_⟩⟩
          show o1.AVI.video_frames = _
          rw [k4]
          simp

theorem tag_is_audio_write_tag_video (aptr : Nat) :
    tag_is_audio (write_tag aptr false) = false := by
  unfold write_tag
  simp only [Bool.false_eq_true, if_false]
  decide

/-- A call of `AVI_write_frame` or `AVI_write_audio` adds at most one entry to
the legacy index, whatever it returns. -/
theorem writer_call_n_idx_le (c : writer_call) (A : avi_t) (e : Int) (o : outcome)
    (h : c.apply A e = some o) : o.AVI.n_idx ≤ A.n_idx + 1 := by
  cases c with
  | write_frame data bytes keyframe =>
    simp only [writer_call.apply] at h
    unfold AVI_write_frame at h
    split at h
    · rw [← Option.some.inj h]
      show A.n_idx ≤ A.n_idx + 1
      omega
    · split at h
      · cases h
      · rename_i o1 ho1
        obtain ⟨_, _, _, _, k5, k6, _⟩ := plat_write_data_facts _ _ _ _ _ _ _ ho1
        have hn : o1.AVI.n_idx ≤ A.n_idx + 1 := by
          by_cases hz : A.is_opendml = 0
          · have := (k5 hz).2.1
            omega
          · have := (k6 hz).1
            omega
        split at h
        · rw [← Option.some.inj h]
          exact hn
        · rw [← Option.some.inj h]
          exact hn
  | write_audio data bytes =>
    simp only [writer_call.apply] at h
    unfold AVI_write_audio at h
    split at h
    · rw [← Option.some.inj h]
      show A.n_idx ≤ A.n_idx + 1
      omega
    · split at h
      · cases h
      · rename_i o1 ho1
        obtain ⟨_, _, _, _, k5, k6, _⟩ := plat_write_data_facts _ _ _ _ _ _ _ ho1
        have hn : o1.AVI.n_idx ≤ A.n_idx + 1 := by
          by_cases hz : A.is_opendml = 0
          · have := (k5 hz).2.1
            omega
          · have := (k6 hz).1
            omega
        split at h
        · rw [← Option.some.inj h]
          exact hn
        · rw [← Option.some.inj h]
          exact hn

/-- What a sequence of calls of `AVI_write_frame` and `AVI_write_audio` keeps;
the bound on the legacy file is kept by calls whose `bytes` are not negative
and below `2^62`, while the legacy index has at most `2^57` entries: the sum
`towrite` of the rotation check, which is formed in 64 bits, does not wrap
then. -/
theorem writer_calls_facts :
    ∀ (calls : List writer_call) (s t : avi_t × Int), writer_calls calls s = some t →
      t.1.aptr = s.1.aptr ∧
      (legacy_bound s.1 → s.1.n_idx + (calls.length : Int) ≤ 2 ^ 57 →
        (∀ c ∈ calls, 0 ≤ c.bytes ∧ c.bytes < 2 ^ 62) → legacy_bound t.1) ∧
      (0 ≤ s.1.is_opendml → s.1.is_opendml ≤ t.1.is_opendml) ∧
      (writer_calls_succeed calls s → s.1.aptr + 1 < 10 → 0 ≤ s.1.is_opendml →
        t.1.total_frames - t.1.video_frames = s.1.total_frames - s.1.video_frames ∧
        (t.1.is_opendml = 0 → t.1.n_idx = s.1.n_idx + calls.length)) := by
  intro calls
  induction calls with
  | nil =>
    intro s t h
    rw [writer_calls] at h
    rw [← Option.some.inj h]
    exact ⟨rfl, fun hb _ _ => hb, fun _ => le_refl _, fun _ _ _ => ⟨rfl, fun _ => by simp⟩⟩
  | cons c rest ih =>
    intro s t h
    rw [writer_calls] at h
    cases hc : c.apply s.1 s.2 with
    | none => rw [hc] at h; cases h
    | some o =>
      rw [hc] at h
      simp only [] at h
      obtain ⟨f1, _, f3, _, f5, f6⟩ := writer_call_facts c s.1 s.2 o hc
      obtain ⟨i1, i2, i3, i4⟩ := ih (o.AVI, o.AVI_errno) t h
      refine ⟨by rw [i1, f1], ?_, ?_, ?_⟩
      · intro hb hn hby
        have hle := writer_call_n_idx_le c s.1 s.2 o hc
        rw [List.length_cons] at hn
        push_cast at hn
        obtain ⟨c0, c1⟩ := hby c (List.mem_cons_self _ _)
        exact i2 (f5 hb (by omega) c0 c1) (by show o.AVI.n_idx + _ ≤ _; omega)
          (fun d hd => hby d (List.mem_cons_of_mem _ hd))
      · intro h0
        have := i3 (by show 0 ≤ o.AVI.is_opendml; omega)
        have : o.AVI.is_opendml ≤ t.1.is_opendml := this
        omega
      · intro hs haptr h0
        unfold writer_calls_succeed at hs
        rw [writer_calls_all_zero, hc] at hs
        simp only [Bool.and_eq_true, decide_eq_true_eq] at hs
        obtain ⟨hret, hrest⟩ := hs
        obtain ⟨g1, g2, g3⟩ := f6 hret
        have ho0 : 0 ≤ o.AVI.is_opendml := by omega
        obtain ⟨j1, j2⟩ := i4 hrest (by show o.AVI.aptr + 1 < 10; rw [f1]; exact haptr) ho0
        have hmono : o.AVI.is_opendml ≤ t.1.is_opendml := i3 ho0
        constructor
        · have j1' : t.1.total_frames - t.1.video_frames
              = o.AVI.total_frames - o.AVI.video_frames := j1
          rw [j1', g2, g3]
          cases hca : c.audio with
          | true =>
            rw [tag_is_audio_write_tag _ haptr]
            simp
          | false =>
            rw [tag_is_audio_write_tag_video]
            simp
        · intro ht0
          have hs0 : s.1.is_opendml = 0 := by omega
          have := j2 ht0
          have hn := (g1 hs0).2.1
          have : t.1.n_idx = o.AVI.n_idx + rest.length := this
          rw [this, hn, List.length_cons]
          push_cast
          omega

theorem AVI_open_output_file_counts (limit : Option Nat) (e e2 : Int) (A : avi_t)
    (h : AVI_open_output_file limit e = (some A, e2)) :
    A.aptr = 0 ∧ A.total_frames = 0 ∧ A.video_frames = 0 := by
  unfold AVI_open_output_file at h
  split at h
  · split at h
    · cases h
    · have := congrArg Prod.fst h
      simp only [Option.some.injEq] at this
      rw [← this]
      exact ⟨rfl, rfl, rfl⟩
  · cases h

/-- C37: while `is_opendml` is 0, a call of `AVI_write_frame` or
`AVI_write_audio` that returns 0 has added one entry to the legacy index, at
`idx[n_idx]`, with the tag, the flags, the write position and the length of
the chunk, and has left the entries before it alone; once `is_opendml` is not
0, a call leaves `n_idx` and `idx` alone.  After `AVI_open_output_file` and a
sequence of calls that all return 0, `total_frames` is `video_frames`, and if
`is_opendml` is still 0, `n_idx` is the number of calls. -/
theorem legacy_index_grows_with_writes :
    (∀ (c : writer_call) (A : avi_t) (e : Int) (o : outcome), c.apply A e = some o → o.ret = 0 →
      A.is_opendml = 0 →
      o.AVI.n_idx = A.n_idx + 1 ∧
      ∃ a, o.AVI.idx = some a ∧
        a[A.n_idx.toNat]? = some (idx1_record (write_tag A.aptr c.audio)
          (write_flags c.audio c.keyframe) (long_to_ulong A.pos) (long_to_ulong c.bytes)) ∧
        ∀ k x, k < A.n_idx.toNat → (A.idx.getD [])[k]? = some x → a[k]? = some x) ∧
    (∀ (c : writer_call) (A : avi_t) (e : Int) (o : outcome), c.apply A e = some o →
      A.is_opendml ≠ 0 → o.AVI.n_idx = A.n_idx ∧ o.AVI.idx = A.idx) ∧
    (∀ (limit : Option Nat) (e0 e1 : Int) (A0 : avi_t) (calls : List writer_call) (A : avi_t)
      (e : Int), AVI_open_output_file limit e0 = (some A0, e1) →
      writer_calls calls (A0, e1) = some (A, e) → writer_calls_succeed calls (A0, e1) →
      A.total_frames = A.video_frames ∧ (A.is_opendml = 0 → A.n_idx = calls.length)) := by
  refine ⟨?_, ?_, ?_⟩
  · intro c A e o h hret hz
    have f := (writer_call_facts c A e o h).2.2.2.2.2 hret
    exact ⟨(f.1 hz).2.1, (f.1 hz).2.2⟩
  · intro c A e o h hz
    exact (writer_call_facts c A e o h).2.2.2.1 hz
  · intro limit e0 e1 A0 calls A e hopen hcalls hsucc
    obtain ⟨_, _, _, _, hod, hn, _, _, _, _⟩ := AVI_open_output_file_state _ _ _ _ hopen
    obtain ⟨ha, ht, hv⟩ := AVI_open_output_file_counts _ _ _ _ hopen
    obtain ⟨_, _, _, k⟩ := writer_calls_facts calls (A0, e1) (A, e) hcalls
    have k2 := k hsucc (by show A0.aptr + 1 < 10; rw [ha]; decide)
      (by show 0 ≤ A0.is_opendml; rw [hod])
    have k3 : A.total_frames - A.video_frames = A0.total_frames - A0.video_frames := k2.1
    have k4 : A.is_opendml = 0 → A.n_idx = A0.n_idx + calls.length := k2.2
    rw [ht, hv] at k3
    rw [hn] at k4
    refine ⟨by omega, fun hz => ?_⟩
    have := k4 hz
    omega

theorem writer_call_apply_frame (data : List UInt8) (bytes keyframe : Int) (A : avi_t)
    (e : Int) :
    (writer_call.write_frame data bytes keyframe).apply A e
      = AVI_write_frame A e data bytes keyframe := rfl

theorem writer_call_apply_audio (data : List UInt8) (bytes : Int) (A : avi_t) (e : Int) :
    (writer_call.write_audio data bytes).apply A e = AVI_write_audio A e data bytes := rfl

theorem writer_calls_one (c : writer_call) (A : avi_t) (e : Int) (o : outcome)
    (h : c.apply A e = some o) : writer_calls [c] (A, e) = some (o.AVI, o.AVI_errno) := by
  simp only [writer_calls]
  rw [h]

theorem writer_calls_succeed_one (c : writer_call) (A : avi_t) (e : Int) (o : outcome)
    (h : c.apply A e = some o) (hr : o.ret = 0) : writer_calls_succeed [c] (A, e) := by
  unfold writer_calls_succeed
  rw [writer_calls_all_zero, h]
  simp only [Bool.and_eq_true, decide_eq_true_eq]
  exact ⟨hr, rfl⟩

theorem demo_one_frame_ret : demo_one_frame_outcome.ret = 0 := by decide!

theorem demo_one_frame_apply :
    (writer_call.write_frame [1, 2, 3] 3 1).apply demo_open_avi 0 = some demo_one_frame_outcome :=
  (writer_call_apply_frame [1, 2, 3] 3 1 demo_open_avi 0).trans demo_one_frame_eq

theorem demo_one_frame_calls :
    writer_calls [writer_call.write_frame [1, 2, 3] 3 1] (demo_open_avi, 0)
      = some (demo_one_frame_outcome.AVI, demo_one_frame_outcome.AVI_errno) :=
  writer_calls_one (writer_call.write_frame [1, 2, 3] 3 1) demo_open_avi 0
    demo_one_frame_outcome demo_one_frame_apply

theorem demo_one_frame_succeed :
    writer_calls_succeed [writer_call.write_frame [1, 2, 3] 3 1] (demo_open_avi, 0) :=
  writer_calls_succeed_one (writer_call.write_frame [1, 2, 3] 3 1) demo_open_avi 0
    demo_one_frame_outcome demo_one_frame_apply demo_one_frame_ret

theorem legacy_index_grows_with_writes_witness :
    ∃ A e, writer_calls [writer_call.write_frame [1, 2, 3] 3 1] (demo_open_avi, 0) = some (A, e) ∧
      A.total_frames = A.video_frames ∧
      (A.is_opendml = 0 →
        A.n_idx = (([writer_call.write_frame [1, 2, 3] 3 1] : List writer_call).length : Int)) :=
  ⟨demo_one_frame_outcome.AVI, demo_one_frame_outcome.AVI_errno, demo_one_frame_calls,
    legacy_index_grows_with_writes.2.2 none 0 0 demo_open_avi
      [writer_call.write_frame [1, 2, 3] 3 1] demo_one_frame_outcome.AVI
      demo_one_frame_outcome.AVI_errno demo_open_eq demo_one_frame_calls demo_one_frame_succeed⟩

theorem high_mask_keeps (s : Nat) (hs : s < 2 ^ 32) :
    (s <<< 32) &&& 0xffffffff00000000 = s <<< 32 := by
  apply Nat.eq_of_testBit_eq
  intro j
  have hm : (0xffffffff00000000 : Nat) = (2 ^ 32 - 1) <<< 32 := by decide
  rw [Nat.testBit_and, hm, Nat.testBit_shiftLeft, Nat.testBit_shiftLeft,
    Nat.testBit_two_pow_sub_one]
  by_cases hj : 32 ≤ j
  · by_cases hj2 : j - 32 < 32
    · simp [hj, hj2]
    · have : s.testBit (j - 32) = false :=
        Nat.testBit_lt_two_pow (lt_of_lt_of_le hs (Nat.pow_le_pow_right (by decide) (by omega)))
      simp [this]
  · simp [hj]

theorem int_to_uint64_shift (s : Nat) (hs : s < 2 ^ 32) :
    ((int_to_uint64 s) <<< 32) % 2 ^ 64 = s <<< 32 := by
  unfold int_to_uint64
  rw [Nat.shiftLeft_eq, Nat.shiftLeft_eq]
  split <;> omega

theorem int_to_uint64_low (r : Nat) (hr : r < 2 ^ 32) :
    (int_to_uint64 r) &&& 0xffffffff = r := by
  have hm : (0xffffffff : Nat) = 2 ^ 32 - 1 := by decide
  rw [hm, Nat.and_pow_two_sub_one_eq_mod]
  unfold int_to_uint64
  split <;> omega

/-- C39: `str2ullong` decodes the 8 bytes at `str` as an unsigned 64-bit
little-endian integer: for all bytes `b0 .. b7` the result is the sum of
`b_i * 256^i`; a byte `b3` or `b7` of `0x80` or more (a negative `int`
intermediate, sign-extended by the conversion to `uint64_t`) does not disturb
the other half. -/
theorem str2ullong_little_endian (b0 b1 b2 b3 b4 b5 b6 b7 : UInt8) (rest : List UInt8) :
    str2ullong (b0 :: b1 :: b2 :: b3 :: b4 :: b5 :: b6 :: b7 :: rest)
      = some (b0.toNat + 256 * b1.toNat + 256 ^ 2 * b2.toNat + 256 ^ 3 * b3.toNat
          + 256 ^ 4 * b4.toNat + 256 ^ 5 * b5.toNat + 256 ^ 6 * b6.toNat
          + 256 ^ 7 * b7.toNat) := by
  have h0 := b0.toNat_lt
  have h1 := b1.toNat_lt
  have h2 := b2.toNat_lt
  have h3 := b3.toNat_lt
  have h4 := b4.toNat_lt
  have h5 := b5.toNat_lt
  have h6 := b6.toNat_lt
  have h7 := b7.toNat_lt
  have hd : (b0 :: b1 :: b2 :: b3 :: b4 :: b5 :: b6 :: b7 :: rest).drop 4
      = b4 :: b5 :: b6 :: b7 :: rest := rfl
  unfold str2ullong
  rw [hd, str2ulong_eq_add, str2ulong_eq_add]
  simp only []
  rw [int_to_uint64_shift _ (by omega), high_mask_keeps _ (by omega),
    int_to_uint64_low _ (by omega), Nat.shiftLeft_eq]
  have key : ∀ r s : Nat, r < 2 ^ 32 → s * 2 ^ 32 ||| r = 2 ^ 32 * s + r := by
    intro r s hr
    rw [Nat.mul_comm]
    exact (Nat.mul_add_lt_is_or hr s).symm
  rw [key _ _ (by omega)]
  congr 1
  omega

theorem demo_open_avi_mode : demo_open_avi.mode = AVI_MODE_WRITE :=
  (AVI_open_output_file_state none 0 0 demo_open_avi demo_open_eq).2.2.2.1

/-- C38: mode guards.  On a handle in write mode each reading operation
(`AVI_read_video`, `AVI_read_audio`, `AVI_read_audio_chunk`,
`AVI_set_video_position`, `AVI_set_audio_position`,
`AVI_set_audio_position_index`, `AVI_frame_size`, `AVI_audio_size`,
`AVI_seek_start`) returns -1, sets `AVI_errno` to `AVI_ERR_NOT_PERM`, stores
nothing into a buffer and leaves the handle as it is.  On a handle in read mode
`AVI_write_frame`, `AVI_write_audio` and `AVI_set_audio_bitrate` do the same,
and `AVI_set_video` and `AVI_set_audio` return with the handle and `AVI_errno`
unchanged. -/
theorem mode_guards (AVI : avi_t) (AVI_errno : Int) :
    (AVI.mode = AVI_MODE_WRITE →
      (∀ vidbuf bytes, AVI_read_video AVI AVI_errno vidbuf bytes
        = some { ret := -1, AVI := AVI, AVI_errno := AVI_ERR_NOT_PERM }) ∧
      (∀ bytes, AVI_read_audio AVI AVI_errno bytes
        = some { ret := -1, AVI := AVI, AVI_errno := AVI_ERR_NOT_PERM }) ∧
      (∀ audbuf, AVI_read_audio_chunk AVI AVI_errno audbuf
        = some { ret := -1, AVI := AVI, AVI_errno := AVI_ERR_NOT_PERM }) ∧
      (∀ frame, AVI_set_video_position AVI AVI_errno frame
        = { ret := -1, AVI := AVI, AVI_errno := AVI_ERR_NOT_PERM }) ∧
      (∀ byte, AVI_set_audio_position AVI AVI_errno byte
        = some { ret := -1, AVI := AVI, AVI_errno := AVI_ERR_NOT_PERM }) ∧
      (∀ indexpos, AVI_set_audio_position_index AVI AVI_errno indexpos
        = { ret := -1, AVI := AVI, AVI_errno := AVI_ERR_NOT_PERM }) ∧
      (∀ frame, AVI_frame_size AVI AVI_errno frame
        = some { ret := -1, AVI := AVI, AVI_errno := AVI_ERR_NOT_PERM }) ∧
      (∀ frame, AVI_audio_size AVI AVI_errno frame
        = some { ret := -1, AVI := AVI, AVI_errno := AVI_ERR_NOT_PERM }) ∧
      AVI_seek_start AVI AVI_errno
        = { ret := -1, AVI := AVI, AVI_errno := AVI_ERR_NOT_PERM }) ∧
    (AVI.mode = AVI_MODE_READ →
      (∀ data bytes keyframe, AVI_write_frame AVI AVI_errno data bytes keyframe
        = some { ret := -1, AVI := AVI, AVI_errno := AVI_ERR_NOT_PERM }) ∧
      (∀ data bytes, AVI_write_audio AVI AVI_errno data bytes
        = some { ret := -1, AVI := AVI, AVI_errno := AVI_ERR_NOT_PERM }) ∧
      (∀ bitrate, AVI_set_audio_bitrate AVI AVI_errno bitrate
        = { ret := -1, AVI := AVI, AVI_errno := AVI_ERR_NOT_PERM }) ∧
      (∀ width height fps compressor,
        AVI_set_video AVI AVI_errno width height fps compressor
          = some (run.done (AVI, AVI_errno))) ∧
      (∀ channels rate bits format mp3rate,
        AVI_set_audio AVI AVI_errno channels rate bits format mp3rate
          = some (run.done (AVI, AVI_errno)))) := by
  constructor
  · intro h
    refine ⟨?_, ?_, ?_, ?_, ?_, ?_, ?_, ?_, ?_⟩
    · intro vidbuf bytes
      unfold AVI_read_video
      rw [if_pos h]
    · intro bytes
      unfold AVI_read_audio
      rw [if_pos h]
    · intro audbuf
      unfold AVI_read_audio_chunk
      rw [if_pos h]
    · intro frame
      unfold AVI_set_video_position
      rw [if_pos h]
    · intro byte
      unfold AVI_set_audio_position
      rw [if_pos h]
    · intro indexpos
      unfold AVI_set_audio_position_index
      rw [if_pos h]
    · intro frame
      unfold AVI_frame_size
      rw [if_pos h]
    · intro frame
      unfold AVI_audio_size
      rw [if_pos h]
    · unfold AVI_seek_start
      rw [if_pos h]
  · intro h
    refine ⟨?_, ?_, ?_, ?_, ?_⟩
    · intro data bytes keyframe
      unfold AVI_write_frame
      rw [if_pos h]
    · intro data bytes
      unfold AVI_write_audio
      rw [if_pos h]
    · intro bitrate
      unfold AVI_set_audio_bitrate
      rw [if_pos h]
    · intro width height fps compressor
      unfold AVI_set_video
      rw [if_neg (not_not.mpr h)]
    · intro channels rate bits format mp3rate
      unfold AVI_set_audio
      rw [if_neg (not_not.mpr h)]

theorem mode_guards_witness :
    AVI_read_video demo_open_avi 0 caller_buffer.storage 10
      = some { ret := -1, AVI := demo_open_avi, AVI_errno := AVI_ERR_NOT_PERM } ∧
    AVI_write_frame demo_avi 0 [1, 2, 3] 3 1
      = some { ret := -1, AVI := demo_avi, AVI_errno := AVI_ERR_NOT_PERM } :=
  ⟨((mode_guards demo_open_avi 0).1 demo_open_avi_mode).1 caller_buffer.storage 10,
    ((mode_guards demo_avi 0).2 rfl).1 [1, 2, 3] 3 1⟩

/-- C34, the code at failing inputs: with `AVI_errno` 0 before the call, on a
read-mode handle with two frames and an audio track of two chunks,
`AVI_read_video` with the video cursor behind the last frame,
`AVI_set_audio_track(5)` with one track, `AVI_audio_size(7)` and
`AVI_read_audio_chunk` with the audio cursor behind the last chunk each return
-1 and leave `AVI_errno` at 0. -/
theorem failure_sentinel_without_error_code :
    demo_end_avi.mode = AVI_MODE_READ ∧ demo_end_avi.video_pos = demo_end_avi.video_frames ∧
    demo_end_avi.anum = 1 ∧
    (demo_end_avi.track demo_end_avi.aptr).audio_chunks = 2 ∧
    (demo_end_avi.track demo_end_avi.aptr).audio_posc = 2 ∧
    (AVI_read_video demo_end_avi 0 caller_buffer.storage 100).map
      (fun o => (o.ret, o.AVI_errno)) = some (-1, 0) ∧
    (AVI_set_audio_track demo_end_avi 0 5).map (fun o => (o.ret, o.AVI_errno)) = some (-1, 0) ∧
    (AVI_audio_size demo_end_avi 0 7).map (fun o => (o.ret, o.AVI_errno)) = some (-1, 0) ∧
    (AVI_read_audio_chunk demo_end_avi 0 caller_buffer.storage).map
      (fun o => (o.ret, o.AVI_errno)) = some (-1, 0) := by
  refine ⟨rfl, rfl, rfl, rfl, rfl, ?_, ?_, ?_, ?_⟩ <;> decide

/-! ### The length of a file that is not OpenDML -/

/-- `avi_close_output_file` on a file that is not OpenDML, on a device that
holds the file up to the write position, once the first part has returned. -/
theorem avi_close_output_file_exec (A : avi_t) (e : Int) (info : List UInt8)
    (oi : outcome) (hdr : List UInt8)
    (hz : A.is_opendml = 0) (hp : HEADERBYTES ≤ A.pos)
    (hh : avi_close_output_file_header A e info = some (run.done (oi, hdr)))
    (hroom : ∀ l, oi.AVI.fdes.limit = some l → oi.AVI.pos ≤ (l : Int)) :
    ∃ r, avi_close_output_file A e info = some (run.done r) ∧
      r.ret = (if oi.ret ≠ 0 then -1 else 0) ∧ r.AVI.is_opendml = 0 ∧
      r.AVI.fdes.data.length = oi.AVI.pos.toNat := by
  obtain ⟨d, m, hb, hd, hm, hi, hbuild, hjm⟩ :=
    avi_close_output_file_header_parts A e info oi hdr hh
  rw [avi_close_output_file_dump_legacy A e hz, Option.some.injEq] at hd
  subst hd
  have hi : avi_close_idx1 A e = some oi := hi
  obtain ⟨r, hr⟩ := avi_close_header_build_riff_len _ _ _ _ hbuild
  have hf := close_header_field _ _ _ _ _ _ _ hr hbuild hjm
  have fi := avi_close_idx1_facts _ _ _ hi
  have hoz : oi.AVI.is_opendml = 0 := by
    rw [fi.1]
    exact hz
  have hpos : HEADERBYTES ≤ oi.AVI.pos := by
    have hpe := PAD_EVEN_eq (to_int32 (A.n_idx * 16))
    rcases fi.2.1 hz with ⟨_, p0, p⟩ | ⟨_, p, _⟩
    · show HEADERBYTES ≤ oi.AVI.pos
      omega
    · show HEADERBYTES ≤ oi.AVI.pos
      omega
  obtain ⟨f, hw, _, hl⟩ := avi_close_write_exec oi hdr hf.1 hoz hpos hroom
  refine ⟨{ ret := if oi.ret ≠ 0 then -1 else 0
            AVI := { oi.AVI with fdes := f }
            AVI_errno := oi.AVI_errno }, ?_, rfl, hoz, hl⟩
  unfold avi_close_output_file
  rw [hh]
  simp only []
  rw [hw]
  rfl

theorem avi_close_write_is_opendml (o r : outcome) (hdr : List UInt8)
    (h : avi_close_write o hdr = some r) : r.AVI.is_opendml = o.AVI.is_opendml := by
  unfold avi_close_write at h
  split at h
  · rw [← Option.some.inj h]
    rfl
  · split at h
    · cases h
    · split at h
      · rw [← Option.some.inj h]
        rfl
      · split at h
        · rw [← Option.some.inj h]
          rfl
        · split at h
          · cases h
          · rw [← Option.some.inj h]

/-- The length of the file that `avi_close_output_file` leaves when it returns 0
on a file that is not OpenDML: the write position, 8 bytes for the header of
`idx1` and the legacy index. -/
theorem avi_close_output_file_length (A : avi_t) (e : Int) (info : List UInt8) (r : outcome)
    (h : avi_close_output_file A e info = some (run.done r)) (hret : r.ret = 0)
    (hz : A.is_opendml = 0) :
    r.AVI.is_opendml = 0 ∧
    r.AVI.fdes.data.length = (A.pos + (8 + PAD_EVEN (to_int32 (A.n_idx * 16)))).toNat := by
  unfold avi_close_output_file at h
  split at h
  · cases h
  · cases h
  · rename_i r0 hh
    cases hw : avi_close_write r0.1 r0.2 with
    | none => rw [hw] at h; cases h
    | some r1 =>
      rw [hw] at h
      simp only [Option.map_some', Option.some.injEq, run.done.injEq] at h
      subst h
      obtain ⟨d, m, hb, hd, hm, hi, hbuild, hjm⟩ :=
        avi_close_output_file_header_parts A e info r0.1 r0.2 hh
      rw [avi_close_output_file_dump_legacy A e hz, Option.some.injEq] at hd
      subst hd
      have hi : avi_close_idx1 A e = some r0.1 := hi
      have fi := avi_close_idx1_facts _ _ _ hi
      have hoz : r0.1.AVI.is_opendml = 0 := by
        rw [fi.1]
        exact hz
      obtain ⟨l1, l2, l3⟩ := avi_close_write_length r0.1 r1 r0.2 hw hret hoz
      refine ⟨?_, ?_⟩
      · rw [avi_close_write_is_opendml r0.1 r1 r0.2 hw]
        exact hoz
      · rw [l1]
        rcases fi.2.1 hz with ⟨_, _, p⟩ | ⟨p, _, _⟩
        · rw [p]
        · rw [l3] at p
          exact absurd p (by decide)

theorem writer_call_pos (c : writer_call) (A : avi_t) (e : Int) (o : outcome)
    (h : c.apply A e = some o) : A.pos ≤ o.AVI.pos := by
  cases c with
  | write_frame data bytes keyframe => exact (AVI_write_frame_pos A e data bytes keyframe o h).1
  | write_audio data bytes => exact (AVI_write_audio_pos A e data bytes o h).1

theorem writer_calls_pos :
    ∀ (calls : List writer_call) (s t : avi_t × Int), writer_calls calls s = some t →
      s.1.pos ≤ t.1.pos := by
  intro calls
  induction calls with
  | nil =>
    intro s t h
    rw [writer_calls] at h
    rw [← Option.some.inj h]
  | cons c rest ih =>
    intro s t h
    rw [writer_calls] at h
    cases hc : c.apply s.1 s.2 with
    | none => rw [hc] at h; cases h
    | some o =>
      rw [hc] at h
      simp only [] at h
      exact le_trans (writer_call_pos c s.1 s.2 o hc) (ih _ _ h)

theorem AVI_open_output_file_legacy_bound (limit : Option Nat) (e e2 : Int) (A : avi_t)
    (h : AVI_open_output_file limit e = (some A, e2)) : legacy_bound A := by
  obtain ⟨_, _, _, _, hod, hn, ha, hv, _, _⟩ := AVI_open_output_file_state _ _ _ _ h
  refine ⟨by rw [hn], by rw [hod], by rw [ha]; decide, fun _ vsi hvsi => ?_⟩
  rw [hv] at hvsi
  cases hvsi

/-- C23, as the code has it: a file that `AVI_open_output_file`, a sequence of
calls of `AVI_write_frame` and `AVI_write_audio` (whatever they return) and an
`avi_close_output_file` that returns 0 have produced, that is not OpenDML and
whose video stream has its super-index (it is allocated by the first
`AVI_write_frame`), is not longer than `NEW_RIFF_THRES - HEADERBYTES` bytes,
which is below `2^31 - 16 * 2^20 - 2048`, if no call has a negative `bytes` or
one of `2^62` or more and there are fewer than `2^57` calls.  The rotation
check of `avi_add_odml_index_entry` forms `towrite` in 64 bits: a negative
`bytes` arrives there as an `unsigned long` of `2^63` or more and leaves
`towrite` negative, so that no rotation is made. -/
theorem single_riff_length_bound (limit : Option Nat) (e0 e1 : Int) (A0 : avi_t)
    (calls : List writer_call) (A : avi_t) (e : Int) (info : List UInt8) (r : outcome)
    (hopen : AVI_open_output_file limit e0 = (some A0, e1))
    (hcalls : writer_calls calls (A0, e1) = some (A, e))
    (hbytes : ∀ c ∈ calls, 0 ≤ c.bytes ∧ c.bytes < 2 ^ 62) (hcount : calls.length < 2 ^ 57)
    (hv : A.video_superindex.isSome = true) (hz : A.is_opendml = 0)
    (hclose : avi_close_output_file A e info = some (run.done r)) (hret : r.ret = 0) :
    r.AVI.is_opendml = 0 ∧
    (r.AVI.fdes.data.length : Int) ≤ NEW_RIFF_THRES - HEADERBYTES ∧
    (r.AVI.fdes.data.length : Int) < 2 ^ 31 - 16 * 2 ^ 20 - 2048 := by
  have hb0 := AVI_open_output_file_legacy_bound _ _ _ _ hopen
  have hp0 := (AVI_open_output_file_state _ _ _ _ hopen).1
  have hn0 : A0.n_idx = 0 := (AVI_open_output_file_state _ _ _ _ hopen).2.2.2.2.2.1
  have hb := (writer_calls_facts calls (A0, e1) (A, e) hcalls).2.1 hb0
    (by show A0.n_idx + (calls.length : Int) ≤ 2 ^ 57; rw [hn0]; omega) hbytes
  have hp := writer_calls_pos calls (A0, e1) (A, e) hcalls
  simp only [] at hb hp
  obtain ⟨hn, _, _, hbound⟩ := hb
  cases hvs : A.video_superindex with
  | none => rw [hvs] at hv; cases hv
  | some vsi =>
    have hle := (hbound hz vsi hvs).2
    obtain ⟨l1, l2⟩ := avi_close_output_file_length A e info r hclose hret hz
    have hT : NEW_RIFF_THRES = 1992294400 := rfl
    have hH : HEADERBYTES = 2048 := rfl
    rw [hT, hH] at hle ⊢
    rw [to_int32_of_range _ (by omega) (by omega), PAD_EVEN_eq] at l2
    refine ⟨l1, ?_, ?_⟩
    · rw [l2]
      omega
    · rw [l2]
      omega

theorem run_done_get {α : Type} (x : Option (run α)) (d a : α) (h : x = some (run.done a)) :
    x = some (run.done (run.get d x)) ∧ run.get d x = a := by
  subst h
  exact ⟨rfl, rfl⟩

theorem limit_none_room (f : plat_file) (pos : Int) (h : f.limit = none) :
    ∀ l, f.limit = some l → pos ≤ (l : Int) := by
  intro l hl
  rw [h] at hl
  cases hl

theorem demo_one_frame_close_eq :
    avi_close_output_file_header demo_one_frame_outcome.AVI demo_one_frame_outcome.AVI_errno []
      = some (run.done demo_one_frame_close) :=
  run_eq_done _ _ (by decide!)

theorem demo_one_frame_closed_facts :
    avi_close_output_file demo_one_frame_outcome.AVI demo_one_frame_outcome.AVI_errno []
      = some (run.done demo_one_frame_closed) ∧ demo_one_frame_closed.ret = 0 := by
  obtain ⟨r, hr, hret, _, _⟩ := avi_close_output_file_exec demo_one_frame_outcome.AVI
    demo_one_frame_outcome.AVI_errno [] demo_one_frame_close.1 demo_one_frame_close.2
    (by decide!) (by decide!) (run_done_pair _ _ demo_one_frame_close_eq)
    (limit_none_room _ _ (by decide!))
  obtain ⟨g1, g2⟩ := run_done_get _ no_outcome _ hr
  have h0 : demo_one_frame_close.1.ret = 0 := by decide!
  rw [h0] at hret
  refine ⟨g1, ?_⟩
  unfold demo_one_frame_closed
  rw [g2, hret]
  rfl

theorem single_riff_length_bound_witness :
    ∃ r, avi_close_output_file demo_one_frame_outcome.AVI demo_one_frame_outcome.AVI_errno []
        = some (run.done r) ∧
      r.AVI.is_opendml = 0 ∧
      (r.AVI.fdes.data.length : Int) ≤ NEW_RIFF_THRES - HEADERBYTES ∧
      (r.AVI.fdes.data.length : Int) < 2 ^ 31 - 16 * 2 ^ 20 - 2048 :=
  ⟨demo_one_frame_closed, demo_one_frame_closed_facts.1,
    single_riff_length_bound none 0 0 demo_open_avi [writer_call.write_frame [1, 2, 3] 3 1]
      demo_one_frame_outcome.AVI demo_one_frame_outcome.AVI_errno [] demo_one_frame_closed
      demo_open_eq demo_one_frame_calls
      (fun c hc => by
        rw [List.mem_singleton.mp hc]
        exact ⟨by decide, by decide⟩)
      (by decide) (by decide!) (by decide!) demo_one_frame_closed_facts.1
      demo_one_frame_closed_facts.2⟩

theorem big_audio_steps :
    ∀ k < 2, (big_audio k).mode ≠ AVI_MODE_READ ∧
      (write_index_entries (big_audio k) 0 true 0 (2000000000 : Int).toNat).isSome = true ∧
      ((write_index_entries (big_audio k) 0 true 0 (2000000000 : Int).toNat).getD
        { ret := -1, AVI := {}, AVI_errno := 0 }).ret = 0 ∧
      ((write_index_entries (big_audio k) 0 true 0 (2000000000 : Int).toNat).getD
        { ret := -1, AVI := {}, AVI_errno := 0 }).AVI_errno = 0 ∧
      ((write_index_entries (big_audio k) 0 true 0 (2000000000 : Int).toNat).getD
        { ret := -1, AVI := {}, AVI_errno := 0 }).AVI.fdes.limit = none := by
  decide!

theorem big_audio_reach (k : Nat) (hk : k < 2) :
    AVI_write_audio (big_audio k) 0 demo_big_chunk 2000000000
      = some { ret := 0, AVI := big_audio (k + 1), AVI_errno := 0 } := by
  obtain ⟨hmode, hsome, hret, herr, hlim⟩ := big_audio_steps k hk
  have hexec := AVI_write_audio_exec (big_audio k) 0 demo_big_chunk 2000000000 _ hmode
    (by decide) (by decide) (option_eq_some_getD _ { ret := -1, AVI := {}, AVI_errno := 0 } hsome)
    hret hlim demo_big_chunk_length
  rw [herr] at hexec
  exact hexec

theorem demo_big_audio_close_eq :
    avi_close_output_file_header (big_audio 2) 0 [] = some (run.done demo_big_audio_close) :=
  run_eq_done _ _ (by decide!)

theorem demo_big_audio_close_facts :
    (big_audio 2).is_opendml = 0 ∧ HEADERBYTES ≤ (big_audio 2).pos ∧
    demo_big_audio_close.1.AVI.fdes.limit = none ∧ demo_big_audio_close.1.ret = 0 ∧
    demo_big_audio_close.1.AVI.pos = 4000002104 := by
  decide!

/-- C23, a counterexample: two calls of `AVI_write_audio` with 2 000 000 000
bytes each on a new file return 0 (the handle has no video super-index, so the
rotation check of `avi_add_odml_index_entry` is never made), and
`avi_close_output_file` returns 0 on a file that is not OpenDML and is
4 000 002 104 bytes long. -/
theorem single_riff_audio_only_beyond_bound :
    AVI_open_output_file none 0 = (some (big_audio 0), 0) ∧
    (∀ k < 2, AVI_write_audio (big_audio k) 0 demo_big_chunk 2000000000
      = some { ret := 0, AVI := big_audio (k + 1), AVI_errno := 0 }) ∧
    ∃ r, avi_close_output_file (big_audio 2) 0 [] = some (run.done r) ∧ r.ret = 0 ∧
      r.AVI.is_opendml = 0 ∧ r.AVI.fdes.data.length = 4000002104 ∧
      ¬ ((r.AVI.fdes.data.length : Int) < 2 ^ 31 - 16 * 2 ^ 20 - 2048) := by
  obtain ⟨hz, hp, hlim, hret, hpos⟩ := demo_big_audio_close_facts
  obtain ⟨r, hr, hr0, hrz, hl⟩ := avi_close_output_file_exec (big_audio 2) 0 []
    demo_big_audio_close.1 demo_big_audio_close.2 hz hp
    (run_done_pair _ _ demo_big_audio_close_eq) (limit_none_room _ _ hlim)
  rw [hpos] at hl
  rw [hret] at hr0
  refine ⟨demo_open_eq, big_audio_reach, r, hr, hr0, hrz, hl, ?_⟩
  rw [hl]
  decide

/-! ### The header stays inside its array -/

theorem out_step_apply_of_inside (s : out_step) (h : header_buf)
    (hl : h.AVI_header.length = HEADERBYTES.toNat) (hi : s.inside h.pos) :
    ∃ h2, s.apply h = some h2 ∧ h2.pos = s.move h.pos ∧
      h2.AVI_header.length = HEADERBYTES.toNat := by
  have hH : HEADERBYTES = 2048 := rfl
  have key : ∀ (off : Int) (src : List UInt8), 0 ≤ off → off + (src.length : Int) ≤ HEADERBYTES →
      ∃ b, header_store h.AVI_header off src = some b ∧ b.length = HEADERBYTES.toNat := by
    intro off src h0 h1
    have e := header_store_some h.AVI_header off src h0 h1
    exact ⟨_, e, (header_store_write_at _ _ _ _ e hl).2.1⟩
  cases s with
  | OUT4CC t =>
    obtain ⟨i1, i2, i3⟩ := hi
    simp only [header_buf.pos] at i2 i3
    obtain ⟨b, hb, hbl⟩ := key h.nhb (t.take 4) i2
      (by rw [List.length_take, Nat.min_eq_left i1]; omega)
    refine ⟨{ h with AVI_header := b, nhb := h.nhb + 4 }, ?_, rfl, hbl⟩
    simp only [out_step.apply]
    rw [if_pos (by omega), if_neg (by omega), hb]
    rfl
  | OUTLONG n =>
    obtain ⟨i2, i3⟩ := hi
    simp only [header_buf.pos] at i2 i3
    obtain ⟨b, hb, hbl⟩ := key h.nhb (long2str n) i2 (by rw [long2str_length]; omega)
    refine ⟨{ h with AVI_header := b, nhb := h.nhb + 4 }, ?_, rfl, hbl⟩
    simp only [out_step.apply]
    rw [if_pos (by omega), hb]
    rfl
  | OUTSHRT n =>
    obtain ⟨i2, i3⟩ := hi
    simp only [header_buf.pos] at i2 i3
    obtain ⟨b, hb, hbl⟩ := key h.nhb [low_byte n, low_byte (n >>> (8 : Nat))] i2
      (by simp only [List.length_cons, List.length_nil]; omega)
    refine ⟨{ h with AVI_header := b, nhb := h.nhb + 2 }, ?_, rfl, hbl⟩
    simp only [out_step.apply]
    rw [if_pos (by omega), hb]
    rfl
  | OUTCHR n =>
    obtain ⟨i2, i3⟩ := hi
    simp only [header_buf.pos] at i2 i3
    obtain ⟨b, hb, hbl⟩ := key h.nhb [low_byte n] i2
      (by simp only [List.length_cons, List.length_nil]; omega)
    refine ⟨{ h with AVI_header := b, nhb := h.nhb + 1 }, ?_, rfl, hbl⟩
    simp only [out_step.apply]
    rw [if_pos (by omega), hb]
    rfl
  | OUTMEM d n =>
    obtain ⟨i1, i2, i3⟩ := hi
    simp only [header_buf.pos] at i2 i3
    obtain ⟨b, hb, hbl⟩ := key h.nhb (d.take (n % 2 ^ 32)) i2
      (by rw [List.length_take, Nat.min_eq_left i1]; exact i3)
    refine ⟨{ h with AVI_header := b, nhb := h.nhb + ((n % 2 ^ 32 : Nat) : Int) }, ?_, rfl, hbl⟩
    simp only [out_step.apply]
    rw [if_pos (by omega), if_neg (by omega), hb]
    rfl
  | set_hdrl_start => exact ⟨_, rfl, by simp [header_buf.pos, out_step.move, out_step.size], hl⟩
  | set_strl_start => exact ⟨_, rfl, by simp [header_buf.pos, out_step.move, out_step.size], hl⟩
  | finish_strl =>
    obtain ⟨i2, i3⟩ := hi
    simp only [header_buf.pos] at i2 i3
    obtain ⟨b, hb, hbl⟩ := key (h.strl_start - 4) (long2str (h.nhb - h.strl_start)) (by omega)
      (by rw [long2str_length]; omega)
    refine ⟨{ h with AVI_header := b }, ?_, by simp [header_buf.pos, out_step.move,
      out_step.size], hbl⟩
    simp only [out_step.apply]
    rw [hb]
    rfl
  | finish_hdrl =>
    obtain ⟨i2, i3⟩ := hi
    simp only [header_buf.pos] at i2 i3
    obtain ⟨b, hb, hbl⟩ := key (h.hdrl_start - 4) (long2str (h.nhb - h.hdrl_start)) (by omega)
      (by rw [long2str_length]; omega)
    refine ⟨{ h with AVI_header := b }, ?_, by simp [header_buf.pos, out_step.move,
      out_step.size], hbl⟩
    simp only [out_step.apply]
    rw [hb]
    rfl

theorem out_steps_of_inside (l : List out_step) :
    ∀ (h : header_buf), h.AVI_header.length = HEADERBYTES.toNat → steps_inside l h.pos →
      ∃ h2, out_steps l h = some h2 ∧ h2.pos = steps_move l h.pos ∧
        h2.AVI_header.length = HEADERBYTES.toNat := by
  induction l with
  | nil =>
    intro h hl _
    exact ⟨h, rfl, rfl, hl⟩
  | cons s rest ih =>
    intro h hl hi
    obtain ⟨h1, e1, p1, l1⟩ := out_step_apply_of_inside s h hl hi.1
    have hi2 := hi.2
    rw [← p1] at hi2
    obtain ⟨h2, e2, p2, l2⟩ := ih h1 l1 hi2
    refine ⟨h2, ?_, ?_, l2⟩
    · simp only [out_steps]
      rw [e1]
      exact e2
    · rw [p2, p1]
      rfl

theorem steps_move_append (a b : List out_step) :
    ∀ p, steps_move (a ++ b) p = steps_move b (steps_move a p) := by
  induction a with
  | nil => intro p; rfl
  | cons s rest ih =>
    intro p
    exact ih (s.move p)

theorem steps_inside_append (a b : List out_step) :
    ∀ p, steps_inside (a ++ b) p ↔ steps_inside a p ∧ steps_inside b (steps_move a p) := by
  induction a with
  | nil =>
    intro p
    simp [steps_inside, steps_move]
  | cons s rest ih =>
    intro p
    show s.inside p ∧ steps_inside (rest ++ b) (s.move p) ↔
      (s.inside p ∧ steps_inside rest (s.move p)) ∧ steps_inside b (steps_move rest (s.move p))
    rw [ih (s.move p)]
    exact and_assoc.symm

theorem steps_move_nhb (l : List out_step) :
    ∀ p, (steps_move l p).nhb = p.nhb + steps_size l := by
  induction l with
  | nil =>
    intro p
    simp [steps_move, steps_size]
  | cons s rest ih =>
    intro p
    rw [steps_move, ih]
    simp only [out_step.move, steps_size, List.map_cons, List.sum_cons]
    omega

theorem close_vids_inside (AVI : avi_t) (hasIndex : Bool) (r : Int) (hx : AVI.extradata = none)
    (hc : 4 ≤ AVI.compressor.length) :
    steps_inside (avi_close_header_vids AVI hasIndex r ++ header_vids_strf AVI
      ++ [out_step.finish_strl]) ⟨0, 0, 0⟩ ∧
    steps_move (avi_close_header_vids AVI hasIndex r ++ header_vids_strf AVI
      ++ [out_step.finish_strl]) ⟨0, 0, 0⟩ = ⟨212, 20, 96⟩ := by
  unfold avi_close_header_vids header_vids_strf
  rw [hx]
  simp [steps_inside, steps_move, out_step.inside, out_step.move, out_step.size, HEADERBYTES, hc]

theorem close_auds_inside (AVI : avi_t) (j : Nat) (p : header_pos) (h0 : 0 ≤ p.nhb)
    (h1 : p.nhb + 114 ≤ HEADERBYTES) :
    steps_inside (avi_close_header_auds_strh AVI j ++ avi_close_header_auds_strf AVI j
      ++ [out_step.finish_strl]) p ∧
    ∃ k, 0 ≤ k ∧ k ≤ 114 ∧
      steps_move (avi_close_header_auds_strh AVI j ++ avi_close_header_auds_strf AVI j
        ++ [out_step.finish_strl]) p = ⟨p.nhb + k, p.hdrl_start, p.nhb + 8⟩ := by
  have hH : HEADERBYTES = 2048 := rfl
  rw [hH] at h1
  unfold avi_close_header_auds_strh avi_close_header_auds_strf avi_close_header_auds_strf_payload
  by_cases c1 : (AVI.track j).a_fmt = 0x55 ∧ (AVI.track j).a_vbr ≠ 0
  · rw [if_pos c1, if_pos c1]
    refine ⟨?_, 114, by omega, by omega, ?_⟩
    · simp only [List.cons_append, List.nil_append, steps_inside, out_step.inside, out_step.move,
        out_step.size, List.length_cons, List.length_nil, reduceCtorEq, if_false, if_true, hH]
      repeat' apply And.intro
      all_goals first | trivial | omega
    · simp only [List.cons_append, List.nil_append, steps_move, out_step.move,
        out_step.size, reduceCtorEq, if_false, if_true, header_pos.mk.injEq]
      repeat' apply And.intro
      all_goals first | trivial | omega
  · rw [if_neg c1, if_neg c1]
    by_cases c2 : (AVI.track j).a_fmt = 0x55 ∧ ¬ (AVI.track j).a_vbr ≠ 0
    · rw [if_pos c2]
      refine ⟨?_, 114, by omega, by omega, ?_⟩
      · simp only [List.cons_append, List.nil_append, steps_inside, out_step.inside,
          out_step.move, out_step.size, List.length_cons, List.length_nil, reduceCtorEq,
          if_false, if_true, hH]
        repeat' apply And.intro
        all_goals first | trivial | omega
      · simp only [List.cons_append, List.nil_append, steps_move, out_step.move,
          out_step.size, reduceCtorEq, if_false, if_true, header_pos.mk.injEq]
        repeat' apply And.intro
        all_goals first | trivial | omega
    · rw [if_neg c2]
      refine ⟨?_, 102, by omega, by omega, ?_⟩
      · simp only [List.cons_append, List.nil_append, steps_inside, out_step.inside,
          out_step.move, out_step.size, List.length_cons, List.length_nil, reduceCtorEq,
          if_false, if_true, hH]
        repeat' apply And.intro
        all_goals first | trivial | omega
      · simp only [List.cons_append, List.nil_append, steps_move, out_step.move,
          out_step.size, reduceCtorEq, if_false, if_true, header_pos.mk.injEq]
        repeat' apply And.intro
        all_goals first | trivial | omega

theorem close_auds_all_inside (AVI : avi_t) (hz : AVI.is_opendml = 0) :
    ∀ (js : List Nat) (p : header_pos), 0 ≤ p.nhb →
      p.nhb + 114 * (js.length : Int) ≤ HEADERBYTES →
      ∃ l, avi_close_header_auds_all AVI js = some l ∧ steps_inside l p ∧
        (steps_move l p).hdrl_start = p.hdrl_start ∧ p.nhb ≤ (steps_move l p).nhb ∧
        (steps_move l p).nhb ≤ p.nhb + 114 * (js.length : Int) := by
  intro js
  induction js with
  | nil =>
    intro p _ _
    refine ⟨[], rfl, trivial, rfl, le_refl _, ?_⟩
    simp [steps_move]
  | cons j rest ih =>
    intro p h0 h1
    rw [List.length_cons] at h1
    push_cast at h1
    obtain ⟨i1, k, k0, k1, m1⟩ := close_auds_inside AVI j p h0 (by omega)
    obtain ⟨l2, e2, i2, d2, n2, n3⟩ := ih ⟨p.nhb + k, p.hdrl_start, p.nhb + 8⟩
      (by simp only []; omega) (by simp only []; omega)
    have ea : avi_close_header_auds AVI j
        = some (avi_close_header_auds_strh AVI j ++ avi_close_header_auds_strf AVI j
          ++ [out_step.finish_strl]) := by
      unfold avi_close_header_auds
      rw [if_neg (by rw [hz]; decide)]
    refine ⟨(avi_close_header_auds_strh AVI j ++ avi_close_header_auds_strf AVI j
      ++ [out_step.finish_strl]) ++ l2, ?_, ?_, ?_, ?_, ?_⟩
    · rw [avi_close_header_auds_all, ea, e2]
    · rw [steps_inside_append, m1]
      exact ⟨i1, i2⟩
    · rw [steps_move_append, m1, d2]
    · rw [steps_move_append, m1]
      simp only [] at n2
      omega
    · rw [steps_move_append, m1, List.length_cons]
      push_cast
      simp only [] at n3
      omega

theorem header_info_no_comment (fd : Int) (info : List UInt8) (h : header_buf) (hfd : fd ≤ 0)
    (hl : h.AVI_header.length = HEADERBYTES.toNat) (h0 : 0 ≤ h.nhb)
    (h1 : h.nhb + 36 ≤ HEADERBYTES) :
    ∃ h2, header_info fd info h = some h2 ∧ h2.nhb = h.nhb + 36 ∧
      h2.AVI_header.length = HEADERBYTES.toNat := by
  have hH : HEADERBYTES = 2048 := rfl
  rw [hH] at h1
  obtain ⟨a, ea, pa, la⟩ := out_steps_of_inside [out_step.OUT4CC [76, 73, 83, 84]] h hl (by
    simp only [steps_inside, out_step.inside, header_buf.pos, List.length_cons, List.length_nil,
      hH]
    repeat' apply And.intro
    all_goals first | trivial | omega)
  have na : a.nhb = h.nhb + 4 := by
    have := congrArg header_pos.nhb pa
    simpa [header_buf.pos, steps_move, out_step.move, out_step.size] using this
  obtain ⟨b, eb, pb, lb⟩ := out_steps_of_inside
    [out_step.OUTLONG (MAX_INFO_STRLEN + 12), out_step.OUT4CC [73, 78, 70, 79],
      out_step.OUT4CC [73, 83, 70, 84], out_step.OUTLONG 16] a la (by
    simp only [steps_inside, out_step.inside, out_step.move, out_step.size, header_buf.pos,
      List.length_cons, List.length_nil, hH, na]
    repeat' apply And.intro
    all_goals first | trivial | omega)
  have nb : b.nhb = h.nhb + 20 := by
    have := congrArg header_pos.nhb pb
    simp only [header_buf.pos, steps_move, out_step.move, out_step.size, na] at this
    omega
  have e3 := header_store_some b.AVI_header b.nhb id_str (by omega) (by
    show b.nhb + 16 ≤ HEADERBYTES
    omega)
  have l3 := (header_store_write_at _ _ _ _ e3 lb).2.1
  have ec : avi_parse_comments fd info (to_int32 (HEADERBYTES - (b.nhb + 16) - 8 - 12))
      = some (-1, none) := by
    unfold avi_parse_comments
    rw [if_pos (Or.inl hfd)]
  have e4 := header_store_some
    (b.AVI_header.take b.nhb.toNat ++ id_str ++ b.AVI_header.drop (b.nhb.toNat + id_str.length))
    a.nhb (long2str ((if (-1 : Int) ≤ 0 then 0 else -1) + 16 + 4 + 4 + 4)) (by omega)
    (by rw [long2str_length]; omega)
  have l4 := (header_store_write_at _ _ _ _ e4 l3).2.1
  refine ⟨{ b with
    AVI_header := _
    nhb := b.nhb + 16 + (if (-1 : Int) ≤ 0 then 0 else -1) }, ?_, ?_, l4⟩
  · unfold header_info
    rw [ea]
    simp only []
    rw [eb]
    simp only []
    rw [e3]
    simp only []
    rw [ec]
    simp only []
    rw [e4]
    rfl
  · show b.nhb + 16 + (if (-1 : Int) ≤ 0 then 0 else -1) = h.nhb + 36
    rw [if_pos (by decide)]
    omega

theorem header_junk_movi_some (h : header_buf) (m : Int)
    (hl : h.AVI_header.length = HEADERBYTES.toNat) (h0 : 0 ≤ h.nhb)
    (hj : 0 < HEADERBYTES - h.nhb - 8 - 12) :
    0 < to_int32 (HEADERBYTES - h.nhb - 8 - 12) ∧
    ∃ hdr, header_junk_movi h m = some (run.done hdr) ∧ hdr.length = HEADERBYTES.toNat := by
  have hH : HEADERBYTES = 2048 := rfl
  have hc : to_int32 (HEADERBYTES - h.nhb - 8 - 12) = HEADERBYTES - h.nhb - 8 - 12 :=
    to_int32_of_range _ (by omega) (by omega)
  refine ⟨by rw [hc]; exact hj, ?_⟩
  obtain ⟨a, ea, pa, la⟩ := out_steps_of_inside
    [out_step.OUT4CC [74, 85, 78, 75], out_step.OUTLONG (HEADERBYTES - h.nhb - 8 - 12)] h hl (by
    simp only [steps_inside, out_step.inside, out_step.move, out_step.size, header_buf.pos,
      List.length_cons, List.length_nil, hH]
    repeat' apply And.intro
    all_goals first | trivial | omega)
  have na : a.nhb = h.nhb + 8 := by
    have := congrArg header_pos.nhb pa
    simp only [header_buf.pos, steps_move, out_step.move, out_step.size] at this
    omega
  have e2 := header_store_some a.AVI_header a.nhb
    (List.replicate (HEADERBYTES - h.nhb - 8 - 12).toNat 0) (by omega)
    (by rw [List.length_replicate]; omega)
  have l2 := (header_store_write_at _ _ _ _ e2 la).2.1
  obtain ⟨c, ec, pc, lc⟩ := out_steps_of_inside
    [out_step.OUT4CC [76, 73, 83, 84], out_step.OUTLONG m, out_step.OUT4CC [109, 111, 118, 105]]
    { a with
      AVI_header := a.AVI_header.take a.nhb.toNat
        ++ List.replicate (HEADERBYTES - h.nhb - 8 - 12).toNat 0
        ++ a.AVI_header.drop (a.nhb.toNat
          + (List.replicate (HEADERBYTES - h.nhb - 8 - 12).toNat (0 : UInt8)).length)
      nhb := a.nhb + (HEADERBYTES - h.nhb - 8 - 12) } l2 (by
    simp only [steps_inside, out_step.inside, out_step.move, out_step.size, header_buf.pos,
      List.length_cons, List.length_nil, hH, na]
    repeat' apply And.intro
    all_goals first | trivial | omega)
  refine ⟨c.AVI_header, ?_, lc⟩
  unfold header_junk_movi header_junk
  rw [hc, if_neg (by omega), ea]
  simp only []
  rw [e2]
  simp only []
  unfold header_movi
  rw [ec]
  rfl

theorem close_header_inside (AVI : avi_t) (hasIndex : Bool) (info : List UInt8)
    (ha : AVI.anum ≤ 8) (hx : AVI.extradata = none) (hfd : AVI.comment_fd ≤ 0)
    (hz : AVI.is_opendml = 0) (hc : 4 ≤ AVI.compressor.length) :
    ∃ l hb, avi_close_header_steps AVI hasIndex = some l ∧ steps_inside l ⟨0, 0, 0⟩ ∧
      avi_close_header_build AVI hasIndex info = some hb ∧ 0 ≤ hb.nhb ∧ hb.nhb ≤ 1160 ∧
      hb.AVI_header.length = HEADERBYTES.toNat := by
  have hH : HEADERBYTES = 2048 := rfl
  have hlen : ((List.range AVI.anum.toNat).length : Int) ≤ 8 := by
    rw [List.length_range]
    omega
  obtain ⟨iv, mv⟩ := close_vids_inside AVI hasIndex (AVI.pos - 8) hx hc
  obtain ⟨auds, ea, ia, da, na0, na1⟩ := close_auds_all_inside AVI hz (List.range AVI.anum.toNat)
    ⟨212, 20, 96⟩ (by decide) (by simp only [hH]; omega)
  simp only [] at da na0 na1
  have el : avi_close_header_steps AVI hasIndex
      = some ((avi_close_header_vids AVI hasIndex (AVI.pos - 8) ++ header_vids_strf AVI
          ++ [out_step.finish_strl]) ++ auds ++ [out_step.finish_hdrl]) := by
    unfold avi_close_header_steps avi_close_riff_len avi_close_header_vids_indx
      avi_close_header_odml
    rw [if_neg (by rw [hz]; decide), if_neg (by rw [hz]; decide), if_neg (by rw [hz]; decide), ea]
    simp only [List.append_nil, List.append_assoc]
  generalize avi_close_header_vids AVI hasIndex (AVI.pos - 8) ++ header_vids_strf AVI
    ++ [out_step.finish_strl] = V at iv mv el
  have mva : steps_move (V ++ auds) ⟨0, 0, 0⟩ = steps_move auds ⟨212, 20, 96⟩ := by
    rw [steps_move_append, mv]
  have il : steps_inside (V ++ auds ++ [out_step.finish_hdrl]) ⟨0, 0, 0⟩ := by
    rw [steps_inside_append, steps_inside_append, mva, mv]
    refine ⟨⟨iv, ia⟩, ?_, trivial⟩
    show 4 ≤ (steps_move auds ⟨212, 20, 96⟩).hdrl_start ∧
      (steps_move auds ⟨212, 20, 96⟩).hdrl_start ≤ HEADERBYTES
    rw [da, hH]
    decide
  obtain ⟨h, eh, ph, lh⟩ := out_steps_of_inside _
    { AVI_header := List.replicate HEADERBYTES.toNat 0, nhb := 0 } (List.length_replicate _ _) il
  have nh : h.nhb = (steps_move auds ⟨212, 20, 96⟩).nhb := by
    have := congrArg header_pos.nhb ph
    simp only [header_buf.pos] at this
    rw [this]
    show (steps_move (V ++ auds ++ [out_step.finish_hdrl]) ⟨0, 0, 0⟩).nhb = _
    rw [steps_move_append, mva]
    simp [steps_move, out_step.move, out_step.size]
  obtain ⟨hb, ehb, nhb, lhb⟩ := header_info_no_comment AVI.comment_fd info h hfd lh
    (by omega) (by rw [hH]; omega)
  refine ⟨_, hb, el, il, ?_, by omega, by omega, lhb⟩
  unfold avi_close_header_build
  rw [el]
  simp only []
  rw [eh]
  exact ehb

theorem update_vids_inside (AVI : avi_t) (hx : AVI.extradata = none)
    (hc : 4 ≤ AVI.compressor.length) :
    (steps_inside (avi_update_header_steps AVI) ⟨0, 0, 0⟩ ↔
      steps_inside (((List.range AVI.anum.toNat).map (avi_update_header_auds AVI)).flatten
        ++ [out_step.finish_hdrl]) ⟨212, 20, 96⟩) ∧
    steps_move (avi_update_header_steps AVI) ⟨0, 0, 0⟩
      = steps_move (((List.range AVI.anum.toNat).map (avi_update_header_auds AVI)).flatten
        ++ [out_step.finish_hdrl]) ⟨212, 20, 96⟩ := by
  unfold avi_update_header_steps header_vids_strf
  rw [hx]
  simp [steps_inside, steps_move, out_step.inside, out_step.move, out_step.size, HEADERBYTES, hc]

theorem update_auds_inside (AVI : avi_t) (j : Nat) (p : header_pos) (h0 : 0 ≤ p.nhb)
    (h1 : p.nhb + 100 ≤ HEADERBYTES) :
    steps_inside (avi_update_header_auds AVI j) p ∧
    steps_move (avi_update_header_auds AVI j) p = ⟨p.nhb + 100, p.hdrl_start, p.nhb + 8⟩ := by
  have hH : HEADERBYTES = 2048 := rfl
  rw [hH] at h1
  unfold avi_update_header_auds
  constructor
  · simp only [steps_inside, out_step.inside, out_step.move, out_step.size, List.length_cons,
      List.length_nil, reduceCtorEq, if_false, if_true, hH]
    repeat' apply And.intro
    all_goals first | trivial | omega
  · simp only [steps_move, out_step.move, out_step.size, reduceCtorEq, if_false, if_true,
      header_pos.mk.injEq]
    repeat' apply And.intro
    all_goals first | trivial | omega

theorem update_auds_all_inside (AVI : avi_t) :
    ∀ (js : List Nat) (p : header_pos), 0 ≤ p.nhb →
      p.nhb + 100 * (js.length : Int) ≤ HEADERBYTES →
      steps_inside ((js.map (avi_update_header_auds AVI)).flatten) p ∧
        (steps_move ((js.map (avi_update_header_auds AVI)).flatten) p).hdrl_start
          = p.hdrl_start ∧
        (steps_move ((js.map (avi_update_header_auds AVI)).flatten) p).nhb
          = p.nhb + 100 * (js.length : Int) := by
  intro js
  induction js with
  | nil =>
    intro p _ _
    refine ⟨trivial, rfl, ?_⟩
    simp [steps_move]
  | cons j rest ih =>
    intro p h0 h1
    rw [List.length_cons] at h1
    push_cast at h1
    obtain ⟨i1, m1⟩ := update_auds_inside AVI j p h0 (by omega)
    obtain ⟨i2, d2, n2⟩ := ih ⟨p.nhb + 100, p.hdrl_start, p.nhb + 8⟩
      (by simp only []; omega) (by simp only []; omega)
    simp only [List.map_cons, List.flatten_cons]
    refine ⟨?_, ?_, ?_⟩
    · rw [steps_inside_append, m1]
      exact ⟨i1, i2⟩
    · rw [steps_move_append, m1, d2]
    · rw [steps_move_append, m1, n2, List.length_cons]
      push_cast
      omega

theorem update_header_inside (AVI : avi_t) (ha : AVI.anum ≤ 8) (hx : AVI.extradata = none)
    (hc : 4 ≤ AVI.compressor.length) :
    steps_inside (avi_update_header_steps AVI) ⟨0, 0, 0⟩ ∧
    ∃ h, out_steps (avi_update_header_steps AVI)
        { AVI_header := List.replicate HEADERBYTES.toNat 0, nhb := 0 } = some h ∧
      0 ≤ h.nhb ∧ h.nhb ≤ 1012 ∧ h.AVI_header.length = HEADERBYTES.toNat := by
  have hH : HEADERBYTES = 2048 := rfl
  have hlen : ((List.range AVI.anum.toNat).length : Int) ≤ 8 := by
    rw [List.length_range]
    omega
  obtain ⟨iv, mv⟩ := update_vids_inside AVI hx hc
  obtain ⟨ia, da, na⟩ := update_auds_all_inside AVI (List.range AVI.anum.toNat)
    ⟨212, 20, 96⟩ (by decide) (by simp only [hH]; omega)
  simp only [] at da na
  have il : steps_inside (avi_update_header_steps AVI) ⟨0, 0, 0⟩ := by
    rw [iv, steps_inside_append]
    refine ⟨ia, ?_, trivial⟩
    show 4 ≤ (steps_move _ ⟨212, 20, 96⟩).hdrl_start ∧
      (steps_move _ ⟨212, 20, 96⟩).hdrl_start ≤ HEADERBYTES
    rw [da, hH]
    decide
  obtain ⟨h, eh, ph, lh⟩ := out_steps_of_inside _
    { AVI_header := List.replicate HEADERBYTES.toNat 0, nhb := 0 } (List.length_replicate _ _) il
  have nh : h.nhb = 212 + 100 * ((List.range AVI.anum.toNat).length : Int) := by
    have := congrArg header_pos.nhb ph
    simp only [header_buf.pos] at this
    rw [this]
    show (steps_move (avi_update_header_steps AVI) ⟨0, 0, 0⟩).nhb = _
    rw [mv, steps_move_append]
    show (steps_move [out_step.finish_hdrl] _).nhb = _
    simp only [steps_move, out_step.move, out_step.size]
    rw [na]
    omega
  exact ⟨il, h, eh, by omega, by omega, lh⟩

/-- C40: on a handle with at most 8 audio tracks, no extradata, no comment
descriptor and `is_opendml = 0` (the array `compressor`, of 8 characters in C,
holding at least four bytes), the header output of `avi_close_output_file` and
of `avi_update_header` stays inside `AVI_header[HEADERBYTES]`: every statement
of the output, executed at the offset reached, stores inside the array; the
offset `nhb` when `njunk` is computed is at most 1160 (1012 in
`avi_update_header`), so that `njunk = HEADERBYTES - nhb - 8 - 12` is positive
and the branch that ends the program is not taken; and the JUNK chunk and the
start of the movi list are stored inside the array as well, the header that is
written out having `HEADERBYTES` bytes. -/
theorem header_stays_inside_buffer (AVI : avi_t) (hasIndex : Bool) (info : List UInt8)
    (ha : AVI.anum ≤ 8) (hx : AVI.extradata = none) (hfd : AVI.comment_fd ≤ 0)
    (hz : AVI.is_opendml = 0) (hc : 4 ≤ AVI.compressor.length) :
    (∃ l hb, avi_close_header_steps AVI hasIndex = some l ∧ steps_inside l ⟨0, 0, 0⟩ ∧
      avi_close_header_build AVI hasIndex info = some hb ∧ hb.nhb ≤ 1160 ∧
      0 < to_int32 (HEADERBYTES - hb.nhb - 8 - 12) ∧
      ∀ m, ∃ hdr, header_junk_movi hb m = some (run.done hdr) ∧
        hdr.length = HEADERBYTES.toNat) ∧
    (steps_inside (avi_update_header_steps AVI) ⟨0, 0, 0⟩ ∧
      ∃ h, out_steps (avi_update_header_steps AVI)
          { AVI_header := List.replicate HEADERBYTES.toNat 0, nhb := 0 } = some h ∧
        h.nhb ≤ 1012 ∧ 0 < to_int32 (HEADERBYTES - h.nhb - 8 - 12) ∧
        ∃ hdr, avi_update_header_build AVI = some (run.done hdr) ∧
          hdr.length = HEADERBYTES.toNat) := by
  have hH : HEADERBYTES = 2048 := rfl
  constructor
  · obtain ⟨l, hb, el, il, eb, n0, n1, lb⟩ :=
      close_header_inside AVI hasIndex info ha hx hfd hz hc
    refine ⟨l, hb, el, il, eb, n1,
      (header_junk_movi_some hb 0 lb n0 (by rw [hH]; omega)).1, fun m => ?_⟩
    exact (header_junk_movi_some hb m lb n0 (by rw [hH]; omega)).2
  · obtain ⟨il, h, eh, n0, n1, lh⟩ := update_header_inside AVI ha hx hc
    obtain ⟨j, hdr, ej, lj⟩ := header_junk_movi_some h
      (to_int32 (AVI_MAX_LEN - HEADERBYTES + 4)) lh n0 (by rw [hH]; omega)
    refine ⟨il, h, eh, n1, j, hdr, ?_, lj⟩
    unfold avi_update_header_build
    rw [eh]
    exact ej

theorem header_stays_inside_buffer_witness :
    ∃ hb, avi_close_header_build demo_eight_tracks true [] = some hb ∧ hb.nhb ≤ 1160 ∧
      0 < to_int32 (HEADERBYTES - hb.nhb - 8 - 12) :=
  match (header_stays_inside_buffer demo_eight_tracks true [] (by decide!) (by decide!)
      (by decide!) (by decide!) (by decide!)).1 with
  | ⟨_, hb, _, _, e, n, j, _⟩ => ⟨hb, e, n, j⟩

/-! ### The sidecar index -/

theorem take_succ_set {α : Type} (L : List α) (i : Nat) (x : α) (h : i < L.length) :
    (L.set i x).take (i + 1) = L.take i ++ [x] := by
  rw [List.set_eq_take_append_cons_drop, if_pos h]
  rw [List.take_append_eq_append_take]
  simp [List.length_take, Nat.min_eq_left (Nat.le_of_lt h)]

theorem drop_succ_set {α : Type} (L : List α) (i k : Nat) (x : α) :
    (L.set i x).drop (i + 1 + k) = L.drop (i + 1 + k) :=
  List.drop_set_of_lt x _ (by omega)

/-- The second pass of the sidecar reader on lines of type 1 and 2: the video
lines fill the video index from `vid_chunks` on and the audio lines the index
of track 0 from `aud_chunks[0]` on, in the order of the lines. -/
theorem sidecar_fill_loop_entries (anum : Nat) (allocated : Nat → Bool) (hanum : 0 < anum) :
    ∀ (lines : List index_line) (st : sidecar_fill),
      (∀ l ∈ lines, l.type = 1 ∨ l.type = 2) →
      (∀ l ∈ lines, l.type = 2 → allocated 0 = true) →
      st.vid_chunks + lines.countP (fun l => decide (l.type = 1)) ≤ st.video_index.length →
      (st.aud 0).nai + lines.countP (fun l => decide (l.type = 2))
        ≤ (st.aud 0).audio_index.length →
      ∃ st2, sidecar_fill_loop anum allocated lines st = some st2 ∧
        st2.video_index = st.video_index.take st.vid_chunks ++ sidecar_video_entries lines
          ++ st.video_index.drop (st.vid_chunks + lines.countP (fun l => decide (l.type = 1))) ∧
        (st2.aud 0).audio_index = (st.aud 0).audio_index.take (st.aud 0).nai
          ++ sidecar_audio_entries (st.aud 0).tot lines
          ++ (st.aud 0).audio_index.drop
            ((st.aud 0).nai + lines.countP (fun l => decide (l.type = 2))) ∧
        (st2.aud 0).tot = (st.aud 0).tot
          + ((lines.filter (fun l => decide (l.type = 2))).map (fun l => l.len)).sum := by
  intro lines
  induction lines with
  | nil =>
    intro st _ _ _ _
    refine ⟨st, rfl, ?_, ?_, ?_⟩
    · simp [sidecar_video_entries]
    · simp [sidecar_audio_entries]
    · simp
  | cons l rest ih =>
    intro st hty hal hv ha
    have hty2 : ∀ l2 ∈ rest, l2.type = 1 ∨ l2.type = 2 :=
      fun l2 h2 => hty l2 (List.mem_cons_of_mem _ h2)
    have hal2 : ∀ l2 ∈ rest, l2.type = 2 → allocated 0 = true :=
      fun l2 h2 => hal l2 (List.mem_cons_of_mem _ h2)
    rw [List.countP_cons] at hv ha
    simp only [decide_eq_true_eq] at hv ha
    rw [sidecar_fill_loop]
    rcases hty l (List.mem_cons_self _ _) with h1 | h2
    · have hn2 : ¬ l.type = 2 := by omega
      rw [if_pos h1] at hv
      rw [if_neg hn2] at ha
      rw [if_pos (by omega)]
      unfold store_at
      rw [if_pos (by omega)]
      simp only []
      obtain ⟨st2, e2, v2, a2, t2⟩ := ih
        { st with
          vid_chunks := st.vid_chunks + 1
          video_index := st.video_index.set st.vid_chunks
            { key := if l.key ≠ 0 then 0x10 else 0, pos := l.pos + 8, len := l.len } }
        hty2 hal2 (by simp only [List.length_set]; omega) ha
      refine ⟨st2, e2, ?_, ?_, ?_⟩
      · rw [v2]
        simp only []
        rw [take_succ_set _ _ _ (by omega), drop_succ_set, List.countP_cons]
        simp only [decide_eq_true_eq, if_pos h1, sidecar_video_entries, List.filter_cons,
          decide_True, if_true, List.map_cons, List.append_assoc, List.singleton_append,
          h1]
        have e : st.vid_chunks + (List.countP (fun l => decide (l.type = 1)) rest + 1)
            = st.vid_chunks + 1 + List.countP (fun l => decide (l.type = 1)) rest := by omega
        rw [e]
      · rw [a2]
        simp only [sidecar_audio_entries, if_neg hn2, List.countP_cons, decide_eq_true_eq,
          if_false, hn2, decide_False, Bool.false_eq_true, Nat.add_zero]
      · rw [t2]
        simp only [List.filter_cons, hn2, decide_False, Bool.false_eq_true, if_false]
    · have hn1 : ¬ l.type = 1 := by omega
      rw [if_neg hn1] at hv
      rw [if_pos h2] at ha
      rw [if_neg (by omega), if_pos (by omega)]
      have hj : (l.type - 1 - 1).toNat = 0 := by omega
      rw [hj, if_pos ⟨hanum, hal l (List.mem_cons_self _ _) h2⟩]
      unfold audio_build.add store_at
      rw [if_pos (by omega)]
      simp only []
      obtain ⟨st2, e2, v2, a2, t2⟩ := ih
        { st with
          aud := Function.update st.aud 0
            { audio_index := (st.aud 0).audio_index.set (st.aud 0).nai
                { pos := l.pos + 8, len := l.len, tot := (st.aud 0).tot }
              nai := (st.aud 0).nai + 1
              tot := (st.aud 0).tot + l.len } }
        hty2 hal2 hv (by simp only [Function.update_same, List.length_set]; omega)
      refine ⟨st2, e2, ?_, ?_, ?_⟩
      · rw [v2]
        simp only [sidecar_video_entries, List.filter_cons, hn1, decide_False,
          Bool.false_eq_true, if_false, List.countP_cons, decide_eq_true_eq, Nat.add_zero]
      · rw [a2]
        simp only [Function.update_same]
        rw [take_succ_set _ _ _ (by omega), drop_succ_set, List.countP_cons]
        simp only [decide_eq_true_eq, if_pos h2, sidecar_audio_entries, if_true,
          List.append_assoc, List.singleton_append, h2]
        have e : (st.aud 0).nai + (List.countP (fun l => decide (l.type = 2)) rest + 1)
            = (st.aud 0).nai + 1 + List.countP (fun l => decide (l.type = 2)) rest := by omega
        rw [e]
      · rw [t2]
        simp only [Function.update_same, List.filter_cons, h2, decide_True, if_true,
          List.map_cons, List.sum_cons]
        omega

/-- C36: on a handle with at least one audio track, for the lines of a sidecar
index that follow the header line `AVIIDX1` and the comment line, each of type
1 (a video chunk, `data[5]` being `1`) or of type 2 (a chunk of the first audio
track, `data[5]` being `2`), with at least one of type 1,
`avi_parse_index_from_file` returns 0 and leaves: `video_frames` the number of
lines of type 1, `audio_chunks` of track 0 the number of lines of type 2, the
video index with one entry for each line of type 1, in order, at the position of
the line plus 8, and the audio index of track 0 with one entry for each line of
type 2, in order, at the position of the line plus 8 and with `tot` the sum of
the lengths of the lines of type 2 before it; `audio_bytes` is the sum of all
of them. -/
theorem sidecar_index_built (AVI : avi_t) (lines : List index_line) (hanum : 1 ≤ AVI.anum)
    (hfmt : ∀ l ∈ lines, (l.type = 1 ∧ l.data5 = 49) ∨ (l.type = 2 ∧ l.data5 = 50))
    (hv : 1 ≤ lines.countP (fun l => decide (l.type = 1))) :
    ∃ A, avi_parse_index_from_file AVI lines = some (Except.ok A) ∧
      A.video_frames = (lines.countP (fun l => decide (l.type = 1)) : Int) ∧
      (A.track 0).audio_chunks = (lines.countP (fun l => decide (l.type = 2)) : Int) ∧
      A.video_index = some (sidecar_video_entries lines) ∧
      (lines.countP (fun l => decide (l.type = 2)) ≠ 0 →
        (A.track 0).audio_index = some (sidecar_audio_entries 0 lines)) ∧
      (A.track 0).audio_bytes
        = ((lines.filter (fun l => decide (l.type = 2))).map (fun l => l.len)).sum := by
  have hcv : (sidecar_count lines (0, fun _ => 0)).1
      = lines.countP (fun l => decide (l.type = 1)) := by
    rw [sidecar_count_fst]
    simp only [zero_add]
    refine List.countP_congr (fun l hl => ?_)
    rcases hfmt l hl with ⟨a, b⟩ | ⟨a, b⟩ <;> rw [a, b] <;> decide
  have hca : (sidecar_count lines (0, fun _ => 0)).2 0
      = lines.countP (fun l => decide (l.type = 2)) := by
    rw [sidecar_count_snd]
    simp only [zero_add]
    refine List.countP_congr (fun l hl => ?_)
    rcases hfmt l hl with ⟨a, b⟩ | ⟨a, b⟩ <;> rw [a, b] <;> decide
  have h0 : 0 < AVI.anum.toNat := by omega
  obtain ⟨st, est, vst, ast, tst⟩ := sidecar_fill_loop_entries AVI.anum.toNat
    (fun j => decide ((sidecar_count lines (0, fun _ => 0)).2 j ≠ 0)) h0 lines
    { vid_chunks := 0
      video_index := List.replicate (sidecar_count lines (0, fun _ => 0)).1
        ({} : video_index_entry)
      aud := fun j =>
        { audio_index := List.replicate ((sidecar_count lines (0, fun _ => 0)).2 j)
            ({} : audio_index_entry)
          nai := 0, tot := 0 } }
    (fun l hl => by rcases hfmt l hl with ⟨a, _⟩ | ⟨a, _⟩ <;> omega)
    (fun l hl h2 => by
      simp only [decide_eq_true_eq]
      rw [hca]
      have : 0 < lines.countP (fun l2 => decide (l2.type = 2)) :=
        List.countP_pos_iff.mpr ⟨l, hl, decide_eq_true h2⟩
      omega)
    (by
      show 0 + _ ≤ (List.replicate _ _).length
      rw [List.length_replicate, hcv]
      omega)
    (by
      show 0 + _ ≤ (List.replicate _ _).length
      rw [List.length_replicate, hca]
      omega)
  simp only [List.take_zero, List.nil_append, zero_add] at vst ast tst
  rw [hcv, List.drop_of_length_le (by rw [List.length_replicate]), List.append_nil] at vst
  rw [hca, List.drop_of_length_le (by rw [List.length_replicate]), List.append_nil] at ast
  unfold avi_parse_index_from_file
  rw [if_neg (by rw [hcv]; omega), est]
  refine ⟨_, rfl, ?_, ?_, ?_, ?_, ?_⟩
  · show ((sidecar_count lines (0, fun _ => 0)).1 : Int) = _
    rw [hcv]
  · simp only [if_pos h0]
    rw [hca]
  · show some st.video_index = _
    rw [vst]
  · intro hne
    simp only [if_pos h0]
    rw [if_pos (by rw [hca]; exact hne), ast]
  · simp only [if_pos h0]
    exact tst

theorem sidecar_index_built_witness :
    ∃ A, avi_parse_index_from_file demo_parse_avi demo_lines = some (Except.ok A) ∧
      A.video_frames = 1 ∧ (A.track 0).audio_chunks = 2 ∧
      A.video_index = some [{ key := 0x10, pos := 2056, len := 10 }] ∧
      (A.track 0).audio_index
        = some [{ pos := 2074, len := 3, tot := 0 }, { pos := 2086, len := 2, tot := 3 }] :=
  match sidecar_index_built demo_parse_avi demo_lines (by decide) (by decide) (by decide) with
  | ⟨A, e, v, a, vi, ai, _⟩ => ⟨A, e, v, a, vi, ai (by decide)⟩

/-! ### Opening a file for reading -/

theorem plat_read_facts (f : plat_file) (count : Int) :
    0 ≤ (plat_read f count).1 ∧ (plat_read f count).2.2.data = f.data ∧
    ((plat_read f count).2.2.offset : Int) = (f.offset : Int) + (plat_read f count).1 ∧
    ((plat_read f count).2.1.length : Int) = (plat_read f count).1 ∧
    (f.offset : Int) + (plat_read f count).1 ≤ max (f.offset : Int) (f.data.length : Int) := by
  unfold plat_read
  refine ⟨Int.ofNat_nonneg _, rfl, by simp only []; push_cast; rfl, rfl, ?_⟩
  simp only [List.length_take, List.length_drop]
  omega

theorem plat_seek_cur_facts (f : plat_file) (x : Int) (h : 0 ≤ (f.offset : Int) + x) :
    (plat_seek_cur f x).1 = (f.offset : Int) + x ∧ (plat_seek_cur f x).2.data = f.data ∧
    ((plat_seek_cur f x).2.offset : Int) = (f.offset : Int) + x := by
  unfold plat_seek_cur
  rw [if_neg (by omega)]
  exact ⟨rfl, rfl, by simp only []; omega⟩

theorem str2ulong_some_of_length (str : List UInt8) (h : 4 ≤ str.length) :
    ∃ v, str2ulong str = some v := by
  match str, h with
  | b0 :: b1 :: b2 :: b3 :: rest, _ => exact ⟨_, rfl⟩

/-- The scan of the top-level chunks returns: a round that goes on has moved
the descriptor at least 8 bytes forward inside the file, so that a number of
rounds above an eighth of what is left of the file is enough. -/
theorem avi_parse_scan_returns :
    ∀ (fuel : Nat) (st : top_scan),
      (st.fdes.data.length : Int) - (st.fdes.offset : Int) < 8 * (fuel : Int) → 0 < fuel →
      ∃ e, avi_parse_scan fuel st = some e := by
  intro fuel
  induction fuel with
  | zero =>
    intro st _ h0
    exact absurd h0 (by decide)
  | succ fuel ih =>
    intro st hf _
    rw [avi_parse_scan]
    obtain ⟨r0, rd, ro, rl, rm⟩ := plat_read_facts st.fdes 8
    by_cases h8 : (plat_read st.fdes 8).1 ≠ 8
    · rw [if_pos h8]
      exact ⟨_, rfl⟩
    · rw [if_neg h8]
      have e8 : (plat_read st.fdes 8).1 = 8 := not_not.mp h8
      rw [e8] at ro rl rm
      have hin : (st.fdes.offset : Int) + 8 ≤ (st.fdes.data.length : Int) := by omega
      have hfuel : 0 < fuel := by omega
      split
      · exact ⟨_, rfl⟩
      · obtain ⟨n0, hn0⟩ := str2ulong_some_of_length ((plat_read st.fdes 8).2.1.drop 4)
          (by rw [List.length_drop]; omega)
        rw [hn0]
        simp only []
        have hpe := PAD_EVEN_eq (n0 : Int)
        have hn0nn : (0 : Int) ≤ (n0 : Int) := Int.ofNat_nonneg _
        have key : ∀ (st2 : top_scan), st2.fdes.data = st.fdes.data →
            (st.fdes.offset : Int) + 8 ≤ (st2.fdes.offset : Int) →
            ∃ e, avi_parse_scan fuel st2 = some e := by
          intro st2 hd ho
          refine ih st2 ?_ hfuel
          rw [hd]
          push_cast at hf
          omega
        split
        · obtain ⟨q0, qd, qo, ql, qm⟩ := plat_read_facts (plat_read st.fdes 8).2.2 4
          split
          · exact ⟨_, rfl⟩
          · rename_i h4
            have e4 : (plat_read (plat_read st.fdes 8).2.2 4).1 = 4 := not_not.mp h4
            rw [e4] at qo
            split
            · split
              · exact ⟨_, rfl⟩
              · split
                · exact ⟨_, rfl⟩
                · obtain ⟨p0, pd, po, _, _⟩ := plat_read_facts
                    (plat_read (plat_read st.fdes 8).2.2 4).2.2 (PAD_EVEN (n0 : Int) - 4)
                  exact key _ (by simp only []; rw [pd, qd, rd]) (by simp only []; omega)
            · obtain ⟨s1, s2, s3⟩ := plat_seek_cur_facts
                (plat_read (plat_read st.fdes 8).2.2 4).2.2 (PAD_EVEN (n0 : Int) - 4) (by omega)
              split
              · split
                · exact ⟨_, rfl⟩
                · exact key _ (by simp only []; rw [s2, qd, rd]) (by simp only []; omega)
              · split
                · exact ⟨_, rfl⟩
                · exact key _ (by simp only []; rw [s2, qd, rd]) (by simp only []; omega)
        · split
          · obtain ⟨p0, pd, po, _, _⟩ := plat_read_facts (plat_read st.fdes 8).2.2
              (PAD_EVEN (n0 : Int))
            split
            · exact key _ (by simp only []; rw [pd, rd]) (by simp only []; omega)
            · exact key _ (by simp only []; rw [pd, rd]) (by simp only []; omega)
          · obtain ⟨s1, s2, s3⟩ := plat_seek_cur_facts (plat_read st.fdes 8).2.2
              (PAD_EVEN (n0 : Int)) (by omega)
            exact key _ (by simp only []; rw [s2, rd]) (by simp only []; omega)

theorem plat_read_12 (fd : plat_file) :
    (plat_read fd 12).2.1 = (fd.data.drop fd.offset).take 12 ∧
    ((plat_read fd 12).1 = 12 ↔ 12 ≤ (fd.data.drop fd.offset).length) := by
  unfold plat_read
  refine ⟨rfl, ?_⟩
  simp only [List.length_take]
  have : (if (0 : Int) ≤ 12 then (12 : Int).toNat else ((12 : Int) + 2 ^ 64).toNat) = 12 := rfl
  rw [this]
  omega

/-- C31: `AVI_open_indexfd` returns `NULL` with `AVI_errno` set to
`AVI_ERR_READ` when fewer than 12 bytes can be read from the descriptor; to
`AVI_ERR_NO_AVI` when 12 bytes are read and, compared without regard to case,
the first four are not `RIFF` or the last four are not `AVI `; to
`AVI_ERR_NO_HDRL` when the scan of the top-level chunks has ended at the end of
the file without having read a list `hdrl`; and to `AVI_ERR_NO_MOVI` when it has
read a list `hdrl` and has met no list `movi` (`movi_start` is still 0).  The
scan itself always ends. -/
theorem open_for_reading_failures (fd : plat_file) (getIndex : Int) (sidecar : index_file) :
    ((fd.data.drop fd.offset).length < 12 →
      AVI_open_indexfd fd getIndex sidecar = some (none, AVI_ERR_READ)) ∧
    (12 ≤ (fd.data.drop fd.offset).length →
      ¬ (strncasecmp_eq ((fd.data.drop fd.offset).take 12) [82, 73, 70, 70] 4
        ∧ strncasecmp_eq (((fd.data.drop fd.offset).take 12).drop 8) [65, 86, 73, 32] 4) →
      AVI_open_indexfd fd getIndex sidecar = some (none, AVI_ERR_NO_AVI)) ∧
    (12 ≤ (fd.data.drop fd.offset).length →
      strncasecmp_eq ((fd.data.drop fd.offset).take 12) [82, 73, 70, 70] 4 →
      strncasecmp_eq (((fd.data.drop fd.offset).take 12).drop 8) [65, 86, 73, 32] 4 →
      (∃ e, avi_parse_scan (fd.data.length + 1) { fdes := (plat_read fd 12).2.2 } = some e) ∧
      ∀ st, avi_parse_scan (fd.data.length + 1) { fdes := (plat_read fd 12).2.2 }
          = some (top_exit.done st) →
        (st.hdrl_data = none →
          AVI_open_indexfd fd getIndex sidecar = some (none, AVI_ERR_NO_HDRL)) ∧
        (st.hdrl_data ≠ none → st.movi_start = 0 →
          AVI_open_indexfd fd getIndex sidecar = some (none, AVI_ERR_NO_MOVI))) := by
  obtain ⟨hdata, hlen⟩ := plat_read_12 fd
  refine ⟨?_, ?_, ?_⟩
  · intro h
    unfold AVI_open_indexfd avi_parse_input_file
    simp only []
    rw [if_pos (fun h12 => by have := hlen.mp h12; omega)]
    rfl
  · intro h hn
    unfold AVI_open_indexfd avi_parse_input_file
    simp only []
    rw [if_neg (not_not.mpr (hlen.mpr h)), hdata, if_pos hn]
    rfl
  · intro h h1 h2
    refine ⟨?_, ?_⟩
    · refine avi_parse_scan_returns _ _ ?_ (Nat.succ_pos _)
      obtain ⟨_, rd, ro, _, _⟩ := plat_read_facts fd 12
      simp only []
      rw [rd]
      push_cast
      omega
    · intro st hst
      refine ⟨?_, ?_⟩
      · intro hh
        unfold AVI_open_indexfd avi_parse_input_file
        simp only []
        rw [if_neg (not_not.mpr (hlen.mpr h)), hdata, if_neg (not_not.mpr ⟨h1, h2⟩), hst]
        simp only []
        rw [hh]
        rfl
      · intro hh hm
        unfold AVI_open_indexfd avi_parse_input_file
        simp only []
        rw [if_neg (not_not.mpr (hlen.mpr h)), hdata, if_neg (not_not.mpr ⟨h1, h2⟩), hst]
        simp only []
        cases hd : st.hdrl_data with
        | none => exact absurd hd hh
        | some d =>
          simp only []
          rw [if_pos hm]
          rfl

theorem top_scan_done_eq (x : Option top_exit) (h : top_scan_is_done x = true) :
    x = some (top_exit.done (top_scan_done x)) := by
  cases x with
  | none => cases h
  | some e =>
    cases e with
    | done st => rfl
    | broken st => cases h
    | err_exit c => cases h

theorem open_for_reading_failures_witness :
    AVI_open_indexfd demo_short_file 1 index_file.NULL = some (none, AVI_ERR_READ) ∧
    AVI_open_indexfd demo_rifx_file 1 index_file.NULL = some (none, AVI_ERR_NO_AVI) ∧
    AVI_open_indexfd demo_no_hdrl_file 1 index_file.NULL = some (none, AVI_ERR_NO_HDRL) ∧
    AVI_open_indexfd demo_no_movi_file 1 index_file.NULL = some (none, AVI_ERR_NO_MOVI) :=
  ⟨(open_for_reading_failures demo_short_file 1 index_file.NULL).1 (by decide!),
    (open_for_reading_failures demo_rifx_file 1 index_file.NULL).2.1 (by decide!) (by decide!),
    ((((open_for_reading_failures demo_no_hdrl_file 1 index_file.NULL).2.2 (by decide!)
      (by decide!) (by decide!)).2 _ (top_scan_done_eq _ (by decide!))).1 (by decide!)),
    ((((open_for_reading_failures demo_no_movi_file 1 index_file.NULL).2.2 (by decide!)
      (by decide!) (by decide!)).2 _ (top_scan_done_eq _ (by decide!))).2 (by decide!)
      (by decide!))⟩

/-- C32, the code at a failing input: on a valid file whose `hdrl` list has its
size field set to zero, the scan of the top-level chunks computes
`n = PAD_EVEN(0) - 4 = -4` for the list, asks `plat_malloc` for `n` bytes and
leaves by `ERR_EXIT(AVI_ERR_NO_MEM)`: `AVI_open_fd` returns `NULL` with
`AVI_errno` 8 (out of memory), not 10 (no header list), with or without index
building.  The same file with the size field intact is opened. -/
theorem hdrl_size_zero_is_out_of_memory :
    str2ulong (demo_hdrl_zero_file.drop 16) = some 0 ∧
    (demo_hdrl_zero_file.drop 12).take 4 = [76, 73, 83, 84] ∧
    (demo_hdrl_zero_file.drop 20).take 4 = [104, 100, 114, 108] ∧
    demo_hdrl_zero_file.take 16 = demo_avi_file.take 16 ∧
    demo_hdrl_zero_file.drop 20 = demo_avi_file.drop 20 ∧
    (AVI_open_fd { data := demo_avi_file } 1).map (fun r => (r.1.isSome, r.2)) = some (true, 0) ∧
    (AVI_open_fd { data := demo_hdrl_zero_file } 1).map (fun r => (r.1.isSome, r.2))
      = some (false, AVI_ERR_NO_MEM) ∧
    (AVI_open_fd { data := demo_hdrl_zero_file } 0).map (fun r => (r.1.isSome, r.2))
      = some (false, AVI_ERR_NO_MEM) := by
  refine ⟨?_, ?_, ?_, ?_, ?_, ?_, ?_, ?_⟩ <;> decide!

/-! ### The stream headers -/

theorem walk_next_eq (x : Option walk_exit) (h : walk_is_next x = true) :
    x = some (walk_exit.next (walk_next x)) := by
  cases x with
  | none => cases h
  | some e =>
    cases e with
    | next w => rfl
    | ret r w => cases h

theorem avi_parse_input_file_header_stage (AVI : avi_t) (getIndex : Int) (sidecar : index_file)
    (st : top_scan) (hdrl_data : List UInt8) (w : hdrl_walk)
    (h12 : (plat_read AVI.fdes 12).1 = 12)
    (hriff : strncasecmp_eq (plat_read AVI.fdes 12).2.1 [82, 73, 70, 70] 4
      ∧ strncasecmp_eq ((plat_read AVI.fdes 12).2.1.drop 8) [65, 86, 73, 32] 4)
    (hs : avi_parse_scan (AVI.fdes.data.length + 1) { fdes := (plat_read AVI.fdes 12).2.2 }
      = some (top_exit.done st))
    (hh : st.hdrl_data = some hdrl_data) (hm : st.movi_start ≠ 0)
    (hw : avi_parse_header (st.hdrl_len.toNat + 1) hdrl_data st.hdrl_len
        { AVI := { AVI with
            fdes := st.fdes, movi_start := st.movi_start, idx := st.idx
            n_idx := st.n_idx, max_idx := st.max_idx } } = some (walk_exit.next w)) :
    avi_parse_input_file AVI getIndex sidecar = avi_parse_tags_index w getIndex sidecar := by
  unfold avi_parse_input_file
  rw [if_neg (not_not.mpr h12), if_neg (not_not.mpr hriff), hs]
  simp only []
  rw [hh]
  simp only []
  rw [if_neg hm, hw]

theorem avi_parse_tags_index_build (w : hdrl_walk) (getIndex : Int) (A : avi_t)
    (hv : w.vids_strh_seen = true) (hf : w.vids_strf_seen = true) (hg : getIndex ≠ 0)
    (ht : avi_parse_audio_tags w.video_strn (List.range (w.AVI.anum + 1).toNat) 0
        ({ w.AVI with video_tag := stream_tag w.video_strn 100 98 }.set_track 0
          { w.AVI.track 0 with
            audio_strn := if (w.AVI.track 0).a_chans = 0 then 99 else (w.AVI.track 0).audio_strn })
      = some A) :
    avi_parse_tags_index w getIndex index_file.NULL
      = avi_parse_index { A with fdes := (plat_seek_set A.fdes A.movi_start).2 } := by
  unfold avi_parse_tags_index
  rw [if_neg (by rw [hv, hf]; simp), ht]
  simp only []
  rw [if_neg (by simp), if_neg hg]

theorem avi_parse_index_raw_scan (AVI A2 : avi_t) (hidx : AVI.idx = none)
    (ho : AVI.is_opendml = 0) (htf : AVI.total_frames ≠ 0) (ha : AVI.anum ≤ 0)
    (hs : avi_parse_input_file_multiple_riff_no_audio AVI = some (Except.ok A2)) :
    avi_parse_index AVI = some (avi_parse_finish A2) := by
  unfold avi_parse_index
  rw [hidx]
  simp only []
  rw [if_neg (by simp [htf])]
  unfold avi_parse_build_index
  simp only []
  rw [if_neg (not_not.mpr ho), if_pos ⟨htf, trivial⟩, if_pos ha]
  have e : ({ AVI with fdes := AVI.fdes, idx := none } : avi_t) = AVI := by
    rw [← hidx]
  rw [e, hs]

theorem demo_dmlh_raw_scan (H : avi_t) (htf : H.total_frames = 1)
    (hfd : (plat_seek_set H.fdes H.movi_start).2 = { data := demo_dmlh_file, offset := 248 })
    (hai : (H.track 0).audio_index = none) :
    ∃ A2, avi_parse_input_file_multiple_riff_no_audio H = some (Except.ok A2) ∧
      A2.anum = H.anum ∧ A2.mode = H.mode ∧ A2.aptr = H.aptr ∧
      (A2.track 0).audio_index = some [{}, {}, {}] ∧ (A2.track 0).audio_chunks = 1 ∧
      A2.video_index = some [{ key := 0, pos := 256, len := 3 }] ∧ A2.video_frames = 1 := by
  have hl : multiple_riff_loop 1
      { fdes := { data := demo_dmlh_file, offset := 248 }
        nvi := 0
        video_index := [{}]
        aud_chunks := 1
        a0 := { audio_index := [], nai := 1, tot := 0 } } = some
      { fdes := { data := demo_dmlh_file, offset := 260 }
        nvi := 1
        video_index := [{ key := 0, pos := 256, len := 3 }]
        aud_chunks := 2
        a0 := { audio_index := [{}, {}, {}], nai := 1, tot := 0 } } := by
    have hread : plat_read { data := demo_dmlh_file, offset := 248 } 8
        = (8, [48, 48, 100, 98, 3, 0, 0, 0], { data := demo_dmlh_file, offset := 256 }) := by
      decide!
    rw [multiple_riff_loop]
    simp only [hread]
    simp [plat_seek_cur, str2ulong, scan_is_video, scan_is_audio,
      store_at, PAD_EVEN, scan_grow, audio_build.add, realloc_entries]
    rw [multiple_riff_loop]
    simp
  unfold avi_parse_input_file_multiple_riff_no_audio
  rw [hfd, htf, hai]
  rw [if_neg (by decide)]
  have e : multiple_riff_loop 1
      { fdes := { data := demo_dmlh_file, offset := 248 }
        nvi := 0
        video_index := List.replicate (1 : Int).toNat ({} : video_index_entry)
        aud_chunks := 1
        a0 := { audio_index := (none : Option (List audio_index_entry)).getD []
                nai := (1 : Int).toNat, tot := 0 } } = some
      { fdes := { data := demo_dmlh_file, offset := 260 }
        nvi := 1
        video_index := [{ key := 0, pos := 256, len := 3 }]
        aud_chunks := 2
        a0 := { audio_index := [{}, {}, {}], nai := 1, tot := 0 } } := hl
  rw [e]
  simp only []
  rw [if_neg (by decide)]
  refine ⟨_, rfl, rfl, rfl, rfl, ?_, rfl, rfl, ?_⟩
  · simp
  · rfl

theorem read_audio_loop_errno (ai : List audio_index_entry) (chunks errno : Int)
    (fdes : plat_file) (c p bytes nr : Int) (buf : List UInt8) :
    ∀ x, AVI_read_audio_loop ai chunks errno fdes c p bytes nr buf = some x →
      x.AVI_errno = errno ∨ x.AVI_errno = AVI_ERR_READ := by
  induction fdes, c, p, bytes, nr, buf using AVI_read_audio_loop.induct ai chunks errno with
  | case1 fdes c p bytes nr buf hb hn =>
    intro x h
    rw [AVI_read_audio_loop, dif_pos hb, hn] at h
    cases h
  | case2 fdes c p bytes nr buf hb e he hl hc =>
    intro x h
    rw [AVI_read_audio_loop, dif_pos hb, he] at h
    simp only [] at h
    rw [dif_pos hl, dif_pos hc] at h
    cases h
    exact Or.inl rfl
  | case3 fdes c p bytes nr buf hb e he hl hc ih =>
    intro x h
    rw [AVI_read_audio_loop, dif_pos hb, he] at h
    simp only [] at h
    rw [dif_pos hl, dif_neg hc] at h
    exact ih x h
  | case4 fdes c p bytes nr buf hb e he hl hr =>
    intro x h
    rw [AVI_read_audio_loop, dif_pos hb, he] at h
    simp only [] at h
    simp only [dite_eq_ite] at hr
    rw [dif_neg hl, dif_pos hr] at h
    cases h
    exact Or.inr rfl
  | case5 fdes c p bytes nr buf hb e he hl hr ih =>
    intro x h
    rw [AVI_read_audio_loop, dif_pos hb, he] at h
    simp only [] at h
    simp only [dite_eq_ite] at hr ih
    rw [dif_neg hl, dif_neg hr] at h
    exact ih x h
  | case6 fdes c p bytes nr buf hb =>
    intro x h
    rw [AVI_read_audio_loop, dif_neg hb] at h
    cases h
    exact Or.inl rfl

theorem audio_index_present_no_idx (AVI : avi_t) (ai : List audio_index_entry)
    (hm : AVI.mode ≠ AVI_MODE_WRITE) (hi : (AVI.track AVI.aptr).audio_index = some ai) :
    (∀ byte o, AVI_set_audio_position AVI 0 byte = some o → o.ret = 0 ∧ o.AVI_errno = 0) ∧
    (∀ bytes o, AVI_read_audio AVI 0 bytes = some o → o.AVI_errno ≠ AVI_ERR_NO_IDX) ∧
    (∀ audbuf o, AVI_read_audio_chunk AVI 0 audbuf = some o → o.AVI_errno ≠ AVI_ERR_NO_IDX) := by
  refine ⟨?_, ?_, ?_⟩
  · intro byte o h
    unfold AVI_set_audio_position at h
    rw [if_neg hm, hi] at h
    simp only [] at h
    split at h
    · cases h
    · split at h
      · cases h
      · cases h
        exact ⟨rfl, rfl⟩
  · intro bytes o h
    unfold AVI_read_audio at h
    rw [if_neg hm, hi] at h
    simp only [] at h
    split at h
    · cases h
    · rename_i x hx
      cases h
      rcases read_audio_loop_errno _ _ _ _ _ _ _ _ _ x hx with e | e
      · show x.AVI_errno ≠ AVI_ERR_NO_IDX
        rw [e]
        decide
      · show x.AVI_errno ≠ AVI_ERR_NO_IDX
        rw [e]
        decide
  · intro audbuf o h
    unfold AVI_read_audio_chunk at h
    rw [if_neg hm, hi] at h
    simp only [] at h
    split at h
    · cases h
      exact (show (0 : Int) ≠ AVI_ERR_NO_IDX by decide)
    · split at h
      · cases h
      · split at h
        · cases h
          exact (show (0 : Int) ≠ AVI_ERR_NO_IDX by decide)
        · split at h
          · cases h
            exact (show (0 : Int) ≠ AVI_ERR_NO_IDX by decide)
          · split at h
            · cases h
              exact (show AVI_ERR_READ ≠ AVI_ERR_NO_IDX by decide)
            · cases h
              exact (show (0 : Int) ≠ AVI_ERR_NO_IDX by decide)

theorem set_audio_position_one_chunk (AVI : avi_t) (ai : List audio_index_entry)
    (hm : AVI.mode ≠ AVI_MODE_WRITE) (hi : (AVI.track AVI.aptr).audio_index = some ai)
    (hc : (AVI.track AVI.aptr).audio_chunks = 1) (hne : ai ≠ []) (byte : Int) :
    ∃ o, AVI_set_audio_position AVI 0 byte = some o ∧ o.ret = 0 ∧ o.AVI_errno = 0 := by
  cases ai with
  | nil => exact absurd rfl hne
  | cons e rest =>
    unfold AVI_set_audio_position
    rw [if_neg hm, hi]
    simp only []
    rw [hc, AVI_set_audio_position_search, if_neg (by decide)]
    have ha : at_index (e :: rest) 0 = some e := by simp [at_index]
    simp only []
    rw [ha]
    exact ⟨_, rfl, rfl, rfl⟩

theorem demo_dmlh_header_stage :
    ∃ H : avi_t,
      avi_parse_input_file { fdes := { data := demo_dmlh_file }, mode := AVI_MODE_READ } 1
        index_file.NULL = avi_parse_index H ∧
      H.idx = none ∧ H.is_opendml = 0 ∧ H.total_frames = 1 ∧ H.anum = 0 ∧
      (plat_seek_set H.fdes H.movi_start).2 = { data := demo_dmlh_file, offset := 248 } ∧
      (H.track 0).audio_index = none ∧ H.mode = AVI_MODE_READ :=
  ⟨_, (avi_parse_input_file_header_stage
        { fdes := { data := demo_dmlh_file }, mode := AVI_MODE_READ } 1 index_file.NULL _ _ _
        (by decide!) (by decide!) (top_scan_done_eq _ (by decide!))
        (option_eq_some_getD _ [] (by decide!)) (by decide!)
        (walk_next_eq _ (by decide!))).trans
      (avi_parse_tags_index_build _ 1 _ (by decide!) (by decide!) (by decide)
        (option_eq_some_getD _ {} (by decide!))),
    by decide!, by decide!, by decide!, by decide!, by decide!, by decide!, by decide!⟩

/-- C35, the code at a failing input: `demo_dmlh_file` has one video stream, no
audio stream, no `idx1` chunk and a `dmlh` chunk with `total_frames = 1`, so
that `AVI_open_fd(fd, 1)` builds the index by the raw scan of the movi list
(label `multiple_riff`).  With `anum = 0` the loop that resets `nai[j]` does not
run, `nai[0]` keeps the value `total_frames`, and the first round of the scan
gives track 0 an audio index with `plat_realloc`.  The handle returned has
`AVI_audio_tracks = 0`, but `track[0].audio_index` is not `NULL` and
`track[0].audio_chunks` is 1: `AVI_set_audio_position` returns 0 for every
byte offset, and neither `AVI_read_audio` nor `AVI_read_audio_chunk` ends with
`AVI_ERR_NO_IDX`, whatever the allocated entries hold.  On `demo_avi_file`
(no audio stream, index read from `idx1`) the three calls return -1 with
`AVI_ERR_NO_IDX`. -/
theorem no_audio_stream_raw_scan_allocates_audio_index :
    (∃ A, AVI_open_fd { data := demo_dmlh_file } 1 = some (some A, 0) ∧
      AVI_audio_tracks A = 0 ∧ A.mode = AVI_MODE_READ ∧ A.aptr = 0 ∧
      (A.track A.aptr).audio_index = some [{}, {}, {}] ∧
      (A.track A.aptr).audio_chunks = 1 ∧
      A.video_index = some [{ key := 0, pos := 256, len := 3 }] ∧
      ∀ ai, ai ≠ [] →
        (∀ byte, ∃ o,
          AVI_set_audio_position (A.set_track 0 { A.track 0 with audio_index := some ai }) 0 byte
            = some o ∧ o.ret = 0 ∧ o.AVI_errno = 0) ∧
        (∀ bytes o,
          AVI_read_audio (A.set_track 0 { A.track 0 with audio_index := some ai }) 0 bytes
            = some o → o.AVI_errno ≠ AVI_ERR_NO_IDX) ∧
        (∀ audbuf o,
          AVI_read_audio_chunk (A.set_track 0 { A.track 0 with audio_index := some ai }) 0 audbuf
            = some o → o.AVI_errno ≠ AVI_ERR_NO_IDX)) ∧
    (AVI_open_fd { data := demo_avi_file } 1).map
        (fun r => (r.1.map AVI_audio_tracks, r.2)) = some (some 0, 0) ∧
    ((AVI_open_fd { data := demo_avi_file } 1).bind (fun r => r.1.bind (fun A =>
        AVI_set_audio_position A r.2 0))).map (fun o => (o.ret, o.AVI_errno))
      = some (-1, AVI_ERR_NO_IDX) ∧
    ((AVI_open_fd { data := demo_avi_file } 1).bind (fun r => r.1.bind (fun A =>
        AVI_read_audio A r.2 10))).map (fun o => (o.ret, o.AVI_errno))
      = some (-1, AVI_ERR_NO_IDX) ∧
    ((AVI_open_fd { data := demo_avi_file } 1).bind (fun r => r.1.bind (fun A =>
        AVI_read_audio_chunk A r.2 caller_buffer.storage))).map (fun o => (o.ret, o.AVI_errno))
      = some (-1, AVI_ERR_NO_IDX) := by
  refine ⟨?_, by decide!, by decide!, by decide!, by decide!⟩
  obtain ⟨H, hH, hidx, hod, htf, han, hfd, hai, hmode⟩ := demo_dmlh_header_stage
  obtain ⟨A2, hA2, a1, a2, a3, a4, a5, a6, a7⟩ := demo_dmlh_raw_scan H htf hfd hai
  have hI := avi_parse_index_raw_scan H A2 hidx hod (by rw [htf]; decide) (by rw [han]) hA2
  have hopen : AVI_open_fd { data := demo_dmlh_file } 1
      = some (some { { A2 with
          fdes := (plat_seek_set A2.fdes A2.movi_start).2, video_pos := 0 } with aptr := 0 }, 0) := by
    unfold AVI_open_fd AVI_open_indexfd
    rw [hH, hI]
    rfl
  obtain ⟨A, hA, b1, b2, b3, b4, b5, b6⟩ : ∃ A, AVI_open_fd { data := demo_dmlh_file } 1
      = some (some A, 0) ∧ A.anum = 0 ∧ A.mode = AVI_MODE_READ ∧ A.aptr = 0 ∧
      (A.track 0).audio_index = some [{}, {}, {}] ∧ (A.track 0).audio_chunks = 1 ∧
      A.video_index = some [{ key := 0, pos := 256, len := 3 }] :=
    ⟨_, hopen, a1.trans han, a2.trans hmode, rfl, a4, a5, a6⟩
  refine ⟨A, hA, b1, b2, b3, ?_, ?_, b6, ?_⟩
  · rw [b3]
    exact b4
  · rw [b3]
    exact b5
  · intro ai hne
    have hm : (A.set_track 0 { A.track 0 with audio_index := some ai }).mode ≠ AVI_MODE_WRITE := by
      show A.mode ≠ AVI_MODE_WRITE
      rw [b2]
      decide
    have hi : ((A.set_track 0 { A.track 0 with audio_index := some ai }).track
        (A.set_track 0 { A.track 0 with audio_index := some ai }).aptr).audio_index = some ai := by
      show ((A.set_track 0 { A.track 0 with audio_index := some ai }).track A.aptr).audio_index
        = some ai
      rw [b3]
      simp [avi_t.set_track]
    have hc : ((A.set_track 0 { A.track 0 with audio_index := some ai }).track
        (A.set_track 0 { A.track 0 with audio_index := some ai }).aptr).audio_chunks = 1 := by
      show ((A.set_track 0 { A.track 0 with audio_index := some ai }).track A.aptr).audio_chunks
        = 1
      rw [b3]
      simp [avi_t.set_track, b5]
    exact ⟨fun byte => set_audio_position_one_chunk _ ai hm hi hc hne byte,
      (audio_index_present_no_idx _ ai hm hi).2.1, (audio_index_present_no_idx _ ai hm hi).2.2⟩

/-! ### The OpenDML video index -/

theorem str2ulong_lt (str : List UInt8) (c : Nat) (h : str2ulong str = some c) : c < 2 ^ 32 := by
  unfold str2ulong at h
  split at h
  · cases h
    exact Nat.mod_lt _ (by decide)
  · cases h

theorem testBit_31_of_and (s : Nat) : (s &&& 0x80000000 ≠ 0) ↔ s.testBit 31 = true := by
  rw [show (0x80000000 : Nat) = 2 ^ 31 from rfl, Nat.and_two_pow]
  cases s.testBit 31 <;> simp

theorem opendml_video_while_spec (buf : List UInt8) (offset : Nat)
    (hoff : offset + 2 ^ 32 ≤ 2 ^ 63) :
    ∀ (n fuel en : Nat) (st : odml_video) (es : List avistdindex_entry)
      (v0 : List video_index_entry),
      std_index_entries_at buf n en = some es → st.video_index = some v0 → 0 ≤ st.k →
      st.nvi = st.k + (n : Int) → st.nvi ≤ (v0.length : Int) → n < fuel →
      ∃ st2 v2, opendml_video_while buf offset fuel en st = some (st2, en + 8 * n) ∧
        st2.video_index = some v2 ∧
        st2.k = st.k + ((std_index_video_entries offset es).length : Int) ∧
        st2.nvi = st2.k ∧
        v2.take st2.k.toNat = v0.take st.k.toNat ++ std_index_video_entries offset es ∧
        v2.length = v0.length ∧ st2.fdes = st.fdes := by
  intro n
  induction n with
  | zero =>
    intro fuel en st es v0 hes hv hk hn hl hf
    obtain ⟨f, rfl⟩ : ∃ f, fuel = f + 1 := ⟨fuel - 1, by omega⟩
    simp only [std_index_entries_at, Option.some.injEq] at hes
    subst hes
    rw [opendml_video_while, if_neg (by omega)]
    refine ⟨st, v0, rfl, hv, ?_, ?_, ?_, rfl, rfl⟩
    · simp [std_index_video_entries]
    · omega
    · simp [std_index_video_entries]
  | succ n ih =>
    intro fuel en st es v0 hes hv hk hn hl hf
    obtain ⟨f, rfl⟩ : ∃ f, fuel = f + 1 := ⟨fuel - 1, by omega⟩
    rw [std_index_entries_at] at hes
    split at hes
    · rename_i o s rest ho hs hrest
      cases hes
      have hob := str2ulong_lt _ _ ho
      have hlen : str2ulong_len (buf.drop (en + 4)) = some (s &&& 0x7fffffff) := by
        unfold str2ulong_len
        rw [hs]
        rfl
      have hkey : str2ulong_key (buf.drop (en + 4))
          = some (if s &&& 0x80000000 ≠ 0 then 0 else 0x10) := by
        unfold str2ulong_key
        rw [hs]
        rfl
      have hkl : st.k.toNat < v0.length := by omega
      rw [opendml_video_while, if_pos (by omega), ho, hlen, hkey]
      simp only []
      rw [if_neg (by omega), hv]
      simp only [Option.getD_some, store_at, if_pos hkl]
      have hpos : uint64_to_off_t ((offset + o) % 2 ^ 64) = (offset : Int) + (o : Int) := by
        unfold uint64_to_off_t
        rw [Nat.mod_eq_of_lt (by omega), if_pos (by omega)]
        push_cast
        rfl
      have hkeyv : (((if s &&& 0x80000000 ≠ 0 then 0 else 0x10 : Nat)) : Int)
          = if s.testBit 31 then 0 else 0x10 := by
        by_cases hb : s.testBit 31 = true
        · rw [if_pos ((testBit_31_of_and s).mpr hb), if_pos hb]
          rfl
        · rw [if_neg (fun h => hb ((testBit_31_of_and s).mp h)), if_neg hb]
          rfl
      by_cases hempty : o = 0 ∧ s &&& 0x7fffffff = 0
      · rw [if_pos hempty]
        obtain ⟨st2, v2, h1, h2, h3, h4, h5, h6, h7⟩ := ih f (en + 8)
          { st with
            video_index := some (v0.set st.k.toNat
              { key := (((if s &&& 0x80000000 ≠ 0 then 0 else 0x10 : Nat)) : Int)
                pos := uint64_to_off_t ((offset + o) % 2 ^ 64)
                len := ((s &&& 0x7fffffff : Nat) : Int) })
            nvi := st.nvi - 1 } rest _ hrest rfl hk
          (by show st.nvi - 1 = st.k + (n : Int); push_cast at hn; omega)
          (by show st.nvi - 1 ≤ _; rw [List.length_set]; omega) (by omega)
        refine ⟨st2, v2, ?_, h2, ?_, h4, ?_, ?_, h7⟩
        · rw [h1]
          congr 2
          omega
        · rw [h3]
          simp [std_index_video_entries, List.filter_cons, hempty]
        · rw [h5, take_set_self]
          simp [std_index_video_entries, List.filter_cons, hempty]
        · rw [h6, List.length_set]
      · rw [if_neg hempty]
        obtain ⟨st2, v2, h1, h2, h3, h4, h5, h6, h7⟩ := ih f (en + 8)
          { st with
            video_index := some (v0.set st.k.toNat
              { key := (((if s &&& 0x80000000 ≠ 0 then 0 else 0x10 : Nat)) : Int)
                pos := uint64_to_off_t ((offset + o) % 2 ^ 64)
                len := ((s &&& 0x7fffffff : Nat) : Int) })
            k := st.k + 1 } rest _ hrest rfl (by show 0 ≤ st.k + 1; omega)
          (by show st.nvi = st.k + 1 + (n : Int); push_cast at hn; omega)
          (by show st.nvi ≤ _; rw [List.length_set]; omega) (by omega)
        have hfil : std_index_video_entries offset ({ dwOffset := o, dwSize := s } :: rest)
            = { key := if s.testBit 31 then 0 else 0x10, pos := (offset : Int) + (o : Int)
                len := ((s &&& 0x7fffffff : Nat) : Int) }
              :: std_index_video_entries offset rest := by
          have hempty2 := not_and_or.mp hempty
          simp [std_index_video_entries, List.filter_cons, hempty2]
        have hk1 : (st.k + 1).toNat = st.k.toNat + 1 := by omega
        refine ⟨st2, v2, ?_, h2, ?_, h4, ?_, ?_, h7⟩
        · rw [h1]
          congr 2
          omega
        · rw [h3, hfil]
          show st.k + 1 + _ = _
          simp only [List.length_cons]
          push_cast
          omega
        · rw [h5, hfil]
          show (v0.set st.k.toNat _).take (st.k + 1).toNat ++ _ = _
          rw [hk1, take_succ_set _ _ _ hkl, hpos, hkeyv]
          simp
        · rw [h6, List.length_set]
    · cases hes

theorem realloc_video_length (a : Option (List video_index_entry)) (n : Nat) :
    (realloc_video a n).length = n := by
  unfold realloc_video
  rw [List.length_append, List.length_take, List.length_replicate]
  omega

theorem realloc_video_take (a : Option (List video_index_entry)) (n k : Nat)
    (hk : k ≤ (a.getD []).length) (hn : k ≤ n) :
    (realloc_video a n).take k = (a.getD []).take k := by
  unfold realloc_video
  rw [List.take_append_of_le_length (by rw [List.length_take]; omega), List.take_take,
    Nat.min_eq_left hn]

/-- The read of `(dwSize + 32) mod 2^32` bytes gets the standard index chunk
that the super-index entry names when the sum does not wrap. -/
theorem odml_chunk_eq_std_index_chunk (data : List UInt8) (en : avisuperindex_entry)
    (h0 : 0 ≤ en.dwSize) (h1 : en.dwSize + 32 < 2 ^ 32) :
    odml_chunk data en = std_index_chunk data en := by
  unfold odml_chunk std_index_chunk plat_read
  simp only []
  rw [Int.emod_eq_of_lt (by omega) h1, if_pos (by omega)]

/-- A super-index entry for which the 32-bit sum `dwSize + hdrl_len` is 0 (a
`dwSize` of `0xFFFFFFE0`): the read returns no byte and the reader passes over
the standard index, whatever the file has at `qwOffset`. -/
theorem opendml_video_entry_wrapped (en : avisuperindex_entry) (st : odml_video)
    (hw : (en.dwSize + 32) % 2 ^ 32 = 0) :
    ∃ st2, opendml_video_entry en st = some st2 ∧ st2.nvi = st.nvi ∧ st2.k = st.k ∧
      st2.video_index = st.video_index := by
  unfold opendml_video_entry
  rw [hw]
  by_cases hs : (plat_seek_set st.fdes en.qwOffset).1 = -1
  · rw [if_pos hs]
    exact ⟨st, rfl, rfl, rfl, rfl⟩
  · rw [if_neg hs, if_pos (by unfold plat_read; simp)]
    exact ⟨_, rfl, rfl, rfl, rfl⟩

theorem opendml_video_entry_spec (en : avisuperindex_entry) (st : odml_video) (B : Nat)
    (es : List avistdindex_entry) (hq : 0 ≤ en.qwOffset)
    (hs0 : 0 ≤ en.dwSize) (hs1 : en.dwSize + 32 < 2 ^ 32)
    (hstd : std_index_of st.fdes.data en = some (B, es)) (hB : B + 2 ^ 32 ≤ 2 ^ 63)
    (hk : 0 ≤ st.k) (hnvi : st.nvi = st.k)
    (hlen : st.k ≤ ((st.video_index.getD []).length : Int)) :
    ∃ st2, opendml_video_entry en st = some st2 ∧
      st2.k = st.k + ((std_index_video_entries B es).length : Int) ∧ st2.nvi = st2.k ∧
      (st2.video_index.getD []).take st2.k.toNat
        = (st.video_index.getD []).take st.k.toNat ++ std_index_video_entries B es ∧
      st2.k ≤ ((st2.video_index.getD []).length : Int) ∧
      st2.fdes.data = st.fdes.data := by
  have hbuf : (plat_read (plat_seek_set st.fdes en.qwOffset).2 ((en.dwSize + 32) % 2 ^ 32)).2.1
      = odml_chunk st.fdes.data en := by
    unfold plat_seek_set odml_chunk
    rw [if_neg (by omega)]
    rfl
  have hdata : (plat_read (plat_seek_set st.fdes en.qwOffset).2 ((en.dwSize + 32) % 2 ^ 32)).2.2.data
      = st.fdes.data := by
    unfold plat_seek_set
    rw [if_neg (by omega)]
    rfl
  have hcnt : (plat_read (plat_seek_set st.fdes en.qwOffset).2 ((en.dwSize + 32) % 2 ^ 32)).1
      = ((odml_chunk st.fdes.data en).length : Int) := by
    rw [← hbuf]
    rfl
  unfold std_index_of at hstd
  rw [← odml_chunk_eq_std_index_chunk st.fdes.data en hs0 hs1] at hstd
  split at hstd
  · rename_i nr off hnr hoff
    have h20 : 0 < (odml_chunk st.fdes.data en).length := by
      by_contra h0
      have : odml_chunk st.fdes.data en = [] := List.length_eq_zero.mp (by omega)
      rw [this] at hnr
      simp [str2ulong] at hnr
    cases hes : std_index_entries_at (odml_chunk st.fdes.data en) nr 32 with
    | none =>
      rw [hes] at hstd
      cases hstd
    | some es2 =>
      rw [hes] at hstd
      simp only [Option.map_some', Option.some.injEq, Prod.mk.injEq] at hstd
      obtain ⟨e1, e2⟩ := hstd
      subst e1 e2
      unfold opendml_video_entry
      rw [if_neg (by unfold plat_seek_set; rw [if_neg (by omega)]; simp only []; omega),
        if_neg (by rw [hcnt]; omega), hbuf, hnr, hoff]
      simp only []
      obtain ⟨st2, v2, h1, h2, h3, h4, h5, h6, h7⟩ :=
        opendml_video_while_spec (odml_chunk st.fdes.data en) off hB nr
          ((st.nvi + (nr : Int) - st.k).toNat + 1) 32
          { st with
            fdes := (plat_read (plat_seek_set st.fdes en.qwOffset).2 ((en.dwSize + 32) % 2 ^ 32)).2.2
            nvi := st.nvi + (nr : Int)
            video_index := some (realloc_video st.video_index (st.nvi + (nr : Int)).toNat) }
          es2 _ hes rfl hk (by show st.nvi + (nr : Int) = st.k + (nr : Int); omega)
          (by show st.nvi + (nr : Int) ≤ _; rw [realloc_video_length]; omega) (by omega)
      have h3b : st2.k = st.k + ((std_index_video_entries off es2).length : Int) := h3
      have h5b : v2.take st2.k.toNat
          = (realloc_video st.video_index (st.nvi + (nr : Int)).toNat).take st.k.toNat
            ++ std_index_video_entries off es2 := h5
      have h6b : v2.length = (realloc_video st.video_index (st.nvi + (nr : Int)).toNat).length := h6
      have h7b : st2.fdes
          = (plat_read (plat_seek_set st.fdes en.qwOffset).2 ((en.dwSize + 32) % 2 ^ 32)).2.2 := h7
      rw [realloc_video_length] at h6b
      have hle : ((std_index_video_entries off es2).length : Int) ≤ (nr : Int) := by
        have h8 := congrArg List.length h5b
        rw [List.length_take, List.length_append, List.length_take, h6b,
          realloc_video_length] at h8
        omega
      rw [h1]
      refine ⟨st2, rfl, h3b, h4, ?_, ?_, ?_⟩
      · rw [h2]
        simp only [Option.getD_some]
        rw [h5b]
        congr 1
        exact realloc_video_take _ _ _ (by omega) (by omega)
      · rw [h2]
        simp only [Option.getD_some]
        rw [h6b, h3b]
        omega
      · rw [h7b]
        exact hdata
  · cases hstd

theorem opendml_video_entries_spec (data : List UInt8) :
    ∀ (ens : List avisuperindex_entry) (st : odml_video),
      (∀ en ∈ ens, 0 ≤ en.qwOffset ∧ 0 ≤ en.dwSize ∧ en.dwSize + 32 < 2 ^ 32 ∧
        ∃ B es, std_index_of data en = some (B, es) ∧ B + 2 ^ 32 ≤ 2 ^ 63) →
      st.fdes.data = data → 0 ≤ st.k → st.nvi = st.k →
      st.k ≤ ((st.video_index.getD []).length : Int) →
      ∃ st2, opendml_video_entries ens st = some st2 ∧
        st2.nvi = st.nvi + ((std_indexes_video_entries data ens).length : Int) ∧
        (st2.video_index.getD []).take st2.nvi.toNat
          = (st.video_index.getD []).take st.nvi.toNat ++ std_indexes_video_entries data ens ∧
        st2.fdes.data = data := by
  intro ens
  induction ens with
  | nil =>
    intro st _ hd _ _ _
    refine ⟨st, rfl, ?_, ?_, hd⟩
    · simp [std_indexes_video_entries]
    · simp [std_indexes_video_entries]
  | cons en rest ih =>
    intro st hix hd hk hnvi hlen
    obtain ⟨hq, hs0, hs1, B, es, hstd, hB⟩ := hix en (List.mem_cons_self _ _)
    obtain ⟨st1, e1, k1, n1, t1, l1, d1⟩ :=
      opendml_video_entry_spec en st B es hq hs0 hs1 (by rw [hd]; exact hstd) hB hk hnvi hlen
    obtain ⟨st2, e2, n2, t2, d2⟩ := ih st1
      (fun e he => hix e (List.mem_cons_of_mem _ he)) (by rw [d1, hd]) (by omega) n1 l1
    rw [opendml_video_entries, e1]
    simp only []
    refine ⟨st2, e2, ?_, ?_, d2⟩
    · rw [n2, n1, k1, hnvi]
      simp only [std_indexes_video_entries, hstd, List.length_append]
      push_cast
      omega
    · rw [t2, n1, t1, hnvi]
      simp only [std_indexes_video_entries, hstd, List.append_assoc]

/-- C29: the reconstruction of the video index of an OpenDML file.  For a
standard index chunk `buf` with base offset `B` whose `N` entries `es` stand
from byte 32 on, the loop `while (k < nvi)` entered with `nvi = k + N` leaves
with the read offset at `32 + 8 * N` (it has consumed `N` entries) and has
appended to the `k` entries of the video index, in order, one entry (`pos = B +
dwOffset`, `len = dwSize & 0x7fffffff`, `key = 0x10` if and only if bit 31 of
`dwSize` is clear) for each entry of `es` that is not (`dwOffset = 0` and
`len = 0`).  For a handle whose super-index names standard indexes that are in
the file, each of a size `dwSize + 32` below `2^32`, the video part of the
OpenDML reader returns with `video_frames` the number of entries retained over
all standard indexes, and these entries, in the order of the super-index, as
the first `video_frames` entries of `video_index`.  The reader forms the number
of bytes to read, `dwSize + 32`, in 32 bits: a standard index for which the sum
wraps is not read whole, and for a sum of 0 it is passed over.  The base
offsets are such that `B + dwOffset` is an `off_t`. -/
theorem opendml_video_index_reconstruction :
    (∀ (buf : List UInt8) (B N : Nat) (es : List avistdindex_entry) (st : odml_video)
        (v0 : List video_index_entry),
      B + 2 ^ 32 ≤ 2 ^ 63 → std_index_entries_at buf N 32 = some es →
      st.video_index = some v0 → 0 ≤ st.k → st.nvi = st.k + (N : Int) →
      st.nvi ≤ (v0.length : Int) →
      ∃ st2 v2, opendml_video_while buf B ((st.nvi - st.k).toNat + 1) 32 st
          = some (st2, 32 + 8 * N) ∧
        st2.video_index = some v2 ∧ st2.nvi = st2.k ∧
        st2.k = st.k + ((std_index_video_entries B es).length : Int) ∧
        v2.take st2.k.toNat = v0.take st.k.toNat ++ std_index_video_entries B es) ∧
    (∀ (AVI : avi_t) (si : avisuperindex_chunk),
      AVI.video_superindex = some si → si.nEntriesInUse.toNat ≤ si.aIndex.length →
      (∀ en ∈ si.aIndex.take si.nEntriesInUse.toNat, 0 ≤ en.qwOffset ∧
        0 ≤ en.dwSize ∧ en.dwSize + 32 < 2 ^ 32 ∧
        ∃ B es, std_index_of AVI.fdes.data en = some (B, es) ∧ B + 2 ^ 32 ≤ 2 ^ 63) →
      ∃ A2, avi_parse_input_file_opendml_video AVI = some A2 ∧
        A2.video_frames
          = ((std_indexes_video_entries AVI.fdes.data
              (si.aIndex.take si.nEntriesInUse.toNat)).length : Int) ∧
        (A2.video_index.getD []).take A2.video_frames.toNat
          = std_indexes_video_entries AVI.fdes.data
              (si.aIndex.take si.nEntriesInUse.toNat)) := by
  constructor
  · intro buf B N es st v0 hB hes hv hk hn hl
    obtain ⟨st2, v2, h1, h2, h3, h4, h5, _, _⟩ :=
      opendml_video_while_spec buf B hB N ((st.nvi - st.k).toNat + 1) 32 st es v0 hes hv hk hn hl
        (by omega)
    exact ⟨st2, v2, h1, h2, h4, h3, h5⟩
  · intro AVI si hsi hn hix
    obtain ⟨st2, e2, n2, t2, _⟩ := opendml_video_entries_spec AVI.fdes.data
      (si.aIndex.take si.nEntriesInUse.toNat)
      { fdes := AVI.fdes, nvi := 0, k := 0, video_index := none } hix rfl (le_refl _) rfl
      (by simp)
    unfold avi_parse_input_file_opendml_video
    rw [hsi]
    simp only []
    rw [if_pos hn, e2]
    refine ⟨_, rfl, ?_, ?_⟩
    · show st2.nvi = _
      rw [n2]
      simp
    · show (st2.video_index.getD []).take st2.nvi.toNat = _
      rw [t2]
      simp

theorem opendml_video_index_reconstruction_witness :
    (∃ st2 v2, opendml_video_while demo_ix_chunk 1000 4 32
          { nvi := 3, k := 0, video_index := some [{}, {}, {}] } = some (st2, 56) ∧
        st2.video_index = some v2 ∧ st2.nvi = st2.k ∧ st2.k = 2 ∧
        v2.take st2.k.toNat
          = [{ key := 16, pos := 1008, len := 5 }, { key := 0, pos := 1020, len := 7 }]) ∧
    ∃ A2, avi_parse_input_file_opendml_video demo_odml_video_avi = some A2 ∧
      A2.video_frames = 2 ∧
      (A2.video_index.getD []).take A2.video_frames.toNat
        = [{ key := 16, pos := 1008, len := 5 }, { key := 0, pos := 1020, len := 7 }] := by
  have hes : std_index_entries_at demo_ix_chunk 3 32
      = some [{ dwOffset := 8, dwSize := 5 }, { dwOffset := 0, dwSize := 0 },
          { dwOffset := 20, dwSize := 2147483655 }] := by decide!
  have hr : std_index_video_entries 1000
      [{ dwOffset := 8, dwSize := 5 }, { dwOffset := 0, dwSize := 0 },
        { dwOffset := 20, dwSize := 2147483655 }]
      = [{ key := 16, pos := 1008, len := 5 }, { key := 0, pos := 1020, len := 7 }] := by
    decide!
  constructor
  · obtain ⟨st2, v2, h1, h2, h3, h4, h5⟩ :=
      opendml_video_index_reconstruction.1 demo_ix_chunk 1000 3 _
        { nvi := 3, k := 0, video_index := some [{}, {}, {}] } [{}, {}, {}]
        (by decide) hes rfl (by decide) (by decide) (by decide)
    rw [hr] at h4 h5
    exact ⟨st2, v2, h1, h2, h3, h4, h5⟩
  · have hstd : std_index_of demo_ix_chunk { qwOffset := 0, dwSize := 24, dwDuration := 3 }
        = some (1000, [{ dwOffset := 8, dwSize := 5 }, { dwOffset := 0, dwSize := 0 },
            { dwOffset := 20, dwSize := 2147483655 }]) := by decide!
    obtain ⟨A2, h1, h2, h3⟩ :=
      opendml_video_index_reconstruction.2 demo_odml_video_avi
        { nEntriesInUse := 1, aIndex := [{ qwOffset := 0, dwSize := 24, dwDuration := 3 }] }
        rfl (by decide)
        (by
          intro en hen
          simp only [Int.toNat_one, List.take_succ_cons, List.take_zero,
            List.mem_singleton] at hen
          subst hen
          exact ⟨by decide, by decide, by decide, 1000, _, hstd, by decide⟩)
    have hall : std_indexes_video_entries demo_odml_video_avi.fdes.data
        (List.take (1 : Int).toNat [{ qwOffset := 0, dwSize := 24, dwDuration := 3 }])
        = [{ key := 16, pos := 1008, len := 5 }, { key := 0, pos := 1020, len := 7 }] := by
      decide!
    rw [hall] at h2 h3
    exact ⟨A2, h1, h2, h3⟩

/-! ### The base of the offsets of `idx1` -/

theorem legacy_fill_loop_video (vt : List UInt8) (tag : Nat → List UInt8) (anum : Nat)
    (ioff : Int) :
    ∀ (entries : List (List UInt8)) (st st2 : legacy_fill),
      legacy_fill_loop vt tag anum ioff entries st = some st2 →
      st2.nvi = st.nvi + (idx1_video_records vt entries).length ∧
      st2.video_index = st.video_index.take st.nvi ++ idx1_video_entries vt ioff entries
        ++ st.video_index.drop (st.nvi + (idx1_video_records vt entries).length) := by
  intro entries
  induction entries with
  | nil =>
    intro st st2 h
    rw [legacy_fill_loop] at h
    cases h
    simp [idx1_video_records, idx1_video_entries]
  | cons e rest ih =>
    intro st st2 h
    rw [legacy_fill_loop] at h
    cases hv : legacy_fill_video vt e ioff st with
    | none =>
      rw [hv] at h
      cases h
    | some v =>
      rw [hv] at h
      simp only [] at h
      cases ha : legacy_fill_audio tag e ioff (List.range anum) st.aud with
      | none =>
        rw [ha] at h
        cases h
      | some aud =>
        rw [ha] at h
        simp only [] at h
        obtain ⟨r1, r2⟩ := ih _ _ h
        have r1b : st2.nvi = v.1 + (idx1_video_records vt rest).length := r1
        have r2b : st2.video_index = v.2.take v.1 ++ idx1_video_entries vt ioff rest
            ++ v.2.drop (v.1 + (idx1_video_records vt rest).length) := r2
        unfold legacy_fill_video at hv
        by_cases hm : strncasecmp_eq e vt 3 = true
        · rw [if_pos hm] at hv
          split at hv
          · rename_i key pos len hk hp hl
            unfold store_at at hv
            by_cases hlt : st.nvi < st.video_index.length
            · rw [if_pos hlt] at hv
              simp only [] at hv
              cases hv
              have hrec : idx1_video_records vt (e :: rest) = e :: idx1_video_records vt rest := by
                simp [idx1_video_records, List.filter_cons, hm]
              have hent : idx1_video_entries vt ioff (e :: rest)
                  = { key := (key : Int), pos := (pos : Int) + ioff, len := (len : Int) }
                    :: idx1_video_entries vt ioff rest := by
                unfold idx1_video_entries
                rw [hrec, List.map_cons, hk, hp, hl]
                rfl
              constructor
              · rw [r1b, hrec, List.length_cons]
                omega
              · rw [r2b, hrec, hent, List.length_cons]
                simp only []
                rw [take_succ_set _ _ _ hlt,
                  show st.nvi + ((idx1_video_records vt rest).length + 1)
                    = st.nvi + 1 + (idx1_video_records vt rest).length from by omega,
                  drop_succ_set]
                simp
            · rw [if_neg hlt] at hv
              cases hv
          · cases hv
        · rw [if_neg hm] at hv
          cases hv
          have hrec : idx1_video_records vt (e :: rest) = idx1_video_records vt rest := by
            simp [idx1_video_records, List.filter_cons, hm]
          have hent : idx1_video_entries vt ioff (e :: rest)
              = idx1_video_entries vt ioff rest := by
            unfold idx1_video_entries
            rw [hrec]
          rw [hrec, hent]
          exact ⟨r1b, r2b⟩

theorem legacy_video_index (AVI : avi_t) (idx_type : Int) (idx : List (List UInt8))
    (hidx : AVI.idx = some idx) (hn : AVI.n_idx.toNat ≤ idx.length)
    (hlen : ∀ e ∈ idx, 16 ≤ e.length)
    (hvid : idx1_video_records AVI.video_tag (idx.take AVI.n_idx.toNat) ≠ []) :
    ∃ A2, avi_parse_input_file_legacy AVI idx_type = some (Except.ok A2) ∧
      A2.video_index = some (idx1_video_entries AVI.video_tag
        (if idx_type = 1 then 8 else AVI.movi_start + 4) (idx.take AVI.n_idx.toNat)) ∧
      A2.video_frames
        = ((idx1_video_records AVI.video_tag (idx.take AVI.n_idx.toNat)).length : Int) := by
  have hc : (legacy_count AVI.video_tag (fun j => (AVI.track j).audio_tag) AVI.anum.toNat
      (idx.take AVI.n_idx.toNat) (0, fun _ => 0)).1
      = (idx1_video_records AVI.video_tag (idx.take AVI.n_idx.toNat)).length := by
    rw [legacy_count_fst]
    simp [idx1_video_records, List.countP_eq_length_filter]
  have hc0 : ¬ (legacy_count AVI.video_tag (fun j => (AVI.track j).audio_tag) AVI.anum.toNat
      (idx.take AVI.n_idx.toNat) (0, fun _ => 0)).1 = 0 := by
    rw [hc]
    intro h0
    exact hvid (List.length_eq_zero.mp h0)
  obtain ⟨r, hr⟩ := legacy_returns AVI idx_type idx hidx hn hlen
  unfold avi_parse_input_file_legacy at hr ⊢
  rw [hidx] at hr ⊢
  simp only [] at hr ⊢
  rw [if_pos hn] at hr ⊢
  simp only [] at hr ⊢
  rw [if_neg hc0] at hr ⊢
  split at hr
  · cases hr
  · rename_i st hst
    obtain ⟨v1, v2⟩ := legacy_fill_loop_video _ _ _ _ _ _ _ hst
    refine ⟨_, rfl, ?_, ?_⟩
    · show some st.video_index = _
      rw [v2]
      simp only [List.take_zero, List.nil_append, Nat.zero_add]
      rw [← hc, List.drop_of_length_le (by rw [List.length_replicate]), List.append_nil]
    · show ((legacy_count _ _ _ _ _).1 : Int) = _
      rw [hc]

theorem avi_parse_idx_type_first (AVI : avi_t) :
    ∀ (entries : List (List UInt8)) (e0 : List UInt8),
      entries.find? (fun e => strncasecmp_eq e AVI.video_tag 3) = some e0 →
      strncasecmp_eq e0 AVI.video_tag 3 = true ∧
      avi_parse_idx_type AVI entries = avi_parse_idx_type AVI [e0] := by
  intro entries
  induction entries with
  | nil =>
    intro e0 h
    cases h
  | cons e rest ih =>
    intro e0 h
    rw [List.find?_cons] at h
    by_cases hm : strncasecmp_eq e AVI.video_tag 3 = true
    · rw [hm] at h
      cases h
      refine ⟨hm, ?_⟩
      rw [avi_parse_idx_type, avi_parse_idx_type, if_pos hm, if_pos hm]
    · have hm2 : strncasecmp_eq e AVI.video_tag 3 = false := by
        cases hb : strncasecmp_eq e AVI.video_tag 3
        · rfl
        · exact absurd hb hm
      rw [hm2] at h
      obtain ⟨i1, i2⟩ := ih e0 h
      refine ⟨i1, ?_⟩
      rw [avi_parse_idx_type, if_neg hm, i2]

theorem plat_read_at (fdes : plat_file) (p : Int) (hp : 0 ≤ p) :
    (plat_read (plat_seek_set fdes p).2 8).1 = (((fdes.data.drop p.toNat).take 8).length : Int) ∧
    (plat_read (plat_seek_set fdes p).2 8).2.1 = (fdes.data.drop p.toNat).take 8 ∧
    (plat_read (plat_seek_set fdes p).2 8).2.2.data = fdes.data := by
  unfold plat_seek_set
  rw [if_neg (by omega)]
  unfold plat_read
  simp

theorem chunk_header_at_iff (fdes : plat_file) (p : Int) (entry : List UInt8) (len : Nat)
    (hp : 0 ≤ p) (hl : str2ulong (entry.drop 12) = some len) :
    chunk_header_at fdes.data p entry = true ↔
      ((plat_read (plat_seek_set fdes p).2 8).1 = 8 ∧
        strncasecmp_eq (plat_read (plat_seek_set fdes p).2 8).2.1 entry 4 = true ∧
        str2ulong ((plat_read (plat_seek_set fdes p).2 8).2.1.drop 4) = some len) := by
  obtain ⟨r1, r2, _⟩ := plat_read_at fdes p hp
  rw [r1, r2]
  unfold chunk_header_at
  rw [hl]
  simp only [Bool.and_eq_true, decide_eq_true_eq]
  constructor
  · rintro ⟨⟨⟨_, h2⟩, h3⟩, h4⟩
    exact ⟨by rw [h2]; rfl, h3, h4⟩
  · rintro ⟨h2, h3, h4⟩
    exact ⟨⟨⟨hp, by exact_mod_cast h2⟩, h3⟩, h4⟩

theorem idx1_video_entries_get (vt : List UInt8) (base : Int) (entries : List (List UInt8))
    (i : Nat) (e : List UInt8) (h : (idx1_video_records vt entries)[i]? = some e) :
    ∃ v, (idx1_video_entries vt base entries)[i]? = some v ∧
      v.pos = (((str2ulong (e.drop 8)).getD 0 : Nat) : Int) + base := by
  unfold idx1_video_entries
  rw [List.getElem?_map, h]
  exact ⟨_, rfl, rfl⟩

theorem idx1_video_records_head (vt : List UInt8) (entries : List (List UInt8))
    (e0 : List UInt8) (h : entries.find? (fun e => strncasecmp_eq e vt 3) = some e0) :
    (idx1_video_records vt entries)[0]? = some e0 := by
  unfold idx1_video_records
  induction entries with
  | nil => cases h
  | cons e rest ih =>
    rw [List.find?_cons] at h
    rw [List.filter_cons]
    cases hm : strncasecmp_eq e vt 3
    · rw [hm] at h
      simp only [Bool.false_eq_true, if_false]
      exact ih h
    · rw [hm] at h
      cases h
      simp

theorem avi_parse_index_legacy (AVI : avi_t) (idx : List (List UInt8)) (t : Int)
    (fd : plat_file) (hidx : AVI.idx = some idx) (hn : AVI.n_idx.toNat ≤ idx.length)
    (hlen : ∀ e ∈ idx, 16 ≤ e.length) (hod : AVI.is_opendml = 0) (ht : t ≠ 0)
    (hvid : idx1_video_records AVI.video_tag (idx.take AVI.n_idx.toNat) ≠ [])
    (hty : avi_parse_idx_type AVI (idx.take AVI.n_idx.toNat) = some (Except.ok (t, fd))) :
    ∃ A2, avi_parse_index AVI = some (parse_result.ret 0 A2) ∧
      A2.video_index = some (idx1_video_entries AVI.video_tag
        (if t = 1 then 8 else AVI.movi_start + 4) (idx.take AVI.n_idx.toNat)) ∧
      A2.video_frames
        = ((idx1_video_records AVI.video_tag (idx.take AVI.n_idx.toNat)).length : Int) := by
  obtain ⟨A1, h1, h2, h3⟩ := legacy_video_index { AVI with fdes := fd } t idx hidx hn hlen hvid
  unfold avi_parse_index
  rw [hidx]
  simp only []
  rw [if_pos hn, hty]
  simp only []
  rw [if_neg (by intro h; exact ht h.1)]
  unfold avi_parse_build_index
  simp only []
  rw [if_neg (not_not.mpr hod), if_neg (by intro h; exact ht h.2)]
  have e : ({ AVI with fdes := fd, idx := some idx } : avi_t) = { AVI with fdes := fd } := by
    rw [← hidx]
  rw [e, h1]
  exact ⟨_, rfl, h2, h3⟩

/-- C30: the detection of the base of the offsets of a legacy `idx1` index, on a
handle that is not OpenDML, with `pos` the offset in the first record of
`idx1` whose tag matches the video tag.  If the 8 bytes at file offset `pos`
match the FourCC and the length of that record, `avi_parse_index` returns with
every video position built as `idx offset + 8`.  Otherwise, if the 8 bytes at
`pos` can be read and the 8 bytes at `pos + movi_start - 4` match, every video
position is `idx offset + movi_start + 4`.  In both cases the position of the
record that was tested is the file offset of the first payload byte of the
chunk that was found, and so is the position of every video record whose chunk
header stands at its offset in the same layout. -/
theorem idx1_offset_base_detection (AVI : avi_t) (idx : List (List UInt8)) (e0 : List UInt8)
    (pos : Nat) (hidx : AVI.idx = some idx) (hn : AVI.n_idx.toNat ≤ idx.length)
    (hlen : ∀ e ∈ idx, 16 ≤ e.length) (hod : AVI.is_opendml = 0)
    (hfirst : (idx.take AVI.n_idx.toNat).find? (fun e => strncasecmp_eq e AVI.video_tag 3)
      = some e0)
    (hpos : str2ulong (e0.drop 8) = some pos) :
    (chunk_header_at AVI.fdes.data pos e0 = true →
      ∃ A2 vi, avi_parse_index AVI = some (parse_result.ret 0 A2) ∧
        A2.video_index = some vi ∧
        vi = idx1_video_entries AVI.video_tag 8 (idx.take AVI.n_idx.toNat) ∧
        (∃ v, vi[0]? = some v ∧ v.pos = (pos : Int) + 8 ∧
          chunk_payload_at AVI.fdes.data v.pos e0 = true) ∧
        ∀ (i : Nat) (e : List UInt8),
          (idx1_video_records AVI.video_tag (idx.take AVI.n_idx.toNat))[i]? = some e →
          ∃ v : video_index_entry, vi[i]? = some v ∧
            v.pos = (((str2ulong (e.drop 8)).getD 0 : Nat) : Int) + 8 ∧
            (chunk_header_at AVI.fdes.data (((str2ulong (e.drop 8)).getD 0 : Nat) : Int) e = true →
              chunk_payload_at AVI.fdes.data v.pos e = true)) ∧
    (chunk_header_at AVI.fdes.data pos e0 = false → pos + 8 ≤ AVI.fdes.data.length →
      chunk_header_at AVI.fdes.data ((pos : Int) + AVI.movi_start - 4) e0 = true →
      ∃ A2 vi, avi_parse_index AVI = some (parse_result.ret 0 A2) ∧
        A2.video_index = some vi ∧
        vi = idx1_video_entries AVI.video_tag (AVI.movi_start + 4) (idx.take AVI.n_idx.toNat) ∧
        (∃ v, vi[0]? = some v ∧ v.pos = (pos : Int) + AVI.movi_start + 4 ∧
          chunk_payload_at AVI.fdes.data v.pos e0 = true) ∧
        ∀ (i : Nat) (e : List UInt8),
          (idx1_video_records AVI.video_tag (idx.take AVI.n_idx.toNat))[i]? = some e →
          ∃ v : video_index_entry, vi[i]? = some v ∧
            v.pos = (((str2ulong (e.drop 8)).getD 0 : Nat) : Int) + AVI.movi_start + 4 ∧
            (chunk_header_at AVI.fdes.data
                ((((str2ulong (e.drop 8)).getD 0 : Nat) : Int) + AVI.movi_start - 4) e = true →
              chunk_payload_at AVI.fdes.data v.pos e = true)) := by
  obtain ⟨hv0, hty0⟩ := avi_parse_idx_type_first AVI _ e0 hfirst
  have hhead := idx1_video_records_head AVI.video_tag _ e0 hfirst
  have hvid : idx1_video_records AVI.video_tag (idx.take AVI.n_idx.toNat) ≠ [] := by
    intro h0
    rw [h0] at hhead
    cases hhead
  have he0 : 16 ≤ e0.length :=
    hlen e0 (List.mem_of_mem_take (List.mem_of_find?_eq_some hfirst))
  obtain ⟨len, hl⟩ := str2ulong_isSome (e0.drop 12) (by rw [List.length_drop]; omega)
  have hp0 : (0 : Int) ≤ (pos : Int) := Int.ofNat_nonneg _
  have hget0 : (str2ulong (e0.drop 8)).getD 0 = pos := by rw [hpos]; rfl
  constructor
  · intro ha
    obtain ⟨c1, c2, c3⟩ := (chunk_header_at_iff AVI.fdes pos e0 len hp0 hl).mp ha
    have hty : avi_parse_idx_type AVI (idx.take AVI.n_idx.toNat)
        = some (Except.ok (1, (plat_read (plat_seek_set AVI.fdes (pos : Int)).2 8).2.2)) := by
      rw [hty0, avi_parse_idx_type, if_pos hv0, hpos, hl]
      simp only []
      rw [if_neg (not_not.mpr c1), if_pos ⟨c2, c3⟩]
    obtain ⟨A2, h1, h2, _⟩ := avi_parse_index_legacy AVI idx 1 _ hidx hn hlen hod (by decide)
      hvid hty
    rw [if_pos rfl] at h2
    refine ⟨A2, _, h1, h2, rfl, ?_, ?_⟩
    · obtain ⟨v, g1, g2⟩ := idx1_video_entries_get AVI.video_tag 8 _ 0 e0 hhead
      rw [hget0] at g2
      refine ⟨v, g1, g2, ?_⟩
      rw [g2]
      unfold chunk_payload_at
      rw [Int.add_sub_cancel]
      exact ha
    · intro i e hi
      obtain ⟨v, g1, g2⟩ := idx1_video_entries_get AVI.video_tag 8 _ i e hi
      refine ⟨v, g1, g2, ?_⟩
      intro hh
      rw [g2]
      unfold chunk_payload_at
      rw [Int.add_sub_cancel]
      exact hh
  · intro ha hroom hb
    have hread : (plat_read (plat_seek_set AVI.fdes (pos : Int)).2 8).1 = 8 := by
      rw [(plat_read_at AVI.fdes pos hp0).1, List.length_take, List.length_drop]
      simp only [Int.toNat_ofNat]
      have : min 8 (AVI.fdes.data.length - pos) = 8 := by omega
      rw [this]
      rfl
    have hnot : ¬ (strncasecmp_eq (plat_read (plat_seek_set AVI.fdes (pos : Int)).2 8).2.1 e0 4
          = true
        ∧ str2ulong ((plat_read (plat_seek_set AVI.fdes (pos : Int)).2 8).2.1.drop 4)
          = some len) := by
      intro hc
      have := (chunk_header_at_iff AVI.fdes pos e0 len hp0 hl).mpr ⟨hread, hc.1, hc.2⟩
      rw [ha] at this
      cases this
    have hp2 : (0 : Int) ≤ (pos : Int) + AVI.movi_start - 4 := by
      unfold chunk_header_at at hb
      simp only [Bool.and_eq_true, decide_eq_true_eq] at hb
      exact hb.1.1.1
    have hd : (plat_read (plat_seek_set AVI.fdes (pos : Int)).2 8).2.2.data = AVI.fdes.data :=
      (plat_read_at AVI.fdes pos hp0).2.2
    obtain ⟨c1, c2, c3⟩ := (chunk_header_at_iff
      (plat_read (plat_seek_set AVI.fdes (pos : Int)).2 8).2.2
      ((pos : Int) + AVI.movi_start - 4) e0 len hp2 hl).mp (by rw [hd]; exact hb)
    have hty : avi_parse_idx_type AVI (idx.take AVI.n_idx.toNat)
        = some (Except.ok (2,
          (plat_read (plat_seek_set (plat_read (plat_seek_set AVI.fdes (pos : Int)).2 8).2.2
            ((pos : Int) + AVI.movi_start - 4)).2 8).2.2)) := by
      rw [hty0, avi_parse_idx_type, if_pos hv0, hpos, hl]
      simp only []
      rw [if_neg (not_not.mpr hread), if_neg hnot, if_neg (not_not.mpr c1), if_pos ⟨c2, c3⟩]
    obtain ⟨A2, h1, h2, _⟩ := avi_parse_index_legacy AVI idx 2 _ hidx hn hlen hod (by decide)
      hvid hty
    rw [if_neg (by decide)] at h2
    refine ⟨A2, _, h1, h2, rfl, ?_, ?_⟩
    · obtain ⟨v, g1, g2⟩ := idx1_video_entries_get AVI.video_tag (AVI.movi_start + 4) _ 0 e0
        hhead
      rw [hget0] at g2
      refine ⟨v, g1, by rw [g2]; omega, ?_⟩
      rw [g2]
      unfold chunk_payload_at
      rw [show (pos : Int) + (AVI.movi_start + 4) - 8 = (pos : Int) + AVI.movi_start - 4 from by
        omega]
      exact hb
    · intro i e hi
      obtain ⟨v, g1, g2⟩ := idx1_video_entries_get AVI.video_tag (AVI.movi_start + 4) _ i e hi
      refine ⟨v, g1, by rw [g2]; omega, ?_⟩
      intro hh
      rw [g2]
      unfold chunk_payload_at
      rw [show (((str2ulong (e.drop 8)).getD 0 : Nat) : Int) + (AVI.movi_start + 4) - 8
        = (((str2ulong (e.drop 8)).getD 0 : Nat) : Int) + AVI.movi_start - 4 from by omega]
      exact hh

theorem idx1_offset_base_detection_witness :
    (∃ A2 vi, avi_parse_index demo_idx1_absolute_avi = some (parse_result.ret 0 A2) ∧
      A2.video_index = some vi ∧ vi = [{ key := 16, pos := 24, len := 3 }] ∧
      chunk_payload_at demo_idx1_data 24
        [48, 48, 100, 98, 16, 0, 0, 0, 16, 0, 0, 0, 3, 0, 0, 0] = true) ∧
    (∃ A2 vi, avi_parse_index demo_idx1_relative_avi = some (parse_result.ret 0 A2) ∧
      A2.video_index = some vi ∧ vi = [{ key := 16, pos := 24, len := 3 }] ∧
      chunk_payload_at demo_idx1_data 24
        [48, 48, 100, 98, 16, 0, 0, 0, 8, 0, 0, 0, 3, 0, 0, 0] = true) := by
  constructor
  · obtain ⟨A2, vi, h1, h2, h3, _, _⟩ :=
      (idx1_offset_base_detection demo_idx1_absolute_avi
        [[48, 48, 100, 98, 16, 0, 0, 0, 16, 0, 0, 0, 3, 0, 0, 0]]
        [48, 48, 100, 98, 16, 0, 0, 0, 16, 0, 0, 0, 3, 0, 0, 0] 16 rfl (by decide)
        (by decide) rfl (by decide!) (by decide!)).1 (by decide!)
    refine ⟨A2, vi, h1, h2, ?_, by decide!⟩
    rw [h3]
    decide!
  · obtain ⟨A2, vi, h1, h2, h3, _, _⟩ :=
      (idx1_offset_base_detection demo_idx1_relative_avi
        [[48, 48, 100, 98, 16, 0, 0, 0, 8, 0, 0, 0, 3, 0, 0, 0]]
        [48, 48, 100, 98, 16, 0, 0, 0, 8, 0, 0, 0, 3, 0, 0, 0] 8 rfl (by decide)
        (by decide) rfl (by decide!) (by decide!)).2 (by decide!) (by decide!) (by decide!)
    refine ⟨A2, vi, h1, h2, ?_, by decide!⟩
    rw [h3]
    decide!

/-- A negative `bytes` reaches `avi_add_odml_index_entry` as an `unsigned long`
of `2^63` or more: on the handle that one frame of 3 bytes leaves, `towrite`
for `bytes = 2000000000 - 2^32` is negative and the rotation check fails,
while the chunk that `avi_add_chunk` is given has 2 000 000 000 bytes. -/
theorem odml_towrite_negative_bytes :
    odml_towrite demo_one_frame_outcome.AVI (long_to_ulong (2000000000 - 2 ^ 32))
      = some (-2294965176) ∧
    ¬ rotation_check demo_one_frame_outcome.AVI (long_to_ulong (2000000000 - 2 ^ 32)) ∧
    uint32_to_int32 (long_to_ulong (2000000000 - 2 ^ 32) % 2 ^ 32) = 2000000000 := by
  decide!

/-! ### The round trip: the scan of the top-level chunks -/

theorem plat_read_bytes (F : List UInt8) (X : Nat) (lim : Option Nat) (count : Int)
    (h0 : 0 ≤ count) (hx : (X : Int) + count ≤ (F.length : Int)) :
    plat_read { data := F, offset := X, limit := lim } count
      = (count, (F.drop X).take count.toNat,
          { data := F, offset := X + count.toNat, limit := lim }) := by
  have hlen : ((F.drop X).take count.toNat).length = count.toNat := by
    rw [List.length_take, List.length_drop]
    omega
  simp only [plat_read, if_pos h0, hlen]
  rw [Int.toNat_of_nonneg h0]

theorem plat_read_short (F : List UInt8) (X : Nat) (lim : Option Nat) (count : Int)
    (h0 : 0 < count) (hx : (F.length : Int) < (X : Int) + count) :
    (plat_read { data := F, offset := X, limit := lim } count).1 ≠ count := by
  simp only [plat_read, if_pos (le_of_lt h0), List.length_take, List.length_drop]
  omega

theorem plat_seek_cur_bytes (F : List UInt8) (X : Nat) (lim : Option Nat) (x : Int)
    (h : 0 ≤ (X : Int) + x) :
    plat_seek_cur { data := F, offset := X, limit := lim } x
      = ((X : Int) + x, { data := F, offset := ((X : Int) + x).toNat, limit := lim }) := by
  unfold plat_seek_cur
  rw [if_neg (by simp only []; omega)]

theorem scan_round_end (fuel : Nat) (st : top_scan) (F : List UInt8) (X : Nat)
    (hf : st.fdes = { data := F, offset := X }) (hx : F.length < X + 8) :
    ∃ fd, avi_parse_scan (fuel + 1) st = some (top_exit.done { st with fdes := fd }) ∧
      fd.data = F ∧ fd.limit = none := by
  rw [avi_parse_scan, hf, if_pos (plat_read_short F X none 8 (by decide) (by omega))]
  exact ⟨_, rfl, rfl, rfl⟩

theorem scan_round_chunk (fuel : Nat) (st : top_scan) (F : List UInt8) (X n0 : Nat)
    (hf : st.fdes = { data := F, offset := X }) (hx : X + 8 ≤ F.length)
    (hold : st.oldpos ≠ (X : Int) + 8)
    (hn : str2ulong (((F.drop X).take 8).drop 4) = some n0)
    (hl : strncasecmp_eq ((F.drop X).take 8) [76, 73, 83, 84] 4 = false)
    (hi : strncasecmp_eq ((F.drop X).take 8) [105, 100, 120, 49] 4 = false) :
    avi_parse_scan (fuel + 1) st
      = avi_parse_scan fuel
          { st with
            fdes := { data := F, offset := X + 8 + (PAD_EVEN (n0 : Int)).toNat }
            oldpos := (X : Int) + 8 } := by
  have hp : 0 ≤ PAD_EVEN (n0 : Int) := by
    unfold PAD_EVEN
    omega
  rw [avi_parse_scan, hf, plat_read_bytes F X none 8 (by decide) (by omega)]
  simp only []
  rw [if_neg (by simp), plat_seek_cur_bytes F _ none 0 (by omega)]
  simp only []
  rw [if_neg (by
    intro h
    apply hold
    rw [h]
    push_cast
    omega)]
  have e8 : (8 : Int).toNat = 8 := rfl
  rw [e8, hn]
  simp only []
  rw [if_neg (by rw [hl]; simp), if_neg (by rw [hi]; simp),
    plat_seek_cur_bytes F _ none _ (by omega)]
  have e1 : (((X + 8 : Nat) : Int) + PAD_EVEN (n0 : Int)).toNat
      = X + 8 + (PAD_EVEN (n0 : Int)).toNat := by omega
  have e2 : ((X + 8 : Nat) : Int) + 0 = (X : Int) + 8 := by
    push_cast
    omega
  simp only [e1, e2]

theorem scan_round_list (fuel : Nat) (st : top_scan) (F : List UInt8) (X n0 : Nat)
    (hf : st.fdes = { data := F, offset := X }) (hx : X + 12 ≤ F.length)
    (hold : st.oldpos ≠ (X : Int) + 8)
    (hn : str2ulong (((F.drop X).take 8).drop 4) = some n0)
    (hl : strncasecmp_eq ((F.drop X).take 8) [76, 73, 83, 84] 4 = true)
    (hh : strncasecmp_eq ((F.drop (X + 8)).take 4) [104, 100, 114, 108] 4 = false)
    (hm : strncasecmp_eq ((F.drop (X + 8)).take 4) [109, 111, 118, 105] 4 = false)
    (h4 : 4 ≤ PAD_EVEN (n0 : Int)) :
    avi_parse_scan (fuel + 1) st
      = avi_parse_scan fuel
          { st with
            fdes := { data := F, offset := X + 8 + (PAD_EVEN (n0 : Int)).toNat }
            oldpos := (X : Int) + 8 } := by
  rw [avi_parse_scan, hf, plat_read_bytes F X none 8 (by decide) (by omega)]
  simp only []
  rw [if_neg (by simp), plat_seek_cur_bytes F _ none 0 (by omega)]
  simp only []
  rw [if_neg (by
    intro h
    apply hold
    rw [h]
    push_cast
    omega)]
  have e8 : (8 : Int).toNat = 8 := rfl
  have e4 : (4 : Int).toNat = 4 := rfl
  rw [e8, hn]
  simp only []
  rw [if_pos hl, plat_read_bytes F _ none 4 (by decide) (by push_cast; omega)]
  simp only []
  rw [if_neg (by simp), e4, if_neg (by rw [hh]; simp), if_neg (by rw [hm]; simp),
    plat_seek_cur_bytes F _ none _ (by push_cast; omega)]
  simp only []
  rw [if_neg (by push_cast; omega)]
  have e1 : (((X + 8 + 4 : Nat) : Int) + (PAD_EVEN (n0 : Int) - 4)).toNat
      = X + 8 + (PAD_EVEN (n0 : Int)).toNat := by omega
  have e2 : ((X + 8 : Nat) : Int) + 0 = (X : Int) + 8 := by
    push_cast
    omega
  simp only [e1, e2]

theorem scan_round_hdrl (fuel : Nat) (st : top_scan) (F : List UInt8) (X n0 : Nat)
    (hf : st.fdes = { data := F, offset := X })
    (hx : (X : Int) + 8 + PAD_EVEN (n0 : Int) ≤ (F.length : Int))
    (hold : st.oldpos ≠ (X : Int) + 8)
    (hn : str2ulong (((F.drop X).take 8).drop 4) = some n0)
    (hl : strncasecmp_eq ((F.drop X).take 8) [76, 73, 83, 84] 4 = true)
    (hh : strncasecmp_eq ((F.drop (X + 8)).take 4) [104, 100, 114, 108] 4 = true)
    (h4 : 4 ≤ PAD_EVEN (n0 : Int)) :
    avi_parse_scan (fuel + 1) st
      = avi_parse_scan fuel
          { st with
            fdes := { data := F, offset := X + 8 + (PAD_EVEN (n0 : Int)).toNat }
            oldpos := (X : Int) + 8
            hdrl_data := some ((F.drop (X + 12)).take (PAD_EVEN (n0 : Int) - 4).toNat)
            hdrl_len := PAD_EVEN (n0 : Int) - 4
            header_offset := (X : Int) + 12 } := by
  rw [avi_parse_scan, hf, plat_read_bytes F X none 8 (by decide) (by omega)]
  simp only []
  rw [if_neg (by simp), plat_seek_cur_bytes F _ none 0 (by omega)]
  simp only []
  rw [if_neg (by
    intro h
    apply hold
    rw [h]
    push_cast
    omega)]
  have e8 : (8 : Int).toNat = 8 := rfl
  have e4 : (4 : Int).toNat = 4 := rfl
  rw [e8, hn]
  simp only []
  rw [if_pos hl, plat_read_bytes F _ none 4 (by decide) (by push_cast; omega)]
  simp only []
  rw [if_neg (by simp), e4, if_pos hh, if_neg (by simp [plat_malloc_ok]; omega),
    plat_read_bytes F _ none _ (by omega) (by push_cast; omega)]
  simp only []
  rw [if_neg (by simp), plat_seek_cur_bytes F _ none 0 (by omega)]
  have e1 : X + 8 + 4 + (PAD_EVEN (n0 : Int) - 4).toNat
      = X + 8 + (PAD_EVEN (n0 : Int)).toNat := by omega
  have e2 : ((X + 8 : Nat) : Int) + 0 = (X : Int) + 8 := by
    push_cast
    omega
  have e3 : ((X + 8 + 4 : Nat) : Int) + 0 = (X : Int) + 12 := by
    push_cast
    omega
  have e5 : X + 8 + 4 = X + 12 := by omega
  simp only [e1, e2, e3, e5]

theorem scan_round_movi (fuel : Nat) (st : top_scan) (F : List UInt8) (X n0 : Nat)
    (hf : st.fdes = { data := F, offset := X }) (hx : X + 12 ≤ F.length)
    (hold : st.oldpos ≠ (X : Int) + 8)
    (hn : str2ulong (((F.drop X).take 8).drop 4) = some n0)
    (hl : strncasecmp_eq ((F.drop X).take 8) [76, 73, 83, 84] 4 = true)
    (hh : strncasecmp_eq ((F.drop (X + 8)).take 4) [104, 100, 114, 108] 4 = false)
    (hm : strncasecmp_eq ((F.drop (X + 8)).take 4) [109, 111, 118, 105] 4 = true)
    (h4 : 4 ≤ PAD_EVEN (n0 : Int)) :
    avi_parse_scan (fuel + 1) st
      = avi_parse_scan fuel
          { st with
            fdes := { data := F, offset := X + 8 + (PAD_EVEN (n0 : Int)).toNat }
            oldpos := (X : Int) + 8
            movi_start := (X : Int) + 12 } := by
  rw [avi_parse_scan, hf, plat_read_bytes F X none 8 (by decide) (by omega)]
  simp only []
  rw [if_neg (by simp), plat_seek_cur_bytes F _ none 0 (by omega)]
  simp only []
  rw [if_neg (by
    intro h
    apply hold
    rw [h]
    push_cast
    omega)]
  have e8 : (8 : Int).toNat = 8 := rfl
  have e4 : (4 : Int).toNat = 4 := rfl
  rw [e8, hn]
  simp only []
  rw [if_pos hl, plat_read_bytes F _ none 4 (by decide) (by push_cast; omega)]
  simp only []
  rw [if_neg (by simp), e4, if_neg (by rw [hh]; simp), if_pos hm,
    plat_seek_cur_bytes F _ none _ (by push_cast; omega)]
  simp only []
  rw [if_neg (by push_cast; omega), plat_seek_cur_bytes F _ none 0 (by omega)]
  have e1 : (((X + 8 + 4 : Nat) : Int) + (PAD_EVEN (n0 : Int) - 4)).toNat
      = X + 8 + (PAD_EVEN (n0 : Int)).toNat := by omega
  have e2 : ((X + 8 : Nat) : Int) + 0 = (X : Int) + 8 := by
    push_cast
    omega
  have e3 : ((X + 8 + 4 : Nat) : Int) + 0 = (X : Int) + 12 := by
    push_cast
    omega
  simp only [e1, e2, e3]

theorem scan_round_idx1 (fuel : Nat) (st : top_scan) (F : List UInt8) (X n0 : Nat)
    (hf : st.fdes = { data := F, offset := X })
    (hx : (X : Int) + 8 + PAD_EVEN (n0 : Int) ≤ (F.length : Int))
    (hold : st.oldpos ≠ (X : Int) + 8)
    (hn : str2ulong (((F.drop X).take 8).drop 4) = some n0)
    (hl : strncasecmp_eq ((F.drop X).take 8) [76, 73, 83, 84] 4 = false)
    (hi : strncasecmp_eq ((F.drop X).take 8) [105, 100, 120, 49] 4 = true) :
    avi_parse_scan (fuel + 1) st
      = avi_parse_scan fuel
          { st with
            fdes := { data := F, offset := X + 8 + (PAD_EVEN (n0 : Int)).toNat }
            oldpos := (X : Int) + 8
            idx := some (idx_records (PAD_EVEN (n0 : Int) / 16).toNat
              ((F.drop (X + 8)).take (PAD_EVEN (n0 : Int)).toNat))
            n_idx := PAD_EVEN (n0 : Int) / 16
            max_idx := PAD_EVEN (n0 : Int) / 16 } := by
  have hp : 0 ≤ PAD_EVEN (n0 : Int) := by
    unfold PAD_EVEN
    omega
  rw [avi_parse_scan, hf, plat_read_bytes F X none 8 (by decide) (by omega)]
  simp only []
  rw [if_neg (by simp), plat_seek_cur_bytes F _ none 0 (by omega)]
  simp only []
  rw [if_neg (by
    intro h
    apply hold
    rw [h]
    push_cast
    omega)]
  have e8 : (8 : Int).toNat = 8 := rfl
  rw [e8, hn]
  simp only []
  rw [if_neg (by rw [hl]; simp), if_pos hi,
    plat_read_bytes F _ none _ hp (by push_cast; omega)]
  simp only []
  rw [if_neg (by simp)]
  have e2 : ((X + 8 : Nat) : Int) + 0 = (X : Int) + 8 := by
    push_cast
    omega
  simp only [e2]

theorem bytes_at_append (F : List UInt8) (x : Nat) (a b : List UInt8) :
    bytes_at F x (a ++ b) ↔ bytes_at F x a ∧ bytes_at F (x + a.length) b := by
  unfold bytes_at
  rw [List.length_append, List.take_add, List.drop_drop]
  constructor
  · intro h
    have hl := congrArg List.length h
    simp only [List.length_append, List.length_take, List.length_drop] at hl
    have h1 : ((F.drop x).take a.length).length = a.length := by
      rw [List.length_take, List.length_drop]
      omega
    exact List.append_inj h h1
  · rintro ⟨h1, h2⟩
    rw [h1, h2]

theorem bytes_at_length (F : List UInt8) (x : Nat) (s : List UInt8) (h : bytes_at F x s)
    (hs : s ≠ []) : x + s.length ≤ F.length := by
  unfold bytes_at at h
  have hl := congrArg List.length h
  rw [List.length_take, List.length_drop] at hl
  have : 0 < s.length := List.length_pos.mpr hs
  omega

theorem bytes_at_take (F : List UInt8) (x : Nat) (s : List UInt8) (h : bytes_at F x s) :
    (F.drop x).take s.length = s := h

theorem idx_records_flatten :
    ∀ (recs : List (List UInt8)), (∀ r ∈ recs, r.length = 16) →
      idx_records recs.length recs.flatten = recs := by
  intro recs
  induction recs with
  | nil => intro _; rfl
  | cons r rest ih =>
    intro h
    have hr : r.length = 16 := h r (List.mem_cons_self _ _)
    simp only [List.length_cons, List.flatten_cons, idx_records]
    rw [List.take_append_of_le_length (by omega), List.take_of_length_le (by omega),
      List.drop_append_of_le_length (by omega), List.drop_of_length_le (by omega),
      List.nil_append, ih (fun x hx => h x (List.mem_cons_of_mem _ hx))]

theorem strncasecmp_eq_append :
    ∀ (n : Nat) (a rest t : List UInt8), n ≤ a.length →
      strncasecmp_eq (a ++ rest) t n = strncasecmp_eq a t n := by
  intro n
  induction n with
  | zero =>
    intro a rest t _
    simp [strncasecmp_eq]
  | succ n ih =>
    intro a rest t h
    cases a with
    | nil => simp at h
    | cons c a2 =>
      cases t with
      | nil => simp [strncasecmp_eq]
      | cons d t2 =>
        have e := ih a2 rest t2 (by simpa using h)
        show (if tolower c = tolower d then
            (if c = 0 then true else strncasecmp_eq (a2 ++ rest) t2 n) else false) = _
        rw [e]
        rfl

theorem chunk_head_facts (F : List UInt8) (X : Nat) (tag : List UInt8) (v : Int)
    (t : List UInt8) (htag : tag.length = 4) (h : bytes_at F X (tag ++ long2str v)) :
    X + 8 ≤ F.length ∧
    strncasecmp_eq ((F.drop X).take 8) t 4 = strncasecmp_eq tag t 4 ∧
    str2ulong (((F.drop X).take 8).drop 4) = some (v % 2 ^ 32).toNat := by
  have hl : (tag ++ long2str v).length = 8 := by
    rw [List.length_append, htag, long2str_length]
  have hb := bytes_at_length F X _ h (by
    intro h0
    rw [h0] at hl
    cases hl)
  have ht : (F.drop X).take 8 = tag ++ long2str v := by
    have := bytes_at_take F X _ h
    rw [hl] at this
    exact this
  refine ⟨by omega, ?_, ?_⟩
  · rw [ht, strncasecmp_eq_append 4 tag _ t (by omega)]
  · rw [ht, List.drop_append_of_le_length (by omega), List.drop_of_length_le (by omega),
      List.nil_append]
    have := str2ulong_long2str_append v []
    rw [List.append_nil] at this
    exact this

theorem flatten_length_16 (recs : List (List UInt8)) (h : ∀ r ∈ recs, r.length = 16) :
    recs.flatten.length = 16 * recs.length := by
  induction recs with
  | nil => rfl
  | cons r rest ih =>
    rw [List.flatten_cons, List.length_append, List.length_cons,
      ih (fun x hx => h x (List.mem_cons_of_mem _ hx)), h r (List.mem_cons_self _ _)]
    omega

theorem avi_parse_scan_layout (F hdrl : List UInt8) (P : Nat) (recs : List (List UInt8))
    (L : avi_file_layout F hdrl P recs) :
    ∃ fd, avi_parse_scan (F.length + 1) { fdes := { data := F, offset := 12 } }
        = some (top_exit.done
            { fdes := fd, oldpos := (P : Int) + 8, hdrl_data := some hdrl
              hdrl_len := (hdrl.length : Int), header_offset := 24, movi_start := 2048
              idx := some recs, n_idx := (recs.length : Int), max_idx := (recs.length : Int) }) ∧
      fd.data = F ∧ fd.limit = none := by
  have hlen := L.file_end
  have hP := L.movi_end
  have hsmall := L.small
  have hroom := L.hdrl_room
  have heven := L.hdrl_even
  have hPe := L.movi_even
  obtain ⟨k, hk⟩ : ∃ k, F.length + 1 = k + 6 := ⟨F.length - 5, by omega⟩
  rw [hk]
  -- the list hdrl
  obtain ⟨a1, a2⟩ := (bytes_at_append F 12 _ _).mp L.hdrl_list
  obtain ⟨_, c1, n1⟩ := chunk_head_facts F 12 [76, 73, 83, 84] _ [76, 73, 83, 84] rfl a1
  have v1 : (((hdrl.length : Int) + 4) % 2 ^ 32).toNat = hdrl.length + 4 := by omega
  have p1 : PAD_EVEN ((hdrl.length + 4 : Nat) : Int) = (hdrl.length : Int) + 4 := by
    unfold PAD_EVEN
    push_cast
    omega
  rw [v1] at n1
  have t1 : (F.drop (12 + 8)).take 4 = [104, 100, 114, 108] := a2
  have d1 : (F.drop (12 + 12)).take ((hdrl.length : Int) + 4 - 4).toNat = hdrl := by
    have := bytes_at_take F 24 hdrl L.hdrl_data
    rw [show ((hdrl.length : Int) + 4 - 4).toNat = hdrl.length from by omega]
    exact this
  have hb1 := bytes_at_length F 24 hdrl L.hdrl_data
  rw [scan_round_hdrl (k + 5) _ F 12 (hdrl.length + 4) rfl (by rw [p1]; push_cast; omega)
    (by show (-1 : Int) ≠ ((12 : Nat) : Int) + 8; decide) n1 (by rw [c1]; decide) (by rw [t1]; decide) (by rw [p1]; omega)]
  simp only [p1, d1]
  -- the list INFO
  obtain ⟨a3, a4⟩ := (bytes_at_append F (24 + hdrl.length) _ _).mp L.info_list
  obtain ⟨b3, c3, n3⟩ := chunk_head_facts F (24 + hdrl.length) [76, 73, 83, 84] 28
    [76, 73, 83, 84] rfl a3
  have t3 : (F.drop (24 + hdrl.length + 8)).take 4 = [73, 78, 70, 79] := a4
  have b4 := bytes_at_length F _ _ a4 (by decide)
  have e1 : 12 + 8 + ((hdrl.length : Int) + 4).toNat = 24 + hdrl.length := by omega
  rw [e1, scan_round_list (k + 4) _ F (24 + hdrl.length) 28 rfl
    (by simp only [List.length_cons, List.length_nil] at b4; omega)
    (by show ((12 : Nat) : Int) + 8 ≠ _; push_cast; omega) n3 (by rw [c3]; decide)
    (by rw [t3]; decide) (by rw [t3]; decide) (by decide)]
  simp only []
  -- the chunk JUNK
  obtain ⟨b5, c5, n5⟩ := chunk_head_facts F (60 + hdrl.length) [74, 85, 78, 75] _
    [76, 73, 83, 84] rfl L.junk
  obtain ⟨_, c5b, _⟩ := chunk_head_facts F (60 + hdrl.length) [74, 85, 78, 75]
    (1968 - (hdrl.length : Int)) [105, 100, 120, 49] rfl L.junk
  have v5 : ((1968 - (hdrl.length : Int)) % 2 ^ 32).toNat = 1968 - hdrl.length := by omega
  have p5 : PAD_EVEN ((1968 - hdrl.length : Nat) : Int) = 1968 - (hdrl.length : Int) := by
    unfold PAD_EVEN
    omega
  have p28 : PAD_EVEN ((28 : Nat) : Int) = 28 := by decide
  rw [v5] at n5
  have e2 : 24 + hdrl.length + 8 + (PAD_EVEN ((28 : Nat) : Int)).toNat = 60 + hdrl.length := by
    rw [p28]
    omega
  rw [e2, scan_round_chunk (k + 3) _ F (60 + hdrl.length) (1968 - hdrl.length) rfl b5
    (by show ((24 + hdrl.length : Nat) : Int) + 8 ≠ _; push_cast; omega) n5
    (by rw [c5]; decide) (by rw [c5b]; decide)]
  simp only []
  -- the list movi
  obtain ⟨a7, a8⟩ := (bytes_at_append F 2036 _ _).mp L.movi_list
  obtain ⟨b7, c7, n7⟩ := chunk_head_facts F 2036 [76, 73, 83, 84] _ [76, 73, 83, 84] rfl a7
  have t7 : (F.drop (2036 + 8)).take 4 = [109, 111, 118, 105] := a8
  have v7 : (((P : Int) - 2048 + 4) % 2 ^ 32).toNat = P - 2044 := by omega
  have p7 : PAD_EVEN ((P - 2044 : Nat) : Int) = (P : Int) - 2044 := by
    unfold PAD_EVEN
    omega
  rw [v7] at n7
  have e3 : 60 + hdrl.length + 8 + (PAD_EVEN ((1968 - hdrl.length : Nat) : Int)).toNat = 2036 := by
    rw [p5]
    omega
  rw [e3, scan_round_movi (k + 2) _ F 2036 (P - 2044) rfl (by omega)
    (by show ((60 + hdrl.length : Nat) : Int) + 8 ≠ _; push_cast; omega) n7
    (by rw [c7]; decide) (by rw [t7]; decide) (by rw [t7]; decide) (by rw [p7]; omega)]
  simp only []
  -- the chunk idx1
  obtain ⟨a9, a10⟩ := (bytes_at_append F P _ _).mp L.idx1
  obtain ⟨b9, c9, n9⟩ := chunk_head_facts F P [105, 100, 120, 49] _ [76, 73, 83, 84] rfl a9
  obtain ⟨_, c9b, _⟩ := chunk_head_facts F P [105, 100, 120, 49]
    (16 * (recs.length : Int)) [105, 100, 120, 49] rfl a9
  have v9 : ((16 * (recs.length : Int)) % 2 ^ 32).toNat = 16 * recs.length := by omega
  have p9 : PAD_EVEN ((16 * recs.length : Nat) : Int) = 16 * (recs.length : Int) := by
    unfold PAD_EVEN
    push_cast
    omega
  rw [v9] at n9
  have hfl : recs.flatten.length = 16 * recs.length := flatten_length_16 recs L.recs_16
  have d9 : (F.drop (P + 8)).take (16 * (recs.length : Int)).toNat = recs.flatten := by
    have := bytes_at_take F _ _ a10
    rw [hfl] at this
    rw [show (16 * (recs.length : Int)).toNat = 16 * recs.length from by omega]
    exact this
  have e4 : 2036 + 8 + (PAD_EVEN ((P - 2044 : Nat) : Int)).toNat = P := by
    rw [p7]
    omega
  rw [e4, scan_round_idx1 (k + 1) _ F P (16 * recs.length) rfl (by rw [p9]; omega)
    (by show ((2036 : Nat) : Int) + 8 ≠ _; push_cast; omega) n9 (by rw [c9]; decide)
    (by rw [c9b]; decide)]
  simp only [p9, d9]
  have q9 : (16 * (recs.length : Int) / 16) = (recs.length : Int) := by omega
  have q10 : ((recs.length : Int)).toNat = recs.length := by omega
  rw [q9, q10, idx_records_flatten recs L.recs_16]
  -- the end of the file
  rw [show (hdrl.length : Int) + 4 - 4 = (hdrl.length : Int) from by omega,
    show ((12 : Nat) : Int) + 12 = 24 from rfl, show ((2036 : Nat) : Int) + 12 = 2048 from rfl]
  obtain ⟨fd, hfd, f1, f2⟩ := scan_round_end k
    { fdes := { data := F, offset := P + 8 + (16 * (recs.length : Int)).toNat }
      oldpos := (P : Int) + 8, hdrl_data := some hdrl, hdrl_len := (hdrl.length : Int)
      header_offset := 24, movi_start := 2048
      idx := some recs, n_idx := (recs.length : Int), max_idx := (recs.length : Int) }
    F (P + 8 + (16 * (recs.length : Int)).toNat) rfl (by omega)
  exact ⟨fd, hfd, f1, f2⟩

/-! ### The round trip: the bytes of the header -/

theorem header_store_holds (P src : List UInt8) (h : P.length + src.length ≤ 2048) :
    header_store (P ++ List.replicate (2048 - P.length) 0) (P.length : Int) src
      = some ((P ++ src) ++ List.replicate (2048 - (P ++ src).length) 0) := by
  unfold header_store
  rw [if_pos ⟨Int.natCast_nonneg _, by simp only [HEADERBYTES]; omega⟩, Int.toNat_natCast]
  have e1 : (P ++ List.replicate (2048 - P.length) (0 : UInt8)).take P.length = P :=
    List.take_left _ _
  have e2 : (P ++ List.replicate (2048 - P.length) (0 : UInt8)).drop (P.length + src.length)
      = List.replicate (2048 - (P ++ src).length) 0 := by
    rw [List.drop_append_eq_append_drop, List.drop_of_length_le (by omega), List.nil_append,
      List.drop_replicate, List.length_append]
    congr 1
    omega
  rw [e1, e2]

theorem header_store_patch (X a Y b : List UInt8) (hab : a.length = b.length)
    (hlen : X.length + b.length ≤ 2048) :
    header_store (X ++ a ++ Y) (X.length : Int) b = some (X ++ b ++ Y) := by
  unfold header_store
  rw [if_pos ⟨Int.natCast_nonneg _, by simp only [HEADERBYTES]; omega⟩, Int.toNat_natCast]
  have e1 : (X ++ a ++ Y).take X.length = X := by
    rw [List.append_assoc]
    exact List.take_left _ _
  have e2 : (X ++ a ++ Y).drop (X.length + b.length) = Y := by
    rw [← hab, ← List.length_append]
    exact List.drop_left _ _
  rw [e1, e2]

theorem out_step_bytes_length (s : out_step) (hs : s.plain = true) :
    (s.bytes.length : Int) = s.size := by
  cases s <;> simp [out_step.plain] at hs <;> simp [out_step.bytes, out_step.size, long2str]
  omega

theorem out_step_plain_holds (s : out_step) (hs : s.plain = true) (h : header_buf)
    (P : List UInt8) (hh : header_holds h P) (hlen : P.length + s.bytes.length ≤ 2048) :
    ∃ h2, s.apply h = some h2 ∧ header_holds h2 (P ++ s.bytes) ∧
      h2.hdrl_start = h.hdrl_start ∧ h2.strl_start = h.strl_start := by
  obtain ⟨h1, h2, h3⟩ := hh
  have key : ∀ (src : List UInt8) (k : Int), k = (src.length : Int) →
      P.length + src.length ≤ 2048 →
      ∃ x, (header_store h.AVI_header h.nhb src).map
          (fun b => ({ h with AVI_header := b, nhb := h.nhb + k } : header_buf)) = some x ∧
        header_holds x (P ++ src) ∧ x.hdrl_start = h.hdrl_start ∧
        x.strl_start = h.strl_start := by
    intro src k hk hl
    rw [h1, h2, header_store_holds P src hl]
    refine ⟨_, rfl, ⟨rfl, ?_, ?_⟩, rfl, rfl⟩
    · show (P.length : Int) + k = _
      rw [hk, List.length_append]
      push_cast
      rfl
    · rw [List.length_append]
      exact hl
  cases s with
  | OUT4CC s =>
    simp only [out_step.plain, decide_eq_true_eq] at hs
    simp only [out_step.bytes] at hlen ⊢
    have hl4 : (s.take 4).length = 4 := by rw [List.length_take]; omega
    rw [hl4] at hlen
    simp only [out_step.apply]
    rw [if_pos (by rw [h2]; simp only [HEADERBYTES]; omega), if_neg (by omega)]
    exact key (s.take 4) 4 (by rw [hl4]; rfl) (by rw [hl4]; exact hlen)
  | OUTLONG n =>
    simp only [out_step.bytes] at hlen ⊢
    have hl4 : (long2str n).length = 4 := rfl
    rw [hl4] at hlen
    simp only [out_step.apply]
    rw [if_pos (by rw [h2]; simp only [HEADERBYTES]; omega)]
    exact key (long2str n) 4 rfl (by rw [hl4]; exact hlen)
  | OUTSHRT n =>
    simp only [out_step.bytes, List.length_cons, List.length_nil] at hlen
    simp only [out_step.apply, out_step.bytes]
    rw [if_pos (by rw [h2]; simp only [HEADERBYTES]; omega)]
    exact key _ 2 rfl (by simp only [List.length_cons, List.length_nil]; omega)
  | OUTCHR n =>
    simp only [out_step.bytes, List.length_cons, List.length_nil] at hlen
    simp only [out_step.apply, out_step.bytes]
    rw [if_pos (by rw [h2]; simp only [HEADERBYTES]; omega)]
    exact key _ 1 rfl (by simp only [List.length_cons, List.length_nil]; omega)
  | OUTMEM d s => simp [out_step.plain] at hs
  | set_hdrl_start => simp [out_step.plain] at hs
  | set_strl_start => simp [out_step.plain] at hs
  | finish_strl => simp [out_step.plain] at hs
  | finish_hdrl => simp [out_step.plain] at hs

theorem steps_bytes_cons (s : out_step) (l : List out_step) :
    steps_bytes (s :: l) = s.bytes ++ steps_bytes l := rfl

theorem steps_bytes_append (a b : List out_step) :
    steps_bytes (a ++ b) = steps_bytes a ++ steps_bytes b := by
  unfold steps_bytes
  rw [List.map_append, List.flatten_append]

theorem out_steps_plain_holds :
    ∀ (l : List out_step), (∀ s ∈ l, s.plain = true) → ∀ (h : header_buf) (P : List UInt8),
      header_holds h P → P.length + (steps_bytes l).length ≤ 2048 →
      ∃ h2, out_steps l h = some h2 ∧ header_holds h2 (P ++ steps_bytes l) ∧
        h2.hdrl_start = h.hdrl_start ∧ h2.strl_start = h.strl_start := by
  intro l
  induction l with
  | nil =>
    intro _ h P hh _
    refine ⟨h, rfl, ?_, rfl, rfl⟩
    rw [show steps_bytes [] = [] from rfl, List.append_nil]
    exact hh
  | cons s rest ih =>
    intro hp h P hh hlen
    rw [steps_bytes_cons, List.length_append] at hlen
    obtain ⟨h1, e1, hh1, a1, b1⟩ := out_step_plain_holds s (hp s (List.mem_cons_self _ _)) h P hh
      (by omega)
    obtain ⟨h2, e2, hh2, a2, b2⟩ := ih (fun x hx => hp x (List.mem_cons_of_mem _ hx)) h1
      (P ++ s.bytes) hh1 (by rw [List.length_append]; omega)
    refine ⟨h2, ?_, ?_, by rw [a2, a1], by rw [b2, b1]⟩
    · show (match s.apply h with
        | none => none
        | some h1 => out_steps rest h1) = _
      rw [e1]
      exact e2
    · rw [steps_bytes_cons, ← List.append_assoc]
      exact hh2

theorem out_steps_strl_holds (body : List out_step) (hp : ∀ s ∈ body, s.plain = true)
    (h : header_buf) (P : List UInt8) (hh : header_holds h P)
    (hlen : P.length + 8 + (steps_bytes body).length ≤ 2048) :
    ∃ h2, out_steps ([out_step.OUT4CC [76, 73, 83, 84], out_step.OUTLONG 0,
          out_step.set_strl_start] ++ body ++ [out_step.finish_strl]) h = some h2 ∧
      header_holds h2
        (P ++ ([76, 73, 83, 84] ++ long2str ((steps_bytes body).length : Int) ++ steps_bytes body)) ∧
      h2.hdrl_start = h.hdrl_start := by
  obtain ⟨h1, e1, hh1, a1, _⟩ := out_steps_plain_holds
    [out_step.OUT4CC [76, 73, 83, 84], out_step.OUTLONG 0] (by
      intro s hs
      simp only [List.mem_cons, List.mem_singleton, List.not_mem_nil, or_false] at hs
      rcases hs with rfl | rfl <;> rfl) h P hh (by
      show P.length + 8 ≤ 2048
      omega)
  have hP1 : (P ++ steps_bytes [out_step.OUT4CC [76, 73, 83, 84], out_step.OUTLONG 0]).length
      = P.length + 8 := by
    rw [List.length_append]
    rfl
  obtain ⟨h2, e2, hh2, a2, b2⟩ := out_steps_plain_holds body hp
    { h1 with strl_start := h1.nhb }
    (P ++ steps_bytes [out_step.OUT4CC [76, 73, 83, 84], out_step.OUTLONG 0]) hh1 (by
      rw [hP1]
      exact hlen)
  have hs2 : h2.strl_start = (P.length : Int) + 8 := by
    rw [b2]
    show h1.nhb = _
    rw [hh1.2.1, hP1]
    push_cast
    rfl
  have hn2 : h2.nhb = (P.length : Int) + 8 + ((steps_bytes body).length : Int) := by
    rw [hh2.2.1, List.length_append, hP1]
    push_cast
    rfl
  have hsplit : [out_step.OUT4CC [76, 73, 83, 84], out_step.OUTLONG 0,
        out_step.set_strl_start] ++ body ++ [out_step.finish_strl]
      = [out_step.OUT4CC [76, 73, 83, 84], out_step.OUTLONG 0]
        ++ (out_step.set_strl_start :: (body ++ [out_step.finish_strl])) := by
    simp only [List.cons_append, List.nil_append]
  have hset : out_steps (out_step.set_strl_start :: (body ++ [out_step.finish_strl])) h1
      = out_steps (body ++ [out_step.finish_strl]) { h1 with strl_start := h1.nhb } := rfl
  have hfin : out_steps [out_step.finish_strl] h2
      = (header_store h2.AVI_header (h2.strl_start - 4)
          (long2str (h2.nhb - h2.strl_start))).map
        (fun b => ({ h2 with AVI_header := b } : header_buf)) := by
    show (match out_step.finish_strl.apply h2 with
      | none => none
      | some x => out_steps [] x) = _
    simp only [out_step.apply]
    cases header_store h2.AVI_header (h2.strl_start - 4) (long2str (h2.nhb - h2.strl_start)) <;>
      rfl
  have hX : (P ++ [76, 73, 83, 84]).length = P.length + 4 := by
    rw [List.length_append]
    rfl
  have hhdr : h2.AVI_header
      = (P ++ [76, 73, 83, 84]) ++ long2str 0
        ++ (steps_bytes body ++ List.replicate (2048 - (P.length + 8
          + (steps_bytes body).length)) 0) := by
    rw [hh2.1, List.length_append, hP1]
    simp only [steps_bytes, List.map_cons, List.map_nil, List.flatten_cons, List.flatten_nil,
      out_step.bytes, List.append_nil, List.append_assoc, List.take]
  rw [hsplit, out_steps_append, e1, Option.some_bind, hset, out_steps_append, e2,
    Option.some_bind, hfin, hs2, hn2, hhdr,
    show (P.length : Int) + 8 - 4 = ((P ++ [76, 73, 83, 84]).length : Int) from by
      rw [hX]
      push_cast
      omega,
    show (P.length : Int) + 8 + ((steps_bytes body).length : Int) - ((P.length : Int) + 8)
      = ((steps_bytes body).length : Int) from by omega,
    header_store_patch (P ++ [76, 73, 83, 84]) (long2str 0) _
      (long2str ((steps_bytes body).length : Int)) rfl (by
        rw [hX]
        have : (long2str ((steps_bytes body).length : Int)).length = 4 := rfl
        omega)]
  refine ⟨_, rfl, ⟨?_, ?_, ?_⟩, ?_⟩
  · show (P ++ [76, 73, 83, 84]) ++ long2str ((steps_bytes body).length : Int)
        ++ (steps_bytes body ++ List.replicate _ 0) = _
    have hk : (P ++ ([76, 73, 83, 84] ++ long2str ((steps_bytes body).length : Int)
        ++ steps_bytes body)).length = P.length + 8 + (steps_bytes body).length := by
      simp only [List.length_append, List.length_cons, List.length_nil, long2str]
      omega
    rw [hk]
    simp only [List.append_assoc]
  · show (P.length : Int) + 8 + ((steps_bytes body).length : Int) = _
    simp only [List.length_append, List.length_cons, List.length_nil, long2str]
    push_cast
    omega
  · simp only [List.length_append, List.length_cons, List.length_nil, long2str]
    omega
  · show h2.hdrl_start = _
    rw [a2]
    exact a1

theorem close_avih_steps_plain (A : avi_t) (hasIndex : Bool) :
    ∀ s ∈ close_avih_steps A hasIndex, s.plain = true := by
  intro s hs
  simp only [close_avih_steps, avi_close_header_vids, List.drop, List.take, List.mem_cons,
    List.not_mem_nil, or_false] at hs
  rcases hs with h | h | h | h | h | h | h | h | h | h | h | h | h | h | h | h <;> rw [h] <;> rfl

theorem close_avih_steps_length (A : avi_t) (hasIndex : Bool) :
    (steps_bytes (close_avih_steps A hasIndex)).length = 64 := rfl

theorem close_vids_steps_plain (A : avi_t) (hx : A.extradata = none)
    (hc : 4 ≤ A.compressor.length) : ∀ s ∈ close_vids_steps A, s.plain = true := by
  intro s hs
  simp only [close_vids_steps, avi_close_header_vids, header_vids_strf, hx, List.drop,
    List.append_nil, List.cons_append, List.nil_append, List.mem_cons,
    List.not_mem_nil, or_false] at hs
  rcases hs with h | h | h | h | h | h | h | h | h | h | h | h | h | h | h | h | h | h | h | h
    | h | h | h | h | h | h | h | h | h | h <;> rw [h] <;>
    first
      | rfl
      | (simp only [out_step.plain, decide_eq_true_eq]; exact hc)

theorem steps_bytes_length_plain :
    ∀ (l : List out_step), (∀ s ∈ l, s.plain = true) →
      ((steps_bytes l).length : Int) = steps_size l := by
  intro l
  induction l with
  | nil => intro _; rfl
  | cons s rest ih =>
    intro hp
    rw [steps_bytes_cons, List.length_append]
    push_cast
    rw [ih (fun x hx => hp x (List.mem_cons_of_mem _ hx)),
      out_step_bytes_length s (hp s (List.mem_cons_self _ _))]
    simp only [steps_size, List.map_cons, List.sum_cons]

theorem close_vids_steps_length (A : avi_t) (hx : A.extradata = none)
    (hc : 4 ≤ A.compressor.length) : (steps_bytes (close_vids_steps A)).length = 116 := by
  have h := steps_bytes_length_plain _ (close_vids_steps_plain A hx hc)
  have h2 : steps_size (close_vids_steps A) = 116 := by
    simp only [close_vids_steps, avi_close_header_vids, header_vids_strf, hx, List.drop,
      List.append_nil]
    rfl
  omega

theorem close_auds_steps_plain (A : avi_t) (j : Nat) :
    ∀ s ∈ close_auds_steps A j, s.plain = true := by
  have h : (close_auds_steps A j).all out_step.plain = true := by
    simp only [close_auds_steps, avi_close_header_auds_strh, avi_close_header_auds_strf,
      avi_close_header_auds_strf_payload]
    split_ifs <;> rfl
  exact List.all_eq_true.mp h

theorem close_auds_steps_length (A : avi_t) (j : Nat) :
    ((steps_bytes (close_auds_steps A j)).length : Int)
      = 76 + avi_close_header_auds_strf_len A j := by
  rw [steps_bytes_length_plain _ (close_auds_steps_plain A j)]
  simp only [close_auds_steps, avi_close_header_auds_strh, avi_close_header_auds_strf,
    avi_close_header_auds_strf_payload, avi_close_header_auds_strf_len]
  split_ifs <;> rfl

theorem avi_close_header_auds_strf_len_cases (A : avi_t) (j : Nat) :
    avi_close_header_auds_strf_len A j = 18 ∨ avi_close_header_auds_strf_len A j = 30 := by
  unfold avi_close_header_auds_strf_len
  split_ifs <;> simp

theorem close_auds_list_length (A : avi_t) (j : Nat) :
    (close_list_bytes (close_auds_steps A j)).length = 102 ∨
      (close_list_bytes (close_auds_steps A j)).length = 114 := by
  have h := close_auds_steps_length A j
  have h2 : (close_list_bytes (close_auds_steps A j)).length
      = 8 + (steps_bytes (close_auds_steps A j)).length := by
    simp only [close_list_bytes, List.length_append, List.length_cons, List.length_nil, long2str]
  rcases avi_close_header_auds_strf_len_cases A j with h3 | h3 <;> rw [h3] at h <;> omega

theorem close_auds_flatten_length (A : avi_t) :
    ∀ (js : List Nat),
      ((js.map (fun j => close_list_bytes (close_auds_steps A j))).flatten).length
        ≤ 114 * js.length := by
  intro js
  induction js with
  | nil => simp
  | cons j rest ih =>
    rw [List.map_cons, List.flatten_cons, List.length_append, List.length_cons]
    rcases close_auds_list_length A j with h | h <;> omega

theorem avi_close_header_auds_all_holds (A : avi_t) (hz : A.is_opendml = 0) :
    ∀ (js : List Nat) (h : header_buf) (P : List UInt8), header_holds h P →
      P.length + 114 * js.length ≤ 2048 →
      ∃ l h2, avi_close_header_auds_all A js = some l ∧ out_steps l h = some h2 ∧
        header_holds h2
          (P ++ (js.map (fun j => close_list_bytes (close_auds_steps A j))).flatten) ∧
        h2.hdrl_start = h.hdrl_start := by
  intro js
  induction js with
  | nil =>
    intro h P hh _
    refine ⟨[], h, rfl, rfl, ?_, rfl⟩
    rw [List.map_nil, List.flatten_nil, List.append_nil]
    exact hh
  | cons j rest ih =>
    intro h P hh hlen
    rw [List.length_cons] at hlen
    have hl := close_auds_list_length A j
    have hl2 : (close_list_bytes (close_auds_steps A j)).length
        = 8 + (steps_bytes (close_auds_steps A j)).length := by
      simp only [close_list_bytes, List.length_append, List.length_cons, List.length_nil,
        long2str]
    obtain ⟨h1, e1, hh1, a1⟩ := out_steps_strl_holds (close_auds_steps A j)
      (close_auds_steps_plain A j) h P hh (by omega)
    obtain ⟨l2, h2, e2, r2, hh2, a2⟩ := ih h1 _ hh1 (by
      rw [List.length_append]
      show P.length + (close_list_bytes (close_auds_steps A j)).length + _ ≤ _
      omega)
    have hj : avi_close_header_auds A j
        = some ([out_step.OUT4CC [76, 73, 83, 84], out_step.OUTLONG 0,
          out_step.set_strl_start] ++ close_auds_steps A j ++ [out_step.finish_strl]) := by
      unfold avi_close_header_auds
      rw [if_neg (by rw [hz]; decide)]
      have : avi_close_header_auds_strh A j
          = [out_step.OUT4CC [76, 73, 83, 84], out_step.OUTLONG 0, out_step.set_strl_start]
            ++ (avi_close_header_auds_strh A j).drop 3 := by
        unfold avi_close_header_auds_strh
        rfl
      rw [this]
      simp only [close_auds_steps, List.append_assoc]
    refine ⟨([out_step.OUT4CC [76, 73, 83, 84], out_step.OUTLONG 0,
      out_step.set_strl_start] ++ close_auds_steps A j ++ [out_step.finish_strl]) ++ l2, h2,
      ?_, ?_, ?_, by rw [a2, a1]⟩
    · show (match avi_close_header_auds A j, avi_close_header_auds_all A rest with
        | some a, some b => some (a ++ b)
        | _, _ => none) = _
      rw [hj, e2]
    · rw [out_steps_append, e1, Option.some_bind]
      exact r2
    · rw [List.map_cons, List.flatten_cons, ← List.append_assoc]
      exact hh2

theorem close_hdrl_bytes_length (A : avi_t) (hasIndex : Bool) (hx : A.extradata = none)
    (hc : 4 ≤ A.compressor.length) (ha : A.anum ≤ 8) :
    188 ≤ (close_hdrl_bytes A hasIndex).length ∧ (close_hdrl_bytes A hasIndex).length ≤ 1100 := by
  have h1 := close_avih_steps_length A hasIndex
  have h2 := close_vids_steps_length A hx hc
  have h3 := close_auds_flatten_length A (List.range A.anum.toNat)
  rw [List.length_range] at h3
  have h4 : (close_list_bytes (close_vids_steps A)).length = 124 := by
    simp only [close_list_bytes, List.length_append, List.length_cons, List.length_nil, long2str]
    omega
  simp only [close_hdrl_bytes, List.length_append]
  omega

theorem avi_close_header_steps_holds (A : avi_t) (hasIndex : Bool) (hz : A.is_opendml = 0)
    (hx : A.extradata = none) (hc : 4 ≤ A.compressor.length) (ha : A.anum ≤ 8) :
    ∃ l h, avi_close_header_steps A hasIndex = some l ∧
      out_steps l { AVI_header := List.replicate HEADERBYTES.toNat 0, nhb := 0 } = some h ∧
      header_holds h (close_riff_bytes A hasIndex ++ close_hdrl_bytes A hasIndex) := by
  obtain ⟨hlo, hhi⟩ := close_hdrl_bytes_length A hasIndex hx hc ha
  have hv4 : (close_list_bytes (close_vids_steps A)).length = 124 := by
    have h2 := close_vids_steps_length A hx hc
    simp only [close_list_bytes, List.length_append, List.length_cons, List.length_nil, long2str]
    omega
  have hau := close_auds_flatten_length A (List.range A.anum.toNat)
  rw [List.length_range] at hau
  have han : A.anum.toNat ≤ 8 := by omega
  -- the five statements before `hdrl_start = nhb`
  have h0 : header_holds { AVI_header := List.replicate HEADERBYTES.toNat 0, nhb := 0 } [] :=
    ⟨rfl, rfl, by decide⟩
  obtain ⟨h1, e1, hh1, _, _⟩ := out_steps_plain_holds
    ((avi_close_header_vids A hasIndex (A.pos - 8)).take 5) (by
      intro s hs
      simp only [avi_close_header_vids, List.take, List.mem_cons, List.not_mem_nil,
        or_false] at hs
      rcases hs with h | h | h | h | h <;> rw [h] <;> rfl) _ [] h0 (by
      show 0 + 20 ≤ 2048
      omega)
  rw [List.nil_append] at hh1
  have hP1 : (steps_bytes ((avi_close_header_vids A hasIndex (A.pos - 8)).take 5)).length = 20 :=
    rfl
  -- the type of the list and the chunk `avih`
  obtain ⟨h2, e2, hh2, a2, _⟩ := out_steps_plain_holds
    (out_step.OUT4CC [104, 100, 114, 108] :: close_avih_steps A hasIndex) (by
      intro s hs
      rcases List.mem_cons.mp hs with h | h
      · rw [h]
        rfl
      · exact close_avih_steps_plain A hasIndex s h)
    { h1 with hdrl_start := h1.nhb } _ hh1 (by
      rw [hP1]
      show 20 + 68 ≤ 2048
      omega)
  have hs2 : h2.hdrl_start = 20 := by
    rw [a2]
    show h1.nhb = 20
    rw [hh1.2.1, hP1]
    rfl
  have hP2 : (steps_bytes ((avi_close_header_vids A hasIndex (A.pos - 8)).take 5)
      ++ steps_bytes (out_step.OUT4CC [104, 100, 114, 108] :: close_avih_steps A hasIndex)).length
      = 88 := rfl
  -- the stream list of the video stream
  obtain ⟨h3, e3, hh3, a3⟩ := out_steps_strl_holds (close_vids_steps A)
    (close_vids_steps_plain A hx hc) h2 _ hh2 (by
      rw [hP2, close_vids_steps_length A hx hc]
      omega)
  -- the stream lists of the audio tracks
  obtain ⟨la, h4, ea, e4, hh4, a4⟩ := avi_close_header_auds_all_holds A hz
    (List.range A.anum.toNat) h3 _ hh3 (by
      rw [List.length_append, hP2, List.length_range]
      show 88 + (close_list_bytes (close_vids_steps A)).length + _ ≤ _
      omega)
  have hs4 : h4.hdrl_start = 20 := by rw [a4, a3, hs2]
  -- the statements of the function
  have hsteps : avi_close_header_steps A hasIndex
      = some ((avi_close_header_vids A hasIndex (A.pos - 8)).take 5
        ++ (out_step.set_hdrl_start
          :: ((out_step.OUT4CC [104, 100, 114, 108] :: close_avih_steps A hasIndex)
            ++ (([out_step.OUT4CC [76, 73, 83, 84], out_step.OUTLONG 0,
                  out_step.set_strl_start] ++ close_vids_steps A ++ [out_step.finish_strl])
              ++ (la ++ [out_step.finish_hdrl]))))) := by
    unfold avi_close_header_steps
    have r1 : avi_close_riff_len A = some (A.pos - 8) := by
      unfold avi_close_riff_len
      rw [if_neg (by rw [hz]; decide)]
    have r2 : avi_close_header_vids_indx A = some [] := by
      unfold avi_close_header_vids_indx
      rw [if_neg (by rw [hz]; decide)]
    have r3 : avi_close_header_odml A = [] := by
      unfold avi_close_header_odml
      rw [if_neg (by rw [hz]; decide)]
    rw [r1, r2, ea, r3]
    simp only [avi_close_header_vids, close_avih_steps, close_vids_steps, List.drop, List.take,
      List.cons_append, List.nil_append, List.append_nil, List.append_assoc]
  have hset : ∀ (rest : List out_step), out_steps (out_step.set_hdrl_start :: rest) h1
      = out_steps rest { h1 with hdrl_start := h1.nhb } := fun _ => rfl
  have hfin : out_steps [out_step.finish_hdrl] h4
      = (header_store h4.AVI_header (h4.hdrl_start - 4)
          (long2str (h4.nhb - h4.hdrl_start))).map
        (fun b => ({ h4 with AVI_header := b } : header_buf)) := by
    show (match out_step.finish_hdrl.apply h4 with
      | none => none
      | some x => out_steps [] x) = _
    simp only [out_step.apply]
    cases header_store h4.AVI_header (h4.hdrl_start - 4) (long2str (h4.nhb - h4.hdrl_start)) <;>
      rfl
  have hbytes : steps_bytes ((avi_close_header_vids A hasIndex (A.pos - 8)).take 5)
        ++ steps_bytes (out_step.OUT4CC [104, 100, 114, 108] :: close_avih_steps A hasIndex)
        ++ ([76, 73, 83, 84] ++ long2str ((steps_bytes (close_vids_steps A)).length : Int)
          ++ steps_bytes (close_vids_steps A))
        ++ ((List.range A.anum.toNat).map
          (fun j => close_list_bytes (close_auds_steps A j))).flatten
      = ([82, 73, 70, 70] ++ long2str (A.pos - 8) ++ [65, 86, 73, 32] ++ [76, 73, 83, 84])
        ++ long2str 0 ++ ([104, 100, 114, 108] ++ close_hdrl_bytes A hasIndex) := by
    simp only [close_hdrl_bytes, close_list_bytes, steps_bytes_cons, List.append_assoc]
    rfl
  have hn4 : h4.nhb = 24 + ((close_hdrl_bytes A hasIndex).length : Int) := by
    rw [hh4.2.1, hbytes]
    simp only [List.length_append, List.length_cons, List.length_nil, long2str]
    push_cast
    omega
  have hres : out_steps ((avi_close_header_vids A hasIndex (A.pos - 8)).take 5
        ++ (out_step.set_hdrl_start
          :: ((out_step.OUT4CC [104, 100, 114, 108] :: close_avih_steps A hasIndex)
            ++ (([out_step.OUT4CC [76, 73, 83, 84], out_step.OUTLONG 0,
                  out_step.set_strl_start] ++ close_vids_steps A ++ [out_step.finish_strl])
              ++ (la ++ [out_step.finish_hdrl])))))
        { AVI_header := List.replicate HEADERBYTES.toNat 0, nhb := 0 }
      = some { h4 with
          AVI_header := ([82, 73, 70, 70] ++ long2str (A.pos - 8) ++ [65, 86, 73, 32]
              ++ [76, 73, 83, 84])
            ++ long2str (24 + ((close_hdrl_bytes A hasIndex).length : Int) - 20)
            ++ (([104, 100, 114, 108] ++ close_hdrl_bytes A hasIndex)
              ++ List.replicate (2048 - (([82, 73, 70, 70] ++ long2str (A.pos - 8)
                ++ [65, 86, 73, 32] ++ [76, 73, 83, 84]) ++ long2str 0
                ++ ([104, 100, 114, 108] ++ close_hdrl_bytes A hasIndex)).length) 0) } := by
    rw [out_steps_append, e1, Option.some_bind, hset, out_steps_append, e2, Option.some_bind,
      out_steps_append, e3, Option.some_bind, out_steps_append, e4, Option.some_bind, hfin,
      hh4.1, hbytes, hs4, hn4,
      show (20 : Int) - 4 = (([82, 73, 70, 70] ++ long2str (A.pos - 8) ++ [65, 86, 73, 32]
        ++ [76, 73, 83, 84] : List UInt8).length : Int) from rfl,
      List.append_assoc _ ([104, 100, 114, 108] ++ close_hdrl_bytes A hasIndex) _,
      header_store_patch _ (long2str 0) _
        (long2str (24 + ((close_hdrl_bytes A hasIndex).length : Int) - 20)) rfl (by
          show 16 + 4 ≤ 2048
          omega)]
    rfl
  refine ⟨_, _, hsteps, hres, ?_⟩
  · refine ⟨?_, ?_, ?_⟩
    · show _ ++ long2str (24 + ((close_hdrl_bytes A hasIndex).length : Int) - 20) ++ _ = _
      have hk : (close_riff_bytes A hasIndex ++ close_hdrl_bytes A hasIndex).length
          = ([82, 73, 70, 70] ++ long2str (A.pos - 8) ++ [65, 86, 73, 32] ++ [76, 73, 83, 84]
            ++ long2str 0 ++ ([104, 100, 114, 108] ++ close_hdrl_bytes A hasIndex)).length := by
        simp only [close_riff_bytes, List.length_append, List.length_cons, List.length_nil,
          long2str]
        omega
      rw [hk, show (24 : Int) + ((close_hdrl_bytes A hasIndex).length : Int) - 20
        = ((close_hdrl_bytes A hasIndex).length : Int) + 4 from by omega]
      simp only [close_riff_bytes, List.append_assoc]
    · show h4.nhb = _
      rw [hn4]
      simp only [close_riff_bytes, List.length_append, List.length_cons, List.length_nil,
        long2str]
      push_cast
      omega
    · simp only [close_riff_bytes, List.length_append, List.length_cons, List.length_nil,
        long2str]
      omega

theorem header_info_holds (fd : Int) (info : List UInt8) (h : header_buf) (P : List UInt8)
    (hfd : fd ≤ 0) (hh : header_holds h P) (hl : P.length + 36 ≤ 2048) :
    ∃ h2, header_info fd info h = some h2 ∧ header_holds h2 (P ++ close_info_bytes) := by
  obtain ⟨h1, e1, hh1, _, _⟩ := out_steps_plain_holds [out_step.OUT4CC [76, 73, 83, 84]]
    (by
      intro s hs
      rw [List.mem_singleton.mp hs]
      rfl) h P hh (by
      show P.length + 4 ≤ 2048
      omega)
  have hP1 : (P ++ steps_bytes [out_step.OUT4CC [76, 73, 83, 84]]).length = P.length + 4 := by
    rw [List.length_append]
    rfl
  obtain ⟨h2, e2, hh2, _, _⟩ := out_steps_plain_holds
    [out_step.OUTLONG (MAX_INFO_STRLEN + 12), out_step.OUT4CC [73, 78, 70, 79],
      out_step.OUT4CC [73, 83, 70, 84], out_step.OUTLONG 16] (by
      intro s hs
      simp only [List.mem_cons, List.not_mem_nil, or_false] at hs
      rcases hs with h | h | h | h <;> rw [h] <;> rfl) h1 _ hh1 (by
      rw [hP1]
      show P.length + 4 + 16 ≤ 2048
      omega)
  have hP2 : (P ++ steps_bytes [out_step.OUT4CC [76, 73, 83, 84]]
      ++ steps_bytes [out_step.OUTLONG (MAX_INFO_STRLEN + 12), out_step.OUT4CC [73, 78, 70, 79],
        out_step.OUT4CC [73, 83, 70, 84], out_step.OUTLONG 16]).length = P.length + 20 := by
    rw [List.length_append, hP1]
    rfl
  have hc : avi_parse_comments fd info (to_int32 (HEADERBYTES - (h2.nhb + 16) - 8 - 12))
      = some (-1, none) := by
    unfold avi_parse_comments
    rw [if_pos (Or.inl hfd)]
  have hst := header_store_holds
    (P ++ steps_bytes [out_step.OUT4CC [76, 73, 83, 84]]
      ++ steps_bytes [out_step.OUTLONG (MAX_INFO_STRLEN + 12), out_step.OUT4CC [73, 78, 70, 79],
        out_step.OUT4CC [73, 83, 70, 84], out_step.OUTLONG 16]) id_str (by
      rw [hP2]
      show P.length + 20 + 16 ≤ 2048
      omega)
  rw [← hh2.1, ← hh2.2.1] at hst
  have hb : (P ++ steps_bytes [out_step.OUT4CC [76, 73, 83, 84]]
        ++ steps_bytes [out_step.OUTLONG (MAX_INFO_STRLEN + 12), out_step.OUT4CC [73, 78, 70, 79],
          out_step.OUT4CC [73, 83, 70, 84], out_step.OUTLONG 16] ++ id_str)
        ++ List.replicate (2048 - (P ++ steps_bytes [out_step.OUT4CC [76, 73, 83, 84]]
          ++ steps_bytes [out_step.OUTLONG (MAX_INFO_STRLEN + 12),
            out_step.OUT4CC [73, 78, 70, 79], out_step.OUT4CC [73, 83, 70, 84],
            out_step.OUTLONG 16] ++ id_str).length) 0
      = (P ++ [76, 73, 83, 84]) ++ long2str (MAX_INFO_STRLEN + 12)
        ++ ([73, 78, 70, 79] ++ [73, 83, 70, 84] ++ long2str 16 ++ id_str
          ++ List.replicate (2048 - (P.length + 36)) 0) := by
    rw [List.length_append, hP2]
    simp only [steps_bytes, List.map_cons, List.map_nil, List.flatten_cons, List.flatten_nil,
      out_step.bytes, List.append_nil, List.append_assoc, List.take]
    rfl
  have hn1 : h1.nhb = ((P ++ [76, 73, 83, 84]).length : Int) := by
    rw [hh1.2.1]
    rfl
  unfold header_info
  rw [e1]
  simp only []
  rw [e2]
  simp only []
  rw [hst]
  simp only []
  rw [hc]
  simp only []
  rw [hb, hn1, header_store_patch (P ++ [76, 73, 83, 84]) (long2str (MAX_INFO_STRLEN + 12)) _
    (long2str ((if (-1 : Int) ≤ 0 then 0 else -1) + 16 + 4 + 4 + 4)) rfl (by
      rw [List.length_append]
      show P.length + 4 + 4 ≤ 2048
      omega)]
  refine ⟨_, rfl, ?_, ?_, ?_⟩
  · show (P ++ [76, 73, 83, 84]) ++ long2str ((if (-1 : Int) ≤ 0 then 0 else -1) + 16 + 4 + 4 + 4)
        ++ _ = _
    have hk : (P ++ close_info_bytes).length = P.length + 36 := by
      rw [List.length_append]
      rfl
    rw [hk]
    simp only [close_info_bytes, List.append_assoc]
    rfl
  · show h2.nhb + 16 + (if (-1 : Int) ≤ 0 then 0 else -1) = _
    rw [hh2.2.1, hP2, List.length_append]
    show ((P.length + 20 : Nat) : Int) + 16 + 0 = ((P.length + 36 : Nat) : Int)
    push_cast
    omega
  · rw [List.length_append]
    show P.length + 36 ≤ 2048
    exact hl

theorem header_junk_holds (h : header_buf) (P : List UInt8) (hh : header_holds h P)
    (hl : P.length + 20 < 2048) :
    ∃ h2, header_junk h = some (run.done h2) ∧
      header_holds h2 (P ++ close_junk_bytes P.length) := by
  have hn : to_int32 (HEADERBYTES - h.nhb - 8 - 12) = 2028 - (P.length : Int) := by
    rw [hh.2.1, to_int32_of_range _ (by simp only [HEADERBYTES]; omega)
      (by simp only [HEADERBYTES]; omega)]
    simp only [HEADERBYTES]
    omega
  obtain ⟨h1, e1, hh1, _, _⟩ := out_steps_plain_holds
    [out_step.OUT4CC [74, 85, 78, 75], out_step.OUTLONG (2028 - (P.length : Int))] (by
      intro s hs
      simp only [List.mem_cons, List.not_mem_nil, or_false] at hs
      rcases hs with h | h <;> rw [h] <;> rfl) h P hh (by
      show P.length + 8 ≤ 2048
      omega)
  have hP1 : (P ++ steps_bytes [out_step.OUT4CC [74, 85, 78, 75],
      out_step.OUTLONG (2028 - (P.length : Int))]).length = P.length + 8 := by
    rw [List.length_append]
    rfl
  have hst := header_store_holds
    (P ++ steps_bytes [out_step.OUT4CC [74, 85, 78, 75],
      out_step.OUTLONG (2028 - (P.length : Int))])
    (List.replicate (2028 - (P.length : Int)).toNat 0) (by
      rw [hP1, List.length_replicate]
      omega)
  rw [← hh1.1, ← hh1.2.1] at hst
  unfold header_junk
  rw [hn, if_neg (by omega), e1]
  simp only []
  rw [hst]
  simp only []
  have ht : (2028 - (P.length : Int)).toNat = 2028 - P.length := by omega
  refine ⟨_, rfl, ?_, ?_, ?_⟩
  · show _ ++ List.replicate _ 0 = _
    rw [ht]
    simp only [close_junk_bytes, steps_bytes, List.map_cons, List.map_nil, List.flatten_cons,
      List.flatten_nil, out_step.bytes, List.append_nil, List.append_assoc, List.take]
  · show h1.nhb + (2028 - (P.length : Int)) = _
    rw [hh1.2.1, hP1]
    simp only [close_junk_bytes, List.length_append, List.length_cons, List.length_nil,
      long2str, List.length_replicate]
    push_cast
    omega
  · simp only [close_junk_bytes, List.length_append, List.length_cons, List.length_nil,
      long2str, List.length_replicate]
    omega

theorem close_junk_bytes_length (n : Nat) (h : n ≤ 2028) :
    (close_junk_bytes n).length = 2036 - n := by
  simp only [close_junk_bytes, List.length_append, List.length_cons, List.length_nil,
    long2str, List.length_replicate]
  omega

theorem header_movi_holds (m : Int) (h : header_buf) (P : List UInt8) (hh : header_holds h P)
    (hl : P.length = 2036) :
    ∃ h2, header_movi m h = some h2 ∧
      h2.AVI_header = P ++ ([76, 73, 83, 84] ++ long2str m ++ [109, 111, 118, 105]) := by
  obtain ⟨h1, e1, hh1, _, _⟩ := out_steps_plain_holds
    [out_step.OUT4CC [76, 73, 83, 84], out_step.OUTLONG m, out_step.OUT4CC [109, 111, 118, 105]]
    (by
      intro s hs
      simp only [List.mem_cons, List.not_mem_nil, or_false] at hs
      rcases hs with h | h | h <;> rw [h] <;> rfl) h P hh (by
      show P.length + 12 ≤ 2048
      omega)
  refine ⟨h1, e1, ?_⟩
  rw [hh1.1, List.length_append, hl]
  show _ ++ List.replicate (2048 - (2036 + 12)) 0 = _
  simp only [steps_bytes, List.map_cons, List.map_nil, List.flatten_cons, List.flatten_nil,
    out_step.bytes, List.append_nil, List.append_assoc, List.take]
  rfl

theorem close_header_bytes_built (A : avi_t) (hasIndex : Bool) (info : List UInt8) (m : Int)
    (hz : A.is_opendml = 0) (hx : A.extradata = none) (hc : 4 ≤ A.compressor.length)
    (ha : A.anum ≤ 8) (hfd : A.comment_fd ≤ 0) :
    ∃ hb, avi_close_header_build A hasIndex info = some hb ∧
      header_junk_movi hb m = some (run.done (close_header_bytes A hasIndex m)) := by
  obtain ⟨hlo, hhi⟩ := close_hdrl_bytes_length A hasIndex hx hc ha
  obtain ⟨l, h1, e1, r1, hh1⟩ := avi_close_header_steps_holds A hasIndex hz hx hc ha
  have hP1 : (close_riff_bytes A hasIndex ++ close_hdrl_bytes A hasIndex).length
      = 24 + (close_hdrl_bytes A hasIndex).length := by
    simp only [close_riff_bytes, List.length_append, List.length_cons, List.length_nil,
      long2str]
  obtain ⟨h2, e2, hh2⟩ := header_info_holds A.comment_fd info h1 _ hfd hh1 (by omega)
  have hP2 : (close_riff_bytes A hasIndex ++ close_hdrl_bytes A hasIndex
      ++ close_info_bytes).length = 60 + (close_hdrl_bytes A hasIndex).length := by
    rw [List.length_append, hP1]
    show 24 + _ + 36 = _
    omega
  obtain ⟨h3, e3, hh3⟩ := header_junk_holds h2 _ hh2 (by omega)
  have hP3 : (close_riff_bytes A hasIndex ++ close_hdrl_bytes A hasIndex
      ++ close_info_bytes ++ close_junk_bytes (close_riff_bytes A hasIndex
        ++ close_hdrl_bytes A hasIndex ++ close_info_bytes).length).length = 2036 := by
    rw [List.length_append, close_junk_bytes_length _ (by omega), hP2]
    omega
  obtain ⟨h4, e4, hh4⟩ := header_movi_holds m h3 _ hh3 hP3
  refine ⟨h2, ?_, ?_⟩
  · unfold avi_close_header_build
    rw [e1]
    simp only []
    rw [r1]
    exact e2
  · unfold header_junk_movi
    rw [e3]
    simp only []
    rw [e4, Option.map_some', hh4, hP2]
    rfl

/-! ### The round trip: the bytes of the file after the close -/

theorem write_at_start (d c : List UInt8) : write_at d 0 c = c ++ d.drop c.length := by
  unfold write_at
  rw [List.take_zero, Nat.zero_sub, List.replicate_zero, List.nil_append, List.nil_append,
    Nat.zero_add]

theorem flatten_take_16 :
    ∀ (n : Nat) (a : List (List UInt8)), n ≤ a.length → (∀ r ∈ a.take n, r.length = 16) →
      a.flatten.take (16 * n) = (a.take n).flatten := by
  intro n
  induction n with
  | zero =>
    intro a _ _
    simp
  | succ n ih =>
    intro a hn h16
    cases a with
    | nil => simp at hn
    | cons r rest =>
      have hr : r.length = 16 := h16 r (by simp)
      rw [List.flatten_cons, List.take_succ_cons, List.flatten_cons,
        List.take_append_eq_append_take, hr,
        List.take_of_length_le (by omega : r.length ≤ 16 * (n + 1)),
        show 16 * (n + 1) - 16 = 16 * n from by omega,
        ih rest (by simpa using hn) (fun x hx => h16 x (by
          rw [List.take_succ_cons]
          exact List.mem_cons_of_mem _ hx))]

theorem close_header_bytes_length (A : avi_t) (hasIndex : Bool) (m : Int)
    (hx : A.extradata = none) (hc : 4 ≤ A.compressor.length) (ha : A.anum ≤ 8) :
    (close_header_bytes A hasIndex m).length = 2048 := by
  obtain ⟨hlo, hhi⟩ := close_hdrl_bytes_length A hasIndex hx hc ha
  have hj := close_junk_bytes_length (60 + (close_hdrl_bytes A hasIndex).length) (by omega)
  simp only [close_header_bytes, List.length_append, hj]
  simp only [close_riff_bytes, close_info_bytes, id_str, List.length_append, List.length_cons,
    List.length_nil, long2str]
  omega

theorem avi_close_write_bytes (o : outcome) (hdr D : List UInt8) (hlen : hdr.length = 2048)
    (hz : o.AVI.is_opendml = 0)
    (hf : o.AVI.fdes = { data := D, offset := D.length, limit := none })
    (hp : o.AVI.pos = (D.length : Int)) (hD : 2048 ≤ D.length) :
    avi_close_write o hdr
      = some { ret := if o.ret ≠ 0 then -1 else 0
               AVI := { o.AVI with
                 fdes := { data := hdr ++ D.drop 2048, offset := 2048, limit := none } }
               AVI_errno := o.AVI_errno } := by
  unfold avi_close_write
  have hs0 : plat_seek_set o.AVI.fdes 0 = (0, { o.AVI.fdes with offset := 0 }) := by
    unfold plat_seek_set
    rw [if_neg (by decide)]
    rfl
  rw [hs0]
  simp only [lt_self_iff_false, if_false]
  have hw := plat_write_full { o.AVI.fdes with offset := 0 } hdr HEADERBYTES (by decide)
    (by rw [hlen]; decide)
    (fun l hl => by
      rw [hf] at hl
      cases hl)
    (Or.inl (by decide))
  rw [hw]
  simp only [ne_eq, not_true_eq_false, if_false]
  have ht : hdr.take HEADERBYTES.toNat = hdr := List.take_of_length_le (by rw [hlen]; decide)
  rw [ht]
  have hf2 := plat_ftruncate_ok
    { o.AVI.fdes with data := write_at o.AVI.fdes.data 0 hdr, offset := 0 + HEADERBYTES.toNat }
    o.AVI.pos (by omega) (fun l hl => by
      rw [hf] at hl
      cases hl)
  rw [hf2]
  simp only [lt_self_iff_false, if_false]
  rw [if_neg (by simp [hz])]
  simp only []
  rw [hf, hp]
  simp only []
  rw [write_at_start, hlen, Int.toNat_natCast,
    List.take_of_length_le (by rw [List.length_append, List.length_drop]; omega),
    show D.length - (hdr ++ D.drop 2048).length = 0 from by
      rw [List.length_append, List.length_drop]
      omega,
    List.replicate_zero, List.append_nil]
  rfl

theorem avi_close_output_file_bytes (A : avi_t) (e : Int) (info D : List UInt8)
    (recs : List (List UInt8))
    (hz : A.is_opendml = 0) (hx : A.extradata = none) (hc : 4 ≤ A.compressor.length)
    (ha : A.anum ≤ 8) (hfd : A.comment_fd ≤ 0)
    (hf : A.fdes = { data := D, offset := D.length, limit := none })
    (hp : A.pos = (D.length : Int)) (hD : 2048 ≤ D.length)
    (hn : A.n_idx = (recs.length : Int)) (hrecs : (A.idx.getD []).take recs.length = recs)
    (h16 : ∀ r ∈ recs, r.length = 16) (hsmall : D.length + 16 * recs.length + 8 < 2 ^ 31) :
    ∃ o, avi_close_output_file A e info = some (run.done o) ∧ o.ret = 0 ∧ o.AVI_errno = e ∧
      o.AVI.fdes.data
        = close_header_bytes
            (chunk_stored A [105, 100, 120, 49] (A.idx.getD []).flatten
              (16 * (recs.length : Int))) true ((D.length : Int) - 2048 + 4)
          ++ D.drop 2048
          ++ ([105, 100, 120, 49] ++ long2str (16 * (recs.length : Int)) ++ recs.flatten) := by
  have hlen : recs.length ≤ (A.idx.getD []).length := by
    have := congrArg List.length hrecs
    rw [List.length_take] at this
    omega
  have hfl : (A.idx.getD []).flatten.take (16 * recs.length) = recs.flatten := by
    rw [flatten_take_16 recs.length _ hlen (by rw [hrecs]; exact h16), hrecs]
  have hfl2 : 16 * recs.length ≤ (A.idx.getD []).flatten.length := by
    have := congrArg List.length hfl
    rw [List.length_take, flatten_length_16 recs h16] at this
    omega
  have hti : to_int32 (A.n_idx * 16) = 16 * (recs.length : Int) := by
    rw [hn, to_int32_of_range _ (by omega) (by omega)]
    omega
  have hidx : avi_close_idx1 A e
      = some { ret := 0
               AVI := chunk_stored A [105, 100, 120, 49] (A.idx.getD []).flatten
                 (16 * (recs.length : Int))
               AVI_errno := e } := by
    unfold avi_close_idx1
    rw [if_pos hz, hti, avi_add_chunk_eq A e [105, 100, 120, 49] _ (16 * (recs.length : Int))
      (by decide) (by omega) (by exact_mod_cast hfl2) (fun l hl => by
        rw [hf] at hl
        cases hl)]
    rfl
  have hpad : PAD_EVEN (16 * (recs.length : Int)) = 16 * (recs.length : Int) := by
    unfold PAD_EVEN
    omega
  have hcb : chunk_bytes [105, 100, 120, 49] (A.idx.getD []).flatten (16 * (recs.length : Int))
      = [105, 100, 120, 49] ++ long2str (16 * (recs.length : Int)) ++ recs.flatten := by
    unfold chunk_bytes
    rw [show (16 * (recs.length : Int)).toNat = 16 * recs.length from by omega, hfl,
      if_neg (by omega), List.append_nil]
    rfl
  obtain ⟨hb, e1, e2⟩ := close_header_bytes_built
    (chunk_stored A [105, 100, 120, 49] (A.idx.getD []).flatten (16 * (recs.length : Int)))
    true info ((D.length : Int) - 2048 + 4) hz hx hc ha hfd
  have hml : (A.pos - HEADERBYTES + 4) % 2 ^ 64 = (D.length : Int) - 2048 + 4 := by
    rw [hp]
    simp only [HEADERBYTES]
    omega
  have hhead : avi_close_output_file_header A e info
      = some (run.done
          ({ ret := 0
             AVI := chunk_stored A [105, 100, 120, 49] (A.idx.getD []).flatten
               (16 * (recs.length : Int))
             AVI_errno := e },
           close_header_bytes
            (chunk_stored A [105, 100, 120, 49] (A.idx.getD []).flatten
              (16 * (recs.length : Int))) true ((D.length : Int) - 2048 + 4))) := by
    unfold avi_close_output_file_header
    rw [avi_close_output_file_dump_legacy A e hz]
    simp only []
    rw [avi_close_movi_len_legacy A hz, hidx]
    simp only [decide_True]
    rw [e1]
    simp only []
    rw [hml, e2]
  have hw := avi_close_write_bytes
    { ret := 0
      AVI := chunk_stored A [105, 100, 120, 49] (A.idx.getD []).flatten
        (16 * (recs.length : Int))
      AVI_errno := e }
    (close_header_bytes
      (chunk_stored A [105, 100, 120, 49] (A.idx.getD []).flatten
        (16 * (recs.length : Int))) true ((D.length : Int) - 2048 + 4))
    (D ++ ([105, 100, 120, 49] ++ long2str (16 * (recs.length : Int)) ++ recs.flatten))
    (close_header_bytes_length _ _ _ hx hc ha) hz (by
      show ({ A.fdes with data := _, offset := _ } : plat_file) = _
      rw [hf, hcb, hpad]
      simp only [write_at_end]
      congr 1
      simp only [List.length_append, List.length_cons, List.length_nil, long2str,
        flatten_length_16 recs h16]
      omega) (by
      show A.pos + (8 + PAD_EVEN (16 * (recs.length : Int))) = _
      rw [hp, hpad]
      simp only [List.length_append, List.length_cons, List.length_nil, long2str,
        flatten_length_16 recs h16]
      push_cast
      omega) (by
      rw [List.length_append]
      omega)
  have hfin : avi_close_output_file A e info
      = some (run.done
          { ret := if (0 : Int) ≠ 0 then -1 else 0
            AVI := { chunk_stored A [105, 100, 120, 49] (A.idx.getD []).flatten
                (16 * (recs.length : Int)) with
              fdes :=
                { data := close_header_bytes
                      (chunk_stored A [105, 100, 120, 49] (A.idx.getD []).flatten
                        (16 * (recs.length : Int))) true ((D.length : Int) - 2048 + 4)
                    ++ (D ++ ([105, 100, 120, 49] ++ long2str (16 * (recs.length : Int))
                      ++ recs.flatten)).drop 2048
                  offset := 2048, limit := none } }
            AVI_errno := e }) := by
    unfold avi_close_output_file
    rw [hhead]
    simp only []
    rw [hw]
    rfl
  refine ⟨_, hfin, rfl, rfl, ?_⟩
  show _ ++ (D ++ _).drop 2048 = _
  rw [List.drop_append_of_le_length hD]
  simp only [List.append_assoc]

theorem bytes_at_mid (F X s : List UInt8) (n : Nat) (hF : (X ++ s).IsPrefix F)
    (hn : X.length = n) : bytes_at F n s := by
  obtain ⟨Y, hF⟩ := hF
  unfold bytes_at
  rw [← hF, ← hn, List.append_assoc, List.drop_left, List.take_left]

theorem close_auds_flatten_even (A : avi_t) :
    ∀ (js : List Nat),
      ((js.map (fun j => close_list_bytes (close_auds_steps A j))).flatten).length % 2 = 0 := by
  intro js
  induction js with
  | nil => rfl
  | cons j rest ih =>
    rw [List.map_cons, List.flatten_cons, List.length_append]
    rcases close_auds_list_length A j with h | h <;> omega

theorem close_hdrl_bytes_even (A : avi_t) (hasIndex : Bool) (hx : A.extradata = none)
    (hc : 4 ≤ A.compressor.length) : (close_hdrl_bytes A hasIndex).length % 2 = 0 := by
  have h1 := close_avih_steps_length A hasIndex
  have h2 := close_vids_steps_length A hx hc
  have h3 := close_auds_flatten_even A (List.range A.anum.toNat)
  have h4 : (close_list_bytes (close_vids_steps A)).length = 124 := by
    simp only [close_list_bytes, List.length_append, List.length_cons, List.length_nil, long2str]
    omega
  simp only [close_hdrl_bytes, List.length_append]
  omega

theorem close_file_layout (A : avi_t) (rest : List UInt8) (recs : List (List UInt8)) (P : Nat)
    (hx : A.extradata = none) (hc : 4 ≤ A.compressor.length) (ha : A.anum ≤ 8)
    (hP : P = 2048 + rest.length) (hPe : P % 2 = 0) (h16 : ∀ r ∈ recs, r.length = 16)
    (hsmall : P + 8 + 16 * recs.length < 2 ^ 31) :
    avi_file_layout
      (close_header_bytes A true ((P : Int) - 2048 + 4) ++ rest
        ++ ([105, 100, 120, 49] ++ long2str (16 * (recs.length : Int)) ++ recs.flatten))
      (close_hdrl_bytes A true) P recs := by
  obtain ⟨hlo, hhi⟩ := close_hdrl_bytes_length A true hx hc ha
  have hev := close_hdrl_bytes_even A true hx hc
  have hj := close_junk_bytes_length (60 + (close_hdrl_bytes A true).length) (by omega)
  have hH := close_header_bytes_length A true ((P : Int) - 2048 + 4) hx hc ha
  have hjl : (2028 : Int) - ((60 + (close_hdrl_bytes A true).length : Nat) : Int)
      = 1968 - ((close_hdrl_bytes A true).length : Int) := by
    push_cast
    omega
  have hinfo : close_info_bytes.length = 36 := rfl
  refine
    { riff := ?_, avi := ?_, hdrl_list := ?_, hdrl_data := ?_, hdrl_even := hev
      hdrl_room := by omega, info_list := ?_, junk := ?_, movi_list := ?_
      movi_end := by omega, movi_even := hPe, idx1 := ?_, recs_16 := h16, file_end := ?_
      small := hsmall }
  · refine bytes_at_mid _ [] _ 0 ?_ rfl
    simp only [close_header_bytes, close_riff_bytes, List.append_assoc, List.nil_append,
      List.prefix_append]
  · refine bytes_at_mid _ ([82, 73, 70, 70] ++ long2str (A.pos - 8)) _ 8 ?_ (by rfl)
    simp only [close_header_bytes, close_riff_bytes, List.append_assoc,
      List.prefix_append_right_inj, List.prefix_append]
  · refine bytes_at_mid _ ([82, 73, 70, 70] ++ long2str (A.pos - 8) ++ [65, 86, 73, 32]) _ 12
      ?_ (by rfl)
    simp only [close_header_bytes, close_riff_bytes, List.append_assoc,
      List.prefix_append_right_inj, List.prefix_append]
  · refine bytes_at_mid _ (close_riff_bytes A true) _ 24 ?_ ?_
    · simp only [close_header_bytes, List.append_assoc,
        List.prefix_append_right_inj, List.prefix_append]
    · simp only [close_riff_bytes, List.length_append, List.length_cons, List.length_nil,
        long2str]
  · refine bytes_at_mid _ (close_riff_bytes A true ++ close_hdrl_bytes A true) _ _ ?_ ?_
    · simp only [close_header_bytes, close_info_bytes, List.append_assoc,
        List.prefix_append_right_inj, List.prefix_append]
    · simp only [close_riff_bytes, List.length_append, List.length_cons, List.length_nil,
        long2str]
  · refine bytes_at_mid _ (close_riff_bytes A true ++ close_hdrl_bytes A true
      ++ close_info_bytes) _ _ ?_ ?_
    · simp only [close_header_bytes, close_junk_bytes, hjl, List.append_assoc,
        List.prefix_append_right_inj, List.prefix_append]
    · simp only [close_riff_bytes, List.length_append, List.length_cons, List.length_nil,
        long2str, hinfo]
      omega
  · refine bytes_at_mid _ (close_riff_bytes A true ++ close_hdrl_bytes A true
      ++ close_info_bytes ++ close_junk_bytes (60 + (close_hdrl_bytes A true).length)) _ _
      ?_ ?_
    · simp only [close_header_bytes, List.append_assoc,
        List.prefix_append_right_inj, List.prefix_append]
    · simp only [close_riff_bytes, List.length_append, List.length_cons, List.length_nil,
        long2str, hinfo, hj]
      omega
  · refine bytes_at_mid _ (close_header_bytes A true ((P : Int) - 2048 + 4) ++ rest) _ _
      ?_ ?_
    · simp only [List.append_assoc, List.prefix_refl]
    · rw [List.length_append, hH, hP]
  · simp only [List.length_append, hH, List.length_cons, List.length_nil, long2str,
      flatten_length_16 recs h16]
    omega

/-! ### The round trip: the interpretation of the header list -/

theorem drop_add_of_drop (l : List UInt8) (i k : Nat) (a b : List UInt8)
    (h : l.drop i = a ++ b) (hk : a.length = k) : l.drop (i + k) = b := by
  rw [← List.drop_drop, h, ← hk, List.drop_left]

theorem header_tag_list (hdrl : List UInt8) (w : hdrl_walk) (rest : List UInt8)
    (hd : hdrl.drop w.i = [76, 73, 83, 84] ++ rest) :
    avi_parse_header_tag hdrl w = some (walk_exit.next { w with i := w.i + 12 }) := by
  unfold avi_parse_header_tag
  rw [hd, strncasecmp_eq_append 4 _ _ _ (by decide), if_pos (by decide)]

theorem header_tag_avih (hdrl : List UInt8) (w : hdrl_walk) (v : Int) (rest : List UInt8)
    (hd : hdrl.drop w.i = [97, 118, 105, 104] ++ (long2str v ++ rest)) :
    avi_parse_header_tag hdrl w
      = some (walk_exit.next
          { w with lasttag := 0, i := w.i + 8 + (PAD_EVEN (((v % 2 ^ 32).toNat : Nat) : Int)).toNat })
    := by
  have e4 := drop_add_of_drop hdrl w.i 4 _ _ hd rfl
  unfold avi_parse_header_tag
  rw [hd, e4, str2ulong_long2str_append]
  have ht : ∀ T, strncasecmp_eq ([97, 118, 105, 104] ++ (long2str v ++ rest)) T 4
      = strncasecmp_eq [97, 118, 105, 104] T 4 :=
    fun T => strncasecmp_eq_append 4 _ _ T (by decide)
  rw [ht, if_neg (by decide)]
  simp only []
  rw [ht, if_neg (by decide), ht, if_neg (by decide), ht, if_neg (by decide), ht,
    if_neg (by decide), ht, ht, ht, if_neg (by decide)]

theorem header_tag_strh (hdrl : List UInt8) (w : hdrl_walk) (v : Int) (rest : List UInt8)
    (hd : hdrl.drop w.i = [115, 116, 114, 104] ++ (long2str v ++ rest)) :
    avi_parse_header_tag hdrl w
      = (match avi_parse_strh rest w with
        | none => none
        | some (walk_exit.ret r w2) => some (walk_exit.ret r w2)
        | some (walk_exit.next w2) =>
          some (walk_exit.next
            { w2 with i := w.i + 8 + (PAD_EVEN (((v % 2 ^ 32).toNat : Nat) : Int)).toNat })) := by
  have e4 := drop_add_of_drop hdrl w.i 4 _ _ hd rfl
  have e8 : hdrl.drop (w.i + 8) = rest := by
    have := drop_add_of_drop hdrl (w.i + 4) 4 _ _ e4 rfl
    rw [Nat.add_assoc] at this
    exact this
  unfold avi_parse_header_tag
  rw [hd, e4, e8, str2ulong_long2str_append]
  have ht : ∀ T, strncasecmp_eq ([115, 116, 114, 104] ++ (long2str v ++ rest)) T 4
      = strncasecmp_eq [115, 116, 114, 104] T 4 :=
    fun T => strncasecmp_eq_append 4 _ _ T (by decide)
  rw [ht, if_neg (by decide)]
  simp only []
  rw [ht, if_pos (by decide)]

theorem header_tag_strf (hdrl : List UInt8) (w : hdrl_walk) (v : Int) (rest : List UInt8)
    (hd : hdrl.drop w.i = [115, 116, 114, 102] ++ (long2str v ++ rest)) :
    avi_parse_header_tag hdrl w
      = (match avi_parse_strf rest w with
        | none => none
        | some w2 =>
          some (walk_exit.next
            { w2 with i := w.i + 8 + (PAD_EVEN (((v % 2 ^ 32).toNat : Nat) : Int)).toNat })) := by
  have e4 := drop_add_of_drop hdrl w.i 4 _ _ hd rfl
  have e8 : hdrl.drop (w.i + 8) = rest := by
    have := drop_add_of_drop hdrl (w.i + 4) 4 _ _ e4 rfl
    rw [Nat.add_assoc] at this
    exact this
  unfold avi_parse_header_tag
  rw [hd, e4, e8, str2ulong_long2str_append]
  have ht : ∀ T, strncasecmp_eq ([115, 116, 114, 102] ++ (long2str v ++ rest)) T 4
      = strncasecmp_eq [115, 116, 114, 102] T 4 :=
    fun T => strncasecmp_eq_append 4 _ _ T (by decide)
  rw [ht, if_neg (by decide)]
  simp only []
  rw [ht, if_neg (by decide), ht, if_neg (by decide), ht, if_pos (by decide)]

theorem str2ulong_of_length (l : List UInt8) (h : 4 ≤ l.length) : ∃ v, str2ulong l = some v := by
  match l, h with
  | b0 :: b1 :: b2 :: b3 :: _, _ => exact ⟨_, rfl⟩

theorem str2ushort_of_length (l : List UInt8) (h : 2 ≤ l.length) :
    ∃ v, str2ushort l = some v := by
  match l, h with
  | b0 :: b1 :: _, _ => exact ⟨_, rfl⟩

theorem str2ulong_drop_of_length (l : List UInt8) (k : Nat) (h : k + 4 ≤ l.length) :
    ∃ v, str2ulong (l.drop k) = some v :=
  str2ulong_of_length _ (by rw [List.length_drop]; omega)

theorem str2ushort_drop_of_length (l : List UInt8) (k : Nat) (h : k + 2 ≤ l.length) :
    ∃ v, str2ushort (l.drop k) = some v :=
  str2ushort_of_length _ (by rw [List.length_drop]; omega)

theorem walk_kept_refl (w : hdrl_walk) : walk_kept w w := ⟨rfl, rfl, rfl, rfl, rfl, rfl⟩

theorem walk_kept_trans {a b c : hdrl_walk} (h1 : walk_kept a b) (h2 : walk_kept b c) :
    walk_kept a c := by
  unfold walk_kept at h1 h2 ⊢
  rw [h2.1, h2.2.1, h2.2.2.1, h2.2.2.2.1, h2.2.2.2.2.1, h2.2.2.2.2.2]
  exact h1

theorem close_avih_shape (A : avi_t) (hasIndex : Bool) :
    ∃ p, steps_bytes (close_avih_steps A hasIndex) = [97, 118, 105, 104] ++ (long2str 56 ++ p) ∧
      p.length = 56 :=
  ⟨steps_bytes ((close_avih_steps A hasIndex).drop 2), rfl, rfl⟩

theorem plain_of_drop (l : List out_step) (h : ∀ s ∈ l, s.plain = true) (k : Nat) :
    ∀ s ∈ l.drop k, s.plain = true := fun s hs => h s (List.mem_of_mem_drop hs)

theorem plain_of_take (l : List out_step) (h : ∀ s ∈ l, s.plain = true) (k : Nat) :
    ∀ s ∈ l.take k, s.plain = true := fun s hs => h s (List.mem_of_mem_take hs)

theorem close_vids_shape (A : avi_t) (hx : A.extradata = none) (hxs : A.extradata_size = 0)
    (hc : 4 ≤ A.compressor.length) :
    ∃ x p1 p2, close_list_bytes (close_vids_steps A)
        = [76, 73, 83, 84] ++ (long2str x ++ ([115, 116, 114, 108] ++ ([115, 116, 114, 104]
          ++ (long2str 56 ++ ([118, 105, 100, 115] ++ (p1 ++ ([115, 116, 114, 102]
          ++ (long2str 40 ++ (long2str 40 ++ p2))))))))) ∧
      p1.length = 52 ∧ p2.length = 36 := by
  have hp := close_vids_steps_plain A hx hc
  refine ⟨((steps_bytes (close_vids_steps A)).length : Int),
    steps_bytes (((close_vids_steps A).drop 4).take 13),
    steps_bytes ((close_vids_steps A).drop 20), ?_, ?_, ?_⟩
  · simp only [close_list_bytes, close_vids_steps, avi_close_header_vids, header_vids_strf,
      hx, hxs, List.drop, List.take, List.append_nil, List.cons_append, List.nil_append,
      steps_bytes, List.map_cons, List.map_nil, List.flatten_cons, List.flatten_nil,
      out_step.bytes, List.append_assoc]
    rfl
  · have h := steps_bytes_length_plain _ (plain_of_take _ (plain_of_drop _ hp 4) 13)
    have h2 : steps_size (((close_vids_steps A).drop 4).take 13) = 52 := by
      simp only [close_vids_steps, avi_close_header_vids, header_vids_strf, hx, List.drop,
        List.take, List.append_nil, List.cons_append, List.nil_append]
      rfl
    omega
  · have h := steps_bytes_length_plain _ (plain_of_drop _ hp 20)
    have h2 : steps_size ((close_vids_steps A).drop 20) = 36 := by
      simp only [close_vids_steps, avi_close_header_vids, header_vids_strf, hx, List.drop,
        List.append_nil, List.cons_append, List.nil_append]
      rfl
    omega

theorem close_auds_shape (A : avi_t) (j : Nat) :
    ∃ x p1 p2, close_list_bytes (close_auds_steps A j)
        = [76, 73, 83, 84] ++ (long2str x ++ ([115, 116, 114, 108] ++ ([115, 116, 114, 104]
          ++ (long2str 56 ++ ([97, 117, 100, 115] ++ (p1 ++ ([115, 116, 114, 102]
          ++ (long2str (avi_close_header_auds_strf_len A j) ++ p2)))))))) ∧
      p1.length = 52 ∧ (p2.length : Int) = avi_close_header_auds_strf_len A j := by
  have hp := close_auds_steps_plain A j
  refine ⟨((steps_bytes (close_auds_steps A j)).length : Int),
    steps_bytes (((close_auds_steps A j).drop 4).take 13),
    steps_bytes ((close_auds_steps A j).drop 19), ?_, ?_, ?_⟩
  · simp only [close_list_bytes, close_auds_steps, avi_close_header_auds_strh,
      avi_close_header_auds_strf, avi_close_header_auds_strf_payload]
    split_ifs <;>
      simp only [List.drop, List.take, List.append_nil, List.cons_append, List.nil_append,
        steps_bytes, List.map_cons, List.map_nil, List.flatten_cons, List.flatten_nil,
        out_step.bytes, List.append_assoc] <;> rfl
  · have h := steps_bytes_length_plain _ (plain_of_take _ (plain_of_drop _ hp 4) 13)
    have h2 : steps_size (((close_auds_steps A j).drop 4).take 13) = 52 := by
      simp only [close_auds_steps, avi_close_header_auds_strh,
        avi_close_header_auds_strf, avi_close_header_auds_strf_payload]
      split_ifs <;> rfl
    omega
  · rw [steps_bytes_length_plain _ (plain_of_drop _ hp 19)]
    simp only [close_auds_steps, avi_close_header_auds_strh,
      avi_close_header_auds_strf, avi_close_header_auds_strf_payload,
      avi_close_header_auds_strf_len]
    split_ifs <;> rfl

theorem avi_parse_strh_vids (tail : List UInt8) (w : hdrl_walk) (hl : 52 ≤ tail.length)
    (hs : w.vids_strh_seen = false) :
    ∃ w2, avi_parse_strh ([118, 105, 100, 115] ++ tail) w = some (walk_exit.next w2) ∧
      walk_kept w w2 ∧ w2.AVI.anum = w.AVI.anum ∧ w2.video_strn = w.num_stream ∧
      w2.vids_strh_seen = true ∧ w2.vids_strf_seen = w.vids_strf_seen ∧ w2.lasttag = 1 ∧
      w2.num_stream = w.num_stream + 1 := by
  obtain ⟨v1, e1⟩ := str2ulong_drop_of_length ([118, 105, 100, 115] ++ tail) 20 (by
    rw [List.length_append]
    show 20 + 4 ≤ 4 + tail.length
    omega)
  obtain ⟨v2, e2⟩ := str2ulong_drop_of_length ([118, 105, 100, 115] ++ tail) 24 (by
    rw [List.length_append]
    show 24 + 4 ≤ 4 + tail.length
    omega)
  obtain ⟨v3, e3⟩ := str2ulong_drop_of_length ([118, 105, 100, 115] ++ tail) 32 (by
    rw [List.length_append]
    show 32 + 4 ≤ 4 + tail.length
    omega)
  unfold avi_parse_strh
  rw [if_pos ⟨by rw [strncasecmp_eq_append 4 _ _ _ (by decide)]; decide, hs⟩, e1, e2, e3]
  exact ⟨_, rfl, ⟨rfl, rfl, rfl, rfl, rfl, rfl⟩, rfl, rfl, rfl, rfl, rfl, rfl⟩

theorem avi_parse_strh_auds (tail : List UInt8) (w : hdrl_walk) (hl : 52 ≤ tail.length)
    (ha : w.AVI.anum + 1 ≤ 8) :
    ∃ w2, avi_parse_strh ([97, 117, 100, 115] ++ tail) w = some (walk_exit.next w2) ∧
      walk_kept w w2 ∧ w2.AVI.anum = w.AVI.anum + 1 ∧ w2.video_strn = w.video_strn ∧
      w2.vids_strh_seen = w.vids_strh_seen ∧ w2.vids_strf_seen = w.vids_strf_seen ∧
      w2.lasttag = 2 ∧ w2.num_stream = w.num_stream + 1 := by
  obtain ⟨v1, e1⟩ := str2ulong_drop_of_length ([97, 117, 100, 115] ++ tail) 32 (by
    rw [List.length_append]
    show 32 + 4 ≤ 4 + tail.length
    omega)
  obtain ⟨v2, e2⟩ := str2ulong_drop_of_length ([97, 117, 100, 115] ++ tail) 44 (by
    rw [List.length_append]
    show 44 + 4 ≤ 4 + tail.length
    omega)
  obtain ⟨v3, e3⟩ := str2ulong_drop_of_length ([97, 117, 100, 115] ++ tail) 24 (by
    rw [List.length_append]
    show 24 + 4 ≤ 4 + tail.length
    omega)
  unfold avi_parse_strh
  rw [if_neg (by
      intro h
      have := h.1
      rw [strncasecmp_eq_append 4 _ _ _ (by decide)] at this
      revert this
      decide),
    if_pos (by rw [strncasecmp_eq_append 4 _ _ _ (by decide)]; decide),
    if_neg (by simp only [AVI_MAX_TRACKS]; omega), e1, e2, e3]
  exact ⟨_, rfl, ⟨rfl, rfl, rfl, rfl, rfl, rfl⟩, rfl, rfl, rfl, rfl, rfl, rfl⟩

theorem avi_parse_strf_vids (tail : List UInt8) (w : hdrl_walk) (hl : 36 ≤ tail.length)
    (ht : w.lasttag = 1) :
    ∃ w2, avi_parse_strf (long2str 40 ++ tail) w = some w2 ∧
      walk_kept w w2 ∧ w2.AVI.anum = w.AVI.anum ∧ w2.video_strn = w.video_strn ∧
      w2.vids_strh_seen = w.vids_strh_seen ∧ w2.vids_strf_seen = true ∧
      w2.num_stream = w.num_stream := by
  have hlen : (long2str 40 ++ tail).length = 4 + tail.length := by
    rw [List.length_append]
    rfl
  obtain ⟨v2, e2⟩ := str2ulong_drop_of_length (long2str 40 ++ tail) 4 (by omega)
  obtain ⟨v3, e3⟩ := str2ulong_drop_of_length (long2str 40 ++ tail) 8 (by omega)
  unfold avi_parse_strf
  rw [if_pos ht, str2ulong_long2str_append, e2, e3]
  simp only []
  rw [if_neg (by
    rw [hlen]
    have : ((40 : Int) % 2 ^ 32).toNat = 40 := by decide
    omega)]
  exact ⟨_, rfl, ⟨rfl, rfl, rfl, rfl, rfl, rfl⟩, rfl, rfl, rfl, rfl, rfl⟩

theorem avi_parse_strf_auds (rest : List UInt8) (w : hdrl_walk) (hl : 16 ≤ rest.length)
    (ht : w.lasttag = 2) :
    ∃ w2, avi_parse_strf rest w = some w2 ∧
      walk_kept w w2 ∧ w2.AVI.anum = w.AVI.anum ∧ w2.video_strn = w.video_strn ∧
      w2.vids_strh_seen = w.vids_strh_seen ∧ w2.vids_strf_seen = w.vids_strf_seen ∧
      w2.num_stream = w.num_stream := by
  obtain ⟨v1, e1⟩ := str2ushort_of_length rest (by omega)
  obtain ⟨v2, e2⟩ := str2ushort_drop_of_length rest 2 (by omega)
  obtain ⟨v3, e3⟩ := str2ulong_drop_of_length rest 4 (by omega)
  obtain ⟨v4, e4⟩ := str2ulong_drop_of_length rest 8 (by omega)
  obtain ⟨v5, e5⟩ := str2ushort_drop_of_length rest 14 (by omega)
  unfold avi_parse_strf
  rw [if_neg (by rw [ht]; decide), if_pos ht, e1, e2, e3, e4, e5]
  exact ⟨_, rfl, ⟨rfl, rfl, rfl, rfl, rfl, rfl⟩, rfl, rfl, rfl, rfl, rfl⟩

theorem walk_round (fuel : Nat) (hdrl : List UInt8) (len : Int) (w w2 : hdrl_walk)
    (hi : (w.i : Int) < len)
    (ht : avi_parse_header_tag hdrl w = some (walk_exit.next w2)) :
    avi_parse_header (fuel + 1) hdrl len w = avi_parse_header fuel hdrl len w2 := by
  rw [avi_parse_header, if_pos hi, ht]

theorem pad_even_nat (v : Int) (n : Nat) (hv : v = (n : Int)) (hn : n % 2 = 0)
    (hs : n < 2 ^ 32) : (PAD_EVEN (((v % 2 ^ 32).toNat : Nat) : Int)).toNat = n := by
  subst hv
  unfold PAD_EVEN
  omega

theorem walk_tag_avih (hdrl : List UInt8) (w : hdrl_walk) (rest : List UInt8)
    (hd : hdrl.drop w.i = [97, 118, 105, 104] ++ (long2str 56 ++ rest)) :
    ∃ w2, avi_parse_header_tag hdrl w = some (walk_exit.next w2) ∧ w2.i = w.i + 64 ∧
      walk_kept w w2 ∧ w2.AVI.anum = w.AVI.anum ∧ w2.video_strn = w.video_strn ∧
      w2.vids_strh_seen = w.vids_strh_seen ∧ w2.vids_strf_seen = w.vids_strf_seen ∧
      w2.num_stream = w.num_stream := by
  refine ⟨_, header_tag_avih hdrl w 56 rest hd, ?_, ⟨rfl, rfl, rfl, rfl, rfl, rfl⟩, rfl, rfl,
    rfl, rfl, rfl⟩
  show w.i + 8 + _ = _
  rw [pad_even_nat 56 56 rfl (by decide) (by decide)]

theorem walk_tag_list (hdrl : List UInt8) (w : hdrl_walk) (rest : List UInt8)
    (hd : hdrl.drop w.i = [76, 73, 83, 84] ++ rest) :
    ∃ w2, avi_parse_header_tag hdrl w = some (walk_exit.next w2) ∧ w2.i = w.i + 12 ∧
      walk_kept w w2 ∧ w2.AVI.anum = w.AVI.anum ∧ w2.video_strn = w.video_strn ∧
      w2.vids_strh_seen = w.vids_strh_seen ∧ w2.vids_strf_seen = w.vids_strf_seen ∧
      w2.num_stream = w.num_stream ∧ w2.lasttag = w.lasttag :=
  ⟨_, header_tag_list hdrl w rest hd, rfl, ⟨rfl, rfl, rfl, rfl, rfl, rfl⟩, rfl, rfl, rfl, rfl,
    rfl, rfl⟩

theorem walk_tag_strh_vids (hdrl : List UInt8) (w : hdrl_walk) (tail : List UInt8)
    (hd : hdrl.drop w.i
      = [115, 116, 114, 104] ++ (long2str 56 ++ ([118, 105, 100, 115] ++ tail)))
    (hl : 52 ≤ tail.length) (hs : w.vids_strh_seen = false) :
    ∃ w2, avi_parse_header_tag hdrl w = some (walk_exit.next w2) ∧ w2.i = w.i + 64 ∧
      walk_kept w w2 ∧ w2.AVI.anum = w.AVI.anum ∧ w2.video_strn = w.num_stream ∧
      w2.vids_strh_seen = true ∧ w2.vids_strf_seen = w.vids_strf_seen ∧
      w2.num_stream = w.num_stream + 1 ∧ w2.lasttag = 1 := by
  obtain ⟨w2, e, k, a1, a2, a3, a4, a5, a6⟩ := avi_parse_strh_vids tail w hl hs
  refine ⟨{ w2 with i := w.i + 8 + (PAD_EVEN ((((56 : Int) % 2 ^ 32).toNat : Nat) : Int)).toNat },
    ?_, ?_, k, a1, a2, a3, a4, a6, a5⟩
  · rw [header_tag_strh hdrl w 56 _ hd, e]
  · show w.i + 8 + _ = _
    rw [pad_even_nat 56 56 rfl (by decide) (by decide)]

theorem walk_tag_strh_auds (hdrl : List UInt8) (w : hdrl_walk) (tail : List UInt8)
    (hd : hdrl.drop w.i
      = [115, 116, 114, 104] ++ (long2str 56 ++ ([97, 117, 100, 115] ++ tail)))
    (hl : 52 ≤ tail.length) (ha : w.AVI.anum + 1 ≤ 8) :
    ∃ w2, avi_parse_header_tag hdrl w = some (walk_exit.next w2) ∧ w2.i = w.i + 64 ∧
      walk_kept w w2 ∧ w2.AVI.anum = w.AVI.anum + 1 ∧ w2.video_strn = w.video_strn ∧
      w2.vids_strh_seen = w.vids_strh_seen ∧ w2.vids_strf_seen = w.vids_strf_seen ∧
      w2.num_stream = w.num_stream + 1 ∧ w2.lasttag = 2 := by
  obtain ⟨w2, e, k, a1, a2, a3, a4, a5, a6⟩ := avi_parse_strh_auds tail w hl ha
  refine ⟨{ w2 with i := w.i + 8 + (PAD_EVEN ((((56 : Int) % 2 ^ 32).toNat : Nat) : Int)).toNat },
    ?_, ?_, k, a1, a2, a3, a4, a6, a5⟩
  · rw [header_tag_strh hdrl w 56 _ hd, e]
  · show w.i + 8 + _ = _
    rw [pad_even_nat 56 56 rfl (by decide) (by decide)]

theorem walk_tag_strf_vids (hdrl : List UInt8) (w : hdrl_walk) (tail : List UInt8)
    (hd : hdrl.drop w.i = [115, 116, 114, 102] ++ (long2str 40 ++ (long2str 40 ++ tail)))
    (hl : 36 ≤ tail.length) (ht : w.lasttag = 1) :
    ∃ w2, avi_parse_header_tag hdrl w = some (walk_exit.next w2) ∧ w2.i = w.i + 48 ∧
      walk_kept w w2 ∧ w2.AVI.anum = w.AVI.anum ∧ w2.video_strn = w.video_strn ∧
      w2.vids_strh_seen = w.vids_strh_seen ∧ w2.vids_strf_seen = true ∧
      w2.num_stream = w.num_stream := by
  obtain ⟨w2, e, k, a1, a2, a3, a4, a5⟩ := avi_parse_strf_vids tail w hl ht
  refine ⟨{ w2 with i := w.i + 8 + (PAD_EVEN ((((40 : Int) % 2 ^ 32).toNat : Nat) : Int)).toNat },
    ?_, ?_, k, a1, a2, a3, a4, a5⟩
  · rw [header_tag_strf hdrl w 40 _ hd, e]
  · show w.i + 8 + _ = _
    rw [pad_even_nat 40 40 rfl (by decide) (by decide)]

theorem walk_tag_strf_auds (hdrl : List UInt8) (w : hdrl_walk) (L : Int) (rest : List UInt8)
    (hd : hdrl.drop w.i = [115, 116, 114, 102] ++ (long2str L ++ rest))
    (hL : L = 18 ∨ L = 30) (hl : 16 ≤ rest.length) (ht : w.lasttag = 2) :
    ∃ w2, avi_parse_header_tag hdrl w = some (walk_exit.next w2) ∧
      (w2.i : Int) = (w.i : Int) + 8 + L ∧
      walk_kept w w2 ∧ w2.AVI.anum = w.AVI.anum ∧ w2.video_strn = w.video_strn ∧
      w2.vids_strh_seen = w.vids_strh_seen ∧ w2.vids_strf_seen = w.vids_strf_seen ∧
      w2.num_stream = w.num_stream := by
  obtain ⟨w2, e, k, a1, a2, a3, a4, a5⟩ := avi_parse_strf_auds rest w hl ht
  refine ⟨{ w2 with i := w.i + 8 + (PAD_EVEN (((L % 2 ^ 32).toNat : Nat) : Int)).toNat },
    ?_, ?_, k, a1, a2, a3, a4, a5⟩
  · rw [header_tag_strf hdrl w L _ hd, e]
  · show ((w.i + 8 + _ : Nat) : Int) = _
    rcases hL with h | h
    · rw [pad_even_nat L 18 h (by decide) (by decide), h]
      push_cast
      rfl
    · rw [pad_even_nat L 30 h (by decide) (by decide), h]
      push_cast
      rfl

theorem walk_vids_part (fuel : Nat) (hdrl pa p1 p2 post : List UInt8) (x len : Int)
    (w0 : hdrl_walk) (h0 : w0.i = 0) (hs0 : w0.vids_strh_seen = false)
    (hh : hdrl = [97, 118, 105, 104] ++ (long2str 56 ++ (pa ++ ([76, 73, 83, 84]
      ++ (long2str x ++ ([115, 116, 114, 108] ++ ([115, 116, 114, 104] ++ (long2str 56
      ++ ([118, 105, 100, 115] ++ (p1 ++ ([115, 116, 114, 102] ++ (long2str 40
      ++ (long2str 40 ++ (p2 ++ post))))))))))))))
    (hpa : pa.length = 56) (hp1 : p1.length = 52) (hp2 : p2.length = 36) (hlen : 188 ≤ len) :
    ∃ w, avi_parse_header (fuel + 4) hdrl len w0 = avi_parse_header fuel hdrl len w ∧
      w.i = 188 ∧ walk_kept w0 w ∧ w.AVI.anum = w0.AVI.anum ∧ w.video_strn = w0.num_stream ∧
      w.vids_strh_seen = true ∧ w.vids_strf_seen = true ∧
      w.num_stream = w0.num_stream + 1 := by
  have c0 : hdrl.drop 0 = _ := hh
  have c4 := drop_add_of_drop hdrl 0 4 _ _ c0 rfl
  have c8 := drop_add_of_drop hdrl (0 + 4) 4 _ _ c4 rfl
  have c64 := drop_add_of_drop hdrl (0 + 4 + 4) 56 _ _ c8 hpa
  have c68 := drop_add_of_drop hdrl (0 + 4 + 4 + 56) 4 _ _ c64 rfl
  have c72 := drop_add_of_drop hdrl (0 + 4 + 4 + 56 + 4) 4 _ _ c68 rfl
  have c76 := drop_add_of_drop hdrl (0 + 4 + 4 + 56 + 4 + 4) 4 _ _ c72 rfl
  have c80 := drop_add_of_drop hdrl (0 + 4 + 4 + 56 + 4 + 4 + 4) 4 _ _ c76 rfl
  have c84 := drop_add_of_drop hdrl (0 + 4 + 4 + 56 + 4 + 4 + 4 + 4) 4 _ _ c80 rfl
  have c88 := drop_add_of_drop hdrl (0 + 4 + 4 + 56 + 4 + 4 + 4 + 4 + 4) 4 _ _ c84 rfl
  have c140 := drop_add_of_drop hdrl (0 + 4 + 4 + 56 + 4 + 4 + 4 + 4 + 4 + 4) 52 _ _ c88 hp1
  -- the chunk `avih`
  obtain ⟨w1, t1, i1, k1, a1, b1, s1, f1, n1⟩ := walk_tag_avih hdrl w0 _ (by rw [h0]; exact c0)
  have r1 := walk_round (fuel + 3) hdrl len w0 w1 (by omega) t1
  -- the list tag of the stream list
  obtain ⟨w2, t2, i2, k2, a2, b2, s2, f2, n2, l2⟩ := walk_tag_list hdrl w1 _ (by
    rw [show w1.i = 0 + 4 + 4 + 56 from by omega]
    exact c64)
  have r2 := walk_round (fuel + 2) hdrl len w1 w2 (by omega) t2
  -- the stream header
  obtain ⟨w3, t3, i3, k3, a3, b3, s3, f3, n3, l3⟩ := walk_tag_strh_vids hdrl w2 _ (by
    rw [show w2.i = 0 + 4 + 4 + 56 + 4 + 4 + 4 from by omega]
    exact c76) (by
      simp only [List.length_append, List.length_cons, List.length_nil, long2str]
      omega) (by rw [s2, s1, hs0])
  have r3 := walk_round (fuel + 1) hdrl len w2 w3 (by omega) t3
  -- the stream format
  obtain ⟨w4, t4, i4, k4, a4, b4, s4, f4, n4⟩ := walk_tag_strf_vids hdrl w3 _ (by
    rw [show w3.i = 0 + 4 + 4 + 56 + 4 + 4 + 4 + 4 + 4 + 4 + 52 from by omega]
    exact c140) (by
      rw [List.length_append]
      omega) l3
  have r4 := walk_round fuel hdrl len w3 w4 (by omega) t4
  refine ⟨w4, by rw [r1, r2, r3, r4], by omega,
    walk_kept_trans (walk_kept_trans (walk_kept_trans k1 k2) k3) k4, ?_, ?_, ?_, f4, ?_⟩
  · rw [a4, a3, a2, a1]
  · rw [b4, b3, n2, n1]
  · rw [s4, s3]
  · rw [n4, n3, n2, n1]

theorem walk_auds_part (A : avi_t) :
    ∀ (js : List Nat) (fuel : Nat) (hdrl pre : List UInt8) (len : Int) (w : hdrl_walk),
      hdrl = pre ++ (js.map (fun j => close_list_bytes (close_auds_steps A j))).flatten →
      w.i = pre.length → len = (hdrl.length : Int) → w.AVI.anum + (js.length : Int) ≤ 8 →
      ∃ w2, avi_parse_header (fuel + 3 * js.length + 1) hdrl len w = some (walk_exit.next w2) ∧
        walk_kept w w2 ∧ w2.AVI.anum = w.AVI.anum + (js.length : Int) ∧
        w2.video_strn = w.video_strn ∧ w2.vids_strh_seen = w.vids_strh_seen ∧
        w2.vids_strf_seen = w.vids_strf_seen := by
  intro js
  induction js with
  | nil =>
    intro fuel hdrl pre len w hh hi hlen _
    rw [List.map_nil, List.flatten_nil, List.append_nil] at hh
    refine ⟨w, ?_, walk_kept_refl w, by simp, rfl, rfl, rfl⟩
    show avi_parse_header (fuel + 1) hdrl len w = _
    rw [avi_parse_header, if_neg (by rw [hlen, hi, hh]; omega)]
  | cons j rest ih =>
    intro fuel hdrl pre len w hh hi hlen ha
    rw [List.length_cons] at ha
    push_cast at ha
    obtain ⟨x, p1, p2, hs, hp1, hp2⟩ := close_auds_shape A j
    have hL := avi_close_header_auds_strf_len_cases A j
    rw [List.map_cons, List.flatten_cons] at hh
    have hbl : (close_list_bytes (close_auds_steps A j)).length = 84 + p2.length := by
      rw [hs]
      simp only [List.length_append, List.length_cons, List.length_nil, long2str, hp1]
      omega
    have hh2 := hh
    rw [hs] at hh2
    simp only [List.append_assoc] at hh2
    have c0 := congrArg (List.drop pre.length) hh2
    rw [List.drop_left] at c0
    have c4 := drop_add_of_drop hdrl _ 4 _ _ c0 rfl
    have c8 := drop_add_of_drop hdrl _ 4 _ _ c4 rfl
    have c12 := drop_add_of_drop hdrl _ 4 _ _ c8 rfl
    have c16 := drop_add_of_drop hdrl _ 4 _ _ c12 rfl
    have c20 := drop_add_of_drop hdrl _ 4 _ _ c16 rfl
    have c24 := drop_add_of_drop hdrl _ 4 _ _ c20 rfl
    have c76 := drop_add_of_drop hdrl _ 52 _ _ c24 hp1
    have hlen2 : len = (pre.length : Int) + 84 + (p2.length : Int)
        + (((rest.map (fun j => close_list_bytes (close_auds_steps A j))).flatten).length : Int)
        := by
      rw [hlen, hh, List.length_append, List.length_append, hbl]
      push_cast
      omega
    -- the list tag
    obtain ⟨w1, t1, i1, k1, a1, b1, s1, f1, n1, l1⟩ := walk_tag_list hdrl w _ (by
      rw [hi]
      exact c0)
    have r1 := walk_round (fuel + 3 * rest.length + 1 + 2) hdrl len w w1 (by omega) t1
    -- the stream header
    obtain ⟨w2, t2, i2, k2, a2, b2, s2, f2, n2, l2⟩ := walk_tag_strh_auds hdrl w1 _ (by
      rw [show w1.i = pre.length + 4 + 4 + 4 from by omega]
      exact c12) (by
        simp only [List.length_append, List.length_cons, List.length_nil, long2str]
        omega) (by omega)
    have r2 := walk_round (fuel + 3 * rest.length + 1 + 1) hdrl len w1 w2 (by omega) t2
    -- the stream format
    obtain ⟨w3, t3, i3, k3, a3, b3, s3, f3, n3⟩ := walk_tag_strf_auds hdrl w2
      (avi_close_header_auds_strf_len A j) _ (by
        rw [show w2.i = pre.length + 4 + 4 + 4 + 4 + 4 + 4 + 52 from by omega]
        exact c76) hL (by
          rw [List.length_append]
          rcases hL with h | h <;> rw [h] at hp2 <;> omega) l2
    have r3 := walk_round (fuel + 3 * rest.length + 1) hdrl len w2 w3 (by omega) t3
    -- the tracks that follow
    obtain ⟨w4, e4, k4, a4, b4, s4, f4⟩ := ih fuel hdrl
      (pre ++ close_list_bytes (close_auds_steps A j)) len w3 (by
        rw [hh, List.append_assoc]) (by
        rw [List.length_append, hbl]
        omega) hlen (by omega)
    refine ⟨w4, ?_, walk_kept_trans (walk_kept_trans (walk_kept_trans k1 k2) k3) k4, ?_, ?_, ?_,
      ?_⟩
    · rw [List.length_cons,
        show fuel + 3 * (rest.length + 1) + 1 = fuel + 3 * rest.length + 1 + 2 + 1 from by
          omega, r1, r2, r3]
      exact e4
    · rw [a4, a3, a2, a1, List.length_cons]
      push_cast
      omega
    · rw [b4, b3, b2, b1]
    · rw [s4, s3, s2, s1]
    · rw [f4, f3, f2, f1]

theorem close_auds_flatten_lower (A : avi_t) :
    ∀ (js : List Nat), 102 * js.length
      ≤ ((js.map (fun j => close_list_bytes (close_auds_steps A j))).flatten).length := by
  intro js
  induction js with
  | nil => simp
  | cons j rest ih =>
    rw [List.map_cons, List.flatten_cons, List.length_append, List.length_cons]
    rcases close_auds_list_length A j with h | h <;> omega

theorem walk_close_hdrl (A : avi_t) (hasIndex : Bool) (hx : A.extradata = none)
    (hxs : A.extradata_size = 0) (hc : 4 ≤ A.compressor.length) (ha0 : 0 ≤ A.anum)
    (ha : A.anum ≤ 8) (w0 : hdrl_walk) (h0 : w0.i = 0) (hs0 : w0.vids_strh_seen = false)
    (hn0 : w0.num_stream = 0) (han : w0.AVI.anum = 0) :
    ∃ w, avi_parse_header ((close_hdrl_bytes A hasIndex).length + 1)
        (close_hdrl_bytes A hasIndex) ((close_hdrl_bytes A hasIndex).length : Int) w0
        = some (walk_exit.next w) ∧
      walk_kept w0 w ∧ w.AVI.anum = A.anum ∧ w.video_strn = 0 ∧ w.vids_strh_seen = true ∧
      w.vids_strf_seen = true := by
  obtain ⟨pa, ea, hpa⟩ := close_avih_shape A hasIndex
  obtain ⟨x, p1, p2, ev, hp1, hp2⟩ := close_vids_shape A hx hxs hc
  have hv4 : (close_list_bytes (close_vids_steps A)).length = 124 := by
    have h2 := close_vids_steps_length A hx hc
    simp only [close_list_bytes, List.length_append, List.length_cons, List.length_nil, long2str]
    omega
  have hall : (close_hdrl_bytes A hasIndex).length
      = 188 + ((List.range A.anum.toNat).map
        (fun j => close_list_bytes (close_auds_steps A j))).flatten.length := by
    simp only [close_hdrl_bytes, List.length_append, close_avih_steps_length, hv4]
  have hau := close_auds_flatten_lower A (List.range A.anum.toNat)
  rw [List.length_range] at hau
  have hh : close_hdrl_bytes A hasIndex
      = [97, 118, 105, 104] ++ (long2str 56 ++ (pa ++ ([76, 73, 83, 84]
        ++ (long2str x ++ ([115, 116, 114, 108] ++ ([115, 116, 114, 104] ++ (long2str 56
        ++ ([118, 105, 100, 115] ++ (p1 ++ ([115, 116, 114, 102] ++ (long2str 40
        ++ (long2str 40 ++ (p2 ++ ((List.range A.anum.toNat).map
          (fun j => close_list_bytes (close_auds_steps A j))).flatten))))))))))))) := by
    unfold close_hdrl_bytes
    rw [ea, ev]
    simp only [List.append_assoc]
  obtain ⟨f, hf⟩ : ∃ f, (close_hdrl_bytes A hasIndex).length + 1
      = (f + 3 * (List.range A.anum.toNat).length + 1) + 4 :=
    ⟨(close_hdrl_bytes A hasIndex).length - 3 * A.anum.toNat - 4, by
      rw [List.length_range]
      omega⟩
  obtain ⟨w1, r1, i1, k1, a1, b1, s1, f1, n1⟩ := walk_vids_part
    (f + 3 * (List.range A.anum.toNat).length + 1) (close_hdrl_bytes A hasIndex) pa p1 p2 _ x
    ((close_hdrl_bytes A hasIndex).length : Int) w0 h0 hs0 hh hpa hp1 hp2 (by omega)
  obtain ⟨w2, r2, k2, a2, b2, s2, f2⟩ := walk_auds_part A (List.range A.anum.toNat) f
    (close_hdrl_bytes A hasIndex)
    (steps_bytes (close_avih_steps A hasIndex) ++ close_list_bytes (close_vids_steps A))
    ((close_hdrl_bytes A hasIndex).length : Int) w1 rfl (by
      rw [i1, List.length_append, close_avih_steps_length, hv4]) rfl (by
      rw [a1, han, List.length_range]
      omega)
  refine ⟨w2, by rw [hf, r1, r2], walk_kept_trans k1 k2, ?_, ?_, ?_, ?_⟩
  · rw [a2, a1, han, List.length_range]
    omega
  · rw [b2, b1, hn0]
  · rw [s2, s1]
  · rw [f2, f1]

/-! ### The round trip: the legacy index with its audio tracks -/

theorem idx1_audio_bytes_cons (tag e : List UInt8) (rest : List (List UInt8)) :
    idx1_audio_bytes tag (e :: rest)
      = (if strncasecmp_eq e tag 4 = true then (((str2ulong (e.drop 12)).getD 0 : Nat) : Int)
          else 0) + idx1_audio_bytes tag rest := by
  unfold idx1_audio_bytes
  by_cases h : strncasecmp_eq e tag 4 = true
  · rw [List.filter_cons, if_pos h, List.map_cons, List.sum_cons, if_pos h]
  · rw [List.filter_cons, if_neg h, if_neg h, Int.zero_add]

theorem legacy_fill_audio_tot (tag : Nat → List UInt8) (entry : List UInt8) (ioff : Int) :
    ∀ (js : List Nat) (aud aud2 : Nat → audio_build),
      legacy_fill_audio tag entry ioff js aud = some aud2 → js.Nodup →
      ∀ j, (aud2 j).tot = (aud j).tot
        + (if j ∈ js ∧ strncasecmp_eq entry (tag j) 4 = true then
            (((str2ulong (entry.drop 12)).getD 0 : Nat) : Int) else 0) := by
  intro js
  induction js with
  | nil =>
    intro aud aud2 h _ j
    rw [legacy_fill_audio] at h
    rw [← Option.some.inj h]
    simp
  | cons k rest ih =>
    intro aud aud2 h hnd j
    rw [List.nodup_cons] at hnd
    rw [legacy_fill_audio] at h
    by_cases hm : strncasecmp_eq entry (tag k) 4 = true
    · rw [if_pos hm] at h
      split at h
      · rename_i pos len hp hl
        split at h
        · rename_i s hs
          have := ih _ _ h hnd.2 j
          rw [this]
          unfold audio_build.add at hs
          split at hs
          · cases hs
          · rw [← Option.some.inj hs]
            by_cases hjk : j = k
            · subst hjk
              rw [Function.update_same, if_neg (fun hc => hnd.1 hc.1), Int.add_zero,
                if_pos ⟨List.mem_cons_self _ _, hm⟩, hl]
              rfl
            · rw [Function.update_noteq hjk]
              congr 1
              by_cases hc : j ∈ rest ∧ strncasecmp_eq entry (tag j) 4 = true
              · rw [if_pos hc, if_pos ⟨List.mem_cons_of_mem _ hc.1, hc.2⟩]
              · rw [if_neg hc, if_neg (fun hc2 => hc ⟨by
                  rcases List.mem_cons.mp hc2.1 with h1 | h1
                  · exact absurd h1 hjk
                  · exact h1, hc2.2⟩)]
        · cases h
      · cases h
    · rw [if_neg hm] at h
      have := ih _ _ h hnd.2 j
      rw [this]
      congr 1
      by_cases hc : j ∈ rest ∧ strncasecmp_eq entry (tag j) 4 = true
      · rw [if_pos hc, if_pos ⟨List.mem_cons_of_mem _ hc.1, hc.2⟩]
      · rw [if_neg hc, if_neg (fun hc2 => hc ⟨by
          rcases List.mem_cons.mp hc2.1 with h1 | h1
          · rw [h1] at hc2
            exact absurd hc2.2 hm
          · exact h1, hc2.2⟩)]

theorem legacy_fill_loop_tot (vt : List UInt8) (tag : Nat → List UInt8) (anum : Nat)
    (ioff : Int) :
    ∀ (entries : List (List UInt8)) (st st2 : legacy_fill),
      legacy_fill_loop vt tag anum ioff entries st = some st2 →
      ∀ j, j < anum → (st2.aud j).tot = (st.aud j).tot + idx1_audio_bytes (tag j) entries := by
  intro entries
  induction entries with
  | nil =>
    intro st st2 h j _
    rw [legacy_fill_loop] at h
    rw [← Option.some.inj h]
    simp [idx1_audio_bytes]
  | cons e rest ih =>
    intro st st2 h j hj
    rw [legacy_fill_loop] at h
    split at h
    · cases h
    · rename_i v hv
      split at h
      · cases h
      · rename_i aud haud
        have h1 := legacy_fill_audio_tot tag e ioff _ _ _ haud (List.nodup_range anum) j
        have h2 := ih _ _ h j hj
        rw [h2, idx1_audio_bytes_cons]
        show (aud j).tot + _ = _
        rw [h1, if_congr (and_iff_right (List.mem_range.mpr hj)) rfl rfl]
        omega

theorem legacy_index_audio (AVI : avi_t) (idx_type : Int) (idx : List (List UInt8))
    (hidx : AVI.idx = some idx) (hn : AVI.n_idx.toNat ≤ idx.length)
    (hlen : ∀ e ∈ idx, 16 ≤ e.length)
    (hvid : idx1_video_records AVI.video_tag (idx.take AVI.n_idx.toNat) ≠ []) :
    ∃ A2, avi_parse_input_file_legacy AVI idx_type = some (Except.ok A2) ∧
      A2.video_index = some (idx1_video_entries AVI.video_tag
        (if idx_type = 1 then 8 else AVI.movi_start + 4) (idx.take AVI.n_idx.toNat)) ∧
      A2.video_frames
        = ((idx1_video_records AVI.video_tag (idx.take AVI.n_idx.toNat)).length : Int) ∧
      A2.anum = AVI.anum ∧
      ∀ j, j < AVI.anum.toNat → (A2.track j).audio_bytes
        = idx1_audio_bytes (AVI.track j).audio_tag (idx.take AVI.n_idx.toNat) := by
  have hc : (legacy_count AVI.video_tag (fun j => (AVI.track j).audio_tag) AVI.anum.toNat
      (idx.take AVI.n_idx.toNat) (0, fun _ => 0)).1
      = (idx1_video_records AVI.video_tag (idx.take AVI.n_idx.toNat)).length := by
    rw [legacy_count_fst]
    simp [idx1_video_records, List.countP_eq_length_filter]
  have hc0 : ¬ (legacy_count AVI.video_tag (fun j => (AVI.track j).audio_tag) AVI.anum.toNat
      (idx.take AVI.n_idx.toNat) (0, fun _ => 0)).1 = 0 := by
    rw [hc]
    intro h0
    exact hvid (List.length_eq_zero.mp h0)
  obtain ⟨r, hr⟩ := legacy_returns AVI idx_type idx hidx hn hlen
  unfold avi_parse_input_file_legacy at hr ⊢
  rw [hidx] at hr ⊢
  simp only [] at hr ⊢
  rw [if_pos hn] at hr ⊢
  simp only [] at hr ⊢
  rw [if_neg hc0] at hr ⊢
  split at hr
  · cases hr
  · rename_i st hst
    obtain ⟨v1, v2⟩ := legacy_fill_loop_video _ _ _ _ _ _ _ hst
    refine ⟨_, rfl, ?_, ?_, rfl, ?_⟩
    · show some st.video_index = _
      rw [v2]
      simp only [List.take_zero, List.nil_append, Nat.zero_add]
      rw [← hc, List.drop_of_length_le (by rw [List.length_replicate]), List.append_nil]
    · show ((legacy_count _ _ _ _ _).1 : Int) = _
      rw [hc]
    · intro j hj
      have ht := legacy_fill_loop_tot _ _ _ _ _ _ _ hst j hj
      simp only [if_pos hj]
      rw [ht]
      simp only [Int.zero_add]

theorem avi_parse_index_audio (AVI : avi_t) (idx : List (List UInt8)) (fd : plat_file)
    (hidx : AVI.idx = some idx) (hn : AVI.n_idx.toNat ≤ idx.length)
    (hlen : ∀ e ∈ idx, 16 ≤ e.length) (hod : AVI.is_opendml = 0)
    (hvid : idx1_video_records AVI.video_tag (idx.take AVI.n_idx.toNat) ≠ [])
    (hty : avi_parse_idx_type AVI (idx.take AVI.n_idx.toNat) = some (Except.ok (1, fd))) :
    ∃ A2, avi_parse_index AVI = some (parse_result.ret 0 A2) ∧
      A2.video_index = some (idx1_video_entries AVI.video_tag 8 (idx.take AVI.n_idx.toNat)) ∧
      A2.video_frames
        = ((idx1_video_records AVI.video_tag (idx.take AVI.n_idx.toNat)).length : Int) ∧
      A2.anum = AVI.anum ∧
      ∀ j, j < AVI.anum.toNat → (A2.track j).audio_bytes
        = idx1_audio_bytes (AVI.track j).audio_tag (idx.take AVI.n_idx.toNat) := by
  obtain ⟨A1, h1, h2, h3, h4, h5⟩ := legacy_index_audio { AVI with fdes := fd } 1 idx hidx hn
    hlen hvid
  rw [if_pos rfl] at h2
  unfold avi_parse_index
  rw [hidx]
  simp only []
  rw [if_pos hn, hty]
  simp only []
  rw [if_neg (by intro h; exact absurd h.1 (by decide))]
  unfold avi_parse_build_index
  simp only []
  rw [if_neg (not_not.mpr hod), if_neg (by intro h; exact absurd h.2 (by decide))]
  have e : ({ AVI with fdes := fd, idx := some idx } : avi_t) = { AVI with fdes := fd } := by
    rw [← hidx]
  rw [e, h1]
  exact ⟨_, rfl, h2, h3, h4, h5⟩

/-! ### The round trip: the stream tags -/

theorem avi_parse_audio_tags_range :
    ∀ (n i : Nat) (A : avi_t), i + n ≤ 8 →
      ∃ A2, avi_parse_audio_tags 0 (List.range' (i + 1) n) i A = some A2 ∧
        A2 = { A with track := A2.track } ∧
        (∀ j, i ≤ j → j < i + n → (A2.track j).audio_tag = stream_tag ((j : Int) + 1) 119 98) ∧
        (∀ j, j < i → A2.track j = A.track j) := by
  intro n
  induction n with
  | zero =>
    intro i A _
    exact ⟨A, rfl, rfl, fun j h1 h2 => by omega, fun _ _ => rfl⟩
  | succ n ih =>
    intro i A hi
    obtain ⟨A2, e, f, t1, t2⟩ := ih (i + 1)
      (A.set_track i { A.track i with audio_tag := stream_tag ((i + 1 : Nat) : Int) 119 98 })
      (by omega)
    refine ⟨A2, ?_, ?_, ?_, ?_⟩
    · rw [List.range'_succ, avi_parse_audio_tags, if_neg (by omega),
        if_neg (by simp only [AVI_MAX_TRACKS]; omega)]
      exact e
    · rw [f]
      rfl
    · intro j h1 h2
      by_cases hj : j = i
      · subst hj
        rw [t2 j (by omega)]
        show (Function.update A.track j _ j).audio_tag = _
        rw [Function.update_same]
        show stream_tag ((j + 1 : Nat) : Int) 119 98 = _
        push_cast
        rfl
      · exact t1 j (by omega) (by omega)
    · intro j hj
      rw [t2 j (by omega)]
      show Function.update A.track i _ j = _
      rw [Function.update_noteq (by omega)]

theorem range_succ_eq (n : Nat) : List.range (n + 1) = 0 :: List.range' 1 n := by
  rw [List.range_eq_range', List.range'_succ]

theorem stream_tag_video : stream_tag 0 100 98 = [48, 48, 100, 98] := by decide

theorem stream_tag_audio (j : Nat) (hj : j < 9) :
    stream_tag ((j : Int) + 1) 119 98 = [48, UInt8.ofNat (49 + j), 119, 98] := by
  interval_cases j <;> decide

theorem snprintf_wb_digit (v : Nat) (hv : v < 10) :
    snprintf_wb v = [48, UInt8.ofNat (48 + v), 119, 98] := by
  interval_cases v <;> decide

/-! ### The round trip: what the calls of the writer leave in the file -/

theorem writer_frame_refl (A : avi_t) : writer_frame A A := rfl

theorem writer_frame_trans {A B C : avi_t} (h1 : writer_frame A B) (h2 : writer_frame B C) :
    writer_frame A C := by
  unfold writer_frame at *
  rw [h2, h1]

theorem writer_frame_of_rotation {A B : avi_t} (h : rotation_frame A B) : writer_frame A B := by
  obtain ⟨a1, _⟩ := h
  unfold writer_frame
  rw [a1]

theorem writer_frame_of_odml {A B : avi_t} (h : odml_frame A B) : writer_frame A B := by
  obtain ⟨a1, _⟩ := h
  unfold writer_frame
  rw [a1]

theorem writer_frame_fields {A B : avi_t} (h : writer_frame A B) :
    B.anum = A.anum ∧ B.aptr = A.aptr ∧ B.mode = A.mode ∧ B.compressor = A.compressor ∧
    B.extradata = A.extradata ∧ B.extradata_size = A.extradata_size ∧
    B.comment_fd = A.comment_fd := by
  unfold writer_frame at h
  refine ⟨?_, ?_, ?_, ?_, ?_, ?_, ?_⟩ <;> rw [h]

theorem avi_add_odml_index_entry_writer_frame (A : avi_t) (e : Int) (tag : List UInt8)
    (flags : Int) (len : Nat) (o : outcome)
    (h : avi_add_odml_index_entry A e tag flags len = some o) : writer_frame A o.AVI := by
  unfold avi_add_odml_index_entry at h
  split at h
  · cases h
  · rename_i A1 hA1
    have f1 := writer_frame_of_rotation (odml_init_rotation _ _ _ hA1)
    split at h
    · cases h
    · split at h
      · cases h
      · rename_i r hrot
        have f2 := writer_frame_of_rotation (odml_rotate_facts _ _ _ _ hrot).1
        split at h
        · rw [← Option.some.inj h]
          exact writer_frame_trans f1 f2
        · have f3 := writer_frame_of_odml (odml_store_frame _ _ _ _ _ _ h).1
          exact writer_frame_trans f1 (writer_frame_trans f2 f3)

theorem plat_write_data_writer_frame (A : avi_t) (e : Int) (data : List UInt8) (len : Nat)
    (audio : Bool) (keyframe : Int) (o : outcome)
    (h : plat_write_data A e data len audio keyframe = some o) : writer_frame A o.AVI := by
  unfold plat_write_data at h
  split at h
  · cases h
  · rename_i A1 hA1
    have f1 : writer_frame A A1 := by
      unfold write_legacy_entry at hA1
      split at hA1
      · obtain ⟨_, h1, _⟩ := avi_add_index_entry_effect _ _ _ _ _ _ hA1
        unfold writer_frame
        rw [h1]
      · rw [← Option.some.inj hA1]
        exact writer_frame_refl A
    split at h
    · cases h
    · rename_i o1 ho1
      have f2 := avi_add_odml_index_entry_writer_frame _ _ _ _ _ _ ho1
      split at h
      · rw [← Option.some.inj h]
        exact writer_frame_trans f1 f2
      · split at h
        · cases h
        · rename_i o2 ho2
          have f3 : writer_frame o1.AVI o2.AVI := by
            have := avi_add_chunk_frame _ _ _ _ _ _ ho2
            unfold writer_frame
            rw [this]
          have f : writer_frame A o2.AVI := writer_frame_trans f1 (writer_frame_trans f2 f3)
          split at h <;> (rw [← Option.some.inj h]; exact f)

theorem writer_call_writer_frame (c : writer_call) (A : avi_t) (e : Int) (o : outcome)
    (h : c.apply A e = some o) : writer_frame A o.AVI := by
  cases c with
  | write_frame data bytes keyframe =>
    simp only [writer_call.apply, AVI_write_frame] at h
    split at h
    · rw [← Option.some.inj h]
      exact writer_frame_refl A
    · split at h
      · cases h
      · rename_i o1 ho1
        have f := plat_write_data_writer_frame _ _ _ _ _ _ _ ho1
        split at h
        · rw [← Option.some.inj h]
          exact f
        · rw [← Option.some.inj h]
          refine writer_frame_trans f ?_
          rfl
  | write_audio data bytes =>
    simp only [writer_call.apply, AVI_write_audio] at h
    split at h
    · rw [← Option.some.inj h]
      exact writer_frame_refl A
    · split at h
      · cases h
      · rename_i o1 ho1
        have f := plat_write_data_writer_frame _ _ _ _ _ _ _ ho1
        split at h
        · rw [← Option.some.inj h]
          exact f
        · rw [← Option.some.inj h]
          refine writer_frame_trans f ?_
          rfl

theorem writer_call_step (c : writer_call) (A : avi_t) (e : Int) (o : outcome)
    (h : c.apply A e = some o) (hr : o.ret = 0) (hod0 : A.is_opendml = 0)
    (hod1 : o.AVI.is_opendml = 0) (hb0 : 0 ≤ c.bytes) (hb1 : c.bytes < 2 ^ 31) :
    0 ≤ A.n_idx ∧ o.AVI.n_idx = A.n_idx + 1 ∧
    (∃ a, o.AVI.idx = some a ∧ a[A.n_idx.toNat]? = some (call_record A.aptr A.pos c) ∧
      ∀ k x, k < A.n_idx.toNat → (A.idx.getD [])[k]? = some x → a[k]? = some x) ∧
    o.AVI.fdes = { A.fdes with
      data := write_at A.fdes.data A.fdes.offset (call_chunk A.aptr c)
      offset := A.fdes.offset + (call_chunk A.aptr c).length } ∧
    o.AVI.pos = A.pos + (8 + PAD_EVEN ((c.bytes.toNat : Nat) : Int)) ∧
    ((call_chunk A.aptr c).length : Int) = 8 + PAD_EVEN ((c.bytes.toNat : Nat) : Int) := by
  cases c with
  | write_frame data bytes keyframe =>
    obtain ⟨B, hcw, hB, _, _⟩ := AVI_write_frame_effect A e data bytes keyframe o h hr hod0
      hod1 hb0 hb1
    obtain ⟨c1, c2, ⟨a, c3, c4, c5⟩, c6, c7, c8, _⟩ := hcw
    refine ⟨c1, ?_, ⟨a, ?_, c4, c5⟩, ?_, ?_, c8⟩
    · rw [hB]
      exact c2
    · rw [hB]
      exact c3
    · rw [hB]
      exact c6
    · rw [hB]
      exact c7
  | write_audio data bytes =>
    obtain ⟨B, hcw, hB, _, _⟩ := AVI_write_audio_effect A e data bytes o h hr hod0 hod1 hb0 hb1
    obtain ⟨c1, c2, ⟨a, c3, c4, c5⟩, c6, c7, c8, _⟩ := hcw
    refine ⟨c1, ?_, ⟨a, ?_, c4, c5⟩, ?_, ?_, c8⟩
    · rw [hB]
      exact c2
    · rw [hB]
      exact c3
    · rw [hB]
      exact c6
    · rw [hB]
      exact c7

theorem calls_chunks_cons (aptr : Nat) (c : writer_call) (rest : List writer_call) :
    calls_chunks aptr (c :: rest) = call_chunk aptr c ++ calls_chunks aptr rest := rfl

theorem writer_calls_bytes :
    ∀ (calls : List writer_call) (s t : avi_t × Int),
      writer_calls calls s = some t → writer_calls_succeed calls s →
      s.1.is_opendml = 0 → t.1.is_opendml = 0 →
      (∀ c ∈ calls, 0 ≤ c.bytes ∧ c.bytes < 2 ^ 31) →
      s.1.fdes.offset = s.1.fdes.data.length → 0 ≤ s.1.n_idx →
      t.1.fdes = { s.1.fdes with
        data := s.1.fdes.data ++ calls_chunks s.1.aptr calls
        offset := s.1.fdes.data.length + (calls_chunks s.1.aptr calls).length } ∧
      t.1.pos = s.1.pos + ((calls_chunks s.1.aptr calls).length : Int) ∧
      (calls_chunks s.1.aptr calls).length % 2 = 0 ∧
      t.1.n_idx = s.1.n_idx + (calls.length : Int) ∧
      (∀ k r, (calls_records s.1.aptr s.1.pos calls)[k]? = some r →
        (t.1.idx.getD [])[s.1.n_idx.toNat + k]? = some r) ∧
      (∀ k x, k < s.1.n_idx.toNat → (s.1.idx.getD [])[k]? = some x →
        (t.1.idx.getD [])[k]? = some x) ∧
      writer_frame s.1 t.1 ∧
      (∀ c ∈ calls, ((call_chunk s.1.aptr c).length : Int)
        = 8 + PAD_EVEN ((c.bytes.toNat : Nat) : Int)) := by
  intro calls
  induction calls with
  | nil =>
    intro s t h _ _ _ _ hoff _
    rw [writer_calls] at h
    rw [← Option.some.inj h]
    refine ⟨?_, by simp [calls_chunks], rfl, by simp, ?_, fun _ _ _ hx => hx,
      writer_frame_refl _, fun c hc => absurd hc (List.not_mem_nil _)⟩
    · show s.1.fdes = { data := s.1.fdes.data ++ [], offset := s.1.fdes.data.length + 0
                        limit := s.1.fdes.limit }
      rw [List.append_nil, Nat.add_zero, ← hoff]
    · intro k r hk
      simp [calls_records] at hk
  | cons c rest ih =>
    intro s t h hs hod0 hod1 hb hoff hn
    rw [writer_calls] at h
    unfold writer_calls_succeed at hs
    rw [writer_calls_all_zero] at hs
    split at h
    · cases h
    · rename_i o ho
      rw [ho] at hs
      simp only [Bool.and_eq_true, decide_eq_true_eq] at hs
      obtain ⟨hr, hs2⟩ := hs
      obtain ⟨_, _, hodc, _⟩ := writer_call_facts c s.1 s.2 o ho
      obtain ⟨_, _, hmono, _⟩ := writer_calls_facts rest (o.AVI, o.AVI_errno) t h
      have hodo : o.AVI.is_opendml = 0 := by
        have h1 : (0 : Int) ≤ o.AVI.is_opendml := by
          rcases hodc with h2 | h2 <;> rw [h2, hod0] <;> decide
        have := hmono h1
        simp only [] at this
        omega
      obtain ⟨hb0, hb1⟩ := hb c (List.mem_cons_self _ _)
      obtain ⟨s1, s2, ⟨a, s3, s4, s5⟩, s6, s7, s8⟩ := writer_call_step c s.1 s.2 o ho hr hod0
        hodo hb0 hb1
      have hfr := writer_call_writer_frame c s.1 s.2 o ho
      obtain ⟨_, haptr, _⟩ := writer_frame_fields hfr
      have hfd : o.AVI.fdes = { s.1.fdes with
          data := s.1.fdes.data ++ call_chunk s.1.aptr c
          offset := s.1.fdes.data.length + (call_chunk s.1.aptr c).length } := by
        rw [s6, hoff, write_at_end]
      obtain ⟨i1, i2, i3, i4, i5, i6, i7, i8⟩ := ih (o.AVI, o.AVI_errno) t h hs2 hodo hod1
        (fun x hx => hb x (List.mem_cons_of_mem _ hx)) (by
          show o.AVI.fdes.offset = o.AVI.fdes.data.length
          rw [hfd, List.length_append]) (by
          show 0 ≤ o.AVI.n_idx
          omega)
      simp only [] at i1 i2 i3 i4 i5 i6 i7 i8
      rw [haptr] at i1 i2 i3 i5 i8
      have hcl : (call_chunk s.1.aptr c).length % 2 = 0 := by
        have : PAD_EVEN ((c.bytes.toNat : Nat) : Int) % 2 = 0 := by
          unfold PAD_EVEN
          omega
        omega
      refine ⟨?_, ?_, ?_, ?_, ?_, ?_, writer_frame_trans hfr i7, ?_⟩
      rotate_right
      · intro x hx
        rcases List.mem_cons.mp hx with hx | hx
        · rw [hx]
          exact s8
        · exact i8 x hx
      · rw [i1, hfd, calls_chunks_cons]
        simp only [List.append_assoc, List.length_append]
        congr 1
        omega
      · rw [i2, s7, calls_chunks_cons, List.length_append]
        push_cast
        omega
      · rw [calls_chunks_cons, List.length_append]
        omega
      · rw [i4, s2, List.length_cons]
        push_cast
        omega
      · intro k r hk
        cases k with
        | zero =>
          rw [calls_records, List.getElem?_cons_zero] at hk
          rw [← Option.some.inj hk, Nat.add_zero]
          refine i6 _ _ (by omega) ?_
          rw [s3]
          exact s4
        | succ k =>
          rw [calls_records, List.getElem?_cons_succ, ← s7] at hk
          have := i5 k r hk
          rw [show s.1.n_idx.toNat + (k + 1) = o.AVI.n_idx.toNat + k from by omega]
          exact this
      · intro k x hk hx
        refine i6 _ _ (by omega) ?_
        rw [s3]
        exact s5 k x hk hx

/-! ### The round trip: the records of the calls as the reader takes them -/

theorem call_record_tag (aptr : Nat) (pos : Int) (c : writer_call) :
    call_record aptr pos c = write_tag aptr c.audio
      ++ (long2str (write_flags c.audio c.keyframe)
        ++ (long2str ((long_to_ulong pos : Nat) : Int)
          ++ long2str ((c.bytes.toNat : Nat) : Int))) := by
  unfold call_record idx1_record
  rw [List.take_of_length_le (by rw [write_tag_length]), List.append_assoc, List.append_assoc]

theorem call_record_length (aptr : Nat) (pos : Int) (c : writer_call) :
    (call_record aptr pos c).length = 16 := by
  rw [call_record_tag]
  simp only [List.length_append, write_tag_length, long2str_length]

theorem call_record_is_video (aptr : Nat) (pos : Int) (c : writer_call) (ha : aptr < 9) :
    strncasecmp_eq (call_record aptr pos c) [48, 48, 100, 98] 3 = !c.audio := by
  rw [call_record_tag, strncasecmp_eq_append 3 _ _ _ (by rw [write_tag_length]; omega)]
  generalize c.audio = b
  cases b
  · rfl
  · interval_cases aptr <;> decide

theorem call_record_is_audio (aptr j : Nat) (pos : Int) (c : writer_call) (ha : aptr < 9)
    (hj : j < 9) :
    strncasecmp_eq (call_record aptr pos c) (stream_tag ((j : Int) + 1) 119 98) 4
      = (c.audio && decide (j = aptr)) := by
  rw [call_record_tag, strncasecmp_eq_append 4 _ _ _ (by rw [write_tag_length])]
  generalize c.audio = b
  cases b
  · have hw : write_tag aptr false = [48, 48, 100, 98] := rfl
    rw [hw, Bool.false_and]
    interval_cases j <;> decide
  · interval_cases j <;> interval_cases aptr <;> decide

theorem call_record_fields (aptr : Nat) (pos : Int) (c : writer_call) (hp0 : 0 ≤ pos)
    (hp1 : pos < 2 ^ 32) (hb0 : 0 ≤ c.bytes) (hb1 : c.bytes < 2 ^ 31) :
    str2ulong ((call_record aptr pos c).drop 4)
      = some (write_flags c.audio c.keyframe).toNat ∧
    str2ulong ((call_record aptr pos c).drop 8) = some pos.toNat ∧
    str2ulong ((call_record aptr pos c).drop 12) = some c.bytes.toNat := by
  obtain ⟨_, f1, f2, f3⟩ := idx1_record_offset (write_tag aptr c.audio)
    (write_flags c.audio c.keyframe) (long_to_ulong pos) c.bytes.toNat
    (by rw [write_tag_length])
  unfold call_record
  rw [f1, f2, f3]
  refine ⟨?_, ?_, ?_⟩
  · congr 1
    unfold write_flags
    split
    · rfl
    · split <;> rfl
  · congr 1
    unfold long_to_ulong
    omega
  · congr 1
    omega

theorem idx1_video_entries_cons (vt : List UInt8) (base : Int) (e : List UInt8)
    (rest : List (List UInt8)) :
    idx1_video_entries vt base (e :: rest)
      = (if strncasecmp_eq e vt 3 = true then
          [{ key := (((str2ulong (e.drop 4)).getD 0 : Nat) : Int)
             pos := (((str2ulong (e.drop 8)).getD 0 : Nat) : Int) + base
             len := (((str2ulong (e.drop 12)).getD 0 : Nat) : Int) }]
         else []) ++ idx1_video_entries vt base rest := by
  unfold idx1_video_entries idx1_video_records
  by_cases h : strncasecmp_eq e vt 3 = true
  · rw [List.filter_cons, if_pos h, List.map_cons, if_pos h]
    rfl
  · rw [List.filter_cons, if_neg h, if_neg h, List.nil_append]

theorem calls_end_ge : ∀ (calls : List writer_call) (pos : Int), pos ≤ calls_end pos calls := by
  intro calls
  induction calls with
  | nil =>
    intro pos
    exact le_refl _
  | cons c rest ih =>
    intro pos
    rw [calls_end]
    have := ih (pos + (8 + PAD_EVEN ((c.bytes.toNat : Nat) : Int)))
    have h2 := PAD_EVEN_eq ((c.bytes.toNat : Nat) : Int)
    omega

/-- The video index that the reader builds from the records of the calls. -/
theorem calls_records_video_index (aptr : Nat) (ha : aptr < 9) :
    ∀ (calls : List writer_call) (pos : Int), 0 ≤ pos →
      (∀ c ∈ calls, 0 ≤ c.bytes ∧ c.bytes < 2 ^ 31) → calls_end pos calls < 2 ^ 32 →
      idx1_video_entries [48, 48, 100, 98] 8 (calls_records aptr pos calls)
        = calls_video_index pos calls := by
  intro calls
  induction calls with
  | nil =>
    intro pos _ _ _
    rfl
  | cons c rest ih =>
    intro pos hp hb he
    rw [calls_end] at he
    have hge := calls_end_ge rest (pos + (8 + PAD_EVEN ((c.bytes.toNat : Nat) : Int)))
    have hpe := PAD_EVEN_eq ((c.bytes.toNat : Nat) : Int)
    obtain ⟨hb0, hb1⟩ := hb c (List.mem_cons_self _ _)
    obtain ⟨f1, f2, f3⟩ := call_record_fields aptr pos c hp (by omega) hb0 hb1
    rw [calls_records, idx1_video_entries_cons, calls_video_index, call_record_is_video _ _ _ ha,
      ih _ (by omega) (fun x hx => hb x (List.mem_cons_of_mem _ hx)) he, f1, f2, f3]
    congr 1
    cases hc : c.audio with
    | true => rfl
    | false =>
      simp only [Bool.not_false, if_true, Option.getD_some, Bool.false_eq_true, if_false]
      congr 1
      have k1 : ((write_flags false c.keyframe).toNat : Int)
          = if c.keyframe ≠ 0 then 0x10 else 0 := by
        unfold write_flags
        simp only [Bool.false_eq_true, if_false]
        split <;> rfl
      rw [k1, Int.toNat_of_nonneg hp, Int.toNat_of_nonneg hb0]

theorem calls_video_index_length :
    ∀ (calls : List writer_call) (pos : Int),
      (calls_video_index pos calls).length = calls_frames calls := by
  intro calls
  induction calls with
  | nil =>
    intro pos
    rfl
  | cons c rest ih =>
    intro pos
    rw [calls_video_index, List.length_append, ih]
    unfold calls_frames
    rw [List.filter_cons]
    cases c.audio
    · simp only [Bool.not_false, if_true, Bool.false_eq_true, if_false, List.length_cons,
        List.length_nil]
      omega
    · simp only [Bool.not_true, Bool.false_eq_true, if_false, if_true, List.length_nil]
      omega

theorem calls_frames_pos (calls : List writer_call) (h : ∃ c ∈ calls, c.audio = false) :
    0 < calls_frames calls := by
  obtain ⟨c, hc, ha⟩ := h
  unfold calls_frames
  exact List.length_pos_of_mem (List.mem_filter.mpr ⟨hc, by rw [ha]; rfl⟩)

/-- The audio bytes that the reader counts for track `j` from the records of
the calls, which all went to track `aptr`. -/
theorem calls_records_audio_bytes (aptr j : Nat) (ha : aptr < 9) (hj : j < 9) :
    ∀ (calls : List writer_call) (pos : Int), 0 ≤ pos →
      (∀ c ∈ calls, 0 ≤ c.bytes ∧ c.bytes < 2 ^ 31) → calls_end pos calls < 2 ^ 32 →
      idx1_audio_bytes (stream_tag ((j : Int) + 1) 119 98) (calls_records aptr pos calls)
        = if j = aptr then calls_audio_bytes calls else 0 := by
  intro calls
  induction calls with
  | nil =>
    intro pos _ _ _
    simp [calls_records, idx1_audio_bytes, calls_audio_bytes]
  | cons c rest ih =>
    intro pos hp hb he
    rw [calls_end] at he
    have hge := calls_end_ge rest (pos + (8 + PAD_EVEN ((c.bytes.toNat : Nat) : Int)))
    have hpe := PAD_EVEN_eq ((c.bytes.toNat : Nat) : Int)
    obtain ⟨hb0, hb1⟩ := hb c (List.mem_cons_self _ _)
    obtain ⟨_, _, f3⟩ := call_record_fields aptr pos c hp (by omega) hb0 hb1
    rw [calls_records, idx1_audio_bytes_cons, call_record_is_audio _ _ _ _ ha hj,
      ih _ (by omega) (fun x hx => hb x (List.mem_cons_of_mem _ hx)) he, f3]
    unfold calls_audio_bytes
    rw [List.filter_cons]
    by_cases hja : j = aptr
    · cases hc : c.audio with
      | true =>
        simp only [hja, Bool.true_and, decide_True, if_true, Option.getD_some, List.map_cons,
          List.sum_cons]
        rw [Int.toNat_of_nonneg hb0]
      | false =>
        simp only [hja, Bool.false_and, Bool.false_eq_true, if_false, if_true, Int.zero_add]
    · cases hc : c.audio with
      | true =>
        simp only [hja, decide_False, Bool.and_false, Bool.false_eq_true, if_false, Int.zero_add]
      | false =>
        simp only [hja, Bool.false_and, Bool.false_eq_true, if_false, Int.zero_add]

theorem calls_end_eq (aptr : Nat) :
    ∀ (calls : List writer_call) (pos : Int),
      (∀ c ∈ calls, ((call_chunk aptr c).length : Int)
        = 8 + PAD_EVEN ((c.bytes.toNat : Nat) : Int)) →
      calls_end pos calls = pos + ((calls_chunks aptr calls).length : Int) := by
  intro calls
  induction calls with
  | nil =>
    intro pos _
    simp [calls_end, calls_chunks]
  | cons c rest ih =>
    intro pos h
    rw [calls_end, ih _ (fun x hx => h x (List.mem_cons_of_mem _ hx)), calls_chunks_cons,
      List.length_append, ← h c (List.mem_cons_self _ _)]
    push_cast
    omega

theorem call_chunk_head (aptr : Nat) (c : writer_call) :
    call_chunk aptr c = write_tag aptr c.audio
      ++ (long2str ((c.bytes.toNat : Nat) : Int)
        ++ (c.data.take ((c.bytes.toNat : Nat) : Int).toNat
          ++ (if ((c.bytes.toNat : Nat) : Int) % 2 = 1 then [0] else []))) := by
  unfold call_chunk chunk_bytes
  rw [List.take_of_length_le (by rw [write_tag_length]), List.append_assoc, List.append_assoc]

/-- The first record of the calls that the reader takes for a video record is
the record of the first call of `AVI_write_frame`, and the header of the chunk
of that call stands in the file at the offset that the record holds. -/
theorem calls_first_video (aptr : Nat) (ha : aptr < 9) :
    ∀ (calls : List writer_call) (pos : Int) (X Z : List UInt8), (X.length : Int) = pos →
      (∀ c ∈ calls, 0 ≤ c.bytes ∧ c.bytes < 2 ^ 31) →
      (∀ c ∈ calls, ((call_chunk aptr c).length : Int)
        = 8 + PAD_EVEN ((c.bytes.toNat : Nat) : Int)) →
      calls_end pos calls < 2 ^ 32 → (∃ c ∈ calls, c.audio = false) →
      ∃ e0 p0 len0,
        (calls_records aptr pos calls).find? (fun e => strncasecmp_eq e [48, 48, 100, 98] 3)
          = some e0 ∧
        str2ulong (e0.drop 8) = some p0 ∧ str2ulong (e0.drop 12) = some len0 ∧
        chunk_header_at (X ++ (calls_chunks aptr calls ++ Z)) (p0 : Int) e0 = true := by
  intro calls
  induction calls with
  | nil =>
    intro pos X Z _ _ _ _ h
    obtain ⟨c, hc, _⟩ := h
    exact absurd hc (List.not_mem_nil _)
  | cons c rest ih =>
    intro pos X Z hX hb hl he hv
    rw [calls_end] at he
    have hge := calls_end_ge rest (pos + (8 + PAD_EVEN ((c.bytes.toNat : Nat) : Int)))
    have hpe := PAD_EVEN_eq ((c.bytes.toNat : Nat) : Int)
    obtain ⟨hb0, hb1⟩ := hb c (List.mem_cons_self _ _)
    have hp0 : 0 ≤ pos := by omega
    obtain ⟨f1, f2, f3⟩ := call_record_fields aptr pos c hp0 (by omega) hb0 hb1
    have hcl := hl c (List.mem_cons_self _ _)
    rw [calls_records, List.find?_cons, call_record_is_video _ _ _ ha]
    cases hc : c.audio with
    | false =>
      refine ⟨_, _, _, rfl, f2, f3, ?_⟩
      have hpn : ((pos.toNat : Nat) : Int).toNat = X.length := by omega
      unfold chunk_header_at
      rw [hpn, List.drop_left, calls_chunks_cons, call_chunk_head, hc]
      have hw : write_tag aptr false = [48, 48, 100, 98] := rfl
      rw [hw, f3]
      have e8 : ([48, 48, 100, 98]
            ++ (long2str ((c.bytes.toNat : Nat) : Int)
              ++ (c.data.take ((c.bytes.toNat : Nat) : Int).toNat
                ++ (if ((c.bytes.toNat : Nat) : Int) % 2 = 1 then [0] else [])))
            ++ calls_chunks aptr rest ++ Z).take 8
          = [48, 48, 100, 98] ++ long2str ((c.bytes.toNat : Nat) : Int) := by
        simp only [List.append_assoc]
        rfl
      simp only [List.append_assoc] at e8 ⊢
      rw [e8, call_record_tag, hc, hw]
      have e4 : ([48, 48, 100, 98] ++ long2str ((c.bytes.toNat : Nat) : Int)).drop 4
          = long2str ((c.bytes.toNat : Nat) : Int) := rfl
      rw [e4, str2ulong_long2str]
      simp only [Bool.and_eq_true, decide_eq_true_eq]
      refine ⟨⟨⟨Int.ofNat_nonneg _, rfl⟩, ?_⟩, ?_⟩
      · rw [strncasecmp_eq_append 4 [48, 48, 100, 98] _ _ (by decide)]
        rfl
      · congr 1
        omega
    | true =>
      simp only [Bool.not_true, Bool.false_eq_true, if_false]
      have hv2 : ∃ x ∈ rest, x.audio = false := by
        obtain ⟨x, hx, hxa⟩ := hv
        rcases List.mem_cons.mp hx with hx | hx
        · rw [hx, hc] at hxa
          cases hxa
        · exact ⟨x, hx, hxa⟩
      obtain ⟨e0, p0, len0, g1, g2, g3, g4⟩ := ih
        (pos + (8 + PAD_EVEN ((c.bytes.toNat : Nat) : Int))) (X ++ call_chunk aptr c) Z
        (by rw [List.length_append]; push_cast; omega)
        (fun x hx => hb x (List.mem_cons_of_mem _ hx))
        (fun x hx => hl x (List.mem_cons_of_mem _ hx)) he hv2
      refine ⟨e0, p0, len0, g1, g2, g3, ?_⟩
      rw [calls_chunks_cons]
      simp only [List.append_assoc] at g4 ⊢
      exact g4

/-- The detection of the base of the offsets finds absolute offsets when the
header of the chunk of the first video record stands at the offset of the
record. -/
theorem avi_parse_idx_type_absolute (AVI : avi_t) (entries : List (List UInt8))
    (e0 : List UInt8) (p0 len0 : Nat)
    (hfind : entries.find? (fun e => strncasecmp_eq e AVI.video_tag 3) = some e0)
    (h8 : str2ulong (e0.drop 8) = some p0) (h12 : str2ulong (e0.drop 12) = some len0)
    (hch : chunk_header_at AVI.fdes.data (p0 : Int) e0 = true) :
    ∃ fd, avi_parse_idx_type AVI entries = some (Except.ok (1, fd)) := by
  obtain ⟨hm, he⟩ := avi_parse_idx_type_first AVI entries e0 hfind
  obtain ⟨c1, c2, c3⟩ := (chunk_header_at_iff AVI.fdes (p0 : Int) e0 len0 (Int.ofNat_nonneg _)
    h12).mp hch
  rw [he, avi_parse_idx_type, if_pos hm, h8, h12]
  simp only []
  rw [if_neg (not_not.mpr c1), if_pos ⟨c2, c3⟩]
  exact ⟨_, rfl⟩

/-! ### The round trip: the video super-index of a file that stays a legacy file -/

theorem avi_add_odml_index_entry_vsi (A : avi_t) (e : Int) (tag : List UInt8) (flags : Int)
    (len : Nat) (o : outcome) (h : avi_add_odml_index_entry A e tag flags len = some o)
    (h1 : ∀ vsi, A.video_superindex = some vsi → vsi.nEntriesInUse = 1)
    (hod : o.AVI.is_opendml = A.is_opendml) :
    (video_entries_in_use A ≠ none → video_entries_in_use o.AVI ≠ none) ∧
    (o.ret = 0 → tag_is_audio tag = false → video_entries_in_use o.AVI ≠ none) := by
  unfold avi_add_odml_index_entry at h
  split at h
  · cases h
  · rename_i A1 hA1
    have f1 := odml_init_frame _ _ _ hA1
    have c1 := odml_init_counts _ _ _ hA1
    obtain ⟨_, _, _, _, _, p1od, _, _, _, _⟩ := odml_frame_fields f1
    split at h
    · cases h
    · rename_i tw htw
      split at h
      · cases h
      · rename_i r hrot
        obtain ⟨fr, hodr, hno, hnone, hyes⟩ := odml_rotate_facts _ _ _ _ hrot
        have hone : ∀ v1, A1.video_superindex = some v1 → v1.nEntriesInUse = 1 := by
          intro v1 hv1
          have hk := c1.1
          rw [video_entries_in_use_some A1 v1 hv1] at hk
          rcases hk with hk | ⟨_, hk⟩
          · cases hvA : A.video_superindex with
            | none =>
              rw [video_entries_in_use, hvA] at hk
              cases hk
            | some v0 =>
              rw [video_entries_in_use_some A v0 hvA] at hk
              rw [Option.some.inj hk]
              exact h1 v0 hvA
          · exact Option.some.inj hk
        have hoo : o.AVI.is_opendml = r.AVI.is_opendml := by
          split at h
          · rw [← Option.some.inj h]
          · obtain ⟨_, _, _, _, _, psod, _⟩ := odml_frame_fields (odml_store_frame _ _ _ _ _ _ h).1
            exact psod
        cases hv1 : A1.video_superindex with
        | none =>
          obtain ⟨hrA, hr0⟩ := hnone hv1
          split at h
          · rename_i hne
            exact absurd hr0 hne
          · have cs := (odml_store_counts _ _ _ _ _ _ h).1
            constructor
            · intro hA
              have hk := c1.1
              rw [video_entries_in_use, hv1] at hk
              rcases hk with hk | ⟨_, hk⟩
              · exact absurd hk.symm hA
              · cases hk
            · intro _ htag
              unfold odml_store at h
              rw [htag] at h
              simp only [Bool.false_eq_true, if_false] at h
              rw [hrA, hv1] at h
              cases h
        | some v1 =>
          have h11 := hone v1 hv1
          by_cases hchk : A1.pos + tw > NEW_RIFF_THRES * v1.nEntriesInUse
          · have := hyes v1 hv1 hchk h11
            omega
          · obtain ⟨hrA, hr0⟩ := hno v1 hv1 hchk
            split at h
            · rename_i hne
              exact absurd hr0 hne
            · have cs := (odml_store_counts _ _ _ _ _ _ h).1
              rw [hrA, video_entries_in_use_some A1 v1 hv1] at cs
              have : video_entries_in_use o.AVI ≠ none := by
                rw [cs]
                exact Option.some_ne_none _
              exact ⟨fun _ => this, fun _ _ => this⟩

theorem plat_write_data_vsi (A : avi_t) (e : Int) (data : List UInt8) (len : Nat)
    (audio : Bool) (keyframe : Int) (o : outcome)
    (h : plat_write_data A e data len audio keyframe = some o)
    (h1 : ∀ vsi, A.video_superindex = some vsi → vsi.nEntriesInUse = 1)
    (hod : o.AVI.is_opendml = A.is_opendml) :
    (video_entries_in_use A ≠ none → video_entries_in_use o.AVI ≠ none) ∧
    (o.ret = 0 → audio = false → video_entries_in_use o.AVI ≠ none) := by
  unfold plat_write_data at h
  split at h
  · cases h
  · rename_i A1 hA1
    obtain ⟨l1, _, _⟩ := write_legacy_entry_facts _ _ _ _ _ hA1
    have a1od : A1.is_opendml = A.is_opendml := by rw [l1]
    have a1vsi : A1.video_superindex = A.video_superindex := by rw [l1]
    have a1ve : video_entries_in_use A1 = video_entries_in_use A := by
      unfold video_entries_in_use
      rw [a1vsi]
    split at h
    · cases h
    · rename_i o1 ho1
      have key : o1.AVI.is_opendml = A1.is_opendml →
          (video_entries_in_use A ≠ none → video_entries_in_use o1.AVI ≠ none) ∧
          (o1.ret = 0 → audio = false → video_entries_in_use o1.AVI ≠ none) := by
        intro hod1
        obtain ⟨k1, k2⟩ := avi_add_odml_index_entry_vsi _ _ _ _ _ _ ho1
          (by rw [a1vsi]; exact h1) hod1
        refine ⟨fun hA => k1 (by rw [a1ve]; exact hA), fun hr ha => k2 hr ?_⟩
        rw [ha]
        exact tag_is_audio_write_tag_video _
      split at h
      · rename_i hne
        rw [← Option.some.inj h] at hod ⊢
        obtain ⟨k1, _⟩ := key (by rw [a1od]; exact hod)
        exact ⟨k1, fun (h0 : (-1 : Int) = 0) => absurd h0 (by decide)⟩
      · rename_i hret
        have hr0 : o1.ret = 0 := not_not.mp hret
        split at h
        · cases h
        · rename_i o2 ho2
          have f2 := avi_add_chunk_frame _ _ _ _ _ _ ho2
          have e2 : video_entries_in_use o2.AVI = video_entries_in_use o1.AVI := by
            unfold video_entries_in_use
            rw [f2]
          have d2 : o2.AVI.is_opendml = o1.AVI.is_opendml := by rw [f2]
          have hfin : o.AVI = o2.AVI := by
            split at h <;> rw [← Option.some.inj h]
          rw [hfin] at hod ⊢
          obtain ⟨k1, k2⟩ := key (by rw [a1od, ← d2]; exact hod)
          rw [e2]
          exact ⟨k1, fun _ ha => k2 hr0 ha⟩

theorem writer_call_vsi (c : writer_call) (A : avi_t) (e : Int) (o : outcome)
    (h : c.apply A e = some o)
    (h1 : ∀ vsi, A.video_superindex = some vsi → vsi.nEntriesInUse = 1)
    (hod : o.AVI.is_opendml = A.is_opendml) :
    (video_entries_in_use A ≠ none → video_entries_in_use o.AVI ≠ none) ∧
    (o.ret = 0 → c.audio = false → video_entries_in_use o.AVI ≠ none) := by
  cases c with
  | write_frame data bytes keyframe =>
    simp only [writer_call.apply, AVI_write_frame, writer_call.audio] at h ⊢
    split at h
    · rw [← Option.some.inj h]
      exact ⟨fun hA => hA, fun (h0 : (-1 : Int) = 0) => absurd h0 (by decide)⟩
    · split at h
      · cases h
      · rename_i o1 ho1
        split at h
        · rw [← Option.some.inj h] at hod ⊢
          obtain ⟨k1, _⟩ := plat_write_data_vsi _ _ _ _ _ _ _ ho1 h1 hod
          exact ⟨k1, fun (h0 : (-1 : Int) = 0) => absurd h0 (by decide)⟩
        · rename_i hret
          rw [← Option.some.inj h] at hod ⊢
          obtain ⟨k1, k2⟩ := plat_write_data_vsi _ _ _ _ _ _ _ ho1 h1 hod
          exact ⟨k1, fun _ _ => k2 (not_not.mp hret) rfl⟩
  | write_audio data bytes =>
    simp only [writer_call.apply, AVI_write_audio, writer_call.audio] at h ⊢
    split at h
    · rw [← Option.some.inj h]
      exact ⟨fun hA => hA, fun (h0 : (-1 : Int) = 0) => absurd h0 (by decide)⟩
    · split at h
      · cases h
      · rename_i o1 ho1
        split at h
        · rw [← Option.some.inj h] at hod ⊢
          obtain ⟨k1, _⟩ := plat_write_data_vsi _ _ _ _ _ _ _ ho1 h1 hod
          exact ⟨k1, fun (h0 : (-1 : Int) = 0) => absurd h0 (by decide)⟩
        · rename_i hret
          rw [← Option.some.inj h] at hod ⊢
          obtain ⟨k1, _⟩ := plat_write_data_vsi _ _ _ _ _ _ _ ho1 h1 hod
          exact ⟨k1, fun _ (h0 : true = false) => absurd h0 (by decide)⟩

/-- A sequence of calls that all return 0 on a file that stays a legacy file
leaves a video super-index if one of them is a call of `AVI_write_frame`. -/
theorem writer_calls_vsi :
    ∀ (calls : List writer_call) (s t : avi_t × Int),
      writer_calls calls s = some t → writer_calls_succeed calls s → legacy_bound s.1 →
      s.1.is_opendml = 0 → t.1.is_opendml = 0 →
      s.1.n_idx + (calls.length : Int) ≤ 2 ^ 57 →
      (∀ c ∈ calls, 0 ≤ c.bytes ∧ c.bytes < 2 ^ 62) →
      (video_entries_in_use s.1 ≠ none ∨ ∃ c ∈ calls, c.audio = false) →
      video_entries_in_use t.1 ≠ none := by
  intro calls
  induction calls with
  | nil =>
    intro s t h _ _ _ _ _ _ hv
    rw [writer_calls] at h
    rw [← Option.some.inj h]
    rcases hv with hv | ⟨c, hc, _⟩
    · exact hv
    · exact absurd hc (List.not_mem_nil _)
  | cons c rest ih =>
    intro s t h hs hb hod0 hod1 hn hby hv
    rw [writer_calls] at h
    unfold writer_calls_succeed at hs
    rw [writer_calls_all_zero] at hs
    split at h
    · cases h
    · rename_i o ho
      rw [ho] at hs
      simp only [Bool.and_eq_true, decide_eq_true_eq] at hs
      obtain ⟨hr, hs2⟩ := hs
      obtain ⟨_, _, hodc, _, f5, _⟩ := writer_call_facts c s.1 s.2 o ho
      obtain ⟨_, _, hmono, _⟩ := writer_calls_facts rest (o.AVI, o.AVI_errno) t h
      have hodo : o.AVI.is_opendml = 0 := by
        have h1 : (0 : Int) ≤ o.AVI.is_opendml := by
          rcases hodc with h2 | h2 <;> rw [h2, hod0] <;> decide
        have := hmono h1
        simp only [] at this
        omega
      have hle := writer_call_n_idx_le c s.1 s.2 o ho
      rw [List.length_cons] at hn
      push_cast at hn
      obtain ⟨c0, c1⟩ := hby c (List.mem_cons_self _ _)
      have hbo := f5 hb (by omega) c0 c1
      obtain ⟨k1, k2⟩ := writer_call_vsi c s.1 s.2 o ho
        (fun vsi hvsi => (hb.2.2.2 hod0 vsi hvsi).1) (by rw [hodo, hod0])
      refine ih (o.AVI, o.AVI_errno) t h hs2 hbo hodo hod1 (by show o.AVI.n_idx + _ ≤ _; omega)
        (fun x hx => hby x (List.mem_cons_of_mem _ hx)) ?_
      rcases hv with hv | ⟨x, hx, hxa⟩
      · exact Or.inl (k1 hv)
      · rcases List.mem_cons.mp hx with hx | hx
        · rw [hx] at hxa
          exact Or.inl (k2 hr hxa)
        · exact Or.inr ⟨x, hx, hxa⟩

/-! ### The round trip: the reader on the layout -/

/-- The part of `avi_parse_input_file` after the header list, with
`getIndex = 1` and no sidecar index, on a handle whose video stream is stream 0
and whose `idx1` records hold absolute offsets: the index is built from
`idx1`. -/
theorem avi_parse_tags_index_layout (w : hdrl_walk) (recs : List (List UInt8)) (n : Nat)
    (hs1 : w.vids_strh_seen = true) (hs2 : w.vids_strf_seen = true) (hvs : w.video_strn = 0)
    (han : w.AVI.anum = (n : Int)) (hn8 : n ≤ 8) (hidx : w.AVI.idx = some recs)
    (hnidx : w.AVI.n_idx = (recs.length : Int)) (h16 : ∀ r ∈ recs, r.length = 16)
    (hod : w.AVI.is_opendml = 0)
    (e0 : List UInt8) (p0 len0 : Nat)
    (hfind : recs.find? (fun e => strncasecmp_eq e [48, 48, 100, 98] 3) = some e0)
    (h8 : str2ulong (e0.drop 8) = some p0) (h12 : str2ulong (e0.drop 12) = some len0)
    (hch : chunk_header_at w.AVI.fdes.data (p0 : Int) e0 = true) :
    ∃ A3, avi_parse_tags_index w 1 index_file.NULL = some (parse_result.ret 0 A3) ∧
      A3.video_index = some (idx1_video_entries [48, 48, 100, 98] 8 recs) ∧
      A3.video_frames = ((idx1_video_records [48, 48, 100, 98] recs).length : Int) ∧
      A3.anum = (n : Int) ∧
      ∀ j, j < n → (A3.track j).audio_bytes
        = idx1_audio_bytes (stream_tag ((j : Int) + 1) 119 98) recs := by
  obtain ⟨A2, hA2, hA2eq, htag, _⟩ := avi_parse_audio_tags_range n 0
    ({ w.AVI with video_tag := stream_tag 0 100 98 }.set_track 0
      { w.AVI.track 0 with
        audio_strn := if (w.AVI.track 0).a_chans = 0 then 99 else (w.AVI.track 0).audio_strn })
    (by omega)
  have a2idx : A2.idx = some recs := by rw [hA2eq]; exact hidx
  have a2n : A2.n_idx = (recs.length : Int) := by rw [hA2eq]; exact hnidx
  have a2od : A2.is_opendml = 0 := by rw [hA2eq]; exact hod
  have a2an : A2.anum = (n : Int) := by rw [hA2eq]; exact han
  have a2vt : A2.video_tag = [48, 48, 100, 98] := by rw [hA2eq]; exact stream_tag_video
  have a2fd : A2.fdes = w.AVI.fdes := by rw [hA2eq]; rfl
  have htake : recs.take A2.n_idx.toNat = recs := by
    rw [a2n, Int.toNat_ofNat, List.take_length]
  have hmem : e0 ∈ idx1_video_records [48, 48, 100, 98] recs := by
    unfold idx1_video_records
    have hp := List.find?_some hfind
    exact List.mem_filter.mpr ⟨List.mem_of_find?_eq_some hfind, hp⟩
  obtain ⟨fd, hty⟩ := avi_parse_idx_type_absolute
    { A2 with fdes := (plat_seek_set A2.fdes A2.movi_start).2 } recs e0 p0 len0
    (by show recs.find? (fun e => strncasecmp_eq e A2.video_tag 3) = some e0
        rw [a2vt]; exact hfind) h8 h12
    (by show chunk_header_at (plat_seek_set A2.fdes A2.movi_start).2.data (p0 : Int) e0 = true
        have : (plat_seek_set A2.fdes A2.movi_start).2.data = A2.fdes.data := by
          unfold plat_seek_set
          split <;> rfl
        rw [this, a2fd]
        exact hch)
  obtain ⟨A3, hA3, v1, v2, v3, v4⟩ := avi_parse_index_audio
    { A2 with fdes := (plat_seek_set A2.fdes A2.movi_start).2 } recs fd a2idx
    (by show A2.n_idx.toNat ≤ recs.length; rw [a2n]; simp)
    (fun r hr => by rw [h16 r hr])
    a2od
    (by show idx1_video_records A2.video_tag (recs.take A2.n_idx.toNat) ≠ []
        rw [a2vt, htake]
        exact List.ne_nil_of_mem hmem)
    (by show avi_parse_idx_type _ (recs.take A2.n_idx.toNat) = _
        rw [htake]
        exact hty)
  have v1b : A3.video_index = some (idx1_video_entries A2.video_tag 8 (recs.take A2.n_idx.toNat)) :=
    v1
  have v2b : A3.video_frames
      = ((idx1_video_records A2.video_tag (recs.take A2.n_idx.toNat)).length : Int) := v2
  have v3b : A3.anum = A2.anum := v3
  have v4b : ∀ j, j < A2.anum.toNat → (A3.track j).audio_bytes
      = idx1_audio_bytes (A2.track j).audio_tag (recs.take A2.n_idx.toNat) := v4
  rw [a2vt, htake] at v1b v2b
  rw [htake] at v4b
  refine ⟨A3, ?_, v1b, v2b, by rw [v3b, a2an], ?_⟩
  · unfold avi_parse_tags_index
    rw [if_neg (by rw [hs1, hs2]; simp), hvs, han]
    have hr : ((n : Int) + 1).toNat = n + 1 := by omega
    rw [hr, range_succ_eq, avi_parse_audio_tags,
      if_pos (show ((0 : Nat) : Int) = 0 from rfl)]
    have hA2b : avi_parse_audio_tags 0 (List.range' 1 n) 0
        ({ w.AVI with video_tag := stream_tag 0 100 98 }.set_track 0
          { w.AVI.track 0 with
            audio_strn :=
              if (w.AVI.track 0).a_chans = 0 then 99 else (w.AVI.track 0).audio_strn })
        = some A2 := hA2
    rw [hA2b]
    simp only []
    rw [if_neg (by simp), if_neg (by decide)]
    exact hA3
  · intro j hj
    rw [v4b j (by rw [a2an]; simpa using hj), htag j (by omega) (by omega)]

/-- `AVI_open_fd(fd, 1)` on a file with the layout that `avi_close_output_file`
leaves for the handle `Aw`, whose `idx1` records hold absolute offsets: the
handle is returned, with the index built from `idx1`. -/
theorem AVI_open_fd_layout (F : List UInt8) (P : Nat) (recs : List (List UInt8)) (Aw : avi_t)
    (L : avi_file_layout F (close_hdrl_bytes Aw true) P recs)
    (hx : Aw.extradata = none) (hxs : Aw.extradata_size = 0) (hc : 4 ≤ Aw.compressor.length)
    (ha0 : 0 ≤ Aw.anum) (ha : Aw.anum ≤ 8)
    (e0 : List UInt8) (p0 len0 : Nat)
    (hfind : recs.find? (fun e => strncasecmp_eq e [48, 48, 100, 98] 3) = some e0)
    (h8 : str2ulong (e0.drop 8) = some p0) (h12 : str2ulong (e0.drop 12) = some len0)
    (hch : chunk_header_at F (p0 : Int) e0 = true) :
    ∃ R, AVI_open_fd { data := F } 1 = some (some R, 0) ∧
      R.video_index = some (idx1_video_entries [48, 48, 100, 98] 8 recs) ∧
      R.video_frames = ((idx1_video_records [48, 48, 100, 98] recs).length : Int) ∧
      R.anum = Aw.anum ∧
      ∀ j, j < Aw.anum.toNat → (R.track j).audio_bytes
        = idx1_audio_bytes (stream_tag ((j : Int) + 1) 119 98) recs := by
  obtain ⟨fd, hscan, hfdd, hfdl⟩ := avi_parse_scan_layout F _ P recs L
  have hF12 : 12 ≤ F.length := by
    have h1 := L.file_end
    have h2 := L.movi_end
    omega
  obtain ⟨w, hwalk, hkept, hwan, hwvs, hws1, hws2⟩ := walk_close_hdrl Aw true hx hxs hc ha0 ha
    { AVI := { fdes := fd, mode := AVI_MODE_READ, movi_start := 2048, idx := some recs
               n_idx := (recs.length : Int), max_idx := (recs.length : Int) } } rfl rfl rfl rfl
  obtain ⟨k1, k2, k3, k4, k5, _⟩ := hkept
  simp only [] at k1 k2 k3 k4 k5
  obtain ⟨A3, hA3, v1, v2, v3, v4⟩ := avi_parse_tags_index_layout w recs Aw.anum.toNat hws1 hws2
    hwvs (by rw [hwan]; omega) (by omega) k2 k3 L.recs_16 k5 e0 p0 len0 hfind h8 h12
    (by rw [k1, hfdd]; exact hch)
  have hread : (plat_read ({ data := F } : plat_file) 12).2.2 = { data := F, offset := 12 } := by
    unfold plat_read
    simp only [List.drop_zero, List.length_take, Nat.zero_add]
    congr 1
    have : (if (0 : Int) ≤ 12 then (12 : Int).toNat else ((12 : Int) + 2 ^ 64).toNat) = 12 := rfl
    rw [this]
    omega
  obtain ⟨r1, r2⟩ := plat_read_12 ({ data := F } : plat_file)
  have hriff := L.riff
  have havi := L.avi
  unfold bytes_at at hriff havi
  have hmain : avi_parse_input_file { fdes := { data := F }, mode := AVI_MODE_READ } 1
      index_file.NULL = some (parse_result.ret 0 A3) := by
    unfold avi_parse_input_file
    rw [if_neg (not_not.mpr (r2.mpr (by simpa using hF12))), if_neg (by
      rw [not_not, r1]
      simp only [List.drop_zero]
      constructor
      · have e : F.take 12 = F.take 4 ++ (F.drop 4).take 8 := by
          rw [← List.take_append_drop 4 (F.take 12), List.take_take, List.drop_take]
          rfl
        rw [e, strncasecmp_eq_append 4 _ _ _ (by rw [List.length_take]; omega)]
        have : F.take 4 = [82, 73, 70, 70] := by simpa using hriff
        rw [this]
        decide
      · rw [List.drop_take]
        have : (F.drop 8).take 4 = [65, 86, 73, 32] := by simpa using havi
        show strncasecmp_eq ((F.drop 8).take (12 - 8)) [65, 86, 73, 32] 4 = true
        rw [this]
        decide)]
    show (match avi_parse_scan (F.length + 1)
        { fdes := (plat_read ({ data := F } : plat_file) 12).2.2 } with
      | none => none
      | some (top_exit.err_exit x) => some (parse_result.err_exit x)
      | some (top_exit.broken st) => _
      | some (top_exit.done st) => _) = _
    rw [hread, hscan]
    simp only []
    rw [if_neg (by decide), Int.toNat_ofNat, hwalk]
    exact hA3
  refine ⟨{ A3 with aptr := 0 }, ?_, v1, v2, by show A3.anum = _; rw [v3]; omega, ?_⟩
  · unfold AVI_open_fd AVI_open_indexfd
    rw [hmain]
  · intro j hj
    exact v4 j hj

/-! ### The round trip -/

theorem calls_records_length (aptr : Nat) :
    ∀ (calls : List writer_call) (pos : Int),
      (calls_records aptr pos calls).length = calls.length ∧
      ∀ r ∈ calls_records aptr pos calls, r.length = 16 := by
  intro calls
  induction calls with
  | nil =>
    intro pos
    exact ⟨rfl, fun r hr => absurd hr (List.not_mem_nil _)⟩
  | cons c rest ih =>
    intro pos
    obtain ⟨i1, i2⟩ := ih (pos + (8 + PAD_EVEN ((c.bytes.toNat : Nat) : Int)))
    rw [calls_records]
    refine ⟨by rw [List.length_cons, List.length_cons, i1], fun r hr => ?_⟩
    rcases List.mem_cons.mp hr with hr | hr
    · rw [hr]
      exact call_record_length _ _ _
    · exact i2 r hr

theorem take_eq_of_getElem? {α : Type} (l recs : List α)
    (h : ∀ (k : Nat) (r : α), recs[k]? = some r → l[k]? = some r) :
    l.take recs.length = recs := by
  apply List.ext_getElem?
  intro k
  rw [List.getElem?_take]
  by_cases hk : k < recs.length
  · rw [if_pos hk]
    have : recs[k]? = some recs[k] := List.getElem?_eq_getElem hk
    rw [this]
    exact h k _ this
  · rw [if_neg hk, List.getElem?_eq_none (by omega)]

/-- C16: the round trip of a file with one RIFF chunk.  On a handle as
`AVI_open_output_file`, `AVI_set_video` and `AVI_set_audio` leave it, for every
sequence of calls of `AVI_write_frame` and `AVI_write_audio` that all return 0,
with at least one frame and without rotation (`is_opendml` is still 0 after
the calls), `avi_close_output_file` returns 0, and `AVI_open_fd` with
`getIndex = 1` on the bytes of the file returns a handle whose `video_frames`
is the number of frames written, whose video index holds for each frame, in
order, the key `0x10` if `keyframe` was not 0 and 0 otherwise, the length
`bytes` and the offset of the payload, and whose `audio_bytes` is, for every
track of the file, the sum of the `bytes` written to it: all the audio of the
calls goes to the current track of the writer.  The arguments `bytes` are
lengths below `2^31`, and there are fewer than `2^57` calls. -/
theorem write_close_open_round_trip (A0 : avi_t) (e0 : Int) (calls : List writer_call)
    (A : avi_t) (e : Int) (info : List UInt8)
    (hfresh : writer_fresh A0)
    (hcalls : writer_calls calls (A0, e0) = some (A, e))
    (hsucc : writer_calls_succeed calls (A0, e0))
    (hframe : ∃ c ∈ calls, c.audio = false) (hod : A.is_opendml = 0)
    (hbytes : ∀ c ∈ calls, 0 ≤ c.bytes ∧ c.bytes < 2 ^ 31) (hcount : calls.length < 2 ^ 57) :
    ∃ o R, avi_close_output_file A e info = some (run.done o) ∧ o.ret = 0 ∧
      AVI_open_fd { data := o.AVI.fdes.data } 1 = some (some R, 0) ∧
      R.video_frames = (calls_frames calls : Int) ∧
      R.video_index = some (calls_video_index 2048 calls) ∧
      R.anum = A0.anum ∧
      ∀ j, j < A0.anum.toNat →
        (R.track j).audio_bytes = if j = A0.aptr then calls_audio_bytes calls else 0 := by
  obtain ⟨q1, q2, q3, q4, q5, q6, q7, q8, q9, q10, q11, q12, q13, q14⟩ := hfresh
  have hT : AVI_MAX_TRACKS = 8 := rfl
  rw [hT] at q13 q14
  have haptr : A0.aptr < 9 := by omega
  have hlb : legacy_bound A0 := by
    refine ⟨by rw [q6], by rw [q5], by rw [hT]; exact q13, fun _ vsi hv => ?_⟩
    rw [q7] at hv
    cases hv
  obtain ⟨b1, b2, b3, b4, b5, _, b7, b8⟩ := writer_calls_bytes calls (A0, e0) (A, e) hcalls hsucc
    q5 hod hbytes (by show A0.fdes.offset = A0.fdes.data.length; rw [q1, q2])
    (by show 0 ≤ A0.n_idx; rw [q6])
  simp only [] at b1 b2 b3 b4 b5 b7 b8
  obtain ⟨w1, w2, _, w4, w5, w6, w7⟩ := writer_frame_fields b7
  have hby62 : ∀ c ∈ calls, 0 ≤ c.bytes ∧ c.bytes < 2 ^ 62 := by
    intro c hc
    obtain ⟨c0, c1⟩ := hbytes c hc
    exact ⟨c0, by omega⟩
  have hn57 : A0.n_idx + (calls.length : Int) ≤ 2 ^ 57 := by
    rw [q6]
    omega
  have hvs := writer_calls_vsi calls (A0, e0) (A, e) hcalls hsucc hlb q5 hod hn57 hby62
    (Or.inr hframe)
  have hlbA := (writer_calls_facts calls (A0, e0) (A, e) hcalls).2.1 hlb hn57 hby62
  simp only [] at hvs hlbA
  obtain ⟨vsi, hvsi⟩ : ∃ vsi, A.video_superindex = some vsi := by
    cases hv : A.video_superindex with
    | none =>
      rw [video_entries_in_use, hv] at hvs
      exact absurd rfl hvs
    | some v => exact ⟨v, rfl⟩
  have hbound := (hlbA.2.2.2 hod vsi hvsi).2
  have hTH : NEW_RIFF_THRES = 1992294400 := rfl
  have hHB : HEADERBYTES = 2048 := rfl
  rw [hTH, hHB, b2, b4, q4, q6] at hbound
  obtain ⟨rl, r16⟩ := calls_records_length A0.aptr calls 2048
  have hDl : (A0.fdes.data ++ calls_chunks A0.aptr calls).length
      = 2048 + (calls_chunks A0.aptr calls).length := by
    rw [List.length_append, q1]
  have hdrop : (A0.fdes.data ++ calls_chunks A0.aptr calls).drop 2048
      = calls_chunks A0.aptr calls := List.drop_left' q1
  have hsmall : (A0.fdes.data ++ calls_chunks A0.aptr calls).length
      + 16 * (calls_records A0.aptr 2048 calls).length + 8 < 2 ^ 31 := by
    rw [hDl, rl]
    omega
  have hrecs : (A.idx.getD []).take (calls_records A0.aptr 2048 calls).length
      = calls_records A0.aptr 2048 calls := by
    apply take_eq_of_getElem?
    intro k r hk
    rw [q4] at b5
    have := b5 k r hk
    rw [q6] at this
    simpa using this
  obtain ⟨o, ho, hret, _, hdata⟩ := avi_close_output_file_bytes A e info
    (A0.fdes.data ++ calls_chunks A0.aptr calls) (calls_records A0.aptr 2048 calls) hod
    (by rw [w5]; exact q8) (by rw [w4]; exact q10) (by rw [w1]; exact q13)
    (by rw [w7]; exact q11)
    (by rw [b1, q3, hDl, q1])
    (by rw [b2, q4, hDl]; push_cast; rfl)
    (by rw [hDl]; omega)
    (by rw [b4, q6, rl]; simp) hrecs r16 hsmall
  have hL := close_file_layout
    (chunk_stored A [105, 100, 120, 49] (A.idx.getD []).flatten
      (16 * ((calls_records A0.aptr 2048 calls).length : Int)))
    ((A0.fdes.data ++ calls_chunks A0.aptr calls).drop 2048)
    (calls_records A0.aptr 2048 calls)
    (A0.fdes.data ++ calls_chunks A0.aptr calls).length
    (by show A.extradata = none; rw [w5]; exact q8)
    (by show 4 ≤ A.compressor.length; rw [w4]; exact q10)
    (by show A.anum ≤ 8; rw [w1]; exact q13)
    (by rw [hdrop, hDl])
    (by rw [hDl]; omega) r16
    (by rw [hDl, rl]; omega)
  rw [← hdata] at hL
  have hhl := close_header_bytes_length
    (chunk_stored A [105, 100, 120, 49] (A.idx.getD []).flatten
      (16 * ((calls_records A0.aptr 2048 calls).length : Int))) true
    (((A0.fdes.data ++ calls_chunks A0.aptr calls).length : Int) - 2048 + 4)
    (by show A.extradata = none; rw [w5]; exact q8)
    (by show 4 ≤ A.compressor.length; rw [w4]; exact q10)
    (by show A.anum ≤ 8; rw [w1]; exact q13)
  have hce := calls_end_eq A0.aptr calls 2048 b8
  obtain ⟨e1, p0, len0, hfind, h8, h12, hch⟩ := calls_first_video A0.aptr haptr calls 2048
    (close_header_bytes
      (chunk_stored A [105, 100, 120, 49] (A.idx.getD []).flatten
        (16 * ((calls_records A0.aptr 2048 calls).length : Int))) true
      (((A0.fdes.data ++ calls_chunks A0.aptr calls).length : Int) - 2048 + 4))
    ([105, 100, 120, 49] ++ long2str (16 * ((calls_records A0.aptr 2048 calls).length : Int))
      ++ (calls_records A0.aptr 2048 calls).flatten)
    (by rw [hhl]; rfl) hbytes b8 (by rw [hce]; omega) hframe
  have hF : o.AVI.fdes.data
      = close_header_bytes
          (chunk_stored A [105, 100, 120, 49] (A.idx.getD []).flatten
            (16 * ((calls_records A0.aptr 2048 calls).length : Int))) true
          (((A0.fdes.data ++ calls_chunks A0.aptr calls).length : Int) - 2048 + 4)
        ++ (calls_chunks A0.aptr calls
          ++ ([105, 100, 120, 49]
            ++ long2str (16 * ((calls_records A0.aptr 2048 calls).length : Int))
            ++ (calls_records A0.aptr 2048 calls).flatten)) := by
    rw [hdata, hdrop, List.append_assoc]
  rw [← hF] at hch
  obtain ⟨R, hR, v1, v2, v3, v4⟩ := AVI_open_fd_layout o.AVI.fdes.data _ _ _ hL
    (by show A.extradata = none; rw [w5]; exact q8)
    (by show A.extradata_size = 0; rw [w6]; exact q9)
    (by show 4 ≤ A.compressor.length; rw [w4]; exact q10)
    (by show 0 ≤ A.anum; rw [w1]; exact q12)
    (by show A.anum ≤ 8; rw [w1]; exact q13)
    e1 p0 len0 hfind h8 h12 hch
  have hvi := calls_records_video_index A0.aptr haptr calls 2048 (by decide) hbytes
    (by rw [hce]; omega)
  have v3b : R.anum = A.anum := v3
  have v4b : ∀ j, j < A.anum.toNat → (R.track j).audio_bytes
      = idx1_audio_bytes (stream_tag ((j : Int) + 1) 119 98)
          (calls_records A0.aptr 2048 calls) := v4
  refine ⟨o, R, ho, hret, hR, ?_, ?_, by rw [v3b, w1], ?_⟩
  · rw [v2, ← calls_video_index_length calls 2048, ← hvi]
    unfold idx1_video_entries
    rw [List.length_map]
  · rw [v1, hvi]
  · intro j hj
    rw [v4b j (by rw [w1]; exact hj), calls_records_audio_bytes A0.aptr j haptr (by omega) calls
      2048 (by decide) hbytes (by rw [hce]; omega)]

/-! ### The round trip: the handles it starts from -/

/-- `AVI_open_output_file` on a device without limit leaves a handle on which
the calls of the writer can start. -/
theorem AVI_open_output_file_fresh (e e2 : Int) (A : avi_t)
    (h : AVI_open_output_file none e = (some A, e2)) : writer_fresh A := by
  obtain ⟨s1, s2, s3, _, s5, s6, s7, s8, s9, _⟩ := AVI_open_output_file_state _ _ _ _ h
  unfold AVI_open_output_file at h
  split at h
  · split at h
    · cases h
    · have hA := Option.some.inj (congrArg Prod.fst h)
      refine ⟨by rw [s2, List.length_replicate], s3, s9, s1, s5, s6, s8, by rw [← hA],
        by rw [← hA], ?_, ?_, by rw [s7], by rw [s7]; decide, ?_⟩
      · rw [← hA]
        exact (by decide : 4 ≤ 8)
      · rw [← hA]
      · rw [← hA]
        exact (by decide : ((0 : Nat) : Int) < AVI_MAX_TRACKS)
  · cases h

theorem header_written_fresh (A : avi_t) (hdr : List UInt8) (hl : hdr.length = 2048)
    (hf : writer_fresh A) : writer_fresh (header_written A hdr) := by
  obtain ⟨q1, q2, q3, q4, q5, q6, q7, q8, q9, q10, q11, q12, q13, q14⟩ := hf
  refine ⟨?_, ?_, q3, q4, q5, q6, q7, q8, q9, q10, q11, q12, q13, q14⟩
  · show (write_at A.fdes.data 0 hdr).length = 2048
    rw [write_at_length, q1, hl]
    rfl
  · show A.pos.toNat = 2048
    rw [q4]
    rfl

theorem avi_update_header_fresh (A : avi_t) (e : Int) (hf : writer_fresh A) :
    ∃ hdr, hdr.length = 2048 ∧
      avi_update_header A e
        = some (run.done { ret := 0, AVI := header_written A hdr, AVI_errno := e }) := by
  obtain ⟨q1, q2, q3, q4, q5, q6, q7, q8, q9, q10, q11, q12, q13, q14⟩ := hf
  have hH : HEADERBYTES = 2048 := rfl
  obtain ⟨_, h, eh, n0, n1, lh⟩ := update_header_inside A q13 q8 q10
  obtain ⟨_, hdr, ej, lj⟩ := header_junk_movi_some h
    (to_int32 (AVI_MAX_LEN - HEADERBYTES + 4)) lh n0 (by rw [hH]; omega)
  have hb : avi_update_header_build A = some (run.done hdr) := by
    unfold avi_update_header_build
    rw [eh]
    exact ej
  exact ⟨hdr, lj, avi_update_header_exec A e hdr hb lj q3 (by rw [q4]; decide)⟩

/-- `AVI_set_video` returns, and leaves a handle on which the calls of the
writer can start as it has found one. -/
theorem AVI_set_video_fresh (A : avi_t) (e : Int) (width height : Int) (fps : ℚ)
    (compressor : List UInt8) (hmode : A.mode ≠ AVI_MODE_READ) (hc : 4 ≤ compressor.length)
    (hf : writer_fresh A) :
    ∃ B, AVI_set_video A e width height fps compressor = some (run.done (B, e)) ∧
      writer_fresh B ∧ B.mode = A.mode ∧ B.anum = A.anum ∧ B.aptr = A.aptr := by
  have hf2 : writer_fresh (AVI_set_video_fields A width height fps compressor) := by
    obtain ⟨q1, q2, q3, q4, q5, q6, q7, q8, q9, q10, q11, q12, q13, q14⟩ := hf
    refine ⟨q1, q2, q3, q4, q5, q6, q7, q8, q9, ?_, q11, q12, q13, q14⟩
    show 4 ≤ ((if compressor.take 3 = [82, 71, 66] then [0, 0, 0, 0] else compressor.take 4)
      ++ [0] ++ A.compressor.drop 5).length
    rw [List.length_append, List.length_append]
    split
    · simp only [List.length_cons, List.length_nil]
      omega
    · rw [List.length_take]
      simp only [List.length_cons, List.length_nil]
      omega
  obtain ⟨hdr, hl, hu⟩ := avi_update_header_fresh _ e hf2
  refine ⟨_, ?_, header_written_fresh _ hdr hl hf2, rfl, rfl, rfl⟩
  unfold AVI_set_video
  rw [if_pos hmode, if_neg (by omega), hu]

/-- `AVI_set_audio` on a handle with fewer than `AVI_MAX_TRACKS` tracks
returns, and leaves a handle on which the calls of the writer can start, with
one track more, which is the current track. -/
theorem AVI_set_audio_fresh (A : avi_t) (e : Int) (channels rate bits format mp3rate : Int)
    (hmode : A.mode ≠ AVI_MODE_READ) (hnum : A.anum + 1 ≤ AVI_MAX_TRACKS)
    (hf : writer_fresh A) :
    ∃ B, AVI_set_audio A e channels rate bits format mp3rate = some (run.done (B, e)) ∧
      writer_fresh B ∧ B.mode = A.mode ∧ B.anum = A.anum + 1 ∧ B.aptr = A.anum.toNat := by
  have hf2 : writer_fresh (AVI_set_audio_fields A channels rate bits format mp3rate) := by
    obtain ⟨q1, q2, q3, q4, q5, q6, q7, q8, q9, q10, q11, q12, q13, q14⟩ := hf
    refine ⟨q1, q2, q3, q4, q5, q6, q7, q8, q9, q10, q11, ?_, hnum, ?_⟩
    · show 0 ≤ A.anum + 1
      omega
    · show ((A.anum.toNat : Nat) : Int) < AVI_MAX_TRACKS
      omega
  obtain ⟨hdr, hl, hu⟩ := avi_update_header_fresh _ e hf2
  refine ⟨_, ?_, header_written_fresh _ hdr hl hf2, rfl, rfl, rfl⟩
  unfold AVI_set_audio
  rw [if_pos hmode, if_neg (by omega), hu]

theorem demo_round_trip_calls_eq :
    writer_calls demo_round_trip_calls (demo_audio_avi, 0)
      = some (demo_round_trip_avi, demo_audio_small_index.AVI_errno) ∧
    writer_calls_succeed demo_round_trip_calls (demo_audio_avi, 0) := by
  constructor
  · simp only [demo_round_trip_calls, demo_round_trip_avi, writer_calls, writer_call.apply]
    rw [demo_audio_frame_avi_eq]
    simp only []
    rw [demo_audio_small_eq]
  · unfold writer_calls_succeed
    simp only [demo_round_trip_calls, writer_calls_all_zero, writer_call.apply]
    rw [demo_audio_frame_avi_eq]
    simp only []
    rw [demo_audio_small_eq]
    simp only [decide_True, Bool.and_self]

theorem write_close_open_round_trip_witness :
    ∃ o R, avi_close_output_file demo_round_trip_avi demo_audio_small_index.AVI_errno []
        = some (run.done o) ∧ o.ret = 0 ∧
      AVI_open_fd { data := o.AVI.fdes.data } 1 = some (some R, 0) ∧
      R.video_frames = 1 ∧ R.video_index = some [{ key := 16, pos := 2056, len := 3 }] ∧
      R.anum = 1 ∧ (R.track 0).audio_bytes = 2 := by
  obtain ⟨o, R, h1, h2, h3, h4, h5, h6, h7⟩ := write_close_open_round_trip demo_audio_avi 0
    demo_round_trip_calls demo_round_trip_avi demo_audio_small_index.AVI_errno []
    (by decide!) demo_round_trip_calls_eq.1 demo_round_trip_calls_eq.2
    ⟨writer_call.write_frame [1, 2, 3] 3 1, List.mem_cons_self _ _, rfl⟩ (by decide!)
    (by
      intro c hc
      simp only [demo_round_trip_calls, List.mem_cons, List.mem_singleton, List.mem_nil_iff,
        or_false] at hc
      rcases hc with hc | hc <;> rw [hc] <;> exact ⟨by decide, by decide⟩)
    (by decide)
  have a1 : demo_audio_avi.anum = 1 := by decide!
  have a2 : demo_audio_avi.aptr = 0 := by decide!
  refine ⟨o, R, h1, h2, h3, ?_, ?_, by rw [h6, a1], ?_⟩
  · rw [h4]
    decide
  · rw [h5]
    decide
  · rw [h7 0 (by rw [a1]; decide), a2]
    decide

end Avilib
